import Mathlib

/-!
# Verification of the deeds registration core of quantiphyse

Shallow embedding of the C++ sources under `src/` and proofs of the
properties claimed for them.  C `float`/`double` arithmetic is modelled
over the rationals (exact arithmetic), C `int` values are integers, and
every array is a buffer with a size whose cells may be uninitialised:
reading outside the buffer, reading an uninitialised cell, dividing by
zero, or running out of loop fuel makes the computation fail.
-/

namespace Deeds

/-! ## Memory and control model -/

/-- Ways in which a run of the embedded code can fail. -/
inductive Err where
  | oob
  | uninit
  | divZero
  | fuel
  deriving DecidableEq, Repr

/-- Array allocated with `new T[size]`: a size and the cells, `none` being a
cell that was never written. -/
structure Buf (α : Type) where
  size : Nat
  data : Nat → Option α

namespace Buf

/-- Freshly allocated array, `new T[n]`: no cell is initialised. -/
def new {α : Type} (n : Nat) : Buf α := ⟨n, fun _ => none⟩

/-- Array of `n` cells holding `f 0 .. f (n-1)`. -/
def ofFn {α : Type} (n : Nat) (f : Nat → α) : Buf α :=
  ⟨n, fun i => if i < n then some (f i) else none⟩

/-- Checked read `b[i]`. -/
def get {α : Type} (b : Buf α) (i : Int) : Except Err α :=
  if 0 ≤ i ∧ i < b.size then
    match b.data i.toNat with
    | some x => .ok x
    | none => .error Err.uninit
  else .error Err.oob

/-- Checked write `b[i] = x`. -/
def set {α : Type} (b : Buf α) (i : Int) (x : α) : Except Err (Buf α) :=
  if 0 ≤ i ∧ i < b.size then
    .ok ⟨b.size, Function.update b.data i.toNat (some x)⟩
  else .error Err.oob

end Buf

/-- Loop `for (i = lo; i < lo + cnt; i++) body`, threading the state. -/
def forLoop {σ : Type} (body : Nat → σ → Except Err σ) : Nat → Nat → σ → Except Err σ
  | _, 0, s => .ok s
  | lo, cnt + 1, s => body lo s >>= forLoop body (lo + 1) cnt

/-- Loop `for (i = cnt; i > 0; i--) body`, threading the state. -/
def forDown {σ : Type} (body : Nat → σ → Except Err σ) : Nat → σ → Except Err σ
  | 0, s => .ok s
  | cnt + 1, s => body (cnt + 1) s >>= forDown body cnt

/-- Progress of a loop that rewrites an array cell by cell: the array has
`sz` cells, those below `i` hold `new` and the others still hold `old`. -/
def Buf.Upto (b : Buf ℚ) (sz i : Nat) (new old : Nat → Option ℚ) : Prop :=
  b.size = sz ∧ ∀ l, l < sz → b.data l = if l < i then new l else old l

/-! ## `minimumIndA` (deedsMSTssc.cpp) -/

/-- State of the scan of `minimumIndA`: the running `value` and `index`. -/
structure MinState where
  value : ℚ
  index : Int

/-- Body of the loop of `minimumIndA`:
`if(numbers[i]<value){ index=i; value=numbers[i]; }`. -/
def minimumIndA.body (numbers : Buf ℚ) (i : Nat) (s : MinState) : Except Err MinState := do
  let x ← numbers.get i
  if x < s.value then
    let x' ← numbers.get i
    pure ⟨x', i⟩
  else pure s

/-- Embedding of `minimumIndA(numbers,value,index,length)`; the two output
references are returned as a `MinState`. -/
def minimumIndA (numbers : Buf ℚ) (length : Nat) : Except Err MinState := do
  let value ← numbers.get 0
  forLoop (minimumIndA.body numbers) 1 (length - 1) ⟨value, 0⟩

/-! ## Label table (regularisation2T.h, dataCostD_mind.h) and `ind2sub` -/

/-- Loop nest `for(i<a) for(j<b) for(k<c) body`. -/
def tripleLoop {σ : Type} (a b c : Nat) (body : Nat → Nat → Nat → σ → Except Err σ)
    (s : σ) : Except Err σ :=
  forLoop (fun i s => forLoop (fun j s => forLoop (fun k s => body i j k s) 0 c s) 0 b s)
    0 a s

/-- Position reached before another one in the order of a three-deep loop
nest: `(i',j',k')` is visited before `(i,j,k)`. -/
def Before (i j k i' j' k' : Nat) : Prop :=
  i' < i ∨ (i' = i ∧ (j' < j ∨ (j' = j ∧ k' < k)))

/-- The three label-vector tables `xs`, `ys`, `zs` of `regularisation`. -/
structure LabelTable where
  xs : Buf ℚ
  ys : Buf ℚ
  zs : Buf ℚ

/-- Innermost statement block of the table loops of `regularisation`:
the three writes at `i+j*len+k*len*len`. -/
def labelWrite (hw : Nat) (quant : ℚ) (i j k : Nat) (t : LabelTable) : Except Err LabelTable := do
  let len : Nat := hw * 2 + 1
  let xs ← t.xs.set ((i : Int) + j * len + k * len * len) ((((j : Int) - hw : Int) : ℚ) * quant)
  let ys ← t.ys.set ((i : Int) + j * len + k * len * len) ((((i : Int) - hw : Int) : ℚ) * quant)
  let zs ← t.zs.set ((i : Int) + j * len + k * len * len) ((((k : Int) - hw : Int) : ℚ) * quant)
  pure ⟨xs, ys, zs⟩

/-- Label table of `regularisation`: allocation of `xs`, `ys`, `zs` with
`len*len*len` cells each, followed by the loop nest. -/
def labelTable (hw : Nat) (quant : ℚ) : Except Err LabelTable :=
  let len : Nat := hw * 2 + 1
  tripleLoop len len len (labelWrite hw quant)
    ⟨Buf.new (len * len * len), Buf.new (len * len * len), Buf.new (len * len * len)⟩

/-- The flat indices `i+j*len+k*len*len` in the order in which the loop nest
of the label table writes them: the same loop nest run with a body that
records the index instead of writing the tables. -/
def labelVisits (hw : Nat) : Except Err (List Nat) :=
  let len : Nat := hw * 2 + 1
  tripleLoop len len len (fun i j k log => .ok (log ++ [i + j * len + k * len * len])) []

/-- C conversion `(int)x` of a floating-point value: truncation toward zero. -/
def truncToInt (x : ℚ) : Int := if 0 ≤ x then ⌊x⌋ else ⌈x⌉

/-- The label tables of `dataCost`: `xs`, `ys`, `zs` and the flat voxel
offset `inds` of every label. -/
structure CostTable where
  xs : Buf ℚ
  ys : Buf ℚ
  zs : Buf ℚ
  inds : Buf Int

/-- Innermost statement block of the table loops of `dataCost`. -/
def dataCost.labelWrite (hw : Nat) (quant : ℚ) (m n : Nat) (i j k : Nat) (t : CostTable) :
    Except Err CostTable := do
  let len : Nat := hw * 2 + 1
  let ind1 : Int := (i : Int) + j * len + k * len * len
  let xs ← t.xs.set ((i : Int) + j * len + k * len * len) ((((j : Int) - hw : Int) : ℚ) * quant)
  let ys ← t.ys.set ((i : Int) + j * len + k * len * len) ((((i : Int) - hw : Int) : ℚ) * quant)
  let zs ← t.zs.set ((i : Int) + j * len + k * len * len) ((((k : Int) - hw : Int) : ℚ) * quant)
  let y1 ← ys.get ind1
  let x1 ← xs.get ind1
  let z1 ← zs.get ind1
  let inds ← t.inds.set ind1 (truncToInt (y1 + x1 * m + z1 * m * n))
  pure ⟨xs, ys, zs, inds⟩

/-- Label table of `dataCost`: `len4=(int)pow((float)len,3)` cells per table. -/
def dataCost.labelTable (hw : Nat) (quant : ℚ) (m n : Nat) : Except Err CostTable :=
  let len : Nat := hw * 2 + 1
  let len4 : Nat := (truncToInt ((len : ℚ) ^ 3)).toNat
  tripleLoop len len len (dataCost.labelWrite hw quant m n)
    ⟨Buf.new len4, Buf.new len4, Buf.new len4, Buf.new len4⟩

/-- Embedding of `ind2sub(subdisp,len,ind)`, returning
`(subdisp[0], subdisp[1], subdisp[2])`; C integer division truncates. -/
def ind2sub (len : Int) (ind : Int) : Except Err (ℚ × ℚ × ℚ) :=
  if len * len = 0 then .error Err.divZero else
    let search := (len - 1).tdiv 2
    let z := ind.tdiv (len * len)
    let x := (ind - z * len * len).tdiv len
    let y := ind - z * len * len - x * len
    .ok (((y - search : Int) : ℚ), ((x - search : Int) : ℚ), ((z - search : Int) : ℚ))

/-! ## Trilinear interpolation `interp3` and `warpImage` (symmetricDiffeomorphic.h) -/

/-- Value of a 32-bit two's-complement `int` holding the integer `x`. -/
def wrapInt (x : Int) : Int := (x + 2147483648) % 4294967296 - 2147483648

/-- Clamped coordinate `min(max(a,0),hi-1)`. -/
def clampIdx (a : Int) (hi : Nat) : Int := min (max a 0) ((hi : Int) - 1)

/-- Flat input index of the sample at integer position `(y,x,z)` in `interp3`:
`min(max(y,0),m2-1)+min(max(x,0),n2-1)*m2+min(max(z,0),o2-1)*m2*n2`. -/
def interp3.corner (m2 n2 o2 : Nat) (y x z : Int) : Int :=
  clampIdx y m2 + clampIdx x n2 * m2 + clampIdx z o2 * m2 * n2

/-- Body of the loops of `interp3` for the output voxel `(i,j,k)`; the eight
reads of `input` are made in the order of the source expression. -/
def interp3.voxel (input x1 y1 z1 : Buf ℚ) (m n : Nat) (m2 n2 o2 : Nat) (flag : Bool)
    (k j i : Nat) (interp : Buf ℚ) : Except Err (Buf ℚ) := do
  let p : Int := (i : Int) + j * m + k * m * n
  let x0 := wrapInt ⌊(← x1.get p)⌋
  let y0 := wrapInt ⌊(← y1.get p)⌋
  let z0 := wrapInt ⌊(← z1.get p)⌋
  let dx : ℚ := (← x1.get p) - x0
  let dy : ℚ := (← y1.get p) - y0
  let dz : ℚ := (← z1.get p) - z0
  let x := if flag then wrapInt (x0 + j) else x0
  let y := if flag then wrapInt (y0 + i) else y0
  let z := if flag then wrapInt (z0 + k) else z0
  let c000 ← input.get (interp3.corner m2 n2 o2 y x z)
  let c100 ← input.get (interp3.corner m2 n2 o2 (wrapInt (y + 1)) x z)
  let c010 ← input.get (interp3.corner m2 n2 o2 y (wrapInt (x + 1)) z)
  let c001 ← input.get (interp3.corner m2 n2 o2 y x (wrapInt (z + 1)))
  let c110 ← input.get (interp3.corner m2 n2 o2 (wrapInt (y + 1)) (wrapInt (x + 1)) z)
  let c101 ← input.get (interp3.corner m2 n2 o2 (wrapInt (y + 1)) x (wrapInt (z + 1)))
  let c011 ← input.get (interp3.corner m2 n2 o2 y (wrapInt (x + 1)) (wrapInt (z + 1)))
  let c111 ← input.get (interp3.corner m2 n2 o2 (wrapInt (y + 1)) (wrapInt (x + 1))
    (wrapInt (z + 1)))
  interp.set p ((1 - dx) * (1 - dy) * (1 - dz) * c000 +
    (1 - dx) * dy * (1 - dz) * c100 +
    dx * (1 - dy) * (1 - dz) * c010 +
    (1 - dx) * (1 - dy) * dz * c001 +
    dx * dy * (1 - dz) * c110 +
    (1 - dx) * dy * dz * c101 +
    dx * (1 - dy) * dz * c011 +
    dx * dy * dz * c111)

/-- Embedding of `interp3(interp,input,x1,y1,z1,m,n,o,m2,n2,o2,flag)` for
`TypeI = float`; the output array `interp` is returned. -/
def interp3 (interp input x1 y1 z1 : Buf ℚ) (m n o m2 n2 o2 : Nat) (flag : Bool) :
    Except Err (Buf ℚ) :=
  tripleLoop o n m (interp3.voxel input x1 y1 z1 m n m2 n2 o2 flag) interp

/-- Embedding of `warpImage(warped,im1,u1,v1,w1,m,n,o)`. -/
def warpImage (warped im1 u1 v1 w1 : Buf ℚ) (m n o : Nat) : Except Err (Buf ℚ) :=
  interp3 warped im1 u1 v1 w1 m n o m n o true

/-! ## `consistentMapping` (symmetricDiffeomorphic.h) -/

/-- Trilinear lookup: the value `interp3` writes at the output voxel `(i,j,k)`
when its input and coordinate arrays hold the functions `f`, `fx`, `fy`, `fz`
of the flat index. -/
def interp3.value (f fx fy fz : Nat → ℚ) (m n m2 n2 o2 : Nat) (flag : Bool) (k j i : Nat) : ℚ :=
  let p := i + j * m + k * m * n
  let x0 := wrapInt ⌊fx p⌋
  let y0 := wrapInt ⌊fy p⌋
  let z0 := wrapInt ⌊fz p⌋
  let dx : ℚ := fx p - x0
  let dy : ℚ := fy p - y0
  let dz : ℚ := fz p - z0
  let x := if flag then wrapInt (x0 + j) else x0
  let y := if flag then wrapInt (y0 + i) else y0
  let z := if flag then wrapInt (z0 + k) else z0
  let c (y x z : Int) : ℚ := f (interp3.corner m2 n2 o2 y x z).toNat
  (1 - dx) * (1 - dy) * (1 - dz) * c y x z +
    (1 - dx) * dy * (1 - dz) * c (wrapInt (y + 1)) x z +
    dx * (1 - dy) * (1 - dz) * c y (wrapInt (x + 1)) z +
    (1 - dx) * (1 - dy) * dz * c y x (wrapInt (z + 1)) +
    dx * dy * (1 - dz) * c (wrapInt (y + 1)) (wrapInt (x + 1)) z +
    (1 - dx) * dy * dz * c (wrapInt (y + 1)) x (wrapInt (z + 1)) +
    dx * (1 - dy) * dz * c y (wrapInt (x + 1)) (wrapInt (z + 1)) +
    dx * dy * dz * c (wrapInt (y + 1)) (wrapInt (x + 1)) (wrapInt (z + 1))

/-- Statement `dst[i]=src[i]*c`. -/
def scaledCopyAt (dst src : Buf ℚ) (i : Nat) (c : ℚ) : Except Err (Buf ℚ) := do
  let x ← src.get i
  dst.set i (x * c)

/-- Statement `dst[i]=0.5f*src[i]-0.5f*dst[i]`. -/
def averageAt (dst src : Buf ℚ) (i : Nat) : Except Err (Buf ℚ) := do
  let x ← src.get i
  let y ← dst.get i
  dst.set i (1 / 2 * x - 1 / 2 * y)

/-- Statement `dst[i]=src[i]`. -/
def assignAt (dst src : Buf ℚ) (i : Nat) : Except Err (Buf ℚ) := do
  let x ← src.get i
  dst.set i x

/-- Statement `a[i]*=(float)factor`. -/
def rescaleAt (a : Buf ℚ) (i : Nat) (c : ℚ) : Except Err (Buf ℚ) := do
  let x ← a.get i
  a.set i (x * c)

/-- Arrays of `consistentMapping`: the forward field `u,v,w`, the backward
field `u2,v2,w2` and the six local copies. -/
structure MapState where
  u : Buf ℚ
  v : Buf ℚ
  w : Buf ℚ
  u2 : Buf ℚ
  v2 : Buf ℚ
  w2 : Buf ℚ
  us : Buf ℚ
  vs : Buf ℚ
  ws : Buf ℚ
  us2 : Buf ℚ
  vs2 : Buf ℚ
  ws2 : Buf ℚ

/-- Body of the first loop of `consistentMapping`: the scaled copies. -/
def consistentMapping.scale (factor1 : ℚ) (i : Nat) (s : MapState) : Except Err MapState := do
  let us ← scaledCopyAt s.us s.u i factor1
  let vs ← scaledCopyAt s.vs s.v i factor1
  let ws ← scaledCopyAt s.ws s.w i factor1
  let us2 ← scaledCopyAt s.us2 s.u2 i factor1
  let vs2 ← scaledCopyAt s.vs2 s.v2 i factor1
  let ws2 ← scaledCopyAt s.ws2 s.w2 i factor1
  pure { s with us := us, vs := vs, ws := ws, us2 := us2, vs2 := vs2, ws2 := ws2 }

/-- Body of the loop `u[i]=0.5f*us[i]-0.5f*u[i]; ..` of a round. -/
def consistentMapping.forward (i : Nat) (s : MapState) : Except Err MapState := do
  let u ← averageAt s.u s.us i
  let v ← averageAt s.v s.vs i
  let w ← averageAt s.w s.ws i
  pure { s with u := u, v := v, w := w }

/-- Body of the loop `u2[i]=0.5f*us2[i]-0.5f*u2[i]; ..` of a round. -/
def consistentMapping.backward (i : Nat) (s : MapState) : Except Err MapState := do
  let u2 ← averageAt s.u2 s.us2 i
  let v2 ← averageAt s.v2 s.vs2 i
  let w2 ← averageAt s.w2 s.ws2 i
  pure { s with u2 := u2, v2 := v2, w2 := w2 }

/-- Body of the loop `us[i]=u[i]; .. ws2[i]=w2[i];` that ends a round. -/
def consistentMapping.copy (i : Nat) (s : MapState) : Except Err MapState := do
  let us ← assignAt s.us s.u i
  let vs ← assignAt s.vs s.v i
  let ws ← assignAt s.ws s.w i
  let us2 ← assignAt s.us2 s.u2 i
  let vs2 ← assignAt s.vs2 s.v2 i
  let ws2 ← assignAt s.ws2 s.w2 i
  pure { s with us := us, vs := vs, ws := ws, us2 := us2, vs2 := vs2, ws2 := ws2 }

/-- Body of the last loop of `consistentMapping`. -/
def consistentMapping.rescale (factor : ℚ) (i : Nat) (s : MapState) : Except Err MapState := do
  let u ← rescaleAt s.u i factor
  let v ← rescaleAt s.v i factor
  let w ← rescaleAt s.w i factor
  let u2 ← rescaleAt s.u2 i factor
  let v2 ← rescaleAt s.v2 i factor
  let w2 ← rescaleAt s.w2 i factor
  pure { s with u := u, v := v, w := w, u2 := u2, v2 := v2, w2 := w2 }

/-- One round (one iteration of the loop over `it`) of `consistentMapping`. -/
def consistentMapping.round (m n o : Nat) (s : MapState) : Except Err MapState := do
  let u ← interp3 s.u s.us2 s.us s.vs s.ws m n o m n o true
  let v ← interp3 s.v s.vs2 s.us s.vs s.ws m n o m n o true
  let w ← interp3 s.w s.ws2 s.us s.vs s.ws m n o m n o true
  let s ← forLoop consistentMapping.forward 0 (m * n * o) { s with u := u, v := v, w := w }
  let u2 ← interp3 s.u2 s.us s.us2 s.vs2 s.ws2 m n o m n o true
  let v2 ← interp3 s.v2 s.vs s.us2 s.vs2 s.ws2 m n o m n o true
  let w2 ← interp3 s.w2 s.ws s.us2 s.vs2 s.ws2 m n o m n o true
  let s ← forLoop consistentMapping.backward 0 (m * n * o)
    { s with u2 := u2, v2 := v2, w2 := w2 }
  forLoop consistentMapping.copy 0 (m * n * o) s

/-- Embedding of `consistentMapping(u,v,w,u2,v2,w2,m,n,o,factor)`; the final
arrays are returned. A floating-point division by zero is reported as
`Err.divZero`. -/
def consistentMapping (u v w u2 v2 w2 : Buf ℚ) (m n o : Nat) (factor : Int) :
    Except Err MapState := do
  if factor = 0 then throw Err.divZero
  let factor1 : ℚ := 1 / (factor : ℚ)
  let sz := m * n * o
  let s : MapState := ⟨u, v, w, u2, v2, w2, Buf.new sz, Buf.new sz, Buf.new sz, Buf.new sz,
    Buf.new sz, Buf.new sz⟩
  let s ← forLoop (consistentMapping.scale factor1) 0 sz s
  let s ← forLoop (fun _ s => consistentMapping.round m n o s) 0 10 s
  forLoop (consistentMapping.rescale (factor : ℚ)) 0 sz s

/-- A pair of displacement fields as functions of the flat voxel index: the
forward field `(u,v,w)` and the backward field `(u2,v2,w2)`. -/
structure FieldPair where
  u : Nat → ℚ
  v : Nat → ℚ
  w : Nat → ℚ
  u2 : Nat → ℚ
  v2 : Nat → ℚ
  w2 : Nat → ℚ

/-- Trilinear lookup of the field component `f` at the voxel with flat index
`l` displaced by the field `(fx,fy,fz)`, on the `m x n x o` grid. -/
def lookupAt (f fx fy fz : Nat → ℚ) (m n o : Nat) (l : Nat) : ℚ :=
  interp3.value f fx fy fz m n m n o true (l / (m * n)) (l / m % n) (l % m)

/-- Simultaneous update of both directions as the specification words it:
each new field is half the current value minus half the lookup of the
opposite current field at the voxel displaced by the current field; the
backward update uses the forward field of the start of the round. -/
def symmetricStep (m n o : Nat) (F : FieldPair) : FieldPair where
  u := fun l => 1 / 2 * F.u l - 1 / 2 * lookupAt F.u2 F.u F.v F.w m n o l
  v := fun l => 1 / 2 * F.v l - 1 / 2 * lookupAt F.v2 F.u F.v F.w m n o l
  w := fun l => 1 / 2 * F.w l - 1 / 2 * lookupAt F.w2 F.u F.v F.w m n o l
  u2 := fun l => 1 / 2 * F.u2 l - 1 / 2 * lookupAt F.u F.u2 F.v2 F.w2 m n o l
  v2 := fun l => 1 / 2 * F.v2 l - 1 / 2 * lookupAt F.v F.u2 F.v2 F.w2 m n o l
  w2 := fun l => 1 / 2 * F.w2 l - 1 / 2 * lookupAt F.w F.u2 F.v2 F.w2 m n o l

/-- Multiplication of all six components of a pair of fields by `c`. -/
def FieldPair.scale (F : FieldPair) (c : ℚ) : FieldPair where
  u := fun l => F.u l * c
  v := fun l => F.v l * c
  w := fun l => F.w l * c
  u2 := fun l => F.u2 l * c
  v2 := fun l => F.v2 l * c
  w2 := fun l => F.w2 l * c

/-- The arrays `(a1,..,a6)` have `sz` cells each and hold the six components
of the pair of fields `F`. -/
def Holds (sz : Nat) (a1 a2 a3 a4 a5 a6 : Buf ℚ) (F : FieldPair) : Prop :=
  (a1.size = sz ∧ ∀ l, l < sz → a1.data l = some (F.u l)) ∧
  (a2.size = sz ∧ ∀ l, l < sz → a2.data l = some (F.v l)) ∧
  (a3.size = sz ∧ ∀ l, l < sz → a3.data l = some (F.w l)) ∧
  (a4.size = sz ∧ ∀ l, l < sz → a4.data l = some (F.u2 l)) ∧
  (a5.size = sz ∧ ∀ l, l < sz → a5.data l = some (F.v2 l)) ∧
  (a6.size = sz ∧ ∀ l, l < sz → a6.data l = some (F.w2 l))

/-- A pair of fields on the 2x1x1 grid used as an instance for claim C14. -/
def sampleFields : FieldPair where
  u := fun l => if l = 0 then 1 else -1 / 2
  v := fun l => if l = 0 then 1 / 2 else 1
  w := fun _ => 0
  u2 := fun l => if l = 0 then -1 else 1 / 4
  v2 := fun l => if l = 0 then -1 / 2 else -1
  w2 := fun _ => 0

/-- The pair of fields with the two directions exchanged. -/
def FieldPair.swap (F : FieldPair) : FieldPair where
  u := F.u2
  v := F.v2
  w := F.w2
  u2 := F.u
  v2 := F.v
  w2 := F.w

/-- The pair of constant translations: forward `(a,b,c)`, backward `(-a,-b,-c)`. -/
def translationPair (a b c : ℚ) : FieldPair where
  u := fun _ => a
  v := fun _ => b
  w := fun _ => c
  u2 := fun _ => -a
  v2 := fun _ => -b
  w2 := fun _ => -c

/-! ## Descriptor packing `quantisedMIND` (MIND-SSC.h) and `popcount_3` (dataCostD_mind.h) -/

/-- Addition of two `uint64_t` values. -/
def add64 (a b : Nat) : Nat := (a + b) % 2 ^ 64

/-- Subtraction of two `uint64_t` values. -/
def sub64 (a b : Nat) : Nat := (a + 2 ^ 64 - b % 2 ^ 64) % 2 ^ 64

/-- Multiplication of two `uint64_t` values. -/
def mul64 (a b : Nat) : Nat := (a * b) % 2 ^ 64

/-- Constant `m1=0x5555555555555555`. -/
def popcount_3.m1 : Nat := 0x5555555555555555

/-- Constant `m2=0x3333333333333333`. -/
def popcount_3.m2 : Nat := 0x3333333333333333

/-- Constant `m4=0x0f0f0f0f0f0f0f0f`. -/
def popcount_3.m4 : Nat := 0x0f0f0f0f0f0f0f0f

/-- Constant `h01=0x0101010101010101`. -/
def popcount_3.h01 : Nat := 0x0101010101010101

/-- Embedding of `popcount_3(x)` on a `uint64_t` argument; the result fits the
returned `int`. -/
def popcount_3 (x : Nat) : Nat :=
  let x := sub64 x ((x >>> 1) &&& popcount_3.m1)
  let x := add64 (x &&& popcount_3.m2) ((x >>> 2) &&& popcount_3.m2)
  let x := (add64 x (x >>> 4)) &&& popcount_3.m4
  (mul64 x popcount_3.h01) >>> 56

/-- Quantisation of one descriptor entry in `quantisedMIND`:
`min(max((int)(mindf[i]*val-0.5),0),val-1)` with `val=6`. -/
def quantisedMIND.level (x : ℚ) : Int := min (max (truncToInt (x * 6 - 1 / 2)) 0) (6 - 1)

/-- The code tables of `quantisedMIND`: `tablei` (intensity values) and
`tabled` (descriptor entries). -/
def quantisedMIND.tables : Except Err (Buf Nat × Buf Nat) := do
  let val : Nat := 6
  let d : Nat := 12
  let tablei ← forLoop (fun i (t : Buf Nat) => t.set i 0) 0 val (Buf.new val)
  let tabled ← forLoop (fun i (t : Buf Nat) => t.set i 0) 0 d (Buf.new d)
  let tablei ← tablei.set 0 0
  let (power, tablei) ← forLoop (fun i (s : Nat × Buf Nat) => do
      let power := add64 s.1 s.1
      let t ← s.2.set i (sub64 power 1)
      pure (power, t)) 1 (val - 1) (1, tablei)
  let tabled ← tabled.set 0 1
  let tabled ← forLoop (fun i (t : Buf Nat) => do
      let prev ← t.get ((i : Int) - 1)
      t.set i (mul64 prev power)) 1 (d - 1) tabled
  pure (tablei, tabled)

/-- Packing loop of `quantisedMIND` for voxel `i`:
`mindq[i]+=tablei[mindi[i+q*sz]]*tabled[q]` for `q<12`. -/
def quantisedMIND.packVoxel (mindi : Buf Int) (tablei tabled : Buf Nat) (sz : Nat) (i : Nat)
    (mindq : Buf Nat) : Except Err (Buf Nat) := do
  let mindq ← mindq.set i 0
  forLoop (fun q (mindq : Buf Nat) => do
    let cur ← mindq.get i
    let lev ← mindi.get ((i : Int) + q * sz)
    let ti ← tablei.get lev
    let td ← tabled.get q
    mindq.set i (add64 cur (mul64 ti td))) 0 12 mindq

/-- Part of `quantisedMIND` after the call of `descriptor`: quantisation of
the `sz*12` real descriptor entries `mindf` into `mindi`, construction of the
code tables and packing into `mindq`. -/
def quantisedMIND.encode (mindf : Buf ℚ) (sz : Nat) (mindq : Buf Nat) : Except Err (Buf Nat) := do
  let d : Nat := 12
  let mindi ← forLoop (fun i (t : Buf Int) => do
      let x ← mindf.get i
      t.set i (quantisedMIND.level x)) 0 (sz * d) (Buf.new (sz * d))
  let (tablei, tabled) ← quantisedMIND.tables
  forLoop (quantisedMIND.packVoxel mindi tablei tabled sz) 0 sz mindq

/-- Number of one bits among the `n` low bits of `x`. -/
def bitCount : Nat → Nat → Nat
  | 0, _ => 0
  | n + 1, x => x % 2 + bitCount n (x / 2)

/-- Value with the byte `c` repeated `n` times. -/
def repByte (c : Nat) : Nat → Nat
  | 0 => 0
  | n + 1 => c + 256 * repByte c n

/-- Application of `g` to each of the `n` low bytes of `x`. -/
def byteMap (g : Nat → Nat) : Nat → Nat → Nat
  | 0, _ => 0
  | n + 1, x => g (x % 256) + 256 * byteMap g n (x / 256)

/-- First step of `popcount_3` on `n` bytes: the subtracted term `(x>>1)&m1`. -/
def popA (n x : Nat) : Nat := (x / 2) &&& repByte 0x55 n

/-- Second step of `popcount_3` on `n` bytes: `(x&m2)+((x>>2)&m2)`. -/
def pop2 (n y : Nat) : Nat := (y &&& repByte 0x33 n) + ((y / 4) &&& repByte 0x33 n)

/-- Third step of `popcount_3` on `n` bytes: `(x+(x>>4))&m4`. -/
def pop3 (n y : Nat) : Nat := (y + y / 16) &&& repByte 0x0f n

/-- Packed code of a descriptor with quantised entries `a 0 .. a 11`:
the sum over `q` of `tablei[a q]*tabled[q]` with `tablei[v] = 2^v-1` and
`tabled[q] = 32^q`. -/
def quantisedMIND.code (a : Nat → Nat) : Nat :=
  ∑ q in Finset.range 12, (2 ^ a q - 1) * 32 ^ q

/-! ## `popcount64` (dataCostSSC.h) -/

/-- Embedding of `popcount64(x)` on an `unsigned long long` argument; the
64-bit result is converted to the returned `unsigned int`. -/
def popcount64 (x : Nat) : Nat :=
  let x := add64 (x &&& 0x5555555555555555) ((x >>> 1) &&& 0x5555555555555555)
  let x := add64 (x &&& 0x3333333333333333) ((x >>> 2) &&& 0x3333333333333333)
  let x := add64 (x &&& 0x0F0F0F0F0F0F0F0F) ((x >>> 4) &&& 0x0F0F0F0F0F0F0F0F)
  ((mul64 x 0x0101010101010101) >>> 56) % 2 ^ 32

/-! ## `boxfilter`, `imshift` and `descriptor` (MIND-SSC.h) -/

/-- Loop `for (i = lo; i < hi; i++) body` with integer bounds. -/
def forRange {σ : Type} (body : Int → σ → Except Err σ) (lo hi : Int) (s : σ) : Except Err σ :=
  forLoop (fun t s => body (lo + (t : Int)) s) 0 (hi - lo).toNat s

/-- Statement `b[p]+=b[q]`. -/
def cumAt (b : Buf ℚ) (p q : Int) : Except Err (Buf ℚ) := do
  let x ← b.get p
  let y ← b.get q
  b.set p (x + y)

/-- Statement `dst[p]=src[a]`. -/
def copyAt (dst src : Buf ℚ) (p a : Int) : Except Err (Buf ℚ) := do
  let x ← src.get a
  dst.set p x

/-- Statement `dst[p]=src[a]-src[b]`. -/
def diffAt (dst src : Buf ℚ) (p a b : Int) : Except Err (Buf ℚ) := do
  let x ← src.get a
  let y ← src.get b
  dst.set p (x - y)

/-- The three arrays used by `boxfilter`. -/
structure BoxState where
  input : Buf ℚ
  temp1 : Buf ℚ
  temp2 : Buf ℚ

/-- Embedding of `boxfilter(input,temp1,temp2,hw,m,n,o)`; the three arrays are
returned. -/
def boxfilter (input temp1 temp2 : Buf ℚ) (hw : Int) (m n o : Nat) : Except Err BoxState := do
  let temp1 ← forLoop (fun i t => copyAt t input i i) 0 (m * n * o) temp1
  let temp1 ← forLoop (fun k t => forLoop (fun j t => forLoop (fun i t =>
      cumAt t ((i : Int) + j * m + k * m * n) (((i : Int) - 1) + j * m + k * m * n))
    1 (m - 1) t) 0 n t) 0 o temp1
  let temp2 ← forLoop (fun k t => forLoop (fun j t => do
      let t ← forRange (fun i t =>
        copyAt t temp1 (i + j * m + k * m * n) ((i + hw) + j * m + k * m * n)) 0 (hw + 1) t
      let t ← forRange (fun i t =>
        diffAt t temp1 (i + j * m + k * m * n) ((i + hw) + j * m + k * m * n)
          ((i - hw - 1) + j * m + k * m * n)) (hw + 1) (m - hw) t
      forRange (fun i t =>
        diffAt t temp1 (i + j * m + k * m * n) (((m : Int) - 1) + j * m + k * m * n)
          ((i - hw - 1) + j * m + k * m * n)) (m - hw) m t) 0 n t) 0 o temp2
  let temp2 ← forLoop (fun k t => forLoop (fun j t => forLoop (fun i t =>
      cumAt t ((i : Int) + j * m + k * m * n) ((i : Int) + ((j : Int) - 1) * m + k * m * n))
    0 m t) 1 (n - 1) t) 0 o temp2
  let temp1 ← forLoop (fun k t => forLoop (fun i t => do
      let t ← forRange (fun j t =>
        copyAt t temp2 (i + j * m + k * m * n) (i + (j + hw) * m + k * m * n)) 0 (hw + 1) t
      let t ← forRange (fun j t =>
        diffAt t temp2 (i + j * m + k * m * n) (i + (j + hw) * m + k * m * n)
          (i + (j - hw - 1) * m + k * m * n)) (hw + 1) (n - hw) t
      forRange (fun j t =>
        diffAt t temp2 (i + j * m + k * m * n) (i + ((n : Int) - 1) * m + k * m * n)
          (i + (j - hw - 1) * m + k * m * n)) (n - hw) n t) 0 m t) 0 o temp1
  let temp1 ← forLoop (fun k t => forLoop (fun j t => forLoop (fun i t =>
      cumAt t ((i : Int) + j * m + k * m * n) ((i : Int) + j * m + ((k : Int) - 1) * m * n))
    0 m t) 0 n t) 1 (o - 1) temp1
  let input ← forLoop (fun j t => forLoop (fun i t => do
      let t ← forRange (fun k t =>
        copyAt t temp1 (i + j * m + k * m * n) (i + j * m + (k + hw) * m * n)) 0 (hw + 1) t
      let t ← forRange (fun k t =>
        diffAt t temp1 (i + j * m + k * m * n) (i + j * m + (k + hw) * m * n)
          (i + j * m + (k - hw - 1) * m * n)) (hw + 1) (o - hw) t
      forRange (fun k t =>
        diffAt t temp1 (i + j * m + k * m * n) (i + j * m + ((o : Int) - 1) * m * n)
          (i + j * m + (k - hw - 1) * m * n)) (o - hw) o t) 0 m t) 0 n input
  pure ⟨input, temp1, temp2⟩

/-- Embedding of `imshift(input,output,dx,dy,dz,m,n,o)`; the pointer arguments
`input` and `output` are an array with the offset of the first element
(`inOff`, `outOff`). The array `output` is returned. -/
def imshift (input : Buf ℚ) (inOff : Nat) (output : Buf ℚ) (outOff : Nat) (dx dy dz : Int)
    (m n o : Nat) : Except Err (Buf ℚ) :=
  tripleLoop o n m (fun k j i out =>
    if 0 ≤ (i : Int) + dy ∧ (i : Int) + dy < m ∧ 0 ≤ (j : Int) + dx ∧ (j : Int) + dx < n ∧
        0 ≤ (k : Int) + dz ∧ (k : Int) + dz < o then
      copyAt out input ((outOff : Int) + ((i : Int) + j * m + k * m * n))
        ((inOff : Int) + ((i : Int) + dy + ((j : Int) + dx) * m + ((k : Int) + dz) * m * n))
    else
      copyAt out input ((outOff : Int) + ((i : Int) + j * m + k * m * n))
        ((inOff : Int) + ((i : Int) + j * m + k * m * n))) output

/-- Arrays of `descriptor`: the output `mind` and the local arrays. -/
structure DescState where
  mind : Buf ℚ
  w1 : Buf ℚ
  sum1 : Buf ℚ
  noise1 : Buf ℚ
  d1 : Buf ℚ
  temp1 : Buf ℚ
  temp2 : Buf ℚ

/-- Entry `l` of a constant table of `descriptor`. -/
def descriptor.entry (table : List Int) (l : Nat) : Int := table.getD l 0

/-- First part of `descriptor` (up to the comment `subtract mininum`): the
initialisation of the arrays, the six box-filtered squared differences `d1`
and the twelve shifted copies of them in `mind`. -/
def descriptor.distances (mind im1 : Buf ℚ) (m n o : Nat) (qs : Int) : Except Err DescState := do
  let sz1 := m * n * o
  let mind ← forLoop (fun i t => t.set i 1) 0 (sz1 * 12) mind
  let s : DescState := ⟨mind, Buf.new sz1, Buf.new sz1, Buf.new sz1, Buf.new (sz1 * 6),
    Buf.new 0, Buf.new 0⟩
  let s ← forLoop (fun i (s : DescState) => do
    let w1 ← s.w1.set i 0
    let sum1 ← s.sum1.set i 0
    let noise1 ← s.noise1.set i 0
    pure { s with w1 := w1, sum1 := sum1, noise1 := noise1 }) 0 sz1 s
  let d1 ← forLoop (fun i t => t.set i 0) 0 (sz1 * 6) s.d1
  let s : DescState := { s with d1 := d1, temp1 := Buf.new sz1, temp2 := Buf.new sz1 }
  let s ← forLoop (fun l (s : DescState) => do
    let w1 ← imshift im1 0 s.w1 0 (descriptor.entry [qs, qs, -qs, 0, qs, 0] l)
      (descriptor.entry [qs, -qs, 0, -qs, 0, qs] l) (descriptor.entry [0, 0, qs, qs, qs, qs] l)
      m n o
    let w1 ← forLoop (fun i t => do
      let x ← t.get i
      let y ← im1.get i
      t.set i ((x - y) ^ 2)) 0 sz1 w1
    let b ← boxfilter w1 s.temp1 s.temp2 qs m n o
    let d1 ← forLoop (fun i t => copyAt t b.input ((i : Int) + l * sz1) i) 0 sz1 s.d1
    pure { s with w1 := b.input, temp1 := b.temp1, temp2 := b.temp2, d1 := d1 }) 0 6 s
  let mind ← forLoop (fun l t =>
    imshift s.d1 ((descriptor.entry [0, 0, 1, 1, 2, 2, 3, 3, 4, 4, 5, 5] l).toNat * sz1) t (l * sz1)
      (descriptor.entry [-qs, 0, -qs, 0, 0, qs, 0, 0, 0, -qs, 0, 0] l)
      (descriptor.entry [0, -qs, 0, qs, 0, 0, 0, qs, 0, 0, 0, -qs] l)
      (descriptor.entry [0, 0, 0, 0, -qs, 0, -qs, 0, -qs, 0, -qs, 0] l) m n o) 0 12 s.mind
  pure { s with mind := mind }

/-- Running values of the normalisation part of `descriptor`. -/
structure NormState where
  mind : Buf ℚ
  sum1 : Buf ℚ
  noise1 : Buf ℚ
  mean1 : ℚ

/-- Second part of `descriptor` (from the comment `subtract mininum`): the
per-voxel minimum is subtracted, the normaliser `noise1` is computed and
clamped, and every entry is replaced by `exp(-mind/noise1)`. The library
function `exp` is a parameter; a floating-point division by zero is reported
as `Err.divZero`. -/
def descriptor.normalise (exp : ℚ → ℚ) (mind sum1 noise1 : Buf ℚ) (sz1 : Nat) :
    Except Err NormState := do
  let sum1 ← forLoop (fun i t => do
    let t ← t.set i 100000000000000000000
    forLoop (fun l t => do
      let x ← mind.get ((i : Int) + l * sz1)
      let y ← t.get i
      if x < y then
        let x ← mind.get ((i : Int) + l * sz1)
        t.set i x
      else pure t) 0 12 t) 0 sz1 sum1
  let s : NormState := ⟨mind, sum1, noise1, 0⟩
  let s ← forLoop (fun i s => forLoop (fun l (s : NormState) => do
      let x ← s.mind.get ((i : Int) + l * sz1)
      let y ← s.sum1.get i
      let mind ← s.mind.set ((i : Int) + l * sz1) (x - y)
      let a ← s.noise1.get i
      let b ← mind.get ((i : Int) + l * sz1)
      let noise1 ← s.noise1.set i (a + b)
      pure { s with mind := mind, noise1 := noise1 }) 0 12 s) 0 sz1 s
  let s ← forLoop (fun i (s : NormState) => do
    let a ← s.noise1.get i
    let noise1 ← s.noise1.set i (a / 12)
    let b ← noise1.get i
    pure { s with noise1 := noise1, mean1 := s.mean1 + b }) 0 sz1 s
  if sz1 = 0 then throw Err.divZero
  let mean1 := s.mean1 / (sz1 : ℚ)
  let noise1 ← forLoop (fun i t => do
    let a ← t.get i
    t.set i (min (max a (1 / 1000 * mean1)) (1000 * mean1))) 0 sz1 s.noise1
  let mind ← forLoop (fun l t => forLoop (fun i (t : Buf ℚ) => do
    let x ← t.get ((i : Int) + l * sz1)
    let a ← noise1.get i
    if a = 0 then throw Err.divZero
    t.set ((i : Int) + l * sz1) (exp (-x / a))) 0 sz1 t) 0 12 s.mind
  pure ⟨mind, s.sum1, noise1, mean1⟩

/-- Embedding of `descriptor(mind,im1,m,n,o,qs)`; the array `mind` is returned. -/
def descriptor (exp : ℚ → ℚ) (mind im1 : Buf ℚ) (m n o : Nat) (qs : Int) :
    Except Err (Buf ℚ) := do
  let s ← descriptor.distances mind im1 m n o qs
  let r ← descriptor.normalise exp s.mind s.sum1 s.noise1 (m * n * o)
  pure r.mind

/-! ### The statements of `descriptor` one by one -/

/-- Initialisation of the local arrays of `descriptor` at cell `i`:
`w1[i]=0.0; sum1[i]=0.0; noise1[i]=0.0`. -/
def descriptor.clear (i : Nat) (s : DescState) : Except Err DescState := do
  let w1 ← s.w1.set i 0
  let sum1 ← s.sum1.set i 0
  let noise1 ← s.noise1.set i 0
  pure { s with w1 := w1, sum1 := sum1, noise1 := noise1 }

/-- Statement `w1[i]=pow(w1[i]-im1[i],2.0)` of `descriptor`. -/
def descriptor.square (im1 : Buf ℚ) (i : Nat) (t : Buf ℚ) : Except Err (Buf ℚ) := do
  let x ← t.get i
  let y ← im1.get i
  t.set i ((x - y) ^ 2)

/-- Iteration `l` of the loop over the six directions of `descriptor`: shift,
squared difference, box filter, copy into `d1`. -/
def descriptor.direction (im1 : Buf ℚ) (m n o : Nat) (qs : Int) (l : Nat) (s : DescState) :
    Except Err DescState := do
  let w1 ← imshift im1 0 s.w1 0 (descriptor.entry [qs, qs, -qs, 0, qs, 0] l)
    (descriptor.entry [qs, -qs, 0, -qs, 0, qs] l) (descriptor.entry [0, 0, qs, qs, qs, qs] l)
    m n o
  let w1 ← forLoop (descriptor.square im1) 0 (m * n * o) w1
  let b ← boxfilter w1 s.temp1 s.temp2 qs m n o
  let d1 ← forLoop (fun i t => copyAt t b.input ((i : Int) + l * ((m * n * o : Nat) : Int)) i)
    0 (m * n * o) s.d1
  pure { s with w1 := b.input, temp1 := b.temp1, temp2 := b.temp2, d1 := d1 }

/-- Iteration `l` of the loop over the twelve channels of `descriptor`:
`imshift(d1+index[l]*sz1,mind+l*sz1,sx[l],sy[l],sz[l],m,n,o)`. -/
def descriptor.channel (d1 : Buf ℚ) (m n o : Nat) (qs : Int) (l : Nat) (t : Buf ℚ) :
    Except Err (Buf ℚ) :=
  imshift d1 ((descriptor.entry [0, 0, 1, 1, 2, 2, 3, 3, 4, 4, 5, 5] l).toNat * (m * n * o)) t
    (l * (m * n * o))
    (descriptor.entry [-qs, 0, -qs, 0, 0, qs, 0, 0, 0, -qs, 0, 0] l)
    (descriptor.entry [0, -qs, 0, qs, 0, 0, 0, qs, 0, 0, 0, -qs] l)
    (descriptor.entry [0, 0, 0, 0, -qs, 0, -qs, 0, -qs, 0, -qs, 0] l) m n o

/-- Statement `if(mind[i+l*sz1]<sum1[i]) sum1[i]=mind[i+l*sz1]` of `descriptor`. -/
def descriptor.least (mind : Buf ℚ) (sz1 i l : Nat) (t : Buf ℚ) : Except Err (Buf ℚ) := do
  let x ← mind.get ((i : Int) + l * sz1)
  let y ← t.get i
  if x < y then
    let x ← mind.get ((i : Int) + l * sz1)
    t.set i x
  else pure t

/-- Loop of `descriptor` computing the per-voxel minimum `sum1`. -/
def descriptor.minimum (mind sum1 : Buf ℚ) (sz1 : Nat) : Except Err (Buf ℚ) :=
  forLoop (fun i t => do
    let t ← t.set i 100000000000000000000
    forLoop (descriptor.least mind sz1 i) 0 12 t) 0 sz1 sum1

/-- Statements `mind[i+l*sz1]-=sum1[i]; noise1[i]+=mind[i+l*sz1]` of
`descriptor`. -/
def descriptor.subtract (sz1 i l : Nat) (s : NormState) : Except Err NormState := do
  let x ← s.mind.get ((i : Int) + l * sz1)
  let y ← s.sum1.get i
  let mind ← s.mind.set ((i : Int) + l * sz1) (x - y)
  let a ← s.noise1.get i
  let b ← mind.get ((i : Int) + l * sz1)
  let noise1 ← s.noise1.set i (a + b)
  pure { s with mind := mind, noise1 := noise1 }

/-- Statements `noise1[i]/=(float)(len2); mean1+=noise1[i]` of `descriptor`. -/
def descriptor.average (i : Nat) (s : NormState) : Except Err NormState := do
  let a ← s.noise1.get i
  let noise1 ← s.noise1.set i (a / 12)
  let b ← noise1.get i
  pure { s with noise1 := noise1, mean1 := s.mean1 + b }

/-- Statement `noise1[i]=min(max(noise1[i],0.001*mean1),1000.0*mean1)` of
`descriptor`. -/
def descriptor.clamp (mean1 : ℚ) (i : Nat) (t : Buf ℚ) : Except Err (Buf ℚ) := do
  let a ← t.get i
  t.set i (min (max a (1 / 1000 * mean1)) (1000 * mean1))

/-- Statement `mind[i+l*sz1]=exp(-mind[i+l*sz1]/noise1[i])` of `descriptor`. -/
def descriptor.exponent (exp : ℚ → ℚ) (noise1 : Buf ℚ) (sz1 l i : Nat) (t : Buf ℚ) :
    Except Err (Buf ℚ) := do
  let x ← t.get ((i : Int) + l * sz1)
  let a ← noise1.get i
  if a = 0 then throw Err.divZero
  t.set ((i : Int) + l * sz1) (exp (-x / a))

/-- Part of `descriptor` from the comment `subtract mininum` up to the
clamping of `noise1`: the statements of `descriptor.normalise` before its last
loop. The returned state holds the mean normaliser `mean1` and the clamped
normalisers. -/
def descriptor.normaliser (mind sum1 noise1 : Buf ℚ) (sz1 : Nat) : Except Err NormState := do
  let sum1 ← descriptor.minimum mind sum1 sz1
  let s : NormState := ⟨mind, sum1, noise1, 0⟩
  let s ← forLoop (fun i s => forLoop (descriptor.subtract sz1 i) 0 12 s) 0 sz1 s
  let s ← forLoop descriptor.average 0 sz1 s
  if sz1 = 0 then throw Err.divZero
  let mean1 := s.mean1 / (sz1 : ℚ)
  let noise1 ← forLoop (descriptor.clamp mean1) 0 sz1 s.noise1
  pure ⟨s.mind, s.sum1, noise1, mean1⟩

/-- Running minimum of `descriptor` at voxel `i` after `l` channels, for
channel values `D`: it starts at `1e20`. -/
def descriptor.leastOf (D : Nat → ℚ) (sz1 i : Nat) : Nat → ℚ
  | 0 => 100000000000000000000
  | l + 1 => if D (i + l * sz1) < descriptor.leastOf D sz1 i l then D (i + l * sz1)
      else descriptor.leastOf D sz1 i l

/-! ## Sliding-window box filters `boxfilter4` and `boxfilter1CC` (boxfilter4.h) -/

/-- Value of an SSE register `__m128`: four lanes, on which `+=` and `-=` act
lane by lane; `{0.0f,0.0f,0.0f,0.0f}` is the register `0`. -/
abbrev M128 : Type := Fin 4 → ℚ

/-- Running sum `sumA` of a line and the array that the line is written
to. -/
structure SlideState (α : Type) where
  sumA : α
  out : Buf α

/-- Statements `sumA += src[a]; if (x >= 0) dst[p] = sumA;`. -/
def slideIn {α : Type} [Add α] (src : Buf α) (a x p : Int) (s : SlideState α) :
    Except Err (SlideState α) := do
  let v ← src.get a
  let sumA := s.sumA + v
  if x ≥ 0 then do
    let out ← s.out.set p sumA
    pure ⟨sumA, out⟩
  else pure ⟨sumA, s.out⟩

/-- Statements `sumA -= src[a]; sumA += src[b]; dst[p] = sumA;`. -/
def slideMove {α : Type} [Add α] [Sub α] (src : Buf α) (a b p : Int) (s : SlideState α) :
    Except Err (SlideState α) := do
  let v ← src.get a
  let sumA := s.sumA - v
  let w ← src.get b
  let sumA := sumA + w
  let out ← s.out.set p sumA
  pure ⟨sumA, out⟩

/-- Statements `sumA -= src[a]; dst[p] = sumA;`. -/
def slideOut {α : Type} [Sub α] (src : Buf α) (a p : Int) (s : SlideState α) :
    Except Err (SlideState α) := do
  let v ← src.get a
  let sumA := s.sumA - v
  let out ← s.out.set p sumA
  pure ⟨sumA, out⟩

/-- The three arrays written by `boxfilter4` and `boxfilter1CC`. -/
structure SlideBufs (α : Type) where
  output : Buf α
  temp1 : Buf α
  temp2 : Buf α

/-- Embedding of `boxfilter4(output,input,temp1,temp2,hw,m,n,o)` on arrays of
`__m128`.  The counter `x` runs through the three loops `for (; cond; x++)` of
a line one after the other: each loop is a `forRange` from the current `x` to
the bound of its condition, after which `x` is the larger of the two.  The
pointers `inRow` and `outRow` are offsets into `input` and `temp2`. -/
def boxfilter4 (output input temp1 temp2 : Buf M128) (hw : Int) (m n o : Nat) :
    Except Err (SlideBufs M128) := do
  let RANGE : Int := hw
  let temp2 ← forLoop (fun k t => forLoop (fun j t => do
      let inRow : Int := (j : Int) * m + k * m * n
      let outRow : Int := (j : Int) * m + k * m * n
      let x : Int := -RANGE
      let s ← forRange (fun x s => slideIn input (inRow + (x + RANGE)) x (outRow + x) s)
        x (RANGE + 1) ⟨0, t⟩
      let x : Int := max x (RANGE + 1)
      let s ← forRange (fun x s =>
        slideMove input (inRow + (x - RANGE - 1)) (inRow + (x + RANGE)) (outRow + x) s)
        x (m - RANGE) s
      let x : Int := max x (m - RANGE)
      let s ← forRange (fun x s => slideOut input (inRow + (x - RANGE - 1)) (outRow + x) s)
        x m s
      pure s.out) 0 n t) 0 o temp2
  let temp1 ← forLoop (fun k t => forLoop (fun i t => do
      let x : Int := -RANGE
      let s ← forRange (fun x s =>
        slideIn temp2 (i + (x + RANGE) * m + k * m * n) x (i + x * m + k * m * n) s)
        x (RANGE + 1) ⟨0, t⟩
      let x : Int := max x (RANGE + 1)
      let s ← forRange (fun x s =>
        slideMove temp2 (i + (x - RANGE - 1) * m + k * m * n) (i + (x + RANGE) * m + k * m * n)
          (i + x * m + k * m * n) s)
        x (n - RANGE) s
      let x : Int := max x (n - RANGE)
      let s ← forRange (fun x s =>
        slideOut temp2 (i + (x - RANGE - 1) * m + k * m * n) (i + x * m + k * m * n) s)
        x n s
      pure s.out) 0 m t) 0 o temp1
  let output ← forLoop (fun j t => forLoop (fun i t => do
      let x : Int := -RANGE
      let s ← forRange (fun x s =>
        slideIn temp1 (i + j * m + (x + RANGE) * m * n) x (i + j * m + x * m * n) s)
        x (RANGE + 1) ⟨0, t⟩
      let x : Int := max x (RANGE + 1)
      let s ← forRange (fun x s =>
        slideMove temp1 (i + j * m + (x - RANGE - 1) * m * n) (i + j * m + (x + RANGE) * m * n)
          (i + j * m + x * m * n) s)
        x (o - RANGE) s
      let x : Int := max x (o - RANGE)
      let s ← forRange (fun x s =>
        slideOut temp1 (i + j * m + (x - RANGE - 1) * m * n) (i + j * m + x * m * n) s)
        x o s
      pure s.out) 0 m t) 0 n output
  pure ⟨output, temp1, temp2⟩

/-- Embedding of `boxfilter1CC(output,input,temp1,temp2,hw,m,n,o)` on arrays
of `float`, with the same conventions as `boxfilter4`. -/
def boxfilter1CC (output input temp1 temp2 : Buf ℚ) (hw : Int) (m n o : Nat) :
    Except Err (SlideBufs ℚ) := do
  let RANGE : Int := hw
  let temp2 ← forLoop (fun k t => forLoop (fun j t => do
      let inRow : Int := (j : Int) * m + k * m * n
      let outRow : Int := (j : Int) * m + k * m * n
      let x : Int := -RANGE
      let s ← forRange (fun x s => slideIn input (inRow + (x + RANGE)) x (outRow + x) s)
        x (RANGE + 1) ⟨0, t⟩
      let x : Int := max x (RANGE + 1)
      let s ← forRange (fun x s =>
        slideMove input (inRow + (x - RANGE - 1)) (inRow + (x + RANGE)) (outRow + x) s)
        x (m - RANGE) s
      let x : Int := max x (m - RANGE)
      let s ← forRange (fun x s => slideOut input (inRow + (x - RANGE - 1)) (outRow + x) s)
        x m s
      pure s.out) 0 n t) 0 o temp2
  let temp1 ← forLoop (fun k t => forLoop (fun i t => do
      let x : Int := -RANGE
      let s ← forRange (fun x s =>
        slideIn temp2 (i + (x + RANGE) * m + k * m * n) x (i + x * m + k * m * n) s)
        x (RANGE + 1) ⟨0, t⟩
      let x : Int := max x (RANGE + 1)
      let s ← forRange (fun x s =>
        slideMove temp2 (i + (x - RANGE - 1) * m + k * m * n) (i + (x + RANGE) * m + k * m * n)
          (i + x * m + k * m * n) s)
        x (n - RANGE) s
      let x : Int := max x (n - RANGE)
      let s ← forRange (fun x s =>
        slideOut temp2 (i + (x - RANGE - 1) * m + k * m * n) (i + x * m + k * m * n) s)
        x n s
      pure s.out) 0 m t) 0 o temp1
  let output ← forLoop (fun j t => forLoop (fun i t => do
      let x : Int := -RANGE
      let s ← forRange (fun x s =>
        slideIn temp1 (i + j * m + (x + RANGE) * m * n) x (i + j * m + x * m * n) s)
        x (RANGE + 1) ⟨0, t⟩
      let x : Int := max x (RANGE + 1)
      let s ← forRange (fun x s =>
        slideMove temp1 (i + j * m + (x - RANGE - 1) * m * n) (i + j * m + (x + RANGE) * m * n)
          (i + j * m + x * m * n) s)
        x (o - RANGE) s
      let x : Int := max x (o - RANGE)
      let s ← forRange (fun x s =>
        slideOut temp1 (i + j * m + (x - RANGE - 1) * m * n) (i + j * m + x * m * n) s)
        x o s
      pure s.out) 0 m t) 0 n output
  pure ⟨output, temp1, temp2⟩

/-- One line of a sliding-window pass in general form: the source cell of the
line position `t` is `src[rd t]` and the destination cell `dst[wr t]`. -/
def slideLine {α : Type} [Zero α] [Add α] [Sub α] (src dst : Buf α) (RANGE : Int) (len : Nat)
    (rd wr : Int → Int) : Except Err (Buf α) := do
  let x : Int := -RANGE
  let s ← forRange (fun x s => slideIn src (rd (x + RANGE)) x (wr x) s) x (RANGE + 1) ⟨0, dst⟩
  let x : Int := max x (RANGE + 1)
  let s ← forRange (fun x s => slideMove src (rd (x - RANGE - 1)) (rd (x + RANGE)) (wr x) s)
    x (len - RANGE) s
  let x : Int := max x (len - RANGE)
  let s ← forRange (fun x s => slideOut src (rd (x - RANGE - 1)) (wr x) s) x len s
  pure s.out

/-- The three passes of the sliding-window filter in general form, over any
type of array elements with `0`, `+` and `-`. -/
def slideFilter {α : Type} [Zero α] [Add α] [Sub α] (output input temp1 temp2 : Buf α)
    (hw : Int) (m n o : Nat) : Except Err (SlideBufs α) := do
  let temp2 ← forLoop (fun k t => forLoop (fun j t =>
      slideLine input t hw m (fun x => ((j : Int) * m + k * m * n) + x)
        (fun x => ((j : Int) * m + k * m * n) + x)) 0 n t) 0 o temp2
  let temp1 ← forLoop (fun k t => forLoop (fun i t =>
      slideLine temp2 t hw n (fun x => i + x * m + k * m * n)
        (fun x => i + x * m + k * m * n)) 0 m t) 0 o temp1
  let output ← forLoop (fun j t => forLoop (fun i t =>
      slideLine temp1 t hw o (fun x => i + j * m + x * m * n)
        (fun x => i + j * m + x * m * n)) 0 m t) 0 n output
  pure ⟨output, temp1, temp2⟩

/-- Channel `c` of an array of `__m128` that interleaves four channels: lane
`c` of every element. -/
def channel (c : Fin 4) (b : Buf M128) : Buf ℚ :=
  ⟨b.size, fun i => (b.data i).map (fun v => v c)⟩

/-- Channel `c` of the three arrays of `boxfilter4`. -/
def SlideBufs.channel (c : Fin 4) (r : SlideBufs M128) : SlideBufs ℚ :=
  ⟨Deeds.channel c r.output, Deeds.channel c r.temp1, Deeds.channel c r.temp2⟩

/-- Channel `c` of the state of a line. -/
def SlideState.channel (c : Fin 4) (s : SlideState M128) : SlideState ℚ :=
  ⟨s.sumA c, Deeds.channel c s.out⟩

/-- Sum of `f` over the window `[t-hw, t+hw]` clipped to `[0, len)`. -/
def windowSum (hw len : Nat) (f : Nat → ℚ) (t : Nat) : ℚ :=
  ∑ u in Finset.Ico (t - hw) (min len (t + hw + 1)), f u

/-- Sum of the first `k` values of `f`. -/
def prefixSum (f : Nat → ℚ) (k : Nat) : ℚ := ∑ u in Finset.range k, f u

/-- Progress of a line of a sliding-window pass: the destination cells
`wi 0 .. wi (K-1)` of the line hold the values `W`, and the cells outside the
line are those of `dst`. -/
def SlideCells (dst out : Buf ℚ) (wi : Nat → Nat) (W : Nat → ℚ) (len K : Nat) : Prop :=
  out.size = dst.size ∧ (∀ x, x < K → out.data (wi x) = some (W x)) ∧
  ∀ p, (∀ t, t < len → p ≠ wi t) → out.data p = dst.data p

/-- Sum of the volume `I` (of size `m x n x o`, flat index `i+j*m+k*m*n`)
over the box `[i-hw,i+hw] x [j-hw,j+hw] x [k-hw,k+hw]` clipped to the
volume. -/
def boxSum (hw m n o : Nat) (I : Nat → ℚ) (i j k : Nat) : ℚ :=
  windowSum hw o (fun k' => windowSum hw n (fun j' =>
    windowSum hw m (fun i' => I (i' + j' * m + k' * m * n)) i) j) k

/-- One line of a differencing pass of `boxfilter`: the three loops over the
position `x` along the line that write `dst[wr x]` from the running sums of
the line in `src`: `src[rd (x+hw)]` for `x <= hw`, then
`src[rd (x+hw)] - src[rd (x-hw-1)]`, and `src[rd (len-1)] - src[rd (x-hw-1)]`
for the last `hw` positions. -/
def diffLine (src dst : Buf ℚ) (hw : Int) (len : Nat) (rd wr : Int → Int) :
    Except Err (Buf ℚ) := do
  let t ← forRange (fun x t => copyAt t src (wr x) (rd (x + hw))) 0 (hw + 1) dst
  let t ← forRange (fun x t => diffAt t src (wr x) (rd (x + hw)) (rd (x - hw - 1)))
    (hw + 1) (len - hw) t
  forRange (fun x t => diffAt t src (wr x) (rd ((len : Int) - 1)) (rd (x - hw - 1)))
    (len - hw) len t

/-- One running-sum pass of `boxfilter`: the loop nest over `k`, `j`, `i` from
the lower bounds `lk`, `lj`, `li` that adds to every cell its predecessor
`prev k j i` along the axis of the pass. -/
def cumPass (t : Buf ℚ) (m n o li lj lk : Nat) (prev : Nat → Nat → Nat → Int) :
    Except Err (Buf ℚ) :=
  forLoop (fun k t => forLoop (fun j t => forLoop (fun i t =>
      cumAt t ((i : Int) + j * m + k * m * n) (prev k j i))
    li (m - li) t) lj (n - lj) t) lk (o - lk) t

/-- The function `boxfilter` written with `cumPass` and `diffLine`. -/
def cumFilter (input temp1 temp2 : Buf ℚ) (hw : Int) (m n o : Nat) : Except Err BoxState := do
  let temp1 ← forLoop (fun i t => copyAt t input i i) 0 (m * n * o) temp1
  let temp1 ← cumPass temp1 m n o 1 0 0 (fun k j i => ((i : Int) - 1) + j * m + k * m * n)
  let temp2 ← forLoop (fun k t => forLoop (fun j t =>
      diffLine temp1 t hw m (fun x => x + j * m + k * m * n) (fun x => x + j * m + k * m * n))
    0 n t) 0 o temp2
  let temp2 ← cumPass temp2 m n o 0 1 0 (fun k j i => (i : Int) + ((j : Int) - 1) * m + k * m * n)
  let temp1 ← forLoop (fun k t => forLoop (fun i t =>
      diffLine temp2 t hw n (fun x => i + x * m + k * m * n) (fun x => i + x * m + k * m * n))
    0 m t) 0 o temp1
  let temp1 ← cumPass temp1 m n o 0 0 1 (fun k j i => (i : Int) + j * m + ((k : Int) - 1) * m * n)
  let input ← forLoop (fun j t => forLoop (fun i t =>
      diffLine temp1 t hw o (fun x => i + j * m + x * m * n) (fun x => i + j * m + x * m * n))
    0 m t) 0 n input
  pure ⟨input, temp1, temp2⟩

/-! ## Closed forms of the values computed by `descriptor` -/

/-- Flat index of the voxel that `imshift` copies to the output voxel `p`: the
voxel shifted by `(dy, dx, dz)` along the three axes when it lies in the
volume, `p` itself otherwise. -/
def imshift.source (dx dy dz : Int) (m n o p : Nat) : Nat :=
  if 0 ≤ ((p % m : Nat) : Int) + dy ∧ ((p % m : Nat) : Int) + dy < m ∧
      0 ≤ ((p / m % n : Nat) : Int) + dx ∧ ((p / m % n : Nat) : Int) + dx < n ∧
      0 ≤ ((p / (m * n) : Nat) : Int) + dz ∧ ((p / (m * n) : Nat) : Int) + dz < o then
    (((p % m : Nat) : Int) + dy + (((p / m % n : Nat) : Int) + dx) * m
      + (((p / (m * n) : Nat) : Int) + dz) * m * n).toNat
  else p

/-- Value of `w1[p]` in direction `l` of `descriptor` before the box filter:
the squared difference of the image `I` and its shifted copy. -/
def descriptor.diffSq (I : Nat → ℚ) (m n o : Nat) (qs : Int) (l p : Nat) : ℚ :=
  (I (imshift.source (descriptor.entry [qs, qs, -qs, 0, qs, 0] l)
      (descriptor.entry [qs, -qs, 0, -qs, 0, qs] l)
      (descriptor.entry [0, 0, qs, qs, qs, qs] l) m n o p) - I p) ^ 2

/-- Value of `d1[p+l*sz1]` in `descriptor`: the box sum of the squared
differences of direction `l` around the voxel `p`. -/
def descriptor.patch (I : Nat → ℚ) (m n o qs l p : Nat) : ℚ :=
  boxSum qs m n o (descriptor.diffSq I m n o (qs : Int) l) (p % m) (p / m % n) (p / (m * n))

/-- Value of `mind[p+l*sz1]` in `descriptor` before the normalisation: the
patch distance of channel `l` at the voxel `p`. -/
def descriptor.distance (I : Nat → ℚ) (m n o qs l p : Nat) : ℚ :=
  descriptor.patch I m n o qs (descriptor.entry [0, 0, 1, 1, 2, 2, 3, 3, 4, 4, 5, 5] l).toNat
    (imshift.source (descriptor.entry [-(qs : Int), 0, -qs, 0, 0, qs, 0, 0, 0, -qs, 0, 0] l)
      (descriptor.entry [0, -(qs : Int), 0, qs, 0, 0, 0, qs, 0, 0, 0, -qs] l)
      (descriptor.entry [0, 0, 0, 0, -(qs : Int), 0, -qs, 0, -qs, 0, -qs, 0] l) m n o p)

/-- Value of `noise1[i]` in `descriptor` before the clamping, for channel
values `D`: the mean over the twelve channels of the excess over the running
minimum. -/
def descriptor.noise (D : Nat → ℚ) (sz1 i : Nat) : ℚ :=
  (∑ l in Finset.range 12, (D (i + l * sz1) - descriptor.leastOf D sz1 i 12)) / 12

/-- Value of `mean1` in `descriptor`, for channel values `D`. -/
def descriptor.mean (D : Nat → ℚ) (sz1 : Nat) : ℚ :=
  (∑ i in Finset.range sz1, descriptor.noise D sz1 i) / (sz1 : ℚ)

/-- Value of `noise1[i]` in `descriptor` after the clamping with the mean
`mean1`. -/
def descriptor.clamped (D : Nat → ℚ) (sz1 : Nat) (mean1 : ℚ) (i : Nat) : ℚ :=
  min (max (descriptor.noise D sz1 i) (1 / 1000 * mean1)) (1000 * mean1)

/-- Value of the channel `mind[i+l*sz1]` returned by `descriptor`, for channel
distances `D` and the mean normaliser `mean1`. -/
def descriptor.value (exp : ℚ → ℚ) (D : Nat → ℚ) (sz1 : Nat) (mean1 : ℚ) (i l : Nat) : ℚ :=
  exp (-(D (i + l * sz1) - descriptor.leastOf D sz1 i 12) / descriptor.clamped D sz1 mean1 i)

/-- Channel distances of `descriptor` by flat index: the entry
`mind[i+l*sz1]` before the normalisation, for an image `I`. -/
def descriptor.channels (I : Nat → ℚ) (m n o qs : Nat) (q : Nat) : ℚ :=
  descriptor.distance I m n o qs (q / (m * n * o)) (q % (m * n * o))

/-! ## Distance transform `dt1sq`, `dt3x` (fastdt2.h) -/

/-- The constant `INF=1e10` of `dt1sq`. -/
def dt1sq.INF : ℚ := 10000000000

/-- Arrays used by `dt1sq`: the strided cost and index arrays `val`, `ind`
(addressed from a base offset) and the scratch arrays `v`, `z`, `f`, `ind1`. -/
structure DtState where
  val : Buf ℚ
  ind : Buf Int
  v : Buf Int
  z : Buf ℚ
  f : Buf ℚ
  ind1 : Buf Int

/-- The intersection expression of `dt1sq`,
`((val[q*k]+pow(q+offset,2))-(val[v[j]*k]+pow(v[j]+offset,2)))/(2*(q-v[j]))`;
a zero denominator has no value in exact arithmetic. -/
def dt1sq.inter (val : Buf ℚ) (base k : Nat) (offset : ℚ) (v : Buf Int) (q : Nat) (j : Int) :
    Except Err ℚ := do
  let vq ← val.get ((base + q * k : Nat) : Int)
  let vj ← v.get j
  let vv ← val.get ((base : Int) + vj * k)
  if (2 : ℚ) * (((q : Int) - vj : Int) : ℚ) = 0 then .error Err.divZero
  else pure (((vq + ((q : ℚ) + offset) ^ 2) - (vv + ((vj : ℚ) + offset) ^ 2))
    / (2 * (((q : Int) - vj : Int) : ℚ)))

/-- The loop `while(s<=z[j]){ j--; s=...; }` of `dt1sq`, returning the final
`j` and `s`. -/
def dt1sq.pop (val : Buf ℚ) (base k : Nat) (offset : ℚ) (v : Buf Int) (z : Buf ℚ) (q : Nat) :
    Nat → Int → ℚ → Except Err (Int × ℚ)
  | 0, _, _ => .error Err.fuel
  | fuel + 1, j, s => do
    let zj ← z.get j
    if s ≤ zj then
      let s' ← dt1sq.inter val base k offset v q (j - 1)
      dt1sq.pop val base k offset v z q fuel (j - 1) s'
    else pure (j, s)

/-- The lower envelope under construction: stack pointer `j`, parabola
positions `v` and boundaries `z`. -/
structure Envelope where
  j : Int
  v : Buf Int
  z : Buf ℚ

/-- Body of the first loop of `dt1sq` for parabola `q`. -/
def dt1sq.push (val : Buf ℚ) (base k : Nat) (offset : ℚ) (len : Nat) (q : Nat) (e : Envelope) :
    Except Err Envelope := do
  let s ← dt1sq.inter val base k offset e.v q e.j
  let r ← dt1sq.pop val base k offset e.v e.z q (len + 1) e.j s
  let j := r.1 + 1
  let v ← e.v.set j q
  let z ← e.z.set j r.2
  let z ← z.set (j + 1) dt1sq.INF
  pure ⟨j, v, z⟩

/-- The loop `while(z[j+1]<q){ j++; }` of `dt1sq`, returning the final `j`. -/
def dt1sq.scan (z : Buf ℚ) (q : Nat) : Nat → Int → Except Err Int
  | 0, _ => .error Err.fuel
  | fuel + 1, j => do
    let zj ← z.get (j + 1)
    if zj < (q : ℚ) then dt1sq.scan z q fuel (j + 1) else pure j

/-- State of the last loop of `dt1sq`: pointer `j` and the output arrays. -/
structure DtOut where
  j : Int
  val : Buf ℚ
  ind : Buf Int

/-- Body of the last loop of `dt1sq` for output position `q`. -/
def dt1sq.emit (base k : Nat) (offset : ℚ) (len : Nat) (v : Buf Int) (z f : Buf ℚ)
    (ind1 : Buf Int) (q : Nat) (o : DtOut) : Except Err DtOut := do
  let j ← dt1sq.scan z q (len + 1) o.j
  let vj ← v.get j
  let i1 ← ind1.get vj
  let ind ← o.ind.set ((base + q * k : Nat) : Int) i1
  let fv ← f.get vj
  let val ← o.val.set ((base + q * k : Nat) : Int) (((q : ℚ) - ((vj : ℚ) + offset)) ^ 2 + fv)
  pure ⟨j, val, ind⟩

/-- Body of the copy loop of `dt1sq`: `f[q]=val[q*k]; ind1[q]=ind[q*k];`. -/
def dt1sq.copy (val : Buf ℚ) (ind : Buf Int) (base k : Nat) (q : Nat) (p : Buf ℚ × Buf Int) :
    Except Err (Buf ℚ × Buf Int) := do
  let x ← val.get ((base + q * k : Nat) : Int)
  let f ← p.1.set q x
  let y ← ind.get ((base + q * k : Nat) : Int)
  let i1 ← p.2.set q y
  pure (f, i1)

/-- Embedding of `dt1sq(val,ind,len,offset,k,v,z,f,ind1)` where the pointers
`val` and `ind` point `base` cells into the arrays of the state. -/
def dt1sq (base len : Nat) (offset : ℚ) (k : Nat) (st : DtState) : Except Err DtState := do
  let z ← st.z.set 0 (-dt1sq.INF)
  let z ← z.set 1 dt1sq.INF
  let v ← st.v.set 0 0
  let e ← forLoop (dt1sq.push st.val base k offset len) 1 (len - 1) ⟨0, v, z⟩
  let p ← forLoop (dt1sq.copy st.val st.ind base k) 0 len (st.f, st.ind1)
  let o ← forLoop (dt1sq.emit base k offset len e.v e.z p.1 p.2) 0 len ⟨0, st.val, st.ind⟩
  pure ⟨o.val, o.ind, e.v, e.z, p.1, p.2⟩

/-- Loop nest `for(a<na) for(b<nb) body`. -/
def doubleLoop {σ : Type} (na nb : Nat) (body : Nat → Nat → σ → Except Err σ) (s : σ) :
    Except Err σ :=
  forLoop (fun a s => forLoop (fun b s => body a b s) 0 nb s) 0 na s

/-- Embedding of `dt3x(r,indr,rl,dx,dy,dz)`, returning the arrays `r` and
`indr`. -/
def dt3x (r : Buf ℚ) (indr : Buf Int) (rl : Nat) (dx dy dz : ℚ) :
    Except Err (Buf ℚ × Buf Int) := do
  let indr ← forLoop (fun i (t : Buf Int) => t.set i i) 0 (rl * rl * rl) indr
  let st : DtState := ⟨r, indr, Buf.new rl, Buf.new (rl + 1), Buf.new rl, Buf.new rl⟩
  let st ← doubleLoop rl rl (fun k i st => dt1sq (i + k * rl * rl) rl (-dx) rl st) st
  let st ← doubleLoop rl rl (fun k j st => dt1sq (j * rl + k * rl * rl) rl (-dy) 1 st) st
  let st ← doubleLoop rl rl (fun j i st => dt1sq (i + j * rl) rl (-dz) (rl * rl) st) st
  pure (st.val, st.ind)

/-- Parabola rooted at `p`: the cost `F p` plus the squared distance of `x`
from `p + off`. -/
def parab (F : Nat → ℚ) (off : ℚ) (p : Nat) (x : ℚ) : ℚ := F p + (x - ((p : ℚ) + off)) ^ 2

/-- Abscissa where the parabolas rooted at `p` and `p'` intersect. -/
def cross (F : Nat → ℚ) (off : ℚ) (p p' : Nat) : ℚ :=
  ((F p' + ((p' : ℚ) + off) ^ 2) - (F p + ((p : ℚ) + off) ^ 2)) / (2 * ((p' : ℚ) - (p : ℚ)))

/-- Lower-envelope invariant of the first loop of `dt1sq` once the parabolas
`0 .. q-1` are processed: the stack `sv 0 .. sv J` is increasing from `0` to
`q-1`, the boundaries `zv` are the successive intersections and increase, and
every processed parabola is dominated everywhere by a parabola of the stack. -/
def IsEnvelope (F : Nat → ℚ) (off : ℚ) (q J : Nat) (sv : Nat → Nat) (zv : Nat → ℚ) : Prop :=
  sv 0 = 0 ∧ sv J + 1 = q ∧ (∀ i, i < J → sv i < sv (i + 1)) ∧
  zv 0 = -dt1sq.INF ∧ (∀ i, i < J → zv (i + 1) = cross F off (sv i) (sv (i + 1))) ∧
  (∀ i, i < J → zv i < zv (i + 1)) ∧
  (∀ p, p < q → ∀ x : ℚ, ∃ i, i ≤ J ∧ parab F off (sv i) x ≤ parab F off p x)

/-- The stack `sv`, `zv` of height `J` is what the arrays `v` and `z` hold,
with the sentinel `INF` above the top. -/
def Stored (v : Buf Int) (z : Buf ℚ) (J : Nat) (sv : Nat → Nat) (zv : Nat → ℚ) : Prop :=
  (∀ i, i ≤ J → v.data i = some ((sv i : Nat) : Int)) ∧
  (∀ i, i ≤ J → z.data i = some (zv i)) ∧ z.data (J + 1) = some dt1sq.INF

/-- Input condition of `dt1sq`: no intersection with the first parabola lies
at or below the sentinel `-INF`, and the length does not exceed `INF`. -/
def DtSafe (F : Nat → ℚ) (off : ℚ) (len : Nat) : Prop :=
  (∀ q, 1 ≤ q → q < len → -dt1sq.INF < cross F off 0 q) ∧ ((len : ℚ) ≤ dt1sq.INF + 1)

/-! ## Tree regularisation `regularisation` (regularisation2T.h) -/

/-- Conversion of an `int` to the 16-bit `short` stored in `allinds`. -/
def toShort (x : Int) : Int := (x + 32768) % 65536 - 32768

/-- Arrays written by `regularisation`: the cost volume `costall` (updated in
place), the scratch vectors `cost1` and `inds`, the argmin tables `allinds`,
the selected labels and the output field. -/
structure RegState where
  costall : Buf ℚ
  cost1 : Buf ℚ
  inds : Buf Int
  allinds : Buf Int
  selected : Buf Int
  u1 : Buf ℚ
  v1 : Buf ℚ
  w1 : Buf ℚ

/-- Grid position of a control point and back:
`z1=node/(m*n); x1=(node-z1*m*n)/m; y1=node-z1*m*n-x1*m;` followed by
`y1+x1*m+z1*m*n`, the array position used for the node. -/
def regularisation.flat (m n : Nat) (node : Int) : Except Err Int :=
  if (m : Int) * n = 0 then .error Err.divZero
  else if (m : Int) = 0 then .error Err.divZero
  else
    let z1 := node.tdiv ((m : Int) * n)
    let x1 := (node - z1 * m * n).tdiv m
    let y1 := node - z1 * m * n - x1 * m
    .ok (y1 + x1 * m + z1 * m * n)

/-- Loop `for(l<len2) cost1[l]=costall[node+l*sz];`. -/
def regularisation.loadRow (costall : Buf ℚ) (node : Int) (sz len2 : Nat) (cost1 : Buf ℚ) :
    Except Err (Buf ℚ) :=
  forLoop (fun l (t : Buf ℚ) => do
    let x ← costall.get (node + (l : Int) * sz)
    t.set l x) 0 len2 cost1

/-- Offset of the incremental regularisation for one field component:
`(u0[parent]-u0[child])/(float)quant`. -/
def regularisation.delta (u0 : Buf ℚ) (p c : Int) (quant : ℚ) : Except Err ℚ := do
  let a ← u0.get p
  let b ← u0.get c
  if quant = 0 then .error Err.divZero else pure ((a - b) / quant)

/-- Body of the first loop of `regularisation` (leaves to root) for the
position `i` of `ordered`. -/
def regularisation.message (u0 v0 w0 : Buf ℚ) (ordered parents : Buf Int) (hw : Nat)
    (quant : ℚ) (m n o : Nat) (frac : Int) (i : Nat) (s : RegState) : Except Err RegState := do
  let sz : Nat := m * n * o
  let len : Nat := hw * 2 + 1
  let len2 : Nat := len * len * len
  if frac = 0 then .error Err.divZero else
  let ochild ← ordered.get i
  let oparent ← parents.get ochild
  let c ← regularisation.flat m n ochild
  let p ← regularisation.flat m n oparent
  let cost1 ← regularisation.loadRow s.costall ochild sz len2 s.cost1
  let dx1 ← regularisation.delta u0 p c quant
  let dy1 ← regularisation.delta v0 p c quant
  let dz1 ← regularisation.delta w0 p c quant
  let r ← dt3x cost1 s.inds len dx1 dy1 dz1
  let allinds ← forLoop (fun l (t : Buf Int) => do
    let x ← r.2.get l
    t.set (c + (l : Int) * sz) (toShort x)) 0 len2 s.allinds
  let costall ← forLoop (fun l (t : Buf ℚ) => do
    let a ← t.get (oparent + (l : Int) * sz)
    let b ← r.1.get l
    t.set (oparent + (l : Int) * sz) (a + b)) 0 len2 s.costall
  pure { s with costall := costall, cost1 := r.1, inds := r.2, allinds := allinds }

/-- Commit of label `index` at array position `c`: `selected[c]=index` and
`u1[c]=xs[index]+u0[c]`, likewise for `v1` and `w1`. -/
def regularisation.commit (tab : LabelTable) (u0 v0 w0 : Buf ℚ) (c index : Int) (s : RegState) :
    Except Err RegState := do
  let selected ← s.selected.set c index
  let u1 ← s.u1.set c ((← tab.xs.get index) + (← u0.get c))
  let v1 ← s.v1.set c ((← tab.ys.get index) + (← v0.get c))
  let w1 ← s.w1.set c ((← tab.zs.get index) + (← w0.get c))
  pure { s with selected := selected, u1 := u1, v1 := v1, w1 := w1 }

/-- Selection of the label of the root: argmin of its aggregated cost. -/
def regularisation.root (tab : LabelTable) (u0 v0 w0 : Buf ℚ) (ordered : Buf Int) (hw : Nat)
    (m n o : Nat) (s : RegState) : Except Err RegState := do
  let sz : Nat := m * n * o
  let len : Nat := hw * 2 + 1
  let len2 : Nat := len * len * len
  let oroot ← ordered.get 0
  let c ← regularisation.flat m n oroot
  let cost1 ← regularisation.loadRow s.costall oroot sz len2 s.cost1
  let r ← minimumIndA cost1 len2
  let allinds ← forLoop (fun l (t : Buf Int) => t.set (c + (l : Int) * sz) (toShort l))
    0 len2 s.allinds
  regularisation.commit tab u0 v0 w0 c r.index { s with cost1 := cost1, allinds := allinds }

/-- Body of the second loop of `regularisation` (root to leaves) for the
position `i` of `ordered`. -/
def regularisation.select (tab : LabelTable) (u0 v0 w0 : Buf ℚ) (ordered parents : Buf Int)
    (m n o : Nat) (i : Nat) (s : RegState) : Except Err RegState := do
  let ochild ← ordered.get i
  let oparent ← parents.get ochild
  let c ← regularisation.flat m n ochild
  let p ← regularisation.flat m n oparent
  let sp ← s.selected.get p
  let index ← s.allinds.get (c + sp * m * n * o)
  regularisation.commit tab u0 v0 w0 c index s

/-- Embedding of `regularisation`: the thread argument is passed as separate
parameters, the globals `image_m`, `image_n`, `image_o` are parameters, and
the arrays of the final state are returned.  The unused `vals`, `alpha1` and
the timers are left out; the progress output is kept only for its remainder
`i%frac`. -/
def regularisation (u1 v1 w1 u0 v0 w0 costall : Buf ℚ) (hw step1 : Nat) (quant : ℚ)
    (ordered parents : Buf Int) (image_m image_n image_o : Nat) : Except Err RegState := do
  if step1 = 0 then .error Err.divZero else
  let m : Nat := image_m / step1
  let n : Nat := image_n / step1
  let o : Nat := image_o / step1
  let sz : Nat := m * n * o
  let len : Nat := hw * 2 + 1
  let tab ← labelTable hw quant
  let len2 : Nat := len * len * len
  let cost1 ← forLoop (fun i (t : Buf ℚ) => t.set i 0) 0 len2 (Buf.new len2)
  let frac : Int := ((sz / 25 : Nat) : Int)
  let s ← forDown (regularisation.message u0 v0 w0 ordered parents hw quant m n o frac) (sz - 1)
    ⟨costall, cost1, Buf.new len2, Buf.new (sz * len2), Buf.new sz, u1, v1, w1⟩
  let s ← regularisation.root tab u0 v0 w0 ordered hw m n o s
  forLoop (regularisation.select tab u0 v0 w0 ordered parents m n o) 1 (sz - 1) s

/-- Reading of a failed run: the error, if the run failed. -/
def failure? {α : Type} (x : Except Err α) : Option Err :=
  match x with
  | .error e => some e
  | .ok _ => none

/-- Component of a label index along the axis of the innermost table loop
variable `i` (the `ys` component). -/
def labelI (len l : Nat) : Nat := l % len

/-- Component of a label index along the axis of `j` (the `xs` component). -/
def labelJ (len l : Nat) : Nat := (l / len) % len

/-- Component of a label index along the axis of `k` (the `zs` component). -/
def labelK (len l : Nat) : Nat := l / (len * len)

/-- Pairwise term of the energy: squared distance, in label-index units,
between the parent label shifted by the prior difference `(dx,dy,dz)` and the
child label. -/
def regularisation.penalty (len : Nat) (dx dy dz : ℚ) (lp lc : Nat) : ℚ :=
  ((labelJ len lp : ℚ) - (labelJ len lc : ℚ) + dx) ^ 2
    + ((labelI len lp : ℚ) - (labelI len lc : ℚ) + dy) ^ 2
    + ((labelK len lp : ℚ) - (labelK len lc : ℚ) + dz) ^ 2

/-- Pairwise term of the edge from the node at position `i` of `ordered` to
its parent, for the labelling `lab`; the prior difference is
`(prior(parent)-prior(child))/quant`. -/
def regularisation.edge (len : Nat) (U V W : Nat → ℚ) (quant : ℚ) (ord par : Nat → Nat)
    (lab : Nat → Nat) (i : Nat) : ℚ :=
  regularisation.penalty len ((U (par (ord i)) - U (ord i)) / quant)
    ((V (par (ord i)) - V (ord i)) / quant) ((W (par (ord i)) - W (ord i)) / quant)
    (lab (par (ord i))) (lab (ord i))

/-- Total energy of a labelling: the sum over the nodes of the cost of the
chosen label plus the sum over the non-root nodes of the pairwise term. -/
def regularisation.energy (sz len : Nat) (C : Nat → Nat → ℚ) (U V W : Nat → ℚ) (quant : ℚ)
    (ord par : Nat → Nat) (lab : Nat → Nat) : ℚ :=
  ∑ n in Finset.range sz, C n (lab n)
    + ∑ i in Finset.Ico 1 sz, regularisation.edge len U V W quant ord par lab i

/-- Energy that remains when the positions above `i` have been folded into
their parents: current costs of the positions up to `i` plus the pairwise
terms of the edges of the positions `1 .. i`. -/
def regularisation.partialEnergy (len : Nat) (cur : Nat → Nat → ℚ) (U V W : Nat → ℚ)
    (quant : ℚ) (ord par : Nat → Nat) (i : Nat) (lab : Nat → Nat) : ℚ :=
  ∑ t in Finset.range (i + 1), cur (ord t) (lab (ord t))
    + ∑ t in Finset.Ico 1 (i + 1), regularisation.edge len U V W quant ord par lab t

/-- The pair `(ordered, parents)` describes a tree over `sz` control points:
`ordered` is a permutation of the control points and the parent of every
non-root node occurs at a smaller position. -/
def ValidTree (sz : Nat) (ord par : Nat → Nat) : Prop :=
  (∀ i, i < sz → ord i < sz) ∧
  (∀ i j, i < sz → j < sz → ord i = ord j → i = j) ∧
  (∀ i, 1 ≤ i → i < sz → ∃ i', i' < i ∧ ord i' = par (ord i))

/-- The input arrays of `regularisation` hold the prior field `(U,V,W)` and
the tree `(ord, par)` over `sz` control points. -/
def RegInputs (sz : Nat) (u0 v0 w0 : Buf ℚ) (ordered parents : Buf Int) (U V W : Nat → ℚ)
    (ord par : Nat → Nat) : Prop :=
  sz ≤ u0.size ∧ sz ≤ v0.size ∧ sz ≤ w0.size ∧ sz ≤ ordered.size ∧ sz ≤ parents.size ∧
  (∀ n, n < sz → u0.data n = some (U n) ∧ v0.data n = some (V n) ∧ w0.data n = some (W n)) ∧
  (∀ i, i < sz → ordered.data i = some ((ord i : Nat) : Int)) ∧
  (∀ i, 1 ≤ i → i < sz → parents.data (ord i) = some ((par (ord i) : Nat) : Int))

/-- Invariant of the first loop of `regularisation` before the iteration of
position `i`: the nodes at the positions above `i` have been folded into
their parents.  `cur` are the current entries of `costall`, `tbl` the argmin
tables stored so far and `wt` the number of nodes folded into each node. -/
def regularisation.FoldInv (sz len L : Nat) (B D : ℚ) (C : Nat → Nat → ℚ) (U V W : Nat → ℚ)
    (quant : ℚ) (ord par : Nat → Nat) (s0 : RegState) (i : Nat) (s : RegState) : Prop :=
  s.costall.size = sz * L ∧ s.cost1.size = L ∧ s.inds.size = L ∧ s.allinds.size = sz * L ∧
  s.selected = s0.selected ∧ s.u1 = s0.u1 ∧ s.v1 = s0.v1 ∧ s.w1 = s0.w1 ∧
  ∃ (cur : Nat → Nat → ℚ) (tbl : Nat → Nat → Nat) (wt : Nat → ℚ),
    (∀ nd l, nd < sz → l < L → s.costall.data (nd + l * sz) = some (cur nd l)) ∧
    (∀ t l, i < t → t < sz → l < L →
      s.allinds.data (ord t + l * sz) = some ((tbl (ord t) l : Nat) : Int) ∧
      tbl (ord t) l < L) ∧
    (∀ nd, 1 ≤ wt nd) ∧
    (∑ t in Finset.range (i + 1), wt (ord t) ≤ (sz : ℚ)) ∧
    (∀ nd l, nd < sz → l < L →
      -(wt nd * B) ≤ cur nd l ∧ cur nd l + 3 * D ^ 2 ≤ wt nd * (B + 3 * D ^ 2)) ∧
    (∀ lab : Nat → Nat, (∀ nd, nd < sz → lab nd < L) →
      regularisation.partialEnergy len cur U V W quant ord par i lab
        ≤ regularisation.energy sz len C U V W quant ord par lab) ∧
    (∀ lab : Nat → Nat, (∀ nd, nd < sz → lab nd < L) →
      (∀ t, i < t → t < sz → lab (ord t) = tbl (ord t) (lab (par (ord t)))) →
      regularisation.partialEnergy len cur U V W quant ord par i lab
        = regularisation.energy sz len C U V W quant ord par lab)

/-- Entry of the label tables for the component index `c`:
`(c-hw)*quant`. -/
def labelOffset (hw : Nat) (quant : ℚ) (c : Nat) : ℚ := (((c : Int) - hw : Int) : ℚ) * quant

/-- The tables `xs`, `ys`, `zs` as built by `labelTable`, on flat indices. -/
def IsLabelTable (hw : Nat) (quant : ℚ) (tab : LabelTable) : Prop :=
  tab.xs.size = (hw * 2 + 1) * (hw * 2 + 1) * (hw * 2 + 1) ∧
  tab.ys.size = (hw * 2 + 1) * (hw * 2 + 1) * (hw * 2 + 1) ∧
  tab.zs.size = (hw * 2 + 1) * (hw * 2 + 1) * (hw * 2 + 1) ∧
  ∀ l, l < (hw * 2 + 1) * (hw * 2 + 1) * (hw * 2 + 1) →
    tab.xs.data l = some (labelOffset hw quant (labelJ (hw * 2 + 1) l)) ∧
    tab.ys.data l = some (labelOffset hw quant (labelI (hw * 2 + 1) l)) ∧
    tab.zs.data l = some (labelOffset hw quant (labelK (hw * 2 + 1) l))

/-- Invariant of the second loop of `regularisation` before the iteration of
position `i`: the nodes at the positions below `i` carry their label `sel`
and their output displacement; the label of the root is `r` and the label of
every other node is read from its argmin table `tbl` at the label of its
parent. -/
def regularisation.SelInv (sz hw : Nat) (quant : ℚ) (U V W : Nat → ℚ) (ord par : Nat → Nat)
    (tbl : Nat → Nat → Nat) (r : Nat) (allinds : Buf Int) (i : Nat) (s : RegState) : Prop :=
  s.allinds = allinds ∧ sz ≤ s.selected.size ∧ sz ≤ s.u1.size ∧ sz ≤ s.v1.size ∧
  sz ≤ s.w1.size ∧
  ∃ sel : Nat → Nat,
    (∀ nd, sel nd < (hw * 2 + 1) * (hw * 2 + 1) * (hw * 2 + 1)) ∧ sel (ord 0) = r ∧
    (∀ t, t < i →
      s.selected.data (ord t) = some ((sel (ord t) : Nat) : Int) ∧
      s.u1.data (ord t)
        = some (labelOffset hw quant (labelJ (hw * 2 + 1) (sel (ord t))) + U (ord t)) ∧
      s.v1.data (ord t)
        = some (labelOffset hw quant (labelI (hw * 2 + 1) (sel (ord t))) + V (ord t)) ∧
      s.w1.data (ord t)
        = some (labelOffset hw quant (labelK (hw * 2 + 1) (sel (ord t))) + W (ord t))) ∧
    ∀ t, 1 ≤ t → t < i → sel (ord t) = tbl (ord t) (sel (par (ord t)))

/-- Label selected for the control point `c` by a run of `regularisation`, if
the run succeeded and wrote it. -/
def selectedOf (x : Except Err RegState) (c : Nat) : Option Int :=
  match x with
  | .ok s => s.selected.data c
  | .error _ => none

/-- Sum of the messages `M t` of the positions `lo <= t < sz` of `ordered`
whose parent is the node `nd`, at the label `l`. -/
def regularisation.received (sz : Nat) (ord par : Nat → Nat) (M : Nat → Nat → ℚ)
    (lo nd l : Nat) : ℚ :=
  ∑ t in Finset.Ico lo sz, if nd = par (ord t) then M t l else 0

/-! ## Similarity term `dataCost` (dataCostD_mind.h) -/

/-- Arrays and counters changed by the loop of `dataCost` over the control
points: the cost volume, the scratch vector `cost1`, and the number of values
drawn from `getrand` so far. -/
structure CostState where
  costall : Buf ℚ
  cost1 : Buf ℚ
  draws : Nat

/-- Clamping of a voxel coordinate, `max(min(x,hi-1),0)`. -/
def dataCost.clamp (x hi : Int) : Int := max (min x (hi - 1)) 0

/-- Displaced voxel `ind2` of label `l` for the sample voxel `(xx,yy,zz)` with
flat index `ind1`: found by clamping (`!boundaries`) or by adding the
precomputed offset `inds[l]`. -/
def dataCost.displaced (tab : CostTable) (m n o : Nat) (boundaries : Bool)
    (xx yy zz ind1 : Int) (l : Nat) : Except Err Int :=
  if !boundaries then do
    let xx2 := dataCost.clamp (xx + truncToInt (← tab.xs.get l)) n
    let yy2 := dataCost.clamp (yy + truncToInt (← tab.ys.get l)) m
    let zz2 := dataCost.clamp (zz + truncToInt (← tab.zs.get l)) o
    pure (yy2 + xx2 * m + zz2 * m * n)
  else do
    let d ← tab.inds.get l
    pure (ind1 + d)

/-- Body of the loop over the labels for one sample voxel: the Hamming
distance of the descriptor of the sample voxel and of the displaced voxel is
added to `cost1[l]`. -/
def dataCost.accumulate (tab : CostTable) (fixed_mind moving_mind : Buf Nat) (m n o : Nat)
    (boundaries : Bool) (xx yy zz ind1 : Int) (l : Nat) (cost1 : Buf ℚ) :
    Except Err (Buf ℚ) := do
  let ind2 ← dataCost.displaced tab m n o boundaries xx yy zz ind1 l
  let a ← fixed_mind.get ind1
  let b ← moving_mind.get ind2
  let c ← cost1.get l
  cost1.set l (c + (popcount_3 (a ^^^ b) : ℚ))

/-- Body of the loop over the samples of one control point whose block starts
at the voxel `(x1,y1,z1)`.  In random mode the sample is
`(int)(getrand()*step1^3)`, where the value returned by the `k`-th call of
`getrand` is `rnd k`. -/
def dataCost.sample (tab : CostTable) (fixed_mind moving_mind : Buf Nat) (m n o step1 : Nat)
    (randommode : Bool) (rnd : Nat → ℚ) (x1 y1 z1 : Int) (boundaries : Bool) (len4 : Nat)
    (j1 : Nat) (s : CostState) : Except Err CostState := do
  let i1 : Int := if randommode then truncToInt (rnd s.draws * (step1 : ℚ) ^ 3) else (j1 : Int)
  let draws : Nat := if randommode then s.draws + 1 else s.draws
  if (step1 : Int) * step1 = 0 then .error Err.divZero else
  let zz := i1.tdiv ((step1 : Int) * step1)
  let xx := (i1 - zz * step1 * step1).tdiv step1
  let yy := i1 - zz * step1 * step1 - xx * step1
  let xx := xx + x1
  let yy := yy + y1
  let zz := zz + z1
  let ind1 : Int := yy + xx * m + zz * m * n
  let cost1 ← forLoop
    (dataCost.accumulate tab fixed_mind moving_mind m n o boundaries xx yy zz ind1) 0 len4 s.cost1
  pure { s with cost1 := cost1, draws := draws }

/-- Flag `boundaries` of `dataCost` (no subpixel mode): the block of the
control point, enlarged by the search radius `hw2`, lies inside the image. -/
def dataCost.boundaries (m n o step1 : Nat) (hw2 x1 y1 z1 : Int) : Bool :=
  let b : Bool := true
  let b : Bool :=
    if x1 + ((step1 : Int) - 1) + hw2 ≥ n ∨ y1 + ((step1 : Int) - 1) + hw2 ≥ m
        ∨ z1 + ((step1 : Int) - 1) + hw2 ≥ o then false else b
  if x1 - hw2 < 0 ∨ y1 - hw2 < 0 ∨ z1 - hw2 < 0 then false else b

/-- Body of the loop of `dataCost` over the control points `i`. -/
def dataCost.point (tab : CostTable) (fixed_mind moving_mind : Buf Nat) (m n o step1 : Nat)
    (hw2 : Int) (randommode : Bool) (maxsamp : Nat) (alpha2 : ℚ) (rnd : Nat → ℚ) (len4 : Nat)
    (i : Nat) (s : CostState) : Except Err CostState := do
  let m1 : Nat := m / step1
  let n1 : Nat := n / step1
  let o1 : Nat := o / step1
  let sz1 : Nat := m1 * n1 * o1
  if (m1 : Int) * n1 = 0 then .error Err.divZero else
  if (m1 : Int) = 0 then .error Err.divZero else
  let z1 : Int := (i : Int).tdiv ((m1 : Int) * n1)
  let x1 : Int := ((i : Int) - z1 * m1 * n1).tdiv m1
  let y1 : Int := (i : Int) - z1 * m1 * n1 - x1 * m1
  let z1 := z1 * step1
  let x1 := x1 * step1
  let y1 := y1 * step1
  let boundaries := dataCost.boundaries m n o step1 hw2 x1 y1 z1
  let cost1 ← forLoop (fun l (t : Buf ℚ) => t.set l 0) 0 len4 s.cost1
  let s ← forLoop
    (dataCost.sample tab fixed_mind moving_mind m n o step1 randommode rnd x1 y1 z1 boundaries
      len4) 0 maxsamp { s with cost1 := cost1 }
  let costall ← forLoop (fun l (t : Buf ℚ) => do
    let c ← s.cost1.get l
    t.set ((i : Int) + (l : Int) * sz1) (1 / 2 * alpha2 * c)) 0 len4 s.costall
  pure { s with costall := costall }

/-- Embedding of `dataCost`: the fields of the thread argument are passed as
parameters and the cost volume is returned.  `rnd k` is the value returned by
the `k`-th call of `getrand`; the divisions by `alpha*quant`, `step1` and
`maxsamp` are checked. -/
def dataCost (moving costall : Buf ℚ) (alpha : ℚ) (hw step1 : Nat) (quant : ℚ)
    (fixed_mind moving_mind : Buf Nat) (istart iend : Nat) (m n o : Nat) (samples : Nat)
    (rnd : Nat → ℚ) : Except Err (Buf ℚ) := do
  if alpha * quant = 0 then .error Err.divZero else
  let alpha1 : ℚ := (step1 : ℚ) / (alpha * quant)
  let sz : Nat := m * n * o
  if step1 = 0 then .error Err.divZero else
  let len : Nat := hw * 2 + 1
  let len4 : Nat := (truncToInt ((len : ℚ) ^ 3)).toNat
  let tab ← dataCost.labelTable hw quant m n
  let hw2 : Int := (hw : Int) * truncToInt quant
  let _ ← forLoop (fun i (t : Buf ℚ) => do
    let x ← moving.get i
    t.set i x) 0 sz (Buf.new sz)
  let randommode : Bool := decide ((samples : ℚ) < (step1 : ℚ) ^ 3)
  let maxsamp : Nat := if randommode then samples else (truncToInt ((step1 : ℚ) ^ 3)).toNat
  if maxsamp = 0 then .error Err.divZero else
  let alpha2 : ℚ := alpha1 / (maxsamp : ℚ)
  let s ← forLoop
    (dataCost.point tab fixed_mind moving_mind m n o step1 hw2 randommode maxsamp alpha2 rnd len4)
    istart (iend - istart) ⟨costall, Buf.new len4, 0⟩
  pure s.costall

/-- Displacement in voxels of the label component `c` for an integer
quantisation `q`: `(c-hw)*q`. -/
def labelShift (hw q c : Nat) : Int := ((c : Int) - hw) * q

/-- The label tables of `dataCost` for the integer quantisation `q`, on flat
indices: `xs`, `ys`, `zs` hold the displacements and `inds` the flat voxel
offset `ys+xs*m+zs*m*n`. -/
def IsCostTable (hw q m n : Nat) (tab : CostTable) : Prop :=
  tab.xs.size = (hw * 2 + 1) * (hw * 2 + 1) * (hw * 2 + 1) ∧
  tab.ys.size = (hw * 2 + 1) * (hw * 2 + 1) * (hw * 2 + 1) ∧
  tab.zs.size = (hw * 2 + 1) * (hw * 2 + 1) * (hw * 2 + 1) ∧
  tab.inds.size = (hw * 2 + 1) * (hw * 2 + 1) * (hw * 2 + 1) ∧
  ∀ l, l < (hw * 2 + 1) * (hw * 2 + 1) * (hw * 2 + 1) →
    tab.xs.data l = some ((labelShift hw q (labelJ (hw * 2 + 1) l) : Int) : ℚ) ∧
    tab.ys.data l = some ((labelShift hw q (labelI (hw * 2 + 1) l) : Int) : ℚ) ∧
    tab.zs.data l = some ((labelShift hw q (labelK (hw * 2 + 1) l) : Int) : ℚ) ∧
    tab.inds.data l = some (labelShift hw q (labelI (hw * 2 + 1) l)
      + labelShift hw q (labelJ (hw * 2 + 1) l) * m
      + labelShift hw q (labelK (hw * 2 + 1) l) * m * n)

/-- Ranges of control points `(istart, iend)` given by the driver `deeds` to
the two `dataCost` threads of one cost volume: `[0,sz1/2)` and
`[sz1/2,sz1)`. -/
def deeds.partition (sz1 : Nat) : (Nat × Nat) × (Nat × Nat) :=
  ((0, sz1 / 2), (sz1 / 2, sz1))

/-! ## Sample voxels of `dataCost` -/

/-- A voxel position: `x` along the second array axis (stride `m`), `y` along
the first (stride 1) and `z` along the third (stride `m*n`). -/
structure Coord where
  x : Int
  y : Int
  z : Int
  deriving DecidableEq

/-- First voxel `(x1,y1,z1)` of the grid cell of the control point `i` in
`dataCost`: `z1=i/(m1*n1); x1=(i-z1*m1*n1)/m1; y1=i-z1*m1*n1-x1*m1;` each
multiplied by `step1`. -/
def dataCost.blockOrigin (m n step1 : Nat) (i : Nat) : Coord :=
  let m1 : Nat := m / step1
  let n1 : Nat := n / step1
  let z1 : Int := (i : Int).tdiv ((m1 : Int) * n1)
  let x1 : Int := ((i : Int) - z1 * m1 * n1).tdiv m1
  let y1 : Int := (i : Int) - z1 * m1 * n1 - x1 * m1
  ⟨x1 * step1, y1 * step1, z1 * step1⟩

/-- Sample voxel `(xx,yy,zz)` of the sample index `i1` in the cell that starts
at `(x1,y1,z1)`: `zz=i1/(step1*step1); xx=(i1-zz*step1*step1)/step1;
yy=i1-zz*step1*step1-xx*step1; xx+=x1; yy+=y1; zz+=z1;`. -/
def dataCost.sampleVoxel (step1 : Nat) (x1 y1 z1 : Int) (i1 : Int) : Coord :=
  let zz := i1.tdiv ((step1 : Int) * step1)
  let xx := (i1 - zz * step1 * step1).tdiv step1
  let yy := i1 - zz * step1 * step1 - xx * step1
  ⟨xx + x1, yy + y1, zz + z1⟩

/-- Flat image index `ind1=yy+xx*m+zz*m*n` of a sample voxel. -/
def dataCost.flatIndex (m n : Nat) (c : Coord) : Int := c.y + c.x * m + c.z * m * n

/-! ## Linear regression `linreg` (linear_regression.cpp) -/

/-- Embedding of `vec_mean(x)`: the running sum of the elements divided by
`x.size()`; the division is checked. -/
def vec_mean (x : List ℚ) : Except Err ℚ :=
  let x_mean : ℚ := x.foldl (fun acc v => acc + v) 0
  if x.length = 0 then .error Err.divZero else .ok (x_mean / (x.length : ℚ))

/-- Checked element access `x.at(ii)` of a `vector<double>`. -/
def vecAt (x : List ℚ) (ii : Nat) : Except Err ℚ :=
  match x.get? ii with
  | some v => .ok v
  | none => .error Err.oob

/-- Body of the loop of `linreg` that accumulates `(Sx, Sxy)`. -/
def linreg.accumulate (y x : List ℚ) (y_mean x_mean : ℚ) (ii : Nat) (s : ℚ × ℚ) :
    Except Err (ℚ × ℚ) := do
  let Sx := s.1 + ((← vecAt x ii) - x_mean) * ((← vecAt x ii) - x_mean)
  let Sxy := s.2 + ((← vecAt x ii) - x_mean) * ((← vecAt y ii) - y_mean)
  pure (Sx, Sxy)

/-- Embedding of `linreg(y, x)`, returning the pair `(a, b)`: intercept first,
gradient second.  The division `Sxy/Sx` is checked. -/
def linreg (y x : List ℚ) : Except Err (ℚ × ℚ) := do
  let y_mean ← vec_mean y
  let x_mean ← vec_mean x
  let s ← forLoop (linreg.accumulate y x y_mean x_mean) 0 y.length ((0 : ℚ), (0 : ℚ))
  if s.1 = 0 then .error Err.divZero else
  let b : ℚ := s.2 / s.1
  let a : ℚ := y_mean - b * x_mean
  pure (a, b)

/-- Mean of the first `n` values of a sequence. -/
def seqMean (n : Nat) (f : Nat → ℚ) : ℚ := (∑ i in Finset.range n, f i) / (n : ℚ)

/-- Sum of squared residuals of the line `y = a + b*x` on the points
`(x i, y i)`, `i < n`. -/
def sumSqRes (n : Nat) (x y : Nat → ℚ) (a b : ℚ) : ℚ :=
  ∑ i in Finset.range n, (y i - a - b * x i) ^ 2

/-- Variance of the first `n` values of a sequence (mean squared deviation). -/
def seqVar (n : Nat) (x : Nat → ℚ) : ℚ :=
  (∑ i in Finset.range n, (x i - seqMean n x) * (x i - seqMean n x)) / (n : ℚ)

/-- Covariance of the first `n` values of two sequences. -/
def seqCov (n : Nat) (x y : Nat → ℚ) : ℚ :=
  (∑ i in Finset.range n, (x i - seqMean n x) * (y i - seqMean n y)) / (n : ℚ)

/-! ## `T10_single_linear` (T10_calculation.cpp) in `double` arithmetic -/

/-- Value of a `double`: a rational number, an infinity or NaN.  Finite
results are exact (no rounding, no overflow) and zero carries no sign. -/
inductive Dbl where
  | fin (q : ℚ)
  | pinf
  | ninf
  | nan
  deriving DecidableEq

namespace Dbl

/-- Negation `-a`. -/
def neg : Dbl → Dbl
  | fin a => fin (-a)
  | pinf => ninf
  | ninf => pinf
  | nan => nan

/-- Sum `a + b`: opposite infinities give NaN. -/
def add : Dbl → Dbl → Dbl
  | fin a, fin b => fin (a + b)
  | fin _, pinf => pinf
  | fin _, ninf => ninf
  | pinf, fin _ => pinf
  | pinf, pinf => pinf
  | ninf, fin _ => ninf
  | ninf, ninf => ninf
  | _, _ => nan

/-- Difference `a - b`. -/
def sub (a b : Dbl) : Dbl := add a (neg b)

/-- Infinity with the sign of the rational `a`, NaN for `a = 0`. -/
def signedInf (a : ℚ) : Dbl := if a = 0 then nan else if 0 < a then pinf else ninf

/-- Product `a * b`: zero times an infinity gives NaN. -/
def mul : Dbl → Dbl → Dbl
  | fin a, fin b => fin (a * b)
  | fin a, pinf => signedInf a
  | fin a, ninf => signedInf (-a)
  | pinf, fin b => signedInf b
  | ninf, fin b => signedInf (-b)
  | pinf, pinf => pinf
  | pinf, ninf => ninf
  | ninf, pinf => ninf
  | ninf, ninf => pinf
  | _, _ => nan

/-- Quotient `a / b`.  A division by zero does not trap: a nonzero finite
value divided by zero is the infinity of its sign, `0/0` and a quotient of
infinities are NaN.  A zero divisor acts as `+0`. -/
def div : Dbl → Dbl → Dbl
  | fin a, fin b => if b = 0 then signedInf a else fin (a / b)
  | fin _, pinf => fin 0
  | fin _, ninf => fin 0
  | pinf, fin b => if 0 ≤ b then pinf else ninf
  | ninf, fin b => if 0 ≤ b then ninf else pinf
  | _, _ => nan

/-- Comparison `a < b`; every comparison with NaN is false. -/
def lt : Dbl → Dbl → Bool
  | fin a, fin b => decide (a < b)
  | fin _, pinf => true
  | ninf, fin _ => true
  | ninf, pinf => true
  | _, _ => false

/-- Comparison `a <= b`; every comparison with NaN is false. -/
def le : Dbl → Dbl → Bool
  | fin a, fin b => decide (a ≤ b)
  | fin _, pinf => true
  | ninf, fin _ => true
  | ninf, pinf => true
  | pinf, pinf => true
  | ninf, ninf => true
  | _, _ => false

/-- The library function `log` on a `double`, given its values `log q` at the
finite positive arguments: `log(+inf) = +inf`, `log(0) = -inf`, NaN at
negative arguments. -/
def log (log : ℚ → ℚ) : Dbl → Dbl
  | fin q => if 0 < q then fin (log q) else if q = 0 then ninf else nan
  | pinf => pinf
  | _ => nan

/-- Embedding of `vec_mean(x)` in `double` arithmetic: the running sum of the
elements divided by `x.size()`. -/
def vec_mean (x : List Dbl) : Dbl :=
  let x_mean : Dbl := x.foldl (fun acc v => add acc v) (fin 0)
  div x_mean (fin (x.length : ℚ))

/-- Checked element access `x.at(ii)` and `x[ii]` of a `vector<double>`. -/
def getAt (x : List Dbl) (ii : Nat) : Except Err Dbl :=
  match x.get? ii with
  | some v => .ok v
  | none => .error Err.oob

/-- Checked assignment `x[ii] = v` of a `vector<double>`. -/
def assign (x : List Dbl) (ii : Nat) (v : Dbl) : Except Err (List Dbl) :=
  if ii < x.length then .ok (x.set ii v) else .error Err.oob

/-- Body of the loop of `linreg` that accumulates `(Sx, Sxy)`, in `double`
arithmetic. -/
def accumulate (y x : List Dbl) (y_mean x_mean : Dbl) (ii : Nat) (s : Dbl × Dbl) :
    Except Err (Dbl × Dbl) := do
  let Sx := add s.1 (mul (sub (← getAt x ii) x_mean) (sub (← getAt x ii) x_mean))
  let Sxy := add s.2 (mul (sub (← getAt x ii) x_mean) (sub (← getAt y ii) y_mean))
  pure (Sx, Sxy)

/-- Embedding of `linreg(y, x)` in `double` arithmetic, returning the pair
`(a, b)`: intercept first, gradient second. -/
def linreg (y x : List Dbl) : Except Err (Dbl × Dbl) := do
  let y_mean := vec_mean y
  let x_mean := vec_mean x
  let s ← forLoop (accumulate y x y_mean x_mean) 0 y.length (fin 0, fin 0)
  let b : Dbl := div s.2 s.1
  let a : Dbl := sub y_mean (mul b x_mean)
  pure (a, b)

end Dbl

/-- Last part of `T10_single_linear`, from the gradient `b` of the fit:
`if (b > 0) { v1 = log(b); t1 = -TR/v1; } else t1 = 0;` followed by the two
clamps `if (t1 > 5.0) t1 = 5.0;` and `if (t1 < 0) t1 = 0;`. -/
def T10_single_linear.estimate (log : ℚ → ℚ) (b : Dbl) (TR : ℚ) : Dbl :=
  let t1 : Dbl :=
    if Dbl.lt (Dbl.fin 0) b then
      let v1 := Dbl.log log b
      Dbl.div (Dbl.neg (Dbl.fin TR)) v1
    else Dbl.fin 0
  let t1 : Dbl := if Dbl.lt (Dbl.fin 5) t1 then Dbl.fin 5 else t1
  let t1 : Dbl := if Dbl.lt t1 (Dbl.fin 0) then Dbl.fin 0 else t1
  t1

/-- Body of the first loop of `T10_single_linear`:
`x[ii] = favox[ii] / tan(fa_rad[ii]); y[ii] = favox[ii] / sin(fa_rad[ii]);`. -/
def T10_single_linear.fill (tan sin : ℚ → ℚ) (favox fa_rad : List ℚ) (ii : Nat)
    (s : List Dbl × List Dbl) : Except Err (List Dbl × List Dbl) := do
  let x ← Dbl.assign s.1 ii
    (Dbl.div (Dbl.fin (← vecAt favox ii)) (Dbl.fin (tan (← vecAt fa_rad ii))))
  let y ← Dbl.assign s.2 ii
    (Dbl.div (Dbl.fin (← vecAt favox ii)) (Dbl.fin (sin (← vecAt fa_rad ii))))
  pure (x, y)

/-- First part of `T10_single_linear`: the vectors `x` and `y`, allocated with
`num_fa` zeros and filled by the first loop. -/
def T10_single_linear.points (tan sin : ℚ → ℚ) (favox fa_rad : List ℚ) (num_fa : Nat) :
    Except Err (List Dbl × List Dbl) :=
  forLoop (T10_single_linear.fill tan sin favox fa_rad) 0 num_fa
    (List.replicate num_fa (Dbl.fin 0), List.replicate num_fa (Dbl.fin 0))

/-- Embedding of `T10_single_linear(favox, fa_rad, num_fa, TR)` for finite
inputs, in `double` arithmetic with infinities and NaN.  The library
functions `tan`, `sin` and `log` are parameters (their values at finite
arguments); an access outside a vector is reported as `Err.oob`. -/
def T10_single_linear (tan sin log : ℚ → ℚ) (favox fa_rad : List ℚ) (num_fa : Nat) (TR : ℚ) :
    Except Err Dbl := do
  let s ← T10_single_linear.points tan sin favox fa_rad num_fa
  let ab ← Dbl.linreg s.2 s.1
  let b := ab.2
  pure (T10_single_linear.estimate log b TR)

/-! ## Command line of the registration tool, `main` (TMI_SAD.cpp) -/

/-- What `main` observes of one command-line argument `argv[k]`: its first
two characters, its length, and the results of the library conversions
`atoi`, `atof` and `sscanf(argv[k],"%dx%dx...",...)` (return value and
converted values) applied to it. -/
structure Arg where
  c0 : Char
  c1 : Char
  len : Nat
  toInt : Int
  toFloat : ℚ
  scanRet : Int
  scan : List Int

/-- Observable actions of `main`: the messages written to `cout` and the call
of `deeds` with its arguments (file names are given by the position of the
argument they were copied from). -/
inductive Event where
  | usage
  | invalidOption (k : Nat)
  | missingArguments
  | levelMismatch
  | callingDeeds (symmetric : Bool) (alpha : ℚ)
  | deeds (fixedfile movingfile movsegfile outputstem : Option Nat) (randsamp : Int)
      (alpha : ℚ) (maxlevel : Int) (s_grid s_search s_quant : List Int)
      (segment symmetric : Bool)

/-- Local variables of `main`. -/
structure MainState where
  argin : List (Char × Nat)
  requiredArgs : Int
  fixedfile : Option Nat
  movingfile : Option Nat
  outputstem : Option Nat
  movsegfile : Option Nat
  alpha : ℚ
  randsamp : Int
  maxlevel : Int
  num : Int
  num2 : Int
  num3 : Int
  s_grid : List Int
  s_search : List Int
  s_quant : List Int
  symmetric : Bool
  segment : Bool
  out : List Event

/-- Lookup `argin.find(c)`. -/
def main.find (argin : List (Char × Nat)) (c : Char) : Option Nat :=
  (argin.find? (fun p => p.1 == c)).map (fun p => p.2)

/-- Effect of `sscanf` on a level array: the converted values overwrite the
leading entries. -/
def main.store (arr vals : List Int) : List Int :=
  (List.range 10).map (fun t => (vals.get? t).getD (arr.getD t 0))

/-- Copy `sprintf(buf,"%s",argv[k+1])` into a buffer of 200 characters. -/
def main.copyName (argv : List Arg) (k : Nat) : Except Err (Option Nat) :=
  match argv.get? (k + 1) with
  | some a => if a.len < 200 then .ok (some (k + 1)) else .error Err.oob
  | none => .error Err.oob

/-- Read of `argv[k+1]` by `atoi`, `atof` or `sscanf`. -/
def main.next (argv : List Arg) (k : Nat) : Except Err Arg :=
  match argv.get? (k + 1) with
  | some a => .ok a
  | none => .error Err.oob

/-- Body of the loop of `main` over the arguments `argv[k]`, `1 <= k < argc`. -/
def main.option (argv : List Arg) (k : Nat) (s : MainState) : Except Err MainState := do
  let a ← main.next argv (k - 1)
  if a.c0 = '-' then
    let found := main.find s.argin a.c1
    let s := if found = none then { s with out := s.out ++ [Event.invalidOption k] } else s
    let s := if found = none then { s with argin := s.argin ++ [(a.c1, 0)] } else s
    match found.getD 0 with
    | 0 => pure { s with fixedfile := (← main.copyName argv k),
                         requiredArgs := s.requiredArgs + 1 }
    | 1 => pure { s with movingfile := (← main.copyName argv k),
                         requiredArgs := s.requiredArgs + 1 }
    | 2 => pure { s with outputstem := (← main.copyName argv k),
                         requiredArgs := s.requiredArgs + 1 }
    | 3 => pure { s with alpha := (← main.next argv k).toFloat }
    | 4 => pure { s with randsamp := (← main.next argv k).toInt }
    | 5 => pure { s with maxlevel := (← main.next argv k).toInt }
    | 6 => do
      let b ← main.next argv k
      pure { s with num := b.scanRet, s_grid := main.store s.s_grid b.scan }
    | 7 => do
      let b ← main.next argv k
      pure { s with num2 := b.scanRet, s_search := main.store s.s_search b.scan }
    | 8 => do
      let b ← main.next argv k
      pure { s with num3 := b.scanRet, s_quant := main.store s.s_quant b.scan }
    | 9 => pure { s with symmetric := decide ((← main.next argv k).toInt ≠ 0) }
    | 10 => pure { s with movsegfile := (← main.copyName argv k), segment := true }
    | _ => pure { s with out := s.out ++ [Event.invalidOption k] }
  else pure s

/-- Values of the local variables of `main` before the option loop. -/
def main.init : MainState :=
  { argin := [('F', 0), ('M', 1), ('O', 2), ('a', 3), ('r', 4), ('l', 5), ('G', 6), ('L', 7),
      ('Q', 8), ('s', 9), ('S', 10)],
    requiredArgs := 0, fixedfile := none, movingfile := none, outputstem := none,
    movsegfile := none, alpha := 2, randsamp := 64, maxlevel := 5, num := 5, num2 := 5,
    num3 := 5, s_grid := [7, 6, 5, 4, 3, 2, 2, 2, 2, 2],
    s_search := [6, 5, 4, 3, 2, 1, 1, 1, 1, 1], s_quant := [5, 4, 3, 2, 1, 1, 1, 1, 1, 1],
    symmetric := true, segment := false, out := [] }

/-- Statements of `main` after the option loop: the two checks, each of which
only writes a message, and the call of `deeds`. -/
def main.finish (s : MainState) : List Event × Int :=
  let out := if s.requiredArgs ≠ 3 then s.out ++ [Event.missingArguments] else s.out
  let out := if s.num ≠ s.maxlevel ∨ s.num2 ≠ s.maxlevel ∨ s.num3 ≠ s.maxlevel
    then out ++ [Event.levelMismatch] else out
  let out := out ++ [Event.callingDeeds s.symmetric s.alpha]
  (out ++ [Event.deeds s.fixedfile s.movingfile s.movsegfile s.outputstem s.randsamp s.alpha
    s.maxlevel s.s_grid s.s_search s.s_quant s.segment s.symmetric], 0)

/-- The option loop `for(int k=1;k<argc;k++)` of `main`, with `argc = argv.length`. -/
def main.parse (argv : List Arg) : Except Err MainState :=
  forLoop (main.option argv) 1 (argv.length - 1) main.init

/-- Embedding of `main(argc, argv)` of TMI_SAD.cpp, with `argc = argv.length`:
the list of observable actions and the return value. -/
def main (argv : List Arg) : Except Err (List Event × Int) := do
  if argv.length < 4 then pure ([Event.usage], 1) else
  let a1 ← main.next argv 0
  if a1.c1 = 'h' then pure ([Event.usage], 1) else
  let s ← main.parse argv
  pure (main.finish s)

/-- An argument that is not an option (a file name). -/
def main.word : Arg :=
  { c0 := 'f', c1 := 'x', len := 5, toInt := 0, toFloat := 0, scanRet := 0, scan := [] }

/-- The option `-c`. -/
def main.opt (c : Char) : Arg :=
  { c0 := '-', c1 := c, len := 2, toInt := 0, toFloat := 0, scanRet := 0, scan := [] }

/-- Command line `tmiSAD -F f -M m -O out -l 3 -G 8x7`: three levels requested,
two grid spacings supplied. -/
def main.mismatchArgs : List Arg :=
  [main.word, main.opt 'F', main.word, main.opt 'M', main.word, main.opt 'O', main.word,
    main.opt 'l',
    { c0 := '3', c1 := Char.ofNat 0, len := 1, toInt := 3, toFloat := 3, scanRet := 1,
      scan := [3] },
    main.opt 'G',
    { c0 := '8', c1 := 'x', len := 3, toInt := 8, toFloat := 8, scanRet := 2, scan := [8, 7] }]

/-! ## `distance_measure` and `get_mean_point_distance` (supervoxels/src/processing.cpp) -/

/-- Embedding of `distance_measure(ax,ay,az,bx,by,bz)`: the differences, the
squares and their sum are computed in 32-bit `int` arithmetic (two's
complement wrap-around) and the sum is widened to the returned `long`. -/
def distance_measure (ax ay az bx by_ bz : Int) : Int :=
  let dx := wrapInt (bx - ax)
  let dy := wrapInt (by_ - ay)
  let dz := wrapInt (bz - az)
  wrapInt (wrapInt (wrapInt (dx * dx) + wrapInt (dy * dy)) + wrapInt (dz * dz))

/-- Running values of the loops of `get_mean_point_distance`: the smallest
distance so far and the three vectors of saved coordinate differences. -/
structure MeanDistState where
  dmeas : Int
  sx : List Int
  sy : List Int
  sz : List Int

/-- The value `dist1` of `get_mean_point_distance` for the pair of point
indices `(m, n)`: the call
`distance_measure(x[m], y[m], z[m], z[n], y[n], z[n])`. -/
def get_mean_point_distance.dist1 (x y z : Buf Int) (m n : Nat) : Except Err Int := do
  let xm ← x.get m
  let ym ← y.get m
  let zm ← z.get m
  let zn ← z.get n
  let yn ← y.get n
  let zn' ← z.get n
  pure (distance_measure xm ym zm zn yn zn')

/-- Body of the inner loop of `get_mean_point_distance` for the pair `(m, n)`. -/
def get_mean_point_distance.pair (x y z : Buf Int) (m n : Nat) (s : MeanDistState) :
    Except Err MeanDistState := do
  if n = m then pure s else
  let dist1 ← get_mean_point_distance.dist1 x y z m n
  if dist1 < s.dmeas then
    let dx := |wrapInt ((← x.get m) - (← x.get n))|
    let dy := |wrapInt ((← y.get m) - (← y.get n))|
    let dz := |wrapInt ((← z.get m) - (← z.get n))|
    pure ⟨dist1, s.sx ++ [dx], s.sy ++ [dy], s.sz ++ [dz]⟩
  else pure s

/-- Dereferenced `max_element` of a vector; the vector must not be empty. -/
def maxElement : List Int → Except Err Int
  | [] => .error Err.oob
  | a :: l => .ok (l.foldl (fun best c => if best < c then c else best) a)

/-- Embedding of `get_mean_point_distance(x,y,z)`: the three entries of the
returned vector. Element access is checked. -/
def get_mean_point_distance (x y z : Buf Int) : Except Err (Int × Int × Int) := do
  let s ← doubleLoop x.size x.size (fun m n s => get_mean_point_distance.pair x y z m n s)
    ⟨9223372036854775807, [], [], []⟩
  let d0 ← maxElement s.sx
  let d1 ← maxElement s.sy
  let d2 ← maxElement s.sz
  pure (d0, d1, d2)

/-- Squared Euclidean distance between the points `m` and `n` of the
coordinate lists `X`, `Y`, `Z`. -/
def sqDist (X Y Z : Nat → Int) (m n : Nat) : Int :=
  (X m - X n) ^ 2 + (Y m - Y n) ^ 2 + (Z m - Z n) ^ 2

/-! ## `filter1` and `jacobian` (symmetricDiffeomorphic.h) -/

/-- Statement `a[i]=0.0`. -/
def zeroAt (a : Buf ℚ) (i : Nat) : Except Err (Buf ℚ) := a.set i 0

/-- Statement `a[i]*=c`. -/
def scaleAt (a : Buf ℚ) (i : Nat) (c : ℚ) : Except Err (Buf ℚ) := do
  let x ← a.get i
  a.set i (x * c)

/-- Statement `a[i]+=c`. -/
def addAt (a : Buf ℚ) (i : Int) (c : ℚ) : Except Err (Buf ℚ) := do
  let x ← a.get i
  a.set i (x + c)

/-- Replicate-padded coordinate `max(min(a,hi-1),0)`. -/
def filter1.pad (a : Int) (hi : Nat) : Int := max (min a ((hi : Int) - 1)) 0

/-- Body of the loop over the filter taps `f` of `filter1` at the voxel
`(i,j,k)`: the three `if(dim==..)` statements. -/
def filter1.tap (imagein filter : Buf ℚ) (m n o : Nat) (hw dim : Int) (k j i f : Nat)
    (imageout : Buf ℚ) : Except Err (Buf ℚ) := do
  let p : Int := (i : Int) + j * m + k * m * n
  let imageout ← if dim = 1 then do
      let c ← filter.get f
      let x ← imagein.get (filter1.pad ((i : Int) + f - hw) m + j * m + k * m * n)
      addAt imageout p (c * x)
    else pure imageout
  let imageout ← if dim = 2 then do
      let c ← filter.get f
      let x ← imagein.get ((i : Int) + filter1.pad ((j : Int) + f - hw) n * m + k * m * n)
      addAt imageout p (c * x)
    else pure imageout
  if dim = 3 then do
      let c ← filter.get f
      let x ← imagein.get ((i : Int) + j * m + filter1.pad ((k : Int) + f - hw) o * m * n)
      addAt imageout p (c * x)
    else pure imageout

/-- Embedding of `filter1(imagein,imageout,m,n,o,filter,length,dim)`; the
array `imageout` is returned. -/
def filter1 (imagein imageout : Buf ℚ) (m n o : Nat) (filter : Buf ℚ) (length : Nat)
    (dim : Int) : Except Err (Buf ℚ) := do
  let hw : Int := Int.tdiv ((length : Int) - 1) 2
  let imageout ← forLoop (fun i t => zeroAt t i) 0 (m * n * o) imageout
  tripleLoop o n m (fun k j i t =>
    forLoop (fun f t => filter1.tap imagein filter m n o hw dim k j i f t) 0 length t) imageout

/-- The nine arrays `J11 .. J33` of `jacobian`. -/
structure JacArrays where
  J11 : Buf ℚ
  J12 : Buf ℚ
  J13 : Buf ℚ
  J21 : Buf ℚ
  J22 : Buf ℚ
  J23 : Buf ℚ
  J31 : Buf ℚ
  J32 : Buf ℚ
  J33 : Buf ℚ

/-- Running values of the determinant loop of `jacobian`. -/
structure JacStats where
  jmean : ℚ
  Jmin : ℚ
  Jmax : ℚ
  neg : ℚ
  count : ℚ
  Jac : Buf ℚ

/-- Values written to the log by `jacobian` (before rounding for display);
`jstd` is also the return value. -/
structure JacLog where
  jmean : ℚ
  jstd : ℚ
  Jmin : ℚ
  Jmax : ℚ
  frac : ℚ

/-- Body of the first loop of `jacobian`: `J11[i]=0.0; .. J33[i]=0.0;`. -/
def jacobian.clear (i : Nat) (s : JacArrays) : Except Err JacArrays := do
  let a11 ← zeroAt s.J11 i
  let a12 ← zeroAt s.J12 i
  let a13 ← zeroAt s.J13 i
  let a21 ← zeroAt s.J21 i
  let a22 ← zeroAt s.J22 i
  let a23 ← zeroAt s.J23 i
  let a31 ← zeroAt s.J31 i
  let a32 ← zeroAt s.J32 i
  let a33 ← zeroAt s.J33 i
  pure ⟨a11, a12, a13, a21, a22, a23, a31, a32, a33⟩

/-- Body of the loop `J11[i]*=factor1; .. J33[i]*=factor1;`. -/
def jacobian.scale (factor1 : ℚ) (i : Nat) (s : JacArrays) : Except Err JacArrays := do
  let a11 ← scaleAt s.J11 i factor1
  let a12 ← scaleAt s.J12 i factor1
  let a13 ← scaleAt s.J13 i factor1
  let a21 ← scaleAt s.J21 i factor1
  let a22 ← scaleAt s.J22 i factor1
  let a23 ← scaleAt s.J23 i factor1
  let a31 ← scaleAt s.J31 i factor1
  let a32 ← scaleAt s.J32 i factor1
  let a33 ← scaleAt s.J33 i factor1
  pure ⟨a11, a12, a13, a21, a22, a23, a31, a32, a33⟩

/-- Body of the loop `J11[i]+=1.0; J22[i]+=1.0; J33[i]+=1.0;`. -/
def jacobian.addIdentity (i : Nat) (s : JacArrays) : Except Err JacArrays := do
  let a11 ← addAt s.J11 i 1
  let a22 ← addAt s.J22 i 1
  let a33 ← addAt s.J33 i 1
  pure { s with J11 := a11, J22 := a22, J33 := a33 }

/-- Body of the determinant loop of `jacobian`. -/
def jacobian.det (s : JacArrays) (i : Nat) (t : JacStats) : Except Err JacStats := do
  let j11 ← s.J11.get i
  let j22 ← s.J22.get i
  let j33 ← s.J33.get i
  let j23 ← s.J23.get i
  let j32 ← s.J32.get i
  let j21 ← s.J21.get i
  let j12 ← s.J12.get i
  let j13 ← s.J13.get i
  let j31 ← s.J31.get i
  let J : ℚ := j11 * (j22 * j33 - j23 * j32) - j21 * (j12 * j33 - j13 * j32)
    + j31 * (j12 * j23 - j13 * j22)
  let jmean := t.jmean + J
  let Jmax := if J > t.Jmax then J else t.Jmax
  let Jmin := if J < t.Jmin then J else t.Jmin
  let neg := if J < 0 then t.neg + 1 else t.neg
  let count := t.count + 1
  let Jac ← t.Jac.set i J
  pure ⟨jmean, Jmin, Jmax, neg, count, Jac⟩

/-- The array `float grad[3]={-0.5,0.0,0.5}` of `jacobian`. -/
def jacobian.grad : Buf ℚ :=
  Buf.ofFn 3 (fun f => if f = 0 then -1 / 2 else if f = 1 then 0 else 1 / 2)

/-- Embedding of `jacobian(u1,v1,w1,m,n,o,factor,log)`. The library function
`sqrt` is a parameter; a floating-point division by zero is reported as
`Err.divZero`. -/
def jacobian (sqrt : ℚ → ℚ) (u1 v1 w1 : Buf ℚ) (m n o : Nat) (factor : Int) :
    Except Err JacLog := do
  if factor = 0 then throw Err.divZero
  let factor1 : ℚ := 1 / (factor : ℚ)
  let grad : Buf ℚ := jacobian.grad
  let sz := m * n * o
  let fresh : Buf ℚ := Buf.new sz
  let s ← forLoop jacobian.clear 0 sz ⟨fresh, fresh, fresh, fresh, fresh, fresh, fresh, fresh,
    fresh⟩
  let a11 ← filter1 u1 s.J11 m n o grad 3 2
  let a12 ← filter1 u1 s.J12 m n o grad 3 1
  let a13 ← filter1 u1 s.J13 m n o grad 3 3
  let a21 ← filter1 v1 s.J21 m n o grad 3 2
  let a22 ← filter1 v1 s.J22 m n o grad 3 1
  let a23 ← filter1 v1 s.J23 m n o grad 3 3
  let a31 ← filter1 w1 s.J31 m n o grad 3 2
  let a32 ← filter1 w1 s.J32 m n o grad 3 1
  let a33 ← filter1 w1 s.J33 m n o grad 3 3
  let s ← forLoop (jacobian.scale factor1) 0 sz ⟨a11, a12, a13, a21, a22, a23, a31, a32, a33⟩
  let s ← forLoop jacobian.addIdentity 0 sz s
  let t ← forLoop (jacobian.det s) 0 sz ⟨0, 1, 1, 0, 0, Buf.new sz⟩
  if sz = 0 then throw Err.divZero
  let jmean := t.jmean / (sz : ℚ)
  let jstd ← forLoop (fun i (acc : ℚ) => do
    let x ← t.Jac.get i
    pure (acc + (x - jmean) ^ 2)) 0 sz 0
  if (sz : Int) - 1 = 0 then throw Err.divZero
  let jstd := sqrt (jstd / (((sz : Int) - 1 : Int) : ℚ))
  if t.count = 0 then throw Err.divZero
  let frac := t.neg / t.count
  pure ⟨jmean, jstd, t.Jmin, t.Jmax, frac⟩

/-- Central difference with replicate padding along the axis `dim` of the
field `f` on an `m x n x o` grid, at the voxel with flat index `l`: the value
`filter1` computes with the taps `-0.5, 0, 0.5`. -/
def centralDiff (f : Nat → ℚ) (m n o : Nat) (dim : Nat) (l : Nat) : ℚ :=
  let i : Int := (l % m : Nat)
  let j : Int := (l / m % n : Nat)
  let k : Int := (l / (m * n) : Nat)
  let val (i j k : Int) : ℚ := f (i + j * m + k * m * n).toNat
  if dim = 1 then
    1 / 2 * val (filter1.pad (i + 1) m) j k - 1 / 2 * val (filter1.pad (i - 1) m) j k
  else if dim = 2 then
    1 / 2 * val i (filter1.pad (j + 1) n) k - 1 / 2 * val i (filter1.pad (j - 1) n) k
  else
    1 / 2 * val i j (filter1.pad (k + 1) o) - 1 / 2 * val i j (filter1.pad (k - 1) o)

/-- Determinant of the local Jacobian of the transformation `id + (u,v,w)/factor`
at the voxel with flat index `l`, the gradients being central differences. -/
def jacobianDet (u v w : Nat → ℚ) (m n o : Nat) (factor : Int) (l : Nat) : ℚ :=
  let c : ℚ := 1 / (factor : ℚ)
  let j11 := centralDiff u m n o 2 l * c + 1
  let j12 := centralDiff u m n o 1 l * c
  let j13 := centralDiff u m n o 3 l * c
  let j21 := centralDiff v m n o 2 l * c
  let j22 := centralDiff v m n o 1 l * c + 1
  let j23 := centralDiff v m n o 3 l * c
  let j31 := centralDiff w m n o 2 l * c
  let j32 := centralDiff w m n o 1 l * c
  let j33 := centralDiff w m n o 3 l * c + 1
  j11 * (j22 * j33 - j23 * j32) - j21 * (j12 * j33 - j13 * j32) + j31 * (j12 * j23 - j13 * j22)

/-! ## Spanning tree of the control-point lattice, `primsGraph` -/

/-- Output of `primsGraph`: the arrival order of the control points and the
parent map (`none` for a node without parent). -/
structure TreeState where
  ordered : List Nat
  parents : Nat → Option Nat

/-- Neighbours of the control point with flat index `v` in the `m x n x o`
lattice (grid graph, the six axis neighbours inside the lattice). -/
def primsGraph.neighbours (m n o : Nat) (v : Nat) : List Nat :=
  let i := v % m
  let j := v / m % n
  let k := v / (m * n)
  (if 0 < i then [v - 1] else []) ++ (if i + 1 < m then [v + 1] else []) ++
  (if 0 < j then [v - m] else []) ++ (if j + 1 < n then [v + m] else []) ++
  (if 0 < k then [v - m * n] else []) ++ (if k + 1 < o then [v + m * n] else [])

/-- Edges leaving the tree built so far: pairs `(a, b)` of a node `a` that has
arrived and a neighbour `b` that has not. -/
def primsGraph.candidates (m n o : Nat) (ordered : List Nat) : List (Nat × Nat) :=
  ordered.flatMap (fun a =>
    ((primsGraph.neighbours m n o a).filter (fun b => decide (b ∉ ordered))).map (fun b => (a, b)))

/-- First edge of least weight in a list of edges. -/
def primsGraph.cheapest (weight : Nat → Nat → ℚ) : List (Nat × Nat) → Option (Nat × Nat)
  | [] => none
  | e :: es =>
    some (es.foldl (fun best c => if weight c.1 c.2 < weight best.1 best.2 then c else best) e)

/-- One greedy step: the cheapest edge leaving the tree is added; its far end
arrives next and gets the near end as parent. -/
def primsGraph.step (weight : Nat → Nat → ℚ) (m n o : Nat) (st : TreeState) : TreeState :=
  match primsGraph.cheapest weight (primsGraph.candidates m n o st.ordered) with
  | none => st
  | some e => ⟨st.ordered ++ [e.2], Function.update st.parents e.2 (some e.1)⟩

/-- Modelled from the spec: `primsGraph` (primsMST.h), which is called by
`deeds` but whose source is missing. Following the contract of the spanning
tree builder, it is a greedy minimum-spanning-tree construction over the grid
graph of the `m x n x o` control-point lattice: starting from the root (node 0,
the only node without parent), the cheapest edge leaving the tree is added
`m*n*o - 1` times; `ordered` lists the nodes in arrival order. The edge weight,
a function of local intensity similarity, is the parameter `weight`. -/
def primsGraph (weight : Nat → Nat → ℚ) (m n o : Nat) : TreeState :=
  (primsGraph.step weight m n o)^[m * n * o - 1] ⟨[0], fun _ => none⟩

/-! ## Basic facts about the memory model -/

@[simp] theorem ok_bind {α β : Type} (a : α) (f : α → Except Err β) :
    (Except.ok a >>= f) = f a := rfl

@[simp] theorem error_bind {α β : Type} (e : Err) (f : α → Except Err β) :
    ((Except.error e : Except Err α) >>= f) = Except.error e := rfl

@[simp] theorem pure_eq_ok {α : Type} (a : α) : (pure a : Except Err α) = Except.ok a := rfl

theorem bind_eq_ok {α β : Type} (x : Except Err α) (f : α → Except Err β) (b : β) :
    (x >>= f) = Except.ok b ↔ ∃ a, x = Except.ok a ∧ f a = Except.ok b := by
  cases x with
  | error e => simp
  | ok a => simp

namespace Buf

@[simp] theorem set_size {α : Type} (b b' : Buf α) (i : Int) (x : α)
    (h : b.set i x = Except.ok b') : b'.size = b.size := by
  unfold Buf.set at h
  split at h
  · cases h; rfl
  · cases h

theorem get_nat {α : Type} (b : Buf α) (i : Nat) (x : α) (hi : i < b.size)
    (hx : b.data i = some x) : b.get (i : Int) = Except.ok x := by
  unfold Buf.get
  have h1 : (0 : Int) ≤ (i : Int) ∧ (i : Int) < (b.size : Int) := ⟨by omega, by omega⟩
  rw [if_pos h1]
  simp [hx]

theorem set_nat {α : Type} (b : Buf α) (i : Nat) (x : α) (hi : i < b.size) :
    b.set (i : Int) x = Except.ok ⟨b.size, Function.update b.data i (some x)⟩ := by
  unfold Buf.set
  have h1 : (0 : Int) ≤ (i : Int) ∧ (i : Int) < (b.size : Int) := ⟨by omega, by omega⟩
  rw [if_pos h1]
  simp

theorem get_ofFn {α : Type} (n : Nat) (f : Nat → α) (i : Nat) (hi : i < n) :
    (Buf.ofFn n f).get (i : Int) = Except.ok (f i) := by
  apply get_nat
  · exact hi
  · simp [Buf.ofFn, hi]

theorem get_ofFn_int {α : Type} (n : Nat) (f : Nat → α) (a : Int) (h0 : 0 ≤ a)
    (h1 : a < (n : Int)) : (Buf.ofFn n f).get a = Except.ok (f a.toNat) := by
  have h := get_ofFn n f a.toNat (by omega)
  rwa [Int.toNat_of_nonneg h0] at h

theorem get_int {α : Type} (b : Buf α) (a : Int) (x : α) (h0 : 0 ≤ a)
    (h1 : a < (b.size : Int)) (hx : b.data a.toNat = some x) : b.get a = Except.ok x := by
  have h := get_nat b a.toNat x (by omega) hx
  rwa [Int.toNat_of_nonneg h0] at h

end Buf

/-- Invariant rule for `forLoop`: an invariant that holds at entry and is
carried by every iteration holds at exit, and the loop does not fail. -/
theorem forLoop_inv {σ : Type} (Inv : Nat → σ → Prop) (body : Nat → σ → Except Err σ)
    (cnt : Nat) : ∀ (lo : Nat) (s : σ), Inv lo s →
    (∀ i t, lo ≤ i → i < lo + cnt → Inv i t → ∃ t', body i t = Except.ok t' ∧ Inv (i + 1) t') →
    ∃ s', forLoop body lo cnt s = Except.ok s' ∧ Inv (lo + cnt) s' := by
  induction cnt with
  | zero => intro lo s h0 _; exact ⟨s, rfl, by simpa using h0⟩
  | succ n ih =>
    intro lo s h0 hstep
    obtain ⟨t, ht, hInv⟩ := hstep lo s (le_refl _) (by omega) h0
    obtain ⟨s', hs', hI⟩ := ih (lo + 1) t hInv
      (fun i u h1 h2 hu => hstep i u (by omega) (by omega) hu)
    refine ⟨s', ?_, ?_⟩
    · simp [forLoop, ht, hs']
    · have : lo + (n + 1) = lo + 1 + n := by omega
      rw [this]; exact hI

/-- Invariant rule for `forDown`. -/
theorem forDown_inv {σ : Type} (Inv : Nat → σ → Prop) (body : Nat → σ → Except Err σ)
    (cnt : Nat) : ∀ (s : σ), Inv cnt s →
    (∀ i t, 0 < i → i ≤ cnt → Inv i t → ∃ t', body i t = Except.ok t' ∧ Inv (i - 1) t') →
    ∃ s', forDown body cnt s = Except.ok s' ∧ Inv 0 s' := by
  induction cnt with
  | zero => intro s h0 _; exact ⟨s, rfl, h0⟩
  | succ n ih =>
    intro s h0 hstep
    obtain ⟨t, ht, hInv⟩ := hstep (n + 1) s (by omega) (le_refl _) h0
    obtain ⟨s', hs', hI⟩ := ih t (by simpa using hInv)
      (fun i u h1 h2 hu => hstep i u h1 (by omega) hu)
    exact ⟨s', by simp [forDown, ht, hs'], hI⟩

/-! ## Runs that return: inversion rules -/

/-- A read that returns is in bounds and reads an initialised cell. -/
theorem Buf.get_ok {α : Type} (b : Buf α) (i : Int) (x : α) (h : b.get i = Except.ok x) :
    0 ≤ i ∧ i < (b.size : Int) ∧ b.data i.toNat = some x := by
  unfold Buf.get at h
  split at h
  · rename_i hb
    refine ⟨hb.1, hb.2, ?_⟩
    cases hd : b.data i.toNat with
    | none => rw [hd] at h; cases h
    | some y =>
      rw [hd] at h
      cases h
      rfl
  · cases h

/-- A write that returns is in bounds and changes the one cell. -/
theorem Buf.set_ok {α : Type} (b b' : Buf α) (i : Int) (x : α) (h : b.set i x = Except.ok b') :
    0 ≤ i ∧ i < (b.size : Int) ∧ b' = ⟨b.size, Function.update b.data i.toNat (some x)⟩ := by
  unfold Buf.set at h
  split at h
  · rename_i hb
    cases h
    exact ⟨hb.1, hb.2, rfl⟩
  · cases h

/-- Invariant rule for a `forLoop` that returns: an invariant carried by every
iteration that returns holds at exit. -/
theorem forLoop_ok_inv {σ : Type} (Inv : Nat → σ → Prop) (body : Nat → σ → Except Err σ)
    (cnt : Nat) : ∀ (lo : Nat) (s s' : σ), Inv lo s →
    (∀ i t t', lo ≤ i → i < lo + cnt → Inv i t → body i t = Except.ok t' → Inv (i + 1) t') →
    forLoop body lo cnt s = Except.ok s' → Inv (lo + cnt) s' := by
  induction cnt with
  | zero =>
    intro lo s s' h0 _ hrun
    cases hrun
    exact h0
  | succ n ih =>
    intro lo s s' h0 hstep hrun
    simp only [forLoop, bind_eq_ok] at hrun
    obtain ⟨t, ht, hrest⟩ := hrun
    have h1 := hstep lo s t (le_refl _) (by omega) h0 ht
    have := ih (lo + 1) t s' h1 (fun i u u' a b c d => hstep i u u' (by omega) (by omega) c d)
      hrest
    have e : lo + 1 + n = lo + (n + 1) := by omega
    rw [e] at this
    exact this

/-- Invariant rule for a `forDown` that returns. -/
theorem forDown_ok_inv {σ : Type} (Inv : Nat → σ → Prop) (body : Nat → σ → Except Err σ)
    (cnt : Nat) : ∀ (s s' : σ), Inv cnt s →
    (∀ i t t', 0 < i → i ≤ cnt → Inv i t → body i t = Except.ok t' → Inv (i - 1) t') →
    forDown body cnt s = Except.ok s' → Inv 0 s' := by
  induction cnt with
  | zero =>
    intro s s' h0 _ hrun
    cases hrun
    exact h0
  | succ n ih =>
    intro s s' h0 hstep hrun
    simp only [forDown, bind_eq_ok] at hrun
    obtain ⟨t, ht, hrest⟩ := hrun
    have h1 := hstep (n + 1) s t (by omega) (le_refl _) h0 ht
    exact ih t s' (by simpa using h1) (fun i u u' a b c d => hstep i u u' a (by omega) c d) hrest

/-- Invariant rule for a `doubleLoop` that returns. -/
theorem doubleLoop_ok_inv {σ : Type} (Inv : Nat → Nat → σ → Prop) (na nb : Nat)
    (body : Nat → Nat → σ → Except Err σ) (s s' : σ) (h0 : Inv 0 0 s)
    (hstep : ∀ a b t t', a < na → b < nb → Inv a b t → body a b t = Except.ok t' →
      Inv a (b + 1) t')
    (hb : ∀ a t, a < na → Inv a nb t → Inv (a + 1) 0 t)
    (hrun : doubleLoop na nb body s = Except.ok s') : Inv na 0 s' := by
  have := forLoop_ok_inv (fun a t => Inv a 0 t) _ na 0 s s' h0 (by
    intro a t t' _ ha hI hrun'
    have ha' : a < na := by omega
    have := forLoop_ok_inv (fun b t => Inv a b t) (fun b s => body a b s) nb 0 t t' hI (by
      intro b u u' _ hb0 hJ hr
      exact hstep a b u u' ha' (by omega) hJ hr) hrun'
    simp only [Nat.zero_add] at this
    exact hb a t' ha' this) hrun
  simpa using this

/-- Relational rule for two `forLoop`s that return: a relation between the two
states carried by every pair of iterations that return holds at exit. -/
theorem forLoop_ok_rel {σ τ : Type} (R : Nat → σ → τ → Prop) (body : Nat → σ → Except Err σ)
    (body' : Nat → τ → Except Err τ) (cnt : Nat) : ∀ (lo : Nat) (s t : σ) (s' t' : τ),
    R lo s s' →
    (∀ i a b a' b', lo ≤ i → i < lo + cnt → R i a a' → body i a = Except.ok b →
      body' i a' = Except.ok b' → R (i + 1) b b') →
    forLoop body lo cnt s = Except.ok t → forLoop body' lo cnt s' = Except.ok t' →
    R (lo + cnt) t t' := by
  induction cnt with
  | zero =>
    intro lo s t s' t' h0 _ h1 h2
    cases h1
    cases h2
    exact h0
  | succ n ih =>
    intro lo s t s' t' h0 hstep h1 h2
    simp only [forLoop, bind_eq_ok] at h1 h2
    obtain ⟨u, hu, hrest⟩ := h1
    obtain ⟨u', hu', hrest'⟩ := h2
    have hR := hstep lo s u s' u' (le_refl _) (by omega) h0 hu hu'
    have := ih (lo + 1) u t u' t' hR
      (fun i a b a' b' x y z => hstep i a b a' b' (by omega) (by omega) z) hrest hrest'
    have e : lo + 1 + n = lo + (n + 1) := by omega
    rw [e] at this
    exact this

/-! ## `minimumIndA` -/

/-- Specification of `minimumIndA` on an array whose first `n` cells hold
`f`: the result is the minimum and the smallest position holding it. -/
theorem minimumIndA_spec (numbers : Buf ℚ) (n : Nat) (f : Nat → ℚ) (hn : 1 ≤ n)
    (hs : n ≤ numbers.size) (hf : ∀ i, i < n → numbers.data i = some (f i)) :
    ∃ r, minimumIndA numbers n = Except.ok r ∧
      ∃ p : Nat, r.index = (p : Int) ∧ p < n ∧ r.value = f p ∧
        (∀ i, i < n → r.value ≤ f i) ∧ (∀ i, i < p → r.value < f i) ∧
        ((∀ i, i < n → f i = f 0) → r.index = 0) := by
  have h0 : numbers.get 0 = Except.ok (f 0) := by
    have := Buf.get_nat numbers 0 (f 0) (by omega) (hf 0 (by omega))
    simpa using this
  obtain ⟨r, hr, p, hp, hpn, hval, hmin, hfirst⟩ := forLoop_inv
    (fun i (s : MinState) => ∃ p : Nat, s.index = (p : Int) ∧ p < i ∧ s.value = f p ∧
        (∀ t, t < i → s.value ≤ f t) ∧ (∀ t, t < p → s.value < f t))
    (minimumIndA.body numbers) (n - 1) 1 ⟨f 0, 0⟩
    ⟨0, rfl, by omega, rfl, fun t ht => by
        have : t = 0 := by omega
        subst this; exact le_refl _, fun t ht => by omega⟩
    (by
      rintro i s hi1 hi2 ⟨p, hp, hpi, hval, hmin, hfirst⟩
      have hget : numbers.get (i : Int) = Except.ok (f i) :=
        Buf.get_nat numbers i (f i) (by omega) (hf i (by omega))
      by_cases hlt : f i < s.value
      · refine ⟨⟨f i, i⟩, by simp [minimumIndA.body, hget, hlt], i, rfl, by omega, rfl, ?_, ?_⟩
        · intro t ht
          rcases Nat.lt_succ_iff_lt_or_eq.mp ht with h | h
          · exact le_trans (le_of_lt hlt) (hmin t h)
          · subst h; exact le_refl _
        · intro t ht
          exact lt_of_lt_of_le hlt (hmin t ht)
      · refine ⟨s, by simp [minimumIndA.body, hget, hlt], p, hp, by omega, hval, ?_, hfirst⟩
        intro t ht
        rcases Nat.lt_succ_iff_lt_or_eq.mp ht with h | h
        · exact hmin t h
        · subst h; exact not_lt.mp hlt)
  have hcnt : 1 + (n - 1) = n := by omega
  rw [hcnt] at hpn hmin
  refine ⟨r, by simp [minimumIndA, h0, hr], p, hp, hpn, hval, hmin, hfirst, ?_⟩
  intro hall
  by_contra hne
  have hp0 : 0 < p := by
    rcases Nat.eq_zero_or_pos p with h | h
    · subst h; exact absurd hp hne
    · exact h
  have h1 := hfirst 0 hp0
  rw [hval, hall p hpn] at h1
  exact lt_irrefl _ h1

/-- Claim C4: on an array of length at least one, `minimumIndA` returns the
minimum element as `value` and the smallest position holding it as `index`;
on an all-equal array the index is 0. -/
theorem minimumIndA_first_min (n : Nat) (f : Nat → ℚ) (hn : 1 ≤ n) :
    ∃ r, minimumIndA (Buf.ofFn n f) n = Except.ok r ∧
      ∃ p : Nat, r.index = (p : Int) ∧ p < n ∧ r.value = f p ∧
        (∀ i, i < n → r.value ≤ f i) ∧ (∀ i, i < p → r.value < f i) ∧
        ((∀ i, i < n → f i = f 0) → r.index = 0) :=
  minimumIndA_spec (Buf.ofFn n f) n f hn (le_refl _)
    (fun i hi => by simp [Buf.ofFn, hi])

/-- Witness for claim C4 on the array `[3, 1, 2, 1]`. -/
theorem minimumIndA_first_min_witness :
    ∃ r, minimumIndA (Buf.ofFn 4 (fun i => if i = 0 then 3 else if i = 2 then 2 else 1)) 4
        = Except.ok r ∧
      ∃ p : Nat, r.index = (p : Int) ∧ p < 4 ∧
        r.value = (fun i => if i = 0 then (3 : ℚ) else if i = 2 then 2 else 1) p ∧
        (∀ i, i < 4 → r.value ≤ (fun i => if i = 0 then (3 : ℚ) else if i = 2 then 2 else 1) i) ∧
        (∀ i, i < p → r.value < (fun i => if i = 0 then (3 : ℚ) else if i = 2 then 2 else 1) i) ∧
        ((∀ i, i < 4 → (fun i => if i = 0 then (3 : ℚ) else if i = 2 then 2 else 1) i
          = (fun i => if i = 0 then (3 : ℚ) else if i = 2 then 2 else 1) 0) → r.index = 0) :=
  minimumIndA_first_min 4 _ (by decide)

/-! ## Index arithmetic of flattened cubes -/

theorem cube_index_lt (len i j k : Nat) (hi : i < len) (hj : j < len) (hk : k < len) :
    i + j * len + k * len * len < len * len * len := by
  have h1 : j * len ≤ (len - 1) * len := Nat.mul_le_mul_right _ (by omega)
  have h2 : k * len * len ≤ (len - 1) * len * len :=
    Nat.mul_le_mul_right _ (Nat.mul_le_mul_right _ (by omega))
  have h3 : (len - 1) * len + len = len * len := by
    cases len with
    | zero => omega
    | succ t => simp [Nat.succ_mul]
  have h4 : (len - 1) * len * len + len * len = len * len * len := by
    cases len with
    | zero => omega
    | succ t => simp only [Nat.add_sub_cancel]; ring
  omega

theorem cube_index_decode (len i j k : Nat) (hi : i < len) (hj : j < len) :
    (i + j * len + k * len * len) % len = i ∧
    ((i + j * len + k * len * len) / len) % len = j ∧
    (i + j * len + k * len * len) / (len * len) = k := by
  have hlen : 0 < len := by omega
  have e1 : i + j * len + k * len * len = i + len * (j + len * k) := by ring
  have e2 : (i + len * (j + len * k)) / len = j + len * k := by
    rw [Nat.add_mul_div_left _ _ hlen, Nat.div_eq_of_lt hi]; simp
  refine ⟨?_, ?_, ?_⟩
  · rw [e1, Nat.add_mul_mod_self_left, Nat.mod_eq_of_lt hi]
  · rw [e1, e2, Nat.add_mul_mod_self_left, Nat.mod_eq_of_lt hj]
  · rw [← Nat.div_div_eq_div_mul, e1, e2, Nat.add_mul_div_left _ _ hlen, Nat.div_eq_of_lt hj]
    simp

theorem cube_index_inj (len i j k i' j' k' : Nat) (hi : i < len) (hj : j < len)
    (hi' : i' < len) (hj' : j' < len)
    (h : i + j * len + k * len * len = i' + j' * len + k' * len * len) :
    i = i' ∧ j = j' ∧ k = k' := by
  obtain ⟨a1, a2, a3⟩ := cube_index_decode len i j k hi hj
  obtain ⟨b1, b2, b3⟩ := cube_index_decode len i' j' k' hi' hj'
  rw [h] at a1 a2 a3
  exact ⟨by omega, by omega, by omega⟩

theorem cube_index_exists (len l : Nat) (hl : l < len * len * len) :
    ∃ i j k, i < len ∧ j < len ∧ k < len ∧ l = i + j * len + k * len * len := by
  have hlen : 0 < len := by
    rcases Nat.eq_zero_or_pos len with h | h
    · subst h; simp at hl
    · exact h
  refine ⟨l % len, (l / len) % len, l / (len * len), Nat.mod_lt _ hlen, Nat.mod_lt _ hlen, ?_, ?_⟩
  · rw [Nat.div_lt_iff_lt_mul (Nat.mul_pos hlen hlen)]
    calc l < len * len * len := hl
      _ = len * (len * len) := by ring
  · have h1 := Nat.mod_add_div l len
    have h2 := Nat.mod_add_div (l / len) len
    rw [Nat.div_div_eq_div_mul] at h2
    calc l = l % len + len * (l / len) := h1.symm
      _ = l % len + len * ((l / len) % len + len * (l / (len * len))) := by rw [h2]
      _ = l % len + (l / len) % len * len + l / (len * len) * len * len := by ring

/-- Invariant rule for the three-deep loop nest. -/
theorem tripleLoop_inv {σ : Type} (Inv : Nat → Nat → Nat → σ → Prop) (a b c : Nat)
    (body : Nat → Nat → Nat → σ → Except Err σ) (s : σ) (h0 : Inv 0 0 0 s)
    (hstep : ∀ i j k t, i < a → j < b → k < c → Inv i j k t →
      ∃ t', body i j k t = Except.ok t' ∧ Inv i j (k + 1) t')
    (hk : ∀ i j t, i < a → j < b → Inv i j c t → Inv i (j + 1) 0 t)
    (hj : ∀ i t, i < a → Inv i b 0 t → Inv (i + 1) 0 0 t) :
    ∃ s', tripleLoop a b c body s = Except.ok s' ∧ Inv a 0 0 s' := by
  have := forLoop_inv (fun i t => Inv i 0 0 t) _ a 0 s h0 (by
    intro i t _ hi hI
    have hi' : i < a := by omega
    obtain ⟨t1, ht1, hI1⟩ := forLoop_inv (fun j t => Inv i j 0 t) _ b 0 t hI (by
      intro j u _ hj0 hJ
      have hj' : j < b := by omega
      obtain ⟨u1, hu1, hK⟩ := forLoop_inv (fun k t => Inv i j k t)
        (fun k s => body i j k s) c 0 u hJ (by
          intro k w _ hk0 hW
          exact hstep i j k w hi' hj' (by omega) hW)
      refine ⟨u1, hu1, ?_⟩
      simp only [Nat.zero_add] at hK
      exact hk i j u1 hi' hj' hK)
    refine ⟨t1, ht1, ?_⟩
    simp only [Nat.zero_add] at hI1
    exact hj i t1 hi' hI1)
  simpa [tripleLoop] using this

theorem truncToInt_natCast (n : Nat) : truncToInt (n : ℚ) = (n : Int) := by
  unfold truncToInt
  rw [if_pos (by positivity)]
  exact Int.floor_natCast n

theorem truncToInt_intCast (n : Int) : truncToInt (n : ℚ) = n := by
  unfold truncToInt
  split
  · exact Int.floor_intCast n
  · exact Int.ceil_intCast n

theorem cube_index_cast (len i j k : Nat) :
    ((i : Int) + (j : Int) * (len : Int) + (k : Int) * (len : Int) * (len : Int))
      = ((i + j * len + k * len * len : Nat) : Int) := by
  push_cast; ring

/-! ## The label table -/

/-- Cell contents of the label tables once the loop nest has reached
position `(i,j,k)`: every position visited before holds its label vector. -/
theorem labelVisits_spec (hw : Nat) :
    ∃ L, labelVisits hw = Except.ok L ∧ L.Nodup ∧
      ∀ l, l ∈ L ↔ l < (hw * 2 + 1) * (hw * 2 + 1) * (hw * 2 + 1) := by
  obtain ⟨L, hL, hnd, hmem⟩ := tripleLoop_inv
    (fun i j k (L : List Nat) => L.Nodup ∧ ∀ l, l ∈ L ↔
      ∃ i' j' k', i' < hw * 2 + 1 ∧ j' < hw * 2 + 1 ∧ k' < hw * 2 + 1 ∧ Before i j k i' j' k' ∧
        l = i' + j' * (hw * 2 + 1) + k' * (hw * 2 + 1) * (hw * 2 + 1))
    (hw * 2 + 1) (hw * 2 + 1) (hw * 2 + 1)
    (fun i j k log => Except.ok (log ++ [i + j * (hw * 2 + 1) + k * (hw * 2 + 1) * (hw * 2 + 1)]))
    [] ⟨List.nodup_nil, by
      intro l
      simp only [List.not_mem_nil, false_iff, not_exists, not_and]
      intro i' j' k' _ _ _ hb
      unfold Before at hb
      omega⟩
    (by
      rintro i j k L hi hj hk ⟨hnd, hmem⟩
      refine ⟨_, rfl, ?_, ?_⟩
      · rw [List.nodup_append]
        refine ⟨hnd, List.nodup_singleton _, ?_⟩
        intro a ha hb
        rw [List.mem_singleton] at hb
        subst hb
        obtain ⟨i', j', k', hi', hj', hk', hbef, heq⟩ := (hmem _).mp ha
        obtain ⟨e1, e2, e3⟩ := cube_index_inj _ i j k i' j' k' hi hj hi' hj' heq
        unfold Before at hbef
        omega
      · intro l
        rw [List.mem_append, List.mem_singleton, hmem]
        constructor
        · rintro (⟨i', j', k', hi', hj', hk', hbef, heq⟩ | h)
          · exact ⟨i', j', k', hi', hj', hk', by unfold Before at *; omega, heq⟩
          · exact ⟨i, j, k, hi, hj, hk, by unfold Before; omega, h⟩
        · rintro ⟨i', j', k', hi', hj', hk', hbef, heq⟩
          by_cases hlast : i' = i ∧ j' = j ∧ k' = k
          · obtain ⟨rfl, rfl, rfl⟩ := hlast
            exact Or.inr heq
          · exact Or.inl ⟨i', j', k', hi', hj', hk', by unfold Before at *; omega, heq⟩)
    (by
      rintro i j L _ _ ⟨hnd, hmem⟩
      refine ⟨hnd, fun l => ?_⟩
      rw [hmem]
      constructor <;> rintro ⟨i', j', k', hi', hj', hk', hbef, heq⟩ <;>
        exact ⟨i', j', k', hi', hj', hk', by unfold Before at *; omega, heq⟩)
    (by
      rintro i L _ ⟨hnd, hmem⟩
      refine ⟨hnd, fun l => ?_⟩
      rw [hmem]
      constructor <;> rintro ⟨i', j', k', hi', hj', hk', hbef, heq⟩ <;>
        exact ⟨i', j', k', hi', hj', hk', by unfold Before at *; omega, heq⟩)
  refine ⟨L, hL, hnd, fun l => ?_⟩
  rw [hmem]
  constructor
  · rintro ⟨i', j', k', hi', hj', hk', _, heq⟩
    rw [heq]; exact cube_index_lt _ _ _ _ hi' hj' hk'
  · intro hl
    obtain ⟨i', j', k', hi', hj', hk', heq⟩ := cube_index_exists _ l hl
    exact ⟨i', j', k', hi', hj', hk', by unfold Before; omega, heq⟩

theorem labelWrite_ok (hw : Nat) (quant : ℚ) (i j k : Nat) (t : LabelTable)
    (hi : i < hw * 2 + 1) (hj : j < hw * 2 + 1) (hk : k < hw * 2 + 1)
    (hx : t.xs.size = (hw * 2 + 1) * (hw * 2 + 1) * (hw * 2 + 1))
    (hy : t.ys.size = (hw * 2 + 1) * (hw * 2 + 1) * (hw * 2 + 1))
    (hz : t.zs.size = (hw * 2 + 1) * (hw * 2 + 1) * (hw * 2 + 1)) :
    labelWrite hw quant i j k t = Except.ok
      ⟨⟨t.xs.size, Function.update t.xs.data (i + j * (hw * 2 + 1) + k * (hw * 2 + 1) * (hw * 2 + 1))
          (some ((((j : Int) - hw : Int) : ℚ) * quant))⟩,
       ⟨t.ys.size, Function.update t.ys.data (i + j * (hw * 2 + 1) + k * (hw * 2 + 1) * (hw * 2 + 1))
          (some ((((i : Int) - hw : Int) : ℚ) * quant))⟩,
       ⟨t.zs.size, Function.update t.zs.data (i + j * (hw * 2 + 1) + k * (hw * 2 + 1) * (hw * 2 + 1))
          (some ((((k : Int) - hw : Int) : ℚ) * quant))⟩⟩ := by
  have hlt := cube_index_lt _ i j k hi hj hk
  unfold labelWrite
  simp only [cube_index_cast]
  rw [Buf.set_nat _ _ _ (by omega), Buf.set_nat _ _ _ (by omega), Buf.set_nat _ _ _ (by omega)]
  rfl

/-- Contents of the label table of `regularisation`. -/
theorem labelTable_spec (hw : Nat) (quant : ℚ) :
    ∃ t, labelTable hw quant = Except.ok t ∧
      t.xs.size = (hw * 2 + 1) * (hw * 2 + 1) * (hw * 2 + 1) ∧
      t.ys.size = (hw * 2 + 1) * (hw * 2 + 1) * (hw * 2 + 1) ∧
      t.zs.size = (hw * 2 + 1) * (hw * 2 + 1) * (hw * 2 + 1) ∧
      ∀ i j k, i < hw * 2 + 1 → j < hw * 2 + 1 → k < hw * 2 + 1 →
        t.xs.data (i + j * (hw * 2 + 1) + k * (hw * 2 + 1) * (hw * 2 + 1))
          = some ((((j : Int) - hw : Int) : ℚ) * quant) ∧
        t.ys.data (i + j * (hw * 2 + 1) + k * (hw * 2 + 1) * (hw * 2 + 1))
          = some ((((i : Int) - hw : Int) : ℚ) * quant) ∧
        t.zs.data (i + j * (hw * 2 + 1) + k * (hw * 2 + 1) * (hw * 2 + 1))
          = some ((((k : Int) - hw : Int) : ℚ) * quant) := by
  obtain ⟨t, ht, hx, hy, hz, hc⟩ := tripleLoop_inv
    (fun i j k (t : LabelTable) =>
      t.xs.size = (hw * 2 + 1) * (hw * 2 + 1) * (hw * 2 + 1) ∧
      t.ys.size = (hw * 2 + 1) * (hw * 2 + 1) * (hw * 2 + 1) ∧
      t.zs.size = (hw * 2 + 1) * (hw * 2 + 1) * (hw * 2 + 1) ∧
      ∀ i' j' k', i' < hw * 2 + 1 → j' < hw * 2 + 1 → k' < hw * 2 + 1 → Before i j k i' j' k' →
        t.xs.data (i' + j' * (hw * 2 + 1) + k' * (hw * 2 + 1) * (hw * 2 + 1))
          = some ((((j' : Int) - hw : Int) : ℚ) * quant) ∧
        t.ys.data (i' + j' * (hw * 2 + 1) + k' * (hw * 2 + 1) * (hw * 2 + 1))
          = some ((((i' : Int) - hw : Int) : ℚ) * quant) ∧
        t.zs.data (i' + j' * (hw * 2 + 1) + k' * (hw * 2 + 1) * (hw * 2 + 1))
          = some ((((k' : Int) - hw : Int) : ℚ) * quant))
    (hw * 2 + 1) (hw * 2 + 1) (hw * 2 + 1) (labelWrite hw quant)
    ⟨Buf.new _, Buf.new _, Buf.new _⟩
    ⟨rfl, rfl, rfl, by intro i' j' k' _ _ _ hb; unfold Before at hb; omega⟩
    (by
      rintro i j k t hi hj hk ⟨hx, hy, hz, hc⟩
      refine ⟨_, labelWrite_ok hw quant i j k t hi hj hk hx hy hz, hx, hy, hz, ?_⟩
      intro i' j' k' hi' hj' hk' hbef
      by_cases hlast : i' = i ∧ j' = j ∧ k' = k
      · obtain ⟨rfl, rfl, rfl⟩ := hlast
        simp
      · have hne : i' + j' * (hw * 2 + 1) + k' * (hw * 2 + 1) * (hw * 2 + 1)
            ≠ i + j * (hw * 2 + 1) + k * (hw * 2 + 1) * (hw * 2 + 1) := by
          intro heq
          obtain ⟨e1, e2, e3⟩ := cube_index_inj _ _ _ _ _ _ _ hi' hj' hi hj heq
          exact hlast ⟨e1, e2, e3⟩
        simp only [Function.update_noteq hne]
        exact hc i' j' k' hi' hj' hk' (by unfold Before at *; omega))
    (by
      rintro i j t _ _ ⟨hx, hy, hz, hc⟩
      exact ⟨hx, hy, hz, fun i' j' k' hi' hj' hk' hb =>
        hc i' j' k' hi' hj' hk' (by unfold Before at *; omega)⟩)
    (by
      rintro i t _ ⟨hx, hy, hz, hc⟩
      exact ⟨hx, hy, hz, fun i' j' k' hi' hj' hk' hb =>
        hc i' j' k' hi' hj' hk' (by unfold Before at *; omega)⟩)
  exact ⟨t, ht, hx, hy, hz, fun i j k hi hj hk =>
    hc i j k hi hj hk (by unfold Before; omega)⟩

theorem cube_len4 (hw : Nat) :
    (truncToInt (((hw * 2 + 1 : Nat) : ℚ) ^ 3)).toNat
      = (hw * 2 + 1) * (hw * 2 + 1) * (hw * 2 + 1) := by
  have h : (((hw * 2 + 1 : Nat) : ℚ) ^ 3)
      = (((hw * 2 + 1) * (hw * 2 + 1) * (hw * 2 + 1) : Nat) : ℚ) := by
    push_cast; ring
  rw [h, truncToInt_natCast]
  exact Int.toNat_natCast _

theorem dataCost.costWrite_ok (hw : Nat) (quant : ℚ) (m n : Nat) (i j k : Nat) (t : CostTable)
    (hi : i < hw * 2 + 1) (hj : j < hw * 2 + 1) (hk : k < hw * 2 + 1)
    (hx : t.xs.size = (hw * 2 + 1) * (hw * 2 + 1) * (hw * 2 + 1))
    (hy : t.ys.size = (hw * 2 + 1) * (hw * 2 + 1) * (hw * 2 + 1))
    (hz : t.zs.size = (hw * 2 + 1) * (hw * 2 + 1) * (hw * 2 + 1))
    (hd : t.inds.size = (hw * 2 + 1) * (hw * 2 + 1) * (hw * 2 + 1)) :
    dataCost.labelWrite hw quant m n i j k t = Except.ok
      ⟨⟨t.xs.size, Function.update t.xs.data (i + j * (hw * 2 + 1) + k * (hw * 2 + 1) * (hw * 2 + 1))
          (some ((((j : Int) - hw : Int) : ℚ) * quant))⟩,
       ⟨t.ys.size, Function.update t.ys.data (i + j * (hw * 2 + 1) + k * (hw * 2 + 1) * (hw * 2 + 1))
          (some ((((i : Int) - hw : Int) : ℚ) * quant))⟩,
       ⟨t.zs.size, Function.update t.zs.data (i + j * (hw * 2 + 1) + k * (hw * 2 + 1) * (hw * 2 + 1))
          (some ((((k : Int) - hw : Int) : ℚ) * quant))⟩,
       ⟨t.inds.size, Function.update t.inds.data
          (i + j * (hw * 2 + 1) + k * (hw * 2 + 1) * (hw * 2 + 1))
          (some (truncToInt ((((i : Int) - hw : Int) : ℚ) * quant
            + (((j : Int) - hw : Int) : ℚ) * quant * m
            + (((k : Int) - hw : Int) : ℚ) * quant * m * n)))⟩⟩ := by
  have hlt := cube_index_lt _ i j k hi hj hk
  unfold dataCost.labelWrite
  simp only [cube_index_cast]
  rw [Buf.set_nat _ _ _ (by omega), Buf.set_nat _ _ _ (by omega), Buf.set_nat _ _ _ (by omega)]
  simp only [ok_bind]
  rw [Buf.get_nat _ _ ((((i : Int) - hw : Int) : ℚ) * quant) (by simpa using by omega) (by simp),
    Buf.get_nat _ _ ((((j : Int) - hw : Int) : ℚ) * quant) (by simpa using by omega) (by simp),
    Buf.get_nat _ _ ((((k : Int) - hw : Int) : ℚ) * quant) (by simpa using by omega) (by simp)]
  simp only [ok_bind]
  rw [Buf.set_nat _ _ _ (by omega)]
  rfl

/-- Contents of the label tables of `dataCost`. -/
theorem dataCost.costTable_spec (hw : Nat) (quant : ℚ) (m n : Nat) :
    ∃ t, dataCost.labelTable hw quant m n = Except.ok t ∧
      t.xs.size = (hw * 2 + 1) * (hw * 2 + 1) * (hw * 2 + 1) ∧
      t.ys.size = (hw * 2 + 1) * (hw * 2 + 1) * (hw * 2 + 1) ∧
      t.zs.size = (hw * 2 + 1) * (hw * 2 + 1) * (hw * 2 + 1) ∧
      t.inds.size = (hw * 2 + 1) * (hw * 2 + 1) * (hw * 2 + 1) ∧
      ∀ i j k, i < hw * 2 + 1 → j < hw * 2 + 1 → k < hw * 2 + 1 →
        t.xs.data (i + j * (hw * 2 + 1) + k * (hw * 2 + 1) * (hw * 2 + 1))
          = some ((((j : Int) - hw : Int) : ℚ) * quant) ∧
        t.ys.data (i + j * (hw * 2 + 1) + k * (hw * 2 + 1) * (hw * 2 + 1))
          = some ((((i : Int) - hw : Int) : ℚ) * quant) ∧
        t.zs.data (i + j * (hw * 2 + 1) + k * (hw * 2 + 1) * (hw * 2 + 1))
          = some ((((k : Int) - hw : Int) : ℚ) * quant) ∧
        t.inds.data (i + j * (hw * 2 + 1) + k * (hw * 2 + 1) * (hw * 2 + 1))
          = some (truncToInt ((((i : Int) - hw : Int) : ℚ) * quant
            + (((j : Int) - hw : Int) : ℚ) * quant * m
            + (((k : Int) - hw : Int) : ℚ) * quant * m * n)) := by
  obtain ⟨t, ht, hx, hy, hz, hd, hc⟩ := tripleLoop_inv
    (fun i j k (t : CostTable) =>
      t.xs.size = (hw * 2 + 1) * (hw * 2 + 1) * (hw * 2 + 1) ∧
      t.ys.size = (hw * 2 + 1) * (hw * 2 + 1) * (hw * 2 + 1) ∧
      t.zs.size = (hw * 2 + 1) * (hw * 2 + 1) * (hw * 2 + 1) ∧
      t.inds.size = (hw * 2 + 1) * (hw * 2 + 1) * (hw * 2 + 1) ∧
      ∀ i' j' k', i' < hw * 2 + 1 → j' < hw * 2 + 1 → k' < hw * 2 + 1 → Before i j k i' j' k' →
        t.xs.data (i' + j' * (hw * 2 + 1) + k' * (hw * 2 + 1) * (hw * 2 + 1))
          = some ((((j' : Int) - hw : Int) : ℚ) * quant) ∧
        t.ys.data (i' + j' * (hw * 2 + 1) + k' * (hw * 2 + 1) * (hw * 2 + 1))
          = some ((((i' : Int) - hw : Int) : ℚ) * quant) ∧
        t.zs.data (i' + j' * (hw * 2 + 1) + k' * (hw * 2 + 1) * (hw * 2 + 1))
          = some ((((k' : Int) - hw : Int) : ℚ) * quant) ∧
        t.inds.data (i' + j' * (hw * 2 + 1) + k' * (hw * 2 + 1) * (hw * 2 + 1))
          = some (truncToInt ((((i' : Int) - hw : Int) : ℚ) * quant
            + (((j' : Int) - hw : Int) : ℚ) * quant * m
            + (((k' : Int) - hw : Int) : ℚ) * quant * m * n)))
    (hw * 2 + 1) (hw * 2 + 1) (hw * 2 + 1) (dataCost.labelWrite hw quant m n)
    ⟨Buf.new _, Buf.new _, Buf.new _, Buf.new _⟩
    ⟨by simp only [Buf.new]; exact cube_len4 hw, by simp only [Buf.new]; exact cube_len4 hw,
      by simp only [Buf.new]; exact cube_len4 hw, by simp only [Buf.new]; exact cube_len4 hw,
      by intro i' j' k' _ _ _ hb; unfold Before at hb; omega⟩
    (by
      rintro i j k t hi hj hk ⟨hx, hy, hz, hd, hc⟩
      refine ⟨_, dataCost.costWrite_ok hw quant m n i j k t hi hj hk hx hy hz hd,
        hx, hy, hz, hd, ?_⟩
      intro i' j' k' hi' hj' hk' hbef
      by_cases hlast : i' = i ∧ j' = j ∧ k' = k
      · obtain ⟨rfl, rfl, rfl⟩ := hlast
        simp
      · have hne : i' + j' * (hw * 2 + 1) + k' * (hw * 2 + 1) * (hw * 2 + 1)
            ≠ i + j * (hw * 2 + 1) + k * (hw * 2 + 1) * (hw * 2 + 1) := by
          intro heq
          obtain ⟨e1, e2, e3⟩ := cube_index_inj _ _ _ _ _ _ _ hi' hj' hi hj heq
          exact hlast ⟨e1, e2, e3⟩
        simp only [Function.update_noteq hne]
        exact hc i' j' k' hi' hj' hk' (by unfold Before at *; omega))
    (by
      rintro i j t _ _ ⟨hx, hy, hz, hd, hc⟩
      exact ⟨hx, hy, hz, hd, fun i' j' k' hi' hj' hk' hb =>
        hc i' j' k' hi' hj' hk' (by unfold Before at *; omega)⟩)
    (by
      rintro i t _ ⟨hx, hy, hz, hd, hc⟩
      exact ⟨hx, hy, hz, hd, fun i' j' k' hi' hj' hk' hb =>
        hc i' j' k' hi' hj' hk' (by unfold Before at *; omega)⟩)
  exact ⟨t, by simpa [dataCost.labelTable] using ht, hx, hy, hz, hd, fun i j k hi hj hk =>
    hc i j k hi hj hk (by unfold Before; omega)⟩

/-- The function `ind2sub` inverts the flat label index. -/
theorem ind2sub_cube_index (hw i j k : Nat) (hi : i < hw * 2 + 1) (hj : j < hw * 2 + 1) :
    ind2sub ((hw * 2 + 1 : Nat) : Int)
        ((i + j * (hw * 2 + 1) + k * (hw * 2 + 1) * (hw * 2 + 1) : Nat) : Int)
      = Except.ok (((((i : Int) - hw : Int) : ℚ)), ((((j : Int) - hw : Int) : ℚ)),
          ((((k : Int) - hw : Int) : ℚ))) := by
  obtain ⟨d1, d2, d3⟩ := cube_index_decode (hw * 2 + 1) i j k hi hj
  have hne : ((hw * 2 + 1 : Nat) : Int) * ((hw * 2 + 1 : Nat) : Int) ≠ 0 := by positivity
  have hsearch : (((hw * 2 + 1 : Nat) : Int) - 1).tdiv 2 = (hw : Int) := by
    rw [Int.tdiv_eq_ediv (by push_cast; omega) (by omega)]
    push_cast; omega
  have hz : (((i + j * (hw * 2 + 1) + k * (hw * 2 + 1) * (hw * 2 + 1) : Nat) : Int)).tdiv
      (((hw * 2 + 1 : Nat) : Int) * ((hw * 2 + 1 : Nat) : Int)) = (k : Int) := by
    rw [← Int.natCast_mul, ← Int.ofNat_tdiv, d3]
  have hx : ((((i + j * (hw * 2 + 1) + k * (hw * 2 + 1) * (hw * 2 + 1) : Nat) : Int))
      - (k : Int) * ((hw * 2 + 1 : Nat) : Int) * ((hw * 2 + 1 : Nat) : Int)).tdiv
      ((hw * 2 + 1 : Nat) : Int) = (j : Int) := by
    have e : ((((i + j * (hw * 2 + 1) + k * (hw * 2 + 1) * (hw * 2 + 1) : Nat) : Int))
      - (k : Int) * ((hw * 2 + 1 : Nat) : Int) * ((hw * 2 + 1 : Nat) : Int))
        = ((i + j * (hw * 2 + 1) : Nat) : Int) := by push_cast; ring
    rw [e, ← Int.ofNat_tdiv]
    congr 1
    have := (cube_index_decode (hw * 2 + 1) i j 0 hi hj).2.1
    simp only [Nat.zero_mul, Nat.add_zero] at this
    have h2 : (i + j * (hw * 2 + 1)) / (hw * 2 + 1) < hw * 2 + 1 := by
      rw [Nat.div_lt_iff_lt_mul (by omega)]
      have := cube_index_lt (hw * 2 + 1) i j 0 hi hj (by omega)
      simp only [Nat.zero_mul, Nat.add_zero] at this
      nlinarith
    rw [Nat.mod_eq_of_lt h2] at this
    exact this
  unfold ind2sub
  rw [if_neg hne]
  simp only [hsearch, hz, hx]
  congr 2
  · push_cast; ring
/-- Claim C3: for every half-width `hw` and `len = 2*hw+1`, the loop nest of the
label table (in `regularisation` and in `dataCost`) writes every flat index of
`[0,len^3)` exactly once, index `i+j*len+k*len*len` carries the vector
`((j-hw)*quant,(i-hw)*quant,(k-hw)*quant)`, every index has this form, two
different indices carry different vectors when `quant` is not zero, and
`ind2sub` recovers `(i-hw,j-hw,k-hw)` from the index. -/
theorem labelTable_bijection (hw : Nat) (quant : ℚ) (m n : Nat) :
    ∃ t d L, labelTable hw quant = Except.ok t ∧
      dataCost.labelTable hw quant m n = Except.ok d ∧
      labelVisits hw = Except.ok L ∧
      L.Nodup ∧ (∀ l, l ∈ L ↔ l < (hw * 2 + 1) * (hw * 2 + 1) * (hw * 2 + 1)) ∧
      (∀ i j k, i < hw * 2 + 1 → j < hw * 2 + 1 → k < hw * 2 + 1 →
        t.xs.get ((i + j * (hw * 2 + 1) + k * (hw * 2 + 1) * (hw * 2 + 1) : Nat) : Int)
          = Except.ok ((((j : Int) - hw : Int) : ℚ) * quant) ∧
        t.ys.get ((i + j * (hw * 2 + 1) + k * (hw * 2 + 1) * (hw * 2 + 1) : Nat) : Int)
          = Except.ok ((((i : Int) - hw : Int) : ℚ) * quant) ∧
        t.zs.get ((i + j * (hw * 2 + 1) + k * (hw * 2 + 1) * (hw * 2 + 1) : Nat) : Int)
          = Except.ok ((((k : Int) - hw : Int) : ℚ) * quant) ∧
        d.xs.get ((i + j * (hw * 2 + 1) + k * (hw * 2 + 1) * (hw * 2 + 1) : Nat) : Int)
          = Except.ok ((((j : Int) - hw : Int) : ℚ) * quant) ∧
        d.ys.get ((i + j * (hw * 2 + 1) + k * (hw * 2 + 1) * (hw * 2 + 1) : Nat) : Int)
          = Except.ok ((((i : Int) - hw : Int) : ℚ) * quant) ∧
        d.zs.get ((i + j * (hw * 2 + 1) + k * (hw * 2 + 1) * (hw * 2 + 1) : Nat) : Int)
          = Except.ok ((((k : Int) - hw : Int) : ℚ) * quant) ∧
        ind2sub ((hw * 2 + 1 : Nat) : Int)
            ((i + j * (hw * 2 + 1) + k * (hw * 2 + 1) * (hw * 2 + 1) : Nat) : Int)
          = Except.ok (((((i : Int) - hw : Int) : ℚ)), ((((j : Int) - hw : Int) : ℚ)),
              ((((k : Int) - hw : Int) : ℚ)))) ∧
      (∀ l, l < (hw * 2 + 1) * (hw * 2 + 1) * (hw * 2 + 1) →
        ∃ i j k, i < hw * 2 + 1 ∧ j < hw * 2 + 1 ∧ k < hw * 2 + 1 ∧
          l = i + j * (hw * 2 + 1) + k * (hw * 2 + 1) * (hw * 2 + 1)) ∧
      (quant ≠ 0 → ∀ l l', l < (hw * 2 + 1) * (hw * 2 + 1) * (hw * 2 + 1) →
        l' < (hw * 2 + 1) * (hw * 2 + 1) * (hw * 2 + 1) → l ≠ l' →
        ¬ (t.xs.get (l : Int) = t.xs.get (l' : Int) ∧ t.ys.get (l : Int) = t.ys.get (l' : Int) ∧
            t.zs.get (l : Int) = t.zs.get (l' : Int))) := by
  obtain ⟨t, ht, hx, hy, hz, hc⟩ := labelTable_spec hw quant
  obtain ⟨d, hd, hdx, hdy, hdz, _, hdc⟩ := dataCost.costTable_spec hw quant m n
  obtain ⟨L, hL, hnd, hmem⟩ := labelVisits_spec hw
  have hget : ∀ i j k, i < hw * 2 + 1 → j < hw * 2 + 1 → k < hw * 2 + 1 →
      t.xs.get ((i + j * (hw * 2 + 1) + k * (hw * 2 + 1) * (hw * 2 + 1) : Nat) : Int)
        = Except.ok ((((j : Int) - hw : Int) : ℚ) * quant) ∧
      t.ys.get ((i + j * (hw * 2 + 1) + k * (hw * 2 + 1) * (hw * 2 + 1) : Nat) : Int)
        = Except.ok ((((i : Int) - hw : Int) : ℚ) * quant) ∧
      t.zs.get ((i + j * (hw * 2 + 1) + k * (hw * 2 + 1) * (hw * 2 + 1) : Nat) : Int)
        = Except.ok ((((k : Int) - hw : Int) : ℚ) * quant) := by
    intro i j k hi hj hk
    have hlt := cube_index_lt _ i j k hi hj hk
    obtain ⟨c1, c2, c3⟩ := hc i j k hi hj hk
    exact ⟨Buf.get_nat _ _ _ (by omega) c1, Buf.get_nat _ _ _ (by omega) c2,
      Buf.get_nat _ _ _ (by omega) c3⟩
  refine ⟨t, d, L, ht, hd, hL, hnd, hmem, ?_, cube_index_exists _, ?_⟩
  · intro i j k hi hj hk
    have hlt := cube_index_lt _ i j k hi hj hk
    obtain ⟨g1, g2, g3⟩ := hget i j k hi hj hk
    obtain ⟨e1, e2, e3, _⟩ := hdc i j k hi hj hk
    exact ⟨g1, g2, g3, Buf.get_nat _ _ _ (by omega) e1, Buf.get_nat _ _ _ (by omega) e2,
      Buf.get_nat _ _ _ (by omega) e3, ind2sub_cube_index hw i j k hi hj⟩
  · rintro hq l l' hl hl' hne ⟨ex, ey, ez⟩
    obtain ⟨i, j, k, hi, hj, hk, rfl⟩ := cube_index_exists _ l hl
    obtain ⟨i', j', k', hi', hj', hk', rfl⟩ := cube_index_exists _ l' hl'
    obtain ⟨g1, g2, g3⟩ := hget i j k hi hj hk
    obtain ⟨g1', g2', g3'⟩ := hget i' j' k' hi' hj' hk'
    rw [g1, g1'] at ex
    rw [g2, g2'] at ey
    rw [g3, g3'] at ez
    have cancel : ∀ a b : Int, Except.ok (ε := Err) ((a : ℚ) * quant) = Except.ok ((b : ℚ) * quant)
        → a = b := by
      intro a b h
      have h1 : (a : ℚ) * quant = (b : ℚ) * quant := by injection h
      exact_mod_cast mul_right_cancel₀ hq h1
    have hj2 := cancel _ _ ex
    have hi2 := cancel _ _ ey
    have hk2 := cancel _ _ ez
    apply hne
    have a1 : i = i' := by omega
    have a2 : j = j' := by omega
    have a3 : k = k' := by omega
    subst a1 a2 a3
    rfl
/-! ## `interp3` -/

theorem wrapInt_of_range (x : Int) (h0 : -2147483648 ≤ x) (h1 : x < 2147483648) :
    wrapInt x = x := by
  unfold wrapInt; omega

theorem clampIdx_range (a : Int) (hi : Nat) (h : 1 ≤ hi) :
    0 ≤ clampIdx a hi ∧ clampIdx a hi ≤ (hi : Int) - 1 := by
  unfold clampIdx
  constructor
  · exact le_min (le_max_right _ _) (by omega)
  · exact min_le_right _ _

theorem clampIdx_of_range (a : Int) (hi : Nat) (h0 : 0 ≤ a) (h1 : a < hi) :
    clampIdx a hi = a := by
  unfold clampIdx
  rw [max_eq_left h0, min_eq_left (by omega)]

/-- Every sample index of `interp3` lies inside the input volume. -/
theorem interp3.corner_range (m2 n2 o2 : Nat) (hm : 1 ≤ m2) (hn : 1 ≤ n2) (ho : 1 ≤ o2)
    (y x z : Int) :
    0 ≤ interp3.corner m2 n2 o2 y x z ∧
      interp3.corner m2 n2 o2 y x z < ((m2 * n2 * o2 : Nat) : Int) := by
  obtain ⟨a0, a1⟩ := clampIdx_range y m2 hm
  obtain ⟨b0, b1⟩ := clampIdx_range x n2 hn
  obtain ⟨c0, c1⟩ := clampIdx_range z o2 ho
  unfold interp3.corner
  have hm0 : (0 : Int) ≤ (m2 : Int) := by positivity
  have hn0 : (0 : Int) ≤ (n2 : Int) := by positivity
  constructor
  · have := mul_nonneg b0 hm0
    have := mul_nonneg (mul_nonneg c0 hm0) hn0
    omega
  · have h1 : clampIdx x n2 * (m2 : Int) ≤ ((n2 : Int) - 1) * m2 :=
      mul_le_mul_of_nonneg_right b1 hm0
    have h2 : clampIdx z o2 * (m2 : Int) * n2 ≤ ((o2 : Int) - 1) * m2 * n2 :=
      mul_le_mul_of_nonneg_right (mul_le_mul_of_nonneg_right c1 hm0) hn0
    push_cast
    nlinarith

theorem interp3.corner_get (m2 n2 o2 : Nat) (hm : 1 ≤ m2) (hn : 1 ≤ n2) (ho : 1 ≤ o2)
    (f : Nat → ℚ) (y x z : Int) :
    (Buf.ofFn (m2 * n2 * o2) f).get (interp3.corner m2 n2 o2 y x z)
      = Except.ok (f (interp3.corner m2 n2 o2 y x z).toNat) := by
  obtain ⟨h0, h1⟩ := interp3.corner_range m2 n2 o2 hm hn ho y x z
  exact Buf.get_ofFn_int _ _ _ h0 h1

theorem box_index_lt (m n o i j k : Nat) (hi : i < m) (hj : j < n) (hk : k < o) :
    i + j * m + k * m * n < m * n * o := by
  have h1 : i + j * m < m * n := by
    calc i + j * m < m + j * m := by omega
      _ = (j + 1) * m := by ring
      _ ≤ n * m := Nat.mul_le_mul_right _ (by omega)
      _ = m * n := by ring
  calc i + j * m + k * m * n < m * n + k * m * n := by omega
    _ = (k + 1) * (m * n) := by ring
    _ ≤ o * (m * n) := Nat.mul_le_mul_right _ (by omega)
    _ = m * n * o := by ring

theorem box_index_decode (m n i j k : Nat) (hi : i < m) (hj : j < n) :
    (i + j * m + k * m * n) % m = i ∧
    ((i + j * m + k * m * n) / m) % n = j ∧
    (i + j * m + k * m * n) / (m * n) = k := by
  have hm : 0 < m := by omega
  have hn : 0 < n := by omega
  have e1 : i + j * m + k * m * n = i + m * (j + n * k) := by ring
  have e2 : (i + m * (j + n * k)) / m = j + n * k := by
    rw [Nat.add_mul_div_left _ _ hm, Nat.div_eq_of_lt hi]; simp
  refine ⟨?_, ?_, ?_⟩
  · rw [e1, Nat.add_mul_mod_self_left, Nat.mod_eq_of_lt hi]
  · rw [e1, e2, Nat.add_mul_mod_self_left, Nat.mod_eq_of_lt hj]
  · rw [← Nat.div_div_eq_div_mul, e1, e2, Nat.add_mul_div_left _ _ hn, Nat.div_eq_of_lt hj]
    simp

theorem box_index_inj (m n i j k i' j' k' : Nat) (hi : i < m) (hj : j < n)
    (hi' : i' < m) (hj' : j' < n)
    (h : i + j * m + k * m * n = i' + j' * m + k' * m * n) :
    i = i' ∧ j = j' ∧ k = k' := by
  obtain ⟨a1, a2, a3⟩ := box_index_decode m n i j k hi hj
  obtain ⟨b1, b2, b3⟩ := box_index_decode m n i' j' k' hi' hj'
  rw [h] at a1 a2 a3
  exact ⟨by omega, by omega, by omega⟩

theorem box_index_exists (m n o l : Nat) (hl : l < m * n * o) :
    ∃ i j k, i < m ∧ j < n ∧ k < o ∧ l = i + j * m + k * m * n := by
  have hm : 0 < m := by
    rcases Nat.eq_zero_or_pos m with h | h
    · subst h; simp at hl
    · exact h
  have hn : 0 < n := by
    rcases Nat.eq_zero_or_pos n with h | h
    · subst h; simp at hl
    · exact h
  refine ⟨l % m, (l / m) % n, l / (m * n), Nat.mod_lt _ hm, Nat.mod_lt _ hn, ?_, ?_⟩
  · rw [Nat.div_lt_iff_lt_mul (Nat.mul_pos hm hn)]
    calc l < m * n * o := hl
      _ = o * (m * n) := by ring
  · have h1 := Nat.mod_add_div l m
    have h2 := Nat.mod_add_div (l / m) n
    rw [Nat.div_div_eq_div_mul] at h2
    calc l = l % m + m * (l / m) := h1.symm
      _ = l % m + m * ((l / m) % n + n * (l / (m * n))) := by rw [h2]
      _ = l % m + (l / m) % n * m + l / (m * n) * m * n := by ring

theorem box_index_cast (m n i j k : Nat) :
    ((i : Int) + (j : Int) * (m : Int) + (k : Int) * (m : Int) * (n : Int))
      = ((i + j * m + k * m * n : Nat) : Int) := by
  push_cast; ring

/-- One voxel of `interp3` never fails on initialised inputs and writes only
its own output cell. -/
theorem interp3.voxel_ok (f fx fy fz : Nat → ℚ) (m n o m2 n2 o2 : Nat) (flag : Bool)
    (hm : 1 ≤ m2) (hn : 1 ≤ n2) (ho : 1 ≤ o2) (k j i : Nat) (hk : k < o) (hj : j < n)
    (hi : i < m) (interp : Buf ℚ) (hsz : interp.size = m * n * o) :
    ∃ val, interp3.voxel (Buf.ofFn (m2 * n2 * o2) f) (Buf.ofFn (m * n * o) fx)
        (Buf.ofFn (m * n * o) fy) (Buf.ofFn (m * n * o) fz) m n m2 n2 o2 flag k j i interp
      = Except.ok ⟨interp.size, Function.update interp.data (i + j * m + k * m * n) (some val)⟩ := by
  have hlt := box_index_lt m n o i j k hi hj hk
  unfold interp3.voxel
  simp only [box_index_cast, Buf.get_ofFn _ _ _ hlt, ok_bind,
    interp3.corner_get m2 n2 o2 hm hn ho, bind_pure_comp, Except.map, pure_eq_ok]
  rw [Buf.set_nat _ _ _ (by omega)]
  exact ⟨_, rfl⟩

theorem interp3.corner_inside (m n o i j k : Nat) (hk : k < o) (hj : j < n) (hi : i < m) :
    interp3.corner m n o (i : Int) (j : Int) (k : Int)
      = ((i + j * m + k * m * n : Nat) : Int) := by
  unfold interp3.corner
  rw [clampIdx_of_range (i : Int) m (by omega) (by omega)]
  rw [clampIdx_of_range (j : Int) n (by omega) (by omega)]
  rw [clampIdx_of_range (k : Int) o (by omega) (by omega)]
  push_cast
  ring

/-- Under the all-zero field, one voxel of `warpImage` copies its input voxel. -/
theorem interp3.voxel_zero (f : Nat → ℚ) (m n o : Nat) (hint : m * n * o < 2147483648)
    (k j i : Nat) (hk : k < o) (hj : j < n) (hi : i < m) (interp : Buf ℚ)
    (hsz : interp.size = m * n * o) :
    interp3.voxel (Buf.ofFn (m * n * o) f) (Buf.ofFn (m * n * o) fun _ => 0)
        (Buf.ofFn (m * n * o) fun _ => 0) (Buf.ofFn (m * n * o) fun _ => 0) m n m n o true
        k j i interp
      = Except.ok ⟨interp.size, Function.update interp.data (i + j * m + k * m * n)
          (some (f (i + j * m + k * m * n)))⟩ := by
  have hlt := box_index_lt m n o i j k hi hj hk
  have hset : ∀ v : ℚ, interp.set ((i + j * m + k * m * n : Nat) : Int) v = Except.ok
      ⟨interp.size, Function.update interp.data (i + j * m + k * m * n) (some v)⟩ :=
    fun v => Buf.set_nat interp (i + j * m + k * m * n) v (by omega)
  have hm1 : 1 ≤ m := by omega
  have hn1 : 1 ≤ n := by omega
  have ho1 : 1 ≤ o := by omega
  have hmn : m * n ≤ m * n * o := Nat.le_mul_of_pos_right _ (by omega)
  have hi2 : (i : Int) < 2147483648 := by
    have : i < m * n * o := by
      calc i < m := hi
        _ ≤ m * n := Nat.le_mul_of_pos_right _ (by omega)
        _ ≤ m * n * o := hmn
    omega
  have hj2 : (j : Int) < 2147483648 := by
    have : j < m * n * o := by
      calc j < n := hj
        _ ≤ m * n := Nat.le_mul_of_pos_left _ (by omega)
        _ ≤ m * n * o := hmn
    omega
  have hk2 : (k : Int) < 2147483648 := by
    have : k < m * n * o := by
      calc k < o := hk
        _ ≤ m * n * o := Nat.le_mul_of_pos_left _ (Nat.mul_pos (by omega) (by omega))
    omega
  have wi : wrapInt (0 + (i : Int)) = i := by
    rw [zero_add]; exact wrapInt_of_range _ (by omega) hi2
  have wj : wrapInt (0 + (j : Int)) = j := by
    rw [zero_add]; exact wrapInt_of_range _ (by omega) hj2
  have wk : wrapInt (0 + (k : Int)) = k := by
    rw [zero_add]; exact wrapInt_of_range _ (by omega) hk2
  have w0 : wrapInt 0 = 0 := by unfold wrapInt; omega
  have hc := interp3.corner_inside m n o i j k hk hj hi
  unfold interp3.voxel
  simp only [box_index_cast, Buf.get_ofFn _ _ _ hlt, ok_bind, Int.floor_zero, w0, wi, wj, wk,
    if_true, interp3.corner_get m n o hm1 hn1 ho1, bind_pure_comp, Except.map, pure_eq_ok]
  rw [hset, hc, Int.toNat_natCast]
  simp

/-- Claim C10: for every input volume with dimensions at least one and every
coordinate field, with or without the base-coordinate offset, `interp3` runs
without an out-of-range read, and each sample index it can form lies in
`[0, m2*n2*o2)`. -/
theorem interp3_reads_in_bounds (f fx fy fz : Nat → ℚ) (m n o m2 n2 o2 : Nat) (flag : Bool)
    (hm : 1 ≤ m2) (hn : 1 ≤ n2) (ho : 1 ≤ o2) (interp : Buf ℚ)
    (hsz : interp.size = m * n * o) :
    (∃ out, interp3 interp (Buf.ofFn (m2 * n2 * o2) f) (Buf.ofFn (m * n * o) fx)
        (Buf.ofFn (m * n * o) fy) (Buf.ofFn (m * n * o) fz) m n o m2 n2 o2 flag
        = Except.ok out) ∧
      ∀ y x z : Int, 0 ≤ interp3.corner m2 n2 o2 y x z ∧
        interp3.corner m2 n2 o2 y x z < ((m2 * n2 * o2 : Nat) : Int) := by
  refine ⟨?_, interp3.corner_range m2 n2 o2 hm hn ho⟩
  obtain ⟨out, hout, _⟩ := tripleLoop_inv (fun _ _ _ (b : Buf ℚ) => b.size = m * n * o)
    o n m (interp3.voxel (Buf.ofFn (m2 * n2 * o2) f) (Buf.ofFn (m * n * o) fx)
        (Buf.ofFn (m * n * o) fy) (Buf.ofFn (m * n * o) fz) m n m2 n2 o2 flag) interp hsz
    (by
      intro k j i b hk hj hi hb
      obtain ⟨val, hval⟩ := interp3.voxel_ok f fx fy fz m n o m2 n2 o2 flag hm hn ho
        k j i hk hj hi b hb
      exact ⟨_, hval, hb⟩)
    (fun _ _ _ _ _ h => h) (fun _ _ _ h => h)
  exact ⟨out, hout⟩

/-- Witness for claim C10: a 2x1x1 input sampled at far out-of-range coordinates. -/
theorem interp3_reads_in_bounds_witness :
    (∃ out, interp3 (Buf.new (1 * 1 * 1)) (Buf.ofFn (2 * 1 * 1) fun i => (i : ℚ))
        (Buf.ofFn (1 * 1 * 1) fun _ => 5000000000000) (Buf.ofFn (1 * 1 * 1) fun _ => -7 / 2)
        (Buf.ofFn (1 * 1 * 1) fun _ => 0) 1 1 1 2 1 1 false = Except.ok out) ∧
      ∀ y x z : Int, 0 ≤ interp3.corner 2 1 1 y x z ∧
        interp3.corner 2 1 1 y x z < ((2 * 1 * 1 : Nat) : Int) :=
  interp3_reads_in_bounds _ _ _ _ 1 1 1 2 1 1 false (by decide) (by decide) (by decide)
    (Buf.new (1 * 1 * 1)) rfl

/-- Claim C9: for a volume of any dimensions `m,n,o` (addressable by a C `int`)
and the all-zero displacement field, `warpImage` returns the input volume
unchanged at every voxel. -/
theorem warpImage_zero_field (f : Nat → ℚ) (m n o : Nat)
    (hint : m * n * o < 2147483648) (warped : Buf ℚ)
    (hsz : warped.size = m * n * o) :
    ∃ out, warpImage warped (Buf.ofFn (m * n * o) f) (Buf.ofFn (m * n * o) fun _ => 0)
        (Buf.ofFn (m * n * o) fun _ => 0) (Buf.ofFn (m * n * o) fun _ => 0) m n o
        = Except.ok out ∧ out.size = m * n * o ∧
      ∀ p : Nat, p < m * n * o → out.get (p : Int) = Except.ok (f p) := by
  obtain ⟨out, hout, hs, hc⟩ := tripleLoop_inv
    (fun k j i (b : Buf ℚ) => b.size = m * n * o ∧
      ∀ k' j' i', k' < o → j' < n → i' < m → Before k j i k' j' i' →
        b.data (i' + j' * m + k' * m * n) = some (f (i' + j' * m + k' * m * n)))
    o n m (interp3.voxel (Buf.ofFn (m * n * o) f) (Buf.ofFn (m * n * o) fun _ => 0)
        (Buf.ofFn (m * n * o) fun _ => 0) (Buf.ofFn (m * n * o) fun _ => 0) m n m n o true)
    warped ⟨hsz, by intro k' j' i' _ _ _ hb; unfold Before at hb; omega⟩
    (by
      rintro k j i b hk hj hi ⟨hb, hc⟩
      refine ⟨_, interp3.voxel_zero f m n o hint k j i hk hj hi b hb, hb, ?_⟩
      intro k' j' i' hk' hj' hi' hbef
      by_cases hlast : k' = k ∧ j' = j ∧ i' = i
      · obtain ⟨rfl, rfl, rfl⟩ := hlast
        simp
      · have hne : i' + j' * m + k' * m * n ≠ i + j * m + k * m * n := by
          intro heq
          obtain ⟨e1, e2, e3⟩ := box_index_inj _ _ _ _ _ _ _ _ hi' hj' hi hj heq
          exact hlast ⟨e3, e2, e1⟩
        simp only [Function.update_noteq hne]
        exact hc k' j' i' hk' hj' hi' (by unfold Before at *; omega))
    (by
      rintro k j b _ _ ⟨hb, hc⟩
      exact ⟨hb, fun k' j' i' hk' hj' hi' hbef =>
        hc k' j' i' hk' hj' hi' (by unfold Before at *; omega)⟩)
    (by
      rintro k b _ ⟨hb, hc⟩
      exact ⟨hb, fun k' j' i' hk' hj' hi' hbef =>
        hc k' j' i' hk' hj' hi' (by unfold Before at *; omega)⟩)
  refine ⟨out, hout, hs, ?_⟩
  intro p hp
  obtain ⟨i, j, k, hi, hj, hk, rfl⟩ := box_index_exists m n o p hp
  exact Buf.get_nat _ _ _ (by omega) (hc k j i hk hj hi (by unfold Before; omega))

/-- Witness for claim C9 on a 2x2x1 volume. -/
theorem warpImage_zero_field_witness :
    ∃ out, warpImage (Buf.new (2 * 2 * 1)) (Buf.ofFn (2 * 2 * 1) fun i => (i : ℚ) + 1 / 2)
        (Buf.ofFn (2 * 2 * 1) fun _ => 0) (Buf.ofFn (2 * 2 * 1) fun _ => 0)
        (Buf.ofFn (2 * 2 * 1) fun _ => 0) 2 2 1 = Except.ok out ∧ out.size = 2 * 2 * 1 ∧
      ∀ p : Nat, p < 2 * 2 * 1 → out.get (p : Int) = Except.ok ((p : ℚ) + 1 / 2) :=
  warpImage_zero_field (fun i => (i : ℚ) + 1 / 2) 2 2 1 (by decide) (Buf.new (2 * 2 * 1)) rfl
/-! ## Bit counting -/

theorem land_mod_two_pow (a b k : Nat) : (a &&& b) % 2 ^ k = (a % 2 ^ k) &&& (b % 2 ^ k) := by
  apply Nat.eq_of_testBit_eq
  intro i
  simp only [Nat.testBit_mod_two_pow, Nat.testBit_and]
  cases decide (i < k) <;> simp

theorem land_div_two_pow (a b k : Nat) : (a &&& b) / 2 ^ k = (a / 2 ^ k) &&& (b / 2 ^ k) := by
  simp only [← Nat.shiftRight_eq_div_pow]
  apply Nat.eq_of_testBit_eq
  intro i
  simp only [Nat.testBit_shiftRight, Nat.testBit_and]

theorem xor_mod_two_pow (a b k : Nat) : (a ^^^ b) % 2 ^ k = (a % 2 ^ k) ^^^ (b % 2 ^ k) := by
  apply Nat.eq_of_testBit_eq
  intro i
  simp only [Nat.testBit_mod_two_pow, Nat.testBit_xor]
  cases decide (i < k) <;> simp

theorem xor_div_two_pow (a b k : Nat) : (a ^^^ b) / 2 ^ k = (a / 2 ^ k) ^^^ (b / 2 ^ k) := by
  simp only [← Nat.shiftRight_eq_div_pow]
  apply Nat.eq_of_testBit_eq
  intro i
  simp only [Nat.testBit_shiftRight, Nat.testBit_xor]

/-- Bitwise and acts separately on the low byte and on the rest. -/
theorem land_split256 (a b : Nat) :
    a &&& b = ((a % 256) &&& (b % 256)) + 256 * ((a / 256) &&& (b / 256)) := by
  have h1 := land_mod_two_pow a b 8
  have h2 := land_div_two_pow a b 8
  have h3 := Nat.mod_add_div (a &&& b) 256
  norm_num at h1 h2
  omega

theorem bitCount_mod (k x : Nat) : bitCount k (x % 2 ^ k) = bitCount k x := by
  induction k generalizing x with
  | zero => rfl
  | succ k ih =>
    have h1 : x % 2 ^ (k + 1) % 2 = x % 2 := by
      rw [pow_succ, Nat.mod_mul_left_mod]
    have h2 : x % 2 ^ (k + 1) / 2 = (x / 2) % 2 ^ k := by
      rw [pow_succ, Nat.mul_comm, Nat.mod_mul_right_div_self]
    simp only [bitCount, h1, h2, ih]

theorem bitCount_split (a n x : Nat) :
    bitCount (a + n) x = bitCount a x + bitCount n (x / 2 ^ a) := by
  induction a generalizing x with
  | zero => simp [bitCount]
  | succ a ih =>
    have e : a + 1 + n = (a + n) + 1 := by omega
    rw [e]
    simp only [bitCount, ih]
    rw [Nat.div_div_eq_div_mul, pow_succ, Nat.mul_comm]
    omega

theorem bitCount_zero (n : Nat) : bitCount n 0 = 0 := by
  induction n with
  | zero => rfl
  | succ n ih => simp [bitCount, ih]

theorem bitCount_of_lt (a n x : Nat) (hx : x < 2 ^ a) : bitCount (a + n) x = bitCount a x := by
  rw [bitCount_split, Nat.div_eq_of_lt hx, bitCount_zero]
  rfl

theorem byte_fact1 : ∀ b, b < 256 → ∀ c, c < 2 →
    ((b / 2 + 128 * c) &&& 0x55) = ((b / 2) &&& 0x55) := by decide!

theorem byte_fact2 : ∀ b, b < 256 → ∀ c, c < 4 →
    ((b / 4 + 64 * c) &&& 0x33) = ((b / 4) &&& 0x33) := by decide!

theorem byte_fact3 : ∀ u, u < 256 → u % 16 ≤ 4 → u / 16 ≤ 4 → ∀ c, c < 5 →
    ((u + u / 16 + 16 * c) &&& 0x0f) = u % 16 + u / 16 := by decide!

/-- The three masking steps of `popcount_3` on a single byte count its bits. -/
theorem byte_fact4 : ∀ b, b < 256 →
    (b - ((b / 2) &&& 0x55)) < 256 ∧
    (((b - ((b / 2) &&& 0x55)) &&& 0x33) + (((b - ((b / 2) &&& 0x55)) / 4) &&& 0x33)) < 256 ∧
    (((b - ((b / 2) &&& 0x55)) &&& 0x33) + (((b - ((b / 2) &&& 0x55)) / 4) &&& 0x33)) % 16 ≤ 4 ∧
    (((b - ((b / 2) &&& 0x55)) &&& 0x33) + (((b - ((b / 2) &&& 0x55)) / 4) &&& 0x33)) / 16 ≤ 4 ∧
    (((b - ((b / 2) &&& 0x55)) &&& 0x33) + (((b - ((b / 2) &&& 0x55)) / 4) &&& 0x33)) % 16 +
      (((b - ((b / 2) &&& 0x55)) &&& 0x33) + (((b - ((b / 2) &&& 0x55)) / 4) &&& 0x33)) / 16
      = bitCount 8 b := by decide!

theorem popA_succ (n b r : Nat) (hb : b < 256) :
    popA (n + 1) (b + 256 * r) = ((b / 2) &&& 0x55) + 256 * popA n r := by
  unfold popA
  rw [land_split256]
  have e1 : (b + 256 * r) / 2 % 256 = b / 2 + 128 * (r % 2) := by omega
  have e2 : repByte 0x55 (n + 1) % 256 = 0x55 := by simp only [repByte]; omega
  have e3 : (b + 256 * r) / 2 / 256 = r / 2 := by omega
  have e4 : repByte 0x55 (n + 1) / 256 = repByte 0x55 n := by simp only [repByte]; omega
  rw [e1, e2, e3, e4, byte_fact1 b hb (r % 2) (Nat.mod_lt _ (by decide))]

theorem pop2_succ (n u w : Nat) (hu : u < 256) :
    pop2 (n + 1) (u + 256 * w) = ((u &&& 0x33) + ((u / 4) &&& 0x33)) + 256 * pop2 n w := by
  unfold pop2
  rw [land_split256 (u + 256 * w), land_split256 ((u + 256 * w) / 4)]
  have e0 : (u + 256 * w) % 256 = u := by omega
  have e0' : (u + 256 * w) / 256 = w := by omega
  have e1 : (u + 256 * w) / 4 % 256 = u / 4 + 64 * (w % 4) := by omega
  have e2 : repByte 0x33 (n + 1) % 256 = 0x33 := by simp only [repByte]; omega
  have e3 : (u + 256 * w) / 4 / 256 = w / 4 := by omega
  have e4 : repByte 0x33 (n + 1) / 256 = repByte 0x33 n := by simp only [repByte]; omega
  rw [e0, e0', e1, e2, e3, e4, byte_fact2 u hu (w % 4) (Nat.mod_lt _ (by decide))]
  omega

theorem pop3_succ (n u w : Nat) (hu : u < 256) (h1 : u % 16 ≤ 4) (h2 : u / 16 ≤ 4)
    (hw : w % 16 ≤ 4) :
    pop3 (n + 1) (u + 256 * w) = (u % 16 + u / 16) + 256 * pop3 n w := by
  unfold pop3
  rw [land_split256]
  have e1 : (u + 256 * w + (u + 256 * w) / 16) % 256 = u + u / 16 + 16 * (w % 16) := by omega
  have e2 : repByte 0x0f (n + 1) % 256 = 0x0f := by simp only [repByte]; omega
  have e3 : (u + 256 * w + (u + 256 * w) / 16) / 256 = w + w / 16 := by omega
  have e4 : repByte 0x0f (n + 1) / 256 = repByte 0x0f n := by simp only [repByte]; omega
  rw [e1, e2, e3, e4, byte_fact3 u hu h1 h2 (w % 16) (by omega)]

/-- The three masking steps of `popcount_3`, run on `n` bytes, leave in every
byte the number of one bits of that byte. -/
theorem pop_bytes (n : Nat) : ∀ x, x < 256 ^ n →
    popA n x ≤ x ∧ pop2 n (x - popA n x) ≤ repByte 68 n ∧
      pop2 n (x - popA n x) % 16 ≤ 4 ∧
      pop3 n (pop2 n (x - popA n x)) = byteMap (bitCount 8) n x := by
  induction n with
  | zero =>
    intro x hx
    have : x = 0 := by simpa using hx
    subst this
    simp [popA, pop2, pop3, repByte, byteMap]
  | succ n ih =>
    intro x hx
    have hr : x / 256 < 256 ^ n := by
      rw [Nat.div_lt_iff_lt_mul (by decide)]
      calc x < 256 ^ (n + 1) := hx
        _ = 256 ^ n * 256 := pow_succ _ _
    obtain ⟨ihA, ih2, ih2m, ih3⟩ := ih (x / 256) hr
    have hb : x % 256 < 256 := Nat.mod_lt _ (by decide)
    obtain ⟨f1, f2, f3, f4, f5⟩ := byte_fact4 (x % 256) hb
    have hx' : x = x % 256 + 256 * (x / 256) := (Nat.mod_add_div x 256).symm
    have hA := popA_succ n (x % 256) (x / 256) hb
    rw [← hx'] at hA
    have hA0 : ((x % 256 / 2) &&& 0x55) ≤ x % 256 :=
      le_trans Nat.and_le_left (Nat.div_le_self _ _)
    have hy1 : x - popA (n + 1) x
        = (x % 256 - ((x % 256 / 2) &&& 0x55)) + 256 * (x / 256 - popA n (x / 256)) := by
      rw [hA]; omega
    have h2 := pop2_succ n _ (x / 256 - popA n (x / 256)) f1
    rw [← hy1] at h2
    have h3 := pop3_succ n _ (pop2 n (x / 256 - popA n (x / 256))) f2 f3 f4 ih2m
    rw [← h2] at h3
    refine ⟨by rw [hA]; omega, ?_, ?_, ?_⟩
    · rw [h2]; simp only [repByte]; omega
    · rw [h2]; omega
    · rw [h3, ih3, f5]; rfl

theorem bitCount_le (k x : Nat) : bitCount k x ≤ k := by
  induction k generalizing x with
  | zero => simp [bitCount]
  | succ k ih =>
    have := ih (x / 2)
    simp only [bitCount]
    omega

theorem bitCount_byte (n x : Nat) :
    bitCount (8 + n) x = bitCount 8 (x % 256) + bitCount n (x / 256) := by
  rw [bitCount_split 8 n x]
  have := bitCount_mod 8 x
  norm_num at this ⊢
  rw [this]

/-- The function `popcount_3` returns the number of one bits of a 64-bit word. -/
theorem popcount_3_bitCount (x : Nat) (hx : x < 2 ^ 64) : popcount_3 x = bitCount 64 x := by
  obtain ⟨hA, h2, _, h3⟩ := pop_bytes 8 x (by norm_num at hx ⊢; exact hx)
  have hm1 : popcount_3.m1 = repByte 0x55 8 := by decide
  have hm2 : popcount_3.m2 = repByte 0x33 8 := by decide
  have hm4 : popcount_3.m4 = repByte 0x0f 8 := by decide
  have hr : repByte 68 8 = 4919131752989213764 := by decide
  have e1 : sub64 x ((x >>> 1) &&& popcount_3.m1) = x - popA 8 x := by
    have : (x >>> 1) &&& popcount_3.m1 = popA 8 x := by
      rw [hm1, Nat.shiftRight_eq_div_pow]; rfl
    rw [this]
    unfold sub64
    norm_num at hx ⊢
    omega
  have e2 : ∀ y, add64 (y &&& popcount_3.m2) ((y >>> 2) &&& popcount_3.m2) = pop2 8 y % 2 ^ 64 := by
    intro y
    rw [hm2, Nat.shiftRight_eq_div_pow]; rfl
  have e3 : ∀ y, (add64 y (y >>> 4)) &&& popcount_3.m4
      = ((y + y / 16) % 2 ^ 64) &&& repByte 0x0f 8 := by
    intro y
    rw [hm4, Nat.shiftRight_eq_div_pow]; rfl
  have e2' : pop2 8 (x - popA 8 x) % 2 ^ 64 = pop2 8 (x - popA 8 x) := by
    apply Nat.mod_eq_of_lt
    rw [hr] at h2
    norm_num
    omega
  have e3' : (pop2 8 (x - popA 8 x) + pop2 8 (x - popA 8 x) / 16) % 2 ^ 64
      = pop2 8 (x - popA 8 x) + pop2 8 (x - popA 8 x) / 16 := by
    apply Nat.mod_eq_of_lt
    rw [hr] at h2
    norm_num
    omega
  have hval : popcount_3 x = (mul64 (byteMap (bitCount 8) 8 x) popcount_3.h01) >>> 56 := by
    unfold popcount_3
    simp only [e1, e2, e2', e3, e3']
    rw [← h3]; rfl
  rw [hval]
  have hb : bitCount 64 x = bitCount (8 + (8 + (8 + (8 + (8 + (8 + (8 + (8 + 0)))))))) x := rfl
  rw [hb]
  simp only [bitCount_byte, byteMap, bitCount_zero, Nat.add_zero, Nat.mul_zero]
  have h7 : bitCount 8 (x / 256 / 256 / 256 / 256 / 256 / 256 / 256 % 256)
      = bitCount 8 (x / 256 / 256 / 256 / 256 / 256 / 256 / 256) := bitCount_mod 8 _
  rw [h7]
  have c0 := bitCount_le 8 (x % 256)
  have c1 := bitCount_le 8 (x / 256 % 256)
  have c2 := bitCount_le 8 (x / 256 / 256 % 256)
  have c3 := bitCount_le 8 (x / 256 / 256 / 256 % 256)
  have c4 := bitCount_le 8 (x / 256 / 256 / 256 / 256 % 256)
  have c5 := bitCount_le 8 (x / 256 / 256 / 256 / 256 / 256 % 256)
  have c6 := bitCount_le 8 (x / 256 / 256 / 256 / 256 / 256 / 256 % 256)
  have c7 := bitCount_le 8 (x / 256 / 256 / 256 / 256 / 256 / 256 / 256)
  generalize bitCount 8 (x % 256) = a0 at *
  generalize bitCount 8 (x / 256 % 256) = a1 at *
  generalize bitCount 8 (x / 256 / 256 % 256) = a2 at *
  generalize bitCount 8 (x / 256 / 256 / 256 % 256) = a3 at *
  generalize bitCount 8 (x / 256 / 256 / 256 / 256 % 256) = a4 at *
  generalize bitCount 8 (x / 256 / 256 / 256 / 256 / 256 % 256) = a5 at *
  generalize bitCount 8 (x / 256 / 256 / 256 / 256 / 256 / 256 % 256) = a6 at *
  generalize bitCount 8 (x / 256 / 256 / 256 / 256 / 256 / 256 / 256) = a7 at *
  unfold mul64 popcount_3.h01
  rw [Nat.shiftRight_eq_div_pow]
  norm_num
  have e : (a0 + 256 * (a1 + 256 * (a2 + 256 * (a3 + 256 * (a4 + 256 * (a5 + 256 * (a6 + 256 * a7)))))))
      * 72340172838076673
      = (a0 + 256 * ((a0 + a1) + 256 * ((a0 + a1 + a2) + 256 * ((a0 + a1 + a2 + a3)
          + 256 * ((a0 + a1 + a2 + a3 + a4) + 256 * ((a0 + a1 + a2 + a3 + a4 + a5)
          + 256 * (a0 + a1 + a2 + a3 + a4 + a5 + a6)))))))
        + 72057594037927936 * (a0 + a1 + a2 + a3 + a4 + a5 + a6 + a7)
        + 18446744073709551616 * ((a1 + a2 + a3 + a4 + a5 + a6 + a7)
          + 256 * ((a2 + a3 + a4 + a5 + a6 + a7) + 256 * ((a3 + a4 + a5 + a6 + a7)
          + 256 * ((a4 + a5 + a6 + a7) + 256 * ((a5 + a6 + a7)
          + 256 * ((a6 + a7) + 256 * a7)))))) := by
    ring
  rw [e]
  have hL : a0 + 256 * ((a0 + a1) + 256 * ((a0 + a1 + a2) + 256 * ((a0 + a1 + a2 + a3)
          + 256 * ((a0 + a1 + a2 + a3 + a4) + 256 * ((a0 + a1 + a2 + a3 + a4 + a5)
          + 256 * (a0 + a1 + a2 + a3 + a4 + a5 + a6)))))) < 72057594037927936 := by omega
  generalize a0 + 256 * ((a0 + a1) + 256 * ((a0 + a1 + a2) + 256 * ((a0 + a1 + a2 + a3)
          + 256 * ((a0 + a1 + a2 + a3 + a4) + 256 * ((a0 + a1 + a2 + a3 + a4 + a5)
          + 256 * (a0 + a1 + a2 + a3 + a4 + a5 + a6)))))) = L at *
  rw [Nat.add_mul_mod_self_left, Nat.mod_eq_of_lt (by omega),
    Nat.add_mul_div_left _ _ (by norm_num), Nat.div_eq_of_lt hL]
  omega

/-! ## Packed descriptors -/

theorem digits_cons (n : Nat) (t : Nat → Nat) :
    ∑ q in Finset.range (n + 1), t q * 32 ^ q
      = t 0 + 32 * ∑ q in Finset.range n, t (q + 1) * 32 ^ q := by
  rw [Finset.sum_range_succ', Finset.mul_sum]
  have : ∀ q, t (q + 1) * 32 ^ (q + 1) = 32 * (t (q + 1) * 32 ^ q) := by
    intro q; ring
  simp only [this, pow_zero, mul_one]
  omega

theorem digits_lt (n : Nat) : ∀ t : Nat → Nat, (∀ q, q < n → t q < 32) →
    ∑ q in Finset.range n, t q * 32 ^ q < 32 ^ n := by
  induction n with
  | zero => intro t _; simp
  | succ n ih =>
    intro t ht
    rw [digits_cons]
    have h1 := ih (fun q => t (q + 1)) (fun q hq => ht (q + 1) (by omega))
    have h0 := ht 0 (by omega)
    have : (32 : Nat) ^ (n + 1) = 32 * 32 ^ n := by ring
    simp only at h1
    omega

theorem xor_split32 (u v A B : Nat) (hu : u < 32) (hv : v < 32) :
    (u + 32 * A) ^^^ (v + 32 * B) = (u ^^^ v) + 32 * (A ^^^ B) := by
  have h1 : ((u + 32 * A) ^^^ (v + 32 * B)) % 32
      = ((u + 32 * A) % 32) ^^^ ((v + 32 * B) % 32) := xor_mod_two_pow _ _ 5
  have h2 : ((u + 32 * A) ^^^ (v + 32 * B)) / 32
      = ((u + 32 * A) / 32) ^^^ ((v + 32 * B) / 32) := xor_div_two_pow _ _ 5
  have h3 := Nat.mod_add_div ((u + 32 * A) ^^^ (v + 32 * B)) 32
  have e1 : (u + 32 * A) % 32 = u := by omega
  have e2 : (v + 32 * B) % 32 = v := by omega
  have e3 : (u + 32 * A) / 32 = A := by omega
  have e4 : (v + 32 * B) / 32 = B := by omega
  rw [e1, e2] at h1
  rw [e3, e4] at h2
  rw [h1, h2] at h3
  exact h3.symm

theorem bitCount_digits (n : Nat) : ∀ ta tb : Nat → Nat,
    (∀ q, q < n → ta q < 32) → (∀ q, q < n → tb q < 32) →
    bitCount (5 * n) ((∑ q in Finset.range n, ta q * 32 ^ q) ^^^
        (∑ q in Finset.range n, tb q * 32 ^ q))
      = ∑ q in Finset.range n, bitCount 5 (ta q ^^^ tb q) := by
  induction n with
  | zero => intro ta tb _ _; simp [bitCount]
  | succ n ih =>
    intro ta tb ha hb
    have ha0 := ha 0 (by omega)
    have hb0 := hb 0 (by omega)
    rw [digits_cons n ta, digits_cons n tb, xor_split32 _ _ _ _ ha0 hb0]
    have e : 5 * (n + 1) = 5 + 5 * n := by ring
    rw [e, bitCount_split]
    have hrec := ih (fun q => ta (q + 1)) (fun q => tb (q + 1))
      (fun q hq => ha (q + 1) (by omega)) (fun q hq => hb (q + 1) (by omega))
    simp only at hrec
    rw [Finset.sum_range_succ' (fun q => bitCount 5 (ta q ^^^ tb q)), ← hrec]
    have hx : ta 0 ^^^ tb 0 < 2 ^ 5 := Nat.xor_lt_two_pow (by simpa using ha0) (by simpa using hb0)
    have hx' : ta 0 ^^^ tb 0 < 32 := by simpa using hx
    generalize (∑ q in Finset.range n, ta (q + 1) * 32 ^ q) ^^^
        (∑ q in Finset.range n, tb (q + 1) * 32 ^ q) = R
    generalize ta 0 ^^^ tb 0 = d at hx'
    have e2 : (d + 32 * R) / 2 ^ 5 = R := by
      norm_num
      omega
    have e3 : bitCount 5 (d + 32 * R) = bitCount 5 d := by
      rw [← bitCount_mod 5 (d + 32 * R)]
      congr 1
      norm_num
      omega
    rw [e2, e3]
    omega

theorem level_code_fact : ∀ a, a < 6 → ∀ b, b < 6 →
    2 ^ a - 1 < 32 ∧ bitCount 5 ((2 ^ a - 1) ^^^ (2 ^ b - 1)) = (a - b) + (b - a) := by
  decide!

/-- Hamming distance of two packed descriptors: `popcount_3` of the exclusive
or of the codes is the sum of the absolute differences of the entries. -/
theorem code_hamming (a b : Nat → Nat) (ha : ∀ q, q < 12 → a q ≤ 5)
    (hb : ∀ q, q < 12 → b q ≤ 5) :
    quantisedMIND.code a < 2 ^ 60 ∧ quantisedMIND.code b < 2 ^ 60 ∧
      ((popcount_3 (quantisedMIND.code a ^^^ quantisedMIND.code b) : Nat) : Int)
        = ∑ q in Finset.range 12, |(a q : Int) - (b q : Int)| := by
  have hta : ∀ q, q < 12 → 2 ^ a q - 1 < 32 := fun q hq =>
    (level_code_fact (a q) (by have := ha q hq; omega) 0 (by decide)).1
  have htb : ∀ q, q < 12 → 2 ^ b q - 1 < 32 := fun q hq =>
    (level_code_fact (b q) (by have := hb q hq; omega) 0 (by decide)).1
  have la := digits_lt 12 (fun q => 2 ^ a q - 1) hta
  have lb := digits_lt 12 (fun q => 2 ^ b q - 1) htb
  have e60 : (32 : Nat) ^ 12 = 2 ^ 60 := by norm_num
  rw [e60] at la lb
  refine ⟨la, lb, ?_⟩
  have hx : quantisedMIND.code a ^^^ quantisedMIND.code b < 2 ^ 60 := Nat.xor_lt_two_pow la lb
  rw [popcount_3_bitCount _ (lt_of_lt_of_le hx (by norm_num))]
  have e64 : bitCount 64 (quantisedMIND.code a ^^^ quantisedMIND.code b)
      = bitCount (5 * 12) (quantisedMIND.code a ^^^ quantisedMIND.code b) :=
    bitCount_of_lt 60 4 _ hx
  rw [e64]
  unfold quantisedMIND.code
  rw [bitCount_digits 12 (fun q => 2 ^ a q - 1) (fun q => 2 ^ b q - 1) hta htb]
  push_cast
  apply Finset.sum_congr rfl
  intro q hq
  have hq' : q < 12 := Finset.mem_range.mp hq
  have h := (level_code_fact (a q) (by have := ha q hq'; omega) (b q)
    (by have := hb q hq'; omega)).2
  simp only at h ⊢
  rw [h]
  rcases le_total (a q) (b q) with hab | hab
  · rw [Nat.sub_eq_zero_of_le hab, abs_of_nonpos (by omega)]
    omega
  · rw [Nat.sub_eq_zero_of_le hab, abs_of_nonneg (by omega)]
    omega
theorem quantisedMIND.tables_spec :
    ∃ ti td, quantisedMIND.tables = Except.ok (ti, td) ∧ ti.size = 6 ∧ td.size = 12 ∧
      (∀ v, v < 6 → ti.data v = some (2 ^ v - 1)) ∧
      (∀ q, q < 12 → td.data q = some (32 ^ q)) := by
  refine ⟨_, _, rfl, rfl, rfl, ?_, ?_⟩
  · intro v hv
    interval_cases v <;> rfl
  · intro q hq
    interval_cases q <;> rfl

theorem quantisedMIND.level_range (x : ℚ) :
    0 ≤ quantisedMIND.level x ∧ quantisedMIND.level x ≤ 5 := by
  unfold quantisedMIND.level
  constructor
  · exact le_min (le_max_right _ _) (by norm_num)
  · exact le_trans (min_le_right _ _) (by norm_num)

/-- The quantisation loop of `quantisedMIND` fills `mindi` with the levels. -/
theorem quantisedMIND.quantise_spec (f : Nat → ℚ) (n : Nat) :
    ∃ out, forLoop (fun i (t : Buf Int) => do
        let x ← (Buf.ofFn n f).get i
        t.set i (quantisedMIND.level x)) 0 n (Buf.new n) = Except.ok out ∧
      out.size = n ∧ ∀ i, i < n → out.data i = some (quantisedMIND.level (f i)) := by
  obtain ⟨out, hout, hs, hc⟩ := forLoop_inv
    (fun i (t : Buf Int) => t.size = n ∧ ∀ i', i' < i → t.data i' = some (quantisedMIND.level (f i')))
    (fun i (t : Buf Int) => do
        let x ← (Buf.ofFn n f).get i
        t.set i (quantisedMIND.level x)) n 0 (Buf.new n)
    ⟨rfl, fun i' hi' => by omega⟩
    (by
      rintro i t _ hi ⟨hs, hc⟩
      have hi' : i < n := by omega
      refine ⟨⟨t.size, Function.update t.data i (some (quantisedMIND.level (f i)))⟩, ?_, hs, ?_⟩
      · simp only [Buf.get_ofFn n f i hi', ok_bind]
        exact Buf.set_nat t i _ (by omega)
      · intro i' hi2
        by_cases h : i' = i
        · subst h; simp
        · simp only [Function.update_noteq h]
          exact hc i' (by omega))
  exact ⟨out, hout, hs, fun i hi => hc i (by omega)⟩

/-- Packing of one voxel: cell `i` of `mindq` receives the code of the twelve
levels of the voxel, the other cells are unchanged. -/
theorem quantisedMIND.packVoxel_spec (mindi : Buf Int) (ti td : Buf Nat) (sz i : Nat)
    (mindq : Buf Nat) (lev : Nat → Int)
    (hmi : mindi.size = sz * 12) (hmd : ∀ j, j < sz * 12 → mindi.data j = some (lev j))
    (hlev : ∀ j, 0 ≤ lev j ∧ lev j ≤ 5)
    (hti : ti.size = 6) (htd : td.size = 12)
    (htiv : ∀ v, v < 6 → ti.data v = some (2 ^ v - 1))
    (htdv : ∀ q, q < 12 → td.data q = some (32 ^ q))
    (hi : i < sz) (hq : mindq.size = sz) :
    ∃ out, quantisedMIND.packVoxel mindi ti td sz i mindq = Except.ok out ∧ out.size = sz ∧
      out.data i = some (quantisedMIND.code fun q => (lev (i + q * sz)).toNat) ∧
      ∀ j, j ≠ i → out.data j = mindq.data j := by
  have h0 := Buf.set_nat mindq i 0 (by omega)
  obtain ⟨out, hout, hs, hv, hfr⟩ := forLoop_inv
    (fun q (t : Buf Nat) => t.size = sz ∧
      t.data i = some (∑ q' in Finset.range q, (2 ^ (lev (i + q' * sz)).toNat - 1) * 32 ^ q') ∧
      ∀ j, j ≠ i → t.data j = mindq.data j)
    (fun q (mindq : Buf Nat) => do
      let cur ← mindq.get i
      let lev ← mindi.get ((i : Int) + q * sz)
      let ti ← ti.get lev
      let td ← td.get q
      mindq.set i (add64 cur (mul64 ti td))) 12 0
    ⟨mindq.size, Function.update mindq.data i (some 0)⟩
    ⟨hq, by simp, fun j hj => by simp [Function.update_noteq hj]⟩
    (by
      rintro q t _ hq12 ⟨hs, hv, hfr⟩
      have hq' : q < 12 := by omega
      have hidx : i + q * sz < sz * 12 := by
        have : q * sz ≤ 11 * sz := Nat.mul_le_mul_right _ (by omega)
        omega
      obtain ⟨l0, l5⟩ := hlev (i + q * sz)
      have e1 := Buf.get_nat t i _ (by omega) hv
      have e2 : mindi.get ((i : Int) + (q : Int) * (sz : Int)) = Except.ok (lev (i + q * sz)) := by
        have := Buf.get_nat mindi (i + q * sz) _ (by omega) (hmd _ hidx)
        push_cast at this
        exact this
      have e3 := Buf.get_int ti (lev (i + q * sz)) _ l0 (by omega)
        (htiv (lev (i + q * sz)).toNat (by omega))
      have e4 := Buf.get_nat td q _ (by omega) (htdv q hq')
      have hcur := digits_lt q (fun q' => 2 ^ (lev (i + q' * sz)).toNat - 1) (by
        intro q' _
        obtain ⟨a0, a5⟩ := hlev (i + q' * sz)
        exact (level_code_fact (lev (i + q' * sz)).toNat (by omega) 0 (by decide)).1)
      have hdig := (level_code_fact (lev (i + q * sz)).toNat (by omega) 0 (by decide)).1
      have hpow : (32 : Nat) ^ q ≤ 32 ^ 11 := Nat.pow_le_pow_right (by decide) (by omega)
      have hprod : (2 ^ (lev (i + q * sz)).toNat - 1) * 32 ^ q ≤ 31 * 32 ^ q :=
        Nat.mul_le_mul_right _ (by omega)
      have hsum : add64 (∑ q' in Finset.range q, (2 ^ (lev (i + q' * sz)).toNat - 1) * 32 ^ q')
          (mul64 (2 ^ (lev (i + q * sz)).toNat - 1) (32 ^ q))
          = (∑ q' in Finset.range q, (2 ^ (lev (i + q' * sz)).toNat - 1) * 32 ^ q')
            + (2 ^ (lev (i + q * sz)).toNat - 1) * 32 ^ q := by
        have key : ∀ S P F : Nat, S < F → P ≤ 31 * F → F ≤ 32 ^ 11 →
            (S + P % 2 ^ 64) % 2 ^ 64 = S + P := by
          intro S P F h1 h2 h3
          norm_num at h3 ⊢
          omega
        exact key _ _ _ hcur hprod hpow
      refine ⟨⟨t.size, Function.update t.data i (some
        (add64 (∑ q' in Finset.range q, (2 ^ (lev (i + q' * sz)).toNat - 1) * 32 ^ q')
          (mul64 (2 ^ (lev (i + q * sz)).toNat - 1) (32 ^ q))))⟩, ?_, hs, ?_, ?_⟩
      · simp only [e1, e2, e3, e4, ok_bind]
        exact Buf.set_nat t i _ (by omega)
      · simp only [Function.update_same, hsum, Finset.sum_range_succ]
      · intro j hj
        simp only [Function.update_noteq hj]
        exact hfr j hj)
  refine ⟨out, ?_, hs, hv, hfr⟩
  unfold quantisedMIND.packVoxel
  simp only [h0, ok_bind]
  exact hout

/-- The packing part of `quantisedMIND` writes, for every voxel, the code of
its twelve quantised entries. -/
theorem quantisedMIND.encode_spec (f : Nat → ℚ) (sz : Nat) (mindq : Buf Nat)
    (hq : mindq.size = sz) :
    ∃ out, quantisedMIND.encode (Buf.ofFn (sz * 12) f) sz mindq = Except.ok out ∧
      out.size = sz ∧ ∀ i, i < sz → out.data i
        = some (quantisedMIND.code fun q => (quantisedMIND.level (f (i + q * sz))).toNat) := by
  obtain ⟨mindi, hmindi, hms, hmd⟩ := quantisedMIND.quantise_spec f (sz * 12)
  obtain ⟨ti, td, htab, hti, htd, htiv, htdv⟩ := quantisedMIND.tables_spec
  obtain ⟨out, hout, hs, hc⟩ := forLoop_inv
    (fun i (t : Buf Nat) => t.size = sz ∧ ∀ i', i' < i → t.data i'
        = some (quantisedMIND.code fun q => (quantisedMIND.level (f (i' + q * sz))).toNat))
    (quantisedMIND.packVoxel mindi ti td sz) sz 0 mindq ⟨hq, fun i' hi' => by omega⟩
    (by
      rintro i t _ hi ⟨hs, hc⟩
      have hi' : i < sz := by omega
      obtain ⟨t', ht', hs', hv', hfr'⟩ := quantisedMIND.packVoxel_spec mindi ti td sz i t
        (fun j => quantisedMIND.level (f j)) hms hmd (fun j => quantisedMIND.level_range _)
        hti htd htiv htdv hi' hs
      refine ⟨t', ht', hs', ?_⟩
      intro i' hi2
      by_cases h : i' = i
      · subst h; exact hv'
      · rw [hfr' i' h]; exact hc i' (by omega))
  refine ⟨out, ?_, hs, fun i hi => hc i (by omega)⟩
  unfold quantisedMIND.encode
  simp only [hmindi, htab, ok_bind]
  exact hout

/-- Claim C8: two descriptors with entries in `{0..5}`, packed by
`quantisedMIND` as the sum of `tablei[a_q]*tabled[q]` with `tablei[v] = 2^v-1`
and `tabled[q] = 32^q`, have codes below `2^60` whose Hamming distance
`popcount_3(code a XOR code b)` is the sum of `|a_q - b_q|` over the twelve
entries; the packing loop of `quantisedMIND` stores exactly this code for the
quantised entries of every voxel, and those entries lie in `{0..5}`. -/
theorem quantisedMIND_hamming (fa fb : Nat → ℚ) (sz : Nat) (qa qb : Buf Nat)
    (hqa : qa.size = sz) (hqb : qb.size = sz) :
    (∀ a b : Nat → Nat, (∀ q, q < 12 → a q ≤ 5) → (∀ q, q < 12 → b q ≤ 5) →
      quantisedMIND.code a < 2 ^ 60 ∧ quantisedMIND.code b < 2 ^ 60 ∧
      ((popcount_3 (quantisedMIND.code a ^^^ quantisedMIND.code b) : Nat) : Int)
        = ∑ q in Finset.range 12, |(a q : Int) - (b q : Int)|) ∧
    ∃ oa ob, quantisedMIND.encode (Buf.ofFn (sz * 12) fa) sz qa = Except.ok oa ∧
      quantisedMIND.encode (Buf.ofFn (sz * 12) fb) sz qb = Except.ok ob ∧
      ∀ i j, i < sz → j < sz →
        (∀ q, (quantisedMIND.level (fa (i + q * sz))).toNat ≤ 5 ∧
          (quantisedMIND.level (fb (j + q * sz))).toNat ≤ 5) ∧
        ∃ ca cb, oa.get (i : Int) = Except.ok ca ∧ ob.get (j : Int) = Except.ok cb ∧
          ca = quantisedMIND.code (fun q => (quantisedMIND.level (fa (i + q * sz))).toNat) ∧
          cb = quantisedMIND.code (fun q => (quantisedMIND.level (fb (j + q * sz))).toNat) ∧
          ca < 2 ^ 60 ∧ cb < 2 ^ 60 ∧
          ((popcount_3 (ca ^^^ cb) : Nat) : Int)
            = ∑ q in Finset.range 12, |(((quantisedMIND.level (fa (i + q * sz))).toNat : Nat) : Int)
                - (((quantisedMIND.level (fb (j + q * sz))).toNat : Nat) : Int)| := by
  refine ⟨fun a b ha hb => code_hamming a b ha hb, ?_⟩
  obtain ⟨oa, hoa, hsa, hca⟩ := quantisedMIND.encode_spec fa sz qa hqa
  obtain ⟨ob, hob, hsb, hcb⟩ := quantisedMIND.encode_spec fb sz qb hqb
  refine ⟨oa, ob, hoa, hob, ?_⟩
  intro i j hi hj
  have hla : ∀ q, (quantisedMIND.level (fa (i + q * sz))).toNat ≤ 5 := by
    intro q
    have := quantisedMIND.level_range (fa (i + q * sz))
    omega
  have hlb : ∀ q, (quantisedMIND.level (fb (j + q * sz))).toNat ≤ 5 := by
    intro q
    have := quantisedMIND.level_range (fb (j + q * sz))
    omega
  obtain ⟨h1, h2, h3⟩ := code_hamming
    (fun q => (quantisedMIND.level (fa (i + q * sz))).toNat)
    (fun q => (quantisedMIND.level (fb (j + q * sz))).toNat)
    (fun q _ => hla q) (fun q _ => hlb q)
  exact ⟨fun q => ⟨hla q, hlb q⟩, _, _, Buf.get_nat oa i _ (by omega) (hca i hi),
    Buf.get_nat ob j _ (by omega) (hcb j hj), rfl, rfl, h1, h2, h3⟩

/-- Witness for claim C8: two one-voxel descriptor volumes. -/
theorem quantisedMIND_hamming_witness :
    (∀ a b : Nat → Nat, (∀ q, q < 12 → a q ≤ 5) → (∀ q, q < 12 → b q ≤ 5) →
      quantisedMIND.code a < 2 ^ 60 ∧ quantisedMIND.code b < 2 ^ 60 ∧
      ((popcount_3 (quantisedMIND.code a ^^^ quantisedMIND.code b) : Nat) : Int)
        = ∑ q in Finset.range 12, |(a q : Int) - (b q : Int)|) ∧
    ∃ oa ob, quantisedMIND.encode (Buf.ofFn (1 * 12) fun i => (i : ℚ) / 12) 1 (Buf.new 1)
        = Except.ok oa ∧
      quantisedMIND.encode (Buf.ofFn (1 * 12) fun _ => 1) 1 (Buf.new 1) = Except.ok ob ∧
      ∀ i j, i < 1 → j < 1 →
        (∀ q, (quantisedMIND.level ((fun i : Nat => (i : ℚ) / 12) (i + q * 1))).toNat ≤ 5 ∧
          (quantisedMIND.level ((fun _ : Nat => (1 : ℚ)) (j + q * 1))).toNat ≤ 5) ∧
        ∃ ca cb, oa.get (i : Int) = Except.ok ca ∧ ob.get (j : Int) = Except.ok cb ∧
          ca = quantisedMIND.code (fun q =>
            (quantisedMIND.level ((fun i : Nat => (i : ℚ) / 12) (i + q * 1))).toNat) ∧
          cb = quantisedMIND.code (fun q =>
            (quantisedMIND.level ((fun _ : Nat => (1 : ℚ)) (j + q * 1))).toNat) ∧
          ca < 2 ^ 60 ∧ cb < 2 ^ 60 ∧
          ((popcount_3 (ca ^^^ cb) : Nat) : Int)
            = ∑ q in Finset.range 12,
              |(((quantisedMIND.level ((fun i : Nat => (i : ℚ) / 12) (i + q * 1))).toNat : Nat) : Int)
                - (((quantisedMIND.level ((fun _ : Nat => (1 : ℚ)) (j + q * 1))).toNat : Nat) : Int)| :=
  quantisedMIND_hamming (fun i => (i : ℚ) / 12) (fun _ => 1) 1 (Buf.new 1) (Buf.new 1) rfl rfl
/-! ## `popcount64` -/

theorem byte_fact5 : ∀ b, b < 256 →
    (b &&& 0x55) + ((b / 2) &&& 0x55) = b - ((b / 2) &&& 0x55) := by decide!

theorem byte_fact6 : ∀ u, u < 256 → ∀ c, c < 16 →
    (u &&& 0x0f) + ((u / 16 + 16 * c) &&& 0x0f) = u % 16 + u / 16 := by decide!

/-- The first and third step of `popcount64`, run on `n` bytes, give the same
values as the corresponding steps of `popcount_3`. -/
theorem pop64_bytes (n : Nat) : ∀ x, x < 256 ^ n →
    (x &&& repByte 0x55 n) + popA n x = x - popA n x ∧
    ((pop2 n (x - popA n x)) &&& repByte 0x0f n)
      + ((pop2 n (x - popA n x) / 16) &&& repByte 0x0f n) = byteMap (bitCount 8) n x := by
  induction n with
  | zero =>
    intro x hx
    have : x = 0 := by simpa using hx
    subst this
    simp [popA, pop2, repByte, byteMap]
  | succ n ih =>
    intro x hx
    have hr : x / 256 < 256 ^ n := by
      rw [Nat.div_lt_iff_lt_mul (by decide)]
      calc x < 256 ^ (n + 1) := hx
        _ = 256 ^ n * 256 := pow_succ _ _
    obtain ⟨ih1, ih3⟩ := ih (x / 256) hr
    obtain ⟨ihA, _, _, _⟩ := pop_bytes n (x / 256) hr
    have hb : x % 256 < 256 := Nat.mod_lt _ (by decide)
    obtain ⟨f1, f2, f3, f4, f5⟩ := byte_fact4 (x % 256) hb
    have hx' : x = x % 256 + 256 * (x / 256) := (Nat.mod_add_div x 256).symm
    have hA := popA_succ n (x % 256) (x / 256) hb
    rw [← hx'] at hA
    have hA0 : ((x % 256 / 2) &&& 0x55) ≤ x % 256 :=
      le_trans Nat.and_le_left (Nat.div_le_self _ _)
    have hy1 : x - popA (n + 1) x
        = (x % 256 - ((x % 256 / 2) &&& 0x55)) + 256 * (x / 256 - popA n (x / 256)) := by
      rw [hA]; omega
    have h2 := pop2_succ n _ (x / 256 - popA n (x / 256)) f1
    rw [← hy1] at h2
    constructor
    · have e1 : x &&& repByte 0x55 (n + 1)
          = ((x % 256) &&& 0x55) + 256 * ((x / 256) &&& repByte 0x55 n) := by
        rw [land_split256]
        have e2 : repByte 0x55 (n + 1) % 256 = 0x55 := by simp only [repByte]; omega
        have e4 : repByte 0x55 (n + 1) / 256 = repByte 0x55 n := by simp only [repByte]; omega
        rw [e2, e4]
      have b5 := byte_fact5 (x % 256) hb
      rw [e1, hy1, hA]
      omega
    · rw [h2]
      generalize ((x % 256 - ((x % 256 / 2) &&& 0x55)) &&& 0x33)
        + (((x % 256 - ((x % 256 / 2) &&& 0x55)) / 4) &&& 0x33) = u at *
      generalize pop2 n (x / 256 - popA n (x / 256)) = w at *
      rw [land_split256 (u + 256 * w), land_split256 ((u + 256 * w) / 16)]
      have e0 : (u + 256 * w) % 256 = u := by omega
      have e0' : (u + 256 * w) / 256 = w := by omega
      have e1 : (u + 256 * w) / 16 % 256 = u / 16 + 16 * (w % 16) := by omega
      have e2 : repByte 0x0f (n + 1) % 256 = 0x0f := by simp only [repByte]; omega
      have e3 : (u + 256 * w) / 16 / 256 = w / 16 := by omega
      have e4 : repByte 0x0f (n + 1) / 256 = repByte 0x0f n := by simp only [repByte]; omega
      have b6 := byte_fact6 u f2 (w % 16) (Nat.mod_lt _ (by decide))
      rw [e0, e0', e1, e2, e3, e4]
      simp only [byteMap]
      rw [← ih3, ← f5]
      omega

/-- The function `popcount64` returns the same value as `popcount_3`. -/
theorem popcount64_eq (x : Nat) (hx : x < 2 ^ 64) : popcount64 x = popcount_3 x := by
  obtain ⟨hA, h2, _, h3⟩ := pop_bytes 8 x (by norm_num at hx ⊢; exact hx)
  obtain ⟨g1, g3⟩ := pop64_bytes 8 x (by norm_num at hx ⊢; exact hx)
  have hr : repByte 68 8 = 4919131752989213764 := by decide
  have hm1 : (0x5555555555555555 : Nat) = repByte 0x55 8 := by decide
  have hm2 : (0x3333333333333333 : Nat) = repByte 0x33 8 := by decide
  have hm4 : (0x0F0F0F0F0F0F0F0F : Nat) = repByte 0x0f 8 := by decide
  have hpop := popcount_3_bitCount x hx
  have hle := bitCount_le 64 x
  have s1 : add64 (x &&& 0x5555555555555555) ((x >>> 1) &&& 0x5555555555555555)
      = x - popA 8 x := by
    have : (x >>> 1) &&& repByte 0x55 8 = popA 8 x := by
      rw [Nat.shiftRight_eq_div_pow]; rfl
    rw [hm1, this, ← g1]
    unfold add64
    apply Nat.mod_eq_of_lt
    rw [g1]
    norm_num at hx ⊢
    omega
  have s1' : sub64 x ((x >>> 1) &&& popcount_3.m1) = x - popA 8 x := by
    have hm : popcount_3.m1 = repByte 0x55 8 := by decide
    have : (x >>> 1) &&& popcount_3.m1 = popA 8 x := by
      rw [hm, Nat.shiftRight_eq_div_pow]; rfl
    rw [this]
    unfold sub64
    norm_num at hx ⊢
    omega
  have e2 : ∀ y, add64 (y &&& 0x3333333333333333) ((y >>> 2) &&& 0x3333333333333333)
      = pop2 8 y % 2 ^ 64 := by
    intro y
    rw [hm2, Nat.shiftRight_eq_div_pow]; rfl
  have e2m : ∀ y, add64 (y &&& popcount_3.m2) ((y >>> 2) &&& popcount_3.m2)
      = pop2 8 y % 2 ^ 64 := by
    intro y
    have hm : popcount_3.m2 = repByte 0x33 8 := by decide
    rw [hm, Nat.shiftRight_eq_div_pow]; rfl
  have e2' : pop2 8 (x - popA 8 x) % 2 ^ 64 = pop2 8 (x - popA 8 x) := by
    apply Nat.mod_eq_of_lt
    rw [hr] at h2
    norm_num
    omega
  have s3 : add64 ((pop2 8 (x - popA 8 x)) &&& 0x0F0F0F0F0F0F0F0F)
      (((pop2 8 (x - popA 8 x)) >>> 4) &&& 0x0F0F0F0F0F0F0F0F)
      = (add64 (pop2 8 (x - popA 8 x)) ((pop2 8 (x - popA 8 x)) >>> 4)) &&& popcount_3.m4 := by
    have hm : popcount_3.m4 = repByte 0x0f 8 := by decide
    have e3' : (pop2 8 (x - popA 8 x) + pop2 8 (x - popA 8 x) / 16) % 2 ^ 64
        = pop2 8 (x - popA 8 x) + pop2 8 (x - popA 8 x) / 16 := by
      apply Nat.mod_eq_of_lt
      rw [hr] at h2
      norm_num
      omega
    have r3 : (add64 (pop2 8 (x - popA 8 x)) ((pop2 8 (x - popA 8 x)) >>> 4))
        &&& popcount_3.m4 = byteMap (bitCount 8) 8 x := by
      rw [hm, ← h3]
      unfold add64 pop3
      rw [Nat.shiftRight_eq_div_pow, e3']
    rw [r3, hm4, Nat.shiftRight_eq_div_pow]
    unfold add64
    have : (2 : Nat) ^ 4 = 16 := by norm_num
    rw [this, g3]
    apply Nat.mod_eq_of_lt
    rw [← h3]
    exact lt_of_le_of_lt Nat.and_le_right (by decide)
  have key : popcount64 x = popcount_3 x % 2 ^ 32 := by
    unfold popcount64 popcount_3
    simp only [s1, s1', e2, e2m, e2', s3]
    rfl
  rw [key, hpop]
  exact Nat.mod_eq_of_lt (by omega)

/-- Claim C22: for every 64-bit word `x`, `popcount_3(x)` (all intermediate
arithmetic taken modulo 2^64) is the number of one bits of `x`, and
`popcount64(x)` returns the same value. -/
theorem popcount_counts_bits (x : Nat) (hx : x < 2 ^ 64) :
    popcount_3 x = bitCount 64 x ∧ popcount64 x = popcount_3 x :=
  ⟨popcount_3_bitCount x hx, popcount64_eq x hx⟩

/-- Instance of claim C22 on the word `0xF0F0F0F0F0F0F0F1`, which has 33 one
bits. -/
theorem popcount_counts_bits_witness :
    (0xF0F0F0F0F0F0F0F1 < 2 ^ 64 ∧ popcount_3 0xF0F0F0F0F0F0F0F1 = 33 ∧
      popcount64 0xF0F0F0F0F0F0F0F1 = 33) ∧
    popcount_3 0xF0F0F0F0F0F0F0F1 = bitCount 64 0xF0F0F0F0F0F0F0F1 ∧
      popcount64 0xF0F0F0F0F0F0F0F1 = popcount_3 0xF0F0F0F0F0F0F0F1 :=
  ⟨⟨by decide, by decide, by decide⟩, popcount_counts_bits 0xF0F0F0F0F0F0F0F1 (by decide)⟩

/-! ## Lower envelope of parabolas -/

theorem parab_diff (F : Nat → ℚ) (off : ℚ) (p p' : Nat) (x : ℚ) :
    parab F off p x - parab F off p' x
      = 2 * ((p' : ℚ) - p) * x
        - ((F p' + ((p' : ℚ) + off) ^ 2) - (F p + ((p : ℚ) + off) ^ 2)) := by
  unfold parab; ring

/-- The later parabola is below the earlier one exactly from their
intersection onwards. -/
theorem cross_le_iff (F : Nat → ℚ) (off : ℚ) (p p' : Nat) (h : p < p') (x : ℚ) :
    cross F off p p' ≤ x ↔ parab F off p' x ≤ parab F off p x := by
  have hpos : (0 : ℚ) < 2 * ((p' : ℚ) - p) := by
    have : (p : ℚ) < p' := by exact_mod_cast h
    linarith
  have hd := parab_diff F off p p' x
  unfold cross
  rw [div_le_iff₀ hpos]
  constructor
  · intro h1; nlinarith
  · intro h1; nlinarith

theorem lt_cross_iff (F : Nat → ℚ) (off : ℚ) (p p' : Nat) (h : p < p') (x : ℚ) :
    x < cross F off p p' ↔ parab F off p x < parab F off p' x := by
  rw [← not_le, ← not_le, cross_le_iff F off p p' h x]

/-- Reading the intersection of the stack entry `i` with the new parabola `q`. -/
theorem dt1sq.inter_eq (val : Buf ℚ) (base k : Nat) (off : ℚ) (v : Buf Int) (F : Nat → ℚ)
    (len q i p : Nat)
    (hval : ∀ t, t < len → val.data (base + t * k) = some (F t) ∧ base + t * k < val.size)
    (hq : q < len) (hp : p < q) (hi : i < v.size) (hv : v.data i = some ((p : Nat) : Int)) :
    dt1sq.inter val base k off v q (i : Int) = Except.ok (cross F off p q) := by
  obtain ⟨hvq, hbq⟩ := hval q hq
  obtain ⟨hvp, hbp⟩ := hval p (by omega)
  have e1 := Buf.get_nat val (base + q * k) _ hbq hvq
  have e2 := Buf.get_nat v i _ hi hv
  have e3 : val.get ((base : Int) + ((p : Nat) : Int) * (k : Int)) = Except.ok (F p) := by
    have := Buf.get_nat val (base + p * k) _ hbp hvp
    push_cast at this
    exact this
  have hne : ¬ ((2 : ℚ) * ((((q : Nat) : Int) - ((p : Nat) : Int) : Int) : ℚ) = 0) := by
    have : (p : ℚ) < q := by exact_mod_cast hp
    push_cast
    intro h0
    linarith
  unfold dt1sq.inter
  simp only [e1, e2, e3, ok_bind]
  rw [if_neg hne]
  unfold cross
  simp only [pure_eq_ok]
  congr 1
  push_cast
  ring

/-- The popping loop of `dt1sq` stops at a stack entry whose boundary lies
strictly left of its intersection with the new parabola; every entry above
it has its intersection at or left of its boundary. -/
theorem dt1sq.pop_spec (val : Buf ℚ) (base k : Nat) (off : ℚ) (v : Buf Int) (z : Buf ℚ)
    (F : Nat → ℚ) (len q J : Nat) (sv : Nat → Nat) (zv : Nat → ℚ)
    (hval : ∀ t, t < len → val.data (base + t * k) = some (F t) ∧ base + t * k < val.size)
    (hq : q < len) (hvs : J < v.size) (hzs : J < z.size)
    (hst : Stored v z J sv zv) (hsv0 : sv 0 = 0) (hsvq : ∀ i, i ≤ J → sv i < q)
    (hz0 : zv 0 = -dt1sq.INF) (hsafe : -dt1sq.INF < cross F off 0 q) :
    ∀ fuel J', J' ≤ J → J' < fuel →
      ∃ J'', J'' ≤ J' ∧
        dt1sq.pop val base k off v z q fuel (J' : Int) (cross F off (sv J') q)
          = Except.ok ((J'' : Int), cross F off (sv J'') q) ∧
        zv J'' < cross F off (sv J'') q ∧
        ∀ i, J'' < i → i ≤ J' → cross F off (sv i) q ≤ zv i := by
  intro fuel
  induction fuel with
  | zero => intro J' _ h; omega
  | succ fuel ih =>
    intro J' hJ' hf
    have ez := Buf.get_nat z J' _ (by omega) (hst.2.1 J' hJ')
    by_cases hle : cross F off (sv J') q ≤ zv J'
    · have hpos : 0 < J' := by
        rcases Nat.eq_zero_or_pos J' with h | h
        · subst h
          rw [hsv0, hz0] at hle
          exact absurd hle (not_le.mpr hsafe)
        · exact h
      have ecast : ((J' : Nat) : Int) - 1 = ((J' - 1 : Nat) : Int) := by omega
      have ei := dt1sq.inter_eq val base k off v F len q (J' - 1) (sv (J' - 1)) hval hq
        (hsvq _ (by omega)) (by omega) (hst.1 _ (by omega))
      obtain ⟨J'', h1, h2, h3, h4⟩ := ih (J' - 1) (by omega) (by omega)
      refine ⟨J'', by omega, ?_, h3, ?_⟩
      · simp only [dt1sq.pop, ez, ok_bind, if_pos hle, ecast, ei]
        exact h2
      · intro i hi1 hi2
        by_cases hi : i = J'
        · subst hi; exact hle
        · exact h4 i hi1 (by omega)
    · refine ⟨J', le_refl _, ?_, not_le.mp hle, fun i h1 h2 => by omega⟩
      simp only [dt1sq.pop, ez, ok_bind, if_neg hle, pure_eq_ok]

/-- Once the stack entries above `J''` have been popped for the new parabola
`q`, every parabola that the old stack dominated is dominated by an entry up
to `J''` or by `q`. -/
theorem popped_dominated (F : Nat → ℚ) (off : ℚ) (q J J'' : Nat) (sv : Nat → Nat)
    (zv : Nat → ℚ) (hsvq : ∀ i, i ≤ J → sv i < q)
    (hinc : ∀ i, i < J → sv i < sv (i + 1))
    (hzv : ∀ i, i < J → zv (i + 1) = cross F off (sv i) (sv (i + 1)))
    (hpop : ∀ i, J'' < i → i ≤ J → cross F off (sv i) q ≤ zv i) (x : ℚ) :
    ∀ i, i ≤ J → (∃ i', i' ≤ J'' ∧ parab F off (sv i') x ≤ parab F off (sv i) x) ∨
      parab F off q x ≤ parab F off (sv i) x := by
  intro i
  induction i with
  | zero =>
    intro _
    exact Or.inl ⟨0, Nat.zero_le _, le_refl _⟩
  | succ i ih =>
    intro hi
    by_cases hin : i + 1 ≤ J''
    · exact Or.inl ⟨i + 1, hin, le_refl _⟩
    · have hc := hpop (i + 1) (by omega) hi
      by_cases hx : cross F off (sv (i + 1)) q ≤ x
      · exact Or.inr ((cross_le_iff F off _ q (hsvq _ hi) x).mp hx)
      · have hx2 : x < cross F off (sv i) (sv (i + 1)) := by
          rw [← hzv i (by omega)]
          exact lt_of_lt_of_le (not_le.mp hx) hc
        have hlt := (lt_cross_iff F off _ _ (hinc i (by omega)) x).mp hx2
        rcases ih (by omega) with ⟨i', h1, h2⟩ | h
        · exact Or.inl ⟨i', h1, le_trans h2 (le_of_lt hlt)⟩
        · exact Or.inr (le_trans h (le_of_lt hlt))

theorem envelope_index_le (F : Nat → ℚ) (off : ℚ) (q J : Nat) (sv : Nat → Nat) (zv : Nat → ℚ)
    (h : IsEnvelope F off q J sv zv) : ∀ i, i ≤ J → i ≤ sv i ∧ sv i < q := by
  obtain ⟨h0, hJ, hinc, _⟩ := h
  have hge : ∀ i, i ≤ J → i ≤ sv i := by
    intro i
    induction i with
    | zero => intro _; omega
    | succ i ih =>
      intro hi
      have := ih (by omega)
      have := hinc i (by omega)
      omega
  have hmono : ∀ d i, i + d ≤ J → sv i ≤ sv (i + d) := by
    intro d
    induction d with
    | zero => intro i _; exact le_refl _
    | succ d ih =>
      intro i hi
      have h1 := ih i (by omega)
      have h2 := hinc (i + d) (by omega)
      have e : i + (d + 1) = i + d + 1 := by omega
      rw [e]; omega
  intro i hi
  refine ⟨hge i hi, ?_⟩
  have := hmono (J - i) i (by omega)
  have e : i + (J - i) = J := by omega
  rw [e] at this
  omega

/-- One iteration of the first loop of `dt1sq` keeps the envelope invariant. -/
theorem dt1sq.push_spec (val : Buf ℚ) (base k : Nat) (off : ℚ) (F : Nat → ℚ) (len q : Nat)
    (e : Envelope) (J : Nat) (sv : Nat → Nat) (zv : Nat → ℚ)
    (hval : ∀ t, t < len → val.data (base + t * k) = some (F t) ∧ base + t * k < val.size)
    (hq1 : 1 ≤ q) (hq : q < len) (hvs : len ≤ e.v.size) (hzs : len + 1 ≤ e.z.size)
    (hj : e.j = (J : Int)) (hst : Stored e.v e.z J sv zv) (henv : IsEnvelope F off q J sv zv)
    (hsafe : DtSafe F off len) :
    ∃ e', ∃ J' : Nat, ∃ sv' zv', dt1sq.push val base k off len q e = Except.ok e' ∧
      e'.v.size = e.v.size ∧ e'.z.size = e.z.size ∧ e'.j = (J' : Int) ∧
      Stored e'.v e'.z J' sv' zv' ∧ IsEnvelope F off (q + 1) J' sv' zv' := by
  have hidx := envelope_index_le F off q J sv zv henv
  obtain ⟨h0, hJ, hinc, hz0, hzv, hzinc, hdom⟩ := henv
  have hJq : J < q := by have := (hidx J (le_refl _)).1; omega
  have hsvq : ∀ i, i ≤ J → sv i < q := fun i hi => (hidx i hi).2
  have ei := dt1sq.inter_eq val base k off e.v F len q J (sv J) hval hq (hsvq J (le_refl _))
    (by omega) (hst.1 J (le_refl _))
  obtain ⟨J'', hJ'', hpop, hstop, hpopped⟩ := dt1sq.pop_spec val base k off e.v e.z F len q J sv zv
    hval hq (by omega) (by omega) hst h0 hsvq hz0 (hsafe.1 q hq1 hq) (len + 1) J (le_refl _)
    (by omega)
  have c1 : ((J'' : Nat) : Int) + 1 = ((J'' + 1 : Nat) : Int) := by push_cast; ring
  have c2 : ((J'' + 1 : Nat) : Int) + 1 = ((J'' + 2 : Nat) : Int) := by push_cast; ring
  have s1 := Buf.set_nat e.v (J'' + 1) ((q : Nat) : Int) (by omega)
  have s2 := Buf.set_nat e.z (J'' + 1) (cross F off (sv J'') q) (by omega)
  have s3 := Buf.set_nat
    (⟨e.z.size, Function.update e.z.data (J'' + 1) (some (cross F off (sv J'') q))⟩ : Buf ℚ)
    (J'' + 2) dt1sq.INF (by simp only; omega)
  refine ⟨⟨((J'' + 1 : Nat) : Int), ⟨e.v.size, Function.update e.v.data (J'' + 1) (some ((q : Nat) : Int))⟩,
    ⟨e.z.size, Function.update (Function.update e.z.data (J'' + 1)
      (some (cross F off (sv J'') q))) (J'' + 2) (some dt1sq.INF)⟩⟩, J'' + 1,
    Function.update sv (J'' + 1) q, Function.update zv (J'' + 1) (cross F off (sv J'') q),
    ?_, rfl, rfl, rfl, ?_, ?_⟩
  · unfold dt1sq.push
    rw [hj]
    simp only [ei, ok_bind, hpop, c1, c2, s1, s2, s3, pure_eq_ok]
  · refine ⟨?_, ?_, ?_⟩
    · intro i hi
      by_cases h : i = J'' + 1
      · subst h; simp
      · simp only [Function.update_noteq h]
        exact hst.1 i (by omega)
    · intro i hi
      have hne2 : i ≠ J'' + 2 := by omega
      simp only [Function.update_noteq hne2]
      by_cases h : i = J'' + 1
      · subst h; simp
      · simp only [Function.update_noteq h]
        exact hst.2.1 i (by omega)
    · show Function.update (Function.update e.z.data (J'' + 1)
        (some (cross F off (sv J'') q))) (J'' + 2) (some dt1sq.INF) (J'' + 2) = some dt1sq.INF
      exact Function.update_same _ _ _
  · have hnz : ∀ i, i ≤ J'' → Function.update sv (J'' + 1) q i = sv i := by
      intro i hi
      exact Function.update_noteq (by omega) _ _
    have hnzz : ∀ i, i ≤ J'' → Function.update zv (J'' + 1) (cross F off (sv J'') q) i = zv i := by
      intro i hi
      exact Function.update_noteq (by omega) _ _
    refine ⟨?_, ?_, ?_, ?_, ?_, ?_, ?_⟩
    · rw [hnz 0 (by omega)]; exact h0
    · rw [Function.update_same]
    · intro i hi
      by_cases h : i = J''
      · subst h
        rw [hnz i (le_refl _)]
        simp only [Function.update_same]
        exact hsvq i (by omega)
      · rw [hnz i (by omega), hnz (i + 1) (by omega)]
        exact hinc i (by omega)
    · rw [hnzz 0 (by omega)]; exact hz0
    · intro i hi
      by_cases h : i = J''
      · subst h
        rw [hnz i (le_refl _)]
        simp only [Function.update_same]
      · rw [hnzz (i + 1) (by omega), hnz i (by omega), hnz (i + 1) (by omega)]
        exact hzv i (by omega)
    · intro i hi
      by_cases h : i = J''
      · subst h
        rw [hnzz i (le_refl _)]
        simp only [Function.update_same]
        exact hstop
      · rw [hnzz i (by omega), hnzz (i + 1) (by omega)]
        exact hzinc i (by omega)
    · intro p hp x
      by_cases hpq : p = q
      · subst hpq
        exact ⟨J'' + 1, le_refl _, by simp⟩
      · obtain ⟨i, hi, hle⟩ := hdom p (by omega) x
        rcases popped_dominated F off q J J'' sv zv hsvq hinc hzv
          (fun t h1 h2 => hpopped t h1 h2) x i hi with ⟨i', h1, h2⟩ | h
        · exact ⟨i', by omega, by rw [hnz i' h1]; exact le_trans h2 hle⟩
        · exact ⟨J'' + 1, le_refl _, by simp only [Function.update_same]; exact le_trans h hle⟩

/-- The first loop of `dt1sq` builds the lower envelope of all `len` parabolas. -/
theorem dt1sq.build_spec (val : Buf ℚ) (base k : Nat) (off : ℚ) (F : Nat → ℚ) (len : Nat)
    (v : Buf Int) (z : Buf ℚ)
    (hval : ∀ t, t < len → val.data (base + t * k) = some (F t) ∧ base + t * k < val.size)
    (hlen : 1 ≤ len) (hvs : len ≤ v.size) (hzs : len + 1 ≤ z.size)
    (hv0 : v.data 0 = some 0) (hz0 : z.data 0 = some (-dt1sq.INF))
    (hz1 : z.data 1 = some dt1sq.INF) (hsafe : DtSafe F off len) :
    ∃ e, ∃ J : Nat, ∃ sv zv,
      forLoop (dt1sq.push val base k off len) 1 (len - 1) ⟨0, v, z⟩ = Except.ok e ∧
      e.v.size = v.size ∧ e.z.size = z.size ∧ e.j = (J : Int) ∧
      Stored e.v e.z J sv zv ∧ IsEnvelope F off len J sv zv := by
  obtain ⟨e, he, hs1, hs2, J, sv, zv, hj, hst, henv⟩ := forLoop_inv
    (fun q (e : Envelope) => e.v.size = v.size ∧ e.z.size = z.size ∧
      ∃ J : Nat, ∃ sv zv, e.j = (J : Int) ∧ Stored e.v e.z J sv zv ∧ IsEnvelope F off q J sv zv)
    (dt1sq.push val base k off len) (len - 1) 1 ⟨0, v, z⟩
    ⟨rfl, rfl, 0, fun _ => 0, fun _ => -dt1sq.INF, rfl,
      ⟨fun i hi => by
          have : i = 0 := by omega
          subst this; simpa using hv0,
        fun i hi => by
          have : i = 0 := by omega
          subst this; exact hz0, hz1⟩,
      ⟨rfl, rfl, fun i hi => by omega, rfl, fun i hi => by omega, fun i hi => by omega,
        fun p hp x => ⟨0, le_refl _, by
          have : p = 0 := by omega
          subst this; exact le_refl _⟩⟩⟩
    (by
      rintro q e hq1 hq2 ⟨hs1, hs2, J, sv, zv, hj, hst, henv⟩
      obtain ⟨e', J', sv', zv', h1, h2, h3, h4, h5, h6⟩ := dt1sq.push_spec val base k off F len q
        e J sv zv hval hq1 (by omega) (by omega) (by omega) hj hst henv hsafe
      exact ⟨e', h1, by omega, by omega, J', sv', zv', h4, h5, h6⟩)
  have hcnt : 1 + (len - 1) = len := by omega
  rw [hcnt] at henv
  exact ⟨e, J, sv, zv, he, hs1, hs2, hj, hst, henv⟩

theorem le_cross_iff (F : Nat → ℚ) (off : ℚ) (p p' : Nat) (h : p < p') (x : ℚ) :
    x ≤ cross F off p p' ↔ parab F off p x ≤ parab F off p' x := by
  have hpos : (0 : ℚ) < 2 * ((p' : ℚ) - p) := by
    have : (p : ℚ) < p' := by exact_mod_cast h
    linarith
  have hd := parab_diff F off p p' x
  unfold cross
  rw [le_div_iff₀ hpos]
  constructor
  · intro h1; nlinarith
  · intro h1; nlinarith

/-- Inside its interval of the envelope a stack parabola is the lowest of all
parabolas. -/
theorem envelope_min (F : Nat → ℚ) (off : ℚ) (len J : Nat) (sv : Nat → Nat) (zv : Nat → ℚ)
    (henv : IsEnvelope F off len J sv zv) (a : Nat) (ha : a ≤ J) (x : ℚ)
    (hlow : a = 0 ∨ zv a < x) (hhigh : a = J ∨ x ≤ zv (a + 1)) :
    ∀ p, p < len → parab F off (sv a) x ≤ parab F off p x := by
  obtain ⟨h0, hJ, hinc, hz0, hzv, hzinc, hdom⟩ := henv
  have hzmono : ∀ d i, i + d ≤ J → zv i ≤ zv (i + d) := by
    intro d
    induction d with
    | zero => intro i _; exact le_refl _
    | succ d ih =>
      intro i hi
      have h1 := ih i (by omega)
      have h2 := hzinc (i + d) (by omega)
      have e : i + (d + 1) = i + d + 1 := by omega
      rw [e]
      exact le_trans h1 (le_of_lt h2)
  have hup : ∀ d, a + d ≤ J → parab F off (sv a) x ≤ parab F off (sv (a + d)) x := by
    intro d
    induction d with
    | zero => intro _; exact le_refl _
    | succ d ih =>
      intro hd
      have h1 := ih (by omega)
      have hx : x ≤ zv (a + 1) := by
        rcases hhigh with h | h
        · omega
        · exact h
      have hx2 : x ≤ zv (a + d + 1) := by
        have := hzmono d (a + 1) (by omega)
        have e : a + 1 + d = a + d + 1 := by omega
        rw [e] at this
        exact le_trans hx this
      rw [hzv (a + d) (by omega)] at hx2
      have h2 := (le_cross_iff F off _ _ (hinc (a + d) (by omega)) x).mp hx2
      have e : a + (d + 1) = a + d + 1 := by omega
      rw [e]
      exact le_trans h1 h2
  have hdown : ∀ d, d ≤ a → parab F off (sv a) x ≤ parab F off (sv (a - d)) x := by
    intro d
    induction d with
    | zero => intro _; exact le_refl _
    | succ d ih =>
      intro hd
      have h1 := ih (by omega)
      have hx : zv a < x := by
        rcases hlow with h | h
        · omega
        · exact h
      have hx2 : zv (a - d) < x := by
        have := hzmono d (a - d) (by omega)
        have e : a - d + d = a := by omega
        rw [e] at this
        exact lt_of_le_of_lt this hx
      have e1 : a - d = (a - (d + 1)) + 1 := by omega
      rw [e1, hzv (a - (d + 1)) (by omega)] at hx2
      have h2 := (cross_le_iff F off _ _ (hinc (a - (d + 1)) (by omega)) x).mp (le_of_lt hx2)
      rw [← e1] at h2
      exact le_trans h1 h2
  intro p hp
  obtain ⟨i, hi, hle⟩ := hdom p hp x
  rcases le_total a i with h | h
  · have := hup (i - a) (by omega)
    have e : a + (i - a) = i := by omega
    rw [e] at this
    exact le_trans this hle
  · have := hdown (a - i) (by omega)
    have e : a - (a - i) = i := by omega
    rw [e] at this
    exact le_trans this hle

/-- The scanning loop of `dt1sq` advances to the envelope interval that
contains `q` and never passes the top of the stack. -/
theorem dt1sq.scan_spec (z : Buf ℚ) (J : Nat) (zv : Nat → ℚ) (q : Nat)
    (hst : ∀ i, i ≤ J → z.data i = some (zv i)) (htop : z.data (J + 1) = some dt1sq.INF)
    (hzs : J + 1 < z.size) (hq : (q : ℚ) ≤ dt1sq.INF) :
    ∀ fuel a, a ≤ J → J - a < fuel →
      ∃ a', a ≤ a' ∧ a' ≤ J ∧ dt1sq.scan z q fuel (a : Int) = Except.ok (a' : Int) ∧
        (a' = J ∨ (q : ℚ) ≤ zv (a' + 1)) ∧ ∀ i, a < i → i ≤ a' → zv i < (q : ℚ) := by
  intro fuel
  induction fuel with
  | zero => intro a _ h; omega
  | succ fuel ih =>
    intro a ha hf
    have c1 : ((a : Nat) : Int) + 1 = ((a + 1 : Nat) : Int) := by push_cast; ring
    by_cases haJ : a = J
    · subst haJ
      have ez := Buf.get_nat z (a + 1) _ hzs htop
      refine ⟨a, le_refl _, le_refl _, ?_, Or.inl rfl, fun i h1 h2 => by omega⟩
      simp only [dt1sq.scan, c1, ez, ok_bind, if_neg (not_lt.mpr hq), pure_eq_ok]
    · have ez := Buf.get_nat z (a + 1) _ (by omega) (hst (a + 1) (by omega))
      by_cases hlt : zv (a + 1) < (q : ℚ)
      · obtain ⟨a', h1, h2, h3, h4, h5⟩ := ih (a + 1) (by omega) (by omega)
        refine ⟨a', by omega, h2, ?_, h4, ?_⟩
        · simp only [dt1sq.scan, c1, ez, ok_bind, if_pos hlt]
          exact h3
        · intro i hi1 hi2
          by_cases hi : i = a + 1
          · subst hi; exact hlt
          · exact h5 i (by omega) hi2
      · refine ⟨a, le_refl _, ha, ?_, Or.inr (not_lt.mp hlt), fun i h1 h2 => by omega⟩
        simp only [dt1sq.scan, c1, ez, ok_bind, if_neg hlt, pure_eq_ok]

/-- The copy loop of `dt1sq` saves the strided input values and indices. -/
theorem dt1sq.copy_spec (val : Buf ℚ) (ind : Buf Int) (base k len : Nat) (F : Nat → ℚ)
    (G : Nat → Int) (f : Buf ℚ) (ind1 : Buf Int)
    (hval : ∀ t, t < len → val.data (base + t * k) = some (F t) ∧ base + t * k < val.size)
    (hind : ∀ t, t < len → ind.data (base + t * k) = some (G t) ∧ base + t * k < ind.size)
    (hf : len ≤ f.size) (hi1 : len ≤ ind1.size) :
    ∃ p, forLoop (dt1sq.copy val ind base k) 0 len (f, ind1) = Except.ok p ∧
      p.1.size = f.size ∧ p.2.size = ind1.size ∧
      ∀ t, t < len → p.1.data t = some (F t) ∧ p.2.data t = some (G t) := by
  obtain ⟨p, hp, h1, h2, h3⟩ := forLoop_inv
    (fun q (p : Buf ℚ × Buf Int) => p.1.size = f.size ∧ p.2.size = ind1.size ∧
      ∀ t, t < q → p.1.data t = some (F t) ∧ p.2.data t = some (G t))
    (dt1sq.copy val ind base k) len 0 (f, ind1) ⟨rfl, rfl, fun t ht => by omega⟩
    (by
      rintro q p _ hq ⟨h1, h2, h3⟩
      have hq' : q < len := by omega
      obtain ⟨a1, a2⟩ := hval q hq'
      obtain ⟨b1, b2⟩ := hind q hq'
      have e1 := Buf.get_nat val (base + q * k) _ a2 a1
      have e2 := Buf.get_nat ind (base + q * k) _ b2 b1
      have s1 := Buf.set_nat p.1 q (F q) (by omega)
      have s2 := Buf.set_nat p.2 q (G q) (by omega)
      refine ⟨(⟨p.1.size, Function.update p.1.data q (some (F q))⟩,
        ⟨p.2.size, Function.update p.2.data q (some (G q))⟩), ?_, h1, h2, ?_⟩
      · simp only [dt1sq.copy, e1, e2, s1, s2, ok_bind, pure_eq_ok]
      · intro t ht
        by_cases h : t = q
        · subst h; simp
        · simp only [Function.update_noteq h]
          exact h3 t (by omega))
  exact ⟨p, hp, h1, h2, fun t ht => h3 t (by omega)⟩

theorem stride_ne (base k q q' : Nat) (hk : 1 ≤ k) (h : q ≠ q') :
    base + q * k ≠ base + q' * k := by
  intro he
  have h1 : q * k = q' * k := by omega
  exact h (Nat.eq_of_mul_eq_mul_right (by omega) h1)

/-- One iteration of the last loop of `dt1sq`: the output cell `q` receives
the minimum over all parabolas and the index of a minimiser. -/
theorem dt1sq.emit_spec (base k : Nat) (off : ℚ) (len : Nat) (v : Buf Int) (z f : Buf ℚ)
    (ind1 : Buf Int) (F : Nat → ℚ) (G : Nat → Int) (J : Nat) (sv : Nat → Nat) (zv : Nat → ℚ)
    (q a : Nat) (o : DtOut)
    (hst : Stored v z J sv zv) (henv : IsEnvelope F off len J sv zv)
    (hvs : len ≤ v.size) (hzs : len + 1 ≤ z.size) (hfs : len ≤ f.size) (his : len ≤ ind1.size)
    (hcp : ∀ t, t < len → f.data t = some (F t) ∧ ind1.data t = some (G t))
    (hq : q < len) (hsafe : DtSafe F off len)
    (hbv : base + q * k < o.val.size) (hbi : base + q * k < o.ind.size)
    (hj : o.j = (a : Int)) (ha : a ≤ J) (hlow : a = 0 ∨ zv a < (q : ℚ)) :
    ∃ a' p, a' ≤ J ∧ (a' = 0 ∨ zv a' < ((q + 1 : Nat) : ℚ)) ∧ p < len ∧
      (∀ p', p' < len → parab F off p q ≤ parab F off p' q) ∧
      dt1sq.emit base k off len v z f ind1 q o = Except.ok
        ⟨(a' : Int), ⟨o.val.size, Function.update o.val.data (base + q * k)
            (some (parab F off p q))⟩,
          ⟨o.ind.size, Function.update o.ind.data (base + q * k) (some (G p))⟩⟩ := by
  have hidx := envelope_index_le F off len J sv zv henv
  have hJ : J < len := by have := (hidx J (le_refl _)).1; have := (hidx J (le_refl _)).2; omega
  have hqINF : (q : ℚ) ≤ dt1sq.INF := by
    have h1 := hsafe.2
    have h2 : (q : ℚ) + 1 ≤ (len : ℚ) := by exact_mod_cast hq
    linarith
  obtain ⟨a', h1, h2, h3, h4, h5⟩ := dt1sq.scan_spec z J zv q hst.2.1 hst.2.2 (by omega) hqINF
    (len + 1) a ha (by omega)
  have hlow' : a' = 0 ∨ zv a' < (q : ℚ) := by
    by_cases h : a' = a
    · rw [h]; exact hlow
    · exact Or.inr (h5 a' (by omega) (le_refl _))
  have hmin := envelope_min F off len J sv zv henv a' h2 q hlow' h4
  obtain ⟨_, hplen⟩ := hidx a' h2
  have ev := Buf.get_nat v a' _ (by omega) (hst.1 a' h2)
  have ei := Buf.get_nat ind1 (sv a') _ (by omega) (hcp (sv a') hplen).2
  have ef := Buf.get_nat f (sv a') _ (by omega) (hcp (sv a') hplen).1
  have s1 := Buf.set_nat o.ind (base + q * k) (G (sv a')) hbi
  have s2 := Buf.set_nat o.val (base + q * k)
    (((q : ℚ) - ((((sv a' : Nat) : Int) : ℚ) + off)) ^ 2 + F (sv a')) hbv
  refine ⟨a', sv a', h2, ?_, hplen, hmin, ?_⟩
  · rcases hlow' with h | h
    · exact Or.inl h
    · right
      push_cast
      linarith
  · unfold dt1sq.emit
    rw [hj]
    simp only [h3, ev, ei, ef, s1, s2, ok_bind, pure_eq_ok]
    have e : ((q : ℚ) - ((((sv a' : Nat) : Int) : ℚ) + off)) ^ 2 + F (sv a')
        = parab F off (sv a') q := by
      unfold parab
      push_cast
      ring
    rw [e]

/-- Specification of `dt1sq`: every output cell `q` holds the minimum over
the input positions `p` of `F p + (q - p - offset)^2` and the index stored
with a minimising `p`; all other cells of `val` and `ind` are unchanged and
the run does not fail. -/
theorem dt1sq_spec (base len : Nat) (off : ℚ) (k : Nat) (st : DtState) (F : Nat → ℚ)
    (G : Nat → Int) (hk : 1 ≤ k) (hlen : 1 ≤ len)
    (hval : ∀ t, t < len → st.val.data (base + t * k) = some (F t) ∧ base + t * k < st.val.size)
    (hind : ∀ t, t < len → st.ind.data (base + t * k) = some (G t) ∧ base + t * k < st.ind.size)
    (hvs : len ≤ st.v.size) (hzs : len + 1 ≤ st.z.size) (hfs : len ≤ st.f.size)
    (his : len ≤ st.ind1.size) (hsafe : DtSafe F off len) :
    ∃ st', dt1sq base len off k st = Except.ok st' ∧
      st'.val.size = st.val.size ∧ st'.ind.size = st.ind.size ∧ st'.v.size = st.v.size ∧
      st'.z.size = st.z.size ∧ st'.f.size = st.f.size ∧ st'.ind1.size = st.ind1.size ∧
      (∀ q, q < len → ∃ p, p < len ∧
        st'.val.data (base + q * k) = some (parab F off p q) ∧
        st'.ind.data (base + q * k) = some (G p) ∧
        ∀ p', p' < len → parab F off p q ≤ parab F off p' q) ∧
      (∀ c, (∀ q, q < len → c ≠ base + q * k) →
        st'.val.data c = st.val.data c ∧ st'.ind.data c = st.ind.data c) := by
  have z0 := Buf.set_nat st.z 0 (-dt1sq.INF) (by omega)
  have z1 := Buf.set_nat (⟨st.z.size, Function.update st.z.data 0 (some (-dt1sq.INF))⟩ : Buf ℚ)
    1 dt1sq.INF (by simp only; omega)
  have v0 := Buf.set_nat st.v 0 (0 : Int) (by omega)
  simp only [Nat.cast_zero, Nat.cast_one] at z0 z1 v0
  obtain ⟨e, J, sv, zv, he, hev, hez, hej, hst, henv⟩ := dt1sq.build_spec st.val base k off F len
    ⟨st.v.size, Function.update st.v.data 0 (some 0)⟩
    ⟨st.z.size, Function.update (Function.update st.z.data 0 (some (-dt1sq.INF))) 1
      (some dt1sq.INF)⟩
    hval hlen hvs hzs (by simp) (by simp) (by simp) hsafe
  simp only at hev hez
  obtain ⟨p, hp, hp1, hp2, hcp⟩ := dt1sq.copy_spec st.val st.ind base k len F G st.f st.ind1
    hval hind hfs his
  obtain ⟨o, ho, hos1, hos2, a, hoj, haJ, halow, hout, hframe⟩ := forLoop_inv
    (fun q (o : DtOut) => o.val.size = st.val.size ∧ o.ind.size = st.ind.size ∧
      ∃ a : Nat, o.j = (a : Int) ∧ a ≤ J ∧ (a = 0 ∨ zv a < (q : ℚ)) ∧
      (∀ q', q' < q → ∃ p, p < len ∧
        o.val.data (base + q' * k) = some (parab F off p q') ∧
        o.ind.data (base + q' * k) = some (G p) ∧
        ∀ p', p' < len → parab F off p q' ≤ parab F off p' q') ∧
      (∀ c, (∀ q', q' < q → c ≠ base + q' * k) →
        o.val.data c = st.val.data c ∧ o.ind.data c = st.ind.data c))
    (dt1sq.emit base k off len e.v e.z p.1 p.2) len 0 ⟨0, st.val, st.ind⟩
    ⟨rfl, rfl, 0, rfl, Nat.zero_le _, Or.inl rfl, fun q' h => by omega, fun c _ => ⟨rfl, rfl⟩⟩
    (by
      rintro q o _ hq ⟨hos1, hos2, a, hoj, haJ, halow, hout, hframe⟩
      have hq' : q < len := by omega
      obtain ⟨a', pm, h1, h2, h3, h4, h5⟩ := dt1sq.emit_spec base k off len e.v e.z p.1 p.2 F G
        J sv zv q a o hst henv (by omega) (by omega) (by omega) (by omega) hcp hq' hsafe
        (by have := (hval q hq').2; omega) (by have := (hind q hq').2; omega) hoj haJ halow
      refine ⟨_, h5, hos1, hos2, a', rfl, h1, ?_, ?_, ?_⟩
      · simpa using h2
      · intro q' hq2
        by_cases h : q' = q
        · subst h
          exact ⟨pm, h3, by simp, by simp, h4⟩
        · have hne := stride_ne base k q' q hk h
          obtain ⟨p0, g1, g2, g3, g4⟩ := hout q' (by omega)
          exact ⟨p0, g1, by simp only [Function.update_noteq hne]; exact g2,
            by simp only [Function.update_noteq hne]; exact g3, g4⟩
      · intro c hc
        have hne : c ≠ base + q * k := hc q (by omega)
        simp only [Function.update_noteq hne]
        exact hframe c (fun q' hq2 => hc q' (by omega)))
  refine ⟨⟨o.val, o.ind, e.v, e.z, p.1, p.2⟩, ?_, hos1, hos2, hev, hez, hp1, hp2, ?_, ?_⟩
  · unfold dt1sq
    simp only [z0, z1, v0, ok_bind, he, hp, ho, pure_eq_ok]
  · intro q hq
    exact hout q (by omega)
  · intro c hc
    exact hframe c (fun q' hq2 => hc q' (by omega))

/-- Invariant rule for the two-deep loop nest. -/
theorem doubleLoop_inv {σ : Type} (Inv : Nat → Nat → σ → Prop) (na nb : Nat)
    (body : Nat → Nat → σ → Except Err σ) (s : σ) (h0 : Inv 0 0 s)
    (hstep : ∀ a b t, a < na → b < nb → Inv a b t →
      ∃ t', body a b t = Except.ok t' ∧ Inv a (b + 1) t')
    (hb : ∀ a t, a < na → Inv a nb t → Inv (a + 1) 0 t) :
    ∃ s', doubleLoop na nb body s = Except.ok s' ∧ Inv na 0 s' := by
  have := forLoop_inv (fun a t => Inv a 0 t) _ na 0 s h0 (by
    intro a t _ ha hI
    have ha' : a < na := by omega
    obtain ⟨t1, ht1, hI1⟩ := forLoop_inv (fun b t => Inv a b t)
      (fun b s => body a b s) nb 0 t hI (by
        intro b u _ hb0 hJ
        exact hstep a b u ha' (by omega) hJ)
    refine ⟨t1, ht1, ?_⟩
    simp only [Nat.zero_add] at hI1
    exact hb a t1 ha' hI1)
  simpa [doubleLoop] using this

/-- One pass of `dt3x`: `dt1sq` run on every line of the cube along one axis
replaces each line by its one-dimensional distance transform. -/
theorem dt_pass (rl N : Nat) (cell : Nat → Nat → Nat → Nat) (line : Nat → Nat → Nat)
    (k : Nat) (off : ℚ) (hk : 1 ≤ k)
    (hcell : ∀ a b t, cell a b t = line a b + t * k)
    (hinj : ∀ a b t a' b' t', a < rl → b < rl → t < rl → a' < rl → b' < rl → t' < rl →
      cell a b t = cell a' b' t' → a = a' ∧ b = b' ∧ t = t')
    (hlt : ∀ a b t, a < rl → b < rl → t < rl → cell a b t < N)
    (st : DtState) (R : Nat → Nat → Nat → ℚ) (I : Nat → Nat → Nat → Int)
    (hsv : st.val.size = N) (hsi : st.ind.size = N)
    (hvs : rl ≤ st.v.size) (hzs : rl + 1 ≤ st.z.size) (hfs : rl ≤ st.f.size)
    (his : rl ≤ st.ind1.size)
    (hpre : ∀ a b t, a < rl → b < rl → t < rl →
      st.val.data (cell a b t) = some (R a b t) ∧ st.ind.data (cell a b t) = some (I a b t))
    (hsafe : ∀ a b, a < rl → b < rl → DtSafe (R a b) off rl) :
    ∃ st', doubleLoop rl rl (fun a b st => dt1sq (line a b) rl off k st) st = Except.ok st' ∧
      st'.val.size = N ∧ st'.ind.size = N ∧ rl ≤ st'.v.size ∧ rl + 1 ≤ st'.z.size ∧
      rl ≤ st'.f.size ∧ rl ≤ st'.ind1.size ∧
      ∀ a b t, a < rl → b < rl → t < rl → ∃ p, p < rl ∧
        st'.val.data (cell a b t) = some (parab (R a b) off p t) ∧
        st'.ind.data (cell a b t) = some (I a b p) ∧
        ∀ p', p' < rl → parab (R a b) off p t ≤ parab (R a b) off p' t := by
  obtain ⟨st', hst', h1, h2, h3, h4, h5, h6, hdone, _⟩ := doubleLoop_inv
    (fun a b (s : DtState) => s.val.size = N ∧ s.ind.size = N ∧ rl ≤ s.v.size ∧
      rl + 1 ≤ s.z.size ∧ rl ≤ s.f.size ∧ rl ≤ s.ind1.size ∧
      (∀ a' b' t, a' < rl → b' < rl → t < rl → (a' < a ∨ (a' = a ∧ b' < b)) → ∃ p, p < rl ∧
        s.val.data (cell a' b' t) = some (parab (R a' b') off p t) ∧
        s.ind.data (cell a' b' t) = some (I a' b' p) ∧
        ∀ p', p' < rl → parab (R a' b') off p t ≤ parab (R a' b') off p' t) ∧
      (∀ a' b' t, a' < rl → b' < rl → t < rl → ¬ (a' < a ∨ (a' = a ∧ b' < b)) →
        s.val.data (cell a' b' t) = some (R a' b' t) ∧
        s.ind.data (cell a' b' t) = some (I a' b' t)))
    rl rl (fun a b st => dt1sq (line a b) rl off k st) st
    ⟨hsv, hsi, hvs, hzs, hfs, his, fun a' b' t _ _ _ h => by omega,
      fun a' b' t ha hb ht _ => hpre a' b' t ha hb ht⟩
    (by
      rintro a b s ha hb ⟨h1, h2, h3, h4, h5, h6, hdone, htodo⟩
      obtain ⟨s', hs', g1, g2, g3, g4, g5, g6, gout, gframe⟩ := dt1sq_spec (line a b) rl off k s
        (R a b) (I a b) hk (by omega)
        (fun t ht => by
          have := htodo a b t ha hb ht (by omega)
          rw [hcell] at this
          have hl := hlt a b t ha hb ht
          rw [hcell] at hl
          exact ⟨this.1, by omega⟩)
        (fun t ht => by
          have := htodo a b t ha hb ht (by omega)
          rw [hcell] at this
          have hl := hlt a b t ha hb ht
          rw [hcell] at hl
          exact ⟨this.2, by omega⟩)
        h3 h4 h5 h6 (hsafe a b ha hb)
      have hother : ∀ a' b' t, a' < rl → b' < rl → t < rl → ¬ (a' = a ∧ b' = b) →
          s'.val.data (cell a' b' t) = s.val.data (cell a' b' t) ∧
          s'.ind.data (cell a' b' t) = s.ind.data (cell a' b' t) := by
        intro a' b' t ha' hb' ht hne
        apply gframe
        intro q hq heq
        rw [← hcell] at heq
        obtain ⟨e1, e2, _⟩ := hinj a' b' t a b q ha' hb' ht ha hb hq heq
        exact hne ⟨e1, e2⟩
      refine ⟨s', hs', by omega, by omega, by omega, by omega, by omega, by omega, ?_, ?_⟩
      · intro a' b' t ha' hb' ht hbef
        by_cases hcur : a' = a ∧ b' = b
        · obtain ⟨rfl, rfl⟩ := hcur
          obtain ⟨p, p1, p2, p3, p4⟩ := gout t ht
          rw [← hcell] at p2 p3
          exact ⟨p, p1, p2, p3, p4⟩
        · obtain ⟨o1, o2⟩ := hother a' b' t ha' hb' ht hcur
          obtain ⟨p, p1, p2, p3, p4⟩ := hdone a' b' t ha' hb' ht (by omega)
          exact ⟨p, p1, by rw [o1]; exact p2, by rw [o2]; exact p3, p4⟩
      · intro a' b' t ha' hb' ht hnb
        obtain ⟨o1, o2⟩ := hother a' b' t ha' hb' ht (by omega)
        rw [o1, o2]
        exact htodo a' b' t ha' hb' ht (by omega))
    (by
      rintro a s ha ⟨h1, h2, h3, h4, h5, h6, hdone, htodo⟩
      exact ⟨h1, h2, h3, h4, h5, h6,
        fun a' b' t ha' hb' ht h => hdone a' b' t ha' hb' ht (by omega),
        fun a' b' t ha' hb' ht h => htodo a' b' t ha' hb' ht (by omega)⟩)
  exact ⟨st', hst', h1, h2, h3, h4, h5, h6,
    fun a b t ha hb ht => hdone a b t ha hb ht (by omega)⟩

/-- Bounded costs and a bounded offset keep every intersection right of the
sentinel `-INF`. -/
theorem dtSafe_of_bound (F : Nat → ℚ) (off : ℚ) (len : Nat) (Bl Bu D : ℚ)
    (hF : ∀ t, t < len → -Bl ≤ F t ∧ F t ≤ Bu) (hoff : |off| ≤ D)
    (hB : 0 ≤ Bl + Bu) (hlim : (Bl + Bu) / 2 + D ≤ dt1sq.INF)
    (hlen : (len : ℚ) ≤ dt1sq.INF + 1) : DtSafe F off len := by
  refine ⟨?_, hlen⟩
  intro q hq1 hq
  obtain ⟨a1, _⟩ := hF q hq
  obtain ⟨_, a2⟩ := hF 0 (by omega)
  have hqpos : (1 : ℚ) ≤ (q : ℚ) := by exact_mod_cast hq1
  have hoff' := abs_le.mp hoff
  unfold cross
  have hden : (0 : ℚ) < 2 * ((q : ℚ) - ((0 : Nat) : ℚ)) := by push_cast; linarith
  rw [lt_div_iff₀ hden]
  push_cast
  nlinarith [hoff'.1, hoff'.2, mul_nonneg (sub_nonneg.mpr hqpos) hB]

theorem parab_bounds (F : Nat → ℚ) (off : ℚ) (len : Nat) (Bl Bu D : ℚ)
    (hF : ∀ t, t < len → -Bl ≤ F t ∧ F t ≤ Bu) (hoff : |off| ≤ D) (p t : Nat)
    (hp : p < len) (ht : t < len)
    (hmin : ∀ p', p' < len → parab F off p t ≤ parab F off p' t) :
    -Bl ≤ parab F off p t ∧ parab F off p t ≤ Bu + D ^ 2 := by
  constructor
  · have := (hF p hp).1
    unfold parab
    nlinarith [sq_nonneg ((t : ℚ) - ((p : ℚ) + off))]
  · have h1 := hmin t ht
    have h2 := (hF t ht).2
    have h3 : parab F off t t = F t + off ^ 2 := by unfold parab; ring
    have h4 : off ^ 2 ≤ D ^ 2 := by
      have := abs_le.mp hoff
      nlinarith [this.1, this.2]
    linarith

/-- The initial loop of `dt3x` fills `indr` with the identity. -/
theorem dt3x.init_spec (n : Nat) (indr : Buf Int) (hs : indr.size = n) :
    ∃ out, forLoop (fun i (t : Buf Int) => t.set i i) 0 n indr = Except.ok out ∧
      out.size = n ∧ ∀ i, i < n → out.data i = some ((i : Nat) : Int) := by
  obtain ⟨out, hout, h1, h2⟩ := forLoop_inv
    (fun i (t : Buf Int) => t.size = n ∧ ∀ i', i' < i → t.data i' = some ((i' : Nat) : Int))
    (fun i (t : Buf Int) => t.set i i) n 0 indr ⟨hs, fun i' h => by omega⟩
    (by
      rintro i t _ hi ⟨h1, h2⟩
      refine ⟨_, Buf.set_nat t i _ (by omega), h1, ?_⟩
      intro i' hi'
      by_cases h : i' = i
      · subst h; simp
      · simp only [Function.update_noteq h]
        exact h2 i' (by omega))
  exact ⟨out, hout, h1, fun i hi => h2 i (by omega)⟩

theorem skolem3 (rl : Nat) (P : Nat → Nat → Nat → Nat → Prop)
    (h : ∀ a b t, a < rl → b < rl → t < rl → ∃ p, P a b t p) :
    ∃ f : Nat → Nat → Nat → Nat, ∀ a b t, a < rl → b < rl → t < rl → P a b t (f a b t) := by
  have h' : ∀ a b t, ∃ p, a < rl → b < rl → t < rl → P a b t p := by
    intro a b t
    by_cases hc : a < rl ∧ b < rl ∧ t < rl
    · obtain ⟨p, hp⟩ := h a b t hc.1 hc.2.1 hc.2.2
      exact ⟨p, fun _ _ _ => hp⟩
    · exact ⟨0, fun ha hb ht => absurd ⟨ha, hb, ht⟩ hc⟩
  choose f hf using h'
  exact ⟨f, hf⟩

/-- Specification of `dt3x`: on bounded costs and offsets the three passes
compute, for every output label, the minimum over all input labels of the
cost plus the squared distance shifted by `(dx,dy,dz)`, and `indr` holds a
minimising input label. -/
theorem dt3x_spec (rl : Nat) (r : Buf ℚ) (indr : Buf Int) (R : Nat → ℚ)
    (dx dy dz Bl Bu D : ℚ) (hrl : (rl : ℚ) ≤ dt1sq.INF + 1)
    (hrs : r.size = rl * rl * rl) (his : indr.size = rl * rl * rl)
    (hr : ∀ c, c < rl * rl * rl → r.data c = some (R c))
    (hB : ∀ c, c < rl * rl * rl → -Bl ≤ R c ∧ R c ≤ Bu)
    (hdx : |dx| ≤ D) (hdy : |dy| ≤ D) (hdz : |dz| ≤ D) (hB0 : 0 ≤ Bl + Bu)
    (hlim : (Bl + Bu) / 2 + D ^ 2 + D ≤ dt1sq.INF) :
    ∃ r' indr', dt3x r indr rl dx dy dz = Except.ok (r', indr') ∧
      r'.size = rl * rl * rl ∧ indr'.size = rl * rl * rl ∧
      ∀ i' j' k', i' < rl → j' < rl → k' < rl → ∃ i j k, i < rl ∧ j < rl ∧ k < rl ∧
        r'.data (i' + j' * rl + k' * rl * rl)
          = some (R (i + j * rl + k * rl * rl) + ((j' : ℚ) - j + dx) ^ 2
              + ((i' : ℚ) - i + dy) ^ 2 + ((k' : ℚ) - k + dz) ^ 2) ∧
        indr'.data (i' + j' * rl + k' * rl * rl) = some ((i + j * rl + k * rl * rl : Nat) : Int) ∧
        ∀ i2 j2 k2, i2 < rl → j2 < rl → k2 < rl →
          R (i + j * rl + k * rl * rl) + ((j' : ℚ) - j + dx) ^ 2
              + ((i' : ℚ) - i + dy) ^ 2 + ((k' : ℚ) - k + dz) ^ 2
            ≤ R (i2 + j2 * rl + k2 * rl * rl) + ((j' : ℚ) - j2 + dx) ^ 2
              + ((i' : ℚ) - i2 + dy) ^ 2 + ((k' : ℚ) - k2 + dz) ^ 2 := by
  rcases Nat.eq_zero_or_pos rl with hz | hpos
  · subst hz
    refine ⟨r, indr, rfl, hrs, his, ?_⟩
    intro i' j' k' hi'
    omega
  have hD0 : 0 ≤ D := le_trans (abs_nonneg dx) hdx
  have hD2 : 0 ≤ D ^ 2 := sq_nonneg D
  have hndx : |(-dx)| ≤ D := by rw [abs_neg]; exact hdx
  have hndy : |(-dy)| ≤ D := by rw [abs_neg]; exact hdy
  have hndz : |(-dz)| ≤ D := by rw [abs_neg]; exact hdz
  obtain ⟨ind0, hind0, hi0s, hi0⟩ := dt3x.init_spec (rl * rl * rl) indr his
  -- first pass: along j, loops over k (outer) and i (inner)
  obtain ⟨st1, hst1, a1, a2, a3, a4, a5, a6, post1⟩ := dt_pass rl (rl * rl * rl)
    (fun a b t => b + t * rl + a * rl * rl) (fun a b => b + a * rl * rl) rl (-dx)
    hpos
    (fun a b t => by ring)
    (fun a b t a' b' t' ha hb ht ha' hb' ht' h => by
      obtain ⟨e1, e2, e3⟩ := cube_index_inj rl b t a b' t' a' hb ht hb' ht' h
      exact ⟨e3, e1, e2⟩)
    (fun a b t ha hb ht => cube_index_lt rl b t a hb ht ha)
    ⟨r, ind0, Buf.new rl, Buf.new (rl + 1), Buf.new rl, Buf.new rl⟩
    (fun a b t => R (b + t * rl + a * rl * rl))
    (fun a b t => ((b + t * rl + a * rl * rl : Nat) : Int))
    hrs hi0s (le_refl _) (le_refl _) (le_refl _) (le_refl _)
    (fun a b t ha hb ht => ⟨hr _ (cube_index_lt rl b t a hb ht ha),
      hi0 _ (cube_index_lt rl b t a hb ht ha)⟩)
    (fun a b ha hb => dtSafe_of_bound _ (-dx) rl Bl Bu D
      (fun t ht => hB _ (cube_index_lt rl b t a hb ht ha)) hndx hB0 (by linarith) hrl)
  obtain ⟨p1, hp1⟩ := skolem3 rl _ post1
  -- second pass: along i, loops over k (outer) and j (inner)
  obtain ⟨st2, hst2, b1, b2, b3, b4, b5, b6, post2⟩ := dt_pass rl (rl * rl * rl)
    (fun a b t => t + b * rl + a * rl * rl) (fun a b => b * rl + a * rl * rl) 1 (-dy)
    (le_refl _) (fun a b t => by ring)
    (fun a b t a' b' t' ha hb ht ha' hb' ht' h => by
      obtain ⟨e1, e2, e3⟩ := cube_index_inj rl t b a t' b' a' ht hb ht' hb' h
      exact ⟨e3, e2, e1⟩)
    (fun a b t ha hb ht => cube_index_lt rl t b a ht hb ha)
    st1
    (fun a b t => parab (fun u => R (t + u * rl + a * rl * rl)) (-dx) (p1 a t b) b)
    (fun a b t => ((t + p1 a t b * rl + a * rl * rl : Nat) : Int))
    a1 a2 a3 a4 a5 a6
    (fun a b t ha hb ht => ⟨(hp1 a t b ha ht hb).2.1, (hp1 a t b ha ht hb).2.2.1⟩)
    (fun a b ha hb => dtSafe_of_bound _ (-dy) rl Bl (Bu + D ^ 2) D
      (fun t ht => parab_bounds (fun u => R (t + u * rl + a * rl * rl)) (-dx) rl Bl Bu D
        (fun u hu => hB _ (cube_index_lt rl t u a ht hu ha)) hndx (p1 a t b) b
        (hp1 a t b ha ht hb).1 hb (hp1 a t b ha ht hb).2.2.2)
      hndy (by linarith) (by linarith) hrl)
  obtain ⟨p2, hp2⟩ := skolem3 rl _ post2
  -- third pass: along k, loops over j (outer) and i (inner)
  obtain ⟨st3, hst3, c1, c2, c3, c4, c5, c6, post3⟩ := dt_pass rl (rl * rl * rl)
    (fun a b t => b + a * rl + t * rl * rl) (fun a b => b + a * rl) (rl * rl) (-dz)
    (Nat.mul_pos hpos hpos) (fun a b t => by ring)
    (fun a b t a' b' t' ha hb ht ha' hb' ht' h => by
      obtain ⟨e1, e2, e3⟩ := cube_index_inj rl b a t b' a' t' hb ha hb' ha' h
      exact ⟨e2, e1, e3⟩)
    (fun a b t ha hb ht => cube_index_lt rl b a t hb ha ht)
    st2
    (fun a b t => parab (fun u => parab (fun w => R (u + w * rl + t * rl * rl)) (-dx)
        (p1 t u a) a) (-dy) (p2 t a b) b)
    (fun a b t => ((p2 t a b + p1 t (p2 t a b) a * rl + t * rl * rl : Nat) : Int))
    b1 b2 b3 b4 b5 b6
    (fun a b t ha hb ht => ⟨(hp2 t a b ht ha hb).2.1, (hp2 t a b ht ha hb).2.2.1⟩)
    (fun a b ha hb => dtSafe_of_bound _ (-dz) rl Bl (Bu + D ^ 2 + D ^ 2) D
      (fun t ht => parab_bounds
        (fun u => parab (fun w => R (u + w * rl + t * rl * rl)) (-dx) (p1 t u a) a)
        (-dy) rl Bl (Bu + D ^ 2) D
        (fun u hu => parab_bounds (fun w => R (u + w * rl + t * rl * rl)) (-dx) rl Bl Bu D
          (fun w hw => hB _ (cube_index_lt rl u w t hu hw ht)) hndx (p1 t u a) a
          (hp1 t u a ht hu ha).1 ha (hp1 t u a ht hu ha).2.2.2)
        hndy (p2 t a b) b (hp2 t a b ht ha hb).1 hb (hp2 t a b ht ha hb).2.2.2)
      hndz (by linarith) (by linarith) hrl)
  refine ⟨st3.val, st3.ind, ?_, c1, c2, ?_⟩
  · unfold dt3x
    simp only [hind0, ok_bind, hst1, hst2, hst3, pure_eq_ok]
  · intro i' j' k' hi' hj' hk'
    obtain ⟨k, hk, v3, x3, m3⟩ := post3 j' i' k' hj' hi' hk'
    obtain ⟨hi, _, _, m2⟩ := hp2 k j' i' hk hj' hi'
    obtain ⟨hj, _, _, m1⟩ := hp1 k (p2 k j' i') j' hk hi hj'
    refine ⟨p2 k j' i', p1 k (p2 k j' i') j', k, hi, hj, hk, ?_, x3, ?_⟩
    · rw [v3]
      congr 1
      simp only [parab]
      ring
    · intro i2 j2 k2 hi2 hj2 hk2
      have t3 := m3 k2 hk2
      have t2 := (hp2 k2 j' i' hk2 hj' hi').2.2.2 i2 hi2
      have t1 := (hp1 k2 i2 j' hk2 hi2 hj').2.2.2 j2 hj2
      simp only [parab] at t1 t2 t3
      have e : ∀ a b c : ℚ, a - (b + -c) = a - b + c := by intro a b c; ring
      simp only [e] at t1 t2 t3
      linarith
/-! ## `dt1sq` and `dt3x`: the argmin witness of every run that returns -/

/-- A `pop` loop that returns leaves the stack pointer between 0 and its
initial value. -/
theorem dt1sq.pop_ok (val : Buf ℚ) (base k : Nat) (offset : ℚ) (v : Buf Int) (z : Buf ℚ)
    (q : Nat) : ∀ (fuel : Nat) (j : Int) (s : ℚ) (r : Int × ℚ),
    dt1sq.pop val base k offset v z q fuel j s = Except.ok r → 0 ≤ r.1 ∧ r.1 ≤ j := by
  intro fuel
  induction fuel with
  | zero =>
    intro j s r h
    simp [dt1sq.pop] at h
  | succ n ih =>
    intro j s r h
    simp only [dt1sq.pop, bind_eq_ok] at h
    obtain ⟨zj, hz, h⟩ := h
    have hj := (Buf.get_ok z j zj hz).1
    by_cases hc : s ≤ zj
    · simp only [if_pos hc, bind_eq_ok] at h
      obtain ⟨s', _, h⟩ := h
      have := ih (j - 1) s' r h
      omega
    · simp only [if_neg hc, pure_eq_ok] at h
      cases h
      exact ⟨hj, le_refl _⟩

/-- The stack of `dt1sq` after the parabolas below `q` have been pushed: the
pointer is not negative, the entries up to the pointer are positions below
`q`, and the boundary above the pointer is the sentinel. -/
theorem dt1sq.push_ok (val : Buf ℚ) (base k : Nat) (offset : ℚ) (len q : Nat) (e e' : Envelope)
    (hv : ∀ i : Nat, (i : Int) ≤ e.j → ∃ p : Nat, p < q ∧ e.v.data i = some (p : Int))
    (hrun : dt1sq.push val base k offset len q e = Except.ok e') :
    0 ≤ e'.j ∧
    (∀ i : Nat, (i : Int) ≤ e'.j → ∃ p : Nat, p < q + 1 ∧ e'.v.data i = some (p : Int)) ∧
    e'.z.data (e'.j + 1).toNat = some dt1sq.INF := by
  simp only [dt1sq.push, bind_eq_ok, pure_eq_ok] at hrun
  obtain ⟨s, _, r, hpop, v', hv', z', hz', z'', hz'', he⟩ := hrun
  obtain ⟨p0, p1⟩ := dt1sq.pop_ok val base k offset e.v e.z q _ _ _ _ hpop
  obtain ⟨_, _, ev⟩ := Buf.set_ok _ _ _ _ hv'
  obtain ⟨_, _, ez⟩ := Buf.set_ok _ _ _ _ hz''
  cases he
  refine ⟨by show 0 ≤ r.1 + 1; omega, ?_, ?_⟩
  · intro i hi
    have hi' : (i : Int) ≤ r.1 + 1 := hi
    show ∃ p : Nat, p < q + 1 ∧ v'.data i = some (p : Int)
    rw [ev]
    by_cases hc : i = (r.1 + 1).toNat
    · refine ⟨q, by omega, ?_⟩
      subst hc
      simp
    · simp only [Function.update_noteq hc]
      obtain ⟨p, hp, hd⟩ := hv i (by omega)
      exact ⟨p, by omega, hd⟩
  · show z''.data (r.1 + 1 + 1).toNat = some dt1sq.INF
    rw [ez]
    simp

/-- A `scan` loop that returns, started at or below the top of the stack,
ends at or below the top. -/
theorem dt1sq.scan_ok (z : Buf ℚ) (q : Nat) (top : Int) (hq : (q : ℚ) ≤ dt1sq.INF)
    (hz : z.data (top + 1).toNat = some dt1sq.INF) : ∀ (fuel : Nat) (j j' : Int),
    0 ≤ j → j ≤ top → dt1sq.scan z q fuel j = Except.ok j' → 0 ≤ j' ∧ j' ≤ top := by
  intro fuel
  induction fuel with
  | zero =>
    intro j j' _ _ h
    simp [dt1sq.scan] at h
  | succ n ih =>
    intro j j' h0 h1 h
    simp only [dt1sq.scan, bind_eq_ok] at h
    obtain ⟨zj, hzj, h⟩ := h
    by_cases hc : zj < (q : ℚ)
    · simp only [if_pos hc] at h
      have hne : j ≠ top := by
        intro he
        subst he
        have := (Buf.get_ok z _ _ hzj).2.2
        rw [hz] at this
        have e := Option.some.inj this
        rw [← e] at hc
        linarith
      exact ih (j + 1) j' (by omega) (by omega) h
    · simp only [if_neg hc, pure_eq_ok] at h
      cases h
      exact ⟨h0, h1⟩
/-- A copy loop of `dt1sq` that returns has copied the line into `f` and
`ind1`. -/
theorem dt1sq.copy_cells (val : Buf ℚ) (ind : Buf Int) (base k len : Nat) (F : Nat → ℚ)
    (G : Nat → Int) (p0 p : Buf ℚ × Buf Int)
    (hval : ∀ t, t < len → val.data (base + t * k) = some (F t))
    (hind : ∀ t, t < len → ind.data (base + t * k) = some (G t))
    (hrun : forLoop (dt1sq.copy val ind base k) 0 len p0 = Except.ok p) :
    ∀ q, q < len → p.1.data q = some (F q) ∧ p.2.data q = some (G q) := by
  have := forLoop_ok_inv
    (fun q (p : Buf ℚ × Buf Int) =>
      ∀ q', q' < q → p.1.data q' = some (F q') ∧ p.2.data q' = some (G q'))
    (dt1sq.copy val ind base k) len 0 p0 p (fun q' h => by omega)
    (by
      intro q t t' _ hq hI hstep
      simp only [dt1sq.copy, bind_eq_ok, pure_eq_ok] at hstep
      obtain ⟨x, hx, f', hf', y, hy, i1, hi1, he⟩ := hstep
      have ex := (Buf.get_ok _ _ _ hx).2.2
      have ey := (Buf.get_ok _ _ _ hy).2.2
      simp only [Int.toNat_ofNat] at ex ey
      rw [hval q (by omega)] at ex
      rw [hind q (by omega)] at ey
      obtain ⟨_, _, ef⟩ := Buf.set_ok _ _ _ _ hf'
      obtain ⟨_, _, ei⟩ := Buf.set_ok _ _ _ _ hi1
      simp only [Int.toNat_ofNat] at ef ei
      cases he
      intro q' hq'
      show f'.data q' = some (F q') ∧ i1.data q' = some (G q')
      rw [ef, ei]
      by_cases hc : q' = q
      · subst hc
        simp only [Function.update_same]
        exact ⟨ex.symm, ey.symm⟩
      · simp only [Function.update_noteq hc]
        exact hI q' (by omega))
    hrun
  intro q hq
  exact this q (by omega)

/-- An output loop of `dt1sq` that returns has written to every cell of the
line the value of one parabola of the line at that cell together with the
index of that parabola, and has changed no other cell. -/
theorem dt1sq.emit_ok (base k len : Nat) (offset : ℚ) (v : Buf Int) (z f : Buf ℚ)
    (ind1 : Buf Int) (val : Buf ℚ) (ind : Buf Int) (F : Nat → ℚ) (G : Nat → Int) (top : Int)
    (o : DtOut) (hk : 1 ≤ k) (hlen : (len : ℚ) ≤ dt1sq.INF + 1) (htop : 0 ≤ top)
    (hv : ∀ i : Nat, (i : Int) ≤ top → ∃ p : Nat, p < len ∧ v.data i = some (p : Int))
    (hz : z.data (top + 1).toNat = some dt1sq.INF)
    (hf : ∀ q, q < len → f.data q = some (F q) ∧ ind1.data q = some (G q))
    (hrun : forLoop (dt1sq.emit base k offset len v z f ind1) 0 len ⟨0, val, ind⟩
      = Except.ok o) :
    (∀ q, q < len → ∃ p, p < len ∧
      o.val.data (base + q * k) = some (parab F offset p q) ∧
      o.ind.data (base + q * k) = some (G p)) ∧
    ∀ c, (∀ q, q < len → c ≠ base + q * k) →
      o.val.data c = val.data c ∧ o.ind.data c = ind.data c := by
  have := forLoop_ok_inv
    (fun q (o : DtOut) => 0 ≤ o.j ∧ o.j ≤ top ∧
      (∀ q', q' < q → ∃ p, p < len ∧
        o.val.data (base + q' * k) = some (parab F offset p q') ∧
        o.ind.data (base + q' * k) = some (G p)) ∧
      ∀ c, (∀ q, q < len → c ≠ base + q * k) →
        o.val.data c = val.data c ∧ o.ind.data c = ind.data c)
    (dt1sq.emit base k offset len v z f ind1) len 0 ⟨0, val, ind⟩ o
    ⟨le_refl _, htop, fun q' h => by omega, fun _ _ => ⟨rfl, rfl⟩⟩
    (by
      rintro q t t' _ hq ⟨hj0, hj1, hdone, hframe⟩ hstep
      have hq' : q < len := by omega
      simp only [dt1sq.emit, bind_eq_ok, pure_eq_ok] at hstep
      obtain ⟨j, hscan, vj, hvj, i1, hi1, ind', hind', fv, hfv, val', hval', he⟩ := hstep
      have hqI : (q : ℚ) ≤ dt1sq.INF := by
        have : (q : ℚ) + 1 ≤ (len : ℚ) := by exact_mod_cast hq'
        linarith
      obtain ⟨j0, j1⟩ := dt1sq.scan_ok z q top hqI hz _ _ _ hj0 hj1 hscan
      obtain ⟨p, hp, hpd⟩ := hv j.toNat (by omega)
      have evj := (Buf.get_ok _ _ _ hvj).2.2
      rw [hpd] at evj
      have evj' : vj = (p : Int) := (Option.some.inj evj).symm
      subst evj'
      have ei1 := (Buf.get_ok _ _ _ hi1).2.2
      have efv := (Buf.get_ok _ _ _ hfv).2.2
      simp only [Int.toNat_ofNat] at ei1 efv
      rw [(hf p hp).2] at ei1
      rw [(hf p hp).1] at efv
      obtain ⟨_, _, eind⟩ := Buf.set_ok _ _ _ _ hind'
      obtain ⟨_, _, eval⟩ := Buf.set_ok _ _ _ _ hval'
      simp only [Int.toNat_ofNat] at eind eval
      cases he
      refine ⟨j0, j1, ?_, ?_⟩
      · intro q' hq''
        show ∃ p, p < len ∧ val'.data (base + q' * k) = some (parab F offset p q') ∧
          ind'.data (base + q' * k) = some (G p)
        rw [eval, eind]
        by_cases hc : q' = q
        · subst hc
          refine ⟨p, hp, ?_, ?_⟩
          · simp only [Function.update_same]
            rw [← Option.some.inj efv]
            congr 1
            unfold parab
            push_cast
            ring
          · simp only [Function.update_same]
            rw [← Option.some.inj ei1]
        · have hne : base + q' * k ≠ base + q * k := by
            intro he
            have : q' * k = q * k := by omega
            exact hc (Nat.eq_of_mul_eq_mul_right (by omega) this)
          simp only [Function.update_noteq hne]
          exact hdone q' (by omega)
      · intro c hc
        show val'.data c = val.data c ∧ ind'.data c = ind.data c
        rw [eval, eind]
        simp only [Function.update_noteq (hc q hq')]
        exact hframe c hc)
    hrun
  obtain ⟨_, _, hdone, hframe⟩ := this
  exact ⟨fun q hq => hdone q (by omega), hframe⟩

/-- A run of `dt1sq` that returns has replaced every cell of the line by the
value of one parabola of the line at that cell, with the index of that
parabola in `ind`, and has changed no cell of `val` and `ind` outside the
line. -/
theorem dt1sq_ok (base len : Nat) (offset : ℚ) (k : Nat) (st st' : DtState) (F : Nat → ℚ)
    (G : Nat → Int) (hk : 1 ≤ k) (hlen1 : 1 ≤ len) (hlen : (len : ℚ) ≤ dt1sq.INF + 1)
    (hval : ∀ t, t < len → st.val.data (base + t * k) = some (F t))
    (hind : ∀ t, t < len → st.ind.data (base + t * k) = some (G t))
    (hrun : dt1sq base len offset k st = Except.ok st') :
    (∀ q, q < len → ∃ p, p < len ∧
      st'.val.data (base + q * k) = some (parab F offset p q) ∧
      st'.ind.data (base + q * k) = some (G p)) ∧
    ∀ c, (∀ q, q < len → c ≠ base + q * k) →
      st'.val.data c = st.val.data c ∧ st'.ind.data c = st.ind.data c := by
  simp only [dt1sq, bind_eq_ok, pure_eq_ok] at hrun
  obtain ⟨z0, hz0, z1, hz1, v0, hv0, e, hbuild, p, hcopy, o, hemit, he⟩ := hrun
  obtain ⟨_, _, ez1⟩ := Buf.set_ok _ _ _ _ hz1
  obtain ⟨_, _, ev0⟩ := Buf.set_ok _ _ _ _ hv0
  have hstack := forLoop_ok_inv
    (fun q (e : Envelope) => 0 ≤ e.j ∧
      (∀ i : Nat, (i : Int) ≤ e.j → ∃ p : Nat, p < q ∧ e.v.data i = some (p : Int)) ∧
      e.z.data (e.j + 1).toNat = some dt1sq.INF)
    (dt1sq.push st.val base k offset len) (len - 1) 1 ⟨0, v0, z1⟩ e
    ⟨le_refl _, fun i hi => by
        have : i = 0 := by
          have : (i : Int) ≤ 0 := hi
          omega
        subst this
        refine ⟨0, by omega, ?_⟩
        show v0.data 0 = some ((0 : Nat) : Int)
        rw [ev0]
        simp,
      by
        show z1.data ((0 : Int) + 1).toNat = some dt1sq.INF
        rw [ez1]
        simp⟩
    (by
      rintro q t t' _ _ ⟨_, h2, _⟩ hstep
      exact dt1sq.push_ok st.val base k offset len q t t' h2 hstep)
    hbuild
  have e1 : 1 + (len - 1) = len := by omega
  rw [e1] at hstack
  obtain ⟨s0, s1, s2⟩ := hstack
  have hf := dt1sq.copy_cells st.val st.ind base k len F G _ p hval hind hcopy
  have := dt1sq.emit_ok base k len offset e.v e.z p.1 p.2 st.val st.ind F G e.j o hk hlen s0 s1
    s2 hf hemit
  cases he
  exact this

/-- Claim C2, amended: for costs in `[-Bl, Bu]` and offsets of magnitude at
most `D` with `(Bl+Bu)/2 + D^2 + D <= 1e10` (and a side length of at most
`1e10+1`), `dt3x` succeeds and every output entry `r[i'+j'*rl+k'*rl*rl]` is
the minimum over all input labels `(i,j,k)` of
`r_in[i+j*rl+k*rl*rl] + (j'-j+dx)^2 + (i'-i+dy)^2 + (k'-k+dz)^2`: the value is
attained at an input label, whose flat index is stored in `indr`, and is at
most the value at every other input label. -/
theorem dt3x_min_convolution (rl : Nat) (R : Nat → ℚ) (indr : Buf Int)
    (dx dy dz Bl Bu D : ℚ) (hrl : (rl : ℚ) ≤ dt1sq.INF + 1)
    (his : indr.size = rl * rl * rl)
    (hB : ∀ c, c < rl * rl * rl → -Bl ≤ R c ∧ R c ≤ Bu)
    (hdx : |dx| ≤ D) (hdy : |dy| ≤ D) (hdz : |dz| ≤ D) (hB0 : 0 ≤ Bl + Bu)
    (hlim : (Bl + Bu) / 2 + D ^ 2 + D ≤ dt1sq.INF) :
    ∃ r' indr', dt3x (Buf.ofFn (rl * rl * rl) R) indr rl dx dy dz = Except.ok (r', indr') ∧
      r'.size = rl * rl * rl ∧ indr'.size = rl * rl * rl ∧
      ∀ i' j' k', i' < rl → j' < rl → k' < rl → ∃ i j k, i < rl ∧ j < rl ∧ k < rl ∧
        r'.data (i' + j' * rl + k' * rl * rl)
          = some (R (i + j * rl + k * rl * rl) + ((j' : ℚ) - j + dx) ^ 2
              + ((i' : ℚ) - i + dy) ^ 2 + ((k' : ℚ) - k + dz) ^ 2) ∧
        indr'.data (i' + j' * rl + k' * rl * rl) = some ((i + j * rl + k * rl * rl : Nat) : Int) ∧
        ∀ i2 j2 k2, i2 < rl → j2 < rl → k2 < rl →
          R (i + j * rl + k * rl * rl) + ((j' : ℚ) - j + dx) ^ 2
              + ((i' : ℚ) - i + dy) ^ 2 + ((k' : ℚ) - k + dz) ^ 2
            ≤ R (i2 + j2 * rl + k2 * rl * rl) + ((j' : ℚ) - j2 + dx) ^ 2
              + ((i' : ℚ) - i2 + dy) ^ 2 + ((k' : ℚ) - k2 + dz) ^ 2 :=
  dt3x_spec rl (Buf.ofFn (rl * rl * rl) R) indr R dx dy dz Bl Bu D hrl rfl his
    (fun c hc => by simp [Buf.ofFn, hc]) hB hdx hdy hdz hB0 hlim

/-- Witness for claim C2 (amended) on the cube of side 2 with costs
`r[c] = c` and offsets `(1/2, 0, -1)`. -/
theorem dt3x_min_convolution_witness :
    ∃ r' indr', dt3x (Buf.ofFn (2 * 2 * 2) (fun c => (c : ℚ))) (Buf.new 8) 2 (1 / 2) 0 (-1)
        = Except.ok (r', indr') ∧
      r'.size = 2 * 2 * 2 ∧ indr'.size = 2 * 2 * 2 ∧
      ∀ i' j' k' : Nat, i' < 2 → j' < 2 → k' < 2 → ∃ i j k : Nat, i < 2 ∧ j < 2 ∧ k < 2 ∧
        r'.data (i' + j' * 2 + k' * 2 * 2)
          = some (((i + j * 2 + k * 2 * 2 : Nat) : ℚ) + ((j' : ℚ) - j + 1 / 2) ^ 2
              + ((i' : ℚ) - i + 0) ^ 2 + ((k' : ℚ) - k + -1) ^ 2) ∧
        indr'.data (i' + j' * 2 + k' * 2 * 2) = some ((i + j * 2 + k * 2 * 2 : Nat) : Int) ∧
        ∀ i2 j2 k2 : Nat, i2 < 2 → j2 < 2 → k2 < 2 →
          ((i + j * 2 + k * 2 * 2 : Nat) : ℚ) + ((j' : ℚ) - j + 1 / 2) ^ 2
              + ((i' : ℚ) - i + 0) ^ 2 + ((k' : ℚ) - k + -1) ^ 2
            ≤ ((i2 + j2 * 2 + k2 * 2 * 2 : Nat) : ℚ) + ((j' : ℚ) - j2 + 1 / 2) ^ 2
              + ((i' : ℚ) - i2 + 0) ^ 2 + ((k' : ℚ) - k2 + -1) ^ 2 :=
  dt3x_min_convolution 2 (fun c => (c : ℚ)) (Buf.new 8) (1 / 2) 0 (-1) 0 7 1
    (by unfold dt1sq.INF; norm_num) rfl
    (fun c hc => by
      have h7 : c ≤ 7 := by omega
      have : (c : ℚ) ≤ 7 := by exact_mod_cast h7
      have : (0 : ℚ) ≤ c := Nat.cast_nonneg c
      constructor <;> linarith)
    (by rw [abs_le]; constructor <;> norm_num)
    (by rw [abs_le]; constructor <;> norm_num)
    (by rw [abs_le]; constructor <;> norm_num)
    (by norm_num) (by unfold dt1sq.INF; norm_num)

/-- Claim C2, counterexample: on the cube of side 2 with all costs 0, far
below 1e10, and the offset `dx = 1e10+1`, the first pass of `dt3x` moves its
envelope index below the start of the arrays `v` and `z` and the run fails
with an out-of-bounds access. -/
theorem dt3x_large_offset_fails :
    failure? (dt3x (Buf.ofFn 8 (fun _ => (0 : ℚ))) (Buf.new 8) 2 10000000001 0 0)
      = some Err.oob := by
  decide!
/-! ## `boxfilter4` and `boxfilter1CC` -/

/-- The embedding of `boxfilter4` is the general filter on `__m128`. -/
theorem boxfilter4_eq (output input temp1 temp2 : Buf M128) (hw : Int) (m n o : Nat) :
    boxfilter4 output input temp1 temp2 hw m n o
      = slideFilter output input temp1 temp2 hw m n o := rfl

/-- The embedding of `boxfilter1CC` is the general filter on `float`. -/
theorem boxfilter1CC_eq (output input temp1 temp2 : Buf ℚ) (hw : Int) (m n o : Nat) :
    boxfilter1CC output input temp1 temp2 hw m n o
      = slideFilter output input temp1 temp2 hw m n o := rfl
/-- Reading a cell of a channel is reading the lane of the register. -/
theorem channel_get (c : Fin 4) (b : Buf M128) (i : Int) :
    (channel c b).get i = Except.map (fun v => v c) (b.get i) := by
  unfold Buf.get channel
  simp only
  split
  · cases b.data i.toNat <;> rfl
  · rfl

/-- Writing lane `c` of a register into a channel is writing the register. -/
theorem channel_set (c : Fin 4) (b : Buf M128) (i : Int) (v : M128) :
    (channel c b).set i (v c) = Except.map (channel c) (b.set i v) := by
  unfold Buf.set channel
  simp only
  split
  · simp only [Except.map]
    congr 2
    funext k
    by_cases h : k = i.toNat
    · subst h
      simp
    · simp [Function.update_noteq h]
  · rfl

/-- A loop commutes with a map of the state with which its body commutes. -/
theorem forLoop_map {σ τ : Type} (h : σ → τ) (body : Nat → σ → Except Err σ)
    (body' : Nat → τ → Except Err τ) (hb : ∀ i s, body' i (h s) = Except.map h (body i s))
    (cnt : Nat) : ∀ (lo : Nat) (s : σ),
    forLoop body' lo cnt (h s) = Except.map h (forLoop body lo cnt s) := by
  induction cnt with
  | zero => intro lo s; rfl
  | succ n ih =>
    intro lo s
    simp only [forLoop]
    rw [hb lo s]
    cases hx : body lo s with
    | error e => rfl
    | ok a =>
      simp only [Except.map, ok_bind]
      exact ih (lo + 1) a

theorem forRange_map {σ τ : Type} (h : σ → τ) (body : Int → σ → Except Err σ)
    (body' : Int → τ → Except Err τ) (hb : ∀ i s, body' i (h s) = Except.map h (body i s))
    (lo hi : Int) (s : σ) :
    forRange body' lo hi (h s) = Except.map h (forRange body lo hi s) := by
  unfold forRange
  exact forLoop_map h _ _ (fun i s => hb _ s) _ 0 s

/-- Sequencing commutes with maps of the intermediate and of the final
value. -/
theorem bind_map {α α' β β' : Type} (h : α → α') (g : β → β') (x : Except Err α)
    (x' : Except Err α') (f : α → Except Err β) (f' : α' → Except Err β')
    (hx : x' = Except.map h x) (hf : ∀ a, f' (h a) = Except.map g (f a)) :
    (x' >>= f') = Except.map g (x >>= f) := by
  rw [hx]
  cases x with
  | error e => rfl
  | ok a => exact hf a

theorem slideIn_channel (c : Fin 4) (src : Buf M128) (a x p : Int) (s : SlideState M128) :
    slideIn (channel c src) a x p (SlideState.channel c s)
      = Except.map (SlideState.channel c) (slideIn src a x p s) := by
  unfold slideIn
  rw [channel_get]
  cases src.get a with
  | error e => rfl
  | ok v =>
    simp only [Except.map, ok_bind]
    by_cases hx : x ≥ 0
    · simp only [if_pos hx]
      have := channel_set c s.out p (s.sumA + v)
      simp only [SlideState.channel, Pi.add_apply] at this ⊢
      rw [this]
      cases s.out.set p (s.sumA + v) <;> rfl
    · simp only [if_neg hx]
      rfl

theorem slideMove_channel (c : Fin 4) (src : Buf M128) (a b p : Int) (s : SlideState M128) :
    slideMove (channel c src) a b p (SlideState.channel c s)
      = Except.map (SlideState.channel c) (slideMove src a b p s) := by
  unfold slideMove
  rw [channel_get, channel_get]
  cases src.get a with
  | error e => rfl
  | ok v =>
    cases src.get b with
    | error e => rfl
    | ok w =>
      simp only [Except.map, ok_bind]
      have := channel_set c s.out p (s.sumA - v + w)
      simp only [SlideState.channel, Pi.add_apply, Pi.sub_apply] at this ⊢
      rw [this]
      cases s.out.set p (s.sumA - v + w) <;> rfl

theorem slideOut_channel (c : Fin 4) (src : Buf M128) (a p : Int) (s : SlideState M128) :
    slideOut (channel c src) a p (SlideState.channel c s)
      = Except.map (SlideState.channel c) (slideOut src a p s) := by
  unfold slideOut
  rw [channel_get]
  cases src.get a with
  | error e => rfl
  | ok v =>
    simp only [Except.map, ok_bind]
    have := channel_set c s.out p (s.sumA - v)
    simp only [SlideState.channel, Pi.sub_apply] at this ⊢
    rw [this]
    cases s.out.set p (s.sumA - v) <;> rfl

/-- One line of a pass on a channel is the channel of the line on the
registers. -/
theorem slideLine_channel (c : Fin 4) (src dst : Buf M128) (RANGE : Int) (len : Nat)
    (rd wr : Int → Int) :
    slideLine (channel c src) (channel c dst) RANGE len rd wr
      = Except.map (channel c) (slideLine src dst RANGE len rd wr) := by
  unfold slideLine
  refine bind_map (SlideState.channel c) (channel c) _ _ _ _ ?_ ?_
  · exact forRange_map (SlideState.channel c) _ _ (fun x s => slideIn_channel c src _ x _ s) _ _
      ⟨0, dst⟩
  · intro s1
    refine bind_map (SlideState.channel c) (channel c) _ _ _ _ ?_ ?_
    · exact forRange_map (SlideState.channel c) _ _
        (fun x s => slideMove_channel c src _ _ _ s) _ _ s1
    · intro s2
      refine bind_map (SlideState.channel c) (channel c) _ _ _ _ ?_ ?_
      · exact forRange_map (SlideState.channel c) _ _
          (fun x s => slideOut_channel c src _ _ s) _ _ s2
      · intro s3
        rfl

/-- The general filter on a channel is the channel of the filter on the
registers, whether the run succeeds or fails. -/
theorem slideFilter_channel (c : Fin 4) (output input temp1 temp2 : Buf M128) (hw : Int)
    (m n o : Nat) :
    slideFilter (channel c output) (channel c input) (channel c temp1) (channel c temp2)
        hw m n o
      = Except.map (SlideBufs.channel c) (slideFilter output input temp1 temp2 hw m n o) := by
  unfold slideFilter
  refine bind_map (channel c) (SlideBufs.channel c) _ _ _ _ ?_ ?_
  · exact forLoop_map (channel c) _ _ (fun k t =>
      forLoop_map (channel c) _ _ (fun j t => slideLine_channel c input t hw m _ _) _ 0 t) _ 0
      temp2
  · intro t2
    refine bind_map (channel c) (SlideBufs.channel c) _ _ _ _ ?_ ?_
    · exact forLoop_map (channel c) _ _ (fun k t =>
        forLoop_map (channel c) _ _ (fun i t => slideLine_channel c t2 t hw n _ _) _ 0 t) _ 0
        temp1
    · intro t1
      refine bind_map (channel c) (SlideBufs.channel c) _ _ _ _ ?_ ?_
      · exact forLoop_map (channel c) _ _ (fun j t =>
          forLoop_map (channel c) _ _ (fun i t => slideLine_channel c t1 t hw o _ _) _ 0 t) _ 0
          output
      · intro out
        rfl

/-- Lane `c` of the result of `boxfilter4` is the result of `boxfilter1CC` on
channel `c`, for all arguments and whether the run succeeds or fails. -/
theorem boxfilter4_channel (c : Fin 4) (output input temp1 temp2 : Buf M128) (hw : Int)
    (m n o : Nat) :
    boxfilter1CC (channel c output) (channel c input) (channel c temp1) (channel c temp2)
        hw m n o
      = Except.map (SlideBufs.channel c) (boxfilter4 output input temp1 temp2 hw m n o) := by
  rw [boxfilter4_eq, boxfilter1CC_eq]
  exact slideFilter_channel c output input temp1 temp2 hw m n o
theorem prefixSum_succ (f : Nat → ℚ) (k : Nat) : prefixSum f (k + 1) = prefixSum f k + f k := by
  unfold prefixSum
  rw [Finset.sum_range_succ]

theorem windowSum_eq (hw len : Nat) (f : Nat → ℚ) (t : Nat) (ht : t < len) :
    windowSum hw len f t = prefixSum f (min len (t + hw + 1)) - prefixSum f (t - hw) := by
  unfold windowSum prefixSum
  rw [Finset.sum_Ico_eq_sub]
  omega

/-- Writing the next cell of a line. -/
theorem SlideCells.write (dst out : Buf ℚ) (wi : Nat → Nat) (W : Nat → ℚ) (len K : Nat)
    (hinj : ∀ t t', t < len → t' < len → wi t = wi t' → t = t') (hK : K < len)
    (h : SlideCells dst out wi W len K) :
    SlideCells dst ⟨out.size, Function.update out.data (wi K) (some (W K))⟩ wi W len (K + 1) := by
  obtain ⟨hs, hc, hf⟩ := h
  refine ⟨hs, ?_, ?_⟩
  · intro x hx
    by_cases e : x = K
    · subst e
      simp
    · have hne : wi x ≠ wi K := fun he => e (hinj x K (by omega) hK he)
      simp only [Function.update_noteq hne]
      exact hc x (by omega)
  · intro p hp
    simp only [Function.update_noteq (hp K hK)]
    exact hf p hp

/-- One line of a sliding-window pass: for a line of at least `2*hw+1`
initialised cells, every destination cell of the line receives the sum of the
source line over the window clipped to the line, and no other cell is
changed. -/
theorem slideLine_spec (src dst : Buf ℚ) (R len : Nat) (rd wr : Int → Int) (ri wi : Nat → Nat)
    (f : Nat → ℚ) (hlen : 2 * R + 1 ≤ len)
    (hrd : ∀ t, t < len → rd (t : Int) = (ri t : Int) ∧ ri t < src.size ∧
      src.data (ri t) = some (f t))
    (hwr : ∀ t, t < len → wr (t : Int) = (wi t : Int) ∧ wi t < dst.size)
    (hinj : ∀ t t', t < len → t' < len → wi t = wi t' → t = t') :
    ∃ out, slideLine src dst (R : Int) len rd wr = Except.ok out ∧
      SlideCells dst out wi (windowSum R len f) len len := by
  have hget : ∀ t, t < len → src.get (rd (t : Int)) = Except.ok (f t) := by
    intro t ht
    obtain ⟨a, b, c⟩ := hrd t ht
    rw [a]
    exact Buf.get_nat src _ _ b c
  have hset : ∀ (out : Buf ℚ) t v, t < len → out.size = dst.size →
      out.set (wr (t : Int)) v
        = Except.ok ⟨out.size, Function.update out.data (wi t) (some v)⟩ := by
    intro out t v ht hs
    obtain ⟨a, b⟩ := hwr t ht
    rw [a]
    exact Buf.set_nat out _ _ (by omega)
  -- first loop
  have c1 : ((R : Int) + 1 - -(R : Int)).toNat = 2 * R + 1 := by omega
  obtain ⟨s1, e1, hs1, hcells1⟩ := forLoop_inv
    (fun t (s : SlideState ℚ) => s.sumA = prefixSum f t ∧
      SlideCells dst s.out wi (windowSum R len f) len (t - R))
    (fun t s => slideIn src (rd (-(R : Int) + (t : Int) + (R : Int))) (-(R : Int) + (t : Int))
      (wr (-(R : Int) + (t : Int))) s) (2 * R + 1) 0 ⟨0, dst⟩
    ⟨by simp [prefixSum], rfl, fun x hx => by omega, fun _ _ => rfl⟩
    (by
      rintro t s _ ht ⟨hsum, hcells⟩
      have ht' : t < len := by omega
      have ea : -(R : Int) + (t : Int) + (R : Int) = (t : Int) := by ring
      by_cases hx : -(R : Int) + (t : Int) ≥ 0
      · have ex : -(R : Int) + (t : Int) = ((t - R : Nat) : Int) := by omega
        have hK : t - R < len := by omega
        refine ⟨⟨s.sumA + f t, ⟨s.out.size, Function.update s.out.data (wi (t - R))
          (some (s.sumA + f t))⟩⟩, ?_, ?_, ?_⟩
        · unfold slideIn
          beta_reduce
          rw [ea, hget t ht']
          simp only [ok_bind, if_pos hx]
          rw [ex, hset s.out (t - R) _ hK hcells.1]
          rfl
        · simp only
          rw [hsum, prefixSum_succ]
        · have hW : s.sumA + f t = windowSum R len f (t - R) := by
            rw [windowSum_eq R len f _ hK, hsum, ← prefixSum_succ]
            have a1 : min len (t - R + R + 1) = t + 1 := by omega
            have a2 : t - R - R = 0 := by omega
            rw [a1, a2]
            simp [prefixSum]
          have := SlideCells.write dst s.out wi _ len (t - R) hinj hK hcells
          have e2 : t + 1 - R = t - R + 1 := by omega
          simp only
          rw [hW, e2]
          exact this
      · refine ⟨⟨s.sumA + f t, s.out⟩, ?_, ?_, ?_⟩
        · unfold slideIn
          beta_reduce
          rw [ea, hget t ht']
          simp only [ok_bind, if_neg hx]
          rfl
        · simp only
          rw [hsum, prefixSum_succ]
        · have e2 : t + 1 - R = t - R := by omega
          simp only
          rw [e2]
          exact hcells)
  simp only [Nat.zero_add] at hs1 hcells1 e1
  have k1 : 2 * R + 1 - R = R + 1 := by omega
  rw [k1] at hcells1
  -- second loop
  have lo2 : max (-(R : Int)) ((R : Int) + 1) = (R : Int) + 1 := by omega
  have c2 : (((len : Nat) : Int) - (R : Int) - ((R : Int) + 1)).toNat = len - (2 * R + 1) := by
    omega
  obtain ⟨s2, e2, hs2, hcells2⟩ := forLoop_inv
    (fun t (s : SlideState ℚ) => s.sumA = prefixSum f (2 * R + 1 + t) - prefixSum f t ∧
      SlideCells dst s.out wi (windowSum R len f) len (R + 1 + t))
    (fun t s => slideMove src (rd ((R : Int) + 1 + (t : Int) - (R : Int) - 1))
      (rd ((R : Int) + 1 + (t : Int) + (R : Int))) (wr ((R : Int) + 1 + (t : Int))) s)
    (len - (2 * R + 1)) 0 s1
    ⟨by rw [hs1]; simp [prefixSum], hcells1⟩
    (by
      rintro t s _ ht ⟨hsum, hcells⟩
      have ea : (R : Int) + 1 + (t : Int) - (R : Int) - 1 = (t : Int) := by ring
      have eb : (R : Int) + 1 + (t : Int) + (R : Int) = ((2 * R + 1 + t : Nat) : Int) := by
        push_cast; ring
      have ex : (R : Int) + 1 + (t : Int) = ((R + 1 + t : Nat) : Int) := by
        push_cast; ring
      have hK : R + 1 + t < len := by omega
      refine ⟨⟨s.sumA - f t + f (2 * R + 1 + t), ⟨s.out.size,
        Function.update s.out.data (wi (R + 1 + t))
          (some (s.sumA - f t + f (2 * R + 1 + t)))⟩⟩, ?_, ?_, ?_⟩
      · unfold slideMove
        beta_reduce
        rw [ea, eb, ex, hget t (by omega), hget (2 * R + 1 + t) (by omega)]
        simp only [ok_bind]
        rw [hset s.out (R + 1 + t) _ hK hcells.1]
        rfl
      · simp only
        have e3 : 2 * R + 1 + (t + 1) = 2 * R + 1 + t + 1 := by omega
        rw [hsum, e3, prefixSum_succ, prefixSum_succ]
        ring
      · have hW : s.sumA - f t + f (2 * R + 1 + t) = windowSum R len f (R + 1 + t) := by
          rw [windowSum_eq R len f _ hK, hsum]
          have a1 : min len (R + 1 + t + R + 1) = 2 * R + 1 + t + 1 := by omega
          have a2 : R + 1 + t - R = t + 1 := by omega
          rw [a1, a2, prefixSum_succ, prefixSum_succ]
          ring
        have := SlideCells.write dst s.out wi _ len (R + 1 + t) hinj hK hcells
        simp only
        rw [hW]
        exact this)
  simp only [Nat.zero_add] at hs2 hcells2 e2
  have k2 : R + 1 + (len - (2 * R + 1)) = len - R := by omega
  have k2' : 2 * R + 1 + (len - (2 * R + 1)) = len := by omega
  rw [k2] at hcells2
  rw [k2'] at hs2
  -- third loop
  have lo3 : max ((R : Int) + 1) (((len : Nat) : Int) - (R : Int)) = ((len - R : Nat) : Int) := by
    omega
  have c3 : (((len : Nat) : Int) - ((len - R : Nat) : Int)).toNat = R := by omega
  obtain ⟨s3, e3, hs3, hcells3⟩ := forLoop_inv
    (fun t (s : SlideState ℚ) =>
      s.sumA = prefixSum f len - prefixSum f (len - (2 * R + 1) + t) ∧
      SlideCells dst s.out wi (windowSum R len f) len (len - R + t))
    (fun t s => slideOut src (rd (((len - R : Nat) : Int) + (t : Int) - (R : Int) - 1))
      (wr (((len - R : Nat) : Int) + (t : Int))) s) R 0 s2
    ⟨by rw [hs2]; simp, hcells2⟩
    (by
      rintro t s _ ht ⟨hsum, hcells⟩
      have ea : ((len - R : Nat) : Int) + (t : Int) - (R : Int) - 1
          = ((len - (2 * R + 1) + t : Nat) : Int) := by omega
      have ex : ((len - R : Nat) : Int) + (t : Int) = ((len - R + t : Nat) : Int) := by
        push_cast; ring
      have hK : len - R + t < len := by omega
      refine ⟨⟨s.sumA - f (len - (2 * R + 1) + t), ⟨s.out.size,
        Function.update s.out.data (wi (len - R + t))
          (some (s.sumA - f (len - (2 * R + 1) + t)))⟩⟩, ?_, ?_, ?_⟩
      · unfold slideOut
        beta_reduce
        rw [ea, ex, hget _ (by omega)]
        simp only [ok_bind]
        rw [hset s.out (len - R + t) _ hK hcells.1]
        rfl
      · simp only
        have e3 : len - (2 * R + 1) + (t + 1) = len - (2 * R + 1) + t + 1 := by omega
        rw [hsum, e3, prefixSum_succ]
        ring
      · have hW : s.sumA - f (len - (2 * R + 1) + t) = windowSum R len f (len - R + t) := by
          rw [windowSum_eq R len f _ hK, hsum]
          have a1 : min len (len - R + t + R + 1) = len := by omega
          have a2 : len - R + t - R = len - (2 * R + 1) + t + 1 := by omega
          rw [a1, a2, prefixSum_succ]
          ring
        have := SlideCells.write dst s.out wi _ len (len - R + t) hinj hK hcells
        simp only
        rw [hW]
        exact this)
  simp only [Nat.zero_add] at hcells3 e3
  have k3 : len - R + R = len := by omega
  rw [k3] at hcells3
  refine ⟨s3.out, ?_, hcells3⟩
  unfold slideLine forRange
  simp only [c1, lo2, c2, lo3, c3]
  rw [e1]
  simp only [ok_bind]
  rw [e2]
  simp only [ok_bind]
  rw [e3]
  rfl
/-- One pass of the sliding-window filter: the lines `(a,b)` of the volume,
whose cells are `cell a b 0 .. cell a b (len-1)`, are filtered one after the
other; every cell of the destination receives the window sum of its line and
the cells outside the volume are unchanged. -/
theorem slidePass_spec (src dst : Buf ℚ) (R len NA NB N : Nat) (rd wr : Nat → Nat → Int → Int)
    (cell : Nat → Nat → Nat → Nat) (F : Nat → Nat → Nat → ℚ) (hlen : 2 * R + 1 ≤ len)
    (hrd : ∀ a b t, a < NA → b < NB → t < len → rd a b (t : Int) = (cell a b t : Int))
    (hwr : ∀ a b t, a < NA → b < NB → t < len → wr a b (t : Int) = (cell a b t : Int))
    (hlt : ∀ a b t, a < NA → b < NB → t < len → cell a b t < N)
    (hinj : ∀ a b t a' b' t', a < NA → b < NB → t < len → a' < NA → b' < NB → t' < len →
      cell a b t = cell a' b' t' → a = a' ∧ b = b' ∧ t = t')
    (hss : N ≤ src.size) (hds : N ≤ dst.size)
    (hsrc : ∀ a b t, a < NA → b < NB → t < len → src.data (cell a b t) = some (F a b t)) :
    ∃ out, forLoop (fun a t => forLoop (fun b t =>
        slideLine src t (R : Int) len (rd a b) (wr a b)) 0 NB t) 0 NA dst = Except.ok out ∧
      out.size = dst.size ∧
      (∀ a b t, a < NA → b < NB → t < len →
        out.data (cell a b t) = some (windowSum R len (F a b) t)) ∧
      ∀ p, (∀ a b t, a < NA → b < NB → t < len → p ≠ cell a b t) → out.data p = dst.data p := by
  obtain ⟨out, hrun, hs, hc, hf⟩ := doubleLoop_inv
    (fun a b (out : Buf ℚ) => out.size = dst.size ∧
      (∀ a' b' t, a' < a ∨ (a' = a ∧ b' < b) → a' < NA → b' < NB → t < len →
        out.data (cell a' b' t) = some (windowSum R len (F a' b') t)) ∧
      ∀ p, (∀ a b t, a < NA → b < NB → t < len → p ≠ cell a b t) → out.data p = dst.data p)
    NA NB (fun a b t => slideLine src t (R : Int) len (rd a b) (wr a b)) dst
    ⟨rfl, fun a' b' t h => by omega, fun _ _ => rfl⟩
    (by
      rintro a b t ha hb ⟨hs, hc, hf⟩
      obtain ⟨out, hrun, gs, gc, gf⟩ := slideLine_spec src t R len (rd a b) (wr a b)
        (cell a b) (cell a b) (F a b) hlen
        (fun u hu => ⟨hrd a b u ha hb hu, by have := hlt a b u ha hb hu; omega,
          hsrc a b u ha hb hu⟩)
        (fun u hu => ⟨hwr a b u ha hb hu, by have := hlt a b u ha hb hu; omega⟩)
        (fun u u' hu hu' he => (hinj a b u a b u' ha hb hu ha hb hu' he).2.2)
      refine ⟨out, hrun, gs.trans hs, ?_, ?_⟩
      · intro a' b' u hlex ha' hb' hu
        by_cases hcur : a' = a ∧ b' = b
        · obtain ⟨rfl, rfl⟩ := hcur
          exact gc u hu
        · rw [gf (cell a' b' u) (fun u' hu' he => hcur
            ⟨(hinj a' b' u a b u' ha' hb' hu ha hb hu' he).1,
              (hinj a' b' u a b u' ha' hb' hu ha hb hu' he).2.1⟩)]
          refine hc a' b' u ?_ ha' hb' hu
          rcases hlex with h | ⟨h1, h2⟩
          · exact Or.inl h
          · refine Or.inr ⟨h1, ?_⟩
            by_contra hn
            exact hcur ⟨h1, by omega⟩
      · intro p hp
        rw [gf p (fun u hu => hp a b u ha hb hu)]
        exact hf p hp)
    (by
      rintro a t ha ⟨hs, hc, hf⟩
      refine ⟨hs, ?_, hf⟩
      intro a' b' u hlex ha' hb' hu
      refine hc a' b' u ?_ ha' hb' hu
      rcases hlex with h | ⟨_, h2⟩
      · rcases Nat.lt_or_ge a' a with h3 | h3
        · exact Or.inl h3
        · exact Or.inr ⟨by omega, hb'⟩
      · omega)
  refine ⟨out, hrun, hs, ?_, hf⟩
  intro a b t ha hb ht
  exact hc a b t (Or.inl ha) ha hb ht
/-- Specification of the general filter on `float`: on a volume with
`m,n,o >= 2*hw+1` whose cells are initialised the run succeeds and every cell
of `output` inside the volume receives the sum of the input over the clipped
box around it. -/
theorem slideFilter_spec (output input temp1 temp2 : Buf ℚ) (hw m n o : Nat) (I : Nat → ℚ)
    (hm : 2 * hw + 1 ≤ m) (hn : 2 * hw + 1 ≤ n) (ho : 2 * hw + 1 ≤ o)
    (his : m * n * o ≤ input.size) (hos : m * n * o ≤ output.size)
    (h1s : m * n * o ≤ temp1.size) (h2s : m * n * o ≤ temp2.size)
    (hI : ∀ l, l < m * n * o → input.data l = some (I l)) :
    ∃ r, slideFilter output input temp1 temp2 (hw : Int) m n o = Except.ok r ∧
      r.output.size = output.size ∧ r.temp1.size = temp1.size ∧ r.temp2.size = temp2.size ∧
      (∀ i j k, i < m → j < n → k < o →
        r.output.data (i + j * m + k * m * n) = some (boxSum hw m n o I i j k)) ∧
      ∀ p, m * n * o ≤ p → r.output.data p = output.data p := by
  have hout : ∀ p a b c, m * n * o ≤ p → a < m → b < n → c < o → p ≠ a + b * m + c * m * n := by
    intro p a b c hp ha hb hc
    have := box_index_lt m n o a b c ha hb hc
    omega
  -- first pass, along `i`
  obtain ⟨t2, e1, s1, c1, _⟩ := slidePass_spec input temp2 hw m o n (m * n * o)
    (fun k j x => ((j : Int) * m + k * m * n) + x) (fun k j x => ((j : Int) * m + k * m * n) + x)
    (fun k j i => i + j * m + k * m * n) (fun k j i => I (i + j * m + k * m * n)) hm
    (fun k j i _ _ _ => by push_cast; ring) (fun k j i _ _ _ => by push_cast; ring)
    (fun k j i hk hj hi => box_index_lt m n o i j k hi hj hk)
    (fun k j i k' j' i' hk hj hi hk' hj' hi' he => by
      obtain ⟨a, b, c⟩ := box_index_inj m n i j k i' j' k' hi hj hi' hj' he
      exact ⟨c, b, a⟩)
    his h2s
    (fun k j i hk hj hi => hI _ (box_index_lt m n o i j k hi hj hk))
  -- second pass, along `j`
  obtain ⟨t1, e2, s2, c2, _⟩ := slidePass_spec t2 temp1 hw n o m (m * n * o)
    (fun k i x => (i : Int) + x * m + k * m * n) (fun k i x => (i : Int) + x * m + k * m * n)
    (fun k i j => i + j * m + k * m * n)
    (fun k i j => windowSum hw m (fun i' => I (i' + j * m + k * m * n)) i) hn
    (fun k i j _ _ _ => by push_cast; ring) (fun k i j _ _ _ => by push_cast; ring)
    (fun k i j hk hi hj => box_index_lt m n o i j k hi hj hk)
    (fun k i j k' i' j' hk hi hj hk' hi' hj' he => by
      obtain ⟨a, b, c⟩ := box_index_inj m n i j k i' j' k' hi hj hi' hj' he
      exact ⟨c, a, b⟩)
    (by rw [s1]; exact h2s) h1s
    (fun k i j hk hi hj => c1 k j i hk hj hi)
  -- third pass, along `k`
  obtain ⟨out, e3, s3, c3, f3⟩ := slidePass_spec t1 output hw o n m (m * n * o)
    (fun j i x => (i : Int) + j * m + x * m * n) (fun j i x => (i : Int) + j * m + x * m * n)
    (fun j i k => i + j * m + k * m * n)
    (fun j i k => windowSum hw n (fun j' =>
      windowSum hw m (fun i' => I (i' + j' * m + k * m * n)) i) j) ho
    (fun j i k _ _ _ => by push_cast; ring) (fun j i k _ _ _ => by push_cast; ring)
    (fun j i k hj hi hk => box_index_lt m n o i j k hi hj hk)
    (fun j i k j' i' k' hj hi hk hj' hi' hk' he => by
      obtain ⟨a, b, c⟩ := box_index_inj m n i j k i' j' k' hi hj hi' hj' he
      exact ⟨b, a, c⟩)
    (by rw [s2]; exact h1s) hos
    (fun j i k hj hi hk => c2 k i j hk hi hj)
  refine ⟨⟨out, t1, t2⟩, ?_, s3, s2, s1, fun i j k hi hj hk => c3 j i k hj hi hk, ?_⟩
  · unfold slideFilter
    rw [e1]
    simp only [ok_bind]
    rw [e2]
    simp only [ok_bind]
    rw [e3]
    rfl
  · intro p hp
    exact f3 p (fun j i k hj hi hk => hout p i j k hp hi hj hk)

/-- Specification of `boxfilter1CC`: on a volume with `m,n,o >= 2*hw+1` whose
cells are initialised the run succeeds and every cell of `output` inside the
volume receives the sum of the input over the clipped box around it. -/
theorem boxfilter1CC_spec (output input temp1 temp2 : Buf ℚ) (hw m n o : Nat) (I : Nat → ℚ)
    (hm : 2 * hw + 1 ≤ m) (hn : 2 * hw + 1 ≤ n) (ho : 2 * hw + 1 ≤ o)
    (his : m * n * o ≤ input.size) (hos : m * n * o ≤ output.size)
    (h1s : m * n * o ≤ temp1.size) (h2s : m * n * o ≤ temp2.size)
    (hI : ∀ l, l < m * n * o → input.data l = some (I l)) :
    ∃ r, boxfilter1CC output input temp1 temp2 (hw : Int) m n o = Except.ok r ∧
      r.output.size = output.size ∧ r.temp1.size = temp1.size ∧ r.temp2.size = temp2.size ∧
      (∀ i j k, i < m → j < n → k < o →
        r.output.data (i + j * m + k * m * n) = some (boxSum hw m n o I i j k)) ∧
      ∀ p, m * n * o ≤ p → r.output.data p = output.data p := by
  rw [boxfilter1CC_eq]
  exact slideFilter_spec output input temp1 temp2 hw m n o I hm hn ho his hos h1s h2s hI

/-- On a volume with `m,n,o >= 2*hw+1` of initialised registers `boxfilter4`
and `boxfilter1CC` on each channel both succeed, the arrays of the scalar run
are the channels of the arrays of the SIMD run, and the output of the
channel is the box sum of the channel. -/
theorem boxfilter4_spec (output input temp1 temp2 : Buf M128) (hw m n o : Nat) (I : Nat → M128)
    (hm : 2 * hw + 1 ≤ m) (hn : 2 * hw + 1 ≤ n) (ho : 2 * hw + 1 ≤ o)
    (his : m * n * o ≤ input.size) (hos : m * n * o ≤ output.size)
    (h1s : m * n * o ≤ temp1.size) (h2s : m * n * o ≤ temp2.size)
    (hI : ∀ l, l < m * n * o → input.data l = some (I l)) (c : Fin 4) :
    ∃ (r4 : SlideBufs M128) (r1 : SlideBufs ℚ),
      boxfilter4 output input temp1 temp2 (hw : Int) m n o = Except.ok r4 ∧
      boxfilter1CC (channel c output) (channel c input) (channel c temp1) (channel c temp2)
        (hw : Int) m n o = Except.ok r1 ∧
      r1 = SlideBufs.channel c r4 ∧
      ∀ i j k, i < m → j < n → k < o → ∃ v : M128,
        r4.output.data (i + j * m + k * m * n) = some v ∧
        r1.output.data (i + j * m + k * m * n) = some (v c) ∧
        v c = boxSum hw m n o (fun l => I l c) i j k := by
  obtain ⟨r1, e1, _, _, _, hc, _⟩ := boxfilter1CC_spec (channel c output) (channel c input)
    (channel c temp1) (channel c temp2) hw m n o (fun l => I l c) hm hn ho his hos h1s h2s
    (fun l hl => by simp [channel, hI l hl])
  have hcomm := boxfilter4_channel c output input temp1 temp2 (hw : Int) m n o
  rw [e1] at hcomm
  cases h4 : boxfilter4 output input temp1 temp2 (hw : Int) m n o with
  | error e =>
    rw [h4] at hcomm
    cases hcomm
  | ok r4 =>
    rw [h4] at hcomm
    have hr : r1 = SlideBufs.channel c r4 := Except.ok.inj hcomm
    refine ⟨r4, r1, rfl, e1, hr, ?_⟩
    intro i j k hi hj hk
    have hv := hc i j k hi hj hk
    have hv' := hv
    rw [hr] at hv'
    simp only [SlideBufs.channel, channel] at hv'
    cases hd : r4.output.data (i + j * m + k * m * n) with
    | none =>
      rw [hd] at hv'
      cases hv'
    | some v =>
      rw [hd] at hv'
      simp only [Option.map_some'] at hv'
      exact ⟨v, rfl, by rw [hv, ← Option.some.inj hv'], Option.some.inj hv'⟩
/-- Claim C23: for every `hw >= 0`, `m,n,o >= 2*hw+1` and every initialised
input of four interleaved channels, `boxfilter4` and, for each channel `c`,
`boxfilter1CC` on that channel both succeed; the arrays of the scalar run are
lane `c` of the arrays of the SIMD run, so that at every voxel lane `c` of
the SIMD output equals the scalar output, which is the sum of the channel over
the clipped box around the voxel. -/
theorem boxfilter4_lanes_match (output input temp1 temp2 : Buf M128) (hw m n o : Nat)
    (I : Nat → M128) (hm : 2 * hw + 1 ≤ m) (hn : 2 * hw + 1 ≤ n) (ho : 2 * hw + 1 ≤ o)
    (his : m * n * o ≤ input.size) (hos : m * n * o ≤ output.size)
    (h1s : m * n * o ≤ temp1.size) (h2s : m * n * o ≤ temp2.size)
    (hI : ∀ l, l < m * n * o → input.data l = some (I l)) (c : Fin 4) :
    ∃ (r4 : SlideBufs M128) (r1 : SlideBufs ℚ),
      boxfilter4 output input temp1 temp2 (hw : Int) m n o = Except.ok r4 ∧
      boxfilter1CC (channel c output) (channel c input) (channel c temp1) (channel c temp2)
        (hw : Int) m n o = Except.ok r1 ∧
      r1 = SlideBufs.channel c r4 ∧
      ∀ i j k, i < m → j < n → k < o → ∃ v : M128,
        r4.output.data (i + j * m + k * m * n) = some v ∧
        r1.output.data (i + j * m + k * m * n) = some (v c) ∧
        v c = boxSum hw m n o (fun l => I l c) i j k :=
  boxfilter4_spec output input temp1 temp2 hw m n o I hm hn ho his hos h1s h2s hI c

/-- Instance of claim C23: the `3 x 3 x 3` volume whose register at the flat
index `l` holds `l + c` in lane `c`, filtered with `hw = 1`; channel 2. -/
theorem boxfilter4_lanes_match_witness :
    ∃ (r4 : SlideBufs M128) (r1 : SlideBufs ℚ),
      boxfilter4 (Buf.new 27) (Buf.ofFn 27 (fun l c => (l : ℚ) + ((c : Nat) : ℚ))) (Buf.new 27)
        (Buf.new 27) ((1 : Nat) : Int) 3 3 3 = Except.ok r4 ∧
      boxfilter1CC (channel 2 (Buf.new 27))
        (channel 2 (Buf.ofFn 27 (fun l c => (l : ℚ) + ((c : Nat) : ℚ))))
        (channel 2 (Buf.new 27)) (channel 2 (Buf.new 27)) ((1 : Nat) : Int) 3 3 3
        = Except.ok r1 ∧
      r1 = SlideBufs.channel 2 r4 ∧
      ∀ i j k, i < 3 → j < 3 → k < 3 → ∃ v : M128,
        r4.output.data (i + j * 3 + k * 3 * 3) = some v ∧
        r1.output.data (i + j * 3 + k * 3 * 3) = some (v 2) ∧
        v 2 = boxSum 1 3 3 3
          (fun l => (fun (l : Nat) (c : Fin 4) => (l : ℚ) + ((c : Nat) : ℚ)) l 2) i j k :=
  boxfilter4_lanes_match (Buf.new 27) (Buf.ofFn 27 (fun l c => (l : ℚ) + ((c : Nat) : ℚ)))
    (Buf.new 27) (Buf.new 27) 1 3 3 3 (fun l c => (l : ℚ) + ((c : Nat) : ℚ))
    (by decide) (by decide) (by decide) (le_refl _) (le_refl _) (le_refl _) (le_refl _)
    (fun l hl => by
      have hl' : l < 27 := hl
      simp [Buf.ofFn, hl']) 2
/-! ## The cumulative-sum `boxfilter` -/

/-- The function `boxfilter` is `cumFilter`. -/
theorem boxfilter_eq (input temp1 temp2 : Buf ℚ) (hw : Int) (m n o : Nat) :
    boxfilter input temp1 temp2 hw m n o = cumFilter input temp1 temp2 hw m n o := rfl

/-- One line of a differencing pass: when the source cells of the line hold
the running sums of `f` along a line of at least `2*hw+1` cells, every
destination cell of the line receives the sum of `f` over the window clipped
to the line, and no other cell is changed. -/
theorem diffLine_spec (src dst : Buf ℚ) (R len : Nat) (rd wr : Int → Int) (ri wi : Nat → Nat)
    (f : Nat → ℚ) (hlen : 2 * R + 1 ≤ len)
    (hrd : ∀ t, t < len → rd (t : Int) = (ri t : Int) ∧ ri t < src.size ∧
      src.data (ri t) = some (prefixSum f (t + 1)))
    (hwr : ∀ t, t < len → wr (t : Int) = (wi t : Int) ∧ wi t < dst.size)
    (hinj : ∀ t t', t < len → t' < len → wi t = wi t' → t = t') :
    ∃ out, diffLine src dst (R : Int) len rd wr = Except.ok out ∧
      SlideCells dst out wi (windowSum R len f) len len := by
  have hget : ∀ t, t < len → src.get (rd (t : Int)) = Except.ok (prefixSum f (t + 1)) := by
    intro t ht
    obtain ⟨a, b, c⟩ := hrd t ht
    rw [a]
    exact Buf.get_nat src _ _ b c
  have hset : ∀ (out : Buf ℚ) t v, t < len → out.size = dst.size →
      out.set (wr (t : Int)) v
        = Except.ok ⟨out.size, Function.update out.data (wi t) (some v)⟩ := by
    intro out t v ht hs
    obtain ⟨a, b⟩ := hwr t ht
    rw [a]
    exact Buf.set_nat out _ _ (by omega)
  -- first loop
  have c1 : ((R : Int) + 1 - 0).toNat = R + 1 := by omega
  obtain ⟨s1, e1, hcells1⟩ := forLoop_inv
    (fun t (s : Buf ℚ) => SlideCells dst s wi (windowSum R len f) len t)
    (fun t s => copyAt s src (wr (0 + (t : Int))) (rd (0 + (t : Int) + (R : Int))))
    (R + 1) 0 dst ⟨rfl, fun x hx => by omega, fun _ _ => rfl⟩
    (by
      intro t s _ ht hcells
      have hK : t < len := by omega
      have ea : (0 : Int) + (t : Int) + (R : Int) = ((t + R : Nat) : Int) := by
        push_cast; ring
      have ex : (0 : Int) + (t : Int) = (t : Int) := by ring
      refine ⟨⟨s.size, Function.update s.data (wi t) (some (windowSum R len f t))⟩, ?_, ?_⟩
      · unfold copyAt
        beta_reduce
        rw [ea, ex, hget (t + R) (by omega)]
        simp only [ok_bind]
        rw [hset s t _ hK hcells.1, windowSum_eq R len f _ hK]
        have a1 : min len (t + R + 1) = t + R + 1 := by omega
        have a2 : t - R = 0 := by omega
        rw [a1, a2]
        simp [prefixSum]
      · exact SlideCells.write dst s wi _ len t hinj hK hcells)
  simp only [Nat.zero_add] at hcells1 e1
  -- second loop
  have c2 : (((len : Nat) : Int) - (R : Int) - ((R : Int) + 1)).toNat = len - (2 * R + 1) := by
    omega
  obtain ⟨s2, e2, hcells2⟩ := forLoop_inv
    (fun t (s : Buf ℚ) => SlideCells dst s wi (windowSum R len f) len (R + 1 + t))
    (fun t s => diffAt s src (wr ((R : Int) + 1 + (t : Int)))
      (rd ((R : Int) + 1 + (t : Int) + (R : Int)))
      (rd ((R : Int) + 1 + (t : Int) - (R : Int) - 1)))
    (len - (2 * R + 1)) 0 s1 hcells1
    (by
      intro t s _ ht hcells
      have hK : R + 1 + t < len := by omega
      have ea : (R : Int) + 1 + (t : Int) + (R : Int) = ((2 * R + 1 + t : Nat) : Int) := by
        push_cast; ring
      have eb : (R : Int) + 1 + (t : Int) - (R : Int) - 1 = (t : Int) := by ring
      have ex : (R : Int) + 1 + (t : Int) = ((R + 1 + t : Nat) : Int) := by
        push_cast; ring
      refine ⟨⟨s.size, Function.update s.data (wi (R + 1 + t))
        (some (windowSum R len f (R + 1 + t)))⟩, ?_, ?_⟩
      · unfold diffAt
        beta_reduce
        rw [ea, eb, ex, hget (2 * R + 1 + t) (by omega), hget t (by omega)]
        simp only [ok_bind]
        rw [hset s (R + 1 + t) _ hK hcells.1, windowSum_eq R len f _ hK]
        have a1 : min len (R + 1 + t + R + 1) = 2 * R + 1 + t + 1 := by omega
        have a2 : R + 1 + t - R = t + 1 := by omega
        rw [a1, a2]
      · exact SlideCells.write dst s wi _ len (R + 1 + t) hinj hK hcells)
  simp only [Nat.zero_add] at hcells2 e2
  have k2 : R + 1 + (len - (2 * R + 1)) = len - R := by omega
  rw [k2] at hcells2
  -- third loop
  have c3 : (((len : Nat) : Int) - (((len : Nat) : Int) - (R : Int))).toNat = R := by omega
  obtain ⟨s3, e3, hcells3⟩ := forLoop_inv
    (fun t (s : Buf ℚ) => SlideCells dst s wi (windowSum R len f) len (len - R + t))
    (fun t s => diffAt s src (wr (((len : Nat) : Int) - (R : Int) + (t : Int)))
      (rd (((len : Nat) : Int) - 1))
      (rd (((len : Nat) : Int) - (R : Int) + (t : Int) - (R : Int) - 1)))
    R 0 s2 hcells2
    (by
      intro t s _ ht hcells
      have hK : len - R + t < len := by omega
      have ea : ((len : Nat) : Int) - 1 = ((len - 1 : Nat) : Int) := by omega
      have eb : ((len : Nat) : Int) - (R : Int) + (t : Int) - (R : Int) - 1
          = ((len - (2 * R + 1) + t : Nat) : Int) := by omega
      have ex : ((len : Nat) : Int) - (R : Int) + (t : Int) = ((len - R + t : Nat) : Int) := by
        omega
      refine ⟨⟨s.size, Function.update s.data (wi (len - R + t))
        (some (windowSum R len f (len - R + t)))⟩, ?_, ?_⟩
      · unfold diffAt
        beta_reduce
        rw [ea, eb, ex, hget (len - 1) (by omega), hget (len - (2 * R + 1) + t) (by omega)]
        simp only [ok_bind]
        rw [hset s (len - R + t) _ hK hcells.1, windowSum_eq R len f _ hK]
        have a1 : min len (len - R + t + R + 1) = len - 1 + 1 := by omega
        have a2 : len - R + t - R = len - (2 * R + 1) + t + 1 := by omega
        rw [a1, a2]
      · exact SlideCells.write dst s wi _ len (len - R + t) hinj hK hcells)
  simp only [Nat.zero_add] at hcells3 e3
  have k3 : len - R + R = len := by omega
  rw [k3] at hcells3
  refine ⟨s3, ?_, hcells3⟩
  unfold diffLine forRange
  simp only [c1, c2, c3]
  rw [e1]
  simp only [ok_bind]
  rw [e2]
  simp only [ok_bind]
  rw [e3]

/-- One differencing pass: the lines `(a,b)` of the volume, whose cells are
`cell a b 0 .. cell a b (len-1)` and hold in `src` the running sums of
`F a b`, are processed one after the other; every cell of the destination
receives the window sum of its line and the cells outside the volume are
unchanged. -/
theorem diffPass_spec (src dst : Buf ℚ) (R len NA NB N : Nat) (rd wr : Nat → Nat → Int → Int)
    (cell : Nat → Nat → Nat → Nat) (F : Nat → Nat → Nat → ℚ) (hlen : 2 * R + 1 ≤ len)
    (hrd : ∀ a b t, a < NA → b < NB → t < len → rd a b (t : Int) = (cell a b t : Int))
    (hwr : ∀ a b t, a < NA → b < NB → t < len → wr a b (t : Int) = (cell a b t : Int))
    (hlt : ∀ a b t, a < NA → b < NB → t < len → cell a b t < N)
    (hinj : ∀ a b t a' b' t', a < NA → b < NB → t < len → a' < NA → b' < NB → t' < len →
      cell a b t = cell a' b' t' → a = a' ∧ b = b' ∧ t = t')
    (hss : N ≤ src.size) (hds : N ≤ dst.size)
    (hsrc : ∀ a b t, a < NA → b < NB → t < len →
      src.data (cell a b t) = some (prefixSum (F a b) (t + 1))) :
    ∃ out, forLoop (fun a t => forLoop (fun b t =>
        diffLine src t (R : Int) len (rd a b) (wr a b)) 0 NB t) 0 NA dst = Except.ok out ∧
      out.size = dst.size ∧
      (∀ a b t, a < NA → b < NB → t < len →
        out.data (cell a b t) = some (windowSum R len (F a b) t)) ∧
      ∀ p, (∀ a b t, a < NA → b < NB → t < len → p ≠ cell a b t) → out.data p = dst.data p := by
  obtain ⟨out, hrun, hs, hc, hf⟩ := doubleLoop_inv
    (fun a b (out : Buf ℚ) => out.size = dst.size ∧
      (∀ a' b' t, a' < a ∨ (a' = a ∧ b' < b) → a' < NA → b' < NB → t < len →
        out.data (cell a' b' t) = some (windowSum R len (F a' b') t)) ∧
      ∀ p, (∀ a b t, a < NA → b < NB → t < len → p ≠ cell a b t) → out.data p = dst.data p)
    NA NB (fun a b t => diffLine src t (R : Int) len (rd a b) (wr a b)) dst
    ⟨rfl, fun a' b' t h => by omega, fun _ _ => rfl⟩
    (by
      rintro a b t ha hb ⟨hs, hc, hf⟩
      obtain ⟨out, hrun, gs, gc, gf⟩ := diffLine_spec src t R len (rd a b) (wr a b)
        (cell a b) (cell a b) (F a b) hlen
        (fun u hu => ⟨hrd a b u ha hb hu, by have := hlt a b u ha hb hu; omega,
          hsrc a b u ha hb hu⟩)
        (fun u hu => ⟨hwr a b u ha hb hu, by have := hlt a b u ha hb hu; omega⟩)
        (fun u u' hu hu' he => (hinj a b u a b u' ha hb hu ha hb hu' he).2.2)
      refine ⟨out, hrun, gs.trans hs, ?_, ?_⟩
      · intro a' b' u hlex ha' hb' hu
        by_cases hcur : a' = a ∧ b' = b
        · obtain ⟨rfl, rfl⟩ := hcur
          exact gc u hu
        · rw [gf (cell a' b' u) (fun u' hu' he => hcur
            ⟨(hinj a' b' u a b u' ha' hb' hu ha hb hu' he).1,
              (hinj a' b' u a b u' ha' hb' hu ha hb hu' he).2.1⟩)]
          refine hc a' b' u ?_ ha' hb' hu
          rcases hlex with h | ⟨h1, h2⟩
          · exact Or.inl h
          · refine Or.inr ⟨h1, ?_⟩
            by_contra hn
            exact hcur ⟨h1, by omega⟩
      · intro p hp
        rw [gf p (fun u hu => hp a b u ha hb hu)]
        exact hf p hp)
    (by
      rintro a t ha ⟨hs, hc, hf⟩
      refine ⟨hs, ?_, hf⟩
      intro a' b' u hlex ha' hb' hu
      refine hc a' b' u ?_ ha' hb' hu
      rcases hlex with h | ⟨_, h2⟩
      · rcases Nat.lt_or_ge a' a with h3 | h3
        · exact Or.inl h3
        · exact Or.inr ⟨by omega, hb'⟩
      · omega)
  refine ⟨out, hrun, hs, ?_, hf⟩
  intro a b t ha hb ht
  exact hc a b t (Or.inl ha) ha hb ht

/-- Invariant rule for a `forLoop` with a lower bound `lo <= hi`, in the form
used for the loop nests of `cumPass`. -/
theorem forLoop_from {σ : Type} (Inv : Nat → σ → Prop) (body : Nat → σ → Except Err σ)
    (lo hi : Nat) (hle : lo ≤ hi) (s : σ) (h0 : Inv lo s)
    (hstep : ∀ i t, lo ≤ i → i < hi → Inv i t → ∃ t', body i t = Except.ok t' ∧ Inv (i + 1) t') :
    ∃ s', forLoop body lo (hi - lo) s = Except.ok s' ∧ Inv hi s' := by
  obtain ⟨s', e, h⟩ := forLoop_inv Inv body (hi - lo) lo s h0
    (fun i t h1 h2 hI => hstep i t h1 (by omega) hI)
  have e2 : lo + (hi - lo) = hi := by omega
  rw [e2] at h
  exact ⟨s', e, h⟩

/-- One running-sum pass: when every cell `(i,j,k)` at or above the lower
bounds has its predecessor `prev k j i` at a cell visited before it, the pass
succeeds on an initialised volume and replaces the values `old` by the values
`new` that satisfy `new = old` below a lower bound and
`new = old + new(predecessor)` elsewhere. -/
theorem cumPass_spec (t0 : Buf ℚ) (m n o li lj lk : Nat) (prev : Nat → Nat → Nat → Int)
    (old new : Nat → Nat → Nat → ℚ) (hli : li ≤ m) (hlj : lj ≤ n) (hlk : lk ≤ o)
    (hs : m * n * o ≤ t0.size)
    (hold : ∀ i j k, i < m → j < n → k < o →
      t0.data (i + j * m + k * m * n) = some (old i j k))
    (h0 : ∀ i j k, i < m → j < n → k < o → (i < li ∨ j < lj ∨ k < lk) →
      new i j k = old i j k)
    (h1 : ∀ i j k, i < m → j < n → k < o → li ≤ i → lj ≤ j → lk ≤ k →
      ∃ i' j' k', i' < m ∧ j' < n ∧ k' < o ∧
        prev k j i = ((i' + j' * m + k' * m * n : Nat) : Int) ∧
        Before k j i k' j' i' ∧ new i j k = old i j k + new i' j' k') :
    ∃ out, cumPass t0 m n o li lj lk prev = Except.ok out ∧ out.size = t0.size ∧
      (∀ i j k, i < m → j < n → k < o →
        out.data (i + j * m + k * m * n) = some (new i j k)) ∧
      ∀ p, m * n * o ≤ p → out.data p = t0.data p := by
  -- the invariant: the cells visited before `(k,j,i)` hold `new`, the others `old`
  let Inv : Nat → Nat → Nat → Buf ℚ → Prop := fun k j i t =>
    t.size = t0.size ∧
    (∀ i' j' k', i' < m → j' < n → k' < o →
      (Before k j i k' j' i' ∨ i' < li ∨ j' < lj ∨ k' < lk →
        t.data (i' + j' * m + k' * m * n) = some (new i' j' k')) ∧
      (¬ Before k j i k' j' i' → t.data (i' + j' * m + k' * m * n) = some (old i' j' k'))) ∧
    ∀ p, m * n * o ≤ p → t.data p = t0.data p
  have hInv0 : Inv lk 0 0 t0 := by
    refine ⟨rfl, ?_, fun _ _ => rfl⟩
    intro i' j' k' hi' hj' hk'
    refine ⟨?_, fun _ => hold i' j' k' hi' hj' hk'⟩
    intro h
    rw [hold i' j' k' hi' hj' hk']
    congr 1
    symm
    apply h0 i' j' k' hi' hj' hk'
    rcases h with h | h
    · unfold Before at h
      omega
    · exact h
  obtain ⟨out, e, hsz, hcells, hframe⟩ := forLoop_from (fun k t => Inv k 0 0 t)
    (fun k t => forLoop (fun j t => forLoop (fun i t =>
      cumAt t ((i : Int) + j * m + k * m * n) (prev k j i)) li (m - li) t) lj (n - lj) t)
    lk o hlk t0
    hInv0 (by
      intro k t hk1 hk2 hI
      obtain ⟨t1, e1, hI1⟩ := forLoop_from (fun j t => Inv k j 0 t)
        (fun j t => forLoop (fun i t =>
          cumAt t ((i : Int) + j * m + k * m * n) (prev k j i)) li (m - li) t) lj n hlj t
        (by
          obtain ⟨a, b, c⟩ := hI
          refine ⟨a, ?_, c⟩
          intro i' j' k' hi' hj' hk'
          obtain ⟨b1, b2⟩ := b i' j' k' hi' hj' hk'
          refine ⟨?_, ?_⟩
          · intro h
            apply b1
            rcases h with h | h
            · unfold Before at h ⊢
              omega
            · exact Or.inr h
          · intro h
            apply b2
            unfold Before at h ⊢
            omega)
        (by
          intro j u hj1 hj2 hJ
          obtain ⟨u1, e2, hI2⟩ := forLoop_from (fun i t => Inv k j i t)
            (fun i t => cumAt t ((i : Int) + j * m + k * m * n) (prev k j i)) li m hli u
            (by
              obtain ⟨a, b, c⟩ := hJ
              refine ⟨a, ?_, c⟩
              intro i' j' k' hi' hj' hk'
              obtain ⟨b1, b2⟩ := b i' j' k' hi' hj' hk'
              refine ⟨?_, ?_⟩
              · intro h
                apply b1
                rcases h with h | h
                · unfold Before at h ⊢
                  omega
                · exact Or.inr h
              · intro h
                apply b2
                unfold Before at h ⊢
                omega)
            (by
              rintro i w hi1 hi2 ⟨a, b, c⟩
              obtain ⟨i', j', k', hi', hj', hk', hp, hbef, hnew⟩ :=
                h1 i j k hi2 hj2 hk2 hi1 hj1 hk1
              have hself : ¬ Before k j i k j i := by
                unfold Before
                omega
              have g1 := Buf.get_nat w (i + j * m + k * m * n) _
                (by have := box_index_lt m n o i j k hi2 hj2 hk2; omega)
                ((b i j k hi2 hj2 hk2).2 hself)
              have g2 := Buf.get_nat w (i' + j' * m + k' * m * n) _
                (by have := box_index_lt m n o i' j' k' hi' hj' hk'; omega)
                ((b i' j' k' hi' hj' hk').1 (Or.inl hbef))
              refine ⟨⟨w.size, Function.update w.data (i + j * m + k * m * n)
                (some (new i j k))⟩, ?_, a, ?_, ?_⟩
              · unfold cumAt
                beta_reduce
                rw [box_index_cast, hp, g1, g2]
                simp only [ok_bind]
                rw [hnew]
                exact Buf.set_nat w _ _
                  (by have := box_index_lt m n o i j k hi2 hj2 hk2; omega)
              · intro i2 j2 k2 hi2' hj2' hk2'
                by_cases hc : i2 = i ∧ j2 = j ∧ k2 = k
                · obtain ⟨rfl, rfl, rfl⟩ := hc
                  refine ⟨fun _ => by simp, fun h => ?_⟩
                  exfalso
                  apply h
                  unfold Before
                  omega
                · have hne : i2 + j2 * m + k2 * m * n ≠ i + j * m + k * m * n := by
                    intro he
                    exact hc (box_index_inj m n i2 j2 k2 i j k hi2' hj2' hi2 hj2 he)
                  simp only [Function.update_noteq hne]
                  obtain ⟨b1, b2⟩ := b i2 j2 k2 hi2' hj2' hk2'
                  refine ⟨?_, ?_⟩
                  · intro h
                    apply b1
                    rcases h with h | h
                    · left
                      unfold Before at h ⊢
                      omega
                    · exact Or.inr h
                  · intro h
                    apply b2
                    unfold Before at h ⊢
                    omega
              · intro p hp'
                have hne : p ≠ i + j * m + k * m * n := by
                  have := box_index_lt m n o i j k hi2 hj2 hk2
                  omega
                simp only [Function.update_noteq hne]
                exact c p hp')
          refine ⟨u1, e2, ?_⟩
          obtain ⟨a, b, c⟩ := hI2
          refine ⟨a, ?_, c⟩
          intro i' j' k' hi' hj' hk'
          obtain ⟨b1, b2⟩ := b i' j' k' hi' hj' hk'
          refine ⟨?_, ?_⟩
          · intro h
            apply b1
            rcases h with h | h
            · left
              unfold Before at h ⊢
              omega
            · exact Or.inr h
          · intro h
            apply b2
            unfold Before at h ⊢
            omega)
      refine ⟨t1, e1, ?_⟩
      obtain ⟨a, b, c⟩ := hI1
      refine ⟨a, ?_, c⟩
      intro i' j' k' hi' hj' hk'
      obtain ⟨b1, b2⟩ := b i' j' k' hi' hj' hk'
      refine ⟨?_, ?_⟩
      · intro h
        apply b1
        rcases h with h | h
        · left
          unfold Before at h ⊢
          omega
        · exact Or.inr h
      · intro h
        apply b2
        unfold Before at h ⊢
        omega)
  refine ⟨out, e, hsz, ?_, hframe⟩
  intro i j k hi hj hk
  apply (hcells i j k hi hj hk).1
  left
  unfold Before
  omega

/-- The first loop of `boxfilter` copies the volume into `temp1`. -/
theorem boxfilter.copyInput_spec (input temp1 : Buf ℚ) (N : Nat) (I : Nat → ℚ)
    (his : N ≤ input.size) (h1s : N ≤ temp1.size)
    (hI : ∀ l, l < N → input.data l = some (I l)) :
    ∃ out, forLoop (fun i t => copyAt t input i i) 0 N temp1 = Except.ok out ∧
      out.size = temp1.size ∧ ∀ l, l < N → out.data l = some (I l) := by
  obtain ⟨out, e, hs, hc⟩ := forLoop_inv
    (fun i (t : Buf ℚ) => t.size = temp1.size ∧ ∀ l, l < i → t.data l = some (I l))
    (fun i t => copyAt t input i i) N 0 temp1 ⟨rfl, fun l hl => by omega⟩
    (by
      rintro i t _ hi ⟨hs, hc⟩
      have hi' : i < N := by omega
      refine ⟨⟨t.size, Function.update t.data i (some (I i))⟩, ?_, hs, ?_⟩
      · unfold copyAt
        beta_reduce
        rw [Buf.get_nat input i _ (by omega) (hI i hi')]
        exact Buf.set_nat t i _ (by omega)
      · intro l hl
        by_cases h : l = i
        · subst h; simp
        · simp only [Function.update_noteq h]
          exact hc l (by omega))
  exact ⟨out, e, hs, fun l hl => hc l (by omega)⟩

/-- Specification of the cumulative-sum `boxfilter`: on a volume with
`m,n,o >= 2*hw+1` whose cells are initialised the run succeeds and every cell
of `input` inside the volume receives the sum of the input over the clipped
box around it. -/
theorem boxfilter_spec (input temp1 temp2 : Buf ℚ) (hw m n o : Nat) (I : Nat → ℚ)
    (hm : 2 * hw + 1 ≤ m) (hn : 2 * hw + 1 ≤ n) (ho : 2 * hw + 1 ≤ o)
    (his : m * n * o ≤ input.size)
    (h1s : m * n * o ≤ temp1.size) (h2s : m * n * o ≤ temp2.size)
    (hI : ∀ l, l < m * n * o → input.data l = some (I l)) :
    ∃ r, boxfilter input temp1 temp2 (hw : Int) m n o = Except.ok r ∧
      r.input.size = input.size ∧ r.temp1.size = temp1.size ∧ r.temp2.size = temp2.size ∧
      (∀ i j k, i < m → j < n → k < o →
        r.input.data (i + j * m + k * m * n) = some (boxSum hw m n o I i j k)) ∧
      ∀ p, m * n * o ≤ p → r.input.data p = input.data p := by
  have hout : ∀ p a b c, m * n * o ≤ p → a < m → b < n → c < o → p ≠ a + b * m + c * m * n := by
    intro p a b c hp ha hb hc
    have := box_index_lt m n o a b c ha hb hc
    omega
  -- copy
  obtain ⟨a0, e0, s0, c0⟩ := boxfilter.copyInput_spec input temp1 (m * n * o) I his h1s hI
  -- running sums along `i`
  obtain ⟨a1, e1, s1, c1, _⟩ := cumPass_spec a0 m n o 1 0 0
    (fun k j i => ((i : Int) - 1) + j * m + k * m * n)
    (fun i j k => I (i + j * m + k * m * n))
    (fun i j k => prefixSum (fun i' => I (i' + j * m + k * m * n)) (i + 1))
    (by omega) (by omega) (by omega) (by rw [s0]; exact h1s)
    (fun i j k hi hj hk => c0 _ (box_index_lt m n o i j k hi hj hk))
    (by
      intro i j k _ _ _ h
      have : i = 0 := by omega
      subst this
      simp [prefixSum])
    (by
      intro i j k hi hj hk h1 _ _
      refine ⟨i - 1, j, k, by omega, hj, hk, ?_, ?_, ?_⟩
      · have : ((i - 1 : Nat) : Int) = (i : Int) - 1 := by omega
        push_cast
        rw [this]
      · unfold Before
        omega
      · have e : i - 1 + 1 = i := by omega
        simp only [e]
        rw [prefixSum_succ]
        ring)
  -- differences along `i`
  obtain ⟨a2, e2, s2, c2, _⟩ := diffPass_spec a1 temp2 hw m o n (m * n * o)
    (fun k j x => x + j * m + k * m * n) (fun k j x => x + j * m + k * m * n)
    (fun k j i => i + j * m + k * m * n) (fun k j i => I (i + j * m + k * m * n)) hm
    (fun k j i _ _ _ => by push_cast; ring) (fun k j i _ _ _ => by push_cast; ring)
    (fun k j i hk hj hi => box_index_lt m n o i j k hi hj hk)
    (fun k j i k' j' i' hk hj hi hk' hj' hi' he => by
      obtain ⟨a, b, c⟩ := box_index_inj m n i j k i' j' k' hi hj hi' hj' he
      exact ⟨c, b, a⟩)
    (by rw [s1, s0]; exact h1s) h2s
    (fun k j i hk hj hi => c1 i j k hi hj hk)
  -- running sums along `j`
  obtain ⟨a3, e3, s3, c3, _⟩ := cumPass_spec a2 m n o 0 1 0
    (fun k j i => (i : Int) + ((j : Int) - 1) * m + k * m * n)
    (fun i j k => windowSum hw m (fun i' => I (i' + j * m + k * m * n)) i)
    (fun i j k => prefixSum (fun j' =>
      windowSum hw m (fun i' => I (i' + j' * m + k * m * n)) i) (j + 1))
    (by omega) (by omega) (by omega) (by rw [s2]; exact h2s)
    (fun i j k hi hj hk => c2 k j i hk hj hi)
    (by
      intro i j k _ _ _ h
      have : j = 0 := by omega
      subst this
      simp [prefixSum])
    (by
      intro i j k hi hj hk _ h1 _
      refine ⟨i, j - 1, k, hi, by omega, hk, ?_, ?_, ?_⟩
      · have : ((j - 1 : Nat) : Int) = (j : Int) - 1 := by omega
        push_cast
        rw [this]
      · unfold Before
        omega
      · have e : j - 1 + 1 = j := by omega
        simp only [e]
        rw [prefixSum_succ]
        ring)
  -- differences along `j`
  obtain ⟨a4, e4, s4, c4, _⟩ := diffPass_spec a3 a1 hw n o m (m * n * o)
    (fun k i x => (i : Int) + x * m + k * m * n) (fun k i x => (i : Int) + x * m + k * m * n)
    (fun k i j => i + j * m + k * m * n)
    (fun k i j => windowSum hw m (fun i' => I (i' + j * m + k * m * n)) i) hn
    (fun k i j _ _ _ => by push_cast; ring) (fun k i j _ _ _ => by push_cast; ring)
    (fun k i j hk hi hj => box_index_lt m n o i j k hi hj hk)
    (fun k i j k' i' j' hk hi hj hk' hi' hj' he => by
      obtain ⟨a, b, c⟩ := box_index_inj m n i j k i' j' k' hi hj hi' hj' he
      exact ⟨c, a, b⟩)
    (by rw [s3, s2]; exact h2s) (by rw [s1, s0]; exact h1s)
    (fun k i j hk hi hj => c3 i j k hi hj hk)
  -- running sums along `k`
  obtain ⟨a5, e5, s5, c5, _⟩ := cumPass_spec a4 m n o 0 0 1
    (fun k j i => (i : Int) + j * m + ((k : Int) - 1) * m * n)
    (fun i j k => windowSum hw n (fun j' =>
      windowSum hw m (fun i' => I (i' + j' * m + k * m * n)) i) j)
    (fun i j k => prefixSum (fun k' => windowSum hw n (fun j' =>
      windowSum hw m (fun i' => I (i' + j' * m + k' * m * n)) i) j) (k + 1))
    (by omega) (by omega) (by omega) (by rw [s4, s1, s0]; exact h1s)
    (fun i j k hi hj hk => c4 k i j hk hi hj)
    (by
      intro i j k _ _ _ h
      have : k = 0 := by omega
      subst this
      simp [prefixSum])
    (by
      intro i j k hi hj hk _ _ h1
      refine ⟨i, j, k - 1, hi, hj, by omega, ?_, ?_, ?_⟩
      · have : ((k - 1 : Nat) : Int) = (k : Int) - 1 := by omega
        push_cast
        rw [this]
      · unfold Before
        omega
      · have e : k - 1 + 1 = k := by omega
        simp only [e]
        rw [prefixSum_succ]
        ring)
  -- differences along `k`
  obtain ⟨a6, e6, s6, c6, f6⟩ := diffPass_spec a5 input hw o n m (m * n * o)
    (fun j i x => (i : Int) + j * m + x * m * n) (fun j i x => (i : Int) + j * m + x * m * n)
    (fun j i k => i + j * m + k * m * n)
    (fun j i k => windowSum hw n (fun j' =>
      windowSum hw m (fun i' => I (i' + j' * m + k * m * n)) i) j) ho
    (fun j i k _ _ _ => by push_cast; ring) (fun j i k _ _ _ => by push_cast; ring)
    (fun j i k hj hi hk => box_index_lt m n o i j k hi hj hk)
    (fun j i k j' i' k' hj hi hk hj' hi' hk' he => by
      obtain ⟨a, b, c⟩ := box_index_inj m n i j k i' j' k' hi hj hi' hj' he
      exact ⟨b, a, c⟩)
    (by rw [s5, s4, s1, s0]; exact h1s) his
    (fun j i k hj hi hk => c5 i j k hi hj hk)
  refine ⟨⟨a6, a5, a3⟩, ?_, s6, by rw [s5, s4, s1, s0], by rw [s3, s2],
    fun i j k hi hj hk => c6 j i k hj hi hk, ?_⟩
  · rw [boxfilter_eq]
    unfold cumFilter
    rw [e0]
    simp only [ok_bind]
    rw [e1]
    simp only [ok_bind]
    rw [e2]
    simp only [ok_bind]
    rw [e3]
    simp only [ok_bind]
    rw [e4]
    simp only [ok_bind]
    rw [e5]
    simp only [ok_bind]
    rw [e6]
    rfl
  · intro p hp
    exact f6 p (fun j i k hj hi hk => hout p i j k hp hi hj hk)

/-- The box sum written out, and its value on a volume of ones: the number of
voxels of the clipped box. -/
theorem boxSum_eq (hw m n o : Nat) (I : Nat → ℚ) (i j k : Nat) :
    boxSum hw m n o I i j k
      = ∑ k' in Finset.Ico (k - hw) (min o (k + hw + 1)),
          ∑ j' in Finset.Ico (j - hw) (min n (j + hw + 1)),
            ∑ i' in Finset.Ico (i - hw) (min m (i + hw + 1)), I (i' + j' * m + k' * m * n) :=
  rfl

theorem boxSum_ones (hw m n o i j k : Nat) :
    boxSum hw m n o (fun _ => 1) i j k
      = (((min m (i + hw + 1) - (i - hw)) * (min n (j + hw + 1) - (j - hw))
          * (min o (k + hw + 1) - (k - hw)) : Nat) : ℚ) := by
  unfold boxSum windowSum
  simp only [Finset.sum_const, Nat.card_Ico, nsmul_eq_mul, mul_one]
  push_cast
  ring

/-- Claim C35: for every `hw >= 0`, `m,n,o >= 2*hw+1` and every initialised
volume, the in-place cumulative-sum `boxfilter` and the sliding-window
`boxfilter1CC` both succeed and produce the same output (`input` of the first,
`output` of the second): at every voxel `(i,j,k)` both hold the sum of the
input over the box `[i-hw,i+hw] x [j-hw,j+hw] x [k-hw,k+hw]` clipped to the
volume.  The sum is not divided by the size of the window: on a volume of
ones it is the number of voxels of the clipped box. -/
theorem boxfilter_cumulative_equals_sliding (input output temp1 temp2 : Buf ℚ)
    (hw m n o : Nat) (I : Nat → ℚ)
    (hm : 2 * hw + 1 ≤ m) (hn : 2 * hw + 1 ≤ n) (ho : 2 * hw + 1 ≤ o)
    (his : m * n * o ≤ input.size) (hos : m * n * o ≤ output.size)
    (h1s : m * n * o ≤ temp1.size) (h2s : m * n * o ≤ temp2.size)
    (hI : ∀ l, l < m * n * o → input.data l = some (I l)) :
    (∃ (b : BoxState) (r : SlideBufs ℚ),
      boxfilter input temp1 temp2 (hw : Int) m n o = Except.ok b ∧
      boxfilter1CC output input temp1 temp2 (hw : Int) m n o = Except.ok r ∧
      ∀ i j k, i < m → j < n → k < o → ∃ v : ℚ,
        b.input.data (i + j * m + k * m * n) = some v ∧
        r.output.data (i + j * m + k * m * n) = some v ∧
        v = ∑ k' in Finset.Ico (k - hw) (min o (k + hw + 1)),
              ∑ j' in Finset.Ico (j - hw) (min n (j + hw + 1)),
                ∑ i' in Finset.Ico (i - hw) (min m (i + hw + 1)),
                  I (i' + j' * m + k' * m * n)) ∧
    (∀ ones : Buf ℚ, m * n * o ≤ ones.size → (∀ l, l < m * n * o → ones.data l = some 1) →
      ∃ b : BoxState, boxfilter ones temp1 temp2 (hw : Int) m n o = Except.ok b ∧
        ∀ i j k, i < m → j < n → k < o →
          b.input.data (i + j * m + k * m * n)
            = some (((min m (i + hw + 1) - (i - hw)) * (min n (j + hw + 1) - (j - hw))
                * (min o (k + hw + 1) - (k - hw)) : Nat) : ℚ)) := by
  obtain ⟨b, eb, _, _, _, cb, _⟩ :=
    boxfilter_spec input temp1 temp2 hw m n o I hm hn ho his h1s h2s hI
  obtain ⟨r, er, _, _, _, cr, _⟩ :=
    boxfilter1CC_spec output input temp1 temp2 hw m n o I hm hn ho his hos h1s h2s hI
  refine ⟨⟨b, r, eb, er, fun i j k hi hj hk =>
    ⟨_, cb i j k hi hj hk, cr i j k hi hj hk, boxSum_eq hw m n o I i j k⟩⟩, ?_⟩
  intro ones hs hone
  obtain ⟨b1, eb1, _, _, _, cb1, _⟩ :=
    boxfilter_spec ones temp1 temp2 hw m n o (fun _ => 1) hm hn ho hs h1s h2s hone
  refine ⟨b1, eb1, ?_⟩
  intro i j k hi hj hk
  rw [cb1 i j k hi hj hk, boxSum_ones]

/-- Instance of claim C35: the `3 x 4 x 3` volume holding `l*l` at the flat
index `l`, filtered with `hw = 1`. -/
theorem boxfilter_cumulative_equals_sliding_witness :
    (∃ (b : BoxState) (r : SlideBufs ℚ),
      boxfilter (Buf.ofFn 36 (fun l => (l : ℚ) * l)) (Buf.new 36) (Buf.new 36)
        ((1 : Nat) : Int) 3 4 3 = Except.ok b ∧
      boxfilter1CC (Buf.new 36) (Buf.ofFn 36 (fun l => (l : ℚ) * l)) (Buf.new 36) (Buf.new 36)
        ((1 : Nat) : Int) 3 4 3 = Except.ok r ∧
      ∀ i j k, i < 3 → j < 4 → k < 3 → ∃ v : ℚ,
        b.input.data (i + j * 3 + k * 3 * 4) = some v ∧
        r.output.data (i + j * 3 + k * 3 * 4) = some v ∧
        v = ∑ k' in Finset.Ico (k - 1) (min 3 (k + 1 + 1)),
              ∑ j' in Finset.Ico (j - 1) (min 4 (j + 1 + 1)),
                ∑ i' in Finset.Ico (i - 1) (min 3 (i + 1 + 1)),
                  (((i' + j' * 3 + k' * 3 * 4 : Nat) : ℚ) * ((i' + j' * 3 + k' * 3 * 4 : Nat) : ℚ))) ∧
    (∀ ones : Buf ℚ, 3 * 4 * 3 ≤ ones.size → (∀ l, l < 3 * 4 * 3 → ones.data l = some 1) →
      ∃ b : BoxState, boxfilter ones (Buf.new 36) (Buf.new 36)
          ((1 : Nat) : Int) 3 4 3 = Except.ok b ∧
        ∀ i j k, i < 3 → j < 4 → k < 3 →
          b.input.data (i + j * 3 + k * 3 * 4)
            = some (((min 3 (i + 1 + 1) - (i - 1)) * (min 4 (j + 1 + 1) - (j - 1))
                * (min 3 (k + 1 + 1) - (k - 1)) : Nat) : ℚ)) :=
  boxfilter_cumulative_equals_sliding (Buf.ofFn 36 (fun l => (l : ℚ) * l)) (Buf.new 36)
    (Buf.new 36) (Buf.new 36) 1 3 4 3 (fun l => (l : ℚ) * l)
    (by decide) (by decide) (by decide) (le_refl _) (le_refl _) (le_refl _) (le_refl _)
    (fun l hl => by
      have hl' : l < 36 := hl
      simp [Buf.ofFn, hl'])

/-! ## Tree regularisation -/

theorem regularisation.flat_eq (m n : Nat) (node : Int) (hm : m ≠ 0) (hn : n ≠ 0) :
    regularisation.flat m n node = Except.ok node := by
  unfold regularisation.flat
  have h1 : ¬ ((m : Int) * n = 0) := by
    have : (m : Int) ≠ 0 := by exact_mod_cast hm
    have : (n : Int) ≠ 0 := by exact_mod_cast hn
    exact mul_ne_zero ‹_› ‹_›
  have h2 : ¬ ((m : Int) = 0) := by exact_mod_cast hm
  rw [if_neg h1, if_neg h2]
  have e : node - node.tdiv ((m : Int) * n) * m * n
      - (node - node.tdiv ((m : Int) * n) * m * n).tdiv m * m
      + (node - node.tdiv ((m : Int) * n) * m * n).tdiv m * m
      + node.tdiv ((m : Int) * n) * m * n = node := by ring
  simp only [e]

theorem row_index_lt (sz L nd l : Nat) (hn : nd < sz) (hl : l < L) : nd + l * sz < sz * L := by
  calc nd + l * sz < sz + l * sz := by omega
    _ = (l + 1) * sz := by ring
    _ ≤ L * sz := Nat.mul_le_mul_right _ (by omega)
    _ = sz * L := by ring

theorem row_index_inj (sz nd l nd' l' : Nat) (hn : nd < sz) (hn' : nd' < sz)
    (h : nd + l * sz = nd' + l' * sz) : nd = nd' ∧ l = l' := by
  have h1 : (nd + l * sz) % sz = nd := by
    rw [Nat.add_mul_mod_self_right, Nat.mod_eq_of_lt hn]
  have h2 : (nd' + l' * sz) % sz = nd' := by
    rw [Nat.add_mul_mod_self_right, Nat.mod_eq_of_lt hn']
  have e : nd = nd' := by rw [← h1, ← h2, h]
  subst e
  refine ⟨rfl, ?_⟩
  have : l * sz = l' * sz := by omega
  exact Nat.eq_of_mul_eq_mul_right (by omega) this

theorem row_index_cast (nd l sz : Nat) :
    ((nd : Nat) : Int) + (l : Int) * (sz : Int) = ((nd + l * sz : Nat) : Int) := by
  push_cast; ring

/-- The row loader copies the cost vector of a node into `cost1`. -/
theorem regularisation.loadRow_spec (costall : Buf ℚ) (nd sz L : Nat) (cost1 : Buf ℚ)
    (row : Nat → ℚ) (hn : nd < sz) (hcs : costall.size = sz * L) (h1s : cost1.size = L)
    (hrow : ∀ l, l < L → costall.data (nd + l * sz) = some (row l)) :
    ∃ out, regularisation.loadRow costall ((nd : Nat) : Int) sz L cost1 = Except.ok out ∧
      out.size = L ∧ ∀ l, l < L → out.data l = some (row l) := by
  obtain ⟨out, hout, hs, hc⟩ := forLoop_inv
    (fun l (t : Buf ℚ) => t.size = L ∧ ∀ l', l' < l → t.data l' = some (row l'))
    (fun l (t : Buf ℚ) => do
      let x ← costall.get (((nd : Nat) : Int) + (l : Int) * sz)
      t.set l x) L 0 cost1 ⟨h1s, fun l' h => by omega⟩
    (by
      rintro l t _ hl ⟨hs, hc⟩
      have hl' : l < L := by omega
      have e1 := Buf.get_nat costall (nd + l * sz) _
        (by have := row_index_lt sz L nd l hn hl'; omega) (hrow l hl')
      refine ⟨⟨t.size, Function.update t.data l (some (row l))⟩, ?_, hs, ?_⟩
      · simp only [row_index_cast, e1, ok_bind]
        exact Buf.set_nat t l _ (by omega)
      · intro l' hl2
        by_cases h : l' = l
        · subst h; simp
        · simp only [Function.update_noteq h]
          exact hc l' (by omega))
  exact ⟨out, hout, hs, fun l hl => hc l (by omega)⟩

/-- The loop that stores the argmin table of a node writes the row of the
node in `allinds` and nothing else. -/
theorem regularisation.storeRow_spec (inds allinds : Buf Int) (nd sz L : Nat) (arg : Nat → Int)
    (hn : nd < sz) (his : inds.size = L) (has : allinds.size = sz * L)
    (hinds : ∀ l, l < L → inds.data l = some (arg l)) :
    ∃ out, forLoop (fun l (t : Buf Int) => do
        let x ← inds.get l
        t.set (((nd : Nat) : Int) + (l : Int) * sz) (toShort x)) 0 L allinds = Except.ok out ∧
      out.size = sz * L ∧ (∀ l, l < L → out.data (nd + l * sz) = some (toShort (arg l))) ∧
      ∀ nd' l, nd' < sz → nd' ≠ nd → out.data (nd' + l * sz) = allinds.data (nd' + l * sz) := by
  obtain ⟨out, hout, hs, hc, hfr⟩ := forLoop_inv
    (fun l (t : Buf Int) => t.size = sz * L ∧
      (∀ l', l' < l → t.data (nd + l' * sz) = some (toShort (arg l'))) ∧
      ∀ nd' l', nd' < sz → nd' ≠ nd → t.data (nd' + l' * sz) = allinds.data (nd' + l' * sz))
    (fun l (t : Buf Int) => do
        let x ← inds.get l
        t.set (((nd : Nat) : Int) + (l : Int) * sz) (toShort x)) L 0 allinds
    ⟨has, fun l' h => by omega, fun _ _ _ _ => rfl⟩
    (by
      rintro l t _ hl ⟨hs, hc, hfr⟩
      have hl' : l < L := by omega
      have e1 := Buf.get_nat inds l _ (by omega) (hinds l hl')
      refine ⟨⟨t.size, Function.update t.data (nd + l * sz) (some (toShort (arg l)))⟩,
        ?_, hs, ?_, ?_⟩
      · simp only [row_index_cast, e1, ok_bind]
        exact Buf.set_nat t (nd + l * sz) _
          (by have := row_index_lt sz L nd l hn hl'; omega)
      · intro l' hl2
        by_cases h : l' = l
        · subst h; simp
        · have hne : nd + l' * sz ≠ nd + l * sz := by
            intro he
            exact h (row_index_inj sz nd l' nd l hn hn he).2
          simp only [Function.update_noteq hne]
          exact hc l' (by omega)
      · intro nd' l' hn' hne
        have hne2 : nd' + l' * sz ≠ nd + l * sz := by
          intro he
          exact hne (row_index_inj sz nd' l' nd l hn' hn he).1
        simp only [Function.update_noteq hne2]
        exact hfr nd' l' hn' hne)
  exact ⟨out, hout, hs, fun l hl => hc l (by omega), hfr⟩

/-- The loop that adds the message to the cost vector of the parent changes
the row of the parent and nothing else. -/
theorem regularisation.addRow_spec (costall msgs : Buf ℚ) (nd sz L : Nat)
    (cur : Nat → Nat → ℚ) (msg : Nat → ℚ)
    (hn : nd < sz) (hcs : costall.size = sz * L) (hms : msgs.size = L)
    (hcur : ∀ nd' l, nd' < sz → l < L → costall.data (nd' + l * sz) = some (cur nd' l))
    (hmsg : ∀ l, l < L → msgs.data l = some (msg l)) :
    ∃ out, forLoop (fun l (t : Buf ℚ) => do
        let a ← t.get (((nd : Nat) : Int) + (l : Int) * sz)
        let b ← msgs.get l
        t.set (((nd : Nat) : Int) + (l : Int) * sz) (a + b)) 0 L costall = Except.ok out ∧
      out.size = sz * L ∧
      ∀ nd' l, nd' < sz → l < L →
        out.data (nd' + l * sz) = some (cur nd' l + if nd' = nd then msg l else 0) := by
  obtain ⟨out, hout, hs, hc⟩ := forLoop_inv
    (fun l (t : Buf ℚ) => t.size = sz * L ∧
      ∀ nd' l', nd' < sz → l' < L → t.data (nd' + l' * sz)
        = some (cur nd' l' + if nd' = nd ∧ l' < l then msg l' else 0))
    (fun l (t : Buf ℚ) => do
        let a ← t.get (((nd : Nat) : Int) + (l : Int) * sz)
        let b ← msgs.get l
        t.set (((nd : Nat) : Int) + (l : Int) * sz) (a + b)) L 0 costall
    ⟨hcs, fun nd' l' hn' hl' => by
      have : ¬ (nd' = nd ∧ l' < 0) := by omega
      rw [if_neg this, add_zero]
      exact hcur nd' l' hn' hl'⟩
    (by
      rintro l t _ hl ⟨hs, hc⟩
      have hl' : l < L := by omega
      have hlt := row_index_lt sz L nd l hn hl'
      have hcell := hc nd l hn hl'
      have hno : ¬ (nd = nd ∧ l < l) := by omega
      rw [if_neg hno, add_zero] at hcell
      have e1 := Buf.get_nat t (nd + l * sz) _ (by omega) hcell
      have e2 := Buf.get_nat msgs l _ (by omega) (hmsg l hl')
      refine ⟨⟨t.size, Function.update t.data (nd + l * sz) (some (cur nd l + msg l))⟩,
        ?_, hs, ?_⟩
      · simp only [row_index_cast, e1, e2, ok_bind]
        exact Buf.set_nat t (nd + l * sz) _ (by omega)
      · intro nd' l' hn' hl2
        by_cases h : nd' = nd ∧ l' = l
        · obtain ⟨rfl, rfl⟩ := h
          have : nd' = nd' ∧ l' < l' + 1 := ⟨rfl, by omega⟩
          rw [if_pos this]
          simp
        · have hne : nd' + l' * sz ≠ nd + l * sz := by
            intro he
            exact h (row_index_inj sz nd' l' nd l hn' hn he)
          simp only [Function.update_noteq hne]
          rw [hc nd' l' hn' hl2]
          congr 2
          by_cases hc1 : nd' = nd ∧ l' < l
          · rw [if_pos hc1, if_pos ⟨hc1.1, by omega⟩]
          · rw [if_neg hc1, if_neg (by omega)])
  refine ⟨out, hout, hs, ?_⟩
  intro nd' l hn' hl
  rw [hc nd' l hn' hl]
  congr 2
  by_cases h : nd' = nd
  · rw [if_pos ⟨h, by omega⟩, if_pos h]
  · rw [if_neg (fun hh => h hh.1), if_neg h]

theorem label_decomp (len l : Nat) (hl : l < len * len * len) :
    labelI len l < len ∧ labelJ len l < len ∧ labelK len l < len ∧
      l = labelI len l + labelJ len l * len + labelK len l * len * len := by
  have hlen : 0 < len := by
    rcases Nat.eq_zero_or_pos len with h | h
    · subst h; simp at hl
    · exact h
  unfold labelI labelJ labelK
  refine ⟨Nat.mod_lt _ hlen, Nat.mod_lt _ hlen, ?_, ?_⟩
  · rw [Nat.div_lt_iff_lt_mul (Nat.mul_pos hlen hlen)]
    calc l < len * len * len := hl
      _ = len * (len * len) := by ring
  · have h1 := Nat.mod_add_div l len
    have h2 := Nat.mod_add_div (l / len) len
    rw [Nat.div_div_eq_div_mul] at h2
    calc l = l % len + len * (l / len) := h1.symm
      _ = l % len + len * ((l / len) % len + len * (l / (len * len))) := by rw [h2]
      _ = l % len + (l / len) % len * len + l / (len * len) * len * len := by ring

theorem label_of_index (len i j k : Nat) (hi : i < len) (hj : j < len) :
    labelI len (i + j * len + k * len * len) = i ∧
    labelJ len (i + j * len + k * len * len) = j ∧
    labelK len (i + j * len + k * len * len) = k :=
  cube_index_decode len i j k hi hj

/-- Specification of `dt3x` on flat label indices: every entry of the result
is the minimum over the input labels of the cost plus the pairwise term, and
`indr` holds a minimiser. -/
theorem dt3x_flat (len : Nat) (r : Buf ℚ) (indr : Buf Int) (R : Nat → ℚ)
    (dx dy dz Bl Bu D : ℚ) (hlen : (len : ℚ) ≤ dt1sq.INF + 1)
    (hrs : r.size = len * len * len) (his : indr.size = len * len * len)
    (hr : ∀ c, c < len * len * len → r.data c = some (R c))
    (hB : ∀ c, c < len * len * len → -Bl ≤ R c ∧ R c ≤ Bu)
    (hdx : |dx| ≤ D) (hdy : |dy| ≤ D) (hdz : |dz| ≤ D) (hB0 : 0 ≤ Bl + Bu)
    (hlim : (Bl + Bu) / 2 + D ^ 2 + D ≤ dt1sq.INF) :
    ∃ r' indr', dt3x r indr len dx dy dz = Except.ok (r', indr') ∧
      r'.size = len * len * len ∧ indr'.size = len * len * len ∧
      ∃ arg : Nat → Nat, ∀ lp, lp < len * len * len →
        arg lp < len * len * len ∧
        r'.data lp = some (R (arg lp) + regularisation.penalty len dx dy dz lp (arg lp)) ∧
        indr'.data lp = some ((arg lp : Nat) : Int) ∧
        ∀ lc, lc < len * len * len →
          R (arg lp) + regularisation.penalty len dx dy dz lp (arg lp)
            ≤ R lc + regularisation.penalty len dx dy dz lp lc := by
  obtain ⟨r', indr', hrun, h1, h2, hpost⟩ := dt3x_spec len r indr R dx dy dz Bl Bu D hlen hrs his
    hr hB hdx hdy hdz hB0 hlim
  have hex : ∀ lp, ∃ a, lp < len * len * len → a < len * len * len ∧
      r'.data lp = some (R a + regularisation.penalty len dx dy dz lp a) ∧
      indr'.data lp = some ((a : Nat) : Int) ∧
      ∀ lc, lc < len * len * len →
        R a + regularisation.penalty len dx dy dz lp a
          ≤ R lc + regularisation.penalty len dx dy dz lp lc := by
    intro lp
    by_cases hlp : lp < len * len * len
    · obtain ⟨hi', hj', hk', hdec⟩ := label_decomp len lp hlp
      obtain ⟨i, j, k, hi, hj, hk, hv, hx, hmin⟩ := hpost _ _ _ hi' hj' hk'
      rw [← hdec] at hv hx
      obtain ⟨d1, d2, d3⟩ := label_of_index len i j k hi hj
      refine ⟨i + j * len + k * len * len, fun _ => ⟨cube_index_lt len i j k hi hj hk, ?_, hx, ?_⟩⟩
      · rw [hv]
        congr 1
        simp only [regularisation.penalty, d1, d2, d3]
        ring
      · intro lc hlc
        obtain ⟨ci, cj, ck, cdec⟩ := label_decomp len lc hlc
        have := hmin _ _ _ ci cj ck
        rw [← cdec] at this
        simp only [regularisation.penalty, d1, d2, d3]
        linarith
    · exact ⟨0, fun h => absurd h hlp⟩
  choose arg harg using hex
  exact ⟨r', indr', hrun, h1, h2, arg, harg⟩

theorem toShort_of_lt (x : Nat) (h : x < 32768) : toShort ((x : Nat) : Int) = ((x : Nat) : Int) := by
  unfold toShort; omega

theorem regularisation.delta_spec (u0 : Buf ℚ) (U : Nat → ℚ) (sz p c : Nat) (quant : ℚ)
    (hs : sz ≤ u0.size) (hu : ∀ n, n < sz → u0.data n = some (U n)) (hp : p < sz) (hc : c < sz)
    (hq : quant ≠ 0) :
    regularisation.delta u0 ((p : Nat) : Int) ((c : Nat) : Int) quant
      = Except.ok ((U p - U c) / quant) := by
  unfold regularisation.delta
  rw [Buf.get_nat u0 p _ (by omega) (hu p hp), Buf.get_nat u0 c _ (by omega) (hu c hc)]
  simp only [ok_bind, if_neg hq, pure_eq_ok]

theorem ValidTree.parent_lt (sz : Nat) (ord par : Nat → Nat) (h : ValidTree sz ord par) (i : Nat)
    (hi1 : 1 ≤ i) (hi : i < sz) : par (ord i) < sz := by
  obtain ⟨i', h1, h2⟩ := h.2.2 i hi1 hi
  rw [← h2]
  exact h.1 i' (by omega)

/-- One step of the first loop of `regularisation`: the message of the node at
position `i` is the minimum over its labels of its current cost plus the
pairwise term; it is added to the cost vector of the parent, and the
minimising labels are stored in the row of the node in `allinds`. -/
theorem regularisation.message_spec (u0 v0 w0 : Buf ℚ) (ordered parents : Buf Int) (hw : Nat)
    (quant : ℚ) (m n o : Nat) (frac : Int) (i : Nat) (s : RegState) (sz len L : Nat)
    (U V W : Nat → ℚ) (ord par : Nat → Nat) (cur : Nat → Nat → ℚ) (Bl Bu D : ℚ)
    (hsz : sz = m * n * o) (hlen : len = hw * 2 + 1) (hLd : L = len * len * len)
    (hin : RegInputs sz u0 v0 w0 ordered parents U V W ord par)
    (hvalid : ValidTree sz ord par) (hm : m ≠ 0) (hn : n ≠ 0) (hfrac : frac ≠ 0)
    (hq : quant ≠ 0) (hi1 : 1 ≤ i) (hi : i < sz) (hL : L ≤ 32767)
    (hcs : s.costall.size = sz * L) (h1s : s.cost1.size = L) (his : s.inds.size = L)
    (has : s.allinds.size = sz * L)
    (hcur : ∀ nd l, nd < sz → l < L → s.costall.data (nd + l * sz) = some (cur nd l))
    (hB : ∀ l, l < L → -Bl ≤ cur (ord i) l ∧ cur (ord i) l ≤ Bu)
    (hdx : |(U (par (ord i)) - U (ord i)) / quant| ≤ D)
    (hdy : |(V (par (ord i)) - V (ord i)) / quant| ≤ D)
    (hdz : |(W (par (ord i)) - W (ord i)) / quant| ≤ D)
    (hB0 : 0 ≤ Bl + Bu) (hlim : (Bl + Bu) / 2 + D ^ 2 + D ≤ dt1sq.INF) :
    ∃ (s1 : RegState) (msg : Nat → ℚ) (arg : Nat → Nat),
      regularisation.message u0 v0 w0 ordered parents hw quant m n o frac i s = Except.ok s1 ∧
      s1.costall.size = sz * L ∧ s1.cost1.size = L ∧ s1.inds.size = L ∧
      s1.allinds.size = sz * L ∧
      s1.selected = s.selected ∧ s1.u1 = s.u1 ∧ s1.v1 = s.v1 ∧ s1.w1 = s.w1 ∧
      (∀ nd l, nd < sz → l < L →
        s1.costall.data (nd + l * sz)
          = some (cur nd l + if nd = par (ord i) then msg l else 0)) ∧
      (∀ l, l < L →
        s1.allinds.data (ord i + l * sz) = some ((arg l : Nat) : Int) ∧ arg l < L) ∧
      (∀ nd l, nd < sz → nd ≠ ord i →
        s1.allinds.data (nd + l * sz) = s.allinds.data (nd + l * sz)) ∧
      ∀ lp, lp < L →
        msg lp = cur (ord i) (arg lp) + regularisation.penalty len
          ((U (par (ord i)) - U (ord i)) / quant) ((V (par (ord i)) - V (ord i)) / quant)
          ((W (par (ord i)) - W (ord i)) / quant) lp (arg lp) ∧
        ∀ lc, lc < L →
          msg lp ≤ cur (ord i) lc + regularisation.penalty len
          ((U (par (ord i)) - U (ord i)) / quant) ((V (par (ord i)) - V (ord i)) / quant)
          ((W (par (ord i)) - W (ord i)) / quant) lp lc := by
  obtain ⟨su, sv, sw, so, sp, hprior, hord, hpar⟩ := hin
  have hc : ord i < sz := hvalid.1 i hi
  have hp : par (ord i) < sz := ValidTree.parent_lt sz ord par hvalid i hi1 hi
  have e1 := Buf.get_nat ordered i _ (by omega) (hord i hi)
  have e2 := Buf.get_nat parents (ord i) _ (by omega) (hpar i hi1 hi)
  have e3 := regularisation.flat_eq m n ((ord i : Nat) : Int) hm hn
  have e4 := regularisation.flat_eq m n ((par (ord i) : Nat) : Int) hm hn
  obtain ⟨row, e5, hrs, hrow⟩ := regularisation.loadRow_spec s.costall (ord i) sz L s.cost1
    (cur (ord i)) hc hcs h1s (fun l hl => hcur (ord i) l hc hl)
  have e6 := regularisation.delta_spec u0 U sz (par (ord i)) (ord i) quant su
    (fun n hn => (hprior n hn).1) hp hc hq
  have e7 := regularisation.delta_spec v0 V sz (par (ord i)) (ord i) quant sv
    (fun n hn => (hprior n hn).2.1) hp hc hq
  have e8 := regularisation.delta_spec w0 W sz (par (ord i)) (ord i) quant sw
    (fun n hn => (hprior n hn).2.2) hp hc hq
  have hlenI : (len : ℚ) ≤ dt1sq.INF + 1 := by
    have h1 : len ≤ L := by
      rw [hLd]
      rcases Nat.eq_zero_or_pos len with h | h
      · omega
      · calc len = len * 1 * 1 := by ring
          _ ≤ len * len * len := by gcongr <;> omega
    have h2 : (len : ℚ) ≤ 32767 := by exact_mod_cast (le_trans h1 hL)
    unfold dt1sq.INF
    linarith
  obtain ⟨r', indr', e9, hr's, hi's, arg, harg⟩ := dt3x_flat len row s.inds (cur (ord i))
    _ _ _ Bl Bu D hlenI (by rw [hrs, hLd]) (by rw [his, hLd])
    (fun c hcl => hrow c (by rw [hLd]; exact hcl)) (fun c hcl => hB c (by rw [hLd]; exact hcl))
    hdx hdy hdz hB0 hlim
  rw [← hLd] at hr's hi's harg
  obtain ⟨al, e10, hals, halrow, halfr⟩ := regularisation.storeRow_spec indr' s.allinds (ord i)
    sz L (fun l => ((arg l : Nat) : Int)) hc hi's has (fun l hl => (harg l hl).2.2.1)
  obtain ⟨ca, e11, hcas, hcarow⟩ := regularisation.addRow_spec s.costall r' (par (ord i)) sz L
    cur (fun l => cur (ord i) (arg l) + regularisation.penalty len
          ((U (par (ord i)) - U (ord i)) / quant) ((V (par (ord i)) - V (ord i)) / quant)
          ((W (par (ord i)) - W (ord i)) / quant) l (arg l)) hp hcs hr's hcur
    (fun l hl => (harg l hl).2.1)
  refine ⟨{ s with costall := ca, cost1 := r', inds := indr', allinds := al }, _, arg, ?_,
    hcas, hr's, hi's, hals, rfl, rfl, rfl, rfl, hcarow, ?_, halfr, ?_⟩
  · unfold regularisation.message
    subst hsz hlen hLd
    simp only [if_neg hfrac, e1, e2, e3, e4, e5, e6, e7, e8, e9, e10, e11, ok_bind, pure_eq_ok]
  · intro l hl
    refine ⟨?_, (harg l hl).1⟩
    rw [halrow l hl, toShort_of_lt _ (by have := (harg l hl).1; omega)]
  · intro lp hlp
    exact ⟨rfl, (harg lp hlp).2.2.2⟩

theorem ValidTree.ord_ne (sz : Nat) (ord par : Nat → Nat) (h : ValidTree sz ord par) (i j : Nat)
    (hi : i < sz) (hj : j < sz) (hne : i ≠ j) : ord i ≠ ord j :=
  fun he => hne (h.2.1 i j hi hj he)

/-- Sum over the first positions of a quantity that is changed at the node of
one of these positions. -/
theorem sum_update_pos (sz : Nat) (ord par : Nat → Nat) (h : ValidTree sz ord par)
    (i i' : Nat) (f : Nat → ℚ) (x : ℚ) (hi' : i' < i) (hi : i ≤ sz) :
    ∑ t in Finset.range i, (f (ord t) + if ord t = ord i' then x else 0)
      = ∑ t in Finset.range i, f (ord t) + x := by
  rw [Finset.sum_add_distrib]
  congr 1
  rw [Finset.sum_eq_single i']
  · simp
  · intro t ht hne
    have ht' : t < i := Finset.mem_range.mp ht
    rw [if_neg (ValidTree.ord_ne sz ord par h t i' (by omega) (by omega) hne)]
  · intro hn
    exact absurd (Finset.mem_range.mpr hi') hn

theorem regularisation.penalty_nonneg (len : Nat) (dx dy dz : ℚ) (lp lc : Nat) :
    0 ≤ regularisation.penalty len dx dy dz lp lc := by
  unfold regularisation.penalty
  positivity

theorem regularisation.penalty_self (len : Nat) (dx dy dz : ℚ) (l : Nat) :
    regularisation.penalty len dx dy dz l l = dx ^ 2 + dy ^ 2 + dz ^ 2 := by
  unfold regularisation.penalty
  ring

theorem sq_le_of_abs_le (x D : ℚ) (h : |x| ≤ D) : x ^ 2 ≤ D ^ 2 := by
  have h0 : 0 ≤ |x| := abs_nonneg x
  have := abs_le.mp h
  nlinarith [sq_abs x]

/-- Folding the node at position `i+1` into its parent: the partial energy
loses the cost of the node and the pairwise term of its edge, and gains the
message at the label of the parent. -/
theorem regularisation.partialEnergy_step (sz len : Nat) (cur cur' : Nat → Nat → ℚ)
    (U V W : Nat → ℚ) (quant : ℚ) (ord par : Nat → Nat) (i : Nat) (lab : Nat → Nat)
    (msg : Nat → ℚ) (h : ValidTree sz ord par) (hi : i + 1 < sz)
    (hcur : ∀ n l, cur' n l = cur n l + if n = par (ord (i + 1)) then msg l else 0) :
    regularisation.partialEnergy len cur' U V W quant ord par i lab
      = regularisation.partialEnergy len cur U V W quant ord par (i + 1) lab
        - (cur (ord (i + 1)) (lab (ord (i + 1)))
            + regularisation.edge len U V W quant ord par lab (i + 1))
        + msg (lab (par (ord (i + 1)))) := by
  obtain ⟨i', hi', hp⟩ := h.2.2 (i + 1) (by omega) hi
  unfold regularisation.partialEnergy
  have e1 : ∑ t in Finset.range (i + 1), cur' (ord t) (lab (ord t))
      = ∑ t in Finset.range (i + 1), cur (ord t) (lab (ord t)) + msg (lab (par (ord (i + 1)))) := by
    have := sum_update_pos sz ord par h (i + 1) i' (fun n => cur n (lab n))
      (msg (lab (par (ord (i + 1))))) hi' (by omega)
    rw [← this]
    apply Finset.sum_congr rfl
    intro t _
    rw [hcur, hp]
    by_cases hc : ord t = par (ord (i + 1))
    · rw [if_pos hc, if_pos hc, hc]
    · rw [if_neg hc, if_neg hc]
  rw [e1, Finset.sum_range_succ _ (i + 1), Finset.sum_Ico_succ_top (by omega : 1 ≤ i + 1)]
  ring

/-- The sum of the costs over the nodes is the sum over the positions of
`ordered`. -/
theorem ValidTree.sum_nodes (sz : Nat) (ord par : Nat → Nat) (h : ValidTree sz ord par)
    (f : Nat → ℚ) : ∑ t in Finset.range sz, f (ord t) = ∑ n in Finset.range sz, f n := by
  have hinj : Set.InjOn ord (Finset.range sz : Set Nat) := by
    intro a ha b hb hab
    exact h.2.1 a b (Finset.mem_range.mp ha) (Finset.mem_range.mp hb) hab
  have himg : (Finset.range sz).image ord = Finset.range sz := by
    apply Finset.eq_of_subset_of_card_le
    · intro x hx
      obtain ⟨a, ha, rfl⟩ := Finset.mem_image.mp hx
      exact Finset.mem_range.mpr (h.1 a (Finset.mem_range.mp ha))
    · rw [Finset.card_image_of_injOn hinj]
  rw [← Finset.sum_image (f := f) (s := Finset.range sz) (g := ord)
    (fun a ha b hb hab => hinj ha hb hab), himg]

theorem regularisation.partialEnergy_top (sz len : Nat) (C : Nat → Nat → ℚ) (U V W : Nat → ℚ)
    (quant : ℚ) (ord par : Nat → Nat) (lab : Nat → Nat) (h : ValidTree sz ord par)
    (hsz : 1 ≤ sz) :
    regularisation.partialEnergy len C U V W quant ord par (sz - 1) lab
      = regularisation.energy sz len C U V W quant ord par lab := by
  unfold regularisation.partialEnergy regularisation.energy
  have e : sz - 1 + 1 = sz := by omega
  rw [e, ValidTree.sum_nodes sz ord par h (fun n => C n (lab n))]

theorem regularisation.partialEnergy_zero (len : Nat) (cur : Nat → Nat → ℚ) (U V W : Nat → ℚ)
    (quant : ℚ) (ord par : Nat → Nat) (lab : Nat → Nat) :
    regularisation.partialEnergy len cur U V W quant ord par 0 lab
      = cur (ord 0) (lab (ord 0)) := by
  unfold regularisation.partialEnergy
  simp

/-- Bounds on a message: it is at least the lower bound of the costs of the
child and at most the cost of the same label plus the pairwise term at equal
labels. -/
theorem regularisation.message_bounds (len L : Nat) (row msg : Nat → ℚ) (arg : Nat → Nat)
    (dx dy dz D lo hi3 : ℚ)
    (hrow : ∀ l, l < L → lo ≤ row l ∧ row l + 3 * D ^ 2 ≤ hi3)
    (hdx : |dx| ≤ D) (hdy : |dy| ≤ D) (hdz : |dz| ≤ D)
    (harg : ∀ l, l < L → arg l < L)
    (hmsg : ∀ lp, lp < L →
      msg lp = row (arg lp) + regularisation.penalty len dx dy dz lp (arg lp) ∧
      ∀ lc, lc < L → msg lp ≤ row lc + regularisation.penalty len dx dy dz lp lc)
    (l : Nat) (hl : l < L) : lo ≤ msg l ∧ msg l ≤ hi3 := by
  constructor
  · rw [(hmsg l hl).1]
    have := (hrow (arg l) (harg l hl)).1
    have := regularisation.penalty_nonneg len dx dy dz l (arg l)
    linarith
  · have h1 := (hmsg l hl).2 l hl
    rw [regularisation.penalty_self] at h1
    have := (hrow l hl).2
    have := sq_le_of_abs_le dx D hdx
    have := sq_le_of_abs_le dy D hdy
    have := sq_le_of_abs_le dz D hdz
    linarith

/-- Arithmetic of the bound that keeps the scans of `dt1sq` inside their
arrays for a node of weight `w`. -/
theorem regularisation.weight_limit (w B D S : ℚ) (hw1 : 1 ≤ w) (hwS : w ≤ S) (hB0 : 0 ≤ B)
    (hlim : S * (B + 2 * D ^ 2) + D ≤ dt1sq.INF) :
    0 ≤ w * B + (w * (B + 3 * D ^ 2) - 3 * D ^ 2) ∧
    (w * B + (w * (B + 3 * D ^ 2) - 3 * D ^ 2)) / 2 + D ^ 2 + D ≤ dt1sq.INF := by
  have hD2 : 0 ≤ D ^ 2 := sq_nonneg D
  have h1 : 0 ≤ (w - 1) * B := mul_nonneg (by linarith) hB0
  have h2 : 0 ≤ (w - 1) * D ^ 2 := mul_nonneg (by linarith) hD2
  have h3 : 0 ≤ (S - w) * B := mul_nonneg (by linarith) hB0
  have h4 : 0 ≤ (S - w) * D ^ 2 := mul_nonneg (by linarith) hD2
  constructor
  · nlinarith
  · nlinarith

theorem regularisation.foldInv_init (sz len L : Nat) (B D : ℚ) (C : Nat → Nat → ℚ)
    (U V W : Nat → ℚ) (quant : ℚ) (ord par : Nat → Nat) (s0 : RegState)
    (hvalid : ValidTree sz ord par) (hsz : 1 ≤ sz)
    (hcs : s0.costall.size = sz * L) (h1s : s0.cost1.size = L) (his : s0.inds.size = L)
    (has : s0.allinds.size = sz * L)
    (hC : ∀ nd l, nd < sz → l < L → s0.costall.data (nd + l * sz) = some (C nd l))
    (hCB : ∀ nd l, nd < sz → l < L → -B ≤ C nd l ∧ C nd l ≤ B) :
    regularisation.FoldInv sz len L B D C U V W quant ord par s0 (sz - 1) s0 := by
  refine ⟨hcs, h1s, his, has, rfl, rfl, rfl, rfl, C, fun _ _ => 0, fun _ => 1, hC, ?_,
    fun _ => le_refl _, ?_, ?_, ?_, ?_⟩
  · intro t l h1 h2 _
    omega
  · have : ((sz - 1 : Nat) : ℚ) = (sz : ℚ) - 1 := by
      rw [Nat.cast_sub hsz]; simp
    simp only [Finset.sum_const, Finset.card_range, nsmul_eq_mul, mul_one]
    push_cast
    linarith
  · intro nd l hn hl
    have := hCB nd l hn hl
    simp only [one_mul]
    constructor <;> linarith
  · intro lab _
    rw [regularisation.partialEnergy_top sz len C U V W quant ord par lab hvalid hsz]
  · intro lab _ _
    rw [regularisation.partialEnergy_top sz len C U V W quant ord par lab hvalid hsz]

/-- One iteration of the first loop of `regularisation` carries the
invariant from position `k+1` to position `k`. -/
theorem regularisation.foldInv_step (u0 v0 w0 : Buf ℚ) (ordered parents : Buf Int) (hw : Nat)
    (quant : ℚ) (m n o : Nat) (frac : Int) (k : Nat) (s0 s : RegState) (sz len L : Nat)
    (U V W : Nat → ℚ) (ord par : Nat → Nat) (C : Nat → Nat → ℚ) (B D : ℚ)
    (hsz : sz = m * n * o) (hlen : len = hw * 2 + 1) (hLd : L = len * len * len)
    (hin : RegInputs sz u0 v0 w0 ordered parents U V W ord par)
    (hvalid : ValidTree sz ord par) (hm : m ≠ 0) (hn : n ≠ 0) (hfrac : frac ≠ 0)
    (hq : quant ≠ 0) (hk : k + 1 < sz) (hL : L ≤ 32767)
    (hD : ∀ t, 1 ≤ t → t < sz →
      |(U (par (ord t)) - U (ord t)) / quant| ≤ D ∧
      |(V (par (ord t)) - V (ord t)) / quant| ≤ D ∧
      |(W (par (ord t)) - W (ord t)) / quant| ≤ D)
    (hB0 : 0 ≤ B) (hlim : (sz : ℚ) * (B + 2 * D ^ 2) + D ≤ dt1sq.INF)
    (hinv : regularisation.FoldInv sz len L B D C U V W quant ord par s0 (k + 1) s) :
    ∃ s1, regularisation.message u0 v0 w0 ordered parents hw quant m n o frac (k + 1) s
        = Except.ok s1 ∧
      regularisation.FoldInv sz len L B D C U V W quant ord par s0 k s1 := by
  obtain ⟨hcs, h1s, his, has, hsel, hu1, hv1, hw1, cur, tbl, wt, hcur, htbl, hwt1, hwtS, hbd,
    hA, hBq⟩ := hinv
  obtain ⟨i', hi', hp⟩ := hvalid.2.2 (k + 1) (by omega) hk
  have hc : ord (k + 1) < sz := hvalid.1 (k + 1) hk
  have hpl : par (ord (k + 1)) < sz := ValidTree.parent_lt sz ord par hvalid (k + 1) (by omega) hk
  obtain ⟨hdx, hdy, hdz⟩ := hD (k + 1) (by omega) hk
  have hwc : wt (ord (k + 1)) ≤ (sz : ℚ) := by
    refine le_trans ?_ hwtS
    exact Finset.single_le_sum (f := fun t => wt (ord t))
      (fun t _ => le_trans zero_le_one (hwt1 (ord t)))
      (Finset.mem_range.mpr (by omega : k + 1 < k + 1 + 1))
  obtain ⟨hl0, hl1⟩ := regularisation.weight_limit (wt (ord (k + 1))) B D sz
    (hwt1 _) hwc hB0 hlim
  obtain ⟨s1, msg, arg, hrun, gcs, g1s, gis, gas, gsel, gu1, gv1, gw1, gcur, garg, gfr, gmsg⟩ :=
    regularisation.message_spec u0 v0 w0 ordered parents hw quant m n o frac (k + 1) s sz len L
      U V W ord par cur (wt (ord (k + 1)) * B)
      (wt (ord (k + 1)) * (B + 3 * D ^ 2) - 3 * D ^ 2) D hsz hlen hLd hin hvalid hm hn hfrac hq
      (by omega) hk hL hcs h1s his has hcur
      (fun l hl => by
        have := hbd (ord (k + 1)) l hc hl
        constructor <;> linarith [this.1, this.2])
      hdx hdy hdz hl0 hl1
  have hmb := regularisation.message_bounds len L (cur (ord (k + 1))) msg arg _ _ _ D
    (-(wt (ord (k + 1)) * B)) (wt (ord (k + 1)) * (B + 3 * D ^ 2))
    (fun l hl => hbd (ord (k + 1)) l hc hl) hdx hdy hdz (fun l hl => (garg l hl).2) gmsg
  have hstep := fun lab => regularisation.partialEnergy_step sz len cur
    (fun nd l => cur nd l + if nd = par (ord (k + 1)) then msg l else 0) U V W quant ord par k lab
    msg hvalid hk (fun _ _ => rfl)
  refine ⟨s1, hrun, gcs, g1s, gis, gas, gsel.trans hsel, gu1.trans hu1, gv1.trans hv1,
    gw1.trans hw1, fun nd l => cur nd l + if nd = par (ord (k + 1)) then msg l else 0,
    fun nd l => if nd = ord (k + 1) then arg l else tbl nd l,
    fun nd => wt nd + if nd = par (ord (k + 1)) then wt (ord (k + 1)) else 0,
    gcur, ?_, ?_, ?_, ?_, ?_, ?_⟩
  · intro t l h1 h2 hl
    by_cases ht : t = k + 1
    · subst ht
      simp only [if_true]
      exact garg l hl
    · have hne : ord t ≠ ord (k + 1) :=
        ValidTree.ord_ne sz ord par hvalid t (k + 1) h2 hk ht
      simp only [if_neg hne]
      rw [gfr (ord t) l (hvalid.1 t h2) hne]
      exact htbl t l (by omega) h2 hl
  · intro nd
    have := hwt1 nd
    have := hwt1 (ord (k + 1))
    by_cases hnp : nd = par (ord (k + 1))
    · simp only [if_pos hnp]; linarith
    · simp only [if_neg hnp]; linarith
  · have := sum_update_pos sz ord par hvalid (k + 1) i' wt (wt (ord (k + 1))) hi' (by omega)
    rw [hp] at this
    rw [this, ← Finset.sum_range_succ (fun t => wt (ord t)) (k + 1)]
    exact hwtS
  · intro nd l hnd hl
    have h1 := hbd nd l hnd hl
    by_cases hnp : nd = par (ord (k + 1))
    · have h2 := hmb l hl
      simp only [if_pos hnp]
      constructor <;> nlinarith [h1.1, h1.2, h2.1, h2.2]
    · simp only [if_neg hnp, add_zero]
      exact h1
  · intro lab hlab
    rw [hstep lab]
    have h1 := hA lab hlab
    have h2 := (gmsg (lab (par (ord (k + 1)))) (hlab _ hpl)).2 (lab (ord (k + 1))) (hlab _ hc)
    have e : regularisation.edge len U V W quant ord par lab (k + 1)
        = regularisation.penalty len ((U (par (ord (k + 1))) - U (ord (k + 1))) / quant)
          ((V (par (ord (k + 1))) - V (ord (k + 1))) / quant)
          ((W (par (ord (k + 1))) - W (ord (k + 1))) / quant)
          (lab (par (ord (k + 1)))) (lab (ord (k + 1))) := rfl
    rw [e]
    linarith
  · intro lab hlab hcons
    rw [hstep lab]
    have h1 := hBq lab hlab (fun t h1 h2 => by
      have := hcons t (by omega) h2
      have hne : ord t ≠ ord (k + 1) :=
        ValidTree.ord_ne sz ord par hvalid t (k + 1) h2 hk (by omega)
      simp only [if_neg hne] at this
      exact this)
    have h3 := hcons (k + 1) (by omega) hk
    simp only [if_true] at h3
    have h2 := (gmsg (lab (par (ord (k + 1)))) (hlab _ hpl)).1
    rw [← h3] at h2
    have e : regularisation.edge len U V W quant ord par lab (k + 1)
        = regularisation.penalty len ((U (par (ord (k + 1))) - U (ord (k + 1))) / quant)
          ((V (par (ord (k + 1))) - V (ord (k + 1))) / quant)
          ((W (par (ord (k + 1))) - W (ord (k + 1))) / quant)
          (lab (par (ord (k + 1)))) (lab (ord (k + 1))) := rfl
    rw [e]
    linarith

theorem labelTable_flat (hw : Nat) (quant : ℚ) :
    ∃ tab, labelTable hw quant = Except.ok tab ∧ IsLabelTable hw quant tab := by
  obtain ⟨tab, h, hx, hy, hz, hc⟩ := labelTable_spec hw quant
  refine ⟨tab, h, hx, hy, hz, ?_⟩
  intro l hl
  obtain ⟨hi, hj, hk, hdec⟩ := label_decomp (hw * 2 + 1) l hl
  have := hc _ _ _ hi hj hk
  rw [← hdec] at this
  exact this

/-- Effect of `commit`: the label and the three output components of one
control point are written. -/
theorem regularisation.commit_spec (hw : Nat) (quant : ℚ) (tab : LabelTable) (u0 v0 w0 : Buf ℚ)
    (U V W : Nat → ℚ) (sz c l : Nat) (s : RegState) (htab : IsLabelTable hw quant tab)
    (su : sz ≤ u0.size) (sv : sz ≤ v0.size) (sw : sz ≤ w0.size)
    (hprior : ∀ n, n < sz → u0.data n = some (U n) ∧ v0.data n = some (V n) ∧
      w0.data n = some (W n))
    (hc : c < sz) (hl : l < (hw * 2 + 1) * (hw * 2 + 1) * (hw * 2 + 1))
    (hss : sz ≤ s.selected.size) (hu1 : sz ≤ s.u1.size) (hv1 : sz ≤ s.v1.size)
    (hw1 : sz ≤ s.w1.size) :
    regularisation.commit tab u0 v0 w0 ((c : Nat) : Int) ((l : Nat) : Int) s
      = Except.ok { s with
          selected := ⟨s.selected.size, Function.update s.selected.data c (some ((l : Nat) : Int))⟩
          u1 := ⟨s.u1.size, Function.update s.u1.data c
            (some (labelOffset hw quant (labelJ (hw * 2 + 1) l) + U c))⟩
          v1 := ⟨s.v1.size, Function.update s.v1.data c
            (some (labelOffset hw quant (labelI (hw * 2 + 1) l) + V c))⟩
          w1 := ⟨s.w1.size, Function.update s.w1.data c
            (some (labelOffset hw quant (labelK (hw * 2 + 1) l) + W c))⟩ } := by
  obtain ⟨hx, hy, hz, hcells⟩ := htab
  obtain ⟨cx, cy, cz⟩ := hcells l hl
  obtain ⟨pu, pv, pw⟩ := hprior c hc
  unfold regularisation.commit
  simp only [Buf.set_nat s.selected c _ (by omega), Buf.set_nat s.u1 c _ (by omega),
    Buf.set_nat s.v1 c _ (by omega), Buf.set_nat s.w1 c _ (by omega),
    Buf.get_nat tab.xs l _ (by omega) cx, Buf.get_nat tab.ys l _ (by omega) cy,
    Buf.get_nat tab.zs l _ (by omega) cz, Buf.get_nat u0 c _ (by omega) pu,
    Buf.get_nat v0 c _ (by omega) pv, Buf.get_nat w0 c _ (by omega) pw, ok_bind, pure_eq_ok]

/-- The loop of the root that fills its row of `allinds` leaves the rows of
the other nodes unchanged. -/
theorem regularisation.rootRow_spec (allinds : Buf Int) (nd sz L : Nat)
    (hn : nd < sz) (has : allinds.size = sz * L) :
    ∃ out, forLoop (fun l (t : Buf Int) =>
        t.set (((nd : Nat) : Int) + (l : Int) * sz) (toShort l)) 0 L allinds = Except.ok out ∧
      out.size = sz * L ∧
      ∀ nd' l, nd' < sz → nd' ≠ nd → out.data (nd' + l * sz) = allinds.data (nd' + l * sz) := by
  obtain ⟨out, hout, hs, hfr⟩ := forLoop_inv
    (fun _ (t : Buf Int) => t.size = sz * L ∧
      ∀ nd' l', nd' < sz → nd' ≠ nd → t.data (nd' + l' * sz) = allinds.data (nd' + l' * sz))
    (fun l (t : Buf Int) => t.set (((nd : Nat) : Int) + (l : Int) * sz) (toShort l)) L 0 allinds
    ⟨has, fun _ _ _ _ => rfl⟩
    (by
      rintro l t _ hl ⟨hs, hfr⟩
      have hl' : l < L := by omega
      refine ⟨⟨t.size, Function.update t.data (nd + l * sz) (some (toShort l))⟩, ?_, hs, ?_⟩
      · simp only [row_index_cast]
        exact Buf.set_nat t (nd + l * sz) _
          (by have := row_index_lt sz L nd l hn hl'; omega)
      · intro nd' l' hn' hne
        have hne2 : nd' + l' * sz ≠ nd + l * sz := by
          intro he
          exact hne (row_index_inj sz nd' l' nd l hn' hn he).1
        simp only [Function.update_noteq hne2]
        exact hfr nd' l' hn' hne)
  exact ⟨out, hout, hs, hfr⟩

/-- Existential form of the effect of `commit`. -/
theorem regularisation.commit_ok (hw : Nat) (quant : ℚ) (tab : LabelTable) (u0 v0 w0 : Buf ℚ)
    (U V W : Nat → ℚ) (sz c l : Nat) (s : RegState) (htab : IsLabelTable hw quant tab)
    (su : sz ≤ u0.size) (sv : sz ≤ v0.size) (sw : sz ≤ w0.size)
    (hprior : ∀ n, n < sz → u0.data n = some (U n) ∧ v0.data n = some (V n) ∧
      w0.data n = some (W n))
    (hc : c < sz) (hl : l < (hw * 2 + 1) * (hw * 2 + 1) * (hw * 2 + 1))
    (hss : sz ≤ s.selected.size) (hu1 : sz ≤ s.u1.size) (hv1 : sz ≤ s.v1.size)
    (hw1 : sz ≤ s.w1.size) :
    ∃ s1, regularisation.commit tab u0 v0 w0 ((c : Nat) : Int) ((l : Nat) : Int) s
        = Except.ok s1 ∧
      s1.costall = s.costall ∧ s1.allinds = s.allinds ∧
      s1.selected.size = s.selected.size ∧ s1.u1.size = s.u1.size ∧
      s1.v1.size = s.v1.size ∧ s1.w1.size = s.w1.size ∧
      s1.selected.data = Function.update s.selected.data c (some ((l : Nat) : Int)) ∧
      s1.u1.data = Function.update s.u1.data c
        (some (labelOffset hw quant (labelJ (hw * 2 + 1) l) + U c)) ∧
      s1.v1.data = Function.update s.v1.data c
        (some (labelOffset hw quant (labelI (hw * 2 + 1) l) + V c)) ∧
      s1.w1.data = Function.update s.w1.data c
        (some (labelOffset hw quant (labelK (hw * 2 + 1) l) + W c)) :=
  ⟨_, regularisation.commit_spec hw quant tab u0 v0 w0 U V W sz c l s htab su sv sw hprior hc hl
    hss hu1 hv1 hw1, rfl, rfl, rfl, rfl, rfl, rfl, rfl, rfl, rfl, rfl⟩

/-- The root selects the first label of minimal aggregated cost. -/
theorem regularisation.root_spec (hw : Nat) (quant : ℚ) (tab : LabelTable) (u0 v0 w0 : Buf ℚ)
    (ordered parents : Buf Int) (m n o : Nat) (s : RegState) (sz L : Nat)
    (U V W : Nat → ℚ) (ord par : Nat → Nat) (cur : Nat → Nat → ℚ) (tbl : Nat → Nat → Nat)
    (hsz : sz = m * n * o) (hLd : L = (hw * 2 + 1) * (hw * 2 + 1) * (hw * 2 + 1))
    (htab : IsLabelTable hw quant tab)
    (hin : RegInputs sz u0 v0 w0 ordered parents U V W ord par)
    (hvalid : ValidTree sz ord par) (hm : m ≠ 0) (hn : n ≠ 0) (hsz1 : 1 ≤ sz)
    (hcs : s.costall.size = sz * L) (h1s : s.cost1.size = L) (has : s.allinds.size = sz * L)
    (hss : sz ≤ s.selected.size) (hu1 : sz ≤ s.u1.size) (hv1 : sz ≤ s.v1.size)
    (hw1 : sz ≤ s.w1.size)
    (hcur : ∀ nd l, nd < sz → l < L → s.costall.data (nd + l * sz) = some (cur nd l)) :
    ∃ s1 r, regularisation.root tab u0 v0 w0 ordered hw m n o s = Except.ok s1 ∧ r < L ∧
      s1.allinds.size = sz * L ∧
      (∀ l, l < L → cur (ord 0) r ≤ cur (ord 0) l) ∧
      (∀ l, l < r → cur (ord 0) r < cur (ord 0) l) ∧
      (∀ t l, 1 ≤ t → t < sz →
        s1.allinds.data (ord t + l * sz) = s.allinds.data (ord t + l * sz)) ∧
      regularisation.SelInv sz hw quant U V W ord par tbl r s1.allinds 1 s1 := by
  obtain ⟨su, sv, sw, so, sp, hprior, hord, hpar⟩ := hin
  have hL1 : 1 ≤ L := by
    rw [hLd]
    exact Nat.mul_pos (Nat.mul_pos (by omega) (by omega)) (by omega)
  have hc : ord 0 < sz := hvalid.1 0 (by omega)
  have e1 : ordered.get 0 = Except.ok ((ord 0 : Nat) : Int) := by
    have := Buf.get_nat ordered 0 _ (by omega) (hord 0 (by omega))
    rw [Nat.cast_zero] at this
    exact this
  have e3 := regularisation.flat_eq m n ((ord 0 : Nat) : Int) hm hn
  obtain ⟨row, e5, hrs, hrow⟩ := regularisation.loadRow_spec s.costall (ord 0) sz L s.cost1
    (cur (ord 0)) hc hcs h1s (fun l hl => hcur (ord 0) l hc hl)
  obtain ⟨res, e6, p, hidx, hpL, hval, hmin, hfirst, _⟩ := minimumIndA_spec row L (cur (ord 0))
    hL1 (by omega) hrow
  obtain ⟨al, e7, hals, halfr⟩ := regularisation.rootRow_spec s.allinds (ord 0) sz L hc has
  obtain ⟨s1, e8, c1, c2, c3, c4, c5, c6, c7, c8, c9, c10⟩ :=
    regularisation.commit_ok hw quant tab u0 v0 w0 U V W sz (ord 0) p
    { s with cost1 := row, allinds := al } htab su sv sw hprior hc (by rw [← hLd]; exact hpL)
    hss hu1 hv1 hw1
  have hrun : regularisation.root tab u0 v0 w0 ordered hw m n o s = Except.ok s1 := by
    unfold regularisation.root
    subst hsz hLd
    simp only [e1, e3, e5, e6, e7, hidx, ok_bind]
    exact e8
  refine ⟨s1, p, hrun, hpL, by rw [c2]; exact hals, ?_, ?_, ?_, ?_⟩
  · intro l hl
    rw [← hval]
    exact hmin l hl
  · intro l hl
    rw [← hval]
    exact hfirst l hl
  · intro t l h1 h2
    rw [c2]
    exact halfr (ord t) l (hvalid.1 t h2)
      (ValidTree.ord_ne sz ord par hvalid t 0 h2 (by omega) (by omega))
  · refine ⟨rfl, by rw [c3]; exact hss, by rw [c4]; exact hu1, by rw [c5]; exact hv1,
      by rw [c6]; exact hw1, fun _ => p, fun _ => by rw [← hLd]; exact hpL, rfl, ?_, ?_⟩
    · intro t ht
      have : t = 0 := by omega
      subst this
      rw [c7, c8, c9, c10]
      simp
    · intro t h1 h2
      omega

/-- One iteration of the second loop of `regularisation`: the node at position
`i` takes the label stored in its argmin table at the label of its parent. -/
theorem regularisation.select_step (hw : Nat) (quant : ℚ) (tab : LabelTable) (u0 v0 w0 : Buf ℚ)
    (ordered parents : Buf Int) (m n o : Nat) (s : RegState) (sz L i r : Nat)
    (U V W : Nat → ℚ) (ord par : Nat → Nat) (tbl : Nat → Nat → Nat) (allinds : Buf Int)
    (hsz : sz = m * n * o) (hLd : L = (hw * 2 + 1) * (hw * 2 + 1) * (hw * 2 + 1))
    (htab : IsLabelTable hw quant tab)
    (hin : RegInputs sz u0 v0 w0 ordered parents U V W ord par)
    (hvalid : ValidTree sz ord par) (hm : m ≠ 0) (hn : n ≠ 0) (hi1 : 1 ≤ i) (hi : i < sz)
    (has : allinds.size = sz * L)
    (htbl : ∀ t l, 1 ≤ t → t < sz → l < L →
      allinds.data (ord t + l * sz) = some ((tbl (ord t) l : Nat) : Int) ∧ tbl (ord t) l < L)
    (hinv : regularisation.SelInv sz hw quant U V W ord par tbl r allinds i s) :
    ∃ s1, regularisation.select tab u0 v0 w0 ordered parents m n o i s = Except.ok s1 ∧
      regularisation.SelInv sz hw quant U V W ord par tbl r allinds (i + 1) s1 := by
  obtain ⟨hal, hss, hu1, hv1, hw1, sel, hselL, hroot, hcells, hcons⟩ := hinv
  obtain ⟨su, sv, sw, so, sp, hprior, hord, hpar⟩ := hin
  obtain ⟨i', hi', hp⟩ := hvalid.2.2 i hi1 hi
  have hc : ord i < sz := hvalid.1 i hi
  have hpl : par (ord i) < sz := ValidTree.parent_lt sz ord par hvalid i hi1 hi
  have e1 := Buf.get_nat ordered i _ (by omega) (hord i hi)
  have e2 := Buf.get_nat parents (ord i) _ (by omega) (hpar i hi1 hi)
  have e3 := regularisation.flat_eq m n ((ord i : Nat) : Int) hm hn
  have e4 := regularisation.flat_eq m n ((par (ord i) : Nat) : Int) hm hn
  have hselp : s.selected.data (par (ord i)) = some ((sel (par (ord i)) : Nat) : Int) := by
    rw [← hp]
    exact (hcells i' hi').1
  have e5 := Buf.get_nat s.selected (par (ord i)) _ (by omega) hselp
  have hrow := htbl i (sel (par (ord i))) hi1 hi (by rw [hLd]; exact hselL _)
  have hidx : ((ord i : Nat) : Int) + ((sel (par (ord i)) : Nat) : Int) * (m : Int) * (n : Int)
      * (o : Int) = ((ord i + sel (par (ord i)) * sz : Nat) : Int) := by
    rw [hsz]; push_cast; ring
  have e6 := Buf.get_nat allinds (ord i + sel (par (ord i)) * sz) _
    (by
      have := row_index_lt sz L (ord i) (sel (par (ord i))) hc (by rw [hLd]; exact hselL _)
      omega) hrow.1
  obtain ⟨s1, e7, c1, c2, c3, c4, c5, c6, c7, c8, c9, c10⟩ :=
    regularisation.commit_ok hw quant tab u0 v0 w0 U V W sz (ord i)
      (tbl (ord i) (sel (par (ord i)))) s htab su sv sw hprior hc
      (by rw [← hLd]; exact hrow.2) hss hu1 hv1 hw1
  have hne : ∀ t, t < i → ord t ≠ ord i := fun t ht =>
    ValidTree.ord_ne sz ord par hvalid t i (by omega) hi (by omega)
  have hpne : par (ord i) ≠ ord i := by
    rw [← hp]
    exact hne i' hi'
  refine ⟨s1, ?_, c2.trans hal, by rw [c3]; exact hss, by rw [c4]; exact hu1,
    by rw [c5]; exact hv1, by rw [c6]; exact hw1,
    Function.update sel (ord i) (tbl (ord i) (sel (par (ord i)))), ?_, ?_, ?_, ?_⟩
  · unfold regularisation.select
    simp only [e1, e2, e3, e4, e5, ok_bind, hidx, hal, e6]
    exact e7
  · intro nd
    by_cases h : nd = ord i
    · subst h
      simp only [Function.update_same]
      rw [← hLd]
      exact hrow.2
    · simp only [Function.update_noteq h]
      exact hselL nd
  · rw [Function.update_noteq]
    · exact hroot
    · exact hne 0 (by omega)
  · intro t ht
    rw [c7, c8, c9, c10]
    by_cases h : t = i
    · subst h
      simp only [Function.update_same]
      exact ⟨trivial, trivial, trivial, trivial⟩
    · have h' := hne t (by omega)
      simp only [Function.update_noteq h']
      exact hcells t (by omega)
  · intro t h1 h2
    by_cases h : t = i
    · subst h
      simp only [Function.update_same, Function.update_noteq hpne]
    · have h' := hne t (by omega)
      obtain ⟨t', ht', hpt⟩ := hvalid.2.2 t h1 (by omega)
      have hp' : par (ord t) ≠ ord i := by
        rw [← hpt]
        exact hne t' (by omega)
      simp only [Function.update_noteq h', Function.update_noteq hp']
      exact hcons t h1 (by omega)

theorem regularisation.zeroRow_spec (L : Nat) :
    ∃ out, forLoop (fun i (t : Buf ℚ) => t.set i 0) 0 L (Buf.new L) = Except.ok out ∧
      out.size = L := by
  obtain ⟨out, hout, hs⟩ := forLoop_inv (fun _ (t : Buf ℚ) => t.size = L)
    (fun i (t : Buf ℚ) => t.set i 0) L 0 (Buf.new L) rfl
    (by
      intro i t _ hi hs
      exact ⟨_, Buf.set_nat t i 0 (by omega), hs⟩)
  exact ⟨out, hout, hs⟩

/-- Specification of `regularisation`: the run succeeds; the root takes the
first label of minimal aggregated cost `cur0`, every other node the entry of
its argmin table `tbl` at the label of its parent; the aggregated cost of a
root label bounds the energy of every labelling with this root label from
below and is attained by the labellings that follow the argmin tables. -/
theorem regularisation_spec (u1 v1 w1 u0 v0 w0 costall : Buf ℚ) (hw step1 : Nat) (quant : ℚ)
    (ordered parents : Buf Int) (image_m image_n image_o : Nat) (sz L : Nat)
    (U V W : Nat → ℚ) (ord par : Nat → Nat) (C : Nat → Nat → ℚ) (B D : ℚ)
    (hstep : step1 ≠ 0)
    (hsz : sz = image_m / step1 * (image_n / step1) * (image_o / step1))
    (hLd : L = (hw * 2 + 1) * (hw * 2 + 1) * (hw * 2 + 1))
    (hsize : sz = 1 ∨ 25 ≤ sz) (hhw : hw ≤ 15) (hq : quant ≠ 0)
    (hin : RegInputs sz u0 v0 w0 ordered parents U V W ord par)
    (hvalid : ValidTree sz ord par)
    (hcs : costall.size = sz * L)
    (hu1 : sz ≤ u1.size) (hv1 : sz ≤ v1.size) (hw1 : sz ≤ w1.size)
    (hC : ∀ nd l, nd < sz → l < L → costall.data (nd + l * sz) = some (C nd l))
    (hCB : ∀ nd l, nd < sz → l < L → -B ≤ C nd l ∧ C nd l ≤ B)
    (hD : ∀ t, 1 ≤ t → t < sz →
      |(U (par (ord t)) - U (ord t)) / quant| ≤ D ∧
      |(V (par (ord t)) - V (ord t)) / quant| ≤ D ∧
      |(W (par (ord t)) - W (ord t)) / quant| ≤ D)
    (hB0 : 0 ≤ B) (hlim : (sz : ℚ) * (B + 2 * D ^ 2) + D ≤ dt1sq.INF) :
    ∃ s, regularisation u1 v1 w1 u0 v0 w0 costall hw step1 quant ordered parents
        image_m image_n image_o = Except.ok s ∧
      ∃ (cur0 : Nat → ℚ) (tbl : Nat → Nat → Nat) (sel : Nat → Nat),
        (∀ nd, sel nd < L) ∧
        (∀ t, t < sz →
          s.selected.data (ord t) = some ((sel (ord t) : Nat) : Int) ∧
          s.u1.data (ord t)
            = some (labelOffset hw quant (labelJ (hw * 2 + 1) (sel (ord t))) + U (ord t)) ∧
          s.v1.data (ord t)
            = some (labelOffset hw quant (labelI (hw * 2 + 1) (sel (ord t))) + V (ord t)) ∧
          s.w1.data (ord t)
            = some (labelOffset hw quant (labelK (hw * 2 + 1) (sel (ord t))) + W (ord t))) ∧
        (∀ l, l < L → cur0 (sel (ord 0)) ≤ cur0 l) ∧
        (∀ l, l < sel (ord 0) → cur0 (sel (ord 0)) < cur0 l) ∧
        (∀ t, 1 ≤ t → t < sz → sel (ord t) = tbl (ord t) (sel (par (ord t)))) ∧
        (∀ t l, 1 ≤ t → t < sz → l < L → tbl (ord t) l < L) ∧
        (∀ lab : Nat → Nat, (∀ nd, nd < sz → lab nd < L) →
          cur0 (lab (ord 0))
            ≤ regularisation.energy sz (hw * 2 + 1) C U V W quant ord par lab) ∧
        (∀ lab : Nat → Nat, (∀ nd, nd < sz → lab nd < L) →
          (∀ t, 1 ≤ t → t < sz → lab (ord t) = tbl (ord t) (lab (par (ord t)))) →
          cur0 (lab (ord 0))
            = regularisation.energy sz (hw * 2 + 1) C U V W quant ord par lab) := by
  have hsz1 : 1 ≤ sz := by omega
  have hm : image_m / step1 ≠ 0 := by
    intro h; rw [h] at hsz; simp at hsz; omega
  have hn : image_n / step1 ≠ 0 := by
    intro h; rw [h] at hsz; simp at hsz; omega
  have hL : L ≤ 32767 := by
    have h1 : hw * 2 + 1 ≤ 31 := by omega
    calc L = (hw * 2 + 1) * (hw * 2 + 1) * (hw * 2 + 1) := hLd
      _ ≤ 31 * 31 * 31 := by gcongr
      _ ≤ 32767 := by norm_num
  obtain ⟨tab, etab, htab⟩ := labelTable_flat hw quant
  obtain ⟨c1, ec1, hc1s⟩ := regularisation.zeroRow_spec L
  obtain ⟨sA, erunA, hinvA⟩ := forDown_inv
    (regularisation.FoldInv sz (hw * 2 + 1) L B D C U V W quant ord par
      ⟨costall, c1, Buf.new L, Buf.new (sz * L), Buf.new sz, u1, v1, w1⟩)
    (regularisation.message u0 v0 w0 ordered parents hw quant (image_m / step1)
      (image_n / step1) (image_o / step1) ((sz / 25 : Nat) : Int)) (sz - 1)
    ⟨costall, c1, Buf.new L, Buf.new (sz * L), Buf.new sz, u1, v1, w1⟩
    (regularisation.foldInv_init sz (hw * 2 + 1) L B D C U V W quant ord par _ hvalid hsz1
      hcs hc1s rfl rfl hC hCB)
    (by
      intro i t hi0 hi hinv
      obtain ⟨k, rfl⟩ : ∃ k, i = k + 1 := ⟨i - 1, by omega⟩
      have hfrac : ((sz / 25 : Nat) : Int) ≠ 0 := by
        have : 25 ≤ sz := by omega
        have : 1 ≤ sz / 25 := (Nat.le_div_iff_mul_le (by norm_num)).mpr (by omega)
        omega
      exact regularisation.foldInv_step u0 v0 w0 ordered parents hw quant _ _ _ _ k _ t sz
        (hw * 2 + 1) L U V W ord par C B D hsz rfl hLd hin hvalid hm hn hfrac hq (by omega) hL
        hD hB0 hlim hinv)
  obtain ⟨gcs, g1s, gis, gas, gsel, gu1, gv1, gw1, cur, tbl, wt, gcur, gtbl, _, _, _, gA, gB⟩ :=
    hinvA
  obtain ⟨sR, r, erunR, hrL, hRs, hrmin, hrfirst, hrfr, hinvR⟩ := regularisation.root_spec hw quant
    tab u0 v0 w0 ordered parents _ _ _ sA sz L U V W ord par cur tbl hsz hLd htab hin hvalid
    hm hn hsz1 gcs g1s gas (by rw [gsel]; exact le_refl _) (by rw [gu1]; exact hu1)
    (by rw [gv1]; exact hv1) (by rw [gw1]; exact hw1) gcur
  obtain ⟨sF, erunF, hinvF⟩ := forLoop_inv
    (regularisation.SelInv sz hw quant U V W ord par tbl r sR.allinds)
    (regularisation.select tab u0 v0 w0 ordered parents (image_m / step1) (image_n / step1)
      (image_o / step1)) (sz - 1) 1 sR hinvR
    (by
      intro i t hi1 hi hinv
      exact regularisation.select_step hw quant tab u0 v0 w0 ordered parents _ _ _ t sz L i r
        U V W ord par tbl sR.allinds hsz hLd htab hin hvalid hm hn hi1 (by omega) hRs
        (fun t l h1 h2 hl => by
          rw [hrfr t l h1 h2]
          exact gtbl t l (by omega) h2 hl) hinv)
  obtain ⟨_, _, _, _, _, sel, hselL, hroot, hcells, hcons⟩ := hinvF
  have e1 : 1 + (sz - 1) = sz := by omega
  rw [e1] at hcells hcons
  refine ⟨sF, ?_, cur (ord 0), tbl, sel, fun nd => by rw [hLd]; exact hselL nd, hcells,
    by rw [hroot]; exact hrmin, by rw [hroot]; exact hrfirst, hcons,
    fun t l h1 h2 hl => (gtbl t l (by omega) h2 hl).2, ?_, ?_⟩
  · unfold regularisation
    subst hsz hLd
    simp only [if_neg hstep, etab, ec1, erunA, erunR, erunF, ok_bind]
  · intro lab hlab
    have := gA lab hlab
    rw [regularisation.partialEnergy_zero] at this
    exact this
  · intro lab hlab hc
    have := gB lab hlab (fun t h1 h2 => hc t (by omega) h2)
    rw [regularisation.partialEnergy_zero] at this
    exact this

/-- For every label of the root there is a labelling that follows the argmin
tables. -/
theorem regularisation.exists_consistent (sz L : Nat) (ord par : Nat → Nat)
    (tbl : Nat → Nat → Nat) (hvalid : ValidTree sz ord par)
    (htbl : ∀ t l, 1 ≤ t → t < sz → l < L → tbl (ord t) l < L) (l0 : Nat) (hl0 : l0 < L) :
    ∃ lab : Nat → Nat, (∀ nd, lab nd < L) ∧ lab (ord 0) = l0 ∧
      ∀ t, 1 ≤ t → t < sz → lab (ord t) = tbl (ord t) (lab (par (ord t))) := by
  have key : ∀ i, i + 1 ≤ sz → ∃ lab : Nat → Nat, (∀ nd, lab nd < L) ∧ lab (ord 0) = l0 ∧
      ∀ t, 1 ≤ t → t < i + 1 → lab (ord t) = tbl (ord t) (lab (par (ord t))) := by
    intro i
    induction i with
    | zero =>
      intro _
      exact ⟨fun _ => l0, fun _ => hl0, rfl, fun t h1 h2 => by omega⟩
    | succ i ih =>
      intro hi
      obtain ⟨lab, hL, h0, hc⟩ := ih (by omega)
      obtain ⟨i', hi', hp⟩ := hvalid.2.2 (i + 1) (by omega) (by omega)
      have hne : ∀ t, t < i + 1 → ord t ≠ ord (i + 1) := fun t ht =>
        ValidTree.ord_ne sz ord par hvalid t (i + 1) (by omega) (by omega) (by omega)
      have hpne : par (ord (i + 1)) ≠ ord (i + 1) := by
        rw [← hp]
        exact hne i' hi'
      refine ⟨Function.update lab (ord (i + 1)) (tbl (ord (i + 1)) (lab (par (ord (i + 1))))),
        ?_, ?_, ?_⟩
      · intro nd
        by_cases h : nd = ord (i + 1)
        · subst h
          simp only [Function.update_same]
          exact htbl (i + 1) _ (by omega) (by omega) (hL _)
        · simp only [Function.update_noteq h]
          exact hL nd
      · rw [Function.update_noteq (hne 0 (by omega))]
        exact h0
      · intro t h1 h2
        by_cases h : t = i + 1
        · subst h
          simp only [Function.update_same, Function.update_noteq hpne]
        · have h' := hne t (by omega)
          obtain ⟨t', ht', hpt⟩ := hvalid.2.2 t h1 (by omega)
          have hp' : par (ord t) ≠ ord (i + 1) := by
            rw [← hpt]
            exact hne t' (by omega)
          simp only [Function.update_noteq h', Function.update_noteq hp']
          exact hc t h1 (by omega)
  rcases Nat.eq_zero_or_pos sz with h | h
  · exact ⟨fun _ => l0, fun _ => hl0, rfl, fun t h1 h2 => by omega⟩
  · obtain ⟨lab, hL, h0, hc⟩ := key (sz - 1) (by omega)
    exact ⟨lab, hL, h0, fun t h1 h2 => hc t h1 (by omega)⟩

/-- Optimality of `regularisation`: under the size and magnitude conditions
the run succeeds and the selected labelling has minimal energy among all
labellings with labels in the cube. -/
theorem regularisation_optimal (u1 v1 w1 u0 v0 w0 costall : Buf ℚ) (hw step1 : Nat) (quant : ℚ)
    (ordered parents : Buf Int) (image_m image_n image_o : Nat) (sz L : Nat)
    (U V W : Nat → ℚ) (ord par : Nat → Nat) (C : Nat → Nat → ℚ) (B D : ℚ)
    (hstep : step1 ≠ 0)
    (hsz : sz = image_m / step1 * (image_n / step1) * (image_o / step1))
    (hLd : L = (hw * 2 + 1) * (hw * 2 + 1) * (hw * 2 + 1))
    (hsize : sz = 1 ∨ 25 ≤ sz) (hhw : hw ≤ 15) (hq : quant ≠ 0)
    (hin : RegInputs sz u0 v0 w0 ordered parents U V W ord par)
    (hvalid : ValidTree sz ord par)
    (hcs : costall.size = sz * L)
    (hu1 : sz ≤ u1.size) (hv1 : sz ≤ v1.size) (hw1 : sz ≤ w1.size)
    (hC : ∀ nd l, nd < sz → l < L → costall.data (nd + l * sz) = some (C nd l))
    (hCB : ∀ nd l, nd < sz → l < L → -B ≤ C nd l ∧ C nd l ≤ B)
    (hD : ∀ t, 1 ≤ t → t < sz →
      |(U (par (ord t)) - U (ord t)) / quant| ≤ D ∧
      |(V (par (ord t)) - V (ord t)) / quant| ≤ D ∧
      |(W (par (ord t)) - W (ord t)) / quant| ≤ D)
    (hB0 : 0 ≤ B) (hlim : (sz : ℚ) * (B + 2 * D ^ 2) + D ≤ dt1sq.INF) :
    ∃ s, regularisation u1 v1 w1 u0 v0 w0 costall hw step1 quant ordered parents
        image_m image_n image_o = Except.ok s ∧
      ∃ sel : Nat → Nat, (∀ nd, sel nd < L) ∧
        (∀ t, t < sz → s.selected.data (ord t) = some ((sel (ord t) : Nat) : Int)) ∧
        ∀ lab : Nat → Nat, (∀ nd, nd < sz → lab nd < L) →
          regularisation.energy sz (hw * 2 + 1) C U V W quant ord par sel
            ≤ regularisation.energy sz (hw * 2 + 1) C U V W quant ord par lab := by
  obtain ⟨s, hrun, cur0, tbl, sel, hselL, hcells, hmin, _, hcons, _, hA, hBq⟩ :=
    regularisation_spec u1 v1 w1 u0 v0 w0 costall hw step1 quant ordered parents image_m image_n
      image_o sz L U V W ord par C B D hstep hsz hLd hsize hhw hq hin hvalid hcs hu1 hv1 hw1 hC
      hCB hD hB0 hlim
  refine ⟨s, hrun, sel, hselL, fun t ht => (hcells t ht).1, ?_⟩
  intro lab hlab
  have h0 : ord 0 < sz := hvalid.1 0 (by omega)
  rw [← hBq sel (fun nd _ => hselL nd) hcons]
  exact le_trans (hmin _ (hlab _ h0)) (hA lab hlab)

theorem regularisation.penalty_eq_zero (len lp lc : Nat) (hlp : lp < len * len * len)
    (hlc : lc < len * len * len) (h : regularisation.penalty len 0 0 0 lp lc = 0) : lc = lp := by
  unfold regularisation.penalty at h
  have h1 := sq_nonneg ((labelJ len lp : ℚ) - (labelJ len lc : ℚ) + 0)
  have h2 := sq_nonneg ((labelI len lp : ℚ) - (labelI len lc : ℚ) + 0)
  have h3 := sq_nonneg ((labelK len lp : ℚ) - (labelK len lc : ℚ) + 0)
  have e1 : ((labelJ len lp : ℚ) - (labelJ len lc : ℚ) + 0) ^ 2 = 0 := by linarith
  have e2 : ((labelI len lp : ℚ) - (labelI len lc : ℚ) + 0) ^ 2 = 0 := by linarith
  have e3 : ((labelK len lp : ℚ) - (labelK len lc : ℚ) + 0) ^ 2 = 0 := by linarith
  have f1 : (labelJ len lp : ℚ) = (labelJ len lc : ℚ) := by
    have := pow_eq_zero_iff (two_ne_zero) |>.mp e1
    linarith
  have f2 : (labelI len lp : ℚ) = (labelI len lc : ℚ) := by
    have := pow_eq_zero_iff (two_ne_zero) |>.mp e2
    linarith
  have f3 : (labelK len lp : ℚ) = (labelK len lc : ℚ) := by
    have := pow_eq_zero_iff (two_ne_zero) |>.mp e3
    linarith
  have g1 : labelJ len lp = labelJ len lc := by exact_mod_cast f1
  have g2 : labelI len lp = labelI len lc := by exact_mod_cast f2
  have g3 : labelK len lp = labelK len lc := by exact_mod_cast f3
  have d1 := (label_decomp len lp hlp).2.2.2
  have d2 := (label_decomp len lc hlc).2.2.2
  rw [d1, d2, g1, g2, g3]

/-- Energy of a labelling when the prior does not change along the edges:
the costs of the chosen labels plus the pairwise terms without offset. -/
theorem regularisation.energy_flat (sz len : Nat) (C : Nat → Nat → ℚ) (U V W : Nat → ℚ)
    (quant : ℚ) (ord par : Nat → Nat) (lab : Nat → Nat)
    (hU : ∀ t, 1 ≤ t → t < sz → U (par (ord t)) = U (ord t) ∧ V (par (ord t)) = V (ord t) ∧
      W (par (ord t)) = W (ord t)) :
    regularisation.energy sz len C U V W quant ord par lab
      = ∑ nd in Finset.range sz, C nd (lab nd) + ∑ t in Finset.Ico 1 sz,
          regularisation.penalty len 0 0 0 (lab (par (ord t))) (lab (ord t)) := by
  unfold regularisation.energy
  congr 1
  apply Finset.sum_congr rfl
  intro t ht
  obtain ⟨h1, h2⟩ := Finset.mem_Ico.mp ht
  obtain ⟨a, b, c⟩ := hU t h1 h2
  unfold regularisation.edge
  rw [a, b, c]
  simp

/-- Every node occurs in `ordered`. -/
theorem ValidTree.surj (sz : Nat) (ord par : Nat → Nat) (h : ValidTree sz ord par) (nd : Nat)
    (hnd : nd < sz) : ∃ t, t < sz ∧ ord t = nd := by
  have hinj : Set.InjOn ord (Finset.range sz : Set Nat) := by
    intro a ha b hb hab
    exact h.2.1 a b (Finset.mem_range.mp ha) (Finset.mem_range.mp hb) hab
  have himg : (Finset.range sz).image ord = Finset.range sz := by
    apply Finset.eq_of_subset_of_card_le
    · intro x hx
      obtain ⟨a, ha, rfl⟩ := Finset.mem_image.mp hx
      exact Finset.mem_range.mpr (h.1 a (Finset.mem_range.mp ha))
    · rw [Finset.card_image_of_injOn hinj]
  have : nd ∈ (Finset.range sz).image ord := by
    rw [himg]; exact Finset.mem_range.mpr hnd
  obtain ⟨t, ht, e⟩ := Finset.mem_image.mp this
  exact ⟨t, Finset.mem_range.mp ht, e⟩

/-- Specification of `regularisation` for a prior that does not change along
the edges and costs whose minimum `c nd` at every node is attained by a
common label: every node selects the first label that attains the minimum at
every node, and the output is the prior plus the offset of this label. -/
theorem regularisation_flat_prior (u1 v1 w1 u0 v0 w0 costall : Buf ℚ) (hw step1 : Nat)
    (quant : ℚ) (ordered parents : Buf Int) (image_m image_n image_o : Nat) (sz L : Nat)
    (U V W : Nat → ℚ) (ord par : Nat → Nat) (C : Nat → Nat → ℚ) (c : Nat → ℚ) (B : ℚ) (l0 : Nat)
    (hstep : step1 ≠ 0)
    (hsz : sz = image_m / step1 * (image_n / step1) * (image_o / step1))
    (hLd : L = (hw * 2 + 1) * (hw * 2 + 1) * (hw * 2 + 1))
    (hsize : sz = 1 ∨ 25 ≤ sz) (hhw : hw ≤ 15) (hq : quant ≠ 0)
    (hin : RegInputs sz u0 v0 w0 ordered parents U V W ord par)
    (hvalid : ValidTree sz ord par)
    (hcs : costall.size = sz * L)
    (hu1 : sz ≤ u1.size) (hv1 : sz ≤ v1.size) (hw1 : sz ≤ w1.size)
    (hC : ∀ nd l, nd < sz → l < L → costall.data (nd + l * sz) = some (C nd l))
    (hCB : ∀ nd l, nd < sz → l < L → -B ≤ C nd l ∧ C nd l ≤ B)
    (hU : ∀ t, 1 ≤ t → t < sz → U (par (ord t)) = U (ord t) ∧ V (par (ord t)) = V (ord t) ∧
      W (par (ord t)) = W (ord t))
    (hB0 : 0 ≤ B) (hlim : (sz : ℚ) * B ≤ dt1sq.INF)
    (hc : ∀ nd l, nd < sz → l < L → c nd ≤ C nd l) (hl0 : l0 < L)
    (hc0 : ∀ nd, nd < sz → C nd l0 = c nd) :
    ∃ s, regularisation u1 v1 w1 u0 v0 w0 costall hw step1 quant ordered parents
        image_m image_n image_o = Except.ok s ∧
      ∃ ls : Nat, ls < L ∧ (∀ nd, nd < sz → C nd ls = c nd) ∧
        (∀ l, l < ls → ∃ nd, nd < sz ∧ C nd l ≠ c nd) ∧
        ∀ t, t < sz →
          s.selected.data (ord t) = some ((ls : Nat) : Int) ∧
          s.u1.data (ord t) = some (labelOffset hw quant (labelJ (hw * 2 + 1) ls) + U (ord t)) ∧
          s.v1.data (ord t) = some (labelOffset hw quant (labelI (hw * 2 + 1) ls) + V (ord t)) ∧
          s.w1.data (ord t) = some (labelOffset hw quant (labelK (hw * 2 + 1) ls) + W (ord t)) := by
  obtain ⟨s, hrun, cur0, tbl, sel, hselL, hcells, hmin, hfirst, hcons, _, hA, hBq⟩ :=
    regularisation_spec u1 v1 w1 u0 v0 w0 costall hw step1 quant ordered parents image_m image_n
      image_o sz L U V W ord par C B 0 hstep hsz hLd hsize hhw hq hin hvalid hcs hu1 hv1 hw1 hC
      hCB (fun t h1 h2 => by
        obtain ⟨a, b, d⟩ := hU t h1 h2
        rw [a, b, d]
        simp)
      hB0 (by simpa using hlim)
  have hE := fun lab => regularisation.energy_flat sz (hw * 2 + 1) C U V W quant ord par lab hU
  have hconst : ∀ l, (∀ nd, nd < sz → C nd l = c nd) →
      regularisation.energy sz (hw * 2 + 1) C U V W quant ord par (fun _ => l)
        = ∑ nd in Finset.range sz, c nd := by
    intro l hl
    rw [hE]
    have e1 : ∑ nd in Finset.range sz, C nd l = ∑ nd in Finset.range sz, c nd :=
      Finset.sum_congr rfl (fun nd hnd => hl nd (Finset.mem_range.mp hnd))
    have e2 : ∑ t in Finset.Ico 1 sz, regularisation.penalty (hw * 2 + 1) 0 0 0 l l = 0 := by
      apply Finset.sum_eq_zero
      intro t _
      rw [regularisation.penalty_self]
      norm_num
    rw [e1, e2, add_zero]
  have h0 : ord 0 < sz := hvalid.1 0 (by omega)
  have hEsel := hBq sel (fun nd _ => hselL nd) hcons
  have hup : regularisation.energy sz (hw * 2 + 1) C U V W quant ord par sel
      ≤ ∑ nd in Finset.range sz, c nd := by
    rw [← hEsel, ← hconst l0 hc0]
    exact le_trans (hmin l0 hl0) (hA (fun _ => l0) (fun _ _ => hl0))
  have hn1 : ∀ nd ∈ Finset.range sz, 0 ≤ C nd (sel nd) - c nd := fun nd hnd => by
    have := hc nd (sel nd) (Finset.mem_range.mp hnd) (hselL nd)
    linarith
  have hn2 : ∀ t ∈ Finset.Ico 1 sz,
      0 ≤ regularisation.penalty (hw * 2 + 1) 0 0 0 (sel (par (ord t))) (sel (ord t)) :=
    fun t _ => regularisation.penalty_nonneg _ _ _ _ _ _
  have hs1 := Finset.sum_nonneg hn1
  have hs2 := Finset.sum_nonneg hn2
  rw [hE sel] at hup
  rw [Finset.sum_sub_distrib] at hs1
  have z1 : ∑ nd in Finset.range sz, (C nd (sel nd) - c nd) = 0 := by
    rw [Finset.sum_sub_distrib]; linarith
  have z2 : ∑ t in Finset.Ico 1 sz,
      regularisation.penalty (hw * 2 + 1) 0 0 0 (sel (par (ord t))) (sel (ord t)) = 0 := by
    linarith
  have hpen := (Finset.sum_eq_zero_iff_of_nonneg hn2).mp z2
  have hcost := (Finset.sum_eq_zero_iff_of_nonneg hn1).mp z1
  have hL' : ∀ nd, sel nd < (hw * 2 + 1) * (hw * 2 + 1) * (hw * 2 + 1) := fun nd => by
    rw [← hLd]; exact hselL nd
  have hall : ∀ t, t < sz → sel (ord t) = sel (ord 0) := by
    intro t
    induction t using Nat.strong_induction_on with
    | _ t ih =>
      intro ht
      rcases Nat.eq_zero_or_pos t with h | h
      · rw [h]
      · obtain ⟨t', ht', hp⟩ := hvalid.2.2 t h ht
        have := regularisation.penalty_eq_zero (hw * 2 + 1) _ _ (hL' (par (ord t)))
          (hL' (ord t)) (hpen t (Finset.mem_Ico.mpr ⟨h, ht⟩))
        rw [this, ← hp]
        exact ih t' ht' (by omega)
  have hsurj : ∀ nd, nd < sz → sel nd = sel (ord 0) := by
    intro nd hnd
    obtain ⟨t, ht, e⟩ := ValidTree.surj sz ord par hvalid nd hnd
    rw [← e]
    exact hall t ht
  refine ⟨s, hrun, sel (ord 0), hselL _, ?_, ?_, ?_⟩
  · intro nd hnd
    have := hcost nd (Finset.mem_range.mpr hnd)
    rw [hsurj nd hnd] at this
    linarith
  · intro l hl
    by_contra hno
    push_neg at hno
    have h1 := hfirst l hl
    have h2 := hA (fun _ => l) (fun _ _ => lt_trans hl (hselL _))
    rw [hconst l hno] at h2
    rw [hEsel, hE sel] at h1
    have : ∑ nd in Finset.range sz, C nd (sel nd) = ∑ nd in Finset.range sz, c nd := by
      rw [Finset.sum_sub_distrib] at z1; linarith
    linarith
  · intro t ht
    have := hcells t ht
    rw [hall t ht] at this
    exact this
/-! ## Claims on `dt1sq` and `dt3x` -/

/-- Claim C21, amended: for `len >= 1` (at most `1e10+1`), stride `k >= 1`,
input values in `[-Bl, Bu]` and an offset of magnitude at most `D` with
`(Bl+Bu)/2 + D <= 1e10`, `dt1sq` succeeds and for every `q < len` the cell
`val[q*k]` holds `val_in[p*k] + (q - p - offset)^2` for a `p < len` that
minimises this expression, and `ind[q*k]` holds `ind_in[p*k]` for that `p`. -/
theorem dt1sq_min_convolution (base len : Nat) (off : ℚ) (k : Nat) (st : DtState)
    (F : Nat → ℚ) (G : Nat → Int) (Bl Bu D : ℚ) (hk : 1 ≤ k) (hlen : 1 ≤ len)
    (hval : ∀ t, t < len → st.val.data (base + t * k) = some (F t) ∧ base + t * k < st.val.size)
    (hind : ∀ t, t < len → st.ind.data (base + t * k) = some (G t) ∧ base + t * k < st.ind.size)
    (hvs : len ≤ st.v.size) (hzs : len + 1 ≤ st.z.size) (hfs : len ≤ st.f.size)
    (his : len ≤ st.ind1.size)
    (hF : ∀ t, t < len → -Bl ≤ F t ∧ F t ≤ Bu) (hoff : |off| ≤ D)
    (hB : 0 ≤ Bl + Bu) (hlim : (Bl + Bu) / 2 + D ≤ dt1sq.INF)
    (hmax : (len : ℚ) ≤ dt1sq.INF + 1) :
    ∃ st', dt1sq base len off k st = Except.ok st' ∧
      ∀ q, q < len → ∃ p, p < len ∧
        st'.val.data (base + q * k) = some (F p + ((q : ℚ) - p - off) ^ 2) ∧
        st'.ind.data (base + q * k) = some (G p) ∧
        ∀ p', p' < len → F p + ((q : ℚ) - p - off) ^ 2 ≤ F p' + ((q : ℚ) - p' - off) ^ 2 := by
  obtain ⟨st', hrun, _, _, _, _, _, _, hpost, _⟩ := dt1sq_spec base len off k st F G hk hlen
    hval hind hvs hzs hfs his (dtSafe_of_bound F off len Bl Bu D hF hoff hB hlim hmax)
  refine ⟨st', hrun, fun q hq => ?_⟩
  obtain ⟨p, hp, h1, h2, h3⟩ := hpost q hq
  have e : ∀ p' : Nat, parab F off p' q = F p' + ((q : ℚ) - p' - off) ^ 2 := by
    intro p'
    unfold parab
    ring
  refine ⟨p, hp, ?_, h2, fun p' hp' => ?_⟩
  · rw [h1, e]
  · rw [← e, ← e]
    exact h3 p' hp'

/-- Instance of the amended claim C21: three values `2, 0, 5` with stride 1
and offset `1/2`. -/
theorem dt1sq_min_convolution_witness :
    ∃ st', dt1sq 0 3 (1 / 2) 1
        ⟨Buf.ofFn 3 (fun t => if t = 0 then 2 else if t = 1 then 0 else 5),
          Buf.ofFn 3 (fun t => (t : Int)), Buf.new 3, Buf.new 4, Buf.new 3, Buf.new 3⟩
        = Except.ok st' ∧
      ∀ q, q < 3 → ∃ p, p < 3 ∧
        st'.val.data (0 + q * 1)
          = some ((fun t : Nat => if t = 0 then (2 : ℚ) else if t = 1 then 0 else 5) p
              + ((q : ℚ) - p - 1 / 2) ^ 2) ∧
        st'.ind.data (0 + q * 1) = some ((fun t : Nat => (t : Int)) p) ∧
        ∀ p', p' < 3 →
          (fun t : Nat => if t = 0 then (2 : ℚ) else if t = 1 then 0 else 5) p
              + ((q : ℚ) - p - 1 / 2) ^ 2
            ≤ (fun t : Nat => if t = 0 then (2 : ℚ) else if t = 1 then 0 else 5) p'
              + ((q : ℚ) - p' - 1 / 2) ^ 2 :=
  dt1sq_min_convolution 0 3 (1 / 2) 1 _ _ _ 0 5 1 (by decide) (by decide)
    (fun t ht => by
      constructor
      · simp [Buf.ofFn, ht]
      · show 0 + t * 1 < 3
        omega)
    (fun t ht => by
      constructor
      · simp [Buf.ofFn, ht]
      · show 0 + t * 1 < 3
        omega)
    (by decide) (by decide) (by decide) (by decide)
    (fun t _ => by
      constructor
      · show -(0 : ℚ) ≤ if t = 0 then (2 : ℚ) else if t = 1 then 0 else 5
        split_ifs <;> norm_num
      · show (if t = 0 then (2 : ℚ) else if t = 1 then 0 else 5) ≤ 5
        split_ifs <;> norm_num)
    (by rw [abs_le]; constructor <;> norm_num) (by norm_num)
    (by unfold dt1sq.INF; norm_num) (by unfold dt1sq.INF; norm_num)

/-- Counterexample to claim C21 as stated: with two values 0, stride 1 and
the offset `-(1e10+1)` the first intersection lies below the sentinel
`z[0] = -1e10`, the index `j` drops to -1 and `dt1sq` reads outside its
arrays. -/
theorem dt1sq_large_offset_fails :
    failure? (dt1sq 0 2 (-10000000001) 1
      ⟨Buf.ofFn 2 (fun _ => (0 : ℚ)), Buf.ofFn 2 (fun t => (t : Int)), Buf.new 2, Buf.new 3,
        Buf.new 2, Buf.new 2⟩) = some Err.oob := by
  decide!

/-- Claim C29: for `len >= 1` (at most `1e10+1`), input values in `[-Bl, Bu]`
and an offset of magnitude at most `D` with `(Bl+Bu)/2 + D <= 1e10`, `dt1sq`
run with a stack `v` of exactly `len` cells and boundaries `z` of exactly
`len+1` cells completes: no access to `v[j]`, `z[j]` or `z[j+1]` leaves the
arrays (such an access is the error `oob` of the embedding) and both `while`
loops stop (a loop that does not stop within `len+1` turns is the error
`fuel`). -/
theorem dt1sq_stack_in_bounds (base len : Nat) (off : ℚ) (k : Nat) (st : DtState)
    (F : Nat → ℚ) (G : Nat → Int) (Bl Bu D : ℚ) (hk : 1 ≤ k) (hlen : 1 ≤ len)
    (hval : ∀ t, t < len → st.val.data (base + t * k) = some (F t) ∧ base + t * k < st.val.size)
    (hind : ∀ t, t < len → st.ind.data (base + t * k) = some (G t) ∧ base + t * k < st.ind.size)
    (hvs : st.v.size = len) (hzs : st.z.size = len + 1) (hfs : st.f.size = len)
    (his : st.ind1.size = len)
    (hF : ∀ t, t < len → -Bl ≤ F t ∧ F t ≤ Bu) (hoff : |off| ≤ D)
    (hB : 0 ≤ Bl + Bu) (hlim : (Bl + Bu) / 2 + D ≤ dt1sq.INF)
    (hmax : (len : ℚ) ≤ dt1sq.INF + 1) :
    ∃ st', dt1sq base len off k st = Except.ok st' ∧ st'.v.size = len ∧ st'.z.size = len + 1 ∧
      failure? (dt1sq base len off k st) = none := by
  obtain ⟨st', hrun, _, _, h3, h4, _⟩ := dt1sq_spec base len off k st F G hk hlen
    hval hind (by omega) (by omega) (by omega) (by omega)
    (dtSafe_of_bound F off len Bl Bu D hF hoff hB hlim hmax)
  refine ⟨st', hrun, by rw [h3, hvs], by rw [h4, hzs], ?_⟩
  rw [hrun]
  rfl

/-- Instance of claim C29: four values `0, 7, -3, 1` read with stride 2 from
base 1, offset `-2`. -/
theorem dt1sq_stack_in_bounds_witness :
    ∃ st', dt1sq 1 4 (-2) 2
        ⟨Buf.ofFn 8 (fun c => if c = 1 then 0 else if c = 3 then 7 else if c = 5 then -3 else 1),
          Buf.ofFn 8 (fun c => (c : Int)), Buf.new 4, Buf.new 5, Buf.new 4, Buf.new 4⟩
        = Except.ok st' ∧ st'.v.size = 4 ∧ st'.z.size = 4 + 1 ∧
      failure? (dt1sq 1 4 (-2) 2
        ⟨Buf.ofFn 8 (fun c => if c = 1 then 0 else if c = 3 then 7 else if c = 5 then -3 else 1),
          Buf.ofFn 8 (fun c => (c : Int)), Buf.new 4, Buf.new 5, Buf.new 4, Buf.new 4⟩) = none :=
  dt1sq_stack_in_bounds 1 4 (-2) 2 _
    (fun t => if t = 0 then 0 else if t = 1 then 7 else if t = 2 then -3 else 1)
    (fun t => ((1 + t * 2 : Nat) : Int)) 3 7 2 (by decide) (by decide)
    (fun t ht => by
      have h : t = 0 ∨ t = 1 ∨ t = 2 ∨ t = 3 := by omega
      rcases h with h | h | h | h <;> subst h <;> exact ⟨by simp [Buf.ofFn], by decide⟩)
    (fun t ht => by
      have h : t = 0 ∨ t = 1 ∨ t = 2 ∨ t = 3 := by omega
      rcases h with h | h | h | h <;> subst h <;> exact ⟨by simp [Buf.ofFn], by decide⟩)
    rfl rfl rfl rfl
    (fun t ht => by
      have h : t = 0 ∨ t = 1 ∨ t = 2 ∨ t = 3 := by omega
      rcases h with h | h | h | h <;> subst h <;> norm_num)
    (by rw [abs_le]; constructor <;> norm_num) (by norm_num)
    (by unfold dt1sq.INF; norm_num) (by unfold dt1sq.INF; norm_num)

/-- A pass of `dt3x` that returns has replaced every cell of every line by the
value of one parabola of its line, with the index of that parabola. -/
theorem dt_pass_ok (rl : Nat) (cell : Nat → Nat → Nat → Nat) (line : Nat → Nat → Nat)
    (k : Nat) (off : ℚ) (hk : 1 ≤ k) (hrl : (rl : ℚ) ≤ dt1sq.INF + 1)
    (hcell : ∀ a b t, cell a b t = line a b + t * k)
    (hinj : ∀ a b t a' b' t', a < rl → b < rl → t < rl → a' < rl → b' < rl → t' < rl →
      cell a b t = cell a' b' t' → a = a' ∧ b = b' ∧ t = t')
    (st st' : DtState) (R : Nat → Nat → Nat → ℚ) (I : Nat → Nat → Nat → Int)
    (hpre : ∀ a b t, a < rl → b < rl → t < rl →
      st.val.data (cell a b t) = some (R a b t) ∧ st.ind.data (cell a b t) = some (I a b t))
    (hrun : doubleLoop rl rl (fun a b st => dt1sq (line a b) rl off k st) st = Except.ok st') :
    ∀ a b t, a < rl → b < rl → t < rl → ∃ p, p < rl ∧
      st'.val.data (cell a b t) = some (parab (R a b) off p t) ∧
      st'.ind.data (cell a b t) = some (I a b p) := by
  obtain ⟨hdone, _⟩ := doubleLoop_ok_inv
    (fun a b (s : DtState) =>
      (∀ a' b' t, a' < rl → b' < rl → t < rl → (a' < a ∨ (a' = a ∧ b' < b)) → ∃ p, p < rl ∧
        s.val.data (cell a' b' t) = some (parab (R a' b') off p t) ∧
        s.ind.data (cell a' b' t) = some (I a' b' p)) ∧
      (∀ a' b' t, a' < rl → b' < rl → t < rl → ¬ (a' < a ∨ (a' = a ∧ b' < b)) →
        s.val.data (cell a' b' t) = some (R a' b' t) ∧
        s.ind.data (cell a' b' t) = some (I a' b' t)))
    rl rl (fun a b st => dt1sq (line a b) rl off k st) st st'
    ⟨fun a' b' t _ _ _ h => by omega, fun a' b' t ha hb ht _ => hpre a' b' t ha hb ht⟩
    (by
      rintro a b s s' ha hb ⟨hdone, htodo⟩ hstep
      obtain ⟨gout, gframe⟩ := dt1sq_ok (line a b) rl off k s s' (R a b) (I a b) hk (by omega)
        hrl
        (fun t ht => by
          have := (htodo a b t ha hb ht (by omega)).1
          rw [hcell] at this
          exact this)
        (fun t ht => by
          have := (htodo a b t ha hb ht (by omega)).2
          rw [hcell] at this
          exact this)
        hstep
      have hother : ∀ a' b' t, a' < rl → b' < rl → t < rl → ¬ (a' = a ∧ b' = b) →
          s'.val.data (cell a' b' t) = s.val.data (cell a' b' t) ∧
          s'.ind.data (cell a' b' t) = s.ind.data (cell a' b' t) := by
        intro a' b' t ha' hb' ht hne
        apply gframe
        intro q hq heq
        rw [← hcell] at heq
        obtain ⟨e1, e2, _⟩ := hinj a' b' t a b q ha' hb' ht ha hb hq heq
        exact hne ⟨e1, e2⟩
      refine ⟨?_, ?_⟩
      · intro a' b' t ha' hb' ht hbef
        by_cases hcur : a' = a ∧ b' = b
        · obtain ⟨rfl, rfl⟩ := hcur
          obtain ⟨p, p1, p2, p3⟩ := gout t ht
          rw [← hcell] at p2 p3
          exact ⟨p, p1, p2, p3⟩
        · obtain ⟨o1, o2⟩ := hother a' b' t ha' hb' ht hcur
          obtain ⟨p, p1, p2, p3⟩ := hdone a' b' t ha' hb' ht (by omega)
          exact ⟨p, p1, by rw [o1]; exact p2, by rw [o2]; exact p3⟩
      · intro a' b' t ha' hb' ht hnb
        obtain ⟨o1, o2⟩ := hother a' b' t ha' hb' ht (by omega)
        rw [o1, o2]
        exact htodo a' b' t ha' hb' ht (by omega))
    (by
      rintro a s ha ⟨hdone, htodo⟩
      exact ⟨fun a' b' t ha' hb' ht h => hdone a' b' t ha' hb' ht (by omega),
        fun a' b' t ha' hb' ht h => htodo a' b' t ha' hb' ht (by omega)⟩)
    hrun
  exact fun a b t ha hb ht => hdone a b t ha hb ht (by omega)

/-- An initial loop of `dt3x` that returns has filled `indr` with the
identity. -/
theorem dt3x.init_ok (n : Nat) (indr out : Buf Int)
    (hrun : forLoop (fun i (t : Buf Int) => t.set i i) 0 n indr = Except.ok out) :
    ∀ i, i < n → out.data i = some ((i : Nat) : Int) := by
  have := forLoop_ok_inv
    (fun i (t : Buf Int) => ∀ i', i' < i → t.data i' = some ((i' : Nat) : Int))
    (fun i (t : Buf Int) => t.set i i) n 0 indr out (fun i' h => by omega)
    (by
      intro i t t' _ hi hI hstep
      obtain ⟨_, _, e⟩ := Buf.set_ok _ _ _ _ hstep
      simp only [Int.toNat_ofNat] at e
      intro i' hi'
      rw [e]
      by_cases h : i' = i
      · subst h; simp
      · simp only [Function.update_noteq h]
        exact hI i' (by omega))
    hrun
  exact fun i hi => this i (by omega)

/-- Every run of `dt3x` that returns leaves in each entry of `indr` a label of
the cube and in the entry of `r` the input cost of that label plus the
squared distance, shifted by `(dx,dy,dz)`, between the two labels. -/
theorem dt3x_ok (rl : Nat) (r : Buf ℚ) (indr : Buf Int) (R : Nat → ℚ) (dx dy dz : ℚ)
    (r' : Buf ℚ) (indr' : Buf Int) (hrl : (rl : ℚ) ≤ dt1sq.INF + 1)
    (hr : ∀ c, c < rl * rl * rl → r.data c = some (R c))
    (hrun : dt3x r indr rl dx dy dz = Except.ok (r', indr')) :
    ∀ i' j' k', i' < rl → j' < rl → k' < rl → ∃ i j k, i < rl ∧ j < rl ∧ k < rl ∧
      r'.data (i' + j' * rl + k' * rl * rl)
        = some (R (i + j * rl + k * rl * rl) + ((j' : ℚ) - j + dx) ^ 2
            + ((i' : ℚ) - i + dy) ^ 2 + ((k' : ℚ) - k + dz) ^ 2) ∧
      indr'.data (i' + j' * rl + k' * rl * rl)
        = some ((i + j * rl + k * rl * rl : Nat) : Int) := by
  rcases Nat.eq_zero_or_pos rl with hz | hpos
  · subst hz
    intro i' j' k' hi'
    omega
  simp only [dt3x, bind_eq_ok, pure_eq_ok] at hrun
  obtain ⟨ind0, hind0, st1, hst1, st2, hst2, st3, hst3, he⟩ := hrun
  have hi0 := dt3x.init_ok (rl * rl * rl) indr ind0 hind0
  have post1 := dt_pass_ok rl (fun a b t => b + t * rl + a * rl * rl)
    (fun a b => b + a * rl * rl) rl (-dx) hpos hrl (fun a b t => by ring)
    (fun a b t a' b' t' ha hb ht ha' hb' ht' h => by
      obtain ⟨e1, e2, e3⟩ := cube_index_inj rl b t a b' t' a' hb ht hb' ht' h
      exact ⟨e3, e1, e2⟩)
    ⟨r, ind0, Buf.new rl, Buf.new (rl + 1), Buf.new rl, Buf.new rl⟩ st1
    (fun a b t => R (b + t * rl + a * rl * rl))
    (fun a b t => ((b + t * rl + a * rl * rl : Nat) : Int))
    (fun a b t ha hb ht => ⟨hr _ (cube_index_lt rl b t a hb ht ha),
      hi0 _ (cube_index_lt rl b t a hb ht ha)⟩)
    hst1
  obtain ⟨p1, hp1⟩ := skolem3 rl _ post1
  have post2 := dt_pass_ok rl (fun a b t => t + b * rl + a * rl * rl)
    (fun a b => b * rl + a * rl * rl) 1 (-dy) (le_refl _) hrl (fun a b t => by ring)
    (fun a b t a' b' t' ha hb ht ha' hb' ht' h => by
      obtain ⟨e1, e2, e3⟩ := cube_index_inj rl t b a t' b' a' ht hb ht' hb' h
      exact ⟨e3, e2, e1⟩)
    st1 st2
    (fun a b t => parab (fun u => R (t + u * rl + a * rl * rl)) (-dx) (p1 a t b) b)
    (fun a b t => ((t + p1 a t b * rl + a * rl * rl : Nat) : Int))
    (fun a b t ha hb ht => ⟨(hp1 a t b ha ht hb).2.1, (hp1 a t b ha ht hb).2.2⟩)
    hst2
  obtain ⟨p2, hp2⟩ := skolem3 rl _ post2
  have post3 := dt_pass_ok rl (fun a b t => b + a * rl + t * rl * rl)
    (fun a b => b + a * rl) (rl * rl) (-dz) (Nat.mul_pos hpos hpos) hrl (fun a b t => by ring)
    (fun a b t a' b' t' ha hb ht ha' hb' ht' h => by
      obtain ⟨e1, e2, e3⟩ := cube_index_inj rl b a t b' a' t' hb ha hb' ha' h
      exact ⟨e2, e1, e3⟩)
    st2 st3
    (fun a b t => parab (fun u => parab (fun w => R (u + w * rl + t * rl * rl)) (-dx)
        (p1 t u a) a) (-dy) (p2 t a b) b)
    (fun a b t => ((p2 t a b + p1 t (p2 t a b) a * rl + t * rl * rl : Nat) : Int))
    (fun a b t ha hb ht => ⟨(hp2 t a b ht ha hb).2.1, (hp2 t a b ht ha hb).2.2⟩)
    hst3
  cases he
  intro i' j' k' hi' hj' hk'
  obtain ⟨k, hk, v3, x3⟩ := post3 j' i' k' hj' hi' hk'
  obtain ⟨hi, _, _⟩ := hp2 k j' i' hk hj' hi'
  obtain ⟨hj, _, _⟩ := hp1 k (p2 k j' i') j' hk hi hj'
  refine ⟨p2 k j' i', p1 k (p2 k j' i') j', k, hi, hj, hk, ?_, x3⟩
  rw [v3]
  congr 1
  simp only [parab]
  ring

/-- Flat form of `dt3x_ok`. -/
theorem dt3x_ok_flat (rl : Nat) (r : Buf ℚ) (indr : Buf Int) (R : Nat → ℚ) (dx dy dz : ℚ)
    (r' : Buf ℚ) (indr' : Buf Int) (hrl : (rl : ℚ) ≤ dt1sq.INF + 1)
    (hr : ∀ c, c < rl * rl * rl → r.data c = some (R c))
    (hrun : dt3x r indr rl dx dy dz = Except.ok (r', indr')) :
    ∀ l, l < rl * rl * rl → ∃ a, a < rl * rl * rl ∧
      indr'.data l = some ((a : Nat) : Int) ∧
      r'.data l = some (R a + (((labelJ rl l : ℚ) - (labelJ rl a : ℚ) + dx) ^ 2
        + ((labelI rl l : ℚ) - (labelI rl a : ℚ) + dy) ^ 2
        + ((labelK rl l : ℚ) - (labelK rl a : ℚ) + dz) ^ 2)) := by
  intro l hl
  obtain ⟨hi', hj', hk', hdec⟩ := label_decomp rl l hl
  obtain ⟨i, j, k, hi, hj, hk, hv, hx⟩ := dt3x_ok rl r indr R dx dy dz r' indr' hrl hr hrun
    _ _ _ hi' hj' hk'
  rw [← hdec] at hv hx
  obtain ⟨d1, d2, d3⟩ := label_of_index rl i j k hi hj
  refine ⟨i + j * rl + k * rl * rl, cube_index_lt rl i j k hi hj hk, hx, ?_⟩
  rw [hv]
  congr 1
  simp only [d1, d2, d3]
  ring
/-- Claim C30: every run of `dt3x` that returns leaves in every entry
`indr[l]` a label `a` of the cube `[0, rl^3)` with
`r[l] = r_in[a] + (squared distance between label l and label a shifted by
(dx,dy,dz))`; the run returns for costs in `[-Bl, Bu]` and offsets of
magnitude at most `D` with `(Bl+Bu)/2 + D^2 + D <= 1e10`; and with zero
offsets and a constant `r_in` the run returns, `indr` is the identity and `r`
is unchanged. -/
theorem dt3x_argmin_entries (rl : Nat) (R : Nat → ℚ) (indr : Buf Int) (dx dy dz : ℚ)
    (hrl : (rl : ℚ) ≤ dt1sq.INF + 1) (his : indr.size = rl * rl * rl) :
    (∀ r' indr', dt3x (Buf.ofFn (rl * rl * rl) R) indr rl dx dy dz = Except.ok (r', indr') →
      ∀ l, l < rl * rl * rl → ∃ a, a < rl * rl * rl ∧
        indr'.data l = some ((a : Nat) : Int) ∧
        r'.data l = some (R a + (((labelJ rl l : ℚ) - (labelJ rl a : ℚ) + dx) ^ 2
          + ((labelI rl l : ℚ) - (labelI rl a : ℚ) + dy) ^ 2
          + ((labelK rl l : ℚ) - (labelK rl a : ℚ) + dz) ^ 2))) ∧
    (∀ Bl Bu D : ℚ, (∀ c, c < rl * rl * rl → -Bl ≤ R c ∧ R c ≤ Bu) →
      |dx| ≤ D → |dy| ≤ D → |dz| ≤ D → 0 ≤ Bl + Bu → (Bl + Bu) / 2 + D ^ 2 + D ≤ dt1sq.INF →
      ∃ r' indr', dt3x (Buf.ofFn (rl * rl * rl) R) indr rl dx dy dz = Except.ok (r', indr')) ∧
    (dx = 0 → dy = 0 → dz = 0 → (∀ c, c < rl * rl * rl → R c = R 0) →
      ∃ r' indr', dt3x (Buf.ofFn (rl * rl * rl) R) indr rl dx dy dz = Except.ok (r', indr') ∧
        ∀ l, l < rl * rl * rl →
          indr'.data l = some ((l : Nat) : Int) ∧ r'.data l = some (R l)) := by
  have hcells : ∀ c, c < rl * rl * rl → (Buf.ofFn (rl * rl * rl) R).data c = some (R c) :=
    fun c hc => by simp [Buf.ofFn, hc]
  refine ⟨?_, ?_, ?_⟩
  · intro r' indr' hrun
    exact dt3x_ok_flat rl _ indr R dx dy dz r' indr' hrl hcells hrun
  · intro Bl Bu D hB hdx hdy hdz hB0 hlim
    obtain ⟨r', indr', hrun, _⟩ := dt3x_flat rl (Buf.ofFn (rl * rl * rl) R) indr R
      dx dy dz Bl Bu D hrl rfl his hcells hB hdx hdy hdz hB0 hlim
    exact ⟨r', indr', hrun⟩
  · intro ex ey ez hconst
    subst ex ey ez
    obtain ⟨r', indr', hrun, _, _, arg, harg⟩ := dt3x_flat rl (Buf.ofFn (rl * rl * rl) R) indr R
      0 0 0 (-(R 0)) (R 0) 0 hrl rfl his hcells
      (fun c hc => by rw [hconst c hc]; constructor <;> linarith)
      (by simp) (by simp) (by simp) (by linarith) (by unfold dt1sq.INF; norm_num)
    refine ⟨r', indr', hrun, ?_⟩
    intro l hl
    obtain ⟨h1, h2, h3, h4⟩ := harg l hl
    have hmin := h4 l hl
    rw [regularisation.penalty_self, hconst (arg l) h1, hconst l hl] at hmin
    have hnn := regularisation.penalty_nonneg rl 0 0 0 l (arg l)
    have hz : regularisation.penalty rl 0 0 0 l (arg l) = 0 := by linarith
    have ha : arg l = l := regularisation.penalty_eq_zero rl l (arg l) hl h1 hz
    rw [ha] at h2 h3
    rw [regularisation.penalty_self] at h2
    refine ⟨h3, ?_⟩
    rw [h2]
    norm_num

/-- Instance of claim C30 on the cube of side 2 with the costs `l mod 3` and
the offsets `(1/2, 0, -1)`. -/
theorem dt3x_argmin_entries_witness :
    (∀ r' indr', dt3x (Buf.ofFn (2 * 2 * 2) (fun l : Nat => ((l % 3 : Nat) : ℚ))) (Buf.new 8) 2
        (1 / 2) 0 (-1) = Except.ok (r', indr') →
      ∀ l, l < 2 * 2 * 2 → ∃ a, a < 2 * 2 * 2 ∧
        indr'.data l = some ((a : Nat) : Int) ∧
        r'.data l = some ((fun l : Nat => ((l % 3 : Nat) : ℚ)) a
          + (((labelJ 2 l : ℚ) - (labelJ 2 a : ℚ) + 1 / 2) ^ 2
          + ((labelI 2 l : ℚ) - (labelI 2 a : ℚ) + 0) ^ 2
          + ((labelK 2 l : ℚ) - (labelK 2 a : ℚ) + -1) ^ 2))) ∧
    (∀ Bl Bu D : ℚ,
      (∀ c, c < 2 * 2 * 2 → -Bl ≤ (fun l : Nat => ((l % 3 : Nat) : ℚ)) c ∧
        (fun l : Nat => ((l % 3 : Nat) : ℚ)) c ≤ Bu) →
      |(1 / 2 : ℚ)| ≤ D → |(0 : ℚ)| ≤ D → |(-1 : ℚ)| ≤ D → 0 ≤ Bl + Bu →
      (Bl + Bu) / 2 + D ^ 2 + D ≤ dt1sq.INF →
      ∃ r' indr', dt3x (Buf.ofFn (2 * 2 * 2) (fun l : Nat => ((l % 3 : Nat) : ℚ))) (Buf.new 8) 2
        (1 / 2) 0 (-1) = Except.ok (r', indr')) ∧
    ((1 / 2 : ℚ) = 0 → (0 : ℚ) = 0 → (-1 : ℚ) = 0 →
      (∀ c, c < 2 * 2 * 2 → (fun l : Nat => ((l % 3 : Nat) : ℚ)) c
        = (fun l : Nat => ((l % 3 : Nat) : ℚ)) 0) →
      ∃ r' indr', dt3x (Buf.ofFn (2 * 2 * 2) (fun l : Nat => ((l % 3 : Nat) : ℚ))) (Buf.new 8) 2
          (1 / 2) 0 (-1) = Except.ok (r', indr') ∧
        ∀ l, l < 2 * 2 * 2 →
          indr'.data l = some ((l : Nat) : Int) ∧
          r'.data l = some ((fun l : Nat => ((l % 3 : Nat) : ℚ)) l)) :=
  dt3x_argmin_entries 2 (fun l : Nat => ((l % 3 : Nat) : ℚ)) (Buf.new 8) (1 / 2) 0 (-1)
    (by unfold dt1sq.INF; norm_num) rfl
/-! ## Messages received by a node -/

/-- In a valid tree every child stands at a later position of `ordered` than
its parent. -/
theorem ValidTree.child_after (sz : Nat) (ord par : Nat → Nat) (h : ValidTree sz ord par)
    (i j : Nat) (hi : i < sz) (hj1 : 1 ≤ j) (hj : j < sz) (hp : par (ord j) = ord i) : i < j := by
  obtain ⟨i', h1, h2⟩ := h.2.2 j hj1 hj
  have := h.2.1 i' i (by omega) hi (by rw [h2, hp])
  omega

/-- The messages received by the node at position `i` all come from later
positions. -/
theorem regularisation.received_all (sz : Nat) (ord par : Nat → Nat) (M : Nat → Nat → ℚ)
    (h : ValidTree sz ord par) (i l : Nat) (hi : i < sz) :
    regularisation.received sz ord par M (i + 1) (ord i) l
      = regularisation.received sz ord par M 1 (ord i) l := by
  unfold regularisation.received
  rw [← Finset.sum_Ico_consecutive _ (by omega : 1 ≤ i + 1) (by omega : i + 1 ≤ sz)]
  have : ∑ t in Finset.Ico 1 (i + 1), (if ord i = par (ord t) then M t l else 0) = 0 := by
    apply Finset.sum_eq_zero
    intro t ht
    rw [Finset.mem_Ico] at ht
    rw [if_neg]
    intro he
    have := ValidTree.child_after sz ord par h i t hi ht.1 (by omega) he.symm
    omega
  rw [this, zero_add]

theorem regularisation.received_step (sz : Nat) (ord par : Nat → Nat) (M : Nat → Nat → ℚ)
    (k nd l : Nat) (hk : k + 1 < sz) :
    regularisation.received sz ord par M (k + 1) nd l
      = regularisation.received sz ord par M (k + 2) nd l
        + if nd = par (ord (k + 1)) then M (k + 1) l else 0 := by
  unfold regularisation.received
  rw [Finset.sum_eq_sum_Ico_succ_bot hk]
  ring

theorem regularisation.received_top (sz : Nat) (ord par : Nat → Nat) (M : Nat → Nat → ℚ)
    (nd l : Nat) : regularisation.received sz ord par M sz nd l = 0 := by
  unfold regularisation.received
  simp

/-! ## `regularisation`: every run that returns -/

/-- A `commit` that returns has written a label of the table and the prior
plus the table entries of that label at the node, and nothing else. -/
theorem regularisation.commit_inv (hw : Nat) (quant : ℚ) (tab : LabelTable) (u0 v0 w0 : Buf ℚ)
    (U V W : Nat → ℚ) (sz nd : Nat) (index : Int) (s s1 : RegState)
    (htab : IsLabelTable hw quant tab)
    (hprior : ∀ n, n < sz → u0.data n = some (U n) ∧ v0.data n = some (V n) ∧
      w0.data n = some (W n))
    (hnd : nd < sz)
    (h : regularisation.commit tab u0 v0 w0 ((nd : Nat) : Int) index s = Except.ok s1) :
    ∃ l : Nat, index = (l : Int) ∧ l < (hw * 2 + 1) * (hw * 2 + 1) * (hw * 2 + 1) ∧
      s1.selected.data = Function.update s.selected.data nd (some index) ∧
      s1.u1.data = Function.update s.u1.data nd
        (some (labelOffset hw quant (labelJ (hw * 2 + 1) l) + U nd)) ∧
      s1.v1.data = Function.update s.v1.data nd
        (some (labelOffset hw quant (labelI (hw * 2 + 1) l) + V nd)) ∧
      s1.w1.data = Function.update s.w1.data nd
        (some (labelOffset hw quant (labelK (hw * 2 + 1) l) + W nd)) ∧
      s1.costall = s.costall ∧ s1.cost1 = s.cost1 ∧ s1.allinds = s.allinds := by
  obtain ⟨hx, hy, hz, hcells⟩ := htab
  obtain ⟨pu, pv, pw⟩ := hprior nd hnd
  unfold regularisation.commit at h
  simp only [bind_eq_ok, pure_eq_ok] at h
  obtain ⟨sel', hsel, x, gx, u, gu, u1', hu1, y, gy, v, gv, v1', hv1, z, gz, w, gw, w1', hw1,
    he⟩ := h
  obtain ⟨i0, i1, dx⟩ := Buf.get_ok _ _ _ gx
  obtain ⟨_, _, dy⟩ := Buf.get_ok _ _ _ gy
  obtain ⟨_, _, dz⟩ := Buf.get_ok _ _ _ gz
  obtain ⟨_, _, du⟩ := Buf.get_ok _ _ _ gu
  obtain ⟨_, _, dv⟩ := Buf.get_ok _ _ _ gv
  obtain ⟨_, _, dw⟩ := Buf.get_ok _ _ _ gw
  simp only [Int.toNat_ofNat] at du dv dw
  rw [pu] at du
  rw [pv] at dv
  rw [pw] at dw
  have hl : index.toNat < (hw * 2 + 1) * (hw * 2 + 1) * (hw * 2 + 1) := by omega
  obtain ⟨cx, cy, cz⟩ := hcells index.toNat hl
  rw [cx] at dx
  rw [cy] at dy
  rw [cz] at dz
  obtain ⟨_, _, e1⟩ := Buf.set_ok _ _ _ _ hsel
  obtain ⟨_, _, e2⟩ := Buf.set_ok _ _ _ _ hu1
  obtain ⟨_, _, e3⟩ := Buf.set_ok _ _ _ _ hv1
  obtain ⟨_, _, e4⟩ := Buf.set_ok _ _ _ _ hw1
  simp only [Int.toNat_ofNat] at e1 e2 e3 e4
  cases he
  refine ⟨index.toNat, by omega, hl, ?_, ?_, ?_, ?_, rfl, rfl, rfl⟩
  · show sel'.data = _
    rw [e1]
  · show u1'.data = _
    rw [e2, ← Option.some.inj dx, ← Option.some.inj du]
  · show v1'.data = _
    rw [e3, ← Option.some.inj dy, ← Option.some.inj dv]
  · show w1'.data = _
    rw [e4, ← Option.some.inj dz, ← Option.some.inj dw]

/-- An iteration of the second loop of `regularisation` that returns has read
the label `sp` of the parent, has read the entry `allinds[node + sp*sz]` and
has committed it at the node. -/
theorem regularisation.select_inv (hw : Nat) (quant : ℚ) (tab : LabelTable) (u0 v0 w0 : Buf ℚ)
    (ordered parents : Buf Int) (m n o : Nat) (s s1 : RegState) (sz i : Nat)
    (U V W : Nat → ℚ) (ord par : Nat → Nat)
    (hsz : sz = m * n * o) (htab : IsLabelTable hw quant tab)
    (hin : RegInputs sz u0 v0 w0 ordered parents U V W ord par)
    (hvalid : ValidTree sz ord par) (hm : m ≠ 0) (hn : n ≠ 0) (hi1 : 1 ≤ i) (hi : i < sz)
    (h : regularisation.select tab u0 v0 w0 ordered parents m n o i s = Except.ok s1) :
    ∃ (sp : Int) (l : Nat), l < (hw * 2 + 1) * (hw * 2 + 1) * (hw * 2 + 1) ∧
      s.selected.data (par (ord i)) = some sp ∧
      s.allinds.data (((ord i : Nat) : Int) + sp * sz).toNat = some ((l : Nat) : Int) ∧
      s1.selected.data = Function.update s.selected.data (ord i) (some ((l : Nat) : Int)) ∧
      s1.u1.data = Function.update s.u1.data (ord i)
        (some (labelOffset hw quant (labelJ (hw * 2 + 1) l) + U (ord i))) ∧
      s1.v1.data = Function.update s.v1.data (ord i)
        (some (labelOffset hw quant (labelI (hw * 2 + 1) l) + V (ord i))) ∧
      s1.w1.data = Function.update s.w1.data (ord i)
        (some (labelOffset hw quant (labelK (hw * 2 + 1) l) + W (ord i))) ∧
      s1.costall = s.costall ∧ s1.cost1 = s.cost1 ∧ s1.allinds = s.allinds := by
  obtain ⟨su, sv, sw, so, sp, hprior, hord, hpar⟩ := hin
  have hc : ord i < sz := hvalid.1 i hi
  have e1 := Buf.get_nat ordered i _ (by omega) (hord i hi)
  have e2 := Buf.get_nat parents (ord i) _ (by omega) (hpar i hi1 hi)
  have e3 := regularisation.flat_eq m n ((ord i : Nat) : Int) hm hn
  have e4 := regularisation.flat_eq m n ((par (ord i) : Nat) : Int) hm hn
  unfold regularisation.select at h
  simp only [e1, e2, e3, e4, ok_bind, bind_eq_ok] at h
  obtain ⟨spv, gsp, index, gidx, hcommit⟩ := h
  obtain ⟨_, _, dsp⟩ := Buf.get_ok _ _ _ gsp
  obtain ⟨_, _, didx⟩ := Buf.get_ok _ _ _ gidx
  simp only [Int.toNat_ofNat] at dsp
  obtain ⟨l, hl, hlL, c1, c2, c3, c4, c5, c6, c7⟩ := regularisation.commit_inv hw quant tab
    u0 v0 w0 U V W sz (ord i) index s s1 htab hprior hc hcommit
  subst hl
  have hidx : ((ord i : Nat) : Int) + spv * (m : Int) * (n : Int) * (o : Int)
      = ((ord i : Nat) : Int) + spv * (sz : Nat) := by
    rw [hsz]; push_cast; ring
  rw [hidx] at didx
  exact ⟨spv, l, hlL, dsp, didx, c1, c2, c3, c4, c5, c6, c7⟩
/-- A `loadRow` that returns has copied initialised cells of the row of the
node into `cost1`. -/
theorem regularisation.loadRow_ok (costall : Buf ℚ) (nd sz L : Nat) (cost1 out : Buf ℚ)
    (h : regularisation.loadRow costall ((nd : Nat) : Int) sz L cost1 = Except.ok out) :
    L ≤ out.size ∧
    ∀ l, l < L → ∃ x, costall.data (nd + l * sz) = some x ∧ out.data l = some x := by
  unfold regularisation.loadRow at h
  have := forLoop_ok_inv
    (fun l (t : Buf ℚ) => l ≤ t.size ∧
      ∀ l', l' < l → ∃ x, costall.data (nd + l' * sz) = some x ∧ t.data l' = some x)
    _ L 0 cost1 out ⟨Nat.zero_le _, fun l' h => by omega⟩
    (by
      rintro l t t' _ _ ⟨_, hI⟩ hstep
      simp only [bind_eq_ok] at hstep
      obtain ⟨x, gx, hset⟩ := hstep
      obtain ⟨_, _, dx⟩ := Buf.get_ok _ _ _ gx
      rw [row_index_cast] at dx
      simp only [Int.toNat_ofNat] at dx
      obtain ⟨_, hlt, e⟩ := Buf.set_ok _ _ _ _ hset
      simp only [Int.toNat_ofNat] at e
      subst e
      refine ⟨by simp only; omega, ?_⟩
      intro l' hl'
      by_cases hc : l' = l
      · subst hc
        exact ⟨x, dx, by simp⟩
      · simp only [Function.update_noteq hc]
        exact hI l' (by omega))
    h
  simp only [Nat.zero_add] at this
  exact this

/-- The loop of the root over its row of `allinds`, when it returns, has
changed no cell outside that row. -/
theorem regularisation.rootRow_ok (allinds al : Buf Int) (nd sz L : Nat)
    (h : forLoop (fun l (t : Buf Int) =>
        t.set (((nd : Nat) : Int) + (l : Int) * sz) (toShort l)) 0 L allinds = Except.ok al) :
    ∀ c, (∀ l, l < L → c ≠ nd + l * sz) → al.data c = allinds.data c := by
  exact forLoop_ok_inv
    (fun _ (t : Buf Int) => ∀ c, (∀ l, l < L → c ≠ nd + l * sz) → t.data c = allinds.data c)
    _ L 0 allinds al (fun _ _ => rfl)
    (by
      intro l t t' _ hl hI hstep
      obtain ⟨_, _, e⟩ := Buf.set_ok _ _ _ _ hstep
      rw [row_index_cast] at e
      simp only [Int.toNat_ofNat] at e
      subst e
      intro c hc
      simp only [Function.update_noteq (hc l (by omega))]
      exact hI c hc)
    h

/-- A step of the root that returns has loaded the cost vector of the root
into `cost1`, has selected the first label that minimises it, and has changed
neither the cost volume nor the argmin tables of the other nodes. -/
theorem regularisation.root_inv (hw : Nat) (quant : ℚ) (tab : LabelTable) (u0 v0 w0 : Buf ℚ)
    (ordered parents : Buf Int) (m n o : Nat) (s sR : RegState) (sz L : Nat)
    (U V W : Nat → ℚ) (ord par : Nat → Nat)
    (hsz : sz = m * n * o) (hLd : L = (hw * 2 + 1) * (hw * 2 + 1) * (hw * 2 + 1))
    (htab : IsLabelTable hw quant tab)
    (hin : RegInputs sz u0 v0 w0 ordered parents U V W ord par)
    (hvalid : ValidTree sz ord par) (hm : m ≠ 0) (hn : n ≠ 0) (hsz1 : 1 ≤ sz)
    (h : regularisation.root tab u0 v0 w0 ordered hw m n o s = Except.ok sR) :
    ∃ (agg : Nat → ℚ) (r : Nat), r < L ∧
      (∀ l, l < L →
        s.costall.data (ord 0 + l * sz) = some (agg l) ∧ sR.cost1.data l = some (agg l)) ∧
      (∀ l, l < L → agg r ≤ agg l) ∧ (∀ l, l < r → agg r < agg l) ∧
      sR.costall = s.costall ∧
      sR.selected.data = Function.update s.selected.data (ord 0) (some ((r : Nat) : Int)) ∧
      sR.u1.data = Function.update s.u1.data (ord 0)
        (some (labelOffset hw quant (labelJ (hw * 2 + 1) r) + U (ord 0))) ∧
      sR.v1.data = Function.update s.v1.data (ord 0)
        (some (labelOffset hw quant (labelI (hw * 2 + 1) r) + V (ord 0))) ∧
      sR.w1.data = Function.update s.w1.data (ord 0)
        (some (labelOffset hw quant (labelK (hw * 2 + 1) r) + W (ord 0))) ∧
      ∀ t l, 1 ≤ t → t < sz → l < L →
        sR.allinds.data (ord t + l * sz) = s.allinds.data (ord t + l * sz) := by
  subst hsz hLd
  have hL1 : 1 ≤ (hw * 2 + 1) * (hw * 2 + 1) * (hw * 2 + 1) :=
    Nat.mul_pos (Nat.mul_pos (by omega) (by omega)) (by omega)
  have hc : ord 0 < m * n * o := hvalid.1 0 (by omega)
  have e1 : ordered.get 0 = Except.ok ((ord 0 : Nat) : Int) := by
    have := Buf.get_nat ordered 0 _ (by have := hin.2.2.2.1; omega)
      (hin.2.2.2.2.2.2.1 0 (by omega))
    rw [Nat.cast_zero] at this
    exact this
  have e3 := regularisation.flat_eq m n ((ord 0 : Nat) : Int) hm hn
  unfold regularisation.root at h
  simp only [e1, e3, ok_bind, bind_eq_ok] at h
  obtain ⟨row, hload, res, hmin, al, hal, hcommit⟩ := h
  obtain ⟨hrs, hrow⟩ := regularisation.loadRow_ok s.costall (ord 0) _ _ s.cost1 row hload
  have hex : ∀ l, ∃ x, l < (hw * 2 + 1) * (hw * 2 + 1) * (hw * 2 + 1) →
      s.costall.data (ord 0 + l * (m * n * o)) = some x ∧ row.data l = some x := by
    intro l
    by_cases hl : l < (hw * 2 + 1) * (hw * 2 + 1) * (hw * 2 + 1)
    · obtain ⟨x, hx⟩ := hrow l hl
      exact ⟨x, fun _ => hx⟩
    · exact ⟨0, fun h => absurd h hl⟩
  choose agg hagg using hex
  obtain ⟨res', hres', p, hidx, hpL, hval, hmin', hfirst, _⟩ := minimumIndA_spec row _ agg hL1 hrs
    (fun l hl => (hagg l hl).2)
  rw [hmin] at hres'
  have eres : res = res' := Except.ok.inj hres'
  subst eres
  obtain ⟨l, hl, hlL, c1, c2, c3, c4, c5, c6, c7⟩ := regularisation.commit_inv hw quant tab
    u0 v0 w0 U V W _ (ord 0) res.index _ sR htab hin.2.2.2.2.2.1 hc hcommit
  have hlp : l = p := by
    rw [hidx] at hl
    exact_mod_cast hl.symm
  subst hlp
  have hfr := regularisation.rootRow_ok s.allinds al (ord 0) _ _ hal
  refine ⟨agg, l, hpL, ?_, ?_, ?_, c5, ?_, c2, c3, c4, ?_⟩
  · intro l' hl'
    refine ⟨(hagg l' hl').1, ?_⟩
    rw [c6]
    exact (hagg l' hl').2
  · intro l' hl'
    rw [← hval]
    exact hmin' l' hl'
  · intro l' hl'
    rw [← hval]
    exact hfirst l' hl'
  · rw [c1, hidx]
  · intro t l' h1 h2 _
    rw [c7]
    apply hfr
    intro l'' _ he
    have := (row_index_inj _ (ord t) l' (ord 0) l'' (hvalid.1 t h2) hc he).1
    exact ValidTree.ord_ne _ ord par hvalid t 0 h2 (by omega) (by omega) this
/-- The loop of `regularisation` that adds a message to the cost vector of the
parent, when it returns, has added `msgs[l]` to the cell `l` of the row and
has changed no cell outside the row. -/
theorem regularisation.addRow_ok (costall msgs out : Buf ℚ) (nd sz L : Nat) (hn : nd < sz)
    (h : forLoop (fun l (t : Buf ℚ) => do
        let a ← t.get (((nd : Nat) : Int) + (l : Int) * sz)
        let b ← msgs.get l
        t.set (((nd : Nat) : Int) + (l : Int) * sz) (a + b)) 0 L costall = Except.ok out) :
    ∃ msg : Nat → ℚ,
      (∀ l, l < L → ∀ c, costall.data (nd + l * sz) = some c →
        out.data (nd + l * sz) = some (c + msg l)) ∧
      ∀ c, (∀ l, l < L → c ≠ nd + l * sz) → out.data c = costall.data c := by
  have := forLoop_ok_inv
    (fun l (t : Buf ℚ) =>
      (∀ l', l' < l → ∀ c, costall.data (nd + l' * sz) = some c →
        t.data (nd + l' * sz) = some (c + (msgs.data l').getD 0)) ∧
      (∀ l', l ≤ l' → t.data (nd + l' * sz) = costall.data (nd + l' * sz)) ∧
      ∀ c, (∀ l, l < L → c ≠ nd + l * sz) → t.data c = costall.data c)
    _ L 0 costall out ⟨fun l' h => by omega, fun _ _ => rfl, fun _ _ => rfl⟩
    (by
      rintro l t t' _ hl ⟨hdone, htodo, hframe⟩ hstep
      simp only [bind_eq_ok] at hstep
      obtain ⟨a, ga, b, gb, hset⟩ := hstep
      obtain ⟨_, _, da⟩ := Buf.get_ok _ _ _ ga
      obtain ⟨_, _, db⟩ := Buf.get_ok _ _ _ gb
      rw [row_index_cast] at da
      simp only [Int.toNat_ofNat] at da db
      obtain ⟨_, _, e⟩ := Buf.set_ok _ _ _ _ hset
      rw [row_index_cast] at e
      simp only [Int.toNat_ofNat] at e
      subst e
      have hne : ∀ l', l' ≠ l → nd + l' * sz ≠ nd + l * sz := fun l' hl' he =>
        hl' (row_index_inj sz nd l' nd l hn hn he).2
      refine ⟨?_, ?_, ?_⟩
      · intro l' hl' c hc
        by_cases hcur : l' = l
        · subst hcur
          simp only [Function.update_same]
          rw [htodo l' (le_refl _), hc] at da
          rw [db, ← Option.some.inj da]
          rfl
        · simp only [Function.update_noteq (hne l' hcur)]
          exact hdone l' (by omega) c hc
      · intro l' hl'
        simp only [Function.update_noteq (hne l' (by omega))]
        exact htodo l' (by omega)
      · intro c hc
        simp only [Function.update_noteq (hc l (by omega))]
        exact hframe c hc)
    h
  simp only [Nat.zero_add] at this
  exact ⟨fun l => (msgs.data l).getD 0, this.1, this.2.2⟩

/-- An iteration of the first loop of `regularisation` that returns has added
a message `msg` to the cost vector of the parent of the node and has changed
no other cost vector, no selected label and no output. -/
theorem regularisation.message_inv (u0 v0 w0 : Buf ℚ) (ordered parents : Buf Int) (hw : Nat)
    (quant : ℚ) (m n o : Nat) (frac : Int) (i : Nat) (s s1 : RegState) (sz L : Nat)
    (U V W : Nat → ℚ) (ord par : Nat → Nat)
    (hsz : sz = m * n * o) (hLd : L = (hw * 2 + 1) * (hw * 2 + 1) * (hw * 2 + 1))
    (hin : RegInputs sz u0 v0 w0 ordered parents U V W ord par)
    (hvalid : ValidTree sz ord par) (hm : m ≠ 0) (hn : n ≠ 0) (hi1 : 1 ≤ i) (hi : i < sz)
    (h : regularisation.message u0 v0 w0 ordered parents hw quant m n o frac i s
      = Except.ok s1) :
    ∃ msg : Nat → ℚ,
      (∀ nd l, nd < sz → l < L → ∀ c, s.costall.data (nd + l * sz) = some c →
        s1.costall.data (nd + l * sz)
          = some (c + if nd = par (ord i) then msg l else 0)) ∧
      s1.selected = s.selected ∧ s1.u1 = s.u1 ∧ s1.v1 = s.v1 ∧ s1.w1 = s.w1 := by
  subst hsz hLd
  obtain ⟨su, sv, sw, so, sp, hprior, hord, hpar⟩ := hin
  have hc : ord i < m * n * o := hvalid.1 i hi
  have hp : par (ord i) < m * n * o := ValidTree.parent_lt _ ord par hvalid i hi1 hi
  have e1 := Buf.get_nat ordered i _ (by omega) (hord i hi)
  have e2 := Buf.get_nat parents (ord i) _ (by omega) (hpar i hi1 hi)
  have e3 := regularisation.flat_eq m n ((ord i : Nat) : Int) hm hn
  have e4 := regularisation.flat_eq m n ((par (ord i) : Nat) : Int) hm hn
  unfold regularisation.message at h
  by_cases hfrac : frac = 0
  · simp [hfrac] at h
  simp only [if_neg hfrac, e1, e2, e3, e4, ok_bind, bind_eq_ok, pure_eq_ok] at h
  obtain ⟨row, _, dx1, _, dy1, _, dz1, _, r, _, al, _, ca, hadd, he⟩ := h
  obtain ⟨msg, hrow, hframe⟩ := regularisation.addRow_ok s.costall r.1 ca (par (ord i)) _ _ hp
    hadd
  cases he
  refine ⟨msg, ?_, rfl, rfl, rfl, rfl⟩
  intro nd l hnd hl c hcell
  show ca.data (nd + l * (m * n * o)) = _
  by_cases hcur : nd = par (ord i)
  · subst hcur
    simp only [if_true]
    exact hrow l hl c hcell
  · simp only [if_neg hcur, add_zero]
    rw [hframe _ (fun l' _ he => hcur (row_index_inj _ nd l (par (ord i)) l' hnd hp he).1)]
    exact hcell
/-- The states of a `forDown` that returns: `st i` is the state before the
iteration `i` and `st 0` the final state. -/
theorem forDown_ok_trace {σ : Type} (body : Nat → σ → Except Err σ) (cnt : Nat) :
    ∀ (s s' : σ), forDown body cnt s = Except.ok s' →
    ∃ st : Nat → σ, st cnt = s ∧ st 0 = s' ∧
      ∀ i, 0 < i → i ≤ cnt → body i (st i) = Except.ok (st (i - 1)) := by
  induction cnt with
  | zero =>
    intro s s' h
    cases h
    exact ⟨fun _ => s, rfl, rfl, fun i h1 h2 => by omega⟩
  | succ n ih =>
    intro s s' h
    simp only [forDown, bind_eq_ok] at h
    obtain ⟨t, ht, hrest⟩ := h
    obtain ⟨st, e0, e1, hS⟩ := ih t s' hrest
    refine ⟨fun i => if i = n + 1 then s else st i, by simp, ?_, ?_⟩
    · have h3 : ¬ (0 = n + 1) := by omega
      simp only [if_neg h3]
      exact e1
    · intro i h1 h2
      by_cases hc : i = n + 1
      · subst hc
        simp only [if_true, Nat.add_sub_cancel]
        rw [if_neg (by omega), e0]
        exact ht
      · have h3 : ¬ (i - 1 = n + 1) := by omega
        simp only [if_neg hc, if_neg h3]
        exact hS i h1 (by omega)

/-- The states of a `forLoop` that returns: `st i` is the state before the
iteration `i` and `st (lo+cnt)` the final state. -/
theorem forLoop_ok_trace {σ : Type} (body : Nat → σ → Except Err σ) (cnt : Nat) :
    ∀ (lo : Nat) (s s' : σ), forLoop body lo cnt s = Except.ok s' →
    ∃ st : Nat → σ, st lo = s ∧ st (lo + cnt) = s' ∧
      ∀ i, lo ≤ i → i < lo + cnt → body i (st i) = Except.ok (st (i + 1)) := by
  induction cnt with
  | zero =>
    intro lo s s' h
    cases h
    exact ⟨fun _ => s, rfl, rfl, fun i h1 h2 => by omega⟩
  | succ n ih =>
    intro lo s s' h
    simp only [forLoop, bind_eq_ok] at h
    obtain ⟨t, ht, hrest⟩ := h
    obtain ⟨st, e0, e1, hS⟩ := ih (lo + 1) t s' hrest
    refine ⟨fun i => if i = lo then s else st i, by simp, ?_, ?_⟩
    · have h3 : ¬ (lo + (n + 1) = lo) := by omega
      have h4 : lo + 1 + n = lo + (n + 1) := by omega
      simp only [if_neg h3]
      rw [← h4]
      exact e1
    · intro i h1 h2
      have h3 : ¬ (i + 1 = lo) := by omega
      by_cases hc : i = lo
      · subst hc
        simp only [if_true, if_neg h3, e0]
        exact ht
      · simp only [if_neg hc, if_neg h3]
        exact hS i (by omega) (by omega)
/-- The second loop of `regularisation` along a sequence of states `p2` that
starts after the step of the root: the cost volume, `cost1` and the argmin
tables stay as they are, a selected label is never overwritten, and before
the iteration of position `j` every position `t < j` carries a label of the
table, its output, and (for `t >= 1`) its label is the entry of its argmin
table at the label of its parent. -/
theorem regularisation.pass2_ok (hw : Nat) (quant : ℚ) (tab : LabelTable) (u0 v0 w0 : Buf ℚ)
    (ordered parents : Buf Int) (m n o : Nat) (sz L r : Nat)
    (U V W : Nat → ℚ) (ord par : Nat → Nat) (p2 : Nat → RegState)
    (hsz : sz = m * n * o) (hLd : L = (hw * 2 + 1) * (hw * 2 + 1) * (hw * 2 + 1))
    (htab : IsLabelTable hw quant tab)
    (hin : RegInputs sz u0 v0 w0 ordered parents U V W ord par)
    (hvalid : ValidTree sz ord par) (hm : m ≠ 0) (hn : n ≠ 0) (hr : r < L)
    (hroot : (p2 1).selected.data (ord 0) = some ((r : Nat) : Int) ∧
      (p2 1).u1.data (ord 0) = some (labelOffset hw quant (labelJ (hw * 2 + 1) r) + U (ord 0)) ∧
      (p2 1).v1.data (ord 0) = some (labelOffset hw quant (labelI (hw * 2 + 1) r) + V (ord 0)) ∧
      (p2 1).w1.data (ord 0) = some (labelOffset hw quant (labelK (hw * 2 + 1) r) + W (ord 0)))
    (hsteps : ∀ i, 1 ≤ i → i < sz →
      regularisation.select tab u0 v0 w0 ordered parents m n o i (p2 i)
        = Except.ok (p2 (i + 1))) :
    (∀ j, 1 ≤ j → j ≤ sz →
      (p2 j).costall = (p2 1).costall ∧ (p2 j).cost1 = (p2 1).cost1 ∧
      (p2 j).allinds = (p2 1).allinds) ∧
    (∀ i j, 1 ≤ i → i ≤ j → j ≤ sz → ∀ t, t < i →
      (p2 j).selected.data (ord t) = (p2 i).selected.data (ord t)) ∧
    ∀ j, 1 ≤ j → j ≤ sz → ∀ t, t < j → ∃ l : Nat, l < L ∧
      (p2 j).selected.data (ord t) = some ((l : Nat) : Int) ∧
      (p2 j).u1.data (ord t) = some (labelOffset hw quant (labelJ (hw * 2 + 1) l) + U (ord t)) ∧
      (p2 j).v1.data (ord t) = some (labelOffset hw quant (labelI (hw * 2 + 1) l) + V (ord t)) ∧
      (p2 j).w1.data (ord t) = some (labelOffset hw quant (labelK (hw * 2 + 1) l) + W (ord t)) ∧
      (1 ≤ t → ∃ lp : Nat, (p2 j).selected.data (par (ord t)) = some ((lp : Nat) : Int) ∧
        (p2 1).allinds.data (ord t + lp * sz) = some ((l : Nat) : Int)) := by
  have hstep := fun i (h1 : 1 ≤ i) (h2 : i < sz) =>
    regularisation.select_inv hw quant tab u0 v0 w0 ordered parents m n o (p2 i) (p2 (i + 1)) sz
      i U V W ord par hsz htab hin hvalid hm hn h1 h2 (hsteps i h1 h2)
  have hne : ∀ t i, t < i → i < sz → ord t ≠ ord i := fun t i ht hi =>
    ValidTree.ord_ne sz ord par hvalid t i (by omega) hi (by omega)
  have hkeep : ∀ d, 1 + d ≤ sz →
      (p2 (1 + d)).costall = (p2 1).costall ∧ (p2 (1 + d)).cost1 = (p2 1).cost1 ∧
      (p2 (1 + d)).allinds = (p2 1).allinds := by
    intro d
    induction d with
    | zero => intro _; exact ⟨rfl, rfl, rfl⟩
    | succ d ih =>
      intro hd
      obtain ⟨a, b, c⟩ := ih (by omega)
      obtain ⟨_, _, _, _, _, _, _, _, _, k1, k2, k3⟩ := hstep (1 + d) (by omega) (by omega)
      have e : 1 + (d + 1) = 1 + d + 1 := by omega
      rw [e, k1, k2, k3]
      exact ⟨a, b, c⟩
  have hpers : ∀ i d, 1 ≤ i → i + d ≤ sz → ∀ t, t < i →
      (p2 (i + d)).selected.data (ord t) = (p2 i).selected.data (ord t) := by
    intro i d
    induction d with
    | zero => intro _ _ t _; rfl
    | succ d ih =>
      intro h1 hd t ht
      obtain ⟨_, _, _, _, _, c1, _⟩ := hstep (i + d) (by omega) (by omega)
      have e : i + (d + 1) = i + d + 1 := by omega
      rw [e, c1, Function.update_noteq (hne t (i + d) (by omega) (by omega))]
      exact ih h1 (by omega) t ht
  have hcells : ∀ d, 1 + d ≤ sz → ∀ t, t < 1 + d → ∃ l : Nat, l < L ∧
      (p2 (1 + d)).selected.data (ord t) = some ((l : Nat) : Int) ∧
      (p2 (1 + d)).u1.data (ord t)
        = some (labelOffset hw quant (labelJ (hw * 2 + 1) l) + U (ord t)) ∧
      (p2 (1 + d)).v1.data (ord t)
        = some (labelOffset hw quant (labelI (hw * 2 + 1) l) + V (ord t)) ∧
      (p2 (1 + d)).w1.data (ord t)
        = some (labelOffset hw quant (labelK (hw * 2 + 1) l) + W (ord t)) ∧
      (1 ≤ t → ∃ lp : Nat, (p2 (1 + d)).selected.data (par (ord t)) = some ((lp : Nat) : Int) ∧
        (p2 1).allinds.data (ord t + lp * sz) = some ((l : Nat) : Int)) := by
    intro d
    induction d with
    | zero =>
      intro _ t ht
      have : t = 0 := by omega
      subst this
      exact ⟨r, hr, hroot.1, hroot.2.1, hroot.2.2.1, hroot.2.2.2, fun h => by omega⟩
    | succ d ih =>
      intro hd t ht
      have ih' := ih (by omega)
      obtain ⟨sp, l, hl, gsp, gidx, c1, c2, c3, c4, _⟩ := hstep (1 + d) (by omega) (by omega)
      obtain ⟨i', hi', hp⟩ := hvalid.2.2 (1 + d) (by omega) (by omega)
      have hpne : par (ord (1 + d)) ≠ ord (1 + d) := by
        rw [← hp]
        exact hne i' (1 + d) hi' (by omega)
      have e : 1 + (d + 1) = 1 + d + 1 := by omega
      rw [e]
      by_cases hc : t = 1 + d
      · subst hc
        refine ⟨l, by rw [hLd]; exact hl, ?_, ?_, ?_, ?_, ?_⟩
        · rw [c1]; simp
        · rw [c2]; simp
        · rw [c3]; simp
        · rw [c4]; simp
        · intro _
          obtain ⟨lp, _, glp, _⟩ := ih' i' hi'
          rw [hp] at glp
          rw [gsp] at glp
          have esp : sp = (lp : Int) := Option.some.inj glp
          subst esp
          refine ⟨lp, ?_, ?_⟩
          · rw [c1, Function.update_noteq hpne]
            exact gsp
          · rw [(hkeep d (by omega)).2.2] at gidx
            have ei : (((ord (1 + d) : Nat) : Int) + (lp : Int) * (sz : Int)).toNat
                = ord (1 + d) + lp * sz := by
              have : ((ord (1 + d) : Nat) : Int) + (lp : Int) * (sz : Int)
                  = ((ord (1 + d) + lp * sz : Nat) : Int) := by push_cast; ring
              rw [this, Int.toNat_ofNat]
            rw [ei] at gidx
            exact gidx
      · have hlt : t < 1 + d := by omega
        obtain ⟨l', hl', g1, g2, g3, g4, g5⟩ := ih' t hlt
        have hn' := hne t (1 + d) hlt (by omega)
        refine ⟨l', hl', ?_, ?_, ?_, ?_, ?_⟩
        · rw [c1, Function.update_noteq hn']; exact g1
        · rw [c2, Function.update_noteq hn']; exact g2
        · rw [c3, Function.update_noteq hn']; exact g3
        · rw [c4, Function.update_noteq hn']; exact g4
        · intro h1
          obtain ⟨lp, a, b⟩ := g5 h1
          obtain ⟨t', ht', hpt⟩ := hvalid.2.2 t h1 (by omega)
          refine ⟨lp, ?_, b⟩
          rw [c1, ← hpt, Function.update_noteq (hne t' (1 + d) (by omega) (by omega)), hpt]
          exact a
  refine ⟨?_, ?_, ?_⟩
  · intro j h1 h2
    have := hkeep (j - 1) (by omega)
    have e : 1 + (j - 1) = j := by omega
    rw [e] at this
    exact this
  · intro i j h1 h2 h3 t ht
    have := hpers i (j - i) h1 (by omega) t ht
    have e : i + (j - i) = j := by omega
    rw [e] at this
    exact this
  · intro j h1 h2 t ht
    have := hcells (j - 1) (by omega) t (by omega)
    have e : 1 + (j - 1) = j := by omega
    rw [e] at this
    exact this
/-- Every run of `regularisation` that returns, on a valid tree and an
initialised cost volume, as a sequence of states.  The first loop passes
through `p1 (sz-1), .., p1 0` (`p1 i` is the state before the iteration of
position `i`), the step of the root leads from `p1 0` to `p2 1` and the
second loop passes through `p2 1, .., p2 sz` (`p2 i` is the state before the
iteration of position `i`); `p2 sz` is the result.  `M t` is the message that
the iteration of position `t` adds to the cost vector of its parent. -/
theorem regularisation_ok (u1 v1 w1 u0 v0 w0 costall : Buf ℚ) (hw step1 : Nat) (quant : ℚ)
    (ordered parents : Buf Int) (image_m image_n image_o : Nat) (sz L : Nat)
    (U V W : Nat → ℚ) (ord par : Nat → Nat) (C : Nat → Nat → ℚ) (s : RegState)
    (hsz : sz = image_m / step1 * (image_n / step1) * (image_o / step1))
    (hLd : L = (hw * 2 + 1) * (hw * 2 + 1) * (hw * 2 + 1)) (hsz1 : 1 ≤ sz)
    (hin : RegInputs sz u0 v0 w0 ordered parents U V W ord par)
    (hvalid : ValidTree sz ord par)
    (hC : ∀ nd l, nd < sz → l < L → costall.data (nd + l * sz) = some (C nd l))
    (hrun : regularisation u1 v1 w1 u0 v0 w0 costall hw step1 quant ordered parents
        image_m image_n image_o = Except.ok s) :
    ∃ (tab : LabelTable) (c1 : Buf ℚ) (p1 p2 : Nat → RegState) (M : Nat → Nat → ℚ)
      (sel : Nat → Nat),
      (labelTable hw quant = Except.ok tab ∧ IsLabelTable hw quant tab) ∧
      (p1 (sz - 1) = ⟨costall, c1, Buf.new L, Buf.new (sz * L), Buf.new sz, u1, v1, w1⟩ ∧
        (∀ i, 1 ≤ i → i < sz →
          regularisation.message u0 v0 w0 ordered parents hw quant (image_m / step1)
            (image_n / step1) (image_o / step1) ((sz / 25 : Nat) : Int) i (p1 i)
            = Except.ok (p1 (i - 1))) ∧
        regularisation.root tab u0 v0 w0 ordered hw (image_m / step1) (image_n / step1)
          (image_o / step1) (p1 0) = Except.ok (p2 1) ∧
        (∀ i, 1 ≤ i → i < sz →
          regularisation.select tab u0 v0 w0 ordered parents (image_m / step1)
            (image_n / step1) (image_o / step1) i (p2 i) = Except.ok (p2 (i + 1))) ∧
        p2 sz = s) ∧
      (∀ i nd l, i < sz → nd < sz → l < L →
        (p1 i).costall.data (nd + l * sz)
          = some (C nd l + regularisation.received sz ord par M (i + 1) nd l)) ∧
      (∀ l, l < L →
        s.cost1.data l
          = some (C (ord 0) l + regularisation.received sz ord par M 1 (ord 0) l) ∧
        s.costall.data (ord 0 + l * sz)
          = some (C (ord 0) l + regularisation.received sz ord par M 1 (ord 0) l)) ∧
      (∀ t, t < sz → sel (ord t) < L ∧
        s.selected.data (ord t) = some ((sel (ord t) : Nat) : Int) ∧
        s.u1.data (ord t)
          = some (labelOffset hw quant (labelJ (hw * 2 + 1) (sel (ord t))) + U (ord t)) ∧
        s.v1.data (ord t)
          = some (labelOffset hw quant (labelI (hw * 2 + 1) (sel (ord t))) + V (ord t)) ∧
        s.w1.data (ord t)
          = some (labelOffset hw quant (labelK (hw * 2 + 1) (sel (ord t))) + W (ord t))) ∧
      (∀ l, l < L →
        C (ord 0) (sel (ord 0)) + regularisation.received sz ord par M 1 (ord 0) (sel (ord 0))
          ≤ C (ord 0) l + regularisation.received sz ord par M 1 (ord 0) l) ∧
      (∀ l, l < sel (ord 0) →
        C (ord 0) (sel (ord 0)) + regularisation.received sz ord par M 1 (ord 0) (sel (ord 0))
          < C (ord 0) l + regularisation.received sz ord par M 1 (ord 0) l) ∧
      (∀ t, 1 ≤ t → t < sz →
        s.allinds.data (ord t + sel (par (ord t)) * sz) = some ((sel (ord t) : Nat) : Int)) ∧
      ∀ i, 1 ≤ i → i < sz →
        (p2 i).selected.data (par (ord i)) = some ((sel (par (ord i)) : Nat) : Int) := by
  have hm : image_m / step1 ≠ 0 := by
    intro h; rw [h] at hsz; simp at hsz; omega
  have hn : image_n / step1 ≠ 0 := by
    intro h; rw [h] at hsz; simp at hsz; omega
  have e1 : 1 + (sz - 1) = sz := by omega
  have h0 : ord 0 < sz := hvalid.1 0 (by omega)
  unfold regularisation at hrun
  by_cases hstep : step1 = 0
  · simp [hstep] at hrun
  simp only [if_neg hstep, bind_eq_ok] at hrun
  obtain ⟨tab, etab, c1, _, sA, erunA, sR, erunR, erunF⟩ := hrun
  rw [← hsz, ← hLd] at erunA
  rw [← hsz] at erunF
  obtain ⟨tab', etab', htab⟩ := labelTable_flat hw quant
  rw [etab] at etab'
  have et : tab = tab' := Except.ok.inj etab'
  subst et
  -- first loop
  obtain ⟨p1, a0, a1, hS1⟩ := forDown_ok_trace _ _ _ _ erunA
  have hex : ∀ t, ∃ msg : Nat → ℚ, 1 ≤ t → t < sz →
      ∀ nd l, nd < sz → l < L → ∀ c, (p1 t).costall.data (nd + l * sz) = some c →
        (p1 (t - 1)).costall.data (nd + l * sz)
          = some (c + if nd = par (ord t) then msg l else 0) := by
    intro t
    by_cases ht : 1 ≤ t ∧ t < sz
    · obtain ⟨msg, h, _⟩ := regularisation.message_inv u0 v0 w0 ordered parents hw quant _ _ _ _
        t (p1 t) (p1 (t - 1)) sz L U V W ord par hsz hLd hin hvalid hm hn ht.1 ht.2
        (hS1 t (by omega) (by omega))
      exact ⟨msg, fun _ _ => h⟩
    · exact ⟨fun _ => 0, fun h1 h2 => absurd ⟨h1, h2⟩ ht⟩
  choose M hM using hex
  have hcells : ∀ d, d < sz → ∀ nd l, nd < sz → l < L →
      (p1 (sz - 1 - d)).costall.data (nd + l * sz)
        = some (C nd l + regularisation.received sz ord par M (sz - 1 - d + 1) nd l) := by
    intro d
    induction d with
    | zero =>
      intro _ nd l h1 h2
      have e : sz - 1 - 0 + 1 = sz := by omega
      rw [e, regularisation.received_top, add_zero, Nat.sub_zero, a0]
      exact hC nd l h1 h2
    | succ d ih =>
      intro hd nd l h1 h2
      obtain ⟨k, hk⟩ : ∃ k, sz - 1 - (d + 1) = k := ⟨_, rfl⟩
      have e1 : sz - 1 - d = k + 1 := by omega
      have e2 : k + 1 - 1 = k := by omega
      have ih' := ih (by omega) nd l h1 h2
      rw [e1] at ih'
      have hstep := hM (k + 1) (by omega) (by omega) nd l h1 h2 _ ih'
      rw [e2] at hstep
      rw [hk, hstep, regularisation.received_step sz ord par M k nd l (by omega)]
      congr 1
      ring
  have hcost : ∀ i nd l, i < sz → nd < sz → l < L →
      (p1 i).costall.data (nd + l * sz)
        = some (C nd l + regularisation.received sz ord par M (i + 1) nd l) := by
    intro i nd l hi h1 h2
    have := hcells (sz - 1 - i) (by omega) nd l h1 h2
    have e : sz - 1 - (sz - 1 - i) = i := by omega
    rw [e] at this
    exact this
  -- the root
  rw [← a1] at erunR
  obtain ⟨agg, r, hrL, hagg, hrmin, hrfirst, rc, rs, ru, rv, rw', _⟩ :=
    regularisation.root_inv hw quant tab u0 v0 w0 ordered parents _ _ _ (p1 0) sR sz L U V W
      ord par hsz hLd htab hin hvalid hm hn hsz1 erunR
  have hagg' : ∀ l, l < L →
      agg l = C (ord 0) l + regularisation.received sz ord par M 1 (ord 0) l := by
    intro l hl
    have a := (hagg l hl).1
    rw [hcost 0 (ord 0) l (by omega) h0 hl] at a
    exact (Option.some.inj a).symm
  -- second loop
  obtain ⟨p2, b0, b1, hS2⟩ := forLoop_ok_trace _ _ _ _ _ erunF
  rw [e1] at b1 hS2
  rw [← b0] at erunR
  obtain ⟨hkeep, hpers, hsel⟩ := regularisation.pass2_ok hw quant tab u0 v0 w0 ordered parents
    _ _ _ sz L r U V W ord par p2 hsz hLd htab hin hvalid hm hn hrL
    (by rw [b0, rs, ru, rv, rw']; simp)
    (fun i h1 h2 => hS2 i h1 (by omega))
  obtain ⟨kc, k1, ka⟩ := hkeep sz hsz1 (le_refl _)
  rw [b1, b0] at kc k1 ka
  have hfin := hsel sz hsz1 (le_refl _)
  rw [b1] at hfin
  have hselv : ∀ t, t < sz → ∀ l : Nat, s.selected.data (ord t) = some ((l : Nat) : Int) →
      ((s.selected.data (ord t)).getD 0).toNat = l := by
    intro t _ l hl
    rw [hl]
    simp
  refine ⟨tab, c1, p1, p2, M, fun nd => ((s.selected.data nd).getD 0).toNat, ⟨etab, htab⟩,
    ⟨a0, fun i h1 h2 => hS1 i (by omega) (by omega), erunR,
      fun i h1 h2 => hS2 i h1 (by omega), b1⟩, hcost, ?_, ?_, ?_, ?_, ?_, ?_⟩
  · intro l hl
    constructor
    · rw [k1, (hagg l hl).2, hagg' l hl]
    · rw [kc, rc]
      exact hcost 0 (ord 0) l (by omega) h0 hl
  · intro t ht
    obtain ⟨l, hl, g1, g2, g3, g4, _⟩ := hfin t ht
    simp only [hselv t ht l g1]
    exact ⟨hl, g1, g2, g3, g4⟩
  · intro l hl
    obtain ⟨l0, hl0, g1, _⟩ := hfin 0 (by omega)
    have er : l0 = r := by
      have := hpers 1 sz (le_refl _) hsz1 (le_refl _) 0 (by omega)
      rw [b1, b0, rs, Function.update_same, g1] at this
      exact_mod_cast Option.some.inj this
    simp only [hselv 0 (by omega) l0 g1, er]
    rw [← hagg' r hrL, ← hagg' l hl]
    exact hrmin l hl
  · intro l hl
    obtain ⟨l0, hl0, g1, _⟩ := hfin 0 (by omega)
    have er : l0 = r := by
      have := hpers 1 sz (le_refl _) hsz1 (le_refl _) 0 (by omega)
      rw [b1, b0, rs, Function.update_same, g1] at this
      exact_mod_cast Option.some.inj this
    simp only [hselv 0 (by omega) l0 g1, er] at hl ⊢
    rw [← hagg' r hrL, ← hagg' l (by omega)]
    exact hrfirst l hl
  · intro t h1 h2
    obtain ⟨l, hl, g1, _, _, _, g5⟩ := hfin t h2
    obtain ⟨lp, gp, gidx⟩ := g5 h1
    have e3 : ((s.selected.data (par (ord t))).getD 0).toNat = lp := by
      rw [gp]; simp
    simp only [hselv t h2 l g1, e3]
    rw [ka]
    rw [b0] at gidx
    exact gidx
  · intro i h1 h2
    obtain ⟨i', hi', hp⟩ := hvalid.2.2 i h1 h2
    have hp1 := hpers i sz h1 (by omega) (le_refl _) i' hi'
    rw [b1, hp] at hp1
    obtain ⟨lp, _, gp, _⟩ := hfin i' (by omega)
    rw [hp] at gp
    have e3 : ((s.selected.data (par (ord i))).getD 0).toNat = lp := by
      rw [gp]; simp
    simp only [e3]
    rw [← hp1]
    exact gp

/-- The chain `0 - 1 - ... - (sz-1)` in its natural order is a valid tree. -/
theorem chain_valid (sz : Nat) : ValidTree sz (fun i => i) (fun nd => nd - 1) :=
  ⟨fun _ h => h, fun _ _ _ _ h => h, fun i h1 _ => ⟨i - 1, by omega, rfl⟩⟩

/-- Input arrays of the chain with the prior field `(U,V,W)`. -/
theorem chain_inputs (sz : Nat) (U V W : Nat → ℚ) :
    RegInputs sz (Buf.ofFn sz U) (Buf.ofFn sz V) (Buf.ofFn sz W)
      (Buf.ofFn sz (fun i => (i : Int))) (Buf.ofFn sz (fun i => (i : Int) - 1)) U V W
      (fun i => i) (fun nd => nd - 1) := by
  refine ⟨le_refl _, le_refl _, le_refl _, le_refl _, le_refl _, ?_, ?_, ?_⟩
  · intro n hn
    simp [Buf.ofFn, hn]
  · intro i hi
    simp [Buf.ofFn, hi]
  · intro i h1 hi
    simp only [Buf.ofFn, if_pos hi]
    congr 1
    omega

theorem cost_cells (n : Nat) (f : Nat → ℚ) (sz L : Nat) (h : n = sz * L) (nd l : Nat)
    (hnd : nd < sz) (hl : l < L) :
    (Buf.ofFn n f).data (nd + l * sz) = some (f (nd + l * sz)) := by
  have := row_index_lt sz L nd l hnd hl
  simp only [Buf.ofFn]
  rw [if_pos (by omega)]

/-- Claim C1, amended: for a valid tree over one or at least 25 control
points, a search radius `hw <= 15`, nonzero `quant` and `step1`, costs of
magnitude at most `B` and prior differences along the edges of magnitude at
most `D` label steps with `sz*(B+2*D^2)+D <= 1e10`, the run of
`regularisation` succeeds and the selected labelling minimises the total
energy over all assignments of labels of the cube to the nodes. -/
theorem regularisation_minimises_energy (u1 v1 w1 u0 v0 w0 costall : Buf ℚ) (hw step1 : Nat)
    (quant : ℚ) (ordered parents : Buf Int) (image_m image_n image_o : Nat) (sz L : Nat)
    (U V W : Nat → ℚ) (ord par : Nat → Nat) (C : Nat → Nat → ℚ) (B D : ℚ)
    (hstep : step1 ≠ 0)
    (hsz : sz = image_m / step1 * (image_n / step1) * (image_o / step1))
    (hLd : L = (hw * 2 + 1) * (hw * 2 + 1) * (hw * 2 + 1))
    (hsize : sz = 1 ∨ 25 ≤ sz) (hhw : hw ≤ 15) (hq : quant ≠ 0)
    (hin : RegInputs sz u0 v0 w0 ordered parents U V W ord par)
    (hvalid : ValidTree sz ord par)
    (hcs : costall.size = sz * L)
    (hu1 : sz ≤ u1.size) (hv1 : sz ≤ v1.size) (hw1 : sz ≤ w1.size)
    (hC : ∀ nd l, nd < sz → l < L → costall.data (nd + l * sz) = some (C nd l))
    (hCB : ∀ nd l, nd < sz → l < L → -B ≤ C nd l ∧ C nd l ≤ B)
    (hD : ∀ t, 1 ≤ t → t < sz →
      |(U (par (ord t)) - U (ord t)) / quant| ≤ D ∧
      |(V (par (ord t)) - V (ord t)) / quant| ≤ D ∧
      |(W (par (ord t)) - W (ord t)) / quant| ≤ D)
    (hB0 : 0 ≤ B) (hlim : (sz : ℚ) * (B + 2 * D ^ 2) + D ≤ dt1sq.INF) :
    ∃ s, regularisation u1 v1 w1 u0 v0 w0 costall hw step1 quant ordered parents
        image_m image_n image_o = Except.ok s ∧
      ∃ sel : Nat → Nat, (∀ nd, sel nd < L) ∧
        (∀ t, t < sz → s.selected.data (ord t) = some ((sel (ord t) : Nat) : Int)) ∧
        ∀ lab : Nat → Nat, (∀ nd, nd < sz → lab nd < L) →
          regularisation.energy sz (hw * 2 + 1) C U V W quant ord par sel
            ≤ regularisation.energy sz (hw * 2 + 1) C U V W quant ord par lab :=
  regularisation_optimal u1 v1 w1 u0 v0 w0 costall hw step1 quant ordered parents image_m
    image_n image_o sz L U V W ord par C B D hstep hsz hLd hsize hhw hq hin hvalid hcs hu1 hv1
    hw1 hC hCB hD hB0 hlim

/-- Witness for claim C1 (amended): the chain of 25 control points with
`hw = 1`, costs `(node + 25*label) mod 5` and prior `u0[n] = n/2`. -/
theorem regularisation_minimises_energy_witness :
    ∃ s, regularisation (Buf.new 25) (Buf.new 25) (Buf.new 25)
        (Buf.ofFn 25 (fun n : Nat => (n : ℚ) / 2)) (Buf.ofFn 25 (fun _ : Nat => (0 : ℚ)))
        (Buf.ofFn 25 (fun _ : Nat => (0 : ℚ)))
        (Buf.ofFn (25 * 27) (fun c : Nat => ((c % 5 : Nat) : ℚ))) 1 1 1
        (Buf.ofFn 25 (fun i => (i : Int))) (Buf.ofFn 25 (fun i => (i : Int) - 1)) 25 1 1
        = Except.ok s ∧
      ∃ sel : Nat → Nat, (∀ nd, sel nd < 27) ∧
        (∀ t : Nat, t < 25 →
          s.selected.data ((fun i : Nat => i) t) = some (((sel ((fun i : Nat => i) t)) : Nat) : Int)) ∧
        ∀ lab : Nat → Nat, (∀ nd, nd < 25 → lab nd < 27) →
          regularisation.energy 25 (1 * 2 + 1)
              (fun nd l : Nat => (((nd + l * 25) % 5 : Nat) : ℚ))
              (fun n : Nat => (n : ℚ) / 2) (fun _ : Nat => (0 : ℚ)) (fun _ : Nat => (0 : ℚ)) 1
              (fun i : Nat => i) (fun nd : Nat => nd - 1) sel
            ≤ regularisation.energy 25 (1 * 2 + 1)
              (fun nd l : Nat => (((nd + l * 25) % 5 : Nat) : ℚ))
              (fun n : Nat => (n : ℚ) / 2) (fun _ : Nat => (0 : ℚ)) (fun _ : Nat => (0 : ℚ)) 1
              (fun i : Nat => i) (fun nd : Nat => nd - 1) lab :=
  regularisation_minimises_energy (Buf.new 25) (Buf.new 25) (Buf.new 25)
    (Buf.ofFn 25 (fun n : Nat => (n : ℚ) / 2)) (Buf.ofFn 25 (fun _ : Nat => (0 : ℚ)))
    (Buf.ofFn 25 (fun _ : Nat => (0 : ℚ)))
    (Buf.ofFn (25 * 27) (fun c : Nat => ((c % 5 : Nat) : ℚ))) 1 1 1
    (Buf.ofFn 25 (fun i => (i : Int))) (Buf.ofFn 25 (fun i => (i : Int) - 1)) 25 1 1 25 27
    (fun n : Nat => (n : ℚ) / 2) (fun _ : Nat => (0 : ℚ)) (fun _ : Nat => (0 : ℚ))
    (fun i : Nat => i) (fun nd : Nat => nd - 1)
    (fun nd l : Nat => (((nd + l * 25) % 5 : Nat) : ℚ)) 4 (1 / 2)
    (by decide) (by decide) (by decide) (Or.inr (le_refl _)) (by decide) one_ne_zero
    (chain_inputs 25 _ _ _) (chain_valid 25) rfl (le_refl _) (le_refl _) (le_refl _)
    (fun nd l hnd hl => cost_cells (25 * 27) _ 25 27 rfl nd l hnd hl)
    (fun nd l _ _ => by
      have h4 : (nd + l * 25) % 5 ≤ 4 := by omega
      have : (((nd + l * 25) % 5 : Nat) : ℚ) ≤ 4 := by exact_mod_cast h4
      have : (0 : ℚ) ≤ (((nd + l * 25) % 5 : Nat) : ℚ) := Nat.cast_nonneg _
      constructor <;> linarith)
    (fun t h1 _ => by
      have e : ((t - 1 : Nat) : ℚ) = (t : ℚ) - 1 := by
        rw [Nat.cast_sub h1]; simp
      refine ⟨?_, ?_, ?_⟩
      · simp only [e]
        rw [abs_le]
        constructor <;> linarith
      · simp
      · simp)
    (by norm_num) (by unfold dt1sq.INF; norm_num)

/-- Claim C1, counterexample: on the chain of 25 control points with all
costs 0 and the prior `u0[n] = -2e10*n`, the offset of the first message
exceeds the sentinel 1e10 of `dt1sq`; the run fails with an out-of-bounds
access and selects no labelling. -/
theorem regularisation_large_prior_fails :
    failure? (regularisation (Buf.new 25) (Buf.new 25) (Buf.new 25)
      (Buf.ofFn 25 (fun n => -20000000000 * (n : ℚ))) (Buf.ofFn 25 (fun _ => 0))
      (Buf.ofFn 25 (fun _ => 0)) (Buf.ofFn (25 * 27) (fun _ => 0)) 1 1 1
      (Buf.ofFn 25 (fun i => (i : Int))) (Buf.ofFn 25 (fun i => (i : Int) - 1)) 25 1 1)
      = some Err.oob := by
  decide!

/-- Equal costs and a prior that does not change along the edges: every node
selects label 0 and its output is the prior minus `hw*quant` in every
component. -/
theorem regularisation_equal_costs_spec (u1 v1 w1 u0 v0 w0 costall : Buf ℚ) (hw step1 : Nat)
    (quant : ℚ) (ordered parents : Buf Int) (image_m image_n image_o : Nat) (sz L : Nat)
    (U V W : Nat → ℚ) (ord par : Nat → Nat) (c0 : ℚ)
    (hstep : step1 ≠ 0)
    (hsz : sz = image_m / step1 * (image_n / step1) * (image_o / step1))
    (hLd : L = (hw * 2 + 1) * (hw * 2 + 1) * (hw * 2 + 1))
    (hsize : sz = 1 ∨ 25 ≤ sz) (hhw : hw ≤ 15) (hq : quant ≠ 0)
    (hin : RegInputs sz u0 v0 w0 ordered parents U V W ord par)
    (hvalid : ValidTree sz ord par)
    (hcs : costall.size = sz * L)
    (hu1 : sz ≤ u1.size) (hv1 : sz ≤ v1.size) (hw1 : sz ≤ w1.size)
    (hC : ∀ nd l, nd < sz → l < L → costall.data (nd + l * sz) = some c0)
    (hU : ∀ t, 1 ≤ t → t < sz → U (par (ord t)) = U (ord t) ∧ V (par (ord t)) = V (ord t) ∧
      W (par (ord t)) = W (ord t))
    (hlim : (sz : ℚ) * |c0| ≤ dt1sq.INF) :
    ∃ s, regularisation u1 v1 w1 u0 v0 w0 costall hw step1 quant ordered parents
        image_m image_n image_o = Except.ok s ∧
      (∀ t, t < sz →
        s.selected.data (ord t) = some 0 ∧
        s.u1.data (ord t) = some (U (ord t) - hw * quant) ∧
        s.v1.data (ord t) = some (V (ord t) - hw * quant) ∧
        s.w1.data (ord t) = some (W (ord t) - hw * quant)) ∧
      ∀ t, 1 ≤ t → t < sz →
        s.u1.data (ord t) = s.u1.data (par (ord t)) ∧
        s.v1.data (ord t) = s.v1.data (par (ord t)) ∧
        s.w1.data (ord t) = s.w1.data (par (ord t)) := by
  have hL0 : 0 < L := by
    rw [hLd]
    exact Nat.mul_pos (Nat.mul_pos (by omega) (by omega)) (by omega)
  obtain ⟨s, hrun, ls, hls, _, hfirst, hcells⟩ := regularisation_flat_prior u1 v1 w1 u0 v0 w0 costall hw
    step1 quant ordered parents image_m image_n image_o sz L U V W ord par (fun _ _ => c0)
    (fun _ => c0) |c0| 0 hstep hsz hLd hsize hhw hq hin hvalid hcs hu1 hv1 hw1 hC
    (fun _ _ _ _ => ⟨neg_abs_le c0, le_abs_self c0⟩) hU (abs_nonneg c0) hlim
    (fun _ _ _ _ => le_refl _) hL0 (fun _ _ => rfl)
  have hz : ls = 0 := by
    by_contra hne
    obtain ⟨nd, _, h⟩ := hfirst 0 (by omega)
    exact h rfl
  subst hz
  have hJ : labelJ (hw * 2 + 1) 0 = 0 := by simp [labelJ]
  have hI : labelI (hw * 2 + 1) 0 = 0 := by simp [labelI]
  have hK : labelK (hw * 2 + 1) 0 = 0 := by simp [labelK]
  have hoff : ∀ x : ℚ, labelOffset hw quant 0 + x = x - hw * quant := by
    intro x
    unfold labelOffset
    push_cast
    ring
  rw [hJ, hI, hK] at hcells
  simp only [hoff] at hcells
  have hfield : ∀ t, t < sz →
      s.selected.data (ord t) = some 0 ∧
      s.u1.data (ord t) = some (U (ord t) - hw * quant) ∧
      s.v1.data (ord t) = some (V (ord t) - hw * quant) ∧
      s.w1.data (ord t) = some (W (ord t) - hw * quant) := by
    intro t ht
    obtain ⟨a, b, c, d⟩ := hcells t ht
    exact ⟨by simpa using a, b, c, d⟩
  refine ⟨s, hrun, hfield, ?_⟩
  intro t h1 ht
  obtain ⟨t', ht', hp⟩ := hvalid.2.2 t h1 ht
  obtain ⟨a, b, c⟩ := hU t h1 ht
  obtain ⟨_, x1, x2, x3⟩ := hfield t ht
  obtain ⟨_, y1, y2, y3⟩ := hfield t' (by omega)
  rw [hp] at y1 y2 y3
  rw [x1, x2, x3, y1, y2, y3, a, b, c]
  exact ⟨rfl, rfl, rfl⟩

/-- A half-integer is not an integer. -/
theorem half_integer_ne (a b : Int) : ((a : Int) : ℚ) * 1 + 1 / 2 ≠ ((b : Int) : ℚ) * 1 + 0 := by
  intro h
  have h2 : ((2 * a + 1 : Int) : ℚ) = ((2 * b : Int) : ℚ) := by
    push_cast
    linarith
  have h3 : 2 * a + 1 = 2 * b := by exact_mod_cast h2
  omega

/-- On the chain of 25 control points with equal costs and the prior
`u0[n] = n/2` the run succeeds and the first component of the output of
node 1 differs from that of its parent, node 0. -/
theorem regularisation_half_prior :
    ∃ s, regularisation (Buf.new 25) (Buf.new 25) (Buf.new 25)
        (Buf.ofFn 25 (fun n : Nat => (n : ℚ) / 2)) (Buf.ofFn 25 (fun _ : Nat => (0 : ℚ)))
        (Buf.ofFn 25 (fun _ : Nat => (0 : ℚ)))
        (Buf.ofFn (25 * 27) (fun _ : Nat => (0 : ℚ))) 1 1 1
        (Buf.ofFn 25 (fun i => (i : Int))) (Buf.ofFn 25 (fun i => (i : Int) - 1)) 25 1 1
        = Except.ok s ∧
      ∃ a b : ℚ, s.u1.data 1 = some a ∧ s.u1.data 0 = some b ∧ a ≠ b := by
  obtain ⟨s, hrun, cur0, tbl, sel, hselL, hcells, _⟩ :=
    regularisation_spec (Buf.new 25) (Buf.new 25) (Buf.new 25)
    (Buf.ofFn 25 (fun n : Nat => (n : ℚ) / 2)) (Buf.ofFn 25 (fun _ : Nat => (0 : ℚ)))
    (Buf.ofFn 25 (fun _ : Nat => (0 : ℚ)))
    (Buf.ofFn (25 * 27) (fun _ : Nat => (0 : ℚ))) 1 1 1
    (Buf.ofFn 25 (fun i => (i : Int))) (Buf.ofFn 25 (fun i => (i : Int) - 1)) 25 1 1 25 27
    (fun n : Nat => (n : ℚ) / 2) (fun _ : Nat => (0 : ℚ)) (fun _ : Nat => (0 : ℚ))
    (fun i : Nat => i) (fun nd : Nat => nd - 1)
    (fun _ _ : Nat => (0 : ℚ)) 0 (1 / 2)
    (by decide) (by decide) (by decide) (Or.inr (le_refl _)) (by decide) one_ne_zero
    (chain_inputs 25 _ _ _) (chain_valid 25) rfl (le_refl _) (le_refl _) (le_refl _)
    (fun nd l hnd hl => cost_cells (25 * 27) _ 25 27 rfl nd l hnd hl)
    (fun nd l _ _ => by constructor <;> norm_num)
    (fun t h1 _ => by
      have e : ((t - 1 : Nat) : ℚ) = (t : ℚ) - 1 := by
        rw [Nat.cast_sub h1]; simp
      refine ⟨?_, ?_, ?_⟩
      · simp only [e]
        rw [abs_le]
        constructor <;> linarith
      · simp
      · simp)
    (by norm_num) (by unfold dt1sq.INF; norm_num)
  refine ⟨s, hrun, _, _, (hcells 1 (by decide)).2.1, (hcells 0 (by decide)).2.1, ?_⟩
  unfold labelOffset
  have := half_integer_ne ((labelJ (1 * 2 + 1) (sel 1) : Int) - (1 : Nat))
    ((labelJ (1 * 2 + 1) (sel 0) : Int) - (1 : Nat))
  simpa using this

/-- Claim C5, amended: for a valid tree over one or at least 25 control
points, `hw <= 15`, nonzero `quant` and `step1`, if all entries of the cost
volume are equal to `c0` with `sz*|c0| <= 1e10` and the prior field has the
same value at every non-root node and its parent, then every node selects
label 0, the first label of the table, whose incremental offset is
`-hw*quant` in every component; the output of every node is its prior minus
`hw*quant`, and the output displacement of every non-root node equals that of
its parent exactly. -/
theorem regularisation_equal_costs (u1 v1 w1 u0 v0 w0 costall : Buf ℚ) (hw step1 : Nat)
    (quant : ℚ) (ordered parents : Buf Int) (image_m image_n image_o : Nat) (sz L : Nat)
    (U V W : Nat → ℚ) (ord par : Nat → Nat) (c0 : ℚ)
    (hstep : step1 ≠ 0)
    (hsz : sz = image_m / step1 * (image_n / step1) * (image_o / step1))
    (hLd : L = (hw * 2 + 1) * (hw * 2 + 1) * (hw * 2 + 1))
    (hsize : sz = 1 ∨ 25 ≤ sz) (hhw : hw ≤ 15) (hq : quant ≠ 0)
    (hin : RegInputs sz u0 v0 w0 ordered parents U V W ord par)
    (hvalid : ValidTree sz ord par)
    (hcs : costall.size = sz * L)
    (hu1 : sz ≤ u1.size) (hv1 : sz ≤ v1.size) (hw1 : sz ≤ w1.size)
    (hC : ∀ nd l, nd < sz → l < L → costall.data (nd + l * sz) = some c0)
    (hU : ∀ t, 1 ≤ t → t < sz → U (par (ord t)) = U (ord t) ∧ V (par (ord t)) = V (ord t) ∧
      W (par (ord t)) = W (ord t))
    (hlim : (sz : ℚ) * |c0| ≤ dt1sq.INF) :
    ∃ s, regularisation u1 v1 w1 u0 v0 w0 costall hw step1 quant ordered parents
        image_m image_n image_o = Except.ok s ∧
      (∀ t, t < sz →
        s.selected.data (ord t) = some 0 ∧
        s.u1.data (ord t) = some (U (ord t) - hw * quant) ∧
        s.v1.data (ord t) = some (V (ord t) - hw * quant) ∧
        s.w1.data (ord t) = some (W (ord t) - hw * quant)) ∧
      ∀ t, 1 ≤ t → t < sz →
        s.u1.data (ord t) = s.u1.data (par (ord t)) ∧
        s.v1.data (ord t) = s.v1.data (par (ord t)) ∧
        s.w1.data (ord t) = s.w1.data (par (ord t)) :=
  regularisation_equal_costs_spec u1 v1 w1 u0 v0 w0 costall hw step1 quant ordered parents
    image_m image_n image_o sz L U V W ord par c0 hstep hsz hLd hsize hhw hq hin hvalid hcs hu1
    hv1 hw1 hC hU hlim

/-- Witness for claim C5 (amended): the chain of 25 control points with
`hw = 1`, all costs 3 and the constant prior `(2, 0, 0)`. -/
theorem regularisation_equal_costs_witness :
    ∃ s, regularisation (Buf.new 25) (Buf.new 25) (Buf.new 25)
        (Buf.ofFn 25 (fun _ : Nat => (2 : ℚ))) (Buf.ofFn 25 (fun _ : Nat => (0 : ℚ)))
        (Buf.ofFn 25 (fun _ : Nat => (0 : ℚ)))
        (Buf.ofFn (25 * 27) (fun _ : Nat => (3 : ℚ))) 1 1 1
        (Buf.ofFn 25 (fun i => (i : Int))) (Buf.ofFn 25 (fun i => (i : Int) - 1)) 25 1 1
        = Except.ok s ∧
      (∀ t : Nat, t < 25 →
        s.selected.data ((fun i : Nat => i) t) = some 0 ∧
        s.u1.data ((fun i : Nat => i) t)
          = some ((fun _ : Nat => (2 : ℚ)) ((fun i : Nat => i) t) - (1 : Nat) * 1) ∧
        s.v1.data ((fun i : Nat => i) t)
          = some ((fun _ : Nat => (0 : ℚ)) ((fun i : Nat => i) t) - (1 : Nat) * 1) ∧
        s.w1.data ((fun i : Nat => i) t)
          = some ((fun _ : Nat => (0 : ℚ)) ((fun i : Nat => i) t) - (1 : Nat) * 1)) ∧
      ∀ t : Nat, 1 ≤ t → t < 25 →
        s.u1.data ((fun i : Nat => i) t)
          = s.u1.data ((fun nd : Nat => nd - 1) ((fun i : Nat => i) t)) ∧
        s.v1.data ((fun i : Nat => i) t)
          = s.v1.data ((fun nd : Nat => nd - 1) ((fun i : Nat => i) t)) ∧
        s.w1.data ((fun i : Nat => i) t)
          = s.w1.data ((fun nd : Nat => nd - 1) ((fun i : Nat => i) t)) :=
  regularisation_equal_costs (Buf.new 25) (Buf.new 25) (Buf.new 25)
    (Buf.ofFn 25 (fun _ : Nat => (2 : ℚ))) (Buf.ofFn 25 (fun _ : Nat => (0 : ℚ)))
    (Buf.ofFn 25 (fun _ : Nat => (0 : ℚ)))
    (Buf.ofFn (25 * 27) (fun _ : Nat => (3 : ℚ))) 1 1 1
    (Buf.ofFn 25 (fun i => (i : Int))) (Buf.ofFn 25 (fun i => (i : Int) - 1)) 25 1 1 25 27
    (fun _ : Nat => (2 : ℚ)) (fun _ : Nat => (0 : ℚ)) (fun _ : Nat => (0 : ℚ))
    (fun i : Nat => i) (fun nd : Nat => nd - 1) 3
    (by decide) (by decide) (by decide) (Or.inr (le_refl _)) (by decide) one_ne_zero
    (chain_inputs 25 _ _ _) (chain_valid 25) rfl (le_refl _) (le_refl _) (le_refl _)
    (fun nd l hnd hl => cost_cells (25 * 27) _ 25 27 rfl nd l hnd hl)
    (fun _ _ _ => ⟨rfl, rfl, rfl⟩)
    (by unfold dt1sq.INF; rw [abs_of_pos (by norm_num : (0 : ℚ) < 3)]; norm_num)

/-- Claim C5, counterexample: on the chain of 25 control points with all
costs equal (0) and the prior `u0[n] = n/2`, the run succeeds and the output
`u1` of node 1 differs from the output `u1` of its parent, node 0: the two
priors differ by half a label step, which no pair of labels compensates. -/
theorem regularisation_equal_costs_counterexample :
    ∃ s, regularisation (Buf.new 25) (Buf.new 25) (Buf.new 25)
        (Buf.ofFn 25 (fun n : Nat => (n : ℚ) / 2)) (Buf.ofFn 25 (fun _ : Nat => (0 : ℚ)))
        (Buf.ofFn 25 (fun _ : Nat => (0 : ℚ)))
        (Buf.ofFn (25 * 27) (fun _ : Nat => (0 : ℚ))) 1 1 1
        (Buf.ofFn 25 (fun i => (i : Int))) (Buf.ofFn 25 (fun i => (i : Int) - 1)) 25 1 1
        = Except.ok s ∧
      ∃ a b : ℚ, s.u1.data 1 = some a ∧ s.u1.data 0 = some b ∧ a ≠ b :=
  regularisation_half_prior

/-- Claim C13, failing inputs: for every lattice with 2 to 24 control points
the divisor `frac = sz/25` of the progress test `i%frac` is 0, and the first
iteration of the first loop of `regularisation` is a remainder by zero,
whatever the tree, costs and prior. -/
theorem regularisation_small_lattice_fails (u1 v1 w1 u0 v0 w0 costall : Buf ℚ) (hw step1 : Nat)
    (quant : ℚ) (ordered parents : Buf Int) (image_m image_n image_o : Nat)
    (hstep : step1 ≠ 0)
    (h2 : 2 ≤ image_m / step1 * (image_n / step1) * (image_o / step1))
    (h25 : image_m / step1 * (image_n / step1) * (image_o / step1) < 25) :
    regularisation u1 v1 w1 u0 v0 w0 costall hw step1 quant ordered parents
      image_m image_n image_o = Except.error Err.divZero := by
  obtain ⟨tab, etab, _⟩ := labelTable_flat hw quant
  obtain ⟨c1, ec1, _⟩ := regularisation.zeroRow_spec
    ((hw * 2 + 1) * (hw * 2 + 1) * (hw * 2 + 1))
  obtain ⟨k, hk⟩ : ∃ k, image_m / step1 * (image_n / step1) * (image_o / step1) - 1 = k + 1 :=
    ⟨image_m / step1 * (image_n / step1) * (image_o / step1) - 2, by omega⟩
  have hfrac : ((image_m / step1 * (image_n / step1) * (image_o / step1) / 25 : Nat) : Int)
      = 0 := by
    have : image_m / step1 * (image_n / step1) * (image_o / step1) / 25 = 0 :=
      Nat.div_eq_of_lt h25
    rw [this]
    rfl
  unfold regularisation
  simp only [if_neg hstep, etab, ec1, ok_bind, hk, hfrac, forDown, regularisation.message,
    if_true, error_bind]

/-- Witness for the failing inputs of claim C13: two control points
(`image_m = 2`, `step1 = 1`), `hw = 1`, zero costs and zero prior. -/
theorem regularisation_small_lattice_fails_witness :
    regularisation (Buf.new 2) (Buf.new 2) (Buf.new 2) (Buf.ofFn 2 (fun _ => 0))
      (Buf.ofFn 2 (fun _ => 0)) (Buf.ofFn 2 (fun _ => 0)) (Buf.ofFn (2 * 27) (fun _ => 0)) 1 1 1
      (Buf.ofFn 2 (fun i => (i : Int))) (Buf.ofFn 2 (fun i => (i : Int) - 1)) 2 1 1
      = Except.error Err.divZero :=
  regularisation_small_lattice_fails _ _ _ _ _ _ _ 1 1 1 _ _ 2 1 1 (by decide) (by decide)
    (by decide)

/-- Step of the flat label index along the three loop variables: `i` (the
outermost loop) moves the index by 1, `j` by `len`, and `k` (the innermost
loop) by `len*len`. -/
theorem label_index_steps (len i j k : Nat) :
    (i + 1) + j * len + k * len * len = (i + j * len + k * len * len) + 1 ∧
    i + (j + 1) * len + k * len * len = (i + j * len + k * len * len) + len ∧
    i + j * len + (k + 1) * len * len = (i + j * len + k * len * len) + len * len := by
  refine ⟨by ring, by ring, by ring⟩

/-- Neighbouring labels in the tables built by `labelTable`: along a row of
the cube only `ys` changes, and the step `len*len` of the innermost loop
variable changes only `zs`. -/
theorem labelTable_neighbours (hw : Nat) (quant : ℚ) :
    ∃ t, labelTable hw quant = Except.ok t ∧
      (∀ i j k, i + 1 < hw * 2 + 1 → j < hw * 2 + 1 → k < hw * 2 + 1 →
        t.ys.data (i + j * (hw * 2 + 1) + k * (hw * 2 + 1) * (hw * 2 + 1))
          = some ((((i : Int) - hw : Int) : ℚ) * quant) ∧
        t.ys.data (i + j * (hw * 2 + 1) + k * (hw * 2 + 1) * (hw * 2 + 1) + 1)
          = some ((((i : Int) - hw : Int) : ℚ) * quant + quant) ∧
        t.xs.data (i + j * (hw * 2 + 1) + k * (hw * 2 + 1) * (hw * 2 + 1) + 1)
          = t.xs.data (i + j * (hw * 2 + 1) + k * (hw * 2 + 1) * (hw * 2 + 1)) ∧
        t.zs.data (i + j * (hw * 2 + 1) + k * (hw * 2 + 1) * (hw * 2 + 1) + 1)
          = t.zs.data (i + j * (hw * 2 + 1) + k * (hw * 2 + 1) * (hw * 2 + 1))) ∧
      (∀ i j k, i < hw * 2 + 1 → j < hw * 2 + 1 → k + 1 < hw * 2 + 1 →
        t.zs.data (i + j * (hw * 2 + 1) + k * (hw * 2 + 1) * (hw * 2 + 1))
          = some ((((k : Int) - hw : Int) : ℚ) * quant) ∧
        t.zs.data (i + j * (hw * 2 + 1) + k * (hw * 2 + 1) * (hw * 2 + 1)
            + (hw * 2 + 1) * (hw * 2 + 1))
          = some ((((k : Int) - hw : Int) : ℚ) * quant + quant) ∧
        t.xs.data (i + j * (hw * 2 + 1) + k * (hw * 2 + 1) * (hw * 2 + 1)
            + (hw * 2 + 1) * (hw * 2 + 1))
          = t.xs.data (i + j * (hw * 2 + 1) + k * (hw * 2 + 1) * (hw * 2 + 1)) ∧
        t.ys.data (i + j * (hw * 2 + 1) + k * (hw * 2 + 1) * (hw * 2 + 1)
            + (hw * 2 + 1) * (hw * 2 + 1))
          = t.ys.data (i + j * (hw * 2 + 1) + k * (hw * 2 + 1) * (hw * 2 + 1))) := by
  obtain ⟨t, ht, _, _, _, hc⟩ := labelTable_spec hw quant
  refine ⟨t, ht, ?_, ?_⟩
  · intro i j k hi hj hk
    obtain ⟨a1, a2, a3⟩ := hc i j k (by omega) hj hk
    obtain ⟨b1, b2, b3⟩ := hc (i + 1) j k hi hj hk
    rw [(label_index_steps (hw * 2 + 1) i j k).1] at b1 b2 b3
    refine ⟨a2, ?_, by rw [b1, a1], by rw [b3, a3]⟩
    rw [b2]
    congr 1
    push_cast
    ring
  · intro i j k hi hj hk
    obtain ⟨a1, a2, a3⟩ := hc i j k hi hj (by omega)
    obtain ⟨b1, b2, b3⟩ := hc i j (k + 1) hi hj hk
    rw [(label_index_steps (hw * 2 + 1) i j k).2.2] at b1 b2 b3
    refine ⟨a3, ?_, by rw [b1, a1], by rw [b2, a2]⟩
    rw [b3]
    congr 1
    push_cast
    ring

/-- Claim C18, amended: in the label table the axis that varies fastest in
index order is the one driven by the OUTERMOST loop variable `i` (the `ys`
component): labels `l` and `l+1` in the same row of the cube differ only in
`ys`, by `quant`.  The innermost loop variable `k` (the `zs` component) has
the largest stride: it moves the index by `len*len` and changes only `zs`. -/
theorem labelTable_fastest_axis (hw : Nat) (quant : ℚ) :
    ∃ t, labelTable hw quant = Except.ok t ∧
      (∀ i j k, i + 1 < hw * 2 + 1 → j < hw * 2 + 1 → k < hw * 2 + 1 →
        t.ys.data (i + j * (hw * 2 + 1) + k * (hw * 2 + 1) * (hw * 2 + 1))
          = some ((((i : Int) - hw : Int) : ℚ) * quant) ∧
        t.ys.data (i + j * (hw * 2 + 1) + k * (hw * 2 + 1) * (hw * 2 + 1) + 1)
          = some ((((i : Int) - hw : Int) : ℚ) * quant + quant) ∧
        t.xs.data (i + j * (hw * 2 + 1) + k * (hw * 2 + 1) * (hw * 2 + 1) + 1)
          = t.xs.data (i + j * (hw * 2 + 1) + k * (hw * 2 + 1) * (hw * 2 + 1)) ∧
        t.zs.data (i + j * (hw * 2 + 1) + k * (hw * 2 + 1) * (hw * 2 + 1) + 1)
          = t.zs.data (i + j * (hw * 2 + 1) + k * (hw * 2 + 1) * (hw * 2 + 1))) ∧
      (∀ i j k, i < hw * 2 + 1 → j < hw * 2 + 1 → k + 1 < hw * 2 + 1 →
        t.zs.data (i + j * (hw * 2 + 1) + k * (hw * 2 + 1) * (hw * 2 + 1))
          = some ((((k : Int) - hw : Int) : ℚ) * quant) ∧
        t.zs.data (i + j * (hw * 2 + 1) + k * (hw * 2 + 1) * (hw * 2 + 1)
            + (hw * 2 + 1) * (hw * 2 + 1))
          = some ((((k : Int) - hw : Int) : ℚ) * quant + quant) ∧
        t.xs.data (i + j * (hw * 2 + 1) + k * (hw * 2 + 1) * (hw * 2 + 1)
            + (hw * 2 + 1) * (hw * 2 + 1))
          = t.xs.data (i + j * (hw * 2 + 1) + k * (hw * 2 + 1) * (hw * 2 + 1)) ∧
        t.ys.data (i + j * (hw * 2 + 1) + k * (hw * 2 + 1) * (hw * 2 + 1)
            + (hw * 2 + 1) * (hw * 2 + 1))
          = t.ys.data (i + j * (hw * 2 + 1) + k * (hw * 2 + 1) * (hw * 2 + 1))) :=
  labelTable_neighbours hw quant

/-- Claim C18, counterexample: for `hw = 1`, `quant = 1` the labels 0 and 1 lie
in the same row of the cube and differ in `ys` (driven by the outermost loop
variable), not in `zs` (driven by the innermost one); the loop nest visits the
indices in the order `0, 9, 18, 3, ...`, the innermost loop moving the index by
`len*len = 9`. -/
theorem labelTable_innermost_not_fastest :
    (∃ t, labelTable 1 1 = Except.ok t ∧ t.zs.data 1 = t.zs.data 0 ∧
      t.xs.data 1 = t.xs.data 0 ∧ t.ys.data 0 = some (-1) ∧ t.ys.data 1 = some 0) ∧
    labelVisits 1 = Except.ok [0, 9, 18, 3, 12, 21, 6, 15, 24, 1, 10, 19, 4, 13, 22, 7, 16, 25,
      2, 11, 20, 5, 14, 23, 8, 17, 26] := by
  constructor
  · obtain ⟨t, ht, h1, _⟩ := labelTable_neighbours 1 1
    obtain ⟨a, b, c, d⟩ := h1 0 0 0 (by decide) (by decide) (by decide)
    refine ⟨t, ht, d, c, ?_, ?_⟩
    · rw [a]; norm_num
    · rw [b]; norm_num
  · rfl
/-! ## Claims on the two passes of `regularisation` -/

/-- Every entry of the label tables is at most `hw*|quant|` in absolute
value. -/
theorem labelOffset_abs_le (hw : Nat) (quant : ℚ) (c : Nat) (hc : c < hw * 2 + 1) :
    |labelOffset hw quant c| ≤ (hw : ℚ) * |quant| := by
  unfold labelOffset
  rw [abs_mul]
  apply mul_le_mul_of_nonneg_right _ (abs_nonneg _)
  rw [abs_le]
  have h1 : -(hw : Int) ≤ (c : Int) - hw := by omega
  have h2 : (c : Int) - hw ≤ hw := by omega
  constructor
  · exact_mod_cast h1
  · exact_mod_cast h2

/-- Input arrays that hold the tree `(ord, par)` and the prior field
`(U,V,W)`. -/
theorem tree_inputs (sz : Nat) (U V W : Nat → ℚ) (ord par : Nat → Nat)
    (hord : ∀ i, i < sz → ord i < sz) :
    RegInputs sz (Buf.ofFn sz U) (Buf.ofFn sz V) (Buf.ofFn sz W)
      (Buf.ofFn sz (fun i => ((ord i : Nat) : Int)))
      (Buf.ofFn sz (fun nd => ((par nd : Nat) : Int))) U V W ord par := by
  refine ⟨le_refl _, le_refl _, le_refl _, le_refl _, le_refl _, ?_, ?_, ?_⟩
  · intro n hn
    simp [Buf.ofFn, hn]
  · intro i hi
    simp [Buf.ofFn, hi]
  · intro i _ hi
    simp [Buf.ofFn, hord i hi]

/-- The nodes `0 .. sz-1` with the parent `(nd-1)/2` of `nd`, in their natural
order, form a valid tree (a binary heap). -/
theorem heap_valid (sz : Nat) : ValidTree sz (fun i => i) (fun nd => (nd - 1) / 2) :=
  ⟨fun _ h => h, fun _ _ _ _ h => h, fun i h1 _ => ⟨(i - 1) / 2, by omega, rfl⟩⟩

/-- Claim C26: on a valid tree and an initialised cost volume, after every run
of `regularisation` that returns, the label selected for the root is the
first argmin of its aggregated cost vector `agg` (the final content of `cost1`
and of the row of the root in `costall`); the label selected for every other
node is the entry `allinds[node + selected[parent]*sz]` of the argmin table;
and for every node the output field is the prior field plus the entries of
the label tables `xs`, `ys`, `zs` at the selected label, so that every
component changes by at most `hw*|quant|`.  The run returns when the tree has
one or at least 25 nodes, `hw <= 15`, `quant` and `step1` are not 0 and the
costs and the prior differences are bounded. -/
theorem regularisation_selected_labels (u1 v1 w1 u0 v0 w0 costall : Buf ℚ) (hw step1 : Nat)
    (quant : ℚ) (ordered parents : Buf Int) (image_m image_n image_o : Nat) (sz L : Nat)
    (U V W : Nat → ℚ) (ord par : Nat → Nat) (C : Nat → Nat → ℚ)
    (hsz : sz = image_m / step1 * (image_n / step1) * (image_o / step1))
    (hLd : L = (hw * 2 + 1) * (hw * 2 + 1) * (hw * 2 + 1)) (hsz1 : 1 ≤ sz)
    (hin : RegInputs sz u0 v0 w0 ordered parents U V W ord par)
    (hvalid : ValidTree sz ord par)
    (hC : ∀ nd l, nd < sz → l < L → costall.data (nd + l * sz) = some (C nd l)) :
    (∀ s, regularisation u1 v1 w1 u0 v0 w0 costall hw step1 quant ordered parents
        image_m image_n image_o = Except.ok s →
      ∃ (tab : LabelTable) (sel : Nat → Nat) (agg : Nat → ℚ),
        labelTable hw quant = Except.ok tab ∧
        (∀ t, t < sz →
          sel (ord t) < L ∧ s.selected.data (ord t) = some ((sel (ord t) : Nat) : Int)) ∧
        ((∀ l, l < L →
            s.cost1.data l = some (agg l) ∧ s.costall.data (ord 0 + l * sz) = some (agg l)) ∧
          (∀ l, l < L → agg (sel (ord 0)) ≤ agg l) ∧
          ∀ l, l < sel (ord 0) → agg (sel (ord 0)) < agg l) ∧
        (∀ t, 1 ≤ t → t < sz →
          s.allinds.data (ord t + sel (par (ord t)) * sz) = some ((sel (ord t) : Nat) : Int)) ∧
        ∀ t, t < sz → ∃ x y z : ℚ,
          (tab.xs.data (sel (ord t)) = some x ∧ tab.ys.data (sel (ord t)) = some y ∧
            tab.zs.data (sel (ord t)) = some z) ∧
          (s.u1.data (ord t) = some (U (ord t) + x) ∧ s.v1.data (ord t) = some (V (ord t) + y) ∧
            s.w1.data (ord t) = some (W (ord t) + z)) ∧
          |U (ord t) + x - U (ord t)| ≤ (hw : ℚ) * |quant| ∧
          |V (ord t) + y - V (ord t)| ≤ (hw : ℚ) * |quant| ∧
          |W (ord t) + z - W (ord t)| ≤ (hw : ℚ) * |quant|) ∧
    (∀ B D : ℚ, step1 ≠ 0 → (sz = 1 ∨ 25 ≤ sz) → hw ≤ 15 → quant ≠ 0 →
      costall.size = sz * L → sz ≤ u1.size → sz ≤ v1.size → sz ≤ w1.size →
      (∀ nd l, nd < sz → l < L → -B ≤ C nd l ∧ C nd l ≤ B) →
      (∀ t, 1 ≤ t → t < sz →
        |(U (par (ord t)) - U (ord t)) / quant| ≤ D ∧
        |(V (par (ord t)) - V (ord t)) / quant| ≤ D ∧
        |(W (par (ord t)) - W (ord t)) / quant| ≤ D) →
      0 ≤ B → (sz : ℚ) * (B + 2 * D ^ 2) + D ≤ dt1sq.INF →
      ∃ s, regularisation u1 v1 w1 u0 v0 w0 costall hw step1 quant ordered parents
        image_m image_n image_o = Except.ok s) := by
  constructor
  · intro s hrun
    obtain ⟨tab, c1, p1, p2, M, sel, ⟨etab, htab⟩, _, _, hagg, hcells, hmin, hfirst, htbl, _⟩ :=
      regularisation_ok u1 v1 w1 u0 v0 w0 costall hw step1 quant ordered parents image_m
        image_n image_o sz L U V W ord par C s hsz hLd hsz1 hin hvalid hC hrun
    refine ⟨tab, sel,
      fun l => C (ord 0) l + regularisation.received sz ord par M 1 (ord 0) l, etab,
      fun t ht => ⟨(hcells t ht).1, (hcells t ht).2.1⟩, ⟨hagg, hmin, hfirst⟩, htbl, ?_⟩
    intro t ht
    obtain ⟨hl, _, cu, cv, cw⟩ := hcells t ht
    obtain ⟨_, _, _, htc⟩ := htab
    obtain ⟨tx, ty, tz⟩ := htc (sel (ord t)) (by rw [← hLd]; exact hl)
    obtain ⟨bI, bJ, bK, _⟩ := label_decomp (hw * 2 + 1) (sel (ord t)) (by rw [← hLd]; exact hl)
    refine ⟨_, _, _, ⟨tx, ty, tz⟩, ⟨?_, ?_, ?_⟩, ?_, ?_, ?_⟩
    · rw [cu, add_comm]
    · rw [cv, add_comm]
    · rw [cw, add_comm]
    · rw [add_sub_cancel_left]
      exact labelOffset_abs_le hw quant _ bJ
    · rw [add_sub_cancel_left]
      exact labelOffset_abs_le hw quant _ bI
    · rw [add_sub_cancel_left]
      exact labelOffset_abs_le hw quant _ bK
  · intro B D hstep hsize hhw hq hcs hu1 hv1 hw1 hCB hD hB0 hlim
    obtain ⟨s, hrun, _⟩ := regularisation_spec u1 v1 w1 u0 v0 w0 costall hw step1 quant ordered
      parents image_m image_n image_o sz L U V W ord par C B D hstep hsz hLd hsize hhw hq hin
      hvalid hcs hu1 hv1 hw1 hC hCB hD hB0 hlim
    exact ⟨s, hrun⟩
/-- Instance of claim C26: the chain of 25 control points with `hw = 1`, costs
`(node + 25*label) mod 5` and prior `u0[n] = n/2`. -/
theorem regularisation_selected_labels_witness :
    (∀ s, regularisation (Buf.new 25) (Buf.new 25) (Buf.new 25)
        (Buf.ofFn 25 (fun n : Nat => (n : ℚ) / 2)) (Buf.ofFn 25 (fun _ : Nat => (0 : ℚ)))
        (Buf.ofFn 25 (fun _ : Nat => (0 : ℚ)))
        (Buf.ofFn (25 * 27) (fun c : Nat => ((c % 5 : Nat) : ℚ))) 1 1 1
        (Buf.ofFn 25 (fun i => (i : Int))) (Buf.ofFn 25 (fun i => (i : Int) - 1)) 25 1 1
        = Except.ok s →
      ∃ (tab : LabelTable) (sel : Nat → Nat) (agg : Nat → ℚ),
        labelTable 1 1 = Except.ok tab ∧
        (∀ t : Nat, t < 25 →
          sel t < 27 ∧ s.selected.data t = some ((sel t : Nat) : Int)) ∧
        ((∀ l, l < 27 →
            s.cost1.data l = some (agg l) ∧ s.costall.data (0 + l * 25) = some (agg l)) ∧
          (∀ l, l < 27 → agg (sel 0) ≤ agg l) ∧
          ∀ l, l < sel 0 → agg (sel 0) < agg l) ∧
        (∀ t : Nat, 1 ≤ t → t < 25 →
          s.allinds.data (t + sel (t - 1) * 25) = some ((sel t : Nat) : Int)) ∧
        ∀ t : Nat, t < 25 → ∃ x y z : ℚ,
          (tab.xs.data (sel t) = some x ∧ tab.ys.data (sel t) = some y ∧
            tab.zs.data (sel t) = some z) ∧
          (s.u1.data t = some ((t : ℚ) / 2 + x) ∧ s.v1.data t = some (0 + y) ∧
            s.w1.data t = some (0 + z)) ∧
          |(t : ℚ) / 2 + x - (t : ℚ) / 2| ≤ ((1 : Nat) : ℚ) * |(1 : ℚ)| ∧
          |0 + y - 0| ≤ ((1 : Nat) : ℚ) * |(1 : ℚ)| ∧
          |0 + z - 0| ≤ ((1 : Nat) : ℚ) * |(1 : ℚ)|) ∧
    (∀ B D : ℚ, (1 : Nat) ≠ 0 → ((25 : Nat) = 1 ∨ 25 ≤ (25 : Nat)) → (1 : Nat) ≤ 15 →
      (1 : ℚ) ≠ 0 →
      (Buf.ofFn (25 * 27) (fun c : Nat => ((c % 5 : Nat) : ℚ))).size = 25 * 27 →
      25 ≤ (Buf.new 25 : Buf ℚ).size → 25 ≤ (Buf.new 25 : Buf ℚ).size →
      25 ≤ (Buf.new 25 : Buf ℚ).size →
      (∀ nd l : Nat, nd < 25 → l < 27 →
        -B ≤ (((nd + l * 25) % 5 : Nat) : ℚ) ∧ (((nd + l * 25) % 5 : Nat) : ℚ) ≤ B) →
      (∀ t : Nat, 1 ≤ t → t < 25 →
        |(((t - 1 : Nat) : ℚ) / 2 - (t : ℚ) / 2) / 1| ≤ D ∧
        |((0 : ℚ) - 0) / 1| ≤ D ∧ |((0 : ℚ) - 0) / 1| ≤ D) →
      0 ≤ B → ((25 : Nat) : ℚ) * (B + 2 * D ^ 2) + D ≤ dt1sq.INF →
      ∃ s, regularisation (Buf.new 25) (Buf.new 25) (Buf.new 25)
        (Buf.ofFn 25 (fun n : Nat => (n : ℚ) / 2)) (Buf.ofFn 25 (fun _ : Nat => (0 : ℚ)))
        (Buf.ofFn 25 (fun _ : Nat => (0 : ℚ)))
        (Buf.ofFn (25 * 27) (fun c : Nat => ((c % 5 : Nat) : ℚ))) 1 1 1
        (Buf.ofFn 25 (fun i => (i : Int))) (Buf.ofFn 25 (fun i => (i : Int) - 1)) 25 1 1
        = Except.ok s) :=
  regularisation_selected_labels (Buf.new 25) (Buf.new 25) (Buf.new 25)
    (Buf.ofFn 25 (fun n : Nat => (n : ℚ) / 2)) (Buf.ofFn 25 (fun _ : Nat => (0 : ℚ)))
    (Buf.ofFn 25 (fun _ : Nat => (0 : ℚ)))
    (Buf.ofFn (25 * 27) (fun c : Nat => ((c % 5 : Nat) : ℚ))) 1 1 1
    (Buf.ofFn 25 (fun i => (i : Int))) (Buf.ofFn 25 (fun i => (i : Int) - 1)) 25 1 1 25 27
    (fun n : Nat => (n : ℚ) / 2) (fun _ : Nat => (0 : ℚ)) (fun _ : Nat => (0 : ℚ))
    (fun i : Nat => i) (fun nd : Nat => nd - 1)
    (fun nd l : Nat => (((nd + l * 25) % 5 : Nat) : ℚ))
    (by decide) (by decide) (by decide) (chain_inputs 25 _ _ _) (chain_valid 25)
    (fun nd l hnd hl => cost_cells (25 * 27) _ 25 27 rfl nd l hnd hl)

/-- Claim C28: if `ordered` is a permutation of the `sz` control points and
the parent of every `ordered[i]`, `i > 0`, stands at a smaller position, then
every child stands at a later position than its parent, and every run of
`regularisation` that returns (on an initialised cost volume) passes through
states `p1 (sz-1), .., p1 0` in the first loop and `p2 1, .., p2 sz` in the
second such that: in the state `p1 i` in which the message of position `i` is
computed (for `i = 0`: in which the argmin of the root is taken) the cost
vector of the node holds its input cost plus the messages `M t` of all its
children, `M t` being what the iteration of position `t` adds to the cost
vector of its parent; and in the state `p2 i` in which the iteration of
position `i` reads `selected[parent]` that cell, which is unassigned at the
start of the run, holds its final value.  The run returns when the tree has
one or at least 25 nodes, `hw <= 15`, `quant` and `step1` are not 0 and the
costs and the prior differences are bounded. -/
theorem regularisation_dependency_order (u1 v1 w1 u0 v0 w0 costall : Buf ℚ) (hw step1 : Nat)
    (quant : ℚ) (ordered parents : Buf Int) (image_m image_n image_o : Nat) (sz L : Nat)
    (U V W : Nat → ℚ) (ord par : Nat → Nat) (C : Nat → Nat → ℚ)
    (hsz : sz = image_m / step1 * (image_n / step1) * (image_o / step1))
    (hLd : L = (hw * 2 + 1) * (hw * 2 + 1) * (hw * 2 + 1)) (hsz1 : 1 ≤ sz)
    (hin : RegInputs sz u0 v0 w0 ordered parents U V W ord par)
    (hvalid : ValidTree sz ord par)
    (hC : ∀ nd l, nd < sz → l < L → costall.data (nd + l * sz) = some (C nd l)) :
    (∀ i j, i < sz → 1 ≤ j → j < sz → par (ord j) = ord i → i < j) ∧
    (∀ s, regularisation u1 v1 w1 u0 v0 w0 costall hw step1 quant ordered parents
        image_m image_n image_o = Except.ok s →
      ∃ (tab : LabelTable) (c1 : Buf ℚ) (p1 p2 : Nat → RegState) (M : Nat → Nat → ℚ),
        (p1 (sz - 1) = ⟨costall, c1, Buf.new L, Buf.new (sz * L), Buf.new sz, u1, v1, w1⟩ ∧
          (∀ i, 1 ≤ i → i < sz →
            regularisation.message u0 v0 w0 ordered parents hw quant (image_m / step1)
              (image_n / step1) (image_o / step1) ((sz / 25 : Nat) : Int) i (p1 i)
              = Except.ok (p1 (i - 1))) ∧
          regularisation.root tab u0 v0 w0 ordered hw (image_m / step1) (image_n / step1)
            (image_o / step1) (p1 0) = Except.ok (p2 1) ∧
          (∀ i, 1 ≤ i → i < sz →
            regularisation.select tab u0 v0 w0 ordered parents (image_m / step1)
              (image_n / step1) (image_o / step1) i (p2 i) = Except.ok (p2 (i + 1))) ∧
          p2 sz = s) ∧
        (∀ i l, i < sz → l < L →
          (p1 i).costall.data (ord i + l * sz)
            = some (C (ord i) l + ∑ t in Finset.Ico 1 sz,
                if ord i = par (ord t) then M t l else 0)) ∧
        (∀ t l, 1 ≤ t → t < sz → l < L → ∃ c : ℚ,
          (p1 t).costall.data (par (ord t) + l * sz) = some c ∧
          (p1 (t - 1)).costall.data (par (ord t) + l * sz) = some (c + M t l)) ∧
        ∀ i, 1 ≤ i → i < sz → ∃ v : Int,
          (p2 i).selected.data (par (ord i)) = some v ∧
          s.selected.data (par (ord i)) = some v) ∧
    (∀ B D : ℚ, step1 ≠ 0 → (sz = 1 ∨ 25 ≤ sz) → hw ≤ 15 → quant ≠ 0 →
      costall.size = sz * L → sz ≤ u1.size → sz ≤ v1.size → sz ≤ w1.size →
      (∀ nd l, nd < sz → l < L → -B ≤ C nd l ∧ C nd l ≤ B) →
      (∀ t, 1 ≤ t → t < sz →
        |(U (par (ord t)) - U (ord t)) / quant| ≤ D ∧
        |(V (par (ord t)) - V (ord t)) / quant| ≤ D ∧
        |(W (par (ord t)) - W (ord t)) / quant| ≤ D) →
      0 ≤ B → (sz : ℚ) * (B + 2 * D ^ 2) + D ≤ dt1sq.INF →
      ∃ s, regularisation u1 v1 w1 u0 v0 w0 costall hw step1 quant ordered parents
        image_m image_n image_o = Except.ok s) := by
  refine ⟨fun i j hi h1 h2 hp => ValidTree.child_after sz ord par hvalid i j hi h1 h2 hp,
    ?_, ?_⟩
  · intro s hrun
    obtain ⟨tab, c1, p1, p2, M, sel, _, htrace, hcost, _, hcells, _, _, _, hread⟩ :=
      regularisation_ok u1 v1 w1 u0 v0 w0 costall hw step1 quant ordered parents image_m
        image_n image_o sz L U V W ord par C s hsz hLd hsz1 hin hvalid hC hrun
    refine ⟨tab, c1, p1, p2, M, htrace, ?_, ?_, ?_⟩
    · intro i l hi hl
      rw [hcost i (ord i) l hi (hvalid.1 i hi) hl,
        regularisation.received_all sz ord par M hvalid i l hi]
      rfl
    · intro t l h1 h2 hl
      obtain ⟨k, rfl⟩ : ∃ k, t = k + 1 := ⟨t - 1, by omega⟩
      have hp := ValidTree.parent_lt sz ord par hvalid (k + 1) h1 h2
      refine ⟨_, hcost (k + 1) _ l h2 hp hl, ?_⟩
      rw [Nat.add_sub_cancel, hcost k _ l (by omega) hp hl,
        regularisation.received_step sz ord par M k _ l h2, if_pos rfl, add_assoc]
    · intro i h1 h2
      obtain ⟨i', hi', hp⟩ := hvalid.2.2 i h1 h2
      refine ⟨_, hread i h1 h2, ?_⟩
      rw [← hp]
      exact (hcells i' (by omega)).2.1
  · intro B D hstep hsize hhw hq hcs hu1 hv1 hw1 hCB hD hB0 hlim
    obtain ⟨s, hrun, _⟩ := regularisation_spec u1 v1 w1 u0 v0 w0 costall hw step1 quant ordered
      parents image_m image_n image_o sz L U V W ord par C B D hstep hsz hLd hsize hhw hq hin
      hvalid hcs hu1 hv1 hw1 hC hCB hD hB0 hlim
    exact ⟨s, hrun⟩

/-- Instance of claim C28: the binary heap over 25 control points (the parent
of node `nd` is `(nd-1)/2`) with `hw = 1`, costs `(node + 25*label) mod 5` and
zero prior. -/
theorem regularisation_dependency_order_witness :
    (∀ i j : Nat, i < 25 → 1 ≤ j → j < 25 → (j - 1) / 2 = i → i < j) ∧
    (∀ s, regularisation (Buf.new 25) (Buf.new 25) (Buf.new 25)
        (Buf.ofFn 25 (fun _ : Nat => (0 : ℚ))) (Buf.ofFn 25 (fun _ : Nat => (0 : ℚ)))
        (Buf.ofFn 25 (fun _ : Nat => (0 : ℚ)))
        (Buf.ofFn (25 * 27) (fun c : Nat => ((c % 5 : Nat) : ℚ))) 1 1 1
        (Buf.ofFn 25 (fun i : Nat => ((i : Nat) : Int)))
        (Buf.ofFn 25 (fun nd : Nat => (((nd - 1) / 2 : Nat) : Int))) 25 1 1 = Except.ok s →
      ∃ (tab : LabelTable) (c1 : Buf ℚ) (p1 p2 : Nat → RegState) (M : Nat → Nat → ℚ),
        (p1 (25 - 1) = ⟨Buf.ofFn (25 * 27) (fun c : Nat => ((c % 5 : Nat) : ℚ)), c1, Buf.new 27,
            Buf.new (25 * 27), Buf.new 25, Buf.new 25, Buf.new 25, Buf.new 25⟩ ∧
          (∀ i, 1 ≤ i → i < 25 →
            regularisation.message (Buf.ofFn 25 (fun _ : Nat => (0 : ℚ)))
              (Buf.ofFn 25 (fun _ : Nat => (0 : ℚ))) (Buf.ofFn 25 (fun _ : Nat => (0 : ℚ)))
              (Buf.ofFn 25 (fun i : Nat => ((i : Nat) : Int)))
              (Buf.ofFn 25 (fun nd : Nat => (((nd - 1) / 2 : Nat) : Int))) 1 1 (25 / 1) (1 / 1)
              (1 / 1) ((25 / 25 : Nat) : Int) i (p1 i) = Except.ok (p1 (i - 1))) ∧
          regularisation.root tab (Buf.ofFn 25 (fun _ : Nat => (0 : ℚ)))
            (Buf.ofFn 25 (fun _ : Nat => (0 : ℚ))) (Buf.ofFn 25 (fun _ : Nat => (0 : ℚ)))
            (Buf.ofFn 25 (fun i : Nat => ((i : Nat) : Int))) 1 (25 / 1) (1 / 1) (1 / 1) (p1 0)
            = Except.ok (p2 1) ∧
          (∀ i, 1 ≤ i → i < 25 →
            regularisation.select tab (Buf.ofFn 25 (fun _ : Nat => (0 : ℚ)))
              (Buf.ofFn 25 (fun _ : Nat => (0 : ℚ))) (Buf.ofFn 25 (fun _ : Nat => (0 : ℚ)))
              (Buf.ofFn 25 (fun i : Nat => ((i : Nat) : Int)))
              (Buf.ofFn 25 (fun nd : Nat => (((nd - 1) / 2 : Nat) : Int))) (25 / 1) (1 / 1)
              (1 / 1) i (p2 i) = Except.ok (p2 (i + 1))) ∧
          p2 25 = s) ∧
        (∀ i l : Nat, i < 25 → l < 27 →
          (p1 i).costall.data (i + l * 25)
            = some ((((i + l * 25) % 5 : Nat) : ℚ) + ∑ t in Finset.Ico 1 25,
                if i = (t - 1) / 2 then M t l else 0)) ∧
        (∀ t l : Nat, 1 ≤ t → t < 25 → l < 27 → ∃ c : ℚ,
          (p1 t).costall.data ((t - 1) / 2 + l * 25) = some c ∧
          (p1 (t - 1)).costall.data ((t - 1) / 2 + l * 25) = some (c + M t l)) ∧
        ∀ i : Nat, 1 ≤ i → i < 25 → ∃ v : Int,
          (p2 i).selected.data ((i - 1) / 2) = some v ∧
          s.selected.data ((i - 1) / 2) = some v) ∧
    (∀ B D : ℚ, (1 : Nat) ≠ 0 → ((25 : Nat) = 1 ∨ 25 ≤ (25 : Nat)) → (1 : Nat) ≤ 15 →
      (1 : ℚ) ≠ 0 →
      (Buf.ofFn (25 * 27) (fun c : Nat => ((c % 5 : Nat) : ℚ))).size = 25 * 27 →
      25 ≤ (Buf.new 25 : Buf ℚ).size → 25 ≤ (Buf.new 25 : Buf ℚ).size →
      25 ≤ (Buf.new 25 : Buf ℚ).size →
      (∀ nd l : Nat, nd < 25 → l < 27 →
        -B ≤ (((nd + l * 25) % 5 : Nat) : ℚ) ∧ (((nd + l * 25) % 5 : Nat) : ℚ) ≤ B) →
      (∀ t : Nat, 1 ≤ t → t < 25 →
        |((0 : ℚ) - 0) / 1| ≤ D ∧ |((0 : ℚ) - 0) / 1| ≤ D ∧ |((0 : ℚ) - 0) / 1| ≤ D) →
      0 ≤ B → ((25 : Nat) : ℚ) * (B + 2 * D ^ 2) + D ≤ dt1sq.INF →
      ∃ s, regularisation (Buf.new 25) (Buf.new 25) (Buf.new 25)
        (Buf.ofFn 25 (fun _ : Nat => (0 : ℚ))) (Buf.ofFn 25 (fun _ : Nat => (0 : ℚ)))
        (Buf.ofFn 25 (fun _ : Nat => (0 : ℚ)))
        (Buf.ofFn (25 * 27) (fun c : Nat => ((c % 5 : Nat) : ℚ))) 1 1 1
        (Buf.ofFn 25 (fun i : Nat => ((i : Nat) : Int)))
        (Buf.ofFn 25 (fun nd : Nat => (((nd - 1) / 2 : Nat) : Int))) 25 1 1 = Except.ok s) :=
  regularisation_dependency_order (Buf.new 25) (Buf.new 25) (Buf.new 25)
    (Buf.ofFn 25 (fun _ : Nat => (0 : ℚ))) (Buf.ofFn 25 (fun _ : Nat => (0 : ℚ)))
    (Buf.ofFn 25 (fun _ : Nat => (0 : ℚ)))
    (Buf.ofFn (25 * 27) (fun c : Nat => ((c % 5 : Nat) : ℚ))) 1 1 1
    (Buf.ofFn 25 (fun i : Nat => ((i : Nat) : Int)))
    (Buf.ofFn 25 (fun nd : Nat => (((nd - 1) / 2 : Nat) : Int))) 25 1 1 25 27
    (fun _ : Nat => (0 : ℚ)) (fun _ : Nat => (0 : ℚ)) (fun _ : Nat => (0 : ℚ))
    (fun i : Nat => i) (fun nd : Nat => (nd - 1) / 2)
    (fun nd l : Nat => (((nd + l * 25) % 5 : Nat) : ℚ))
    (by decide) (by decide) (by decide)
    (tree_inputs 25 _ _ _ _ _ (fun _ h => h)) (heap_valid 25)
    (fun nd l hnd hl => cost_cells (25 * 27) _ 25 27 rfl nd l hnd hl)
/-! ## `regularisation`: the 16-bit argmin tables `allinds` -/

/-- The loop that stores the argmin table of a node, when it returns, has
written the conversion to `short` of every `inds[l]` into the row of the node
in `allinds` and has changed no cell outside that row. -/
theorem regularisation.storeRow_ok (inds allinds al : Buf Int) (nd sz L : Nat) (hn : nd < sz)
    (h : forLoop (fun l (t : Buf Int) => do
        let x ← inds.get l
        t.set (((nd : Nat) : Int) + (l : Int) * sz) (toShort x)) 0 L allinds = Except.ok al) :
    (∀ l, l < L → ∃ x, inds.data l = some x ∧ al.data (nd + l * sz) = some (toShort x)) ∧
    ∀ c, (∀ l, l < L → c ≠ nd + l * sz) → al.data c = allinds.data c := by
  have := forLoop_ok_inv
    (fun j (t : Buf Int) =>
      (∀ l, l < j → ∃ x, inds.data l = some x ∧ t.data (nd + l * sz) = some (toShort x)) ∧
      ∀ c, (∀ l, l < L → c ≠ nd + l * sz) → t.data c = allinds.data c)
    _ L 0 allinds al ⟨fun l hl => by omega, fun _ _ => rfl⟩
    (by
      rintro j t t' _ hj ⟨hI, hF⟩ hs
      simp only [bind_eq_ok] at hs
      obtain ⟨x, e1, e2⟩ := hs
      have g := (Buf.get_ok _ _ _ e1).2.2
      simp only [Int.toNat_ofNat] at g
      obtain ⟨_, _, q⟩ := Buf.set_ok _ _ _ _ e2
      rw [row_index_cast] at q
      simp only [Int.toNat_ofNat] at q
      subst q
      refine ⟨?_, ?_⟩
      · intro l hl
        by_cases hc : l = j
        · subst hc
          exact ⟨x, g, by simp⟩
        · obtain ⟨y, a1, a2⟩ := hI l (by omega)
          refine ⟨y, a1, ?_⟩
          have hne : nd + l * sz ≠ nd + j * sz := by
            intro he
            exact hc (row_index_inj sz nd l nd j hn hn he).2
          simp only [Function.update_noteq hne]
          exact a2
      · intro c hc
        simp only [Function.update_noteq (hc j (by omega))]
        exact hF c hc)
    h
  exact ⟨fun l hl => this.1 l (by omega), this.2⟩

/-- The loop of the root over its row of `allinds`, when it returns, has
written the conversion to `short` of every label index `l` into the row. -/
theorem regularisation.rootRow_cells (allinds al : Buf Int) (nd sz L : Nat) (hn : nd < sz)
    (h : forLoop (fun l (t : Buf Int) =>
        t.set (((nd : Nat) : Int) + (l : Int) * sz) (toShort l)) 0 L allinds = Except.ok al) :
    ∀ l, l < L → al.data (nd + l * sz) = some (toShort l) := by
  have := forLoop_ok_inv
    (fun j (t : Buf Int) => ∀ l, l < j → t.data (nd + l * sz) = some (toShort l))
    _ L 0 allinds al (fun l hl => by omega)
    (by
      intro j t t' _ hj hI hs
      obtain ⟨_, _, q⟩ := Buf.set_ok _ _ _ _ hs
      rw [row_index_cast] at q
      simp only [Int.toNat_ofNat] at q
      subst q
      intro l hl
      by_cases hc : l = j
      · subst hc
        simp
      · have hne : nd + l * sz ≠ nd + j * sz := by
          intro he
          exact hc (row_index_inj sz nd l nd j hn hn he).2
        simp only [Function.update_noteq hne]
        exact hI l (by omega))
    h
  intro l hl
  exact this l (by omega)

/-- An iteration of the first loop of `regularisation` that returns has
stored, for every label `l`, the conversion to `short` of the argmin `inds[l]`
computed by `dt3x` in the row of the node in `allinds`, and has changed no
other row of `allinds`; when the side of the label cube is at most `1e10+1`
every `inds[l]` is a label index. -/
theorem regularisation.message_allinds (u0 v0 w0 : Buf ℚ) (ordered parents : Buf Int) (hw : Nat)
    (quant : ℚ) (m n o : Nat) (frac : Int) (i : Nat) (s s1 : RegState) (sz L : Nat)
    (U V W : Nat → ℚ) (ord par : Nat → Nat)
    (hsz : sz = m * n * o) (hLd : L = (hw * 2 + 1) * (hw * 2 + 1) * (hw * 2 + 1))
    (hin : RegInputs sz u0 v0 w0 ordered parents U V W ord par)
    (hvalid : ValidTree sz ord par) (hm : m ≠ 0) (hn : n ≠ 0) (hi1 : 1 ≤ i) (hi : i < sz)
    (h : regularisation.message u0 v0 w0 ordered parents hw quant m n o frac i s
      = Except.ok s1) :
    (∀ l, l < L → ∃ x : Int, s1.inds.data l = some x ∧
      s1.allinds.data (ord i + l * sz) = some (toShort x)) ∧
    (∀ nd l, nd < sz → nd ≠ ord i →
      s1.allinds.data (nd + l * sz) = s.allinds.data (nd + l * sz)) ∧
    (((hw * 2 + 1 : Nat) : ℚ) ≤ dt1sq.INF + 1 →
      ∀ l, l < L → ∃ a : Nat, a < L ∧ s1.inds.data l = some ((a : Nat) : Int)) := by
  subst hsz hLd
  obtain ⟨su, sv, sw, so, sp, hprior, hord, hpar⟩ := hin
  have hc : ord i < m * n * o := hvalid.1 i hi
  have hp : par (ord i) < m * n * o := ValidTree.parent_lt _ ord par hvalid i hi1 hi
  have e1 := Buf.get_nat ordered i _ (by omega) (hord i hi)
  have e2 := Buf.get_nat parents (ord i) _ (by omega) (hpar i hi1 hi)
  have e3 := regularisation.flat_eq m n ((ord i : Nat) : Int) hm hn
  have e4 := regularisation.flat_eq m n ((par (ord i) : Nat) : Int) hm hn
  unfold regularisation.message at h
  by_cases hfrac : frac = 0
  · simp [hfrac] at h
  simp only [if_neg hfrac, e1, e2, e3, e4, ok_bind, bind_eq_ok, pure_eq_ok] at h
  obtain ⟨row, hrow, dx1, _, dy1, _, dz1, _, r, hdt, al, hal, ca, _, he⟩ := h
  obtain ⟨hcells, hframe⟩ := regularisation.storeRow_ok r.2 s.allinds al (ord i) _ _ hc hal
  cases he
  refine ⟨hcells, ?_, ?_⟩
  · intro nd l hnd hne
    show al.data (nd + l * (m * n * o)) = _
    exact hframe _ (fun l' _ he => hne (row_index_inj _ nd l (ord i) l' hnd hc he).1)
  · intro hrl l hl
    obtain ⟨_, hload⟩ := regularisation.loadRow_ok s.costall (ord i) _ _ s.cost1 row hrow
    have hex : ∀ c, ∃ x, c < (hw * 2 + 1) * (hw * 2 + 1) * (hw * 2 + 1) → row.data c = some x := by
      intro c
      by_cases hcl : c < (hw * 2 + 1) * (hw * 2 + 1) * (hw * 2 + 1)
      · obtain ⟨x, _, hx⟩ := hload c hcl
        exact ⟨x, fun _ => hx⟩
      · exact ⟨0, fun h => absurd h hcl⟩
    choose R hR using hex
    obtain ⟨a, ha, hx, _⟩ := dt3x_ok_flat (hw * 2 + 1) row s.inds R dx1 dy1 dz1 r.1 r.2 hrl hR
      hdt l hl
    exact ⟨a, ha, hx⟩

/-- A step of the root that returns has written the conversion to `short` of
every label index into the row of the root in `allinds` and has changed no
other row. -/
theorem regularisation.root_allinds (hw : Nat) (tab : LabelTable) (u0 v0 w0 : Buf ℚ)
    (ordered parents : Buf Int) (m n o : Nat) (s sR : RegState) (sz L : Nat)
    (U V W : Nat → ℚ) (ord par : Nat → Nat)
    (hsz : sz = m * n * o) (hLd : L = (hw * 2 + 1) * (hw * 2 + 1) * (hw * 2 + 1))
    (hin : RegInputs sz u0 v0 w0 ordered parents U V W ord par)
    (hvalid : ValidTree sz ord par) (hm : m ≠ 0) (hn : n ≠ 0) (hsz1 : 1 ≤ sz)
    (h : regularisation.root tab u0 v0 w0 ordered hw m n o s = Except.ok sR) :
    (∀ l, l < L → sR.allinds.data (ord 0 + l * sz) = some (toShort l)) ∧
    ∀ nd l, nd < sz → nd ≠ ord 0 →
      sR.allinds.data (nd + l * sz) = s.allinds.data (nd + l * sz) := by
  subst hsz hLd
  have hc : ord 0 < m * n * o := hvalid.1 0 (by omega)
  have e1 : ordered.get 0 = Except.ok ((ord 0 : Nat) : Int) := by
    have := Buf.get_nat ordered 0 _ (by have := hin.2.2.2.1; omega)
      (hin.2.2.2.2.2.2.1 0 (by omega))
    rw [Nat.cast_zero] at this
    exact this
  have e3 := regularisation.flat_eq m n ((ord 0 : Nat) : Int) hm hn
  unfold regularisation.root at h
  simp only [e1, e3, ok_bind, bind_eq_ok] at h
  obtain ⟨row, _, res, _, al, hal, hcommit⟩ := h
  have hrow := regularisation.rootRow_cells s.allinds al (ord 0) _ _ hc hal
  have hfr := regularisation.rootRow_ok s.allinds al (ord 0) _ _ hal
  have hca : sR.allinds = al := by
    unfold regularisation.commit at hcommit
    simp only [bind_eq_ok, pure_eq_ok] at hcommit
    obtain ⟨_, _, _, _, _, _, _, _, _, _, _, _, _, _, _, _, _, _, _, _, e⟩ := hcommit
    cases e
    rfl
  rw [hca]
  refine ⟨hrow, ?_⟩
  intro nd l hnd hne
  exact hfr _ (fun l' _ he => hne (row_index_inj _ nd l (ord 0) l' hnd hc he).1)

/-- Every run of `regularisation` that returns, seen at the argmin tables:
along the states `p1`, `p2` of the two loops, the iteration of position `t`
of the first loop computes the argmin vector `argZ t` (left in `inds`) and
stores its conversion to `short` in the row of the node in `allinds`; the
root stores the conversion of `l` at every label `l` of its row; these cells
are not written again, so that in every state of the second loop the row of
the node of position `t` holds `toShort (argZ t l)`, and the label selected
for the node is the cell read at the label of its parent. -/
theorem regularisation_allinds_ok (u1 v1 w1 u0 v0 w0 costall : Buf ℚ) (hw step1 : Nat)
    (quant : ℚ) (ordered parents : Buf Int) (image_m image_n image_o : Nat) (sz L : Nat)
    (U V W : Nat → ℚ) (ord par : Nat → Nat) (C : Nat → Nat → ℚ) (s : RegState)
    (hsz : sz = image_m / step1 * (image_n / step1) * (image_o / step1))
    (hLd : L = (hw * 2 + 1) * (hw * 2 + 1) * (hw * 2 + 1)) (hsz1 : 1 ≤ sz)
    (hin : RegInputs sz u0 v0 w0 ordered parents U V W ord par)
    (hvalid : ValidTree sz ord par)
    (hC : ∀ nd l, nd < sz → l < L → costall.data (nd + l * sz) = some (C nd l))
    (hrun : regularisation u1 v1 w1 u0 v0 w0 costall hw step1 quant ordered parents
        image_m image_n image_o = Except.ok s) :
    ∃ (tab : LabelTable) (c1 : Buf ℚ) (p1 p2 : Nat → RegState) (sel : Nat → Nat)
      (argZ : Nat → Nat → Int),
      (p1 (sz - 1) = ⟨costall, c1, Buf.new L, Buf.new (sz * L), Buf.new sz, u1, v1, w1⟩ ∧
        (∀ i, 1 ≤ i → i < sz →
          regularisation.message u0 v0 w0 ordered parents hw quant (image_m / step1)
            (image_n / step1) (image_o / step1) ((sz / 25 : Nat) : Int) i (p1 i)
            = Except.ok (p1 (i - 1))) ∧
        regularisation.root tab u0 v0 w0 ordered hw (image_m / step1) (image_n / step1)
          (image_o / step1) (p1 0) = Except.ok (p2 1) ∧
        (∀ i, 1 ≤ i → i < sz →
          regularisation.select tab u0 v0 w0 ordered parents (image_m / step1)
            (image_n / step1) (image_o / step1) i (p2 i) = Except.ok (p2 (i + 1))) ∧
        p2 sz = s) ∧
      (∀ t l, 1 ≤ t → t < sz → l < L →
        (p1 (t - 1)).inds.data l = some (argZ t l) ∧
        ∀ j, 1 ≤ j → j ≤ sz →
          (p2 j).allinds.data (ord t + l * sz) = some (toShort (argZ t l))) ∧
      (∀ l j, l < L → 1 ≤ j → j ≤ sz →
        (p2 j).allinds.data (ord 0 + l * sz) = some (toShort l)) ∧
      (∀ t, 1 ≤ t → t < sz → sel (par (ord t)) < L ∧
        (p2 t).selected.data (par (ord t)) = some ((sel (par (ord t)) : Nat) : Int) ∧
        s.selected.data (ord t) = some (toShort (argZ t (sel (par (ord t)))))) ∧
      (((hw * 2 + 1 : Nat) : ℚ) ≤ dt1sq.INF + 1 →
        ∀ t l, 1 ≤ t → t < sz → l < L → ∃ a : Nat, a < L ∧ argZ t l = ((a : Nat) : Int)) := by
  have hm : image_m / step1 ≠ 0 := by
    intro h; rw [h] at hsz; simp at hsz; omega
  have hn : image_n / step1 ≠ 0 := by
    intro h; rw [h] at hsz; simp at hsz; omega
  obtain ⟨tab, c1, p1, p2, M, sel, htab, htrace, _, _, hcells, _, _, hal, hread⟩ :=
    regularisation_ok u1 v1 w1 u0 v0 w0 costall hw step1 quant ordered parents image_m
      image_n image_o sz L U V W ord par C s hsz hLd hsz1 hin hvalid hC hrun
  obtain ⟨a0, hS1, hR, hS2, eF⟩ := htrace
  have hmsg : ∀ t, 1 ≤ t → t < sz →
      (∀ l, l < L → ∃ x : Int, (p1 (t - 1)).inds.data l = some x ∧
        (p1 (t - 1)).allinds.data (ord t + l * sz) = some (toShort x)) ∧
      (∀ nd l, nd < sz → nd ≠ ord t →
        (p1 (t - 1)).allinds.data (nd + l * sz) = (p1 t).allinds.data (nd + l * sz)) ∧
      (((hw * 2 + 1 : Nat) : ℚ) ≤ dt1sq.INF + 1 →
        ∀ l, l < L → ∃ a : Nat, a < L ∧ (p1 (t - 1)).inds.data l = some ((a : Nat) : Int)) :=
    fun t h1 h2 => regularisation.message_allinds u0 v0 w0 ordered parents hw quant _ _ _ _ t
      (p1 t) (p1 (t - 1)) sz L U V W ord par hsz hLd hin hvalid hm hn h1 h2 (hS1 t h1 h2)
  have hex : ∀ t l, ∃ x : Int, 1 ≤ t → t < sz → l < L →
      (p1 (t - 1)).inds.data l = some x ∧
      (p1 (t - 1)).allinds.data (ord t + l * sz) = some (toShort x) := by
    intro t l
    by_cases h : 1 ≤ t ∧ t < sz ∧ l < L
    · obtain ⟨x, hx⟩ := (hmsg t h.1 h.2.1).1 l h.2.2
      exact ⟨x, fun _ _ _ => hx⟩
    · exact ⟨0, fun a b c => absurd ⟨a, b, c⟩ h⟩
  choose argZ hargZ using hex
  -- the row of position `t` is not written after the iteration of `t`
  have hkeep : ∀ t l, 1 ≤ t → t < sz → l < L → ∀ d, d ≤ t - 1 →
      (p1 (t - 1 - d)).allinds.data (ord t + l * sz) = some (toShort (argZ t l)) := by
    intro t l h1 h2 hl d
    induction d with
    | zero => intro _; exact (hargZ t l h1 h2 hl).2
    | succ d ih =>
      intro hd
      obtain ⟨k, hk⟩ : ∃ k, t - 1 - d = k + 1 := ⟨t - 1 - d - 1, by omega⟩
      have e : t - 1 - (d + 1) = k + 1 - 1 := by omega
      have hfr := (hmsg (k + 1) (by omega) (by omega)).2.1 (ord t) l (hvalid.1 t h2)
        (ValidTree.ord_ne sz ord par hvalid t (k + 1) h2 (by omega) (by omega))
      rw [e, hfr, ← hk]
      exact ih (by omega)
  obtain ⟨hrootrow, hrootfr⟩ := regularisation.root_allinds hw tab u0 v0 w0 ordered parents
    _ _ _ (p1 0) (p2 1) sz L U V W ord par hsz hLd hin hvalid hm hn hsz1 hR
  have hsame : ∀ d, 1 + d ≤ sz → (p2 (1 + d)).allinds = (p2 1).allinds := by
    intro d
    induction d with
    | zero => intro _; rfl
    | succ d ih =>
      intro hd
      obtain ⟨_, _, _, _, _, _, _, _, _, _, _, e⟩ := regularisation.select_inv hw quant tab u0 v0
        w0 ordered parents _ _ _ (p2 (1 + d)) (p2 (1 + d + 1)) sz (1 + d) U V W ord par hsz
        htab.2 hin hvalid hm hn (by omega) (by omega) (hS2 (1 + d) (by omega) (by omega))
      have e2 : 1 + (d + 1) = 1 + d + 1 := by omega
      rw [e2, e]
      exact ih (by omega)
  have hp2 : ∀ j, 1 ≤ j → j ≤ sz → (p2 j).allinds = (p2 1).allinds := by
    intro j h1 h2
    have := hsame (j - 1) (by omega)
    have e : 1 + (j - 1) = j := by omega
    rw [e] at this
    exact this
  have hrows : ∀ t l, 1 ≤ t → t < sz → l < L → ∀ j, 1 ≤ j → j ≤ sz →
      (p2 j).allinds.data (ord t + l * sz) = some (toShort (argZ t l)) := by
    intro t l h1 h2 hl j hj1 hj2
    rw [hp2 j hj1 hj2, hrootfr (ord t) l (hvalid.1 t h2)
      (ValidTree.ord_ne sz ord par hvalid t 0 h2 (by omega) (by omega))]
    have := hkeep t l h1 h2 hl (t - 1) (le_refl _)
    have e : t - 1 - (t - 1) = 0 := by omega
    rw [e] at this
    exact this
  refine ⟨tab, c1, p1, p2, sel, argZ, ⟨a0, hS1, hR, hS2, eF⟩, ?_, ?_, ?_, ?_⟩
  · intro t l h1 h2 hl
    exact ⟨(hargZ t l h1 h2 hl).1, hrows t l h1 h2 hl⟩
  · intro l j hl hj1 hj2
    rw [hp2 j hj1 hj2]
    exact hrootrow l hl
  · intro t h1 h2
    obtain ⟨t', ht', hp⟩ := hvalid.2.2 t h1 h2
    have hlp : sel (par (ord t)) < L := by
      rw [← hp]
      exact (hcells t' (by omega)).1
    refine ⟨hlp, hread t h1 h2, ?_⟩
    have g1 := hal t h1 h2
    have g2 := hrows t (sel (par (ord t))) h1 h2 hlp sz (by omega) (le_refl _)
    rw [eF, g1] at g2
    rw [(hcells t h2).2.1, g2]
  · intro hrl t l h1 h2 hl
    obtain ⟨a, ha, hx⟩ := (hmsg t h1 h2).2.2 hrl l hl
    refine ⟨a, ha, ?_⟩
    have := (hargZ t l h1 h2 hl).1
    rw [hx] at this
    exact (Option.some.inj this).symm

/-- A lattice with a single control point: `regularisation` returns for every
search radius `hw` (both loops over the positions are empty). -/
theorem regularisation_single_node (u1 v1 w1 u0 v0 w0 costall : Buf ℚ) (hw step1 : Nat)
    (quant : ℚ) (ordered parents : Buf Int) (image_m image_n image_o : Nat) (sz L : Nat)
    (U V W : Nat → ℚ) (ord par : Nat → Nat) (C : Nat → Nat → ℚ)
    (hstep : step1 ≠ 0)
    (hsz : sz = image_m / step1 * (image_n / step1) * (image_o / step1))
    (hLd : L = (hw * 2 + 1) * (hw * 2 + 1) * (hw * 2 + 1)) (hone : sz = 1)
    (hin : RegInputs sz u0 v0 w0 ordered parents U V W ord par)
    (hvalid : ValidTree sz ord par)
    (hcs : costall.size = sz * L)
    (hu1 : sz ≤ u1.size) (hv1 : sz ≤ v1.size) (hw1 : sz ≤ w1.size)
    (hC : ∀ nd l, nd < sz → l < L → costall.data (nd + l * sz) = some (C nd l)) :
    ∃ s, regularisation u1 v1 w1 u0 v0 w0 costall hw step1 quant ordered parents
        image_m image_n image_o = Except.ok s := by
  have hm : image_m / step1 ≠ 0 := by
    intro h; rw [h] at hsz; simp at hsz; omega
  have hn : image_n / step1 ≠ 0 := by
    intro h; rw [h] at hsz; simp at hsz; omega
  obtain ⟨tab, etab, htab⟩ := labelTable_flat hw quant
  obtain ⟨c1, ec1, hc1s⟩ := regularisation.zeroRow_spec L
  obtain ⟨sR, r, erunR, _⟩ := regularisation.root_spec hw quant
    tab u0 v0 w0 ordered parents _ _ _
    ⟨costall, c1, Buf.new L, Buf.new (sz * L), Buf.new sz, u1, v1, w1⟩ sz L U V W ord par C
    (fun _ _ => 0) hsz hLd htab hin hvalid hm hn (by omega) hcs hc1s rfl (le_refl _) hu1 hv1 hw1
    hC
  refine ⟨sR, ?_⟩
  have e0 : image_m / step1 * (image_n / step1) * (image_o / step1) - 1 = 0 := by
    rw [← hsz, hone]
  unfold regularisation
  subst hLd
  rw [hsz] at erunR
  have fd : ∀ (body : Nat → RegState → Except Err RegState) (t : RegState),
      forDown body 0 t = Except.ok t := fun _ _ => rfl
  have fl : ∀ (body : Nat → RegState → Except Err RegState) (lo : Nat) (t : RegState),
      forLoop body lo 0 t = Except.ok t := fun _ _ _ => rfl
  simp only [if_neg hstep, etab, ec1, e0, fd, erunR, fl, ok_bind]

/-- Claim C31: for every `hw <= 15` (then `(2*hw+1)^3 <= 32767`), in every run
of `regularisation` that returns, every label index stored in the 16-bit
array `allinds` is stored without change and is read back unchanged in the
second loop: along the states `p1`, `p2` of the two loops, the iteration of
position `t` of the first loop leaves in `inds` the argmin vector `arg t` of
label indices below `len^3`, and in every state of the second loop the cell
`allinds[ordered[t]+l*sz]` holds `arg t l` itself and the cell
`allinds[ordered[0]+l*sz]` of the root holds `l`; the label selected for the
node of position `t` is `arg t` at the label selected for its parent.  For
every `hw >= 16` the label index 32768 is below `len^3`, the conversion to
`short` turns it into -32768 (no value above 32767 is its own conversion), and
in every run that returns the cell `allinds[ordered[0]+32768*sz]`, into which
the root stores the label index 32768, holds -32768.  The run returns when
`hw <= 15`, the tree has one or at least 25 nodes, `quant` and `step1` are not
0 and the costs and the prior differences are bounded; for a single control
point it returns for every `hw`. -/
theorem regularisation_short_indices (u1 v1 w1 u0 v0 w0 costall : Buf ℚ) (hw step1 : Nat)
    (quant : ℚ) (ordered parents : Buf Int) (image_m image_n image_o : Nat) (sz L : Nat)
    (U V W : Nat → ℚ) (ord par : Nat → Nat) (C : Nat → Nat → ℚ)
    (hsz : sz = image_m / step1 * (image_n / step1) * (image_o / step1))
    (hLd : L = (hw * 2 + 1) * (hw * 2 + 1) * (hw * 2 + 1)) (hsz1 : 1 ≤ sz)
    (hin : RegInputs sz u0 v0 w0 ordered parents U V W ord par)
    (hvalid : ValidTree sz ord par)
    (hC : ∀ nd l, nd < sz → l < L → costall.data (nd + l * sz) = some (C nd l)) :
    (hw ≤ 15 → L ≤ 32767 ∧
      ∀ s, regularisation u1 v1 w1 u0 v0 w0 costall hw step1 quant ordered parents
          image_m image_n image_o = Except.ok s →
        ∃ (tab : LabelTable) (c1 : Buf ℚ) (p1 p2 : Nat → RegState) (sel : Nat → Nat)
          (arg : Nat → Nat → Nat),
          (p1 (sz - 1) = ⟨costall, c1, Buf.new L, Buf.new (sz * L), Buf.new sz, u1, v1, w1⟩ ∧
            (∀ i, 1 ≤ i → i < sz →
              regularisation.message u0 v0 w0 ordered parents hw quant (image_m / step1)
                (image_n / step1) (image_o / step1) ((sz / 25 : Nat) : Int) i (p1 i)
                = Except.ok (p1 (i - 1))) ∧
            regularisation.root tab u0 v0 w0 ordered hw (image_m / step1) (image_n / step1)
              (image_o / step1) (p1 0) = Except.ok (p2 1) ∧
            (∀ i, 1 ≤ i → i < sz →
              regularisation.select tab u0 v0 w0 ordered parents (image_m / step1)
                (image_n / step1) (image_o / step1) i (p2 i) = Except.ok (p2 (i + 1))) ∧
            p2 sz = s) ∧
          (∀ t l, 1 ≤ t → t < sz → l < L → arg t l < L ∧
            (p1 (t - 1)).inds.data l = some ((arg t l : Nat) : Int) ∧
            ∀ j, 1 ≤ j → j ≤ sz →
              (p2 j).allinds.data (ord t + l * sz) = some ((arg t l : Nat) : Int)) ∧
          (∀ l j, l < L → 1 ≤ j → j ≤ sz →
            (p2 j).allinds.data (ord 0 + l * sz) = some ((l : Nat) : Int)) ∧
          ∀ t, 1 ≤ t → t < sz → sel (par (ord t)) < L ∧
            (p2 t).selected.data (par (ord t)) = some ((sel (par (ord t)) : Nat) : Int) ∧
            s.selected.data (ord t) = some ((arg t (sel (par (ord t))) : Nat) : Int)) ∧
    (16 ≤ hw → 32768 < L ∧ toShort 32768 = -32768 ∧ (∀ x : Int, 32767 < x → toShort x ≠ x) ∧
      ∀ s, regularisation u1 v1 w1 u0 v0 w0 costall hw step1 quant ordered parents
          image_m image_n image_o = Except.ok s →
        s.allinds.data (ord 0 + 32768 * sz) = some (-32768)) ∧
    (∀ B D : ℚ, step1 ≠ 0 → (sz = 1 ∨ 25 ≤ sz) → hw ≤ 15 → quant ≠ 0 →
      costall.size = sz * L → sz ≤ u1.size → sz ≤ v1.size → sz ≤ w1.size →
      (∀ nd l, nd < sz → l < L → -B ≤ C nd l ∧ C nd l ≤ B) →
      (∀ t, 1 ≤ t → t < sz →
        |(U (par (ord t)) - U (ord t)) / quant| ≤ D ∧
        |(V (par (ord t)) - V (ord t)) / quant| ≤ D ∧
        |(W (par (ord t)) - W (ord t)) / quant| ≤ D) →
      0 ≤ B → (sz : ℚ) * (B + 2 * D ^ 2) + D ≤ dt1sq.INF →
      ∃ s, regularisation u1 v1 w1 u0 v0 w0 costall hw step1 quant ordered parents
        image_m image_n image_o = Except.ok s) ∧
    (step1 ≠ 0 → sz = 1 → costall.size = sz * L → sz ≤ u1.size → sz ≤ v1.size →
      sz ≤ w1.size →
      ∃ s, regularisation u1 v1 w1 u0 v0 w0 costall hw step1 quant ordered parents
        image_m image_n image_o = Except.ok s) := by
  refine ⟨?_, ?_, ?_, ?_⟩
  · intro hhw
    have hL : L ≤ 32767 := by
      have h1 : hw * 2 + 1 ≤ 31 := by omega
      calc L = (hw * 2 + 1) * (hw * 2 + 1) * (hw * 2 + 1) := hLd
        _ ≤ 31 * 31 * 31 := by gcongr
        _ ≤ 32767 := by norm_num
    refine ⟨hL, ?_⟩
    intro s hrun
    have hrl : ((hw * 2 + 1 : Nat) : ℚ) ≤ dt1sq.INF + 1 := by
      have h1 : ((hw * 2 + 1 : Nat) : ℚ) ≤ 31 := by
        have : hw * 2 + 1 ≤ 31 := by omega
        exact_mod_cast this
      unfold dt1sq.INF
      linarith
    obtain ⟨tab, c1, p1, p2, sel, argZ, htrace, hrows, hroot, hsel, hbound⟩ :=
      regularisation_allinds_ok u1 v1 w1 u0 v0 w0 costall hw step1 quant ordered parents image_m
        image_n image_o sz L U V W ord par C s hsz hLd hsz1 hin hvalid hC hrun
    have hb := hbound hrl
    have harg : ∀ t l, 1 ≤ t → t < sz → l < L →
        (argZ t l).toNat < L ∧ argZ t l = (((argZ t l).toNat : Nat) : Int) ∧
        toShort (argZ t l) = (((argZ t l).toNat : Nat) : Int) := by
      intro t l h1 h2 hl
      obtain ⟨a, ha, he⟩ := hb t l h1 h2 hl
      rw [he, Int.toNat_ofNat]
      exact ⟨ha, rfl, toShort_of_lt a (by omega)⟩
    refine ⟨tab, c1, p1, p2, sel, fun t l => (argZ t l).toNat, htrace, ?_, ?_, ?_⟩
    · intro t l h1 h2 hl
      obtain ⟨g1, g2, g3⟩ := harg t l h1 h2 hl
      refine ⟨g1, ?_, ?_⟩
      · rw [← g2]
        exact (hrows t l h1 h2 hl).1
      · intro j hj1 hj2
        rw [← g3]
        exact (hrows t l h1 h2 hl).2 j hj1 hj2
    · intro l j hl hj1 hj2
      rw [← toShort_of_lt l (by omega)]
      exact hroot l j hl hj1 hj2
    · intro t h1 h2
      obtain ⟨a1, a2, a3⟩ := hsel t h1 h2
      refine ⟨a1, a2, ?_⟩
      rw [← (harg t _ h1 h2 a1).2.2]
      exact a3
  · intro hhw
    have hL : 32768 < L := by
      have h1 : 33 ≤ hw * 2 + 1 := by omega
      calc 32768 < 33 * 33 * 33 := by norm_num
        _ ≤ (hw * 2 + 1) * (hw * 2 + 1) * (hw * 2 + 1) := by gcongr
        _ = L := hLd.symm
    refine ⟨hL, by decide, ?_, ?_⟩
    · intro x hx
      unfold toShort
      omega
    · intro s hrun
      obtain ⟨tab, c1, p1, p2, sel, argZ, htrace, _, hroot, _, _⟩ :=
        regularisation_allinds_ok u1 v1 w1 u0 v0 w0 costall hw step1 quant ordered parents
          image_m image_n image_o sz L U V W ord par C s hsz hLd hsz1 hin hvalid hC hrun
      have := hroot 32768 sz hL (by omega) (le_refl _)
      rw [htrace.2.2.2.2] at this
      rw [this]
      rfl
  · intro B D hstep hsize hhw hq hcs hu1 hv1 hw1 hCB hD hB0 hlim
    obtain ⟨s, hrun, _⟩ := regularisation_spec u1 v1 w1 u0 v0 w0 costall hw step1 quant ordered
      parents image_m image_n image_o sz L U V W ord par C B D hstep hsz hLd hsize hhw hq hin
      hvalid hcs hu1 hv1 hw1 hC hCB hD hB0 hlim
    exact ⟨s, hrun⟩
  · intro hstep hone hcs hu1 hv1 hw1
    exact regularisation_single_node u1 v1 w1 u0 v0 w0 costall hw step1 quant ordered parents
      image_m image_n image_o sz L U V W ord par C hstep hsz hLd hone hin hvalid hcs hu1 hv1
      hw1 hC

/-- Instances of claim C31.  The chain of 25 control points with `hw = 1`
(27 labels), costs `(node + 25*label) mod 5` and prior `u0[n] = n/2`: the run
returns and every stored label index is read back unchanged.  A single
control point with `hw = 16` (35937 labels): the run returns and the cell of
the label index 32768 holds -32768. -/
theorem regularisation_short_indices_witness :
    ((∃ s, regularisation (Buf.new 25) (Buf.new 25) (Buf.new 25)
        (Buf.ofFn 25 (fun n : Nat => (n : ℚ) / 2)) (Buf.ofFn 25 (fun _ : Nat => (0 : ℚ)))
        (Buf.ofFn 25 (fun _ : Nat => (0 : ℚ)))
        (Buf.ofFn (25 * 27) (fun c : Nat => ((c % 5 : Nat) : ℚ))) 1 1 1
        (Buf.ofFn 25 (fun i => (i : Int))) (Buf.ofFn 25 (fun i => (i : Int) - 1)) 25 1 1
        = Except.ok s) ∧
      27 ≤ 32767 ∧
      ∀ s, regularisation (Buf.new 25) (Buf.new 25) (Buf.new 25)
          (Buf.ofFn 25 (fun n : Nat => (n : ℚ) / 2)) (Buf.ofFn 25 (fun _ : Nat => (0 : ℚ)))
          (Buf.ofFn 25 (fun _ : Nat => (0 : ℚ)))
          (Buf.ofFn (25 * 27) (fun c : Nat => ((c % 5 : Nat) : ℚ))) 1 1 1
          (Buf.ofFn 25 (fun i => (i : Int))) (Buf.ofFn 25 (fun i => (i : Int) - 1)) 25 1 1
          = Except.ok s →
        ∃ (tab : LabelTable) (c1 : Buf ℚ) (p1 p2 : Nat → RegState) (sel : Nat → Nat)
          (arg : Nat → Nat → Nat),
          (p1 (25 - 1) = ⟨Buf.ofFn (25 * 27) (fun c : Nat => ((c % 5 : Nat) : ℚ)), c1,
              Buf.new 27, Buf.new (25 * 27), Buf.new 25, Buf.new 25, Buf.new 25, Buf.new 25⟩ ∧
            (∀ i, 1 ≤ i → i < 25 →
              regularisation.message (Buf.ofFn 25 (fun n : Nat => (n : ℚ) / 2))
                (Buf.ofFn 25 (fun _ : Nat => (0 : ℚ))) (Buf.ofFn 25 (fun _ : Nat => (0 : ℚ)))
                (Buf.ofFn 25 (fun i => (i : Int))) (Buf.ofFn 25 (fun i => (i : Int) - 1)) 1 1
                (25 / 1) (1 / 1) (1 / 1) ((25 / 25 : Nat) : Int) i (p1 i)
                = Except.ok (p1 (i - 1))) ∧
            regularisation.root tab (Buf.ofFn 25 (fun n : Nat => (n : ℚ) / 2))
              (Buf.ofFn 25 (fun _ : Nat => (0 : ℚ))) (Buf.ofFn 25 (fun _ : Nat => (0 : ℚ)))
              (Buf.ofFn 25 (fun i => (i : Int))) 1 (25 / 1) (1 / 1) (1 / 1) (p1 0)
              = Except.ok (p2 1) ∧
            (∀ i, 1 ≤ i → i < 25 →
              regularisation.select tab (Buf.ofFn 25 (fun n : Nat => (n : ℚ) / 2))
                (Buf.ofFn 25 (fun _ : Nat => (0 : ℚ))) (Buf.ofFn 25 (fun _ : Nat => (0 : ℚ)))
                (Buf.ofFn 25 (fun i => (i : Int))) (Buf.ofFn 25 (fun i => (i : Int) - 1))
                (25 / 1) (1 / 1) (1 / 1) i (p2 i) = Except.ok (p2 (i + 1))) ∧
            p2 25 = s) ∧
          (∀ t l : Nat, 1 ≤ t → t < 25 → l < 27 → arg t l < 27 ∧
            (p1 (t - 1)).inds.data l = some ((arg t l : Nat) : Int) ∧
            ∀ j, 1 ≤ j → j ≤ 25 →
              (p2 j).allinds.data (t + l * 25) = some ((arg t l : Nat) : Int)) ∧
          (∀ l j : Nat, l < 27 → 1 ≤ j → j ≤ 25 →
            (p2 j).allinds.data (0 + l * 25) = some ((l : Nat) : Int)) ∧
          ∀ t : Nat, 1 ≤ t → t < 25 → sel (t - 1) < 27 ∧
            (p2 t).selected.data (t - 1) = some ((sel (t - 1) : Nat) : Int) ∧
            s.selected.data t = some ((arg t (sel (t - 1)) : Nat) : Int)) ∧
    ((∃ s, regularisation (Buf.new 1) (Buf.new 1) (Buf.new 1)
        (Buf.ofFn 1 (fun _ : Nat => (0 : ℚ))) (Buf.ofFn 1 (fun _ : Nat => (0 : ℚ)))
        (Buf.ofFn 1 (fun _ : Nat => (0 : ℚ)))
        (Buf.ofFn (1 * 35937) (fun c : Nat => ((c % 5 : Nat) : ℚ))) 16 1 1
        (Buf.ofFn 1 (fun i => (i : Int))) (Buf.ofFn 1 (fun i => (i : Int) - 1)) 1 1 1
        = Except.ok s) ∧
      32768 < 35937 ∧ toShort 32768 = -32768 ∧ (∀ x : Int, 32767 < x → toShort x ≠ x) ∧
      ∀ s, regularisation (Buf.new 1) (Buf.new 1) (Buf.new 1)
          (Buf.ofFn 1 (fun _ : Nat => (0 : ℚ))) (Buf.ofFn 1 (fun _ : Nat => (0 : ℚ)))
          (Buf.ofFn 1 (fun _ : Nat => (0 : ℚ)))
          (Buf.ofFn (1 * 35937) (fun c : Nat => ((c % 5 : Nat) : ℚ))) 16 1 1
          (Buf.ofFn 1 (fun i => (i : Int))) (Buf.ofFn 1 (fun i => (i : Int) - 1)) 1 1 1
          = Except.ok s →
        s.allinds.data (0 + 32768 * 1) = some (-32768)) :=
  have h1 := regularisation_short_indices (Buf.new 25) (Buf.new 25) (Buf.new 25)
    (Buf.ofFn 25 (fun n : Nat => (n : ℚ) / 2)) (Buf.ofFn 25 (fun _ : Nat => (0 : ℚ)))
    (Buf.ofFn 25 (fun _ : Nat => (0 : ℚ)))
    (Buf.ofFn (25 * 27) (fun c : Nat => ((c % 5 : Nat) : ℚ))) 1 1 1
    (Buf.ofFn 25 (fun i => (i : Int))) (Buf.ofFn 25 (fun i => (i : Int) - 1)) 25 1 1 25 27
    (fun n : Nat => (n : ℚ) / 2) (fun _ : Nat => (0 : ℚ)) (fun _ : Nat => (0 : ℚ))
    (fun i : Nat => i) (fun nd : Nat => nd - 1)
    (fun nd l : Nat => (((nd + l * 25) % 5 : Nat) : ℚ))
    (by decide) (by decide) (by decide) (chain_inputs 25 _ _ _) (chain_valid 25)
    (fun nd l hnd hl => cost_cells (25 * 27) _ 25 27 rfl nd l hnd hl)
  have h2 := regularisation_short_indices (Buf.new 1) (Buf.new 1) (Buf.new 1)
    (Buf.ofFn 1 (fun _ : Nat => (0 : ℚ))) (Buf.ofFn 1 (fun _ : Nat => (0 : ℚ)))
    (Buf.ofFn 1 (fun _ : Nat => (0 : ℚ)))
    (Buf.ofFn (1 * 35937) (fun c : Nat => ((c % 5 : Nat) : ℚ))) 16 1 1
    (Buf.ofFn 1 (fun i => (i : Int))) (Buf.ofFn 1 (fun i => (i : Int) - 1)) 1 1 1 1 35937
    (fun _ : Nat => (0 : ℚ)) (fun _ : Nat => (0 : ℚ)) (fun _ : Nat => (0 : ℚ))
    (fun i : Nat => i) (fun nd : Nat => nd - 1)
    (fun nd l : Nat => (((nd + l * 1) % 5 : Nat) : ℚ))
    (by decide) (by norm_num) (by decide) (chain_inputs 1 _ _ _) (chain_valid 1)
    (fun nd l hnd hl => cost_cells (1 * 35937) _ 1 35937 rfl nd l hnd hl)
  ⟨⟨h1.2.2.1 4 (1 / 2) (by decide) (Or.inr (le_refl _)) (by decide) one_ne_zero rfl (le_refl _)
      (le_refl _) (le_refl _)
      (fun nd l _ _ => by
        have h4 : (nd + l * 25) % 5 ≤ 4 := by omega
        have : (((nd + l * 25) % 5 : Nat) : ℚ) ≤ 4 := by exact_mod_cast h4
        have : (0 : ℚ) ≤ (((nd + l * 25) % 5 : Nat) : ℚ) := Nat.cast_nonneg _
        constructor <;> linarith)
      (fun t h1 _ => by
        have e : ((t - 1 : Nat) : ℚ) = (t : ℚ) - 1 := by
          rw [Nat.cast_sub h1]; simp
        refine ⟨?_, ?_, ?_⟩
        · simp only [e]
          rw [abs_le]
          constructor <;> linarith
        · simp
        · simp)
      (by norm_num) (by unfold dt1sq.INF; norm_num),
    h1.1 (by decide)⟩,
   ⟨h2.2.2.2 (by decide) rfl rfl (le_refl _) (le_refl _) (le_refl _), h2.2.1 (by decide)⟩⟩


/-- Grid position of a flat index by the C divisions
`z=i/(A*B); x=(i-z*A*B)/A; y=i-z*A*B-x*A`. -/
theorem grid_decomp (A B C i : Nat) (hi : i < A * B * C) (hA : 0 < A) (hB : 0 < B) :
    ∃ gy gx gz : Nat, gy < A ∧ gx < B ∧ gz < C ∧
      (i : Int).tdiv ((A : Int) * B) = (gz : Int) ∧
      ((i : Int) - (i : Int).tdiv ((A : Int) * B) * A * B).tdiv A = (gx : Int) ∧
      (i : Int) - (i : Int).tdiv ((A : Int) * B) * A * B
        - ((i : Int) - (i : Int).tdiv ((A : Int) * B) * A * B).tdiv A * A = (gy : Int) := by
  have hAB : 0 < A * B := Nat.mul_pos hA hB
  have hz : (i : Int).tdiv ((A : Int) * B) = ((i / (A * B) : Nat) : Int) := by
    rw [← Int.natCast_mul, ← Int.ofNat_tdiv]
  have hrem : (i : Int) - ((i / (A * B) : Nat) : Int) * A * B = ((i % (A * B) : Nat) : Int) := by
    have := Nat.mod_add_div i (A * B)
    have h2 : ((i % (A * B) + A * B * (i / (A * B)) : Nat) : Int) = (i : Int) := by rw [this]
    push_cast at h2 ⊢
    linarith
  have hx : (((i % (A * B) : Nat) : Int)).tdiv A = (((i % (A * B)) / A : Nat) : Int) := by
    rw [← Int.ofNat_tdiv]
  have hy : ((i % (A * B) : Nat) : Int) - (((i % (A * B)) / A : Nat) : Int) * A
      = (((i % (A * B)) % A : Nat) : Int) := by
    have := Nat.mod_add_div (i % (A * B)) A
    have h2 : (((i % (A * B)) % A + A * ((i % (A * B)) / A) : Nat) : Int)
        = ((i % (A * B) : Nat) : Int) := by rw [this]
    push_cast at h2 ⊢
    linarith
  refine ⟨(i % (A * B)) % A, (i % (A * B)) / A, i / (A * B), Nat.mod_lt _ hA, ?_, ?_, hz, ?_, ?_⟩
  · rw [Nat.div_lt_iff_lt_mul hA]
    calc i % (A * B) < A * B := Nat.mod_lt _ hAB
      _ = B * A := by ring
  · rw [Nat.div_lt_iff_lt_mul hAB]
    calc i < A * B * C := hi
      _ = C * (A * B) := by ring
  · rw [hz, hrem, hx]
  · rw [hz, hrem, hx, hy]

/-- The sample index drawn in random mode lies in the block. -/
theorem trunc_draw (r : ℚ) (N : Nat) (h0 : 0 ≤ r) (h1 : r < 1) (hN : 1 ≤ N) :
    ∃ a : Nat, truncToInt (r * (N : ℚ) ^ 3) = (a : Int) ∧ a < N * N * N := by
  have hN0 : (0 : ℚ) < (N : ℚ) ^ 3 := by positivity
  have hx0 : 0 ≤ r * (N : ℚ) ^ 3 := mul_nonneg h0 (le_of_lt hN0)
  have hx1 : r * (N : ℚ) ^ 3 < (((N * N * N : Nat) : Int) : ℚ) := by
    have : r * (N : ℚ) ^ 3 < 1 * (N : ℚ) ^ 3 := mul_lt_mul_of_pos_right h1 hN0
    push_cast
    nlinarith
  have e : truncToInt (r * (N : ℚ) ^ 3) = ⌊r * (N : ℚ) ^ 3⌋ := by
    unfold truncToInt
    rw [if_pos hx0]
  have f0 : 0 ≤ ⌊r * (N : ℚ) ^ 3⌋ := Int.floor_nonneg.mpr hx0
  have f1 : ⌊r * (N : ℚ) ^ 3⌋ < ((N * N * N : Nat) : Int) := Int.floor_lt.mpr hx1
  refine ⟨⌊r * (N : ℚ) ^ 3⌋.toNat, ?_, ?_⟩
  · rw [e]; omega
  · omega

theorem popcount_3_le (x : Nat) (hx : x < 2 ^ 64) : popcount_3 x ≤ 64 := by
  rw [popcount_3_bitCount x hx]
  exact bitCount_le 64 x

theorem popcount_3_xor_self (a : Nat) : popcount_3 (a ^^^ a) = 0 := by
  rw [Nat.xor_self]
  decide

theorem dataCost.costTable_flat (hw q m n : Nat) :
    ∃ tab, dataCost.labelTable hw (q : ℚ) m n = Except.ok tab ∧ IsCostTable hw q m n tab := by
  obtain ⟨tab, h, hx, hy, hz, hi, hc⟩ := dataCost.costTable_spec hw (q : ℚ) m n
  refine ⟨tab, h, hx, hy, hz, hi, ?_⟩
  intro l hl
  obtain ⟨hI, hJ, hK, hdec⟩ := label_decomp (hw * 2 + 1) l hl
  obtain ⟨a, b, c, d⟩ := hc _ _ _ hI hJ hK
  rw [← hdec] at a b c d
  refine ⟨?_, ?_, ?_, ?_⟩
  · rw [a]; unfold labelShift; push_cast; rfl
  · rw [b]; unfold labelShift; push_cast; rfl
  · rw [c]; unfold labelShift; push_cast; rfl
  · rw [d]
    have e : (((labelI (hw * 2 + 1) l : Int) - hw : Int) : ℚ) * (q : ℚ)
        + (((labelJ (hw * 2 + 1) l : Int) - hw : Int) : ℚ) * (q : ℚ) * m
        + (((labelK (hw * 2 + 1) l : Int) - hw : Int) : ℚ) * (q : ℚ) * m * n
        = ((labelShift hw q (labelI (hw * 2 + 1) l)
            + labelShift hw q (labelJ (hw * 2 + 1) l) * m
            + labelShift hw q (labelK (hw * 2 + 1) l) * m * n : Int) : ℚ) := by
      unfold labelShift; push_cast; ring
    rw [e, truncToInt_intCast]

theorem labelShift_bounds (hw q c : Nat) (hc : c < hw * 2 + 1) :
    -((hw : Int) * q) ≤ labelShift hw q c ∧ labelShift hw q c ≤ (hw : Int) * q := by
  unfold labelShift
  have h1 : (0 : Int) ≤ q := Int.natCast_nonneg q
  have h2 : -(hw : Int) ≤ (c : Int) - hw := by omega
  have h3 : (c : Int) - hw ≤ hw := by omega
  constructor
  · have := Int.mul_le_mul_of_nonneg_right h2 h1
    linarith
  · exact Int.mul_le_mul_of_nonneg_right h3 h1

theorem labelShift_centre (hw q : Nat) : labelShift hw q hw = 0 := by
  unfold labelShift; simp

/-- Components of the zero-displacement label `hw+hw*len+hw*len*len`. -/
theorem centre_label (hw : Nat) :
    hw + hw * (hw * 2 + 1) + hw * (hw * 2 + 1) * (hw * 2 + 1)
        < (hw * 2 + 1) * (hw * 2 + 1) * (hw * 2 + 1) ∧
    labelI (hw * 2 + 1) (hw + hw * (hw * 2 + 1) + hw * (hw * 2 + 1) * (hw * 2 + 1)) = hw ∧
    labelJ (hw * 2 + 1) (hw + hw * (hw * 2 + 1) + hw * (hw * 2 + 1) * (hw * 2 + 1)) = hw ∧
    labelK (hw * 2 + 1) (hw + hw * (hw * 2 + 1) + hw * (hw * 2 + 1) * (hw * 2 + 1)) = hw := by
  have h : hw < hw * 2 + 1 := by omega
  obtain ⟨a, b, c⟩ := label_of_index (hw * 2 + 1) hw hw hw h h
  exact ⟨cube_index_lt (hw * 2 + 1) hw hw hw h h h, a, b, c⟩

theorem dataCost.clamp_range (x : Int) (hi : Nat) (h : 1 ≤ hi) :
    ∃ a : Nat, dataCost.clamp x hi = (a : Int) ∧ a < hi := by
  refine ⟨(dataCost.clamp x hi).toNat, ?_, ?_⟩ <;> unfold dataCost.clamp <;> omega

theorem dataCost.clamp_inside (x : Int) (hi : Nat) (h0 : 0 ≤ x) (h1 : x < hi) :
    dataCost.clamp x hi = x := by
  unfold dataCost.clamp; omega

/-- The displaced voxel of every label lies inside the image, and the
zero-displacement label is displaced to the sample voxel itself. -/
theorem dataCost.displaced_ok (hw q m n o : Nat) (tab : CostTable)
    (htab : IsCostTable hw q m n tab) (b : Bool) (X Y Z : Nat) (hX : X < n) (hY : Y < m)
    (hZ : Z < o)
    (hb : b = true → hw * q ≤ X ∧ X + hw * q < n ∧ hw * q ≤ Y ∧ Y + hw * q < m ∧
      hw * q ≤ Z ∧ Z + hw * q < o)
    (l : Nat) (hl : l < (hw * 2 + 1) * (hw * 2 + 1) * (hw * 2 + 1)) :
    ∃ ind2 : Nat, dataCost.displaced tab m n o b (X : Int) (Y : Int) (Z : Int)
        ((Y + X * m + Z * m * n : Nat) : Int) l = Except.ok (ind2 : Int) ∧
      ind2 < m * n * o ∧
      (l = hw + hw * (hw * 2 + 1) + hw * (hw * 2 + 1) * (hw * 2 + 1) →
        ind2 = Y + X * m + Z * m * n) := by
  obtain ⟨sx, sy, sz, si, hcells⟩ := htab
  obtain ⟨cx, cy, cz, ci⟩ := hcells l hl
  obtain ⟨hI, hJ, hK, _⟩ := label_decomp (hw * 2 + 1) l hl
  have bx := labelShift_bounds hw q _ hJ
  have by' := labelShift_bounds hw q _ hI
  have bz := labelShift_bounds hw q _ hK
  have ex := Buf.get_nat tab.xs l _ (by omega) cx
  have ey := Buf.get_nat tab.ys l _ (by omega) cy
  have ez := Buf.get_nat tab.zs l _ (by omega) cz
  have ei := Buf.get_nat tab.inds l _ (by omega) ci
  cases b with
  | false =>
    obtain ⟨a, ha, hal⟩ := dataCost.clamp_range
      ((X : Int) + labelShift hw q (labelJ (hw * 2 + 1) l)) n (by omega)
    obtain ⟨b', hb', hbl⟩ := dataCost.clamp_range
      ((Y : Int) + labelShift hw q (labelI (hw * 2 + 1) l)) m (by omega)
    obtain ⟨c, hc, hcl⟩ := dataCost.clamp_range
      ((Z : Int) + labelShift hw q (labelK (hw * 2 + 1) l)) o (by omega)
    refine ⟨b' + a * m + c * m * n, ?_, box_index_lt m n o b' a c hbl hal hcl, ?_⟩
    · unfold dataCost.displaced
      simp only [Bool.not_false, if_true, ex, ey, ez, ok_bind, truncToInt_intCast, ha, hb', hc,
        pure_eq_ok, box_index_cast]
    · intro hl0
      obtain ⟨_, cI, cJ, cK⟩ := centre_label hw
      rw [hl0, cJ, labelShift_centre, add_zero, dataCost.clamp_inside _ _ (by omega) (by omega)]
        at ha
      rw [hl0, cI, labelShift_centre, add_zero, dataCost.clamp_inside _ _ (by omega) (by omega)]
        at hb'
      rw [hl0, cK, labelShift_centre, add_zero, dataCost.clamp_inside _ _ (by omega) (by omega)]
        at hc
      have e1 : a = X := by exact_mod_cast ha.symm
      have e2 : b' = Y := by exact_mod_cast hb'.symm
      have e3 : c = Z := by exact_mod_cast hc.symm
      rw [e1, e2, e3]
  | true =>
    obtain ⟨h1, h2, h3, h4, h5, h6⟩ := hb rfl
    have g1 : ((hw * q : Nat) : Int) = (hw : Int) * q := by push_cast; ring
    obtain ⟨a, ha⟩ : ∃ a : Nat, (X : Int) + labelShift hw q (labelJ (hw * 2 + 1) l) = (a : Int) :=
      ⟨((X : Int) + labelShift hw q (labelJ (hw * 2 + 1) l)).toNat, by omega⟩
    obtain ⟨b', hb'⟩ : ∃ a : Nat, (Y : Int) + labelShift hw q (labelI (hw * 2 + 1) l) = (a : Int) :=
      ⟨((Y : Int) + labelShift hw q (labelI (hw * 2 + 1) l)).toNat, by omega⟩
    obtain ⟨c, hc⟩ : ∃ a : Nat, (Z : Int) + labelShift hw q (labelK (hw * 2 + 1) l) = (a : Int) :=
      ⟨((Z : Int) + labelShift hw q (labelK (hw * 2 + 1) l)).toNat, by omega⟩
    have hal : a < n := by omega
    have hbl : b' < m := by omega
    have hcl : c < o := by omega
    refine ⟨b' + a * m + c * m * n, ?_, box_index_lt m n o b' a c hbl hal hcl, ?_⟩
    · unfold dataCost.displaced
      simp only [Bool.not_true, ei, ok_bind, pure_eq_ok]
      have : ((Y + X * m + Z * m * n : Nat) : Int)
          + (labelShift hw q (labelI (hw * 2 + 1) l)
            + labelShift hw q (labelJ (hw * 2 + 1) l) * m
            + labelShift hw q (labelK (hw * 2 + 1) l) * m * n)
          = ((b' + a * m + c * m * n : Nat) : Int) := by
        push_cast
        rw [← ha, ← hb', ← hc]
        ring
      rw [this]
      simp
    · intro hl0
      obtain ⟨_, cI, cJ, cK⟩ := centre_label hw
      rw [hl0, cJ, labelShift_centre, add_zero] at ha
      rw [hl0, cI, labelShift_centre, add_zero] at hb'
      rw [hl0, cK, labelShift_centre, add_zero] at hc
      have e1 : a = X := by exact_mod_cast ha.symm
      have e2 : b' = Y := by exact_mod_cast hb'.symm
      have e3 : c = Z := by exact_mod_cast hc.symm
      rw [e1, e2, e3]

/-- The loop over the labels for one sample voxel adds to every entry of
`cost1` a Hamming distance between 0 and 64, which is 0 at the
zero-displacement label when the two descriptor volumes are equal. -/
theorem dataCost.accumulate_loop (hw q m n o : Nat) (tab : CostTable)
    (htab : IsCostTable hw q m n tab) (fixed_mind moving_mind : Buf Nat) (F G : Nat → Nat)
    (hFs : m * n * o ≤ fixed_mind.size) (hGs : m * n * o ≤ moving_mind.size)
    (hF : ∀ i, i < m * n * o → fixed_mind.data i = some (F i) ∧ F i < 2 ^ 64)
    (hG : ∀ i, i < m * n * o → moving_mind.data i = some (G i) ∧ G i < 2 ^ 64)
    (b : Bool) (X Y Z : Nat) (hX : X < n) (hY : Y < m) (hZ : Z < o)
    (hb : b = true → hw * q ≤ X ∧ X + hw * q < n ∧ hw * q ≤ Y ∧ Y + hw * q < m ∧
      hw * q ≤ Z ∧ Z + hw * q < o)
    (cost1 : Buf ℚ) (c : Nat → ℚ)
    (hs : cost1.size = (hw * 2 + 1) * (hw * 2 + 1) * (hw * 2 + 1))
    (hc : ∀ l, l < (hw * 2 + 1) * (hw * 2 + 1) * (hw * 2 + 1) → cost1.data l = some (c l)) :
    ∃ (out : Buf ℚ) (p : Nat → ℚ),
      forLoop (dataCost.accumulate tab fixed_mind moving_mind m n o b (X : Int) (Y : Int)
        (Z : Int) ((Y + X * m + Z * m * n : Nat) : Int)) 0
        ((hw * 2 + 1) * (hw * 2 + 1) * (hw * 2 + 1)) cost1 = Except.ok out ∧
      out.size = (hw * 2 + 1) * (hw * 2 + 1) * (hw * 2 + 1) ∧
      (∀ l, l < (hw * 2 + 1) * (hw * 2 + 1) * (hw * 2 + 1) →
        out.data l = some (c l + p l) ∧ 0 ≤ p l ∧ p l ≤ 64) ∧
      ((∀ i, i < m * n * o → F i = G i) →
        p (hw + hw * (hw * 2 + 1) + hw * (hw * 2 + 1) * (hw * 2 + 1)) = 0) := by
  have hex : ∀ l, ∃ ind2 : Nat, l < (hw * 2 + 1) * (hw * 2 + 1) * (hw * 2 + 1) →
      dataCost.displaced tab m n o b (X : Int) (Y : Int) (Z : Int)
        ((Y + X * m + Z * m * n : Nat) : Int) l = Except.ok (ind2 : Int) ∧
      ind2 < m * n * o ∧
      (l = hw + hw * (hw * 2 + 1) + hw * (hw * 2 + 1) * (hw * 2 + 1) →
        ind2 = Y + X * m + Z * m * n) := by
    intro l
    by_cases hl : l < (hw * 2 + 1) * (hw * 2 + 1) * (hw * 2 + 1)
    · obtain ⟨i2, h⟩ := dataCost.displaced_ok hw q m n o tab htab b X Y Z hX hY hZ hb l hl
      exact ⟨i2, fun _ => h⟩
    · exact ⟨0, fun h => absurd h hl⟩
  choose ind2 hind2 using hex
  have h1lt : Y + X * m + Z * m * n < m * n * o := box_index_lt m n o Y X Z hY hX hZ
  have e1 := Buf.get_nat fixed_mind (Y + X * m + Z * m * n) _ (by omega) (hF _ h1lt).1
  have hp : ∀ l, l < (hw * 2 + 1) * (hw * 2 + 1) * (hw * 2 + 1) →
      popcount_3 (F (Y + X * m + Z * m * n) ^^^ G (ind2 l)) ≤ 64 := fun l hl =>
    popcount_3_le _ (Nat.xor_lt_two_pow (hF _ h1lt).2 (hG _ (hind2 l hl).2.1).2)
  obtain ⟨out, hout, hos, hdone, _⟩ := forLoop_inv
    (fun l (t : Buf ℚ) => t.size = (hw * 2 + 1) * (hw * 2 + 1) * (hw * 2 + 1) ∧
      (∀ l', l' < l → t.data l'
        = some (c l' + (popcount_3 (F (Y + X * m + Z * m * n) ^^^ G (ind2 l')) : ℚ))) ∧
      ∀ l', l ≤ l' → l' < (hw * 2 + 1) * (hw * 2 + 1) * (hw * 2 + 1) → t.data l' = some (c l'))
    (dataCost.accumulate tab fixed_mind moving_mind m n o b (X : Int) (Y : Int)
      (Z : Int) ((Y + X * m + Z * m * n : Nat) : Int))
    ((hw * 2 + 1) * (hw * 2 + 1) * (hw * 2 + 1)) 0 cost1
    ⟨hs, fun l' h => by omega, fun l' _ h => hc l' h⟩
    (by
      rintro l t _ hl ⟨hts, hd, hr⟩
      have hl' : l < (hw * 2 + 1) * (hw * 2 + 1) * (hw * 2 + 1) := by omega
      obtain ⟨d1, d2, _⟩ := hind2 l hl'
      have e2 := Buf.get_nat moving_mind (ind2 l) _ (by omega) (hG _ d2).1
      have e3 := Buf.get_nat t l _ (by omega) (hr l (le_refl _) hl')
      refine ⟨⟨t.size, Function.update t.data l
        (some (c l + (popcount_3 (F (Y + X * m + Z * m * n) ^^^ G (ind2 l)) : ℚ)))⟩, ?_, hts,
        ?_, ?_⟩
      · unfold dataCost.accumulate
        simp only [d1, e1, e2, e3, ok_bind]
        exact Buf.set_nat t l _ (by omega)
      · intro l' hl2
        by_cases h : l' = l
        · subst h; simp
        · simp only [Function.update_noteq h]
          exact hd l' (by omega)
      · intro l' h1 h2
        have h : l' ≠ l := by omega
        simp only [Function.update_noteq h]
        exact hr l' (by omega) h2)
  refine ⟨out, fun l => (popcount_3 (F (Y + X * m + Z * m * n) ^^^ G (ind2 l)) : ℚ), hout, hos,
    ?_, ?_⟩
  · intro l hl
    refine ⟨hdone l (by omega), Nat.cast_nonneg _, ?_⟩
    have h64 := hp l hl
    show ((popcount_3 (F (Y + X * m + Z * m * n) ^^^ G (ind2 l)) : Nat) : ℚ) ≤ 64
    exact_mod_cast h64
  · intro hsame
    obtain ⟨hl0, _⟩ := centre_label hw
    have := (hind2 _ hl0).2.2 rfl
    simp only [this, ← hsame _ h1lt, popcount_3_xor_self, Nat.cast_zero]

theorem dataCost.boundaries_true (m n o step1 : Nat) (hw2 x1 y1 z1 : Int)
    (h : dataCost.boundaries m n o step1 hw2 x1 y1 z1 = true) :
    x1 + ((step1 : Int) - 1) + hw2 < n ∧ y1 + ((step1 : Int) - 1) + hw2 < m ∧
    z1 + ((step1 : Int) - 1) + hw2 < o ∧ 0 ≤ x1 - hw2 ∧ 0 ≤ y1 - hw2 ∧ 0 ≤ z1 - hw2 := by
  unfold dataCost.boundaries at h
  simp at h
  omega

theorem block_coord (step1 dim g s : Nat) (hg : g < dim / step1) (hs : s < step1) :
    s + g * step1 < dim := by
  have h1 : (g + 1) * step1 ≤ dim / step1 * step1 := Nat.mul_le_mul_right _ hg
  have h2 : dim / step1 * step1 ≤ dim := Nat.div_mul_le_self dim step1
  have h3 : (g + 1) * step1 = g * step1 + step1 := by ring
  omega

/-- One sample of a control point inside the lattice: the run succeeds and
adds to every entry of `cost1` a value between 0 and 64. -/
theorem dataCost.sample_ok (hw q m n o step1 : Nat) (tab : CostTable)
    (htab : IsCostTable hw q m n tab) (fixed_mind moving_mind : Buf Nat) (F G : Nat → Nat)
    (hFs : m * n * o ≤ fixed_mind.size) (hGs : m * n * o ≤ moving_mind.size)
    (hF : ∀ i, i < m * n * o → fixed_mind.data i = some (F i) ∧ F i < 2 ^ 64)
    (hG : ∀ i, i < m * n * o → moving_mind.data i = some (G i) ∧ G i < 2 ^ 64)
    (hstep : 1 ≤ step1) (randommode : Bool) (rnd : Nat → ℚ)
    (hrnd : ∀ k, 0 ≤ rnd k ∧ rnd k < 1) (gx gy gz : Nat) (hgx : gx < n / step1)
    (hgy : gy < m / step1) (hgz : gz < o / step1) (j1 : Nat)
    (hj : randommode = false → j1 < step1 * step1 * step1) (s : CostState) (c : Nat → ℚ)
    (hs : s.cost1.size = (hw * 2 + 1) * (hw * 2 + 1) * (hw * 2 + 1))
    (hc : ∀ l, l < (hw * 2 + 1) * (hw * 2 + 1) * (hw * 2 + 1) → s.cost1.data l = some (c l)) :
    ∃ (s1 : CostState) (p : Nat → ℚ),
      dataCost.sample tab fixed_mind moving_mind m n o step1 randommode rnd
        ((gx : Int) * step1) ((gy : Int) * step1) ((gz : Int) * step1)
        (dataCost.boundaries m n o step1 ((hw : Int) * q) ((gx : Int) * step1)
          ((gy : Int) * step1) ((gz : Int) * step1))
        ((hw * 2 + 1) * (hw * 2 + 1) * (hw * 2 + 1)) j1 s = Except.ok s1 ∧
      s1.costall = s.costall ∧
      s1.cost1.size = (hw * 2 + 1) * (hw * 2 + 1) * (hw * 2 + 1) ∧
      (∀ l, l < (hw * 2 + 1) * (hw * 2 + 1) * (hw * 2 + 1) →
        s1.cost1.data l = some (c l + p l) ∧ 0 ≤ p l ∧ p l ≤ 64) ∧
      ((∀ i, i < m * n * o → F i = G i) →
        p (hw + hw * (hw * 2 + 1) + hw * (hw * 2 + 1) * (hw * 2 + 1)) = 0) := by
  obtain ⟨a, ha, hal⟩ : ∃ a : Nat,
      (if randommode then truncToInt (rnd s.draws * (step1 : ℚ) ^ 3) else (j1 : Int)) = (a : Int)
        ∧ a < step1 * step1 * step1 := by
    cases randommode with
    | true =>
      obtain ⟨a, h1, h2⟩ := trunc_draw (rnd s.draws) step1 (hrnd _).1 (hrnd _).2 hstep
      exact ⟨a, by simpa using h1, h2⟩
    | false => exact ⟨j1, by simp, hj rfl⟩
  obtain ⟨sy, sx, sz, hsy, hsx, hsz, dz, dx, dy⟩ := grid_decomp step1 step1 step1 a hal
    (by omega) (by omega)
  rw [dz] at dx dy
  rw [dx] at dy
  have hX := block_coord step1 n gx sx hgx hsx
  have hY := block_coord step1 m gy sy hgy hsy
  have hZ := block_coord step1 o gz sz hgz hsz
  have hb : dataCost.boundaries m n o step1 ((hw : Int) * q) ((gx : Int) * step1)
      ((gy : Int) * step1) ((gz : Int) * step1) = true →
      hw * q ≤ sx + gx * step1 ∧ sx + gx * step1 + hw * q < n ∧
      hw * q ≤ sy + gy * step1 ∧ sy + gy * step1 + hw * q < m ∧
      hw * q ≤ sz + gz * step1 ∧ sz + gz * step1 + hw * q < o := by
    intro h
    obtain ⟨b1, b2, b3, b4, b5, b6⟩ := dataCost.boundaries_true _ _ _ _ _ _ _ _ h
    have g1 : ((hw * q : Nat) : Int) = (hw : Int) * q := by push_cast; ring
    have g2 : ((gx * step1 : Nat) : Int) = (gx : Int) * step1 := by push_cast; ring
    have g3 : ((gy * step1 : Nat) : Int) = (gy : Int) * step1 := by push_cast; ring
    have g4 : ((gz * step1 : Nat) : Int) = (gz : Int) * step1 := by push_cast; ring
    omega
  obtain ⟨out, p, hrun, hos, hcells, hsame⟩ := dataCost.accumulate_loop hw q m n o tab htab
    fixed_mind moving_mind F G hFs hGs hF hG _ (sx + gx * step1) (sy + gy * step1)
    (sz + gz * step1) hX hY hZ hb s.cost1 c hs hc
  have hne : ¬ ((step1 : Int) * step1 = 0) := by
    have : (0 : Int) < step1 := by omega
    have := mul_pos this this
    omega
  have eX : (sx : Int) + (gx : Int) * step1 = ((sx + gx * step1 : Nat) : Int) := by
    push_cast; ring
  have eY : (sy : Int) + (gy : Int) * step1 = ((sy + gy * step1 : Nat) : Int) := by
    push_cast; ring
  have eZ : (sz : Int) + (gz : Int) * step1 = ((sz + gz * step1 : Nat) : Int) := by
    push_cast; ring
  refine ⟨{ s with cost1 := out, draws := if randommode then s.draws + 1 else s.draws }, p, ?_,
    rfl, hos, hcells, hsame⟩
  unfold dataCost.sample
  simp only [ha, if_neg hne, dz, dx, dy, eX, eY, eZ, box_index_cast, hrun, ok_bind, pure_eq_ok]

theorem fill_zero (t : Buf ℚ) (L : Nat) (hs : t.size = L) :
    ∃ out, forLoop (fun l (t : Buf ℚ) => t.set l 0) 0 L t = Except.ok out ∧ out.size = L ∧
      ∀ l, l < L → out.data l = some 0 := by
  obtain ⟨out, hout, hos, hc⟩ := forLoop_inv
    (fun l (t : Buf ℚ) => t.size = L ∧ ∀ l', l' < l → t.data l' = some 0)
    (fun l (t : Buf ℚ) => t.set l 0) L 0 t ⟨hs, fun l' h => by omega⟩
    (by
      rintro l t _ hl ⟨hts, hd⟩
      refine ⟨_, Buf.set_nat t l 0 (by omega), hts, ?_⟩
      intro l' hl2
      by_cases h : l' = l
      · subst h; simp
      · simp only [Function.update_noteq h]
        exact hd l' (by omega))
  exact ⟨out, hout, hos, fun l hl => hc l (by omega)⟩

/-- The loop that stores the costs of control point `i` writes the row of
`i` in `costall` and nothing else. -/
theorem dataCost.writeRow_spec (cost1 costall : Buf ℚ) (i sz1 L : Nat) (alpha2 : ℚ)
    (c : Nat → ℚ) (hi : i < sz1) (h1s : cost1.size = L) (hcs : sz1 * L ≤ costall.size)
    (hc : ∀ l, l < L → cost1.data l = some (c l)) :
    ∃ out, forLoop (fun l (t : Buf ℚ) => do
        let x ← cost1.get l
        t.set ((i : Int) + (l : Int) * sz1) (1 / 2 * alpha2 * x)) 0 L costall = Except.ok out ∧
      out.size = costall.size ∧
      (∀ l, l < L → out.data (i + l * sz1) = some (1 / 2 * alpha2 * c l)) ∧
      ∀ cell, (∀ l, l < L → cell ≠ i + l * sz1) → out.data cell = costall.data cell := by
  obtain ⟨out, hout, hos, hd, hfr⟩ := forLoop_inv
    (fun l (t : Buf ℚ) => t.size = costall.size ∧
      (∀ l', l' < l → t.data (i + l' * sz1) = some (1 / 2 * alpha2 * c l')) ∧
      ∀ cell, (∀ l', l' < L → cell ≠ i + l' * sz1) → t.data cell = costall.data cell)
    (fun l (t : Buf ℚ) => do
        let x ← cost1.get l
        t.set ((i : Int) + (l : Int) * sz1) (1 / 2 * alpha2 * x)) L 0 costall
    ⟨rfl, fun l' h => by omega, fun _ _ => rfl⟩
    (by
      rintro l t _ hl ⟨hts, hd, hfr⟩
      have hl' : l < L := by omega
      have e1 := Buf.get_nat cost1 l _ (by omega) (hc l hl')
      have hlt := row_index_lt sz1 L i l hi hl'
      refine ⟨⟨t.size, Function.update t.data (i + l * sz1) (some (1 / 2 * alpha2 * c l))⟩,
        ?_, hts, ?_, ?_⟩
      · simp only [e1, ok_bind, row_index_cast]
        exact Buf.set_nat t (i + l * sz1) _ (by omega)
      · intro l' hl2
        by_cases h : l' = l
        · subst h; simp
        · have hne : i + l' * sz1 ≠ i + l * sz1 := by
            intro he
            exact h (row_index_inj sz1 i l' i l hi hi he).2
          simp only [Function.update_noteq hne]
          exact hd l' (by omega)
      · intro cell hcell
        simp only [Function.update_noteq (hcell l hl')]
        exact hfr cell hcell)
  exact ⟨out, hout, hos, fun l hl => hd l (by omega), hfr⟩

/-- One control point of `dataCost`: the run succeeds, writes the row of the
control point and nothing else; every cost is `1/2*alpha2*c` with `c` the sum
of `maxsamp` Hamming distances, which is 0 at the zero-displacement label
when the two descriptor volumes are equal. -/
theorem dataCost.point_ok (hw q m n o step1 : Nat) (tab : CostTable)
    (htab : IsCostTable hw q m n tab) (fixed_mind moving_mind : Buf Nat) (F G : Nat → Nat)
    (hFs : m * n * o ≤ fixed_mind.size) (hGs : m * n * o ≤ moving_mind.size)
    (hF : ∀ i, i < m * n * o → fixed_mind.data i = some (F i) ∧ F i < 2 ^ 64)
    (hG : ∀ i, i < m * n * o → moving_mind.data i = some (G i) ∧ G i < 2 ^ 64)
    (hstep : 1 ≤ step1) (randommode : Bool) (maxsamp : Nat)
    (hmax : randommode = false → maxsamp ≤ step1 * step1 * step1) (alpha2 : ℚ)
    (rnd : Nat → ℚ) (hrnd : ∀ k, 0 ≤ rnd k ∧ rnd k < 1) (i : Nat)
    (hi : i < m / step1 * (n / step1) * (o / step1)) (s : CostState)
    (hs : s.cost1.size = (hw * 2 + 1) * (hw * 2 + 1) * (hw * 2 + 1))
    (hcs : m / step1 * (n / step1) * (o / step1)
      * ((hw * 2 + 1) * (hw * 2 + 1) * (hw * 2 + 1)) ≤ s.costall.size) :
    ∃ (s1 : CostState) (c : Nat → ℚ),
      dataCost.point tab fixed_mind moving_mind m n o step1 ((hw : Int) * q) randommode maxsamp
        alpha2 rnd ((hw * 2 + 1) * (hw * 2 + 1) * (hw * 2 + 1)) i s = Except.ok s1 ∧
      s1.cost1.size = (hw * 2 + 1) * (hw * 2 + 1) * (hw * 2 + 1) ∧
      s1.costall.size = s.costall.size ∧
      (∀ l, l < (hw * 2 + 1) * (hw * 2 + 1) * (hw * 2 + 1) →
        s1.costall.data (i + l * (m / step1 * (n / step1) * (o / step1)))
          = some (1 / 2 * alpha2 * c l) ∧ 0 ≤ c l ∧ c l ≤ 64 * maxsamp) ∧
      ((∀ i, i < m * n * o → F i = G i) →
        c (hw + hw * (hw * 2 + 1) + hw * (hw * 2 + 1) * (hw * 2 + 1)) = 0) ∧
      ∀ cell, (∀ l, l < (hw * 2 + 1) * (hw * 2 + 1) * (hw * 2 + 1) →
          cell ≠ i + l * (m / step1 * (n / step1) * (o / step1))) →
        s1.costall.data cell = s.costall.data cell := by
  have hm1 : 0 < m / step1 := by
    rcases Nat.eq_zero_or_pos (m / step1) with h | h
    · rw [h] at hi; simp at hi
    · exact h
  have hn1 : 0 < n / step1 := by
    rcases Nat.eq_zero_or_pos (n / step1) with h | h
    · rw [h] at hi; simp at hi
    · exact h
  obtain ⟨gy, gx, gz, hgy, hgx, hgz, dz, dx, dy⟩ :=
    grid_decomp (m / step1) (n / step1) (o / step1) i hi hm1 hn1
  rw [dz] at dx dy
  rw [dx] at dy
  have c1 : ¬ (((m / step1 : Nat) : Int) * ((n / step1 : Nat) : Int) = 0) := by
    have h1 : (0 : Int) < ((m / step1 : Nat) : Int) := by omega
    have h2 : (0 : Int) < ((n / step1 : Nat) : Int) := by omega
    have := mul_pos h1 h2
    omega
  have c2 : ¬ (((m / step1 : Nat) : Int) = 0) := by omega
  obtain ⟨z0, ez, hz0s, hz0⟩ := fill_zero s.cost1 _ hs
  obtain ⟨sS, hS, hSc, hS1, cS, hScells, hSsame⟩ := forLoop_inv
    (fun j (st : CostState) => st.costall = s.costall ∧
      st.cost1.size = (hw * 2 + 1) * (hw * 2 + 1) * (hw * 2 + 1) ∧
      ∃ c : Nat → ℚ, (∀ l, l < (hw * 2 + 1) * (hw * 2 + 1) * (hw * 2 + 1) →
        st.cost1.data l = some (c l) ∧ 0 ≤ c l ∧ c l ≤ 64 * j) ∧
        ((∀ i, i < m * n * o → F i = G i) →
          c (hw + hw * (hw * 2 + 1) + hw * (hw * 2 + 1) * (hw * 2 + 1)) = 0))
    (dataCost.sample tab fixed_mind moving_mind m n o step1 randommode rnd
      ((gx : Int) * step1) ((gy : Int) * step1) ((gz : Int) * step1)
      (dataCost.boundaries m n o step1 ((hw : Int) * q) ((gx : Int) * step1)
        ((gy : Int) * step1) ((gz : Int) * step1))
      ((hw * 2 + 1) * (hw * 2 + 1) * (hw * 2 + 1))) maxsamp 0 { s with cost1 := z0 }
    ⟨rfl, hz0s, fun _ => 0, fun l hl => ⟨hz0 l hl, le_refl _, by simp⟩, fun _ => rfl⟩
    (by
      rintro j st _ hj ⟨hca, h1, c, hcells, hsame⟩
      obtain ⟨s1, p, hrun, g1, g2, g3, g4⟩ := dataCost.sample_ok hw q m n o step1 tab htab
        fixed_mind moving_mind F G hFs hGs hF hG hstep randommode rnd hrnd gx gy gz hgx hgy hgz j
        (fun h => by have := hmax h; omega) st c h1 (fun l hl => (hcells l hl).1)
      refine ⟨s1, hrun, g1.trans hca, g2, fun l => c l + p l, ?_, ?_⟩
      · intro l hl
        obtain ⟨a1, a2, a3⟩ := g3 l hl
        obtain ⟨b1, b2, b3⟩ := hcells l hl
        refine ⟨a1, ?_, ?_⟩
        · show 0 ≤ c l + p l
          linarith
        · show c l + p l ≤ 64 * ((j + 1 : Nat) : ℚ)
          push_cast
          linarith
      · intro h
        show c _ + p _ = 0
        rw [hsame h, g4 h, add_zero])
  simp only [Nat.zero_add] at hScells
  obtain ⟨out, hW, hWs, hWrow, hWfr⟩ := dataCost.writeRow_spec sS.cost1 sS.costall i
    (m / step1 * (n / step1) * (o / step1)) ((hw * 2 + 1) * (hw * 2 + 1) * (hw * 2 + 1)) alpha2 cS
    hi hS1 (by rw [hSc]; exact hcs) (fun l hl => (hScells l hl).1)
  refine ⟨{ sS with costall := out }, cS, ?_, hS1, by rw [hWs, hSc], ?_, hSsame, ?_⟩
  · unfold dataCost.point
    simp only [if_neg c1, if_neg c2, dz, dx, dy, ez, hS, hW, ok_bind, pure_eq_ok]
  · intro l hl
    exact ⟨hWrow l hl, (hScells l hl).2.1, (hScells l hl).2.2⟩
  · intro cell hcell
    show out.data cell = s.costall.data cell
    rw [hWfr cell hcell, hSc]

theorem dataCost.copy_ok (moving : Buf ℚ) (sz : Nat) (hs : sz ≤ moving.size)
    (hm : ∀ i, i < sz → ∃ v, moving.data i = some v) :
    ∃ out, forLoop (fun i (t : Buf ℚ) => do
      let x ← moving.get i
      t.set i x) 0 sz (Buf.new sz) = Except.ok out := by
  obtain ⟨out, hout, _⟩ := forLoop_inv (fun _ (t : Buf ℚ) => t.size = sz)
    (fun i (t : Buf ℚ) => do
      let x ← moving.get i
      t.set i x) sz 0 (Buf.new sz) rfl
    (by
      intro i t _ hi hts
      obtain ⟨v, hv⟩ := hm i (by omega)
      have e1 := Buf.get_nat moving i v (by omega) hv
      refine ⟨⟨t.size, Function.update t.data i (some v)⟩, ?_, hts⟩
      simp only [e1, ok_bind]
      exact Buf.set_nat t i v (by omega))
  exact ⟨out, hout⟩

theorem dataCost.maxsamp_eq (samples step1 : Nat) :
    (if decide ((samples : ℚ) < (step1 : ℚ) ^ 3) = true then samples
      else (truncToInt ((step1 : ℚ) ^ 3)).toNat) = min samples (step1 * step1 * step1) := by
  have h : ((step1 : ℚ) ^ 3) = ((step1 * step1 * step1 : Nat) : ℚ) := by
    push_cast; ring
  rw [h, truncToInt_natCast, Int.toNat_natCast]
  by_cases c : (samples : ℚ) < ((step1 * step1 * step1 : Nat) : ℚ)
  · have c' : samples < step1 * step1 * step1 := by exact_mod_cast c
    simp only [c, decide_True, if_true]
    omega
  · have c' : ¬ samples < step1 * step1 * step1 := by
      intro h'; exact c (by exact_mod_cast h')
    simp only [c, decide_False]
    simp
    omega

/-- Specification of `dataCost` for an integer quantisation `q >= 1`: the
run succeeds; the rows of the control points `[istart,iend)` hold
`1/2*alpha2*c` with `c` a sum of `maxsamp` Hamming distances, 0 at the
zero-displacement label when the descriptor volumes are equal; every other
entry of `costall` is unchanged. -/
theorem dataCost_spec (moving costall : Buf ℚ) (alpha : ℚ) (hw step1 q : Nat)
    (fixed_mind moving_mind : Buf Nat) (F G : Nat → Nat) (istart iend m n o samples : Nat)
    (rnd : Nat → ℚ) (halpha : alpha ≠ 0) (hq : 1 ≤ q) (hstep : 1 ≤ step1)
    (hsamp : 1 ≤ samples) (hms : m * n * o ≤ moving.size)
    (hmov : ∀ i, i < m * n * o → ∃ v, moving.data i = some v)
    (hFs : m * n * o ≤ fixed_mind.size) (hGs : m * n * o ≤ moving_mind.size)
    (hF : ∀ i, i < m * n * o → fixed_mind.data i = some (F i) ∧ F i < 2 ^ 64)
    (hG : ∀ i, i < m * n * o → moving_mind.data i = some (G i) ∧ G i < 2 ^ 64)
    (hrnd : ∀ k, 0 ≤ rnd k ∧ rnd k < 1) (hie : istart ≤ iend)
    (hend : iend ≤ m / step1 * (n / step1) * (o / step1))
    (hcs : m / step1 * (n / step1) * (o / step1)
      * ((hw * 2 + 1) * (hw * 2 + 1) * (hw * 2 + 1)) ≤ costall.size) :
    ∃ out, dataCost moving costall alpha hw step1 (q : ℚ) fixed_mind moving_mind istart iend
        m n o samples rnd = Except.ok out ∧
      out.size = costall.size ∧
      (∀ i l, istart ≤ i → i < iend → l < (hw * 2 + 1) * (hw * 2 + 1) * (hw * 2 + 1) →
        ∃ c : ℚ, out.data (i + l * (m / step1 * (n / step1) * (o / step1)))
            = some (1 / 2 * ((step1 : ℚ) / (alpha * q)
                / ((min samples (step1 * step1 * step1) : Nat) : ℚ)) * c) ∧
          0 ≤ c ∧ c ≤ 64 * ((min samples (step1 * step1 * step1) : Nat) : ℚ) ∧
          ((∀ i, i < m * n * o → F i = G i) →
            l = hw + hw * (hw * 2 + 1) + hw * (hw * 2 + 1) * (hw * 2 + 1) → c = 0)) ∧
      ∀ cell, (∀ i l, istart ≤ i → i < iend →
          l < (hw * 2 + 1) * (hw * 2 + 1) * (hw * 2 + 1) →
          cell ≠ i + l * (m / step1 * (n / step1) * (o / step1))) →
        out.data cell = costall.data cell := by
  obtain ⟨tab, etab, htab⟩ := dataCost.costTable_flat hw q m n
  obtain ⟨mv, emv⟩ := dataCost.copy_ok moving (m * n * o) hms hmov
  have hq0 : (q : ℚ) ≠ 0 := by
    have : (0 : ℚ) < q := by exact_mod_cast hq
    exact ne_of_gt this
  have c1 : ¬ (alpha * (q : ℚ) = 0) := mul_ne_zero halpha hq0
  have c2 : ¬ (step1 = 0) := by omega
  have hcube : 1 ≤ step1 * step1 * step1 := Nat.mul_pos (Nat.mul_pos hstep hstep) hstep
  have c3 : ¬ (min samples (step1 * step1 * step1) = 0) := by omega
  obtain ⟨sF, hrun, h1s, hFsz, hrows, hframe⟩ := forLoop_inv
    (fun i (st : CostState) =>
      st.cost1.size = (hw * 2 + 1) * (hw * 2 + 1) * (hw * 2 + 1) ∧
      st.costall.size = costall.size ∧
      (∀ i' l, istart ≤ i' → i' < i → l < (hw * 2 + 1) * (hw * 2 + 1) * (hw * 2 + 1) →
        ∃ c : ℚ, st.costall.data (i' + l * (m / step1 * (n / step1) * (o / step1)))
            = some (1 / 2 * ((step1 : ℚ) / (alpha * q)
                / ((min samples (step1 * step1 * step1) : Nat) : ℚ)) * c) ∧
          0 ≤ c ∧ c ≤ 64 * ((min samples (step1 * step1 * step1) : Nat) : ℚ) ∧
          ((∀ i, i < m * n * o → F i = G i) →
            l = hw + hw * (hw * 2 + 1) + hw * (hw * 2 + 1) * (hw * 2 + 1) → c = 0)) ∧
      ∀ cell, (∀ i' l, istart ≤ i' → i' < i →
          l < (hw * 2 + 1) * (hw * 2 + 1) * (hw * 2 + 1) →
          cell ≠ i' + l * (m / step1 * (n / step1) * (o / step1))) →
        st.costall.data cell = costall.data cell)
    (dataCost.point tab fixed_mind moving_mind m n o step1 ((hw : Int) * q)
      (decide ((samples : ℚ) < (step1 : ℚ) ^ 3)) (min samples (step1 * step1 * step1))
      ((step1 : ℚ) / (alpha * q) / ((min samples (step1 * step1 * step1) : Nat) : ℚ)) rnd
      ((hw * 2 + 1) * (hw * 2 + 1) * (hw * 2 + 1)))
    (iend - istart) istart ⟨costall, Buf.new ((hw * 2 + 1) * (hw * 2 + 1) * (hw * 2 + 1)), 0⟩
    ⟨rfl, rfl, fun i' l h1 h2 _ => by omega, fun _ _ => rfl⟩
    (by
      rintro i st hi1 hi2 ⟨g1, g2, grows, gframe⟩
      have hi : i < m / step1 * (n / step1) * (o / step1) := by omega
      obtain ⟨s1, c, hp, p1, p2, prow, psame, pframe⟩ := dataCost.point_ok hw q m n o step1 tab
        htab fixed_mind moving_mind F G hFs hGs hF hG hstep
        (decide ((samples : ℚ) < (step1 : ℚ) ^ 3)) (min samples (step1 * step1 * step1))
        (fun _ => Nat.min_le_right _ _)
        ((step1 : ℚ) / (alpha * q) / ((min samples (step1 * step1 * step1) : Nat) : ℚ)) rnd hrnd
        i hi st g1 (by rw [g2]; exact hcs)
      refine ⟨s1, hp, p1, p2.trans g2, ?_, ?_⟩
      · intro i' l h1 h2 hl
        by_cases h : i' = i
        · subst h
          exact ⟨c l, (prow l hl).1, (prow l hl).2.1, (prow l hl).2.2, fun hs hl0 => by
            rw [hl0]; exact psame hs⟩
        · have hi' : i' < m / step1 * (n / step1) * (o / step1) := by omega
          rw [pframe _ (fun l2 hl2 he => h (row_index_inj _ i' l i l2 hi' hi he).1)]
          exact grows i' l h1 (by omega) hl
      · intro cell hcell
        rw [pframe cell (fun l hl => hcell i l hi1 (by omega) hl)]
        exact gframe cell (fun i' l h1 h2 hl => hcell i' l h1 (by omega) hl))
  have e1 : istart + (iend - istart) = iend := by omega
  rw [e1] at hrows hframe
  refine ⟨sF.costall, ?_, hFsz, hrows, hframe⟩
  unfold dataCost
  simp only [if_neg c1, if_neg c2, etab, ok_bind, emv, dataCost.maxsamp_eq, if_neg c3, cube_len4,
    truncToInt_natCast, hrun, pure_eq_ok]

/-- The body of the sample loop of `dataCost` in exhaustive mode, written
with `dataCost.sampleVoxel` and `dataCost.flatIndex`. -/
theorem dataCost.sample_exhaustive (tab : CostTable) (fixed_mind moving_mind : Buf Nat)
    (m n o step1 : Nat) (rnd : Nat → ℚ) (x1 y1 z1 : Int) (boundaries : Bool) (len4 j1 : Nat)
    (s : CostState) (hstep : 1 ≤ step1) :
    dataCost.sample tab fixed_mind moving_mind m n o step1 false rnd x1 y1 z1 boundaries len4
        j1 s
      = (forLoop (dataCost.accumulate tab fixed_mind moving_mind m n o boundaries
            (dataCost.sampleVoxel step1 x1 y1 z1 j1).x (dataCost.sampleVoxel step1 x1 y1 z1 j1).y
            (dataCost.sampleVoxel step1 x1 y1 z1 j1).z
            (dataCost.flatIndex m n (dataCost.sampleVoxel step1 x1 y1 z1 j1))) 0 len4 s.cost1
          >>= fun cost1 => Except.ok { s with cost1 := cost1 }) := by
  have h : ¬ ((step1 : Int) * step1 = 0) := by
    have : (0 : Int) < (step1 : Int) := by omega
    have := mul_pos this this
    omega
  unfold dataCost.sample
  simp only [if_neg h]
  rfl

/-- The body of the loop of `dataCost` over the control points takes the
first voxel of the cell from `dataCost.blockOrigin`. -/
theorem dataCost.point_origin (tab : CostTable) (fixed_mind moving_mind : Buf Nat)
    (m n o step1 : Nat) (hw2 : Int) (randommode : Bool) (maxsamp : Nat) (alpha2 : ℚ)
    (rnd : Nat → ℚ) (len4 i : Nat) (s : CostState) (hm : m / step1 ≠ 0) (hn : n / step1 ≠ 0) :
    dataCost.point tab fixed_mind moving_mind m n o step1 hw2 randommode maxsamp alpha2 rnd len4
        i s
      = (forLoop (fun l (t : Buf ℚ) => t.set l 0) 0 len4 s.cost1 >>= fun cost1 =>
          forLoop (dataCost.sample tab fixed_mind moving_mind m n o step1 randommode rnd
            (dataCost.blockOrigin m n step1 i).x (dataCost.blockOrigin m n step1 i).y
            (dataCost.blockOrigin m n step1 i).z
            (dataCost.boundaries m n o step1 hw2 (dataCost.blockOrigin m n step1 i).x
              (dataCost.blockOrigin m n step1 i).y (dataCost.blockOrigin m n step1 i).z) len4)
            0 maxsamp { s with cost1 := cost1 } >>= fun s1 =>
          forLoop (fun l (t : Buf ℚ) => do
            let c ← s1.cost1.get l
            t.set ((i : Int) + (l : Int) * (m / step1 * (n / step1) * (o / step1) : Nat))
              (1 / 2 * alpha2 * c)) 0 len4 s1.costall >>= fun costall =>
          Except.ok { s1 with costall := costall }) := by
  have h1 : ¬ (((m / step1 : Nat) : Int) * ((n / step1 : Nat) : Int) = 0) := by
    have a : (0 : Int) < ((m / step1 : Nat) : Int) := by
      exact_mod_cast Nat.pos_of_ne_zero hm
    have b : (0 : Int) < ((n / step1 : Nat) : Int) := by
      exact_mod_cast Nat.pos_of_ne_zero hn
    exact ne_of_gt (mul_pos a b)
  have h2 : ¬ (((m / step1 : Nat) : Int) = 0) := by
    exact_mod_cast hm
  unfold dataCost.point
  simp only [if_neg h1, if_neg h2]
  rfl

/-- Position of a control point and of a sample in its cell: the first voxel
of the cell of control point `i` is `step1` times a lattice position, and the
sample `i1 < step1^3` lies at an offset `(sx,sy,sz)` below `step1` from it,
with `i1 = sy + sx*step1 + sz*step1*step1`. -/
theorem dataCost.sampleVoxel_decomp (m n o step1 i i1 : Nat) (hstep : 1 ≤ step1)
    (hi : i < m / step1 * (n / step1) * (o / step1)) (hi1 : i1 < step1 * step1 * step1) :
    ∃ gx gy gz sx sy sz : Nat, gx < n / step1 ∧ gy < m / step1 ∧ gz < o / step1 ∧
      sx < step1 ∧ sy < step1 ∧ sz < step1 ∧
      dataCost.blockOrigin m n step1 i
        = ⟨(gx : Int) * step1, (gy : Int) * step1, (gz : Int) * step1⟩ ∧
      dataCost.sampleVoxel step1 ((gx : Int) * step1) ((gy : Int) * step1) ((gz : Int) * step1) i1
        = ⟨((sx + gx * step1 : Nat) : Int), ((sy + gy * step1 : Nat) : Int),
            ((sz + gz * step1 : Nat) : Int)⟩ ∧
      i1 = sy + sx * step1 + sz * step1 * step1 := by
  have hm : 0 < m / step1 := by
    rcases Nat.eq_zero_or_pos (m / step1) with h | h
    · rw [h] at hi; simp at hi
    · exact h
  have hn : 0 < n / step1 := by
    rcases Nat.eq_zero_or_pos (n / step1) with h | h
    · rw [h] at hi; simp at hi
    · exact h
  obtain ⟨gy, gx, gz, hgy, hgx, hgz, ez, ex, ey⟩ := grid_decomp (m / step1) (n / step1)
    (o / step1) i hi hm hn
  obtain ⟨sy, sx, sz, hsy, hsx, hsz, dz, dx, dy⟩ := grid_decomp step1 step1 step1 i1 hi1
    (by omega) (by omega)
  rw [ez] at ex ey
  rw [ex] at ey
  rw [dz] at dx dy
  rw [dx] at dy
  refine ⟨gx, gy, gz, sx, sy, sz, hgx, hgy, hgz, hsx, hsy, hsz, ?_, ?_, ?_⟩
  · unfold dataCost.blockOrigin
    simp only [ez, ex, ey]
  · unfold dataCost.sampleVoxel
    simp only [dz, dx, dy]
    push_cast
    rfl
  · have : (i1 : Int) = (sy : Int) + (sx : Int) * step1 + (sz : Int) * step1 * step1 := by
      linarith
    exact_mod_cast this

/-- Samples of one control point in exhaustive mode: the sample indices below
`step1^3` are in bijection with the voxels of the cell, and every sample voxel
lies in the image. -/
theorem dataCost.samples_spec (m n o step1 i : Nat) (hstep : 1 ≤ step1)
    (hi : i < m / step1 * (n / step1) * (o / step1)) :
    (∀ i1 : Nat, i1 < step1 * step1 * step1 → ∃ sx sy sz : Nat, sx < step1 ∧ sy < step1 ∧ sz < step1 ∧
      dataCost.sampleVoxel step1 (dataCost.blockOrigin m n step1 i).x
          (dataCost.blockOrigin m n step1 i).y (dataCost.blockOrigin m n step1 i).z i1
        = ⟨(dataCost.blockOrigin m n step1 i).x + sx, (dataCost.blockOrigin m n step1 i).y + sy,
            (dataCost.blockOrigin m n step1 i).z + sz⟩ ∧
      0 ≤ dataCost.flatIndex m n (dataCost.sampleVoxel step1
          (dataCost.blockOrigin m n step1 i).x (dataCost.blockOrigin m n step1 i).y
          (dataCost.blockOrigin m n step1 i).z i1) ∧
      dataCost.flatIndex m n (dataCost.sampleVoxel step1
          (dataCost.blockOrigin m n step1 i).x (dataCost.blockOrigin m n step1 i).y
          (dataCost.blockOrigin m n step1 i).z i1) < ((m * n * o : Nat) : Int)) ∧
    (∀ sx sy sz : Nat, sx < step1 → sy < step1 → sz < step1 →
      ∃! i1 : Nat, i1 < step1 * step1 * step1 ∧
        dataCost.sampleVoxel step1 (dataCost.blockOrigin m n step1 i).x
            (dataCost.blockOrigin m n step1 i).y (dataCost.blockOrigin m n step1 i).z i1
          = ⟨(dataCost.blockOrigin m n step1 i).x + sx,
              (dataCost.blockOrigin m n step1 i).y + sy,
              (dataCost.blockOrigin m n step1 i).z + sz⟩) := by
  have key : ∀ i1, i1 < step1 * step1 * step1 → ∃ gx gy gz sx sy sz : Nat,
      gx < n / step1 ∧ gy < m / step1 ∧ gz < o / step1 ∧ sx < step1 ∧ sy < step1 ∧ sz < step1 ∧
      dataCost.blockOrigin m n step1 i
        = ⟨(gx : Int) * step1, (gy : Int) * step1, (gz : Int) * step1⟩ ∧
      dataCost.sampleVoxel step1 (dataCost.blockOrigin m n step1 i).x
          (dataCost.blockOrigin m n step1 i).y (dataCost.blockOrigin m n step1 i).z i1
        = ⟨(dataCost.blockOrigin m n step1 i).x + sx, (dataCost.blockOrigin m n step1 i).y + sy,
            (dataCost.blockOrigin m n step1 i).z + sz⟩ ∧
      i1 = sy + sx * step1 + sz * step1 * step1 := by
    intro i1 h1
    obtain ⟨gx, gy, gz, sx, sy, sz, a1, a2, a3, a4, a5, a6, e1, e2, e3⟩ :=
      dataCost.sampleVoxel_decomp m n o step1 i i1 hstep hi h1
    refine ⟨gx, gy, gz, sx, sy, sz, a1, a2, a3, a4, a5, a6, e1, ?_, e3⟩
    rw [e1]
    simp only
    rw [e2]
    push_cast
    simp only [Coord.mk.injEq]
    refine ⟨?_, ?_, ?_⟩ <;> ring
  constructor
  · intro i1 h1
    obtain ⟨gx, gy, gz, sx, sy, sz, a1, a2, a3, a4, a5, a6, e1, e2, _⟩ := key i1 h1
    have hX := block_coord step1 n gx sx a1 a4
    have hY := block_coord step1 m gy sy a2 a5
    have hZ := block_coord step1 o gz sz a3 a6
    have hlt := box_index_lt m n o (sy + gy * step1) (sx + gx * step1) (sz + gz * step1) hY hX hZ
    have hflat : dataCost.flatIndex m n (dataCost.sampleVoxel step1
          (dataCost.blockOrigin m n step1 i).x (dataCost.blockOrigin m n step1 i).y
          (dataCost.blockOrigin m n step1 i).z i1)
        = (((sy + gy * step1) + (sx + gx * step1) * m + (sz + gz * step1) * m * n : Nat) : Int) := by
      rw [e2, e1]
      unfold dataCost.flatIndex
      push_cast
      ring
    refine ⟨sx, sy, sz, a4, a5, a6, e2, ?_, ?_⟩
    · rw [hflat]
      exact Int.natCast_nonneg _
    · rw [hflat]
      exact_mod_cast hlt
  · intro sx sy sz h4 h5 h6
    have hlt := cube_index_lt step1 sy sx sz h5 h4 h6
    obtain ⟨gx, gy, gz, sx', sy', sz', a1, a2, a3, a4, a5, a6, e1, e2, e3⟩ :=
      key (sy + sx * step1 + sz * step1 * step1) hlt
    obtain ⟨c1, c2, c3⟩ := cube_index_inj step1 sy sx sz sy' sx' sz' h5 h4 a5 a4 e3
    refine ⟨sy + sx * step1 + sz * step1 * step1, ⟨hlt, ?_⟩, ?_⟩
    · rw [e2, c1, c2, c3]
    · rintro i1 ⟨h1, h2⟩
      obtain ⟨gx2, gy2, gz2, tx, ty, tz, b1, b2, b3, b4, b5, b6, f1, f2, f3⟩ := key i1 h1
      rw [h2] at f2
      simp only [Coord.mk.injEq, add_right_inj, Nat.cast_inj] at f2
      obtain ⟨q1, q2, q3⟩ := f2
      rw [f3, ← q1, ← q2, ← q3]

/-- Claim C24: in exhaustive mode (`rand_samples >= step1^3`) `dataCost` is
not in random mode and takes `maxsamp = step1^3` samples per control point;
for every control point of the lattice the sample indices
`i1 = 0 .. step1^3-1` give voxels at offsets `(sx,sy,sz)` below `step1` from
the first voxel of the cell, every voxel of the cell is the sample of exactly
one index, and every fixed-image index `ind1` lies in `[0, m*n*o)`, whether
or not `step1` divides `m`, `n` and `o`. -/
theorem dataCost_exhaustive_samples (m n o step1 samples i : Nat) (hstep : 1 ≤ step1)
    (hs : step1 * step1 * step1 ≤ samples)
    (hi : i < m / step1 * (n / step1) * (o / step1)) :
    (decide ((samples : ℚ) < (step1 : ℚ) ^ 3) = false ∧
      (truncToInt ((step1 : ℚ) ^ 3)).toNat = step1 * step1 * step1) ∧
    (∀ i1 : Nat, i1 < step1 * step1 * step1 → ∃ sx sy sz : Nat, sx < step1 ∧ sy < step1 ∧ sz < step1 ∧
      dataCost.sampleVoxel step1 (dataCost.blockOrigin m n step1 i).x
          (dataCost.blockOrigin m n step1 i).y (dataCost.blockOrigin m n step1 i).z i1
        = ⟨(dataCost.blockOrigin m n step1 i).x + sx, (dataCost.blockOrigin m n step1 i).y + sy,
            (dataCost.blockOrigin m n step1 i).z + sz⟩ ∧
      0 ≤ dataCost.flatIndex m n (dataCost.sampleVoxel step1
          (dataCost.blockOrigin m n step1 i).x (dataCost.blockOrigin m n step1 i).y
          (dataCost.blockOrigin m n step1 i).z i1) ∧
      dataCost.flatIndex m n (dataCost.sampleVoxel step1
          (dataCost.blockOrigin m n step1 i).x (dataCost.blockOrigin m n step1 i).y
          (dataCost.blockOrigin m n step1 i).z i1) < ((m * n * o : Nat) : Int)) ∧
    (∀ sx sy sz : Nat, sx < step1 → sy < step1 → sz < step1 →
      ∃! i1 : Nat, i1 < step1 * step1 * step1 ∧
        dataCost.sampleVoxel step1 (dataCost.blockOrigin m n step1 i).x
            (dataCost.blockOrigin m n step1 i).y (dataCost.blockOrigin m n step1 i).z i1
          = ⟨(dataCost.blockOrigin m n step1 i).x + sx,
              (dataCost.blockOrigin m n step1 i).y + sy,
              (dataCost.blockOrigin m n step1 i).z + sz⟩) := by
  have h : ((step1 : ℚ) ^ 3) = ((step1 * step1 * step1 : Nat) : ℚ) := by
    push_cast; ring
  refine ⟨⟨?_, ?_⟩, dataCost.samples_spec m n o step1 i hstep hi⟩
  · rw [h, decide_eq_false_iff_not, not_lt]
    exact_mod_cast hs
  · rw [h, truncToInt_natCast, Int.toNat_natCast]

/-- Instance of claim C24 on a `5 x 5 x 5` image with cells of side 2 (which
does not divide 5), at the last control point of the `2 x 2 x 2` lattice. -/
theorem dataCost_exhaustive_samples_witness :
    (decide (((8 : Nat) : ℚ) < ((2 : Nat) : ℚ) ^ 3) = false ∧
      (truncToInt (((2 : Nat) : ℚ) ^ 3)).toNat = 2 * 2 * 2) ∧
    (∀ i1 : Nat, i1 < 2 * 2 * 2 → ∃ sx sy sz : Nat, sx < 2 ∧ sy < 2 ∧ sz < 2 ∧
      dataCost.sampleVoxel 2 (dataCost.blockOrigin 5 5 2 7).x
          (dataCost.blockOrigin 5 5 2 7).y (dataCost.blockOrigin 5 5 2 7).z i1
        = ⟨(dataCost.blockOrigin 5 5 2 7).x + sx, (dataCost.blockOrigin 5 5 2 7).y + sy,
            (dataCost.blockOrigin 5 5 2 7).z + sz⟩ ∧
      0 ≤ dataCost.flatIndex 5 5 (dataCost.sampleVoxel 2
          (dataCost.blockOrigin 5 5 2 7).x (dataCost.blockOrigin 5 5 2 7).y
          (dataCost.blockOrigin 5 5 2 7).z i1) ∧
      dataCost.flatIndex 5 5 (dataCost.sampleVoxel 2
          (dataCost.blockOrigin 5 5 2 7).x (dataCost.blockOrigin 5 5 2 7).y
          (dataCost.blockOrigin 5 5 2 7).z i1) < ((5 * 5 * 5 : Nat) : Int)) ∧
    (∀ sx sy sz : Nat, sx < 2 → sy < 2 → sz < 2 →
      ∃! i1 : Nat, i1 < 2 * 2 * 2 ∧
        dataCost.sampleVoxel 2 (dataCost.blockOrigin 5 5 2 7).x
            (dataCost.blockOrigin 5 5 2 7).y (dataCost.blockOrigin 5 5 2 7).z i1
          = ⟨(dataCost.blockOrigin 5 5 2 7).x + sx,
              (dataCost.blockOrigin 5 5 2 7).y + sy,
              (dataCost.blockOrigin 5 5 2 7).z + sz⟩) :=
  dataCost_exhaustive_samples 5 5 5 2 8 7 (by decide) (by decide) (by decide)
/-- Claim C11: for `istart <= iend <= sz1` (and inputs on which the run is
defined: `alpha != 0`, integer quantisation `q >= 1`, `step1 >= 1`, at least
one sample, initialised images and descriptors), `dataCost` writes every
entry `costall[i+l*sz1]` with `istart <= i < iend`, `l < len^3`, and leaves
every other entry of `costall` unchanged; the two ranges of the driver,
`[0,sz1/2)` and `[sz1/2,sz1)`, lie in `[0,sz1]`, are disjoint and together
contain every control point. -/
theorem dataCost_writes_partition (moving costall : Buf ℚ) (alpha : ℚ) (hw step1 q : Nat)
    (fixed_mind moving_mind : Buf Nat) (F G : Nat → Nat) (istart iend m n o samples : Nat)
    (rnd : Nat → ℚ) (halpha : alpha ≠ 0) (hq : 1 ≤ q) (hstep : 1 ≤ step1)
    (hsamp : 1 ≤ samples) (hms : m * n * o ≤ moving.size)
    (hmov : ∀ i, i < m * n * o → ∃ v, moving.data i = some v)
    (hFs : m * n * o ≤ fixed_mind.size) (hGs : m * n * o ≤ moving_mind.size)
    (hF : ∀ i, i < m * n * o → fixed_mind.data i = some (F i) ∧ F i < 2 ^ 64)
    (hG : ∀ i, i < m * n * o → moving_mind.data i = some (G i) ∧ G i < 2 ^ 64)
    (hrnd : ∀ k, 0 ≤ rnd k ∧ rnd k < 1) (hie : istart ≤ iend)
    (hend : iend ≤ m / step1 * (n / step1) * (o / step1))
    (hcs : m / step1 * (n / step1) * (o / step1)
      * ((hw * 2 + 1) * (hw * 2 + 1) * (hw * 2 + 1)) ≤ costall.size) :
    (∃ out, dataCost moving costall alpha hw step1 (q : ℚ) fixed_mind moving_mind istart iend
        m n o samples rnd = Except.ok out ∧
      out.size = costall.size ∧
      (∀ i l, istart ≤ i → i < iend → l < (hw * 2 + 1) * (hw * 2 + 1) * (hw * 2 + 1) →
        ∃ v : ℚ, out.data (i + l * (m / step1 * (n / step1) * (o / step1))) = some v) ∧
      ∀ cell, (∀ i l, istart ≤ i → i < iend →
          l < (hw * 2 + 1) * (hw * 2 + 1) * (hw * 2 + 1) →
          cell ≠ i + l * (m / step1 * (n / step1) * (o / step1))) →
        out.data cell = costall.data cell) ∧
    (∀ sz1 : Nat,
      (deeds.partition sz1).1.1 ≤ (deeds.partition sz1).1.2 ∧
      (deeds.partition sz1).1.2 ≤ sz1 ∧
      (deeds.partition sz1).2.1 ≤ (deeds.partition sz1).2.2 ∧
      (deeds.partition sz1).2.2 ≤ sz1 ∧
      (∀ i, i < sz1 →
        ((deeds.partition sz1).1.1 ≤ i ∧ i < (deeds.partition sz1).1.2) ∨
        ((deeds.partition sz1).2.1 ≤ i ∧ i < (deeds.partition sz1).2.2)) ∧
      ∀ i, ¬ (((deeds.partition sz1).1.1 ≤ i ∧ i < (deeds.partition sz1).1.2) ∧
        ((deeds.partition sz1).2.1 ≤ i ∧ i < (deeds.partition sz1).2.2))) := by
  constructor
  · obtain ⟨out, hrun, hs, hrows, hframe⟩ := dataCost_spec moving costall alpha hw step1 q
      fixed_mind moving_mind F G istart iend m n o samples rnd halpha hq hstep hsamp hms hmov
      hFs hGs hF hG hrnd hie hend hcs
    refine ⟨out, hrun, hs, ?_, hframe⟩
    intro i l h1 h2 hl
    obtain ⟨c, hc, _⟩ := hrows i l h1 h2 hl
    exact ⟨_, hc⟩
  · intro sz1
    simp only [deeds.partition]
    refine ⟨Nat.zero_le _, Nat.div_le_self _ _, Nat.div_le_self _ _, le_refl _, ?_, ?_⟩
    · intro i hi
      omega
    · intro i
      omega

/-- Witness for claim C11: the 2x2x2 image, `step1 = 1`, `hw = 1`, control
points `[2,6)`, on an uninitialised cost volume. -/
theorem dataCost_writes_partition_witness :
    (∃ out, dataCost (Buf.ofFn 8 (fun _ : Nat => (0 : ℚ))) (Buf.new (8 * 27)) 1 1 1
        ((1 : Nat) : ℚ) (Buf.ofFn 8 (fun i : Nat => i * 37))
        (Buf.ofFn 8 (fun i : Nat => i * 11 + 5)) 2 6 2 2 2 1 (fun _ : Nat => (0 : ℚ))
        = Except.ok out ∧
      out.size = (Buf.new (8 * 27) : Buf ℚ).size ∧
      (∀ i l, 2 ≤ i → i < 6 → l < (1 * 2 + 1) * (1 * 2 + 1) * (1 * 2 + 1) →
        ∃ v : ℚ, out.data (i + l * (2 / 1 * (2 / 1) * (2 / 1))) = some v) ∧
      ∀ cell, (∀ i l, 2 ≤ i → i < 6 →
          l < (1 * 2 + 1) * (1 * 2 + 1) * (1 * 2 + 1) →
          cell ≠ i + l * (2 / 1 * (2 / 1) * (2 / 1))) →
        out.data cell = (Buf.new (8 * 27) : Buf ℚ).data cell) ∧
    (∀ sz1 : Nat,
      (deeds.partition sz1).1.1 ≤ (deeds.partition sz1).1.2 ∧
      (deeds.partition sz1).1.2 ≤ sz1 ∧
      (deeds.partition sz1).2.1 ≤ (deeds.partition sz1).2.2 ∧
      (deeds.partition sz1).2.2 ≤ sz1 ∧
      (∀ i, i < sz1 →
        ((deeds.partition sz1).1.1 ≤ i ∧ i < (deeds.partition sz1).1.2) ∨
        ((deeds.partition sz1).2.1 ≤ i ∧ i < (deeds.partition sz1).2.2)) ∧
      ∀ i, ¬ (((deeds.partition sz1).1.1 ≤ i ∧ i < (deeds.partition sz1).1.2) ∧
        ((deeds.partition sz1).2.1 ≤ i ∧ i < (deeds.partition sz1).2.2))) :=
  dataCost_writes_partition (Buf.ofFn 8 (fun _ : Nat => (0 : ℚ))) (Buf.new (8 * 27)) 1 1 1 1
    (Buf.ofFn 8 (fun i : Nat => i * 37)) (Buf.ofFn 8 (fun i : Nat => i * 11 + 5))
    (fun i : Nat => i * 37) (fun i : Nat => i * 11 + 5) 2 6 2 2 2 1
    (fun _ : Nat => (0 : ℚ)) one_ne_zero (le_refl _) (le_refl _) (le_refl _) (le_refl _)
    (fun i hi => ⟨0, by simp [Buf.ofFn]; omega⟩) (le_refl _) (le_refl _)
    (fun i hi => ⟨by simp [Buf.ofFn]; omega, by
      have : i < 8 := hi
      have : i * 37 < 300 := by omega
      exact lt_trans this (by norm_num)⟩)
    (fun i hi => ⟨by simp [Buf.ofFn]; omega, by
      have : i < 8 := hi
      have : i * 11 + 5 < 300 := by omega
      exact lt_trans this (by norm_num)⟩)
    (fun _ => ⟨le_refl _, one_pos⟩) (by decide) (by decide) (by decide)

/-- Two runs of the loop over the labels for the same sample voxel, started
on vectors that agree on the first `L` cells, end on vectors that agree on
them. -/
theorem dataCost.accumulate_rel (tab : CostTable) (fixed_mind moving_mind : Buf Nat)
    (m n o : Nat) (b : Bool) (xx yy zz ind1 : Int) (L : Nat) (c c' r r' : Buf ℚ)
    (h : ∀ l, l < L → c.data l = c'.data l)
    (hr : forLoop (dataCost.accumulate tab fixed_mind moving_mind m n o b xx yy zz ind1) 0 L c
      = Except.ok r)
    (hr' : forLoop (dataCost.accumulate tab fixed_mind moving_mind m n o b xx yy zz ind1) 0 L c'
      = Except.ok r') :
    ∀ l, l < L → r.data l = r'.data l := by
  have := forLoop_ok_rel (fun _ (a a' : Buf ℚ) => ∀ l, l < L → a.data l = a'.data l)
    _ _ L 0 c r c' r' h (by
      intro i a a1 a' a1' _ hi hR h1 h2
      unfold dataCost.accumulate at h1 h2
      simp only [bind_eq_ok] at h1 h2
      obtain ⟨i2, e1, x, e2, y, e3, cc, e4, e5⟩ := h1
      obtain ⟨i2', e1', x', e2', y', e3', cc', e4', e5'⟩ := h2
      rw [e1] at e1'
      cases e1'
      rw [e2] at e2'
      cases e2'
      rw [e3] at e3'
      cases e3'
      have g := (Buf.get_ok _ _ _ e4).2.2
      have g' := (Buf.get_ok _ _ _ e4').2.2
      simp only [Int.toNat_ofNat] at g g'
      have hcc : cc = cc' := by
        have := hR i (by omega)
        rw [g, g'] at this
        exact Option.some.inj this
      subst hcc
      obtain ⟨_, _, q⟩ := Buf.set_ok _ _ _ _ e5
      obtain ⟨_, _, q'⟩ := Buf.set_ok _ _ _ _ e5'
      subst q q'
      intro l hl
      simp only [Int.toNat_ofNat]
      by_cases hc : l = i
      · subst hc
        simp
      · simp only [Function.update_noteq hc]
        exact hR l hl)
    hr hr'
  simpa using this

/-- Two runs of the zeroing loop of `cost1` end on vectors whose first `L`
cells are 0. -/
theorem dataCost.zero_cells (L : Nat) (c z : Buf ℚ)
    (h : forLoop (fun l (t : Buf ℚ) => t.set l 0) 0 L c = Except.ok z) :
    ∀ l, l < L → z.data l = some 0 := by
  have := forLoop_ok_inv (fun i (t : Buf ℚ) => ∀ l, l < i → t.data l = some 0) _ L 0 c z
    (fun l hl => by omega) (by
      intro i t t' _ _ hI hs
      obtain ⟨_, _, q⟩ := Buf.set_ok _ _ _ _ hs
      subst q
      intro l hl
      simp only [Int.toNat_ofNat]
      by_cases hc : l = i
      · subst hc
        simp
      · simp only [Function.update_noteq hc]
        exact hI l (by omega)) h
  intro l hl
  exact this l (by omega)

/-- The loop over the samples of a control point leaves the cost volume as it
is. -/
theorem dataCost.samples_frame (tab : CostTable) (fixed_mind moving_mind : Buf Nat)
    (m n o step1 : Nat) (randommode : Bool) (rnd : Nat → ℚ) (x1 y1 z1 : Int) (b : Bool)
    (len4 maxsamp : Nat) (s t : CostState)
    (h : forLoop (dataCost.sample tab fixed_mind moving_mind m n o step1 randommode rnd x1 y1 z1
      b len4) 0 maxsamp s = Except.ok t) :
    t.costall = s.costall := by
  exact forLoop_ok_inv (fun _ (u : CostState) => u.costall = s.costall) _ maxsamp 0 s t rfl (by
    intro i u u' _ _ hI hs
    unfold dataCost.sample at hs
    by_cases hz : (step1 : Int) * step1 = 0
    · simp only [if_pos hz] at hs
      cases hs
    · simp only [if_neg hz, bind_eq_ok, pure_eq_ok] at hs
      obtain ⟨c1, _, e⟩ := hs
      cases e
      exact hI) h

/-- Two runs of the loop over the samples of a control point in exhaustive
mode, started on states whose vectors `cost1` agree on the first `len4`
cells, end on such states. -/
theorem dataCost.samples_rel (tab : CostTable) (fixed_mind moving_mind : Buf Nat)
    (m n o step1 : Nat) (rnd rnd' : Nat → ℚ) (x1 y1 z1 : Int) (b : Bool)
    (len4 maxsamp : Nat) (s t s' t' : CostState) (hstep : 1 ≤ step1)
    (h0 : ∀ l, l < len4 → s.cost1.data l = s'.cost1.data l)
    (h : forLoop (dataCost.sample tab fixed_mind moving_mind m n o step1 false rnd x1 y1 z1
      b len4) 0 maxsamp s = Except.ok t)
    (h' : forLoop (dataCost.sample tab fixed_mind moving_mind m n o step1 false rnd' x1 y1 z1
      b len4) 0 maxsamp s' = Except.ok t') :
    ∀ l, l < len4 → t.cost1.data l = t'.cost1.data l := by
  have := forLoop_ok_rel
    (fun _ (a a' : CostState) => ∀ l, l < len4 → a.cost1.data l = a'.cost1.data l)
    _ _ maxsamp 0 s t s' t' h0 (by
      intro i a a1 a' a1' _ _ hR h1 h2
      rw [dataCost.sample_exhaustive _ _ _ _ _ _ _ _ _ _ _ _ _ _ _ hstep] at h1 h2
      simp only [bind_eq_ok] at h1 h2
      obtain ⟨c1, e1, e2⟩ := h1
      obtain ⟨c1', e1', e2'⟩ := h2
      cases e2
      cases e2'
      exact dataCost.accumulate_rel _ _ _ _ _ _ _ _ _ _ _ len4 _ _ _ _ hR e1 e1')
    h h'
  simpa using this

/-- A run of the loop that stores the row of control point `i` that returns
has written `1/2*alpha2*cost1[l]` into every cell of the row and left every
other cell as it was. -/
theorem dataCost.writeRow_ok (cost1 costall out : Buf ℚ) (i sz1 L : Nat) (alpha2 : ℚ)
    (hi : i < sz1)
    (h : forLoop (fun l (t : Buf ℚ) => do
        let x ← cost1.get l
        t.set ((i : Int) + (l : Int) * sz1) (1 / 2 * alpha2 * x)) 0 L costall = Except.ok out) :
    (∀ l, l < L → ∃ c, cost1.data l = some c ∧
      out.data (i + l * sz1) = some (1 / 2 * alpha2 * c)) ∧
    ∀ cell, (∀ l, l < L → cell ≠ i + l * sz1) → out.data cell = costall.data cell := by
  have := forLoop_ok_inv
    (fun j (t : Buf ℚ) => (∀ l, l < j → ∃ c, cost1.data l = some c ∧
        t.data (i + l * sz1) = some (1 / 2 * alpha2 * c)) ∧
      ∀ cell, (∀ l, l < L → cell ≠ i + l * sz1) → t.data cell = costall.data cell)
    _ L 0 costall out ⟨fun l hl => by omega, fun _ _ => rfl⟩ (by
      rintro j t t' _ hj ⟨hI, hF⟩ hs
      simp only [bind_eq_ok] at hs
      obtain ⟨x, e1, e2⟩ := hs
      have g := (Buf.get_ok _ _ _ e1).2.2
      simp only [Int.toNat_ofNat] at g
      obtain ⟨_, _, q⟩ := Buf.set_ok _ _ _ _ e2
      rw [row_index_cast] at q
      simp only [Int.toNat_ofNat] at q
      subst q
      refine ⟨?_, ?_⟩
      · intro l hl
        by_cases hc : l = j
        · subst hc
          exact ⟨x, g, by simp⟩
        · obtain ⟨c, a1, a2⟩ := hI l (by omega)
          refine ⟨c, a1, ?_⟩
          have hne : i + l * sz1 ≠ i + j * sz1 := by
            intro he
            exact hc (row_index_inj sz1 i l i j hi hi he).2
          simp only [Function.update_noteq hne]
          exact a2
      · intro cell hcell
        simp only [Function.update_noteq (hcell j (by omega))]
        exact hF cell hcell) h
  exact ⟨fun l hl => this.1 l (by omega), this.2⟩

/-- A step of a control point that returns has changed no cell of the cost
volume outside the row of the control point. -/
theorem dataCost.point_frame (tab : CostTable) (fixed_mind moving_mind : Buf Nat)
    (m n o step1 : Nat) (hw2 : Int) (randommode : Bool) (maxsamp : Nat) (alpha2 : ℚ)
    (rnd : Nat → ℚ) (len4 i : Nat) (s t : CostState)
    (hi : i < m / step1 * (n / step1) * (o / step1))
    (h : dataCost.point tab fixed_mind moving_mind m n o step1 hw2 randommode maxsamp alpha2 rnd
      len4 i s = Except.ok t) :
    ∀ cell, (∀ l, l < len4 → cell ≠ i + l * (m / step1 * (n / step1) * (o / step1))) →
      t.costall.data cell = s.costall.data cell := by
  have hm : m / step1 ≠ 0 := by
    intro h0; rw [h0] at hi; simp at hi
  have hn : n / step1 ≠ 0 := by
    intro h0; rw [h0] at hi; simp at hi
  rw [dataCost.point_origin _ _ _ _ _ _ _ _ _ _ _ _ _ _ _ hm hn] at h
  simp only [bind_eq_ok] at h
  obtain ⟨z, _, s1, e2, ca, e3, e4⟩ := h
  cases e4
  have hf := dataCost.samples_frame _ _ _ _ _ _ _ _ _ _ _ _ _ _ _ _ _ e2
  obtain ⟨_, hfr⟩ := dataCost.writeRow_ok _ _ _ i _ len4 alpha2 hi e3
  intro cell hcell
  show ca.data cell = _
  rw [hfr cell hcell, hf]

/-- Two steps of the same control point in exhaustive mode that return write
the same row, whatever the two states they start from. -/
theorem dataCost.point_rel (tab : CostTable) (fixed_mind moving_mind : Buf Nat)
    (m n o step1 : Nat) (hw2 : Int) (maxsamp : Nat) (alpha2 : ℚ)
    (rnd rnd' : Nat → ℚ) (len4 i : Nat) (s t s' t' : CostState) (hstep : 1 ≤ step1)
    (hi : i < m / step1 * (n / step1) * (o / step1))
    (h : dataCost.point tab fixed_mind moving_mind m n o step1 hw2 false maxsamp alpha2 rnd
      len4 i s = Except.ok t)
    (h' : dataCost.point tab fixed_mind moving_mind m n o step1 hw2 false maxsamp alpha2 rnd'
      len4 i s' = Except.ok t') :
    ∀ l, l < len4 → ∃ v,
      t.costall.data (i + l * (m / step1 * (n / step1) * (o / step1))) = some v ∧
      t'.costall.data (i + l * (m / step1 * (n / step1) * (o / step1))) = some v := by
  have hm : m / step1 ≠ 0 := by
    intro h0; rw [h0] at hi; simp at hi
  have hn : n / step1 ≠ 0 := by
    intro h0; rw [h0] at hi; simp at hi
  rw [dataCost.point_origin _ _ _ _ _ _ _ _ _ _ _ _ _ _ _ hm hn] at h h'
  simp only [bind_eq_ok] at h h'
  obtain ⟨z, e1, s1, e2, ca, e3, e4⟩ := h
  obtain ⟨z', e1', s1', e2', ca', e3', e4'⟩ := h'
  cases e4
  cases e4'
  have hz := dataCost.zero_cells len4 _ _ e1
  have hz' := dataCost.zero_cells len4 _ _ e1'
  have hrel := dataCost.samples_rel _ _ _ _ _ _ _ _ _ _ _ _ _ len4 maxsamp _ _ _ _ hstep
    (fun l hl => by
      show z.data l = z'.data l
      rw [hz l hl, hz' l hl]) e2 e2'
  obtain ⟨hrow, _⟩ := dataCost.writeRow_ok _ _ _ i _ len4 alpha2 hi e3
  obtain ⟨hrow', _⟩ := dataCost.writeRow_ok _ _ _ i _ len4 alpha2 hi e3'
  intro l hl
  obtain ⟨c, a1, a2⟩ := hrow l hl
  obtain ⟨c', a1', a2'⟩ := hrow' l hl
  have : c = c' := by
    have := hrel l hl
    rw [a1, a1'] at this
    exact Option.some.inj this
  subst this
  exact ⟨_, a2, a2'⟩

/-- In a run of the loop of `dataCost` over the control points `[istart,iend)`
that returns, the row of a control point `i` of the range holds at the end
what the step of `i` wrote into it. -/
theorem dataCost.points_row (tab : CostTable) (fixed_mind moving_mind : Buf Nat)
    (m n o step1 : Nat) (hw2 : Int) (randommode : Bool) (maxsamp : Nat) (alpha2 : ℚ)
    (rnd : Nat → ℚ) (len4 istart iend i : Nat) (s0 sF : CostState)
    (h1 : istart ≤ i) (h2 : i < iend) (hend : iend ≤ m / step1 * (n / step1) * (o / step1))
    (hrun : forLoop (dataCost.point tab fixed_mind moving_mind m n o step1 hw2 randommode maxsamp
      alpha2 rnd len4) istart (iend - istart) s0 = Except.ok sF) :
    ∃ a b, dataCost.point tab fixed_mind moving_mind m n o step1 hw2 randommode maxsamp
        alpha2 rnd len4 i a = Except.ok b ∧
      ∀ l, l < len4 →
        sF.costall.data (i + l * (m / step1 * (n / step1) * (o / step1)))
          = b.costall.data (i + l * (m / step1 * (n / step1) * (o / step1))) := by
  obtain ⟨st, _, eF, hS⟩ := forLoop_ok_trace _ _ _ _ _ hrun
  have e : istart + (iend - istart) = iend := by omega
  rw [e] at eF hS
  refine ⟨st i, st (i + 1), hS i h1 h2, ?_⟩
  have hkeep : ∀ d, i + 1 + d ≤ iend → ∀ l, l < len4 →
      (st (i + 1 + d)).costall.data (i + l * (m / step1 * (n / step1) * (o / step1)))
        = (st (i + 1)).costall.data (i + l * (m / step1 * (n / step1) * (o / step1))) := by
    intro d
    induction d with
    | zero => intro _ l _; rfl
    | succ d ih =>
      intro hd l hl
      have hk : i + 1 + d < m / step1 * (n / step1) * (o / step1) := by omega
      have hfr := dataCost.point_frame _ _ _ _ _ _ _ _ _ _ _ _ _ _ _ _ hk
        (hS (i + 1 + d) (by omega) (by omega))
      have e2 : i + 1 + (d + 1) = i + 1 + d + 1 := by omega
      rw [e2, hfr _ (fun l' _ he => by
        have := (row_index_inj _ i l (i + 1 + d) l' (by omega) hk he).1
        omega)]
      exact ih (by omega) l hl
  intro l hl
  have := hkeep (iend - (i + 1)) (by omega) l hl
  have e3 : i + 1 + (iend - (i + 1)) = iend := by omega
  rw [e3, eF] at this
  exact this

/-- Two runs of `dataCost` in exhaustive mode that return, over two ranges of
control points that both contain `i`, hold the same values in the row of `i`. -/
theorem dataCost_partition_rel (moving costall costall' : Buf ℚ) (alpha : ℚ) (hw step1 : Nat)
    (quant : ℚ) (fixed_mind moving_mind : Buf Nat) (istart iend istart' iend' m n o samples : Nat)
    (rnd rnd' : Nat → ℚ) (i : Nat) (out out' : Buf ℚ)
    (hex : step1 * step1 * step1 ≤ samples)
    (h1 : istart ≤ i) (h2 : i < iend) (h1' : istart' ≤ i) (h2' : i < iend')
    (hend : iend ≤ m / step1 * (n / step1) * (o / step1))
    (hend' : iend' ≤ m / step1 * (n / step1) * (o / step1))
    (hrun : dataCost moving costall alpha hw step1 quant fixed_mind moving_mind istart iend
      m n o samples rnd = Except.ok out)
    (hrun' : dataCost moving costall' alpha hw step1 quant fixed_mind moving_mind istart' iend'
      m n o samples rnd' = Except.ok out') :
    ∀ l, l < (hw * 2 + 1) * (hw * 2 + 1) * (hw * 2 + 1) → ∃ v,
      out.data (i + l * (m / step1 * (n / step1) * (o / step1))) = some v ∧
      out'.data (i + l * (m / step1 * (n / step1) * (o / step1))) = some v := by
  have hdec : decide ((samples : ℚ) < (step1 : ℚ) ^ 3) = false := by
    have h : ((step1 : ℚ) ^ 3) = ((step1 * step1 * step1 : Nat) : ℚ) := by
      push_cast; ring
    rw [h]
    simp only [decide_eq_false_iff_not, not_lt]
    exact_mod_cast hex
  unfold dataCost at hrun hrun'
  by_cases ha : alpha * quant = 0
  · simp only [if_pos ha] at hrun
    cases hrun
  by_cases hs : step1 = 0
  · simp only [if_neg ha, if_pos hs] at hrun
    cases hrun
  have hstep : 1 ≤ step1 := by omega
  simp only [if_neg ha, if_neg hs, hdec, Bool.false_eq_true, if_false, bind_eq_ok, cube_len4]
    at hrun hrun'
  obtain ⟨tab, etab, _, _, hrest⟩ := hrun
  obtain ⟨tab', etab', _, _, hrest'⟩ := hrun'
  rw [etab] at etab'
  cases etab'
  by_cases hmax : (truncToInt ((step1 : ℚ) ^ 3)).toNat = 0
  · simp only [if_pos hmax] at hrest
    cases hrest
  simp only [if_neg hmax, bind_eq_ok, pure_eq_ok] at hrest hrest'
  obtain ⟨sF, eF, eo⟩ := hrest
  obtain ⟨sF', eF', eo'⟩ := hrest'
  cases eo
  cases eo'
  obtain ⟨a, b, hp, hrow⟩ := dataCost.points_row _ _ _ _ _ _ _ _ _ _ _ _ _ _ _ i _ _ h1 h2 hend eF
  obtain ⟨a', b', hp', hrow'⟩ :=
    dataCost.points_row _ _ _ _ _ _ _ _ _ _ _ _ _ _ _ i _ _ h1' h2' hend' eF'
  have hrel := dataCost.point_rel _ _ _ _ _ _ _ _ _ _ _ _ _ i _ _ _ _ hstep (by omega) hp hp'
  intro l hl
  obtain ⟨v, g, g'⟩ := hrel l hl
  exact ⟨v, by rw [hrow l hl]; exact g, by rw [hrow' l hl]; exact g'⟩

/-- In exhaustive mode the body of the sample loop does not read the random
stream. -/
theorem dataCost.sample_stream (tab : CostTable) (fixed_mind moving_mind : Buf Nat)
    (m n o step1 : Nat) (rnd rnd' : Nat → ℚ) (hstep : 1 ≤ step1) :
    dataCost.sample tab fixed_mind moving_mind m n o step1 false rnd
      = dataCost.sample tab fixed_mind moving_mind m n o step1 false rnd' := by
  funext x1 y1 z1 b len4 j1 s
  rw [dataCost.sample_exhaustive _ _ _ _ _ _ _ _ _ _ _ _ _ _ _ hstep,
    dataCost.sample_exhaustive _ _ _ _ _ _ _ _ _ _ _ _ _ _ _ hstep]

/-- In exhaustive mode `dataCost` does not depend on the random stream. -/
theorem dataCost_exhaustive_stream (moving costall : Buf ℚ) (alpha : ℚ) (hw step1 : Nat)
    (quant : ℚ) (fixed_mind moving_mind : Buf Nat) (istart iend m n o samples : Nat)
    (rnd rnd' : Nat → ℚ) (hex : step1 * step1 * step1 ≤ samples) :
    dataCost moving costall alpha hw step1 quant fixed_mind moving_mind istart iend
        m n o samples rnd
      = dataCost moving costall alpha hw step1 quant fixed_mind moving_mind istart iend
        m n o samples rnd' := by
  have hdec : decide ((samples : ℚ) < (step1 : ℚ) ^ 3) = false := by
    have h : ((step1 : ℚ) ^ 3) = ((step1 * step1 * step1 : Nat) : ℚ) := by
      push_cast; ring
    rw [h]
    simp only [decide_eq_false_iff_not, not_lt]
    exact_mod_cast hex
  unfold dataCost
  by_cases hs : step1 = 0
  · simp only [if_pos hs]
  have hstep : 1 ≤ step1 := by omega
  have hp : ∀ (tab : CostTable) (hw2 : Int) (maxsamp : Nat) (alpha2 : ℚ) (len4 : Nat),
      dataCost.point tab fixed_mind moving_mind m n o step1 hw2 false maxsamp alpha2 rnd len4
        = dataCost.point tab fixed_mind moving_mind m n o step1 hw2 false maxsamp alpha2 rnd'
          len4 := by
    intro tab hw2 maxsamp alpha2 len4
    funext i s
    unfold dataCost.point
    rw [dataCost.sample_stream tab fixed_mind moving_mind m n o step1 rnd rnd' hstep]
  simp only [hdec, hp]

/-- Claim C37: in exhaustive mode (`rand_samples >= step1^3`) the entries
that `dataCost` writes for a control point do not depend on the partition.
For two ranges `[istart,iend)` and `[istart',iend')` of control points (both
within the `sz1` control points) that both contain `i`, with all other inputs
equal, whenever the two runs return, the entries `costall[i+l*sz1]` of the two
results hold the same value for every label `l < len^3`; this also holds when
the two runs are given different random streams, and a run does not depend on
the stream at all.  Both runs return on inputs on which `dataCost` is
defined: `alpha != 0`, integer quantisation `q >= 1`, `step1 >= 1`,
initialised images and descriptors, and a cost volume of `sz1*len^3` cells. -/
theorem dataCost_partition_independent (moving costall : Buf ℚ) (alpha : ℚ) (hw step1 : Nat)
    (quant : ℚ) (fixed_mind moving_mind : Buf Nat) (istart iend istart' iend' m n o samples : Nat)
    (rnd : Nat → ℚ) (i : Nat) (hex : step1 * step1 * step1 ≤ samples)
    (h1 : istart ≤ i) (h2 : i < iend) (h1' : istart' ≤ i) (h2' : i < iend')
    (hend : iend ≤ m / step1 * (n / step1) * (o / step1))
    (hend' : iend' ≤ m / step1 * (n / step1) * (o / step1)) :
    (∀ (rnd' : Nat → ℚ) (out out' : Buf ℚ),
      dataCost moving costall alpha hw step1 quant fixed_mind moving_mind istart iend
        m n o samples rnd = Except.ok out →
      dataCost moving costall alpha hw step1 quant fixed_mind moving_mind istart' iend'
        m n o samples rnd' = Except.ok out' →
      ∀ l, l < (hw * 2 + 1) * (hw * 2 + 1) * (hw * 2 + 1) → ∃ v,
        out.data (i + l * (m / step1 * (n / step1) * (o / step1))) = some v ∧
        out'.data (i + l * (m / step1 * (n / step1) * (o / step1))) = some v) ∧
    (∀ rnd' : Nat → ℚ,
      dataCost moving costall alpha hw step1 quant fixed_mind moving_mind istart iend
          m n o samples rnd
        = dataCost moving costall alpha hw step1 quant fixed_mind moving_mind istart iend
          m n o samples rnd') ∧
    (∀ (q : Nat) (F G : Nat → Nat), quant = (q : ℚ) → alpha ≠ 0 → 1 ≤ q → 1 ≤ step1 →
      m * n * o ≤ moving.size → (∀ p, p < m * n * o → ∃ v, moving.data p = some v) →
      m * n * o ≤ fixed_mind.size → m * n * o ≤ moving_mind.size →
      (∀ p, p < m * n * o → fixed_mind.data p = some (F p) ∧ F p < 2 ^ 64) →
      (∀ p, p < m * n * o → moving_mind.data p = some (G p) ∧ G p < 2 ^ 64) →
      m / step1 * (n / step1) * (o / step1)
        * ((hw * 2 + 1) * (hw * 2 + 1) * (hw * 2 + 1)) ≤ costall.size →
      ∃ out out',
        dataCost moving costall alpha hw step1 quant fixed_mind moving_mind istart iend
          m n o samples rnd = Except.ok out ∧
        dataCost moving costall alpha hw step1 quant fixed_mind moving_mind istart' iend'
          m n o samples rnd = Except.ok out') := by
  refine ⟨?_, ?_, ?_⟩
  · intro rnd' out out' hrun hrun'
    exact dataCost_partition_rel moving costall costall alpha hw step1 quant fixed_mind
      moving_mind istart iend istart' iend' m n o samples rnd rnd' i out out' hex h1 h2 h1' h2'
      hend hend' hrun hrun'
  · intro rnd'
    exact dataCost_exhaustive_stream moving costall alpha hw step1 quant fixed_mind moving_mind
      istart iend m n o samples rnd rnd' hex
  · intro q F G hq halpha hq1 hstep hms hmov hFs hGs hF hG hcs
    subst hq
    have hcube : 1 ≤ step1 * step1 * step1 := Nat.mul_pos (Nat.mul_pos hstep hstep) hstep
    obtain ⟨out, hrun, _⟩ := dataCost_spec moving costall alpha hw step1 q fixed_mind
      moving_mind F G istart iend m n o samples (fun _ => 0) halpha hq1 hstep (by omega) hms
      hmov hFs hGs hF hG (fun _ => ⟨le_refl _, one_pos⟩) (by omega) hend hcs
    obtain ⟨out', hrun', _⟩ := dataCost_spec moving costall alpha hw step1 q fixed_mind
      moving_mind F G istart' iend' m n o samples (fun _ => 0) halpha hq1 hstep (by omega) hms
      hmov hFs hGs hF hG (fun _ => ⟨le_refl _, one_pos⟩) (by omega) hend' hcs
    rw [dataCost_exhaustive_stream moving costall alpha hw step1 q fixed_mind moving_mind
      istart iend m n o samples (fun _ => 0) rnd hex] at hrun
    rw [dataCost_exhaustive_stream moving costall alpha hw step1 q fixed_mind moving_mind
      istart' iend' m n o samples (fun _ => 0) rnd hex] at hrun'
    exact ⟨out, out', hrun, hrun'⟩

/-- Instance of claim C37: the 4x2x2 image with `step1 = 2` has the two
control points 0 and 1; with `hw = 1` and 8 samples (exhaustive mode), control
point 1 is processed by the range `[0,2)` and by the range `[1,2)`. -/
theorem dataCost_partition_independent_witness :
    (∀ (rnd' : Nat → ℚ) (out out' : Buf ℚ),
      dataCost (Buf.ofFn 16 (fun _ : Nat => (0 : ℚ))) (Buf.new (2 * 27)) 1 1 2
        ((1 : Nat) : ℚ) (Buf.ofFn 16 (fun p : Nat => p * 37))
        (Buf.ofFn 16 (fun p : Nat => p * 11 + 5)) 0 2 4 2 2 8 (fun _ : Nat => (1 / 2 : ℚ))
        = Except.ok out →
      dataCost (Buf.ofFn 16 (fun _ : Nat => (0 : ℚ))) (Buf.new (2 * 27)) 1 1 2
        ((1 : Nat) : ℚ) (Buf.ofFn 16 (fun p : Nat => p * 37))
        (Buf.ofFn 16 (fun p : Nat => p * 11 + 5)) 1 2 4 2 2 8 rnd' = Except.ok out' →
      ∀ l, l < (1 * 2 + 1) * (1 * 2 + 1) * (1 * 2 + 1) → ∃ v,
        out.data (1 + l * (4 / 2 * (2 / 2) * (2 / 2))) = some v ∧
        out'.data (1 + l * (4 / 2 * (2 / 2) * (2 / 2))) = some v) ∧
    (∀ rnd' : Nat → ℚ,
      dataCost (Buf.ofFn 16 (fun _ : Nat => (0 : ℚ))) (Buf.new (2 * 27)) 1 1 2
          ((1 : Nat) : ℚ) (Buf.ofFn 16 (fun p : Nat => p * 37))
          (Buf.ofFn 16 (fun p : Nat => p * 11 + 5)) 0 2 4 2 2 8 (fun _ : Nat => (1 / 2 : ℚ))
        = dataCost (Buf.ofFn 16 (fun _ : Nat => (0 : ℚ))) (Buf.new (2 * 27)) 1 1 2
          ((1 : Nat) : ℚ) (Buf.ofFn 16 (fun p : Nat => p * 37))
          (Buf.ofFn 16 (fun p : Nat => p * 11 + 5)) 0 2 4 2 2 8 rnd') ∧
    (∀ (q : Nat) (F G : Nat → Nat), ((1 : Nat) : ℚ) = (q : ℚ) → (1 : ℚ) ≠ 0 → 1 ≤ q → 1 ≤ 2 →
      4 * 2 * 2 ≤ (Buf.ofFn 16 (fun _ : Nat => (0 : ℚ))).size →
      (∀ p, p < 4 * 2 * 2 → ∃ v, (Buf.ofFn 16 (fun _ : Nat => (0 : ℚ))).data p = some v) →
      4 * 2 * 2 ≤ (Buf.ofFn 16 (fun p : Nat => p * 37)).size →
      4 * 2 * 2 ≤ (Buf.ofFn 16 (fun p : Nat => p * 11 + 5)).size →
      (∀ p, p < 4 * 2 * 2 →
        (Buf.ofFn 16 (fun p : Nat => p * 37)).data p = some (F p) ∧ F p < 2 ^ 64) →
      (∀ p, p < 4 * 2 * 2 →
        (Buf.ofFn 16 (fun p : Nat => p * 11 + 5)).data p = some (G p) ∧ G p < 2 ^ 64) →
      4 / 2 * (2 / 2) * (2 / 2) * ((1 * 2 + 1) * (1 * 2 + 1) * (1 * 2 + 1))
        ≤ (Buf.new (2 * 27) : Buf ℚ).size →
      ∃ out out',
        dataCost (Buf.ofFn 16 (fun _ : Nat => (0 : ℚ))) (Buf.new (2 * 27)) 1 1 2
          ((1 : Nat) : ℚ) (Buf.ofFn 16 (fun p : Nat => p * 37))
          (Buf.ofFn 16 (fun p : Nat => p * 11 + 5)) 0 2 4 2 2 8 (fun _ : Nat => (1 / 2 : ℚ))
          = Except.ok out ∧
        dataCost (Buf.ofFn 16 (fun _ : Nat => (0 : ℚ))) (Buf.new (2 * 27)) 1 1 2
          ((1 : Nat) : ℚ) (Buf.ofFn 16 (fun p : Nat => p * 37))
          (Buf.ofFn 16 (fun p : Nat => p * 11 + 5)) 1 2 4 2 2 8 (fun _ : Nat => (1 / 2 : ℚ))
          = Except.ok out') :=
  dataCost_partition_independent (Buf.ofFn 16 (fun _ : Nat => (0 : ℚ))) (Buf.new (2 * 27)) 1 1 2
    ((1 : Nat) : ℚ) (Buf.ofFn 16 (fun p : Nat => p * 37))
    (Buf.ofFn 16 (fun p : Nat => p * 11 + 5)) 0 2 1 2 4 2 2 8 (fun _ : Nat => (1 / 2 : ℚ)) 1
    (by decide) (by decide) (by decide) (by decide) (by decide) (by decide) (by decide)


/-! ## Linear regression -/

theorem foldl_add_eq_sum (l : List ℚ) : ∀ acc : ℚ,
    l.foldl (fun acc v => acc + v) acc = acc + ∑ i in Finset.range l.length, l.getD i 0 := by
  induction l with
  | nil => intro acc; simp
  | cons a t ih =>
    intro acc
    rw [List.foldl_cons, ih, List.length_cons, Finset.sum_range_succ']
    simp only [List.getD_cons_succ, List.getD_cons_zero]
    ring

theorem vec_mean_eq (x : List ℚ) (h : x.length ≠ 0) :
    vec_mean x = Except.ok (seqMean x.length (fun i => x.getD i 0)) := by
  unfold vec_mean seqMean
  rw [if_neg h, foldl_add_eq_sum, zero_add]

theorem vecAt_eq (x : List ℚ) (i : Nat) (h : i < x.length) :
    vecAt x i = Except.ok (x.getD i 0) := by
  unfold vecAt
  rw [List.get?_eq_get h]
  simp [List.getD_eq_getElem?_getD, List.getElem?_eq_getElem h]

/-- The loop of `linreg` accumulates the sum of squares `Sx` and the sum of
products `Sxy` of the deviations from the means. -/
theorem linreg.loop_spec (y x : List ℚ) (ym xm : ℚ) (hlen : y.length ≤ x.length) :
    forLoop (linreg.accumulate y x ym xm) 0 y.length ((0 : ℚ), (0 : ℚ))
      = Except.ok (∑ i in Finset.range y.length, (x.getD i 0 - xm) * (x.getD i 0 - xm),
          ∑ i in Finset.range y.length, (x.getD i 0 - xm) * (y.getD i 0 - ym)) := by
  obtain ⟨s, hs, h1, h2⟩ := forLoop_inv
    (fun n (s : ℚ × ℚ) =>
      s.1 = ∑ i in Finset.range n, (x.getD i 0 - xm) * (x.getD i 0 - xm) ∧
      s.2 = ∑ i in Finset.range n, (x.getD i 0 - xm) * (y.getD i 0 - ym))
    (linreg.accumulate y x ym xm) y.length 0 ((0 : ℚ), (0 : ℚ)) ⟨by simp, by simp⟩
    (by
      rintro i s _ hi ⟨h1, h2⟩
      have ex := vecAt_eq x i (by omega)
      have ey := vecAt_eq y i (by omega)
      refine ⟨_, by simp only [linreg.accumulate, ex, ey, ok_bind, pure_eq_ok]; rfl, ?_, ?_⟩
      · simp only [Finset.sum_range_succ, h1]
      · simp only [Finset.sum_range_succ, h2])
  rw [hs]
  simp only [Nat.zero_add] at h1 h2
  rw [← h1, ← h2]

theorem sum_dev_zero (n : Nat) (f : Nat → ℚ) (hn : n ≠ 0) :
    ∑ i in Finset.range n, (f i - seqMean n f) = 0 := by
  have hn0 : (n : ℚ) ≠ 0 := by exact_mod_cast hn
  rw [Finset.sum_sub_distrib, Finset.sum_const, Finset.card_range, nsmul_eq_mul]
  unfold seqMean
  field_simp

/-- The sum of squares `Sx` vanishes only if all values are equal. -/
theorem sum_sq_dev_pos (n : Nat) (f : Nat → ℚ) (i j : Nat) (hi : i < n) (hj : j < n)
    (hne : f i ≠ f j) :
    0 < ∑ t in Finset.range n, (f t - seqMean n f) * (f t - seqMean n f) := by
  have hnn : ∀ t ∈ Finset.range n, 0 ≤ (f t - seqMean n f) * (f t - seqMean n f) :=
    fun t _ => mul_self_nonneg _
  rcases lt_or_eq_of_le (Finset.sum_nonneg hnn) with h | h
  · exact h
  · exfalso
    have hz := (Finset.sum_eq_zero_iff_of_nonneg hnn).mp h.symm
    have e1 := mul_self_eq_zero.mp (hz i (Finset.mem_range.mpr hi))
    have e2 := mul_self_eq_zero.mp (hz j (Finset.mem_range.mpr hj))
    apply hne
    linarith

/-- Specification of `linreg` on vectors of equal length with at least two
distinct `x` values: the gradient is `Sxy/Sx` and the intercept is
`mean(y) - b*mean(x)`. -/
theorem linreg_spec (y x : List ℚ) (hlen : y.length = x.length) (i j : Nat)
    (hi : i < x.length) (hj : j < x.length) (hne : x.getD i 0 ≠ x.getD j 0) :
    linreg y x = Except.ok
      (seqMean x.length (fun t => y.getD t 0)
        - (∑ t in Finset.range x.length, (x.getD t 0 - seqMean x.length (fun t => x.getD t 0))
              * (y.getD t 0 - seqMean x.length (fun t => y.getD t 0)))
          / (∑ t in Finset.range x.length,
              (x.getD t 0 - seqMean x.length (fun t => x.getD t 0))
              * (x.getD t 0 - seqMean x.length (fun t => x.getD t 0)))
          * seqMean x.length (fun t => x.getD t 0),
       (∑ t in Finset.range x.length, (x.getD t 0 - seqMean x.length (fun t => x.getD t 0))
              * (y.getD t 0 - seqMean x.length (fun t => y.getD t 0)))
          / (∑ t in Finset.range x.length,
              (x.getD t 0 - seqMean x.length (fun t => x.getD t 0))
              * (x.getD t 0 - seqMean x.length (fun t => x.getD t 0)))) := by
  have hx0 : x.length ≠ 0 := by omega
  have hy0 : y.length ≠ 0 := by omega
  have hpos := sum_sq_dev_pos x.length (fun t => x.getD t 0) i j hi hj hne
  unfold linreg
  rw [vec_mean_eq y hy0, vec_mean_eq x hx0]
  simp only [ok_bind]
  rw [linreg.loop_spec y x _ _ (by omega)]
  simp only [ok_bind, hlen]
  rw [if_neg (ne_of_gt hpos)]
  rfl

/-- The least-squares identity: the sum of squared residuals of any line
exceeds that of the regression line by `n*c^2 + d^2*Sx`. -/
theorem sumSqRes_decomp (n : Nat) (x y : Nat → ℚ) (a b a' b' : ℚ) (hn : n ≠ 0)
    (ha : a = seqMean n y - b * seqMean n x)
    (hb : b * (∑ t in Finset.range n, (x t - seqMean n x) * (x t - seqMean n x))
      = ∑ t in Finset.range n, (x t - seqMean n x) * (y t - seqMean n y)) :
    sumSqRes n x y a' b' = sumSqRes n x y a b
      + (n : ℚ) * ((a' - a) + (b' - b) * seqMean n x) ^ 2
      + (b' - b) ^ 2 * ∑ t in Finset.range n, (x t - seqMean n x) * (x t - seqMean n x) := by
  have hx := sum_dev_zero n x hn
  have hy := sum_dev_zero n y hn
  have key : ∀ t, (y t - a' - b' * x t) ^ 2 = (y t - a - b * x t) ^ 2
      + ((a' - a) + (b' - b) * seqMean n x) ^ 2
      + (b' - b) ^ 2 * ((x t - seqMean n x) * (x t - seqMean n x))
      - 2 * ((a' - a) + (b' - b) * seqMean n x) * (y t - seqMean n y)
      + 2 * ((a' - a) + (b' - b) * seqMean n x) * b * (x t - seqMean n x)
      - 2 * (b' - b) * ((x t - seqMean n x) * (y t - seqMean n y))
      + 2 * (b' - b) * b * ((x t - seqMean n x) * (x t - seqMean n x))
      + 2 * ((a' - a) + (b' - b) * seqMean n x) * (b' - b) * (x t - seqMean n x) := by
    intro t
    rw [ha]
    ring
  unfold sumSqRes
  rw [Finset.sum_congr rfl (fun t _ => key t)]
  simp only [Finset.sum_add_distrib, Finset.sum_sub_distrib, ← Finset.mul_sum, hx, hy,
    Finset.sum_const, Finset.card_range, nsmul_eq_mul, mul_zero, sub_zero, add_zero]
  rw [← hb]
  ring

/-- Claim C16: over exact rational arithmetic, for equal-length vectors with
at least two distinct `x` values whose points lie on the line
`y = a0 + b0*x`, `linreg(y, x)` returns `(a0, b0)`: intercept first, gradient
second. -/
theorem linreg_exact_line (y x : List ℚ) (a0 b0 : ℚ) (hlen : y.length = x.length) (i j : Nat)
    (hi : i < x.length) (hj : j < x.length) (hne : x.getD i 0 ≠ x.getD j 0)
    (hline : ∀ t, t < x.length → y.getD t 0 = a0 + b0 * x.getD t 0) :
    linreg y x = Except.ok (a0, b0) := by
  rw [linreg_spec y x hlen i j hi hj hne]
  have hn : x.length ≠ 0 := by omega
  have hn0 : (x.length : ℚ) ≠ 0 := by exact_mod_cast hn
  have hpos := sum_sq_dev_pos x.length (fun t => x.getD t 0) i j hi hj hne
  have hmean : seqMean x.length (fun t => y.getD t 0)
      = a0 + b0 * seqMean x.length (fun t => x.getD t 0) := by
    unfold seqMean
    rw [Finset.sum_congr rfl (fun t ht => hline t (Finset.mem_range.mp ht)),
      Finset.sum_add_distrib, ← Finset.mul_sum, Finset.sum_const, Finset.card_range,
      nsmul_eq_mul]
    field_simp
    ring
  have hxy : ∑ t in Finset.range x.length,
      (x.getD t 0 - seqMean x.length (fun t => x.getD t 0))
        * (y.getD t 0 - seqMean x.length (fun t => y.getD t 0))
      = b0 * ∑ t in Finset.range x.length,
        (x.getD t 0 - seqMean x.length (fun t => x.getD t 0))
          * (x.getD t 0 - seqMean x.length (fun t => x.getD t 0)) := by
    rw [Finset.mul_sum]
    apply Finset.sum_congr rfl
    intro t ht
    rw [hmean, hline t (Finset.mem_range.mp ht)]
    ring
  rw [hxy, mul_div_assoc, div_self (ne_of_gt hpos), mul_one, hmean]
  congr 2
  ring

/-- Witness for claim C16: the test vectors `x = {1.5,2.5,3.5,4.5,5.5}`,
`y = {2,4,6,8,10}` give `a = -1`, `b = 2`. -/
theorem linreg_exact_line_witness :
    linreg [2, 4, 6, 8, 10] [3 / 2, 5 / 2, 7 / 2, 9 / 2, 11 / 2] = Except.ok (-1, 2) :=
  linreg_exact_line [2, 4, 6, 8, 10] [3 / 2, 5 / 2, 7 / 2, 9 / 2, 11 / 2] (-1) 2 rfl 0 1
    (by decide) (by decide) (by norm_num)
    (fun t ht => by
      have h5 : t < 5 := ht
      interval_cases t <;> norm_num)

/-- Claim C17: over exact rational arithmetic, for equal-length vectors with
at least two distinct `x` values, `linreg(y, x)` returns `(a, b)` with
`b = Cov(x,y)/Var(x)` and `a = mean(y) - b*mean(x)`, and this pair minimises
the sum of squared residuals over all `(a', b')`. -/
theorem linreg_least_squares (y x : List ℚ) (hlen : y.length = x.length) (i j : Nat)
    (hi : i < x.length) (hj : j < x.length) (hne : x.getD i 0 ≠ x.getD j 0) :
    ∃ a b : ℚ, linreg y x = Except.ok (a, b) ∧
      b = seqCov x.length (fun t => x.getD t 0) (fun t => y.getD t 0)
            / seqVar x.length (fun t => x.getD t 0) ∧
      a = seqMean x.length (fun t => y.getD t 0) - b * seqMean x.length (fun t => x.getD t 0) ∧
      ∀ a' b' : ℚ,
        sumSqRes x.length (fun t => x.getD t 0) (fun t => y.getD t 0) a b
          ≤ sumSqRes x.length (fun t => x.getD t 0) (fun t => y.getD t 0) a' b' := by
  have hn : x.length ≠ 0 := by omega
  have hn0 : (x.length : ℚ) ≠ 0 := by exact_mod_cast hn
  have hpos := sum_sq_dev_pos x.length (fun t => x.getD t 0) i j hi hj hne
  refine ⟨_, _, linreg_spec y x hlen i j hi hj hne, ?_, rfl, ?_⟩
  · unfold seqCov seqVar
    field_simp
  · intro a' b'
    rw [sumSqRes_decomp x.length (fun t => x.getD t 0) (fun t => y.getD t 0) _ _ a' b' hn rfl
      (by rw [div_mul_cancel₀ _ (ne_of_gt hpos)])]
    have h1 : 0 ≤ (x.length : ℚ) * ((a' - (seqMean x.length (fun t => y.getD t 0)
        - (∑ t in Finset.range x.length,
              (x.getD t 0 - seqMean x.length (fun t => x.getD t 0))
              * (y.getD t 0 - seqMean x.length (fun t => y.getD t 0)))
          / (∑ t in Finset.range x.length,
              (x.getD t 0 - seqMean x.length (fun t => x.getD t 0))
              * (x.getD t 0 - seqMean x.length (fun t => x.getD t 0)))
          * seqMean x.length (fun t => x.getD t 0)))
        + (b' - (∑ t in Finset.range x.length,
              (x.getD t 0 - seqMean x.length (fun t => x.getD t 0))
              * (y.getD t 0 - seqMean x.length (fun t => y.getD t 0)))
          / (∑ t in Finset.range x.length,
              (x.getD t 0 - seqMean x.length (fun t => x.getD t 0))
              * (x.getD t 0 - seqMean x.length (fun t => x.getD t 0))))
          * seqMean x.length (fun t => x.getD t 0)) ^ 2 :=
      mul_nonneg (Nat.cast_nonneg _) (sq_nonneg _)
    have h2 := mul_nonneg (sq_nonneg (b' - (∑ t in Finset.range x.length,
              (x.getD t 0 - seqMean x.length (fun t => x.getD t 0))
              * (y.getD t 0 - seqMean x.length (fun t => y.getD t 0)))
          / (∑ t in Finset.range x.length,
              (x.getD t 0 - seqMean x.length (fun t => x.getD t 0))
              * (x.getD t 0 - seqMean x.length (fun t => x.getD t 0))))) (le_of_lt hpos)
    linarith

/-- Witness for claim C17: the test vectors `x = {1,2,4,8}`,
`y = {12,56,34,89}` give `b = 1023/115` and `a = 331/23`. -/
theorem linreg_least_squares_witness :
    (linreg [12, 56, 34, 89] [1, 2, 4, 8]).toOption = some (331 / 23, 1023 / 115) ∧
    ∃ a b : ℚ, linreg [12, 56, 34, 89] [1, 2, 4, 8] = Except.ok (a, b) ∧
      b = seqCov ([1, 2, 4, 8] : List ℚ).length (fun t => ([1, 2, 4, 8] : List ℚ).getD t 0)
              (fun t => ([12, 56, 34, 89] : List ℚ).getD t 0)
            / seqVar ([1, 2, 4, 8] : List ℚ).length (fun t => ([1, 2, 4, 8] : List ℚ).getD t 0) ∧
      a = seqMean ([1, 2, 4, 8] : List ℚ).length (fun t => ([12, 56, 34, 89] : List ℚ).getD t 0)
          - b * seqMean ([1, 2, 4, 8] : List ℚ).length
              (fun t => ([1, 2, 4, 8] : List ℚ).getD t 0) ∧
      ∀ a' b' : ℚ,
        sumSqRes ([1, 2, 4, 8] : List ℚ).length (fun t => ([1, 2, 4, 8] : List ℚ).getD t 0)
            (fun t => ([12, 56, 34, 89] : List ℚ).getD t 0) a b
          ≤ sumSqRes ([1, 2, 4, 8] : List ℚ).length (fun t => ([1, 2, 4, 8] : List ℚ).getD t 0)
            (fun t => ([12, 56, 34, 89] : List ℚ).getD t 0) a' b' :=
  ⟨by decide!, linreg_least_squares [12, 56, 34, 89] [1, 2, 4, 8] rfl 0 1 (by decide) (by decide)
    (by norm_num)⟩
/-! ## `T10_single_linear`: range of the estimate -/

/-- The estimate is a number between 0 and 5 unless `-TR/log(b)` is `0/0`. -/
theorem T10_single_linear.estimate_range (log : ℚ → ℚ) (b : Dbl) (TR : ℚ)
    (h : ¬ (TR = 0 ∧ ∃ q, b = Dbl.fin q ∧ 0 < q ∧ log q = 0)) :
    ∃ q, T10_single_linear.estimate log b TR = Dbl.fin q ∧ 0 ≤ q ∧ q ≤ 5 := by
  have clamp : ∀ t : Dbl, t ≠ Dbl.nan →
      ∃ q, (if Dbl.lt (if Dbl.lt (Dbl.fin 5) t then Dbl.fin 5 else t) (Dbl.fin 0) then Dbl.fin 0
        else (if Dbl.lt (Dbl.fin 5) t then Dbl.fin 5 else t)) = Dbl.fin q ∧ 0 ≤ q ∧ q ≤ 5 := by
    intro t ht
    cases t with
    | nan => exact absurd rfl ht
    | pinf => exact ⟨5, by simp [Dbl.lt], by norm_num, le_refl _⟩
    | ninf => exact ⟨0, by simp [Dbl.lt], le_refl _, by norm_num⟩
    | fin v =>
      by_cases h5 : 5 < v
      · exact ⟨5, by simp [Dbl.lt, h5], by norm_num, le_refl _⟩
      · by_cases h0 : v < 0
        · exact ⟨0, by simp [Dbl.lt, h5, h0], le_refl _, by norm_num⟩
        · exact ⟨v, by simp [Dbl.lt, h5, h0], by linarith, by linarith⟩
  unfold T10_single_linear.estimate
  apply clamp
  cases b with
  | nan => simp [Dbl.lt]
  | ninf => simp [Dbl.lt]
  | pinf => simp [Dbl.lt, Dbl.log, Dbl.div, Dbl.neg]
  | fin q =>
    by_cases hq : 0 < q
    · by_cases hl : log q = 0
      · have hT : TR ≠ 0 := fun hT => h ⟨hT, q, rfl, hq, hl⟩
        by_cases hs : 0 < -TR
        · simp [Dbl.lt, Dbl.log, Dbl.div, Dbl.neg, Dbl.signedInf, hq, hl, hT, hs]
        · simp [Dbl.lt, Dbl.log, Dbl.div, Dbl.neg, Dbl.signedInf, hq, hl, hT, hs]
      · simp [Dbl.lt, Dbl.log, Dbl.div, Dbl.neg, hq, hl]
    · simp [Dbl.lt, hq]

/-- The estimate is 0 when the test `b > 0` fails. -/
theorem T10_single_linear.estimate_nonpos (log : ℚ → ℚ) (b : Dbl) (TR : ℚ)
    (h : Dbl.lt (Dbl.fin 0) b = false) :
    T10_single_linear.estimate log b TR = Dbl.fin 0 := by
  unfold T10_single_linear.estimate
  simp only [h, Bool.false_eq_true, if_false]
  simp [Dbl.lt]

/-- A gradient `b <= 0` fails the test `b > 0`. -/
theorem Dbl.not_pos_of_le (b : Dbl) (h : Dbl.le b (Dbl.fin 0) = true) :
    Dbl.lt (Dbl.fin 0) b = false := by
  cases b with
  | nan => rfl
  | ninf => rfl
  | pinf => simp [Dbl.le] at h
  | fin q =>
    simp only [Dbl.le, decide_eq_true_eq] at h
    simp only [Dbl.lt, decide_eq_false_iff_not, not_lt]
    exact h

/-- For `TR > 0` the estimate is 0 when `b >= 1`, the logarithm being
nonnegative from 1 on. -/
theorem T10_single_linear.estimate_ge_one (log : ℚ → ℚ) (b : Dbl) (TR : ℚ)
    (hlog : ∀ q, 1 ≤ q → 0 ≤ log q) (hTR : 0 < TR) (h : Dbl.le (Dbl.fin 1) b = true) :
    T10_single_linear.estimate log b TR = Dbl.fin 0 := by
  unfold T10_single_linear.estimate
  cases b with
  | nan => simp [Dbl.le] at h
  | ninf => simp [Dbl.le] at h
  | pinf => simp [Dbl.lt, Dbl.log, Dbl.div, Dbl.neg]
  | fin q =>
    simp only [Dbl.le, decide_eq_true_eq] at h
    have hq : 0 < q := by linarith
    have hl := hlog q h
    have hs : ¬ (0 < -TR) := by linarith
    have hT : TR ≠ 0 := ne_of_gt hTR
    by_cases hl0 : log q = 0
    · simp [Dbl.lt, Dbl.log, Dbl.div, Dbl.neg, Dbl.signedInf, hq, hl0, hT, hs]
    · have hlpos : 0 < log q := lt_of_le_of_ne hl (Ne.symm hl0)
      have hneg : -TR / log q < 0 := div_neg_of_neg_of_pos (by linarith) hlpos
      have h5 : ¬ (5 < -TR / log q) := by linarith
      simp [Dbl.lt, Dbl.log, Dbl.div, Dbl.neg, hq, hl0, h5, hneg]

/-- For `TR = 0` and `b = 1` the estimate is NaN. -/
theorem T10_single_linear.estimate_nan (log : ℚ → ℚ) (hlog : log 1 = 0) :
    T10_single_linear.estimate log (Dbl.fin 1) 0 = Dbl.nan := by
  unfold T10_single_linear.estimate
  simp [Dbl.lt, Dbl.log, Dbl.div, Dbl.neg, Dbl.signedInf, hlog]

/-- Element access inside a vector. -/
theorem Dbl.getAt_ok (x : List Dbl) (i : Nat) (h : i < x.length) :
    ∃ v, Dbl.getAt x i = Except.ok v := by
  unfold Dbl.getAt
  rw [List.get?_eq_get h]
  exact ⟨_, rfl⟩

/-- The loop of `T10_single_linear` that fills `x` and `y` returns two vectors
of `num_fa` elements when the inputs have at least `num_fa` elements. -/
theorem T10_single_linear.points_ok (tan sin : ℚ → ℚ) (favox fa_rad : List ℚ) (num_fa : Nat)
    (h1 : num_fa ≤ favox.length) (h2 : num_fa ≤ fa_rad.length) :
    ∃ s, T10_single_linear.points tan sin favox fa_rad num_fa = Except.ok s ∧
      s.1.length = num_fa ∧ s.2.length = num_fa := by
  unfold T10_single_linear.points
  obtain ⟨s, hs, hI⟩ := forLoop_inv
    (fun _ (s : List Dbl × List Dbl) => s.1.length = num_fa ∧ s.2.length = num_fa)
    (T10_single_linear.fill tan sin favox fa_rad) num_fa 0
    (List.replicate num_fa (Dbl.fin 0), List.replicate num_fa (Dbl.fin 0))
    ⟨by simp, by simp⟩
    (by
      rintro i s _ hi ⟨g1, g2⟩
      have ex := vecAt_eq favox i (by omega)
      have ey := vecAt_eq fa_rad i (by omega)
      have a1 : i < s.1.length := by omega
      have a2 : i < s.2.length := by omega
      refine ⟨(s.1.set i (Dbl.div (Dbl.fin (favox.getD i 0)) (Dbl.fin (tan (fa_rad.getD i 0)))),
        s.2.set i (Dbl.div (Dbl.fin (favox.getD i 0)) (Dbl.fin (sin (fa_rad.getD i 0))))),
        ?_, ?_, ?_⟩
      · unfold T10_single_linear.fill
        simp only [ex, ey, Dbl.assign, if_pos a1, if_pos a2, ok_bind, pure_eq_ok]
      · simp only [List.length_set]
        exact g1
      · simp only [List.length_set]
        exact g2)
  exact ⟨s, hs, hI⟩

/-- The regression returns when `x` is at least as long as `y`. -/
theorem Dbl.linreg_ok (y x : List Dbl) (h : y.length ≤ x.length) :
    ∃ ab, Dbl.linreg y x = Except.ok ab := by
  unfold Dbl.linreg
  obtain ⟨s, hs, _⟩ := forLoop_inv (fun _ (_ : Dbl × Dbl) => True)
    (Dbl.accumulate y x (Dbl.vec_mean y) (Dbl.vec_mean x)) y.length 0 (Dbl.fin 0, Dbl.fin 0)
    trivial
    (by
      intro i s _ hi _
      obtain ⟨vx, ex⟩ := Dbl.getAt_ok x i (by omega)
      obtain ⟨vy, ey⟩ := Dbl.getAt_ok y i (by omega)
      refine ⟨(Dbl.add s.1 (Dbl.mul (Dbl.sub vx (Dbl.vec_mean x)) (Dbl.sub vx (Dbl.vec_mean x))),
        Dbl.add s.2 (Dbl.mul (Dbl.sub vx (Dbl.vec_mean x)) (Dbl.sub vy (Dbl.vec_mean y)))),
        ?_, trivial⟩
      unfold Dbl.accumulate
      simp only [ex, ey, ok_bind, pure_eq_ok])
  simp only [hs, ok_bind, pure_eq_ok]
  exact ⟨_, rfl⟩

/-- A run of `T10_single_linear` that returns has returned the estimate for
the gradient of the fit. -/
theorem T10_single_linear_inv (tan sin log : ℚ → ℚ) (favox fa_rad : List ℚ) (num_fa : Nat)
    (TR : ℚ) (t1 : Dbl)
    (h : T10_single_linear tan sin log favox fa_rad num_fa TR = Except.ok t1) :
    ∃ x y a b, T10_single_linear.points tan sin favox fa_rad num_fa = Except.ok (x, y) ∧
      Dbl.linreg y x = Except.ok (a, b) ∧ t1 = T10_single_linear.estimate log b TR := by
  unfold T10_single_linear at h
  simp only [bind_eq_ok, pure_eq_ok] at h
  obtain ⟨s, e1, ab, e2, e3⟩ := h
  exact ⟨s.1, s.2, ab.1, ab.2, e1, e2, (Except.ok.inj e3).symm⟩

/-- The run returns when the inputs have at least `num_fa` elements. -/
theorem T10_single_linear_ok (tan sin log : ℚ → ℚ) (favox fa_rad : List ℚ) (num_fa : Nat)
    (TR : ℚ) (h1 : num_fa ≤ favox.length) (h2 : num_fa ≤ fa_rad.length) :
    ∃ t1, T10_single_linear tan sin log favox fa_rad num_fa TR = Except.ok t1 := by
  obtain ⟨s, es, g1, g2⟩ := T10_single_linear.points_ok tan sin favox fa_rad num_fa h1 h2
  obtain ⟨ab, eab⟩ := Dbl.linreg_ok s.2 s.1 (by omega)
  unfold T10_single_linear
  simp only [es, eab, ok_bind, pure_eq_ok]
  exact ⟨_, rfl⟩

/-- Claim C36, amended: for finite inputs and a logarithm that is nonnegative
from 1 on and vanishes only at 1, every run of `T10_single_linear` that
returns has fitted a gradient `b` (second component of `linreg(y, x)`) and
returned `t1` such that: unless `TR = 0` and `b = 1`, `t1` is a number with
`0 <= t1 <= 5`; `t1 = 0` whenever `b <= 0`, also when `b` is NaN; and for
`TR > 0`, `t1 = 0` whenever `b >= 1`.  The run returns when both input
vectors have at least `num_fa` elements. -/
theorem T10_single_linear_range (tan sin log : ℚ → ℚ) (favox fa_rad : List ℚ) (num_fa : Nat)
    (TR : ℚ) (hlog0 : ∀ q, 0 < q → log q = 0 → q = 1) (hlog1 : ∀ q, 1 ≤ q → 0 ≤ log q) :
    (∀ t1, T10_single_linear tan sin log favox fa_rad num_fa TR = Except.ok t1 →
      ∃ x y a b, T10_single_linear.points tan sin favox fa_rad num_fa = Except.ok (x, y) ∧
        Dbl.linreg y x = Except.ok (a, b) ∧
        (¬ (TR = 0 ∧ b = Dbl.fin 1) → ∃ q, t1 = Dbl.fin q ∧ 0 ≤ q ∧ q ≤ 5) ∧
        (Dbl.le b (Dbl.fin 0) = true → t1 = Dbl.fin 0) ∧
        (b = Dbl.nan → t1 = Dbl.fin 0) ∧
        (0 < TR → Dbl.le (Dbl.fin 1) b = true → t1 = Dbl.fin 0)) ∧
    (num_fa ≤ favox.length → num_fa ≤ fa_rad.length →
      ∃ t1, T10_single_linear tan sin log favox fa_rad num_fa TR = Except.ok t1) := by
  refine ⟨?_, fun h1 h2 => T10_single_linear_ok tan sin log favox fa_rad num_fa TR h1 h2⟩
  intro t1 hrun
  obtain ⟨x, y, a, b, e1, e2, e3⟩ :=
    T10_single_linear_inv tan sin log favox fa_rad num_fa TR t1 hrun
  subst e3
  refine ⟨x, y, a, b, e1, e2, ?_, ?_, ?_, ?_⟩
  · intro h
    apply T10_single_linear.estimate_range
    rintro ⟨hT, q, rfl, hq, hl⟩
    exact h ⟨hT, by rw [hlog0 q hq hl]⟩
  · intro h
    exact T10_single_linear.estimate_nonpos log b TR (Dbl.not_pos_of_le b h)
  · intro h
    subst h
    exact T10_single_linear.estimate_nonpos log Dbl.nan TR rfl
  · intro hTR h
    exact T10_single_linear.estimate_ge_one log b TR hlog1 hTR h

/-- Instance of claim C36 (amended): signals `(3, 5, 6)` at the flip angles
`(1/10, 1/5, 3/10)` with `TR = 1/200`, the library functions being replaced by
`tan f = f + f^3/3`, `sin f = f - f^3/6` and `log q = q - 1`. -/
theorem T10_single_linear_range_witness :
    (∀ t1, T10_single_linear (fun f => f + f ^ 3 / 3) (fun f => f - f ^ 3 / 6) (fun q => q - 1)
        [3, 5, 6] [1 / 10, 1 / 5, 3 / 10] 3 (1 / 200) = Except.ok t1 →
      ∃ x y a b, T10_single_linear.points (fun f => f + f ^ 3 / 3) (fun f => f - f ^ 3 / 6)
          [3, 5, 6] [1 / 10, 1 / 5, 3 / 10] 3 = Except.ok (x, y) ∧
        Dbl.linreg y x = Except.ok (a, b) ∧
        (¬ ((1 / 200 : ℚ) = 0 ∧ b = Dbl.fin 1) → ∃ q, t1 = Dbl.fin q ∧ 0 ≤ q ∧ q ≤ 5) ∧
        (Dbl.le b (Dbl.fin 0) = true → t1 = Dbl.fin 0) ∧
        (b = Dbl.nan → t1 = Dbl.fin 0) ∧
        ((0 : ℚ) < 1 / 200 → Dbl.le (Dbl.fin 1) b = true → t1 = Dbl.fin 0)) ∧
    ∃ t1, T10_single_linear (fun f => f + f ^ 3 / 3) (fun f => f - f ^ 3 / 6) (fun q => q - 1)
        [3, 5, 6] [1 / 10, 1 / 5, 3 / 10] 3 (1 / 200) = Except.ok t1 :=
  have h := T10_single_linear_range (fun f => f + f ^ 3 / 3) (fun f => f - f ^ 3 / 6)
    (fun q => q - 1) [3, 5, 6] [1 / 10, 1 / 5, 3 / 10] 3 (1 / 200)
    (fun q _ h => by
      have h' : q - 1 = 0 := h
      linarith)
    (fun q h => by
      show 0 ≤ q - 1
      linarith)
  ⟨h.1, h.2 (by decide) (by decide)⟩

/-- Counterexample to claim C36 as stated: for the signals `(1, 4)` at the
flip angles `(1e-9, 2e-9)`, small enough that `sin f` and `tan f` both round
to `f` in `double` arithmetic, the vectors `x` and `y` are equal, the fitted
gradient is exactly 1, `log(1) = 0`, and with `TR = 0` the quotient `-TR/v1`
is `0/0`: the run returns NaN, which passes both clamps.  (The library
functions are replaced by `tan f = sin f = f` and `log q = q - 1`, which agree
with them at the arguments used.) -/
theorem T10_single_linear_nan :
    (T10_single_linear.points (fun f => f) (fun f => f) [1, 4]
        [1 / 1000000000, 2 / 1000000000] 2 >>= fun s => Dbl.linreg s.2 s.1).toOption.map
      Prod.snd = some (Dbl.fin 1) ∧
    (T10_single_linear (fun f => f) (fun f => f) (fun q => q - 1) [1, 4]
      [1 / 1000000000, 2 / 1000000000] 2 0).toOption = some Dbl.nan := by
  decide!

/-! ## Command line of `main` -/

/-- Shape of the actions of `main.finish`: whatever was parsed, the last two
actions are the announcement and the call of `deeds`, the return value is `0`,
and a disagreement between a count and `maxlevel` only adds a message. -/
theorem main.finish_spec (s : MainState) :
    ∃ pre : List Event,
      main.finish s = (pre ++ [Event.callingDeeds s.symmetric s.alpha,
        Event.deeds s.fixedfile s.movingfile s.movsegfile s.outputstem s.randsamp s.alpha
          s.maxlevel s.s_grid s.s_search s.s_quant s.segment s.symmetric], 0) ∧
      (s.num ≠ s.maxlevel ∨ s.num2 ≠ s.maxlevel ∨ s.num3 ≠ s.maxlevel →
        ∃ pre0, pre = pre0 ++ [Event.levelMismatch]) := by
  unfold main.finish
  by_cases h1 : s.requiredArgs ≠ 3 <;>
    by_cases h2 : s.num ≠ s.maxlevel ∨ s.num2 ≠ s.maxlevel ∨ s.num3 ≠ s.maxlevel
  · exact ⟨s.out ++ [Event.missingArguments] ++ [Event.levelMismatch],
      by simp [h1, h2], fun _ => ⟨_, rfl⟩⟩
  · exact ⟨s.out ++ [Event.missingArguments], by simp [h1, h2], fun h => absurd h h2⟩
  · exact ⟨s.out ++ [Event.levelMismatch], by simp [h1, h2], fun _ => ⟨_, rfl⟩⟩
  · exact ⟨s.out, by simp [h1, h2], fun h => absurd h h2⟩

/-- Result of `main` on a command line that passes the usage test and whose
options are parsed to the state `s`. -/
theorem main_spec (argv : List Arg) (a1 : Arg) (s : MainState)
    (hlen : 4 ≤ argv.length) (ha : argv.get? 1 = some a1) (hh : a1.c1 ≠ 'h')
    (hparse : main.parse argv = Except.ok s) :
    main argv = Except.ok (main.finish s) := by
  unfold main
  have h4 : ¬ argv.length < 4 := by omega
  simp only [h4, if_false, main.next, ha]
  show (if a1.c1 = 'h' then _ else _) = _
  rw [if_neg hh, hparse]
  rfl

/-- Claim C19, amended: when, after the options are parsed, the number of
values read for grid spacing, search radius or quantisation differs from the
requested number of levels, `main` writes the mismatch message and then still
announces and invokes `deeds` with the values as parsed, and returns 0. -/
theorem main_level_mismatch_reported (argv : List Arg) (a1 : Arg) (s : MainState)
    (hlen : 4 ≤ argv.length) (ha : argv.get? 1 = some a1) (hh : a1.c1 ≠ 'h')
    (hparse : main.parse argv = Except.ok s)
    (hmis : s.num ≠ s.maxlevel ∨ s.num2 ≠ s.maxlevel ∨ s.num3 ≠ s.maxlevel) :
    ∃ pre : List Event,
      main argv = Except.ok (pre ++ [Event.levelMismatch,
        Event.callingDeeds s.symmetric s.alpha,
        Event.deeds s.fixedfile s.movingfile s.movsegfile s.outputstem s.randsamp s.alpha
          s.maxlevel s.s_grid s.s_search s.s_quant s.segment s.symmetric], 0) := by
  obtain ⟨pre, h1, h2⟩ := main.finish_spec s
  obtain ⟨pre0, h3⟩ := h2 hmis
  refine ⟨pre0, ?_⟩
  rw [main_spec argv a1 s hlen ha hh hparse, h1, h3]
  simp

/-- Instance of the amended claim C19 on `tmiSAD -F f -M m -O out -l 3 -G 8x7`. -/
theorem main_level_mismatch_reported_witness :
    ∃ s : MainState, main.parse main.mismatchArgs = Except.ok s ∧ s.num = 2 ∧ s.maxlevel = 3 ∧
      ∃ pre : List Event,
        main main.mismatchArgs = Except.ok (pre ++ [Event.levelMismatch,
          Event.callingDeeds s.symmetric s.alpha,
          Event.deeds s.fixedfile s.movingfile s.movsegfile s.outputstem s.randsamp s.alpha
            s.maxlevel s.s_grid s.s_search s.s_quant s.segment s.symmetric], 0) :=
  ⟨_, rfl, rfl, rfl,
    main_level_mismatch_reported main.mismatchArgs (main.opt 'F') _ (by decide) rfl (by decide)
      rfl (Or.inl (by decide))⟩

/-- Counterexample to claim C19 as stated: on `tmiSAD -F f -M m -O out -l 3 -G 8x7`
two grid spacings are supplied for three requested levels, and `main` invokes
`deeds` and returns 0. -/
theorem main_level_mismatch_invokes_deeds :
    (main.parse main.mismatchArgs).toOption.map (fun s => (s.num, s.maxlevel)) = some (2, 3) ∧
    main main.mismatchArgs = Except.ok ([Event.levelMismatch, Event.callingDeeds true 2,
      Event.deeds (some 2) (some 4) none (some 6) 64 2 3 [8, 7, 5, 4, 3, 2, 2, 2, 2, 2]
        [6, 5, 4, 3, 2, 1, 1, 1, 1, 1] [5, 4, 3, 2, 1, 1, 1, 1, 1, 1] false true], 0) :=
  ⟨rfl, rfl⟩

/-! ## `get_mean_point_distance` -/

/-- The value `dist1` on coordinates small enough for `int` arithmetic: the
first argument pair of the call is `(x[m], z[n])`, so the result is
`(z[n]-x[m])^2 + (y[n]-y[m])^2 + (z[n]-z[m])^2`. -/
theorem get_mean_point_distance.dist1_value (X Y Z : Nat → Int) (sz m n : Nat) (hm : m < sz)
    (hn : n < sz)
    (hX : ∀ i, i < sz → |X i| ≤ 10000) (hY : ∀ i, i < sz → |Y i| ≤ 10000)
    (hZ : ∀ i, i < sz → |Z i| ≤ 10000) :
    get_mean_point_distance.dist1 (Buf.ofFn sz X) (Buf.ofFn sz Y) (Buf.ofFn sz Z) m n
      = Except.ok ((Z n - X m) ^ 2 + (Y n - Y m) ^ 2 + (Z n - Z m) ^ 2) := by
  have a1 := abs_le.mp (hX m hm)
  have a2 := abs_le.mp (hY m hm)
  have a3 := abs_le.mp (hZ m hm)
  have a4 := abs_le.mp (hY n hn)
  have a5 := abs_le.mp (hZ n hn)
  unfold get_mean_point_distance.dist1
  simp only [Buf.get_ofFn _ _ _ hm, Buf.get_ofFn _ _ _ hn, ok_bind, pure_eq_ok]
  unfold distance_measure
  have w1 : wrapInt (Z n - X m) = Z n - X m := wrapInt_of_range _ (by omega) (by omega)
  have w2 : wrapInt (Y n - Y m) = Y n - Y m := wrapInt_of_range _ (by omega) (by omega)
  have w3 : wrapInt (Z n - Z m) = Z n - Z m := wrapInt_of_range _ (by omega) (by omega)
  have b1 : (Z n - X m) * (Z n - X m) ≤ 400000000 ∧ 0 ≤ (Z n - X m) * (Z n - X m) :=
    ⟨by nlinarith, mul_self_nonneg _⟩
  have b2 : (Y n - Y m) * (Y n - Y m) ≤ 400000000 ∧ 0 ≤ (Y n - Y m) * (Y n - Y m) :=
    ⟨by nlinarith, mul_self_nonneg _⟩
  have b3 : (Z n - Z m) * (Z n - Z m) ≤ 400000000 ∧ 0 ≤ (Z n - Z m) * (Z n - Z m) :=
    ⟨by nlinarith, mul_self_nonneg _⟩
  simp only [w1, w2, w3]
  rw [wrapInt_of_range ((Z n - X m) * (Z n - X m)) (by omega) (by omega),
    wrapInt_of_range ((Y n - Y m) * (Y n - Y m)) (by omega) (by omega),
    wrapInt_of_range ((Z n - Z m) * (Z n - Z m)) (by omega) (by omega),
    wrapInt_of_range ((Z n - X m) * (Z n - X m) + (Y n - Y m) * (Y n - Y m)) (by omega)
      (by omega),
    wrapInt_of_range _ (by omega) (by omega)]
  congr 1
  ring

/-- Claim C27, failing input: for the two points `(0,0,0)` and `(3,0,0)` the
value `dist1` of the pair `(m,n) = (0,1)` is 0, although the squared Euclidean
distance of the two points is 9. -/
theorem get_mean_point_distance_wrong_argument :
    (get_mean_point_distance.dist1 (Buf.ofFn 2 fun i => if i = 0 then 0 else 3)
      (Buf.ofFn 2 fun _ => 0) (Buf.ofFn 2 fun _ => 0) 0 1).toOption = some 0 ∧
    sqDist (fun i => if i = 0 then 0 else 3) (fun _ => 0) (fun _ => 0) 0 1 = 9 := by
  decide

/-! ## `filter1` and `jacobian` -/

theorem filter1.pad_range (a : Int) (hi : Nat) (h : 1 ≤ hi) :
    0 ≤ filter1.pad a hi ∧ filter1.pad a hi < (hi : Int) := by
  unfold filter1.pad
  omega

theorem filter1.pad_inside (a : Int) (hi : Nat) (h0 : 0 ≤ a) (h1 : a < (hi : Int)) :
    filter1.pad a hi = a := by
  unfold filter1.pad
  omega

theorem box_index_int (m n o : Nat) (a b c : Int) (ha0 : 0 ≤ a) (ha : a < m) (hb0 : 0 ≤ b)
    (hb : b < n) (hc0 : 0 ≤ c) (hc : c < o) :
    0 ≤ a + b * m + c * m * n ∧ a + b * m + c * m * n < ((m * n * o : Nat) : Int) := by
  have h := box_index_lt m n o a.toNat b.toNat c.toNat (by omega) (by omega) (by omega)
  have e := box_index_cast m n a.toNat b.toNat c.toNat
  rw [Int.toNat_of_nonneg ha0, Int.toNat_of_nonneg hb0, Int.toNat_of_nonneg hc0] at e
  rw [e]
  exact ⟨Int.natCast_nonneg _, by exact_mod_cast h⟩

theorem zeroAt_nat (a : Buf ℚ) (i : Nat) (hi : i < a.size) :
    zeroAt a i = Except.ok ⟨a.size, Function.update a.data i (some 0)⟩ :=
  Buf.set_nat a i 0 hi

theorem scaleAt_nat (a : Buf ℚ) (i : Nat) (x c : ℚ) (hi : i < a.size)
    (hx : a.data i = some x) :
    scaleAt a i c = Except.ok ⟨a.size, Function.update a.data i (some (x * c))⟩ := by
  unfold scaleAt
  rw [Buf.get_nat a i x hi hx]
  exact Buf.set_nat a i _ hi

theorem addAt_nat (a : Buf ℚ) (i : Nat) (x c : ℚ) (hi : i < a.size)
    (hx : a.data i = some x) :
    addAt a (i : Int) c = Except.ok ⟨a.size, Function.update a.data i (some (x + c))⟩ := by
  unfold addAt
  rw [Buf.get_nat a i x hi hx]
  exact Buf.set_nat a i _ hi

/-- One tap of `filter1` at an inner voxel position: the sample index is in
range and the product is added to the output cell of the voxel. -/
theorem filter1.tap_ok (F g : Nat → ℚ) (m n o : Nat) (dim : Nat)
    (hdim : dim = 1 ∨ dim = 2 ∨ dim = 3) (k j i f : Nat) (hk : k < o) (hj : j < n) (hi : i < m)
    (hf : f < 3) (t : Buf ℚ) (hs : t.size = m * n * o) (acc : ℚ)
    (hacc : t.data (i + j * m + k * m * n) = some acc) :
    filter1.tap (Buf.ofFn (m * n * o) F) (Buf.ofFn 3 g) m n o 1 (dim : Int) k j i f t
      = Except.ok ⟨t.size, Function.update t.data (i + j * m + k * m * n)
          (some (acc + g f * F (if dim = 1 then
              filter1.pad ((i : Int) + f - 1) m + j * m + k * m * n
            else if dim = 2 then (i : Int) + filter1.pad ((j : Int) + f - 1) n * m + k * m * n
            else (i : Int) + j * m + filter1.pad ((k : Int) + f - 1) o * m * n).toNat))⟩ := by
  have hlt := box_index_lt m n o i j k hi hj hk
  have hp := box_index_cast m n i j k
  unfold filter1.tap
  rcases hdim with h | h | h
  · subst h
    have r := filter1.pad_range ((i : Int) + f - 1) m (by omega)
    have hidx := box_index_int m n o _ (j : Int) (k : Int) r.1 r.2 (by omega) (by omega)
      (by omega) (by omega)
    simp only [Nat.cast_one, if_true, Buf.get_ofFn 3 g f hf, ok_bind,
      Buf.get_ofFn_int _ F _ hidx.1 hidx.2, hp, addAt_nat t _ acc _ (by omega) hacc,
      show ¬ ((1 : Int) = 2) by decide, show ¬ ((1 : Int) = 3) by decide, if_false, pure_eq_ok]
  · subst h
    have r := filter1.pad_range ((j : Int) + f - 1) n (by omega)
    have hidx := box_index_int m n o (i : Int) _ (k : Int) (by omega) (by omega) r.1 r.2
      (by omega) (by omega)
    simp only [Nat.cast_ofNat, if_true, Buf.get_ofFn 3 g f hf, ok_bind,
      Buf.get_ofFn_int _ F _ hidx.1 hidx.2, hp, addAt_nat t _ acc _ (by omega) hacc,
      show ¬ ((2 : Int) = 1) by decide, show ¬ ((2 : Int) = 3) by decide, if_false, pure_eq_ok,
      show ¬ ((2 : Nat) = 1) by decide]
  · subst h
    have r := filter1.pad_range ((k : Int) + f - 1) o (by omega)
    have hidx := box_index_int m n o (i : Int) (j : Int) _ (by omega) (by omega) (by omega)
      (by omega) r.1 r.2
    simp only [Nat.cast_ofNat, if_true, Buf.get_ofFn 3 g f hf, ok_bind,
      Buf.get_ofFn_int _ F _ hidx.1 hidx.2, hp, addAt_nat t _ acc _ (by omega) hacc,
      show ¬ ((3 : Int) = 1) by decide, show ¬ ((3 : Int) = 2) by decide, if_false, pure_eq_ok,
      show ¬ ((3 : Nat) = 1) by decide, show ¬ ((3 : Nat) = 2) by decide]
theorem filter1.tap_lit (F g : Nat → ℚ) (m n o : Nat) (dim : Nat)
    (hdim : dim = 1 ∨ dim = 2 ∨ dim = 3) (k j i f : Nat) (hk : k < o) (hj : j < n) (hi : i < m)
    (hf : f < 3) (sz : Nat) (d : Nat → Option ℚ) (hs : sz = m * n * o) (acc : ℚ)
    (hacc : d (i + j * m + k * m * n) = some acc) :
    filter1.tap (Buf.ofFn (m * n * o) F) (Buf.ofFn 3 g) m n o 1 (dim : Int) k j i f ⟨sz, d⟩
      = Except.ok ⟨sz, Function.update d (i + j * m + k * m * n)
          (some (acc + g f * F (if dim = 1 then
              filter1.pad ((i : Int) + f - 1) m + j * m + k * m * n
            else if dim = 2 then (i : Int) + filter1.pad ((j : Int) + f - 1) n * m + k * m * n
            else (i : Int) + j * m + filter1.pad ((k : Int) + f - 1) o * m * n).toNat))⟩ :=
  filter1.tap_ok F g m n o dim hdim k j i f hk hj hi hf ⟨sz, d⟩ hs acc hacc

/-- The three taps of `filter1` with the filter `grad` at one voxel: the output
cell of the voxel, holding zero, receives the central difference. -/
theorem filter1.voxel_taps (F : Nat → ℚ) (m n o : Nat) (dim : Nat)
    (hdim : dim = 1 ∨ dim = 2 ∨ dim = 3) (k j i : Nat) (hk : k < o) (hj : j < n) (hi : i < m)
    (t : Buf ℚ) (hs : t.size = m * n * o) (hz : t.data (i + j * m + k * m * n) = some 0) :
    forLoop (fun f t => filter1.tap (Buf.ofFn (m * n * o) F) jacobian.grad m n o 1 (dim : Int)
        k j i f t) 0 3 t
      = Except.ok ⟨t.size, Function.update t.data (i + j * m + k * m * n)
          (some (centralDiff F m n o dim (i + j * m + k * m * n)))⟩ := by
  obtain ⟨d1, d2, d3⟩ := box_index_decode m n i j k hi hj
  have e0 : ∀ a : Int, a + ((0 : Nat) : Int) - 1 = a - 1 := fun a => by simp
  have e1 : ∀ a : Int, a + ((0 + 1 : Nat) : Int) - 1 = a := fun a => by simp
  have e2 : ∀ a : Int, a + ((0 + 1 + 1 : Nat) : Int) - 1 = a + 1 := fun a => by
    push_cast; ring
  have hi1 : filter1.pad (i : Int) m = i := filter1.pad_inside _ _ (by omega) (by omega)
  have hj1 : filter1.pad (j : Int) n = j := filter1.pad_inside _ _ (by omega) (by omega)
  have hk1 : filter1.pad (k : Int) o = k := filter1.pad_inside _ _ (by omega) (by omega)
  unfold jacobian.grad
  simp only [forLoop]
  rw [filter1.tap_ok F _ m n o dim hdim k j i 0 hk hj hi (by omega) t hs 0 hz, ok_bind]
  rw [filter1.tap_lit F _ m n o dim hdim k j i (0 + 1) hk hj hi (by omega) _ _ hs _
    (Function.update_same _ _ _), ok_bind]
  rw [filter1.tap_lit F _ m n o dim hdim k j i (0 + 1 + 1) hk hj hi (by omega) _ _ hs _
    (Function.update_same _ _ _), ok_bind]
  simp only [Function.update_idem, e0, e1, e2]
  congr 3
  unfold centralDiff
  simp only [d1, d2, d3]
  rcases hdim with h | h | h <;> subst h <;> norm_num <;> ring_nf

/-- Result of `filter1` with the filter `grad`: every output cell holds the
central difference of the input along the axis `dim`. -/
theorem filter1_spec (F : Nat → ℚ) (m n o : Nat) (dim : Nat)
    (hdim : dim = 1 ∨ dim = 2 ∨ dim = 3) (imageout : Buf ℚ) (hs : imageout.size = m * n * o) :
    ∃ out, filter1 (Buf.ofFn (m * n * o) F) imageout m n o jacobian.grad 3 (dim : Int)
        = Except.ok out ∧ out.size = m * n * o ∧
      ∀ l, l < m * n * o → out.data l = some (centralDiff F m n o dim l) := by
  obtain ⟨z, ez, hzs, hz⟩ := fill_zero imageout (m * n * o) hs
  obtain ⟨out, eo, hos, ho⟩ := tripleLoop_inv
    (fun k j i (t : Buf ℚ) => t.size = m * n * o ∧ ∀ l, l < m * n * o →
      t.data l = some (if l < i + j * m + k * m * n then centralDiff F m n o dim l else 0))
    o n m (fun k j i t =>
      forLoop (fun f t => filter1.tap (Buf.ofFn (m * n * o) F) jacobian.grad m n o 1 (dim : Int)
        k j i f t) 0 3 t) z
    ⟨hzs, fun l hl => by simp [hz l hl]⟩
    (by
      rintro k j i t hk hj hi ⟨hts, hc⟩
      have hlt := box_index_lt m n o i j k hi hj hk
      have h0 := hc _ hlt
      rw [if_neg (lt_irrefl _)] at h0
      refine ⟨_, filter1.voxel_taps F m n o dim hdim k j i hk hj hi t hts h0, hts, ?_⟩
      intro l hl
      by_cases h : l = i + j * m + k * m * n
      · subst h
        simp
      · simp only [Function.update_noteq h]
        rw [hc l hl]
        have : (l < i + 1 + j * m + k * m * n) ↔ (l < i + j * m + k * m * n) := by omega
        simp only [this])
    (by
      rintro k j t _ _ ⟨hts, hc⟩
      refine ⟨hts, fun l hl => ?_⟩
      rw [hc l hl]
      have : m + j * m + k * m * n = 0 + (j + 1) * m + k * m * n := by ring
      rw [this])
    (by
      rintro k t _ ⟨hts, hc⟩
      refine ⟨hts, fun l hl => ?_⟩
      rw [hc l hl]
      have : 0 + n * m + k * m * n = 0 + 0 * m + (k + 1) * m * n := by ring
      rw [this])
  refine ⟨out, ?_, hos, ?_⟩
  · unfold filter1
    have hw : Int.tdiv (((3 : Nat) : Int) - 1) 2 = 1 := by decide
    rw [hw]
    have ez' : forLoop (fun i t => zeroAt t i) 0 (m * n * o) imageout = Except.ok z := ez
    simp only [ez', ok_bind]
    exact eo
  · intro l hl
    rw [ho l hl]
    have : 0 + 0 * m + o * m * n = m * n * o := by ring
    rw [this, if_pos hl]
theorem Buf.Upto.init (b : Buf ℚ) (sz : Nat) (new old : Nat → Option ℚ) (hs : b.size = sz)
    (h : ∀ l, l < sz → b.data l = old l) : Buf.Upto b sz 0 new old :=
  ⟨hs, fun l hl => by simp [h l hl]⟩

theorem Buf.Upto.final (b : Buf ℚ) (sz : Nat) (new old : Nat → Option ℚ)
    (h : Buf.Upto b sz sz new old) : b.size = sz ∧ ∀ l, l < sz → b.data l = new l :=
  ⟨h.1, fun l hl => by rw [h.2 l hl, if_pos hl]⟩

theorem Buf.Upto.step (b : Buf ℚ) (sz i : Nat) (new old : Nat → Option ℚ) (v : ℚ)
    (h : Buf.Upto b sz i new old) (hv : new i = some v) :
    Buf.Upto ⟨b.size, Function.update b.data i (some v)⟩ sz (i + 1) new old := by
  refine ⟨h.1, fun l hl => ?_⟩
  by_cases e : l = i
  · subst e
    simp [hv]
  · simp only [Function.update_noteq e]
    rw [h.2 l hl]
    have : (l < i + 1) ↔ (l < i) := by omega
    simp only [this]

theorem zeroAt_step (b : Buf ℚ) (sz i : Nat) (new old : Nat → Option ℚ)
    (h : Buf.Upto b sz i new old) (hi : i < sz) (hv : new i = some 0) :
    ∃ b', zeroAt b i = Except.ok b' ∧ Buf.Upto b' sz (i + 1) new old :=
  ⟨_, zeroAt_nat b i (by rw [h.1]; exact hi), Buf.Upto.step b sz i new old 0 h hv⟩

theorem zeroAt_size (b : Buf ℚ) (sz i : Nat) (hs : b.size = sz) (hi : i < sz) :
    ∃ b', zeroAt b i = Except.ok b' ∧ b'.size = sz :=
  ⟨_, zeroAt_nat b i (by rw [hs]; exact hi), hs⟩

theorem scaleAt_step (b : Buf ℚ) (sz i : Nat) (new old : Nat → Option ℚ) (x c : ℚ)
    (h : Buf.Upto b sz i new old) (hi : i < sz) (hx : old i = some x)
    (hv : new i = some (x * c)) :
    ∃ b', scaleAt b i c = Except.ok b' ∧ Buf.Upto b' sz (i + 1) new old := by
  have hd : b.data i = some x := by rw [h.2 i hi, if_neg (lt_irrefl _), hx]
  exact ⟨_, scaleAt_nat b i x c (by rw [h.1]; exact hi) hd, Buf.Upto.step b sz i new old _ h hv⟩

theorem addAt_step (b : Buf ℚ) (sz i : Nat) (new old : Nat → Option ℚ) (x c : ℚ)
    (h : Buf.Upto b sz i new old) (hi : i < sz) (hx : old i = some x)
    (hv : new i = some (x + c)) :
    ∃ b', addAt b (i : Int) c = Except.ok b' ∧ Buf.Upto b' sz (i + 1) new old := by
  have hd : b.data i = some x := by rw [h.2 i hi, if_neg (lt_irrefl _), hx]
  exact ⟨_, addAt_nat b i x c (by rw [h.1]; exact hi) hd, Buf.Upto.step b sz i new old _ h hv⟩


/-- The first loop of `jacobian` runs and keeps the sizes of the nine arrays. -/
theorem jacobian.clear_loop (sz : Nat) (s0 : JacArrays)
    (h0 : s0.J11.size = sz ∧ s0.J12.size = sz ∧ s0.J13.size = sz ∧ s0.J21.size = sz ∧
      s0.J22.size = sz ∧ s0.J23.size = sz ∧ s0.J31.size = sz ∧ s0.J32.size = sz ∧
        s0.J33.size = sz) :
    ∃ s, forLoop jacobian.clear 0 sz s0 = Except.ok s ∧
      s.J11.size = sz ∧ s.J12.size = sz ∧ s.J13.size = sz ∧ s.J21.size = sz ∧ s.J22.size = sz ∧
        s.J23.size = sz ∧ s.J31.size = sz ∧ s.J32.size = sz ∧ s.J33.size = sz := by
  obtain ⟨s, hs, hI⟩ := forLoop_inv
    (fun _ (s : JacArrays) => s.J11.size = sz ∧ s.J12.size = sz ∧ s.J13.size = sz ∧
      s.J21.size = sz ∧ s.J22.size = sz ∧ s.J23.size = sz ∧ s.J31.size = sz ∧ s.J32.size = sz ∧
        s.J33.size = sz)
    jacobian.clear sz 0 s0 h0
    (by
      intro i s _ hi h
      have hi' : i < sz := by simpa using hi
      obtain ⟨h11, h12, h13, h21, h22, h23, h31, h32, h33⟩ := h
      obtain ⟨b11, e11, v11⟩ := zeroAt_size s.J11 sz i h11 hi'
      obtain ⟨b12, e12, v12⟩ := zeroAt_size s.J12 sz i h12 hi'
      obtain ⟨b13, e13, v13⟩ := zeroAt_size s.J13 sz i h13 hi'
      obtain ⟨b21, e21, v21⟩ := zeroAt_size s.J21 sz i h21 hi'
      obtain ⟨b22, e22, v22⟩ := zeroAt_size s.J22 sz i h22 hi'
      obtain ⟨b23, e23, v23⟩ := zeroAt_size s.J23 sz i h23 hi'
      obtain ⟨b31, e31, v31⟩ := zeroAt_size s.J31 sz i h31 hi'
      obtain ⟨b32, e32, v32⟩ := zeroAt_size s.J32 sz i h32 hi'
      obtain ⟨b33, e33, v33⟩ := zeroAt_size s.J33 sz i h33 hi'
      refine ⟨⟨b11, b12, b13, b21, b22, b23, b31, b32, b33⟩, ?_, v11, v12, v13, v21, v22, v23, v31,
        v32, v33⟩
      unfold jacobian.clear
      simp only [e11, e12, e13, e21, e22, e23, e31, e32, e33, ok_bind, pure_eq_ok])
  exact ⟨s, hs, hI⟩


/-- The loop `J11[i]*=factor1; ..` multiplies every cell of the nine arrays. -/
theorem jacobian.scale_loop (sz : Nat) (factor1 : ℚ) (s0 : JacArrays) (c11 c12 c13 c21 c22 c23 c31
  c32 c33 : Nat → ℚ)
    (h0 : (s0.J11.size = sz ∧ ∀ l, l < sz → s0.J11.data l = some (c11 l)) ∧
      (s0.J12.size = sz ∧ ∀ l, l < sz → s0.J12.data l = some (c12 l)) ∧
      (s0.J13.size = sz ∧ ∀ l, l < sz → s0.J13.data l = some (c13 l)) ∧
      (s0.J21.size = sz ∧ ∀ l, l < sz → s0.J21.data l = some (c21 l)) ∧
      (s0.J22.size = sz ∧ ∀ l, l < sz → s0.J22.data l = some (c22 l)) ∧
      (s0.J23.size = sz ∧ ∀ l, l < sz → s0.J23.data l = some (c23 l)) ∧
      (s0.J31.size = sz ∧ ∀ l, l < sz → s0.J31.data l = some (c31 l)) ∧
      (s0.J32.size = sz ∧ ∀ l, l < sz → s0.J32.data l = some (c32 l)) ∧
      (s0.J33.size = sz ∧ ∀ l, l < sz → s0.J33.data l = some (c33 l))) :
    ∃ s, forLoop (jacobian.scale factor1) 0 sz s0 = Except.ok s ∧
      (s.J11.size = sz ∧ ∀ l, l < sz → s.J11.data l = some (c11 l * factor1)) ∧
      (s.J12.size = sz ∧ ∀ l, l < sz → s.J12.data l = some (c12 l * factor1)) ∧
      (s.J13.size = sz ∧ ∀ l, l < sz → s.J13.data l = some (c13 l * factor1)) ∧
      (s.J21.size = sz ∧ ∀ l, l < sz → s.J21.data l = some (c21 l * factor1)) ∧
      (s.J22.size = sz ∧ ∀ l, l < sz → s.J22.data l = some (c22 l * factor1)) ∧
      (s.J23.size = sz ∧ ∀ l, l < sz → s.J23.data l = some (c23 l * factor1)) ∧
      (s.J31.size = sz ∧ ∀ l, l < sz → s.J31.data l = some (c31 l * factor1)) ∧
      (s.J32.size = sz ∧ ∀ l, l < sz → s.J32.data l = some (c32 l * factor1)) ∧
      (s.J33.size = sz ∧ ∀ l, l < sz → s.J33.data l = some (c33 l * factor1)) := by
  obtain ⟨g11, g12, g13, g21, g22, g23, g31, g32, g33⟩ := h0
  obtain ⟨s, hs, u11, u12, u13, u21, u22, u23, u31, u32, u33⟩ := forLoop_inv
    (fun i (s : JacArrays) => Buf.Upto s.J11 sz i (fun l => some (c11 l * factor1)) (fun l => some
      (c11 l)) ∧
      Buf.Upto s.J12 sz i (fun l => some (c12 l * factor1)) (fun l => some (c12 l)) ∧
      Buf.Upto s.J13 sz i (fun l => some (c13 l * factor1)) (fun l => some (c13 l)) ∧
      Buf.Upto s.J21 sz i (fun l => some (c21 l * factor1)) (fun l => some (c21 l)) ∧
      Buf.Upto s.J22 sz i (fun l => some (c22 l * factor1)) (fun l => some (c22 l)) ∧
      Buf.Upto s.J23 sz i (fun l => some (c23 l * factor1)) (fun l => some (c23 l)) ∧
      Buf.Upto s.J31 sz i (fun l => some (c31 l * factor1)) (fun l => some (c31 l)) ∧
      Buf.Upto s.J32 sz i (fun l => some (c32 l * factor1)) (fun l => some (c32 l)) ∧
      Buf.Upto s.J33 sz i (fun l => some (c33 l * factor1)) (fun l => some (c33 l)))
    (jacobian.scale factor1) sz 0 s0
    ⟨Buf.Upto.init _ _ _ _ g11.1 g11.2, Buf.Upto.init _ _ _ _ g12.1 g12.2,
      Buf.Upto.init _ _ _ _ g13.1 g13.2, Buf.Upto.init _ _ _ _ g21.1 g21.2,
        Buf.Upto.init _ _ _ _ g22.1 g22.2, Buf.Upto.init _ _ _ _ g23.1 g23.2,
          Buf.Upto.init _ _ _ _ g31.1 g31.2, Buf.Upto.init _ _ _ _ g32.1 g32.2,
            Buf.Upto.init _ _ _ _ g33.1 g33.2⟩
    (by
      intro i s _ hi h
      have hi' : i < sz := by simpa using hi
      obtain ⟨u11, u12, u13, u21, u22, u23, u31, u32, u33⟩ := h
      obtain ⟨b11, e11, v11⟩ := scaleAt_step _ sz i _ _ (c11 i) factor1 u11 hi' rfl rfl
      obtain ⟨b12, e12, v12⟩ := scaleAt_step _ sz i _ _ (c12 i) factor1 u12 hi' rfl rfl
      obtain ⟨b13, e13, v13⟩ := scaleAt_step _ sz i _ _ (c13 i) factor1 u13 hi' rfl rfl
      obtain ⟨b21, e21, v21⟩ := scaleAt_step _ sz i _ _ (c21 i) factor1 u21 hi' rfl rfl
      obtain ⟨b22, e22, v22⟩ := scaleAt_step _ sz i _ _ (c22 i) factor1 u22 hi' rfl rfl
      obtain ⟨b23, e23, v23⟩ := scaleAt_step _ sz i _ _ (c23 i) factor1 u23 hi' rfl rfl
      obtain ⟨b31, e31, v31⟩ := scaleAt_step _ sz i _ _ (c31 i) factor1 u31 hi' rfl rfl
      obtain ⟨b32, e32, v32⟩ := scaleAt_step _ sz i _ _ (c32 i) factor1 u32 hi' rfl rfl
      obtain ⟨b33, e33, v33⟩ := scaleAt_step _ sz i _ _ (c33 i) factor1 u33 hi' rfl rfl
      refine ⟨⟨b11, b12, b13, b21, b22, b23, b31, b32, b33⟩, ?_, v11, v12, v13, v21, v22, v23, v31,
        v32, v33⟩
      unfold jacobian.scale
      simp only [e11, e12, e13, e21, e22, e23, e31, e32, e33, ok_bind, pure_eq_ok])
  rw [Nat.zero_add] at u11 u12 u13 u21 u22 u23 u31 u32 u33
  exact ⟨s, hs, Buf.Upto.final _ _ _ _ u11, Buf.Upto.final _ _ _ _ u12, Buf.Upto.final _ _ _ _ u13,
    Buf.Upto.final _ _ _ _ u21, Buf.Upto.final _ _ _ _ u22, Buf.Upto.final _ _ _ _ u23,
      Buf.Upto.final _ _ _ _ u31, Buf.Upto.final _ _ _ _ u32, Buf.Upto.final _ _ _ _ u33⟩


/-- The loop `J11[i]+=1.0; J22[i]+=1.0; J33[i]+=1.0;` adds one to every cell
of the three diagonal arrays and leaves the other six unchanged. -/
theorem jacobian.addIdentity_loop (sz : Nat) (s0 : JacArrays) (c11 c22 c33 : Nat → ℚ)
    (h0 : (s0.J11.size = sz ∧ ∀ l, l < sz → s0.J11.data l = some (c11 l)) ∧
      (s0.J22.size = sz ∧ ∀ l, l < sz → s0.J22.data l = some (c22 l)) ∧
      (s0.J33.size = sz ∧ ∀ l, l < sz → s0.J33.data l = some (c33 l))) :
    ∃ s, forLoop jacobian.addIdentity 0 sz s0 = Except.ok s ∧
      (s.J11.size = sz ∧ ∀ l, l < sz → s.J11.data l = some (c11 l + 1)) ∧
      (s.J22.size = sz ∧ ∀ l, l < sz → s.J22.data l = some (c22 l + 1)) ∧
      (s.J33.size = sz ∧ ∀ l, l < sz → s.J33.data l = some (c33 l + 1)) ∧
      s.J12 = s0.J12 ∧
      s.J13 = s0.J13 ∧
      s.J21 = s0.J21 ∧
      s.J23 = s0.J23 ∧
      s.J31 = s0.J31 ∧
      s.J32 = s0.J32 := by
  obtain ⟨g11, g22, g33⟩ := h0
  obtain ⟨s, hs, u11, u22, u33, hrest⟩ := forLoop_inv
    (fun i (s : JacArrays) => Buf.Upto s.J11 sz i (fun l => some (c11 l + 1)) (fun l => some (c11
      l)) ∧
      Buf.Upto s.J22 sz i (fun l => some (c22 l + 1)) (fun l => some (c22 l)) ∧
      Buf.Upto s.J33 sz i (fun l => some (c33 l + 1)) (fun l => some (c33 l)) ∧
      s.J12 = s0.J12 ∧
      s.J13 = s0.J13 ∧
      s.J21 = s0.J21 ∧
      s.J23 = s0.J23 ∧
      s.J31 = s0.J31 ∧
      s.J32 = s0.J32)
    jacobian.addIdentity sz 0 s0
    ⟨Buf.Upto.init _ _ _ _ g11.1 g11.2, Buf.Upto.init _ _ _ _ g22.1 g22.2,
      Buf.Upto.init _ _ _ _ g33.1 g33.2, rfl, rfl, rfl, rfl, rfl, rfl⟩
    (by
      intro i s _ hi h
      have hi' : i < sz := by simpa using hi
      obtain ⟨u11, u22, u33, hrest⟩ := h
      obtain ⟨b11, e11, v11⟩ := addAt_step _ sz i _ _ (c11 i) 1 u11 hi' rfl rfl
      obtain ⟨b22, e22, v22⟩ := addAt_step _ sz i _ _ (c22 i) 1 u22 hi' rfl rfl
      obtain ⟨b33, e33, v33⟩ := addAt_step _ sz i _ _ (c33 i) 1 u33 hi' rfl rfl
      refine ⟨{ s with J11 := b11, J22 := b22, J33 := b33 }, ?_, v11, v22, v33, hrest⟩
      unfold jacobian.addIdentity
      simp only [e11, e22, e33, ok_bind, pure_eq_ok])
  rw [Nat.zero_add] at u11 u22 u33
  exact ⟨s, hs, Buf.Upto.final _ _ _ _ u11, Buf.Upto.final _ _ _ _ u22,
    Buf.Upto.final _ _ _ _ u33, hrest⟩
/-- The determinant loop of `jacobian`: it stores the determinant of every
voxel, sums them up, and counts the voxels whose determinant is negative. -/
theorem jacobian.det_loop (sz : Nat) (s : JacArrays)
    (c11 c12 c13 c21 c22 c23 c31 c32 c33 : Nat → ℚ)
    (h11 : s.J11.size = sz ∧ ∀ l, l < sz → s.J11.data l = some (c11 l))
    (h12 : s.J12.size = sz ∧ ∀ l, l < sz → s.J12.data l = some (c12 l))
    (h13 : s.J13.size = sz ∧ ∀ l, l < sz → s.J13.data l = some (c13 l))
    (h21 : s.J21.size = sz ∧ ∀ l, l < sz → s.J21.data l = some (c21 l))
    (h22 : s.J22.size = sz ∧ ∀ l, l < sz → s.J22.data l = some (c22 l))
    (h23 : s.J23.size = sz ∧ ∀ l, l < sz → s.J23.data l = some (c23 l))
    (h31 : s.J31.size = sz ∧ ∀ l, l < sz → s.J31.data l = some (c31 l))
    (h32 : s.J32.size = sz ∧ ∀ l, l < sz → s.J32.data l = some (c32 l))
    (h33 : s.J33.size = sz ∧ ∀ l, l < sz → s.J33.data l = some (c33 l))
    (D : Nat → ℚ)
    (hD : ∀ l, D l = c11 l * (c22 l * c33 l - c23 l * c32 l)
      - c21 l * (c12 l * c33 l - c13 l * c32 l) + c31 l * (c12 l * c23 l - c13 l * c22 l)) :
    ∃ t, forLoop (jacobian.det s) 0 sz ⟨0, 1, 1, 0, 0, Buf.new sz⟩ = Except.ok t ∧
      t.Jac.size = sz ∧ (∀ l, l < sz → t.Jac.data l = some (D l)) ∧ t.count = sz ∧
      t.neg = (((Finset.range sz).filter (fun l => D l < 0)).card : ℚ) ∧
      t.jmean = ∑ l in Finset.range sz, D l := by
  obtain ⟨t, ht, hI⟩ := forLoop_inv
    (fun i (t : JacStats) => t.Jac.size = sz ∧ (∀ l, l < i → t.Jac.data l = some (D l)) ∧
      t.count = i ∧ t.neg = (((Finset.range i).filter (fun l => D l < 0)).card : ℚ) ∧
      t.jmean = ∑ l in Finset.range i, D l)
    (jacobian.det s) sz 0 ⟨0, 1, 1, 0, 0, Buf.new sz⟩
    ⟨rfl, fun l hl => absurd hl (Nat.not_lt_zero l), by simp, by simp, by simp⟩
    (by
      intro i t _ hi h
      have hi' : i < sz := by simpa using hi
      obtain ⟨hs, hc, hcount, hneg, hmean⟩ := h
      have g11 := Buf.get_nat s.J11 i _ (by rw [h11.1]; exact hi') (h11.2 i hi')
      have g12 := Buf.get_nat s.J12 i _ (by rw [h12.1]; exact hi') (h12.2 i hi')
      have g13 := Buf.get_nat s.J13 i _ (by rw [h13.1]; exact hi') (h13.2 i hi')
      have g21 := Buf.get_nat s.J21 i _ (by rw [h21.1]; exact hi') (h21.2 i hi')
      have g22 := Buf.get_nat s.J22 i _ (by rw [h22.1]; exact hi') (h22.2 i hi')
      have g23 := Buf.get_nat s.J23 i _ (by rw [h23.1]; exact hi') (h23.2 i hi')
      have g31 := Buf.get_nat s.J31 i _ (by rw [h31.1]; exact hi') (h31.2 i hi')
      have g32 := Buf.get_nat s.J32 i _ (by rw [h32.1]; exact hi') (h32.2 i hi')
      have g33 := Buf.get_nat s.J33 i _ (by rw [h33.1]; exact hi') (h33.2 i hi')
      have gs := Buf.set_nat t.Jac i (D i) (by rw [hs]; exact hi')
      refine ⟨⟨t.jmean + D i, if D i < t.Jmin then D i else t.Jmin,
        if D i > t.Jmax then D i else t.Jmax, if D i < 0 then t.neg + 1 else t.neg,
        t.count + 1, ⟨t.Jac.size, Function.update t.Jac.data i (some (D i))⟩⟩, ?_, hs, ?_, ?_,
        ?_, ?_⟩
      · unfold jacobian.det
        simp only [g11, g12, g13, g21, g22, g23, g31, g32, g33, ok_bind, ← hD, gs, pure_eq_ok]
      · intro l hl
        by_cases e : l = i
        · subst e
          simp
        · simp only [Function.update_noteq e]
          exact hc l (by omega)
      · show t.count + 1 = ((i + 1 : Nat) : ℚ)
        rw [hcount]
        push_cast
        rfl
      · show (if D i < 0 then t.neg + 1 else t.neg) = _
        rw [Finset.range_succ, Finset.filter_insert, hneg]
        by_cases hd : D i < 0
        · rw [if_pos hd, if_pos hd, Finset.card_insert_of_not_mem (by simp)]
          push_cast
          rfl
        · rw [if_neg hd, if_neg hd]
      · show t.jmean + D i = _
        rw [Finset.sum_range_succ, hmean])
  rw [Nat.zero_add] at hI
  obtain ⟨hs, hc, hcount, hneg, hmean⟩ := hI
  exact ⟨t, ht, hs, hc, hcount, hneg, hmean⟩

/-- The loop of `jacobian` that sums the squared deviations runs to completion. -/
theorem jacobian.deviation_loop (sz : Nat) (Jac : Buf ℚ) (jmean : ℚ) (D : Nat → ℚ)
    (hs : Jac.size = sz) (hc : ∀ l, l < sz → Jac.data l = some (D l)) :
    ∃ r, forLoop (fun i (acc : ℚ) => do
      let x ← Jac.get i
      pure (acc + (x - jmean) ^ 2)) 0 sz 0 = Except.ok r := by
  obtain ⟨r, hr, _⟩ := forLoop_inv (fun _ (_ : ℚ) => True) (fun i (acc : ℚ) => do
      let x ← Jac.get i
      pure (acc + (x - jmean) ^ 2)) sz 0 0 trivial
    (by
      intro i acc _ hi _
      have hi' : i < sz := by simpa using hi
      have g := Buf.get_nat Jac i _ (by rw [hs]; exact hi') (hc i hi')
      exact ⟨acc + (D i - jmean) ^ 2, by simp only [g, ok_bind, pure_eq_ok], trivial⟩)
  exact ⟨r, hr⟩
/-- Result of `jacobian` on initialised fields over a grid of at least two
voxels: the run succeeds, the logged mean is the mean of the determinants, and
the logged fraction is the number of voxels whose determinant is negative,
divided by the number of voxels. -/
theorem jacobian_spec (sqrt : ℚ → ℚ) (u v w : Nat → ℚ) (m n o : Nat) (factor : Int)
    (hf : factor ≠ 0) (hsz : 2 ≤ m * n * o) :
    ∃ r, jacobian sqrt (Buf.ofFn (m * n * o) u) (Buf.ofFn (m * n * o) v)
        (Buf.ofFn (m * n * o) w) m n o factor = Except.ok r ∧
      r.frac = (((Finset.range (m * n * o)).filter
        (fun l => jacobianDet u v w m n o factor l < 0)).card : ℚ) / ((m * n * o : Nat) : ℚ) ∧
      r.jmean = (∑ l in Finset.range (m * n * o), jacobianDet u v w m n o factor l)
        / ((m * n * o : Nat) : ℚ) := by
  have c1 : ¬ (m * n * o = 0) := by omega
  have c2 : ¬ (((m * n * o : Nat) : Int) - 1 = 0) := by omega
  obtain ⟨s0, e0, z11, z12, z13, z21, z22, z23, z31, z32, z33⟩ := jacobian.clear_loop (m * n * o)
    ⟨Buf.new (m * n * o), Buf.new (m * n * o), Buf.new (m * n * o), Buf.new (m * n * o),
      Buf.new (m * n * o), Buf.new (m * n * o), Buf.new (m * n * o), Buf.new (m * n * o),
      Buf.new (m * n * o)⟩ ⟨rfl, rfl, rfl, rfl, rfl, rfl, rfl, rfl, rfl⟩
  obtain ⟨a11, f11, p11⟩ := filter1_spec u m n o 2 (by simp) s0.J11 z11
  obtain ⟨a12, f12, p12⟩ := filter1_spec u m n o 1 (by simp) s0.J12 z12
  obtain ⟨a13, f13, p13⟩ := filter1_spec u m n o 3 (by simp) s0.J13 z13
  obtain ⟨a21, f21, p21⟩ := filter1_spec v m n o 2 (by simp) s0.J21 z21
  obtain ⟨a22, f22, p22⟩ := filter1_spec v m n o 1 (by simp) s0.J22 z22
  obtain ⟨a23, f23, p23⟩ := filter1_spec v m n o 3 (by simp) s0.J23 z23
  obtain ⟨a31, f31, p31⟩ := filter1_spec w m n o 2 (by simp) s0.J31 z31
  obtain ⟨a32, f32, p32⟩ := filter1_spec w m n o 1 (by simp) s0.J32 z32
  obtain ⟨a33, f33, p33⟩ := filter1_spec w m n o 3 (by simp) s0.J33 z33
  obtain ⟨s1, e1, q11, q12, q13, q21, q22, q23, q31, q32, q33⟩ := jacobian.scale_loop (m * n * o)
    (1 / (factor : ℚ)) ⟨a11, a12, a13, a21, a22, a23, a31, a32, a33⟩ _ _ _ _ _ _ _ _ _
    ⟨p11, p12, p13, p21, p22, p23, p31, p32, p33⟩
  obtain ⟨s2, e2, r11, r22, r33, r12, r13, r21, r23, r31, r32⟩ := jacobian.addIdentity_loop
    (m * n * o) s1 _ _ _ ⟨q11, q22, q33⟩
  rw [← r12] at q12
  rw [← r13] at q13
  rw [← r21] at q21
  rw [← r23] at q23
  rw [← r31] at q31
  rw [← r32] at q32
  obtain ⟨t, e3, ts, tc, tcount, tneg, tmean⟩ := jacobian.det_loop (m * n * o) s2 _ _ _ _ _ _ _ _ _
    r11 q12 q13 q21 r22 q23 q31 q32 r33 (jacobianDet u v w m n o factor) (fun l => rfl)
  obtain ⟨dev, e4⟩ := jacobian.deviation_loop (m * n * o) t.Jac
    (t.jmean / ((m * n * o : Nat) : ℚ)) _ ts tc
  have c3 : ¬ (t.count = 0) := by
    rw [tcount]
    exact_mod_cast c1
  refine ⟨⟨t.jmean / ((m * n * o : Nat) : ℚ),
    sqrt (dev / ((((m * n * o : Nat) : Int) - 1 : Int) : ℚ)), t.Jmin, t.Jmax, t.neg / t.count⟩,
    ?_, ?_, ?_⟩
  · unfold jacobian
    simp only [Nat.cast_ofNat, Nat.cast_one] at f11 f12 f13 f21 f22 f23 f31 f32 f33
    simp only [if_neg hf, e0, ok_bind, f11, f12, f13, f21, f22, f23, f31, f32, f33, e1, e2, e3,
      if_neg c1, e4, if_neg c2, if_neg c3]
    rfl
  · show t.neg / t.count = _
    rw [tneg, tcount]
  · show t.jmean / _ = _
    rw [tmean]
/-- Claim C20, amended: on initialised fields over a grid of at least two
voxels and a nonzero `factor`, `jacobian` succeeds and its folding diagnostic
`frac` is the fraction of voxels whose Jacobian determinant is negative
(`J < 0`); a voxel whose determinant is exactly 0 is not counted. -/
theorem jacobian_negative_fraction (sqrt : ℚ → ℚ) (u v w : Nat → ℚ) (m n o : Nat)
    (factor : Int) (hf : factor ≠ 0) (hsz : 2 ≤ m * n * o) :
    ∃ r, jacobian sqrt (Buf.ofFn (m * n * o) u) (Buf.ofFn (m * n * o) v)
        (Buf.ofFn (m * n * o) w) m n o factor = Except.ok r ∧
      r.frac = (((Finset.range (m * n * o)).filter
        (fun l => jacobianDet u v w m n o factor l < 0)).card : ℚ) / ((m * n * o : Nat) : ℚ) := by
  obtain ⟨r, h1, h2, _⟩ := jacobian_spec sqrt u v w m n o factor hf hsz
  exact ⟨r, h1, h2⟩

/-- Instance of the amended claim C20 on a 2x1x1 grid whose second field
drops by 2 between the two voxels. -/
theorem jacobian_negative_fraction_witness :
    ((1 : Int) ≠ 0 ∧ 2 ≤ 2 * 1 * 1) ∧
    ∃ r, jacobian (fun x => x) (Buf.ofFn (2 * 1 * 1) fun _ => 0)
        (Buf.ofFn (2 * 1 * 1) fun i => if i = 0 then 0 else -2)
        (Buf.ofFn (2 * 1 * 1) fun _ => 0) 2 1 1 1 = Except.ok r ∧
      r.frac = (((Finset.range (2 * 1 * 1)).filter
        (fun l => jacobianDet (fun _ => 0) (fun i => if i = 0 then 0 else -2) (fun _ => 0)
          2 1 1 1 l < 0)).card : ℚ) / ((2 * 1 * 1 : Nat) : ℚ) :=
  ⟨⟨by decide, by decide⟩,
    jacobian_negative_fraction (fun x => x) (fun _ => 0) (fun i => if i = 0 then 0 else -2)
      (fun _ => 0) 2 1 1 1 (by decide) (by decide)⟩

/-- Counterexample to claim C20 as stated: on a 2x1x1 grid whose second field
drops by 2 between the two voxels, the determinant is exactly 0 at both voxels
(the minimum determinant found by the code is 0), so every voxel has a
non-positive determinant, and the diagnostic `frac` is 0, not 1. -/
theorem jacobian_zero_determinant_not_counted :
    (jacobian (fun x => x) (Buf.ofFn (2 * 1 * 1) fun _ => 0)
        (Buf.ofFn (2 * 1 * 1) fun i => if i = 0 then 0 else -2)
        (Buf.ofFn (2 * 1 * 1) fun _ => 0) 2 1 1 1).toOption.map (fun r => (r.frac, r.Jmin))
      = some (0, 0) ∧
    jacobianDet (fun _ => 0) (fun i => if i = 0 then 0 else -2) (fun _ => 0) 2 1 1 1 0 = 0 ∧
    jacobianDet (fun _ => 0) (fun i => if i = 0 then 0 else -2) (fun _ => 0) 2 1 1 1 1 = 0 := by
  decide!

/-! ## Spanning tree `primsGraph` -/

theorem primsGraph.cheapest_mem (weight : Nat → Nat → ℚ) (l : List (Nat × Nat)) (e : Nat × Nat)
    (h : primsGraph.cheapest weight l = some e) : e ∈ l := by
  cases l with
  | nil => simp [primsGraph.cheapest] at h
  | cons a t =>
    simp only [primsGraph.cheapest, Option.some.injEq] at h
    subst h
    have key : ∀ (t : List (Nat × Nat)) (b : Nat × Nat),
        t.foldl (fun best c => if weight c.1 c.2 < weight best.1 best.2 then c else best) b
          ∈ b :: t := by
      intro t
      induction t with
      | nil => intro b; simp
      | cons c t ih =>
        intro b
        simp only [List.foldl_cons]
        have := ih (if weight c.1 c.2 < weight b.1 b.2 then c else b)
        by_cases hc : weight c.1 c.2 < weight b.1 b.2
        · simp only [hc, if_true] at this ⊢
          simp only [List.mem_cons] at this ⊢
          tauto
        · simp only [hc, if_false] at this ⊢
          simp only [List.mem_cons] at this ⊢
          tauto
    exact key t a

theorem primsGraph.candidates_mem (m n o : Nat) (ordered : List Nat) (e : Nat × Nat)
    (h : e ∈ primsGraph.candidates m n o ordered) : e.1 ∈ ordered ∧ e.2 ∉ ordered := by
  unfold primsGraph.candidates at h
  simp only [List.mem_flatMap, List.mem_map, List.mem_filter, decide_eq_true_eq] at h
  obtain ⟨a, ha, b, ⟨_, hb⟩, rfl⟩ := h
  exact ⟨ha, hb⟩

/-- Invariant of the greedy construction: no node arrives twice, and the
parent of the node at every position `i > 0` is found at a smaller position. -/
theorem primsGraph.step_inv (weight : Nat → Nat → ℚ) (m n o : Nat) (st : TreeState)
    (hnd : st.ordered.Nodup)
    (hpar : ∀ i, 0 < i → i < st.ordered.length → ∃ p i', i' < i ∧
      st.parents (st.ordered.getD i 0) = some p ∧ st.ordered.get? i' = some p) :
    (primsGraph.step weight m n o st).ordered.Nodup ∧
    ∀ i, 0 < i → i < (primsGraph.step weight m n o st).ordered.length → ∃ p i', i' < i ∧
      (primsGraph.step weight m n o st).parents ((primsGraph.step weight m n o st).ordered.getD i 0)
        = some p ∧
      (primsGraph.step weight m n o st).ordered.get? i' = some p := by
  unfold primsGraph.step
  cases hc : primsGraph.cheapest weight (primsGraph.candidates m n o st.ordered) with
  | none => exact ⟨hnd, hpar⟩
  | some e =>
    obtain ⟨ha, hb⟩ := primsGraph.candidates_mem m n o st.ordered e
      (primsGraph.cheapest_mem weight _ e hc)
    refine ⟨?_, ?_⟩
    · show (st.ordered ++ [e.2]).Nodup
      rw [List.nodup_append]
      refine ⟨hnd, List.nodup_singleton _, ?_⟩
      intro x hx hx2
      simp only [List.mem_singleton] at hx2
      subst hx2
      exact hb hx
    · intro i hi0 hi
      show ∃ p i', i' < i ∧ Function.update st.parents e.2 (some e.1)
        ((st.ordered ++ [e.2]).getD i 0) = some p ∧ (st.ordered ++ [e.2]).get? i' = some p
      have hlen : (st.ordered ++ [e.2]).length = st.ordered.length + 1 := by simp
      have hi' : i < st.ordered.length + 1 := by
        have : i < (st.ordered ++ [e.2]).length := hi
        rwa [hlen] at this
      by_cases hlt : i < st.ordered.length
      · obtain ⟨p, i', h1, h2, h3⟩ := hpar i hi0 hlt
        have hget : (st.ordered ++ [e.2]).getD i 0 = st.ordered.getD i 0 := by
          simp [List.getD_eq_getElem?_getD, List.getElem?_append_left hlt]
        have hne : st.ordered.getD i 0 ≠ e.2 := by
          intro heq
          apply hb
          rw [← heq, List.getD_eq_getElem _ _ hlt]
          exact List.getElem_mem _
        refine ⟨p, i', h1, ?_, ?_⟩
        · rw [hget, Function.update_noteq hne, h2]
        · rw [List.get?_eq_getElem?] at h3 ⊢
          rw [List.getElem?_append_left (by omega), h3]
      · have hieq : i = st.ordered.length := by omega
        obtain ⟨i', hi'lt, hi'eq⟩ := List.getElem_of_mem ha
        refine ⟨e.1, i', by omega, ?_, ?_⟩
        · have hget : (st.ordered ++ [e.2]).getD i 0 = e.2 := by
            simp [List.getD_eq_getElem?_getD, hieq]
          rw [hget, Function.update_same]
        · rw [List.get?_eq_getElem?, List.getElem?_append_left hi'lt,
            List.getElem?_eq_getElem hi'lt, hi'eq]

/-- Arrival order and parent map produced by `primsGraph`: no node arrives
twice, and the parent of the node at every position `i > 0` is found at a
smaller position. -/
theorem primsGraph_spec (weight : Nat → Nat → ℚ) (m n o : Nat) :
    (primsGraph weight m n o).ordered.Nodup ∧
    ∀ i, 0 < i → i < (primsGraph weight m n o).ordered.length → ∃ p i', i' < i ∧
      (primsGraph weight m n o).parents ((primsGraph weight m n o).ordered.getD i 0) = some p ∧
      (primsGraph weight m n o).ordered.get? i' = some p := by
  unfold primsGraph
  generalize m * n * o - 1 = k
  induction k with
  | zero =>
    refine ⟨by simp, ?_⟩
    intro i hi0 hi
    simp at hi
    omega
  | succ k ih =>
    rw [Function.iterate_succ_apply']
    exact primsGraph.step_inv weight m n o _ ih.1 ih.2
/-- Claim C12, amended: in the pair `(ordered, parents)` produced by
`primsGraph`, for every position `i > 0` of `ordered` the node
`parents[ordered[i]]` occurs in `ordered` at a position strictly smaller than
`i` (the parent arrives before its child). -/
theorem primsGraph_parent_earlier (weight : Nat → Nat → ℚ) (m n o : Nat) (i : Nat)
    (hi0 : 0 < i) (hi : i < (primsGraph weight m n o).ordered.length) :
    ∃ p i', i' < i ∧
      (primsGraph weight m n o).parents ((primsGraph weight m n o).ordered.getD i 0) = some p ∧
      (primsGraph weight m n o).ordered.get? i' = some p :=
  (primsGraph_spec weight m n o).2 i hi0 hi

/-- Instance of the amended claim C12 on the 2x2x1 lattice with edge weight
`1/(a+b)`: the arrival order is `0, 2, 3, 1` and position 2 is inspected. -/
theorem primsGraph_parent_earlier_witness :
    (primsGraph (fun a b => 1 / ((a : ℚ) + b)) 2 2 1).ordered = [0, 2, 3, 1] ∧
    (0 < 2 ∧ 2 < (primsGraph (fun a b => 1 / ((a : ℚ) + b)) 2 2 1).ordered.length) ∧
    ∃ p i', i' < 2 ∧
      (primsGraph (fun a b => 1 / ((a : ℚ) + b)) 2 2 1).parents
        ((primsGraph (fun a b => 1 / ((a : ℚ) + b)) 2 2 1).ordered.getD 2 0) = some p ∧
      (primsGraph (fun a b => 1 / ((a : ℚ) + b)) 2 2 1).ordered.get? i' = some p :=
  ⟨by decide!, ⟨by decide, by decide!⟩,
    primsGraph_parent_earlier (fun a b => 1 / ((a : ℚ) + b)) 2 2 1 2 (by decide) (by decide!)⟩

/-- Counterexample to claim C12 as stated: on the 2x1x1 lattice the arrival
order is `0, 1`, the parent of the node at position 1 is node 0, and node 0
occurs at no position greater than 1 (it is at position 0). -/
theorem primsGraph_parent_not_later :
    (primsGraph (fun _ _ => 0) 2 1 1).ordered = [0, 1] ∧
    (primsGraph (fun _ _ => 0) 2 1 1).parents
      ((primsGraph (fun _ _ => 0) 2 1 1).ordered.getD 1 0) = some 0 ∧
    ¬ ∃ i', 1 < i' ∧ (primsGraph (fun _ _ => 0) 2 1 1).ordered.get? i' = some 0 := by
  have h : (primsGraph (fun _ _ => 0) 2 1 1).ordered = [0, 1] := by decide!
  refine ⟨h, by decide!, ?_⟩
  rintro ⟨i', h1, h2⟩
  rw [h] at h2
  obtain ⟨k, rfl⟩ : ∃ k, i' = k + 2 := ⟨i' - 2, by omega⟩
  simp at h2

/-! ## The channels of `descriptor` -/

/-- The body of `descriptor.distances` statement by statement. -/
theorem descriptor.distances_eq (mind im1 : Buf ℚ) (m n o : Nat) (qs : Int) :
    descriptor.distances mind im1 m n o qs = (do
      let mind ← forLoop (fun i t => t.set i 1) 0 (m * n * o * 12) mind
      let s : DescState := ⟨mind, Buf.new (m * n * o), Buf.new (m * n * o), Buf.new (m * n * o),
        Buf.new (m * n * o * 6), Buf.new 0, Buf.new 0⟩
      let s ← forLoop descriptor.clear 0 (m * n * o) s
      let d1 ← forLoop (fun i t => t.set i 0) 0 (m * n * o * 6) s.d1
      let s : DescState :=
        { s with d1 := d1, temp1 := Buf.new (m * n * o), temp2 := Buf.new (m * n * o) }
      let s ← forLoop (descriptor.direction im1 m n o qs) 0 6 s
      let mind ← forLoop (descriptor.channel s.d1 m n o qs) 0 12 s.mind
      pure { s with mind := mind }) := rfl

/-- The body of `descriptor.normalise`: `descriptor.normaliser` followed by the
last loop. -/
theorem descriptor.normalise_eq (exp : ℚ → ℚ) (mind sum1 noise1 : Buf ℚ) (sz1 : Nat) :
    descriptor.normalise exp mind sum1 noise1 sz1 = (do
      let p ← descriptor.normaliser mind sum1 noise1 sz1
      let mind ← forLoop (fun l t => forLoop (descriptor.exponent exp p.noise1 sz1 l) 0 sz1 t)
        0 12 p.mind
      pure ⟨mind, p.sum1, p.noise1, p.mean1⟩) := by
  have e : descriptor.normalise exp mind sum1 noise1 sz1 = (do
      let sum1 ← descriptor.minimum mind sum1 sz1
      let s : NormState := ⟨mind, sum1, noise1, 0⟩
      let s ← forLoop (fun i s => forLoop (descriptor.subtract sz1 i) 0 12 s) 0 sz1 s
      let s ← forLoop descriptor.average 0 sz1 s
      if sz1 = 0 then throw Err.divZero
      let mean1 := s.mean1 / (sz1 : ℚ)
      let noise1 ← forLoop (descriptor.clamp mean1) 0 sz1 s.noise1
      let mind ← forLoop (fun l t => forLoop (descriptor.exponent exp noise1 sz1 l) 0 sz1 t)
        0 12 s.mind
      pure ⟨mind, s.sum1, noise1, mean1⟩) := rfl
  rw [e]
  unfold descriptor.normaliser
  cases descriptor.minimum mind sum1 sz1 with
  | error x => rfl
  | ok a =>
    simp only [ok_bind]
    cases forLoop (fun i s => forLoop (descriptor.subtract sz1 i) 0 12 s) 0 sz1
        (⟨mind, a, noise1, 0⟩ : NormState) with
    | error x => rfl
    | ok b =>
      simp only [ok_bind]
      cases forLoop descriptor.average 0 sz1 b with
      | error x => rfl
      | ok c =>
        simp only [ok_bind]
        by_cases hz : sz1 = 0
        · simp only [if_pos hz]; rfl
        · simp only [if_neg hz]
          cases forLoop (descriptor.clamp (c.mean1 / (sz1 : ℚ))) 0 sz1 c.noise1 with
          | error x => rfl
          | ok d => rfl

theorem chan_index_inj (sz i i' l l' : Nat) (hi : i < sz) (hi' : i' < sz)
    (h : i + l * sz = i' + l' * sz) : i = i' ∧ l = l' := by
  have h1 : (i + l * sz) % sz = i := by
    rw [Nat.add_mul_mod_self_right, Nat.mod_eq_of_lt hi]
  have h2 : (i' + l' * sz) % sz = i' := by
    rw [Nat.add_mul_mod_self_right, Nat.mod_eq_of_lt hi']
  have hii : i = i' := by rw [← h1, ← h2, h]
  subst hii
  have h3 : l * sz = l' * sz := by omega
  exact ⟨rfl, Nat.eq_of_mul_eq_mul_right (by omega) h3⟩

theorem chan_index_lt (sz i l c : Nat) (hi : i < sz) (hl : l < c) : i + l * sz < c * sz := by
  have h1 : (l + 1) * sz ≤ c * sz := Nat.mul_le_mul_right _ (by omega)
  have e : (l + 1) * sz = l * sz + sz := by ring
  omega

theorem chan_index_cast (sz i l : Nat) :
    ((i : Int) + (l : Int) * (sz : Int)) = ((i + l * sz : Nat) : Int) := by
  push_cast; ring

/-- The running minimum of `descriptor` is at most `1e20`, at most every
channel value seen so far, and is `1e20` or one of these values. -/
theorem descriptor.leastOf_spec (D : Nat → ℚ) (sz i : Nat) : ∀ l,
    descriptor.leastOf D sz i l ≤ 100000000000000000000 ∧
    (∀ l', l' < l → descriptor.leastOf D sz i l ≤ D (i + l' * sz)) ∧
    (descriptor.leastOf D sz i l = 100000000000000000000 ∨
      ∃ l', l' < l ∧ descriptor.leastOf D sz i l = D (i + l' * sz)) := by
  intro l
  induction l with
  | zero => exact ⟨le_refl _, fun l' h => absurd h (by omega), Or.inl rfl⟩
  | succ l ih =>
    obtain ⟨h1, h2, h3⟩ := ih
    by_cases hc : D (i + l * sz) < descriptor.leastOf D sz i l
    · have e : descriptor.leastOf D sz i (l + 1) = D (i + l * sz) := by
        simp only [descriptor.leastOf, if_pos hc]
      rw [e]
      refine ⟨le_of_lt (lt_of_lt_of_le hc h1), ?_, Or.inr ⟨l, by omega, rfl⟩⟩
      intro l' hl'
      rcases Nat.lt_succ_iff_lt_or_eq.1 hl' with h | h
      · exact le_trans (le_of_lt hc) (h2 l' h)
      · rw [h]
    · have e : descriptor.leastOf D sz i (l + 1) = descriptor.leastOf D sz i l := by
        simp only [descriptor.leastOf, if_neg hc]
      rw [e]
      refine ⟨h1, ?_, ?_⟩
      · intro l' hl'
        rcases Nat.lt_succ_iff_lt_or_eq.1 hl' with h | h
        · exact h2 l' h
        · rw [h]; exact not_lt.1 hc
      · rcases h3 with h | ⟨l', hl', h⟩
        · exact Or.inl h
        · exact Or.inr ⟨l', by omega, h⟩

/-- The scan of the twelve channels at voxel `i` leaves the running minimum in
`sum1[i]`. -/
theorem descriptor.least_spec (mind : Buf ℚ) (D : Nat → ℚ) (sz i : Nat) (t0 : Buf ℚ)
    (hi : i < sz) (hsz : 12 * sz ≤ mind.size) (hD : ∀ p, p < 12 * sz → mind.data p = some (D p))
    (ht : i < t0.size) (h0 : t0.data i = some 100000000000000000000) :
    ∃ t, forLoop (descriptor.least mind sz i) 0 12 t0 = Except.ok t ∧ t.size = t0.size ∧
      t.data i = some (descriptor.leastOf D sz i 12) ∧ ∀ i', i' ≠ i → t.data i' = t0.data i' := by
  have := forLoop_inv (fun l (t : Buf ℚ) => t.size = t0.size ∧
      t.data i = some (descriptor.leastOf D sz i l) ∧ ∀ i', i' ≠ i → t.data i' = t0.data i')
    (descriptor.least mind sz i) 12 0 t0 ⟨rfl, h0, fun _ _ => rfl⟩ (by
      rintro l t _ hl ⟨hs, hv, hfr⟩
      have hl' : l < 12 := by omega
      have hlt := chan_index_lt sz i l 12 hi hl'
      have hx : mind.get ((i : Int) + (l : Int) * (sz : Int)) = Except.ok (D (i + l * sz)) := by
        rw [chan_index_cast]
        exact Buf.get_nat _ _ _ (by omega) (hD _ hlt)
      have hy : t.get (i : Int) = Except.ok (descriptor.leastOf D sz i l) :=
        Buf.get_nat _ _ _ (by omega) hv
      by_cases hc : D (i + l * sz) < descriptor.leastOf D sz i l
      · refine ⟨⟨t.size, Function.update t.data i (some (D (i + l * sz)))⟩, ?_, hs, ?_, ?_⟩
        · unfold descriptor.least
          simp only [hx, hy, ok_bind, if_pos hc]
          exact Buf.set_nat t i _ (by omega)
        · simp only [descriptor.leastOf, if_pos hc, Function.update_same]
        · intro i' hne
          simp only [Function.update_noteq hne]
          exact hfr i' hne
      · refine ⟨t, ?_, hs, ?_, hfr⟩
        · unfold descriptor.least
          simp only [hx, hy, ok_bind, if_neg hc]
          rfl
        · simp only [descriptor.leastOf, if_neg hc]
          exact hv)
  simpa using this

/-- The minimum loop of `descriptor` returns and fills `sum1` with the running
minima after twelve channels. -/
theorem descriptor.minimum_spec (mind sum1 : Buf ℚ) (D : Nat → ℚ) (sz : Nat)
    (hsz : 12 * sz ≤ mind.size) (hD : ∀ p, p < 12 * sz → mind.data p = some (D p))
    (hs : sz ≤ sum1.size) :
    ∃ t, descriptor.minimum mind sum1 sz = Except.ok t ∧ t.size = sum1.size ∧
      ∀ i, i < sz → t.data i = some (descriptor.leastOf D sz i 12) := by
  have := forLoop_inv (fun i (t : Buf ℚ) => t.size = sum1.size ∧
      ∀ i', i' < i → t.data i' = some (descriptor.leastOf D sz i' 12))
    (fun i t => do
      let t ← t.set i 100000000000000000000
      forLoop (descriptor.least mind sz i) 0 12 t) sz 0 sum1
    ⟨rfl, fun i' h => absurd h (by omega)⟩ (by
      rintro i t _ hi ⟨hs', hv⟩
      have hi' : i < sz := by omega
      obtain ⟨t2, e2, s2, v2, f2⟩ := descriptor.least_spec mind D sz i
        ⟨t.size, Function.update t.data i (some 100000000000000000000)⟩ hi' hsz hD
        (by show i < t.size; omega) (by simp only [Function.update_same])
      refine ⟨t2, ?_, by rw [s2]; exact hs', ?_⟩
      · show (t.set (i : Int) 100000000000000000000 >>= fun t =>
          forLoop (descriptor.least mind sz i) 0 12 t) = _
        rw [Buf.set_nat t i _ (by omega)]
        exact e2
      · intro i' hi2
        rcases Nat.lt_succ_iff_lt_or_eq.1 hi2 with h | h
        · rw [f2 i' (by omega)]
          simp only [Function.update_noteq (show i' ≠ i by omega)]
          exact hv i' h
        · rw [h]; exact v2)
  simpa [descriptor.minimum] using this

/-- The last loop of `descriptor` returns when no normaliser is zero, and
replaces the entry `x` of voxel `i` by `exp(-x/noise1[i])`. -/
theorem descriptor.exponent_spec (exp : ℚ → ℚ) (t0 noise1 : Buf ℚ) (X c : Nat → ℚ) (sz : Nat)
    (hts : 12 * sz ≤ t0.size) (hX : ∀ p, p < 12 * sz → t0.data p = some (X p))
    (hns : sz ≤ noise1.size) (hc : ∀ i, i < sz → noise1.data i = some (c i))
    (hc0 : ∀ i, i < sz → c i ≠ 0) :
    ∃ t, forLoop (fun l t => forLoop (descriptor.exponent exp noise1 sz l) 0 sz t) 0 12 t0
        = Except.ok t ∧ t.size = t0.size ∧
      ∀ i l, i < sz → l < 12 → t.data (i + l * sz) = some (exp (-X (i + l * sz) / c i)) := by
  obtain ⟨t, ht, h1, h2, _⟩ := doubleLoop_inv
    (fun l i (t : Buf ℚ) => t.size = t0.size ∧
      (∀ i' l', i' < sz → l' < 12 → (l' < l ∨ (l' = l ∧ i' < i)) →
        t.data (i' + l' * sz) = some (exp (-X (i' + l' * sz) / c i'))) ∧
      (∀ i' l', i' < sz → l' < 12 → ¬ (l' < l ∨ (l' = l ∧ i' < i)) →
        t.data (i' + l' * sz) = some (X (i' + l' * sz))))
    12 sz (fun l i t => descriptor.exponent exp noise1 sz l i t) t0
    ⟨rfl, fun i' l' _ _ h => absurd h (by omega),
      fun i' l' hi' hl' _ => hX _ (chan_index_lt sz i' l' 12 hi' hl')⟩
    (by
      rintro l i t hl hi ⟨a1, a2, a3⟩
      have hlt := chan_index_lt sz i l 12 hi hl
      have hx : t.get ((i : Int) + (l : Int) * (sz : Int)) = Except.ok (X (i + l * sz)) := by
        rw [chan_index_cast]
        exact Buf.get_nat _ _ _ (by omega) (a3 i l hi hl (by omega))
      have ha : noise1.get (i : Int) = Except.ok (c i) :=
        Buf.get_nat _ _ _ (by omega) (hc i hi)
      refine ⟨⟨t.size, Function.update t.data (i + l * sz)
          (some (exp (-X (i + l * sz) / c i)))⟩, ?_, a1, ?_, ?_⟩
      · unfold descriptor.exponent
        simp only [hx, ha, ok_bind, if_neg (hc0 i hi)]
        rw [chan_index_cast]
        exact Buf.set_nat _ _ _ (by omega)
      · intro i' l' hi' hl' hcnd
        by_cases he : i' = i ∧ l' = l
        · obtain ⟨e1, e2⟩ := he
          subst e1; subst e2
          simp only [Function.update_same]
        · have hne : i' + l' * sz ≠ i + l * sz := by
            intro h
            exact he (chan_index_inj sz i' i l' l hi' hi h)
          simp only [Function.update_noteq hne]
          exact a2 i' l' hi' hl' (by omega)
      · intro i' l' hi' hl' hcnd
        have hne : i' + l' * sz ≠ i + l * sz := by
          intro h
          obtain ⟨e1, e2⟩ := chan_index_inj sz i' i l' l hi' hi h
          omega
        simp only [Function.update_noteq hne]
        exact a3 i' l' hi' hl' (by omega))
    (by
      rintro l t hl ⟨a1, a2, a3⟩
      exact ⟨a1, fun i' l' hi' hl' hcnd => a2 i' l' hi' hl' (by omega),
        fun i' l' hi' hl' hcnd => a3 i' l' hi' hl' (by omega)⟩)
  exact ⟨t, ht, h1, fun i l hi hl => h2 i l hi hl (by omega)⟩


/-- The statement `dst[p]=src[a]` on an initialised source cell. -/
theorem copyAt_value (dst src : Buf ℚ) (p a : Nat) (v : ℚ) (ha : a < src.size)
    (hv : src.data a = some v) (hp : p < dst.size) :
    copyAt dst src (p : Int) (a : Int)
      = Except.ok ⟨dst.size, Function.update dst.data p (some v)⟩ := by
  unfold copyAt
  simp only [Buf.get_nat src a v ha hv, ok_bind]
  exact Buf.set_nat dst p v hp

theorem box_index_toNat (m n : Nat) (a b c : Int) (ha : 0 ≤ a) (hb : 0 ≤ b) (hc : 0 ≤ c) :
    a + b * m + c * m * n = ((a.toNat + b.toNat * m + c.toNat * m * n : Nat) : Int) := by
  push_cast
  rw [Int.toNat_of_nonneg ha, Int.toNat_of_nonneg hb, Int.toNat_of_nonneg hc]

/-- The source voxel of `imshift` at the voxel `(i,j,k)`. -/
theorem imshift.source_index (dx dy dz : Int) (m n o i j k : Nat) (hi : i < m) (hj : j < n) :
    imshift.source dx dy dz m n o (i + j * m + k * m * n)
      = if 0 ≤ (i : Int) + dy ∧ (i : Int) + dy < m ∧ 0 ≤ (j : Int) + dx ∧ (j : Int) + dx < n ∧
            0 ≤ (k : Int) + dz ∧ (k : Int) + dz < o then
          ((i : Int) + dy + ((j : Int) + dx) * m + ((k : Int) + dz) * m * n).toNat
        else i + j * m + k * m * n := by
  obtain ⟨h1, h2, h3⟩ := box_index_decode m n i j k hi hj
  unfold imshift.source
  simp only [h1, h2, h3]

/-- The source voxel of `imshift` lies in the volume. -/
theorem imshift.source_lt (dx dy dz : Int) (m n o p : Nat) (hp : p < m * n * o) :
    imshift.source dx dy dz m n o p < m * n * o := by
  obtain ⟨i, j, k, hi, hj, hk, e⟩ := box_index_exists m n o p hp
  rw [e, imshift.source_index dx dy dz m n o i j k hi hj]
  split
  · rename_i hc
    obtain ⟨c1, c2, c3, c4, c5, c6⟩ := hc
    rw [box_index_toNat m n _ _ _ c1 c3 c5, Int.toNat_natCast]
    exact box_index_lt m n o _ _ _ (by omega) (by omega) (by omega)
  · exact box_index_lt m n o i j k hi hj hk

/-- The shift `imshift` returns on an initialised input when the output has
room: the output voxel `p` holds the input value of the source voxel of `p`,
and the cells outside the output volume are kept. -/
theorem imshift_value (input output : Buf ℚ) (inOff outOff : Nat) (dx dy dz : Int) (m n o : Nat)
    (I : Nat → ℚ) (hins : inOff + m * n * o ≤ input.size)
    (hin : ∀ q, q < m * n * o → input.data (inOff + q) = some (I q))
    (hout : outOff + m * n * o ≤ output.size) :
    ∃ out, imshift input inOff output outOff dx dy dz m n o = Except.ok out ∧
      out.size = output.size ∧
      (∀ p, p < m * n * o →
        out.data (outOff + p) = some (I (imshift.source dx dy dz m n o p))) ∧
      ∀ q, (q < outOff ∨ outOff + m * n * o ≤ q) → out.data q = output.data q := by
  unfold imshift
  obtain ⟨out, hout', h1, h2, h3⟩ := tripleLoop_inv
    (fun k j i (t : Buf ℚ) => t.size = output.size ∧
      (∀ p, p < i + j * m + k * m * n →
        t.data (outOff + p) = some (I (imshift.source dx dy dz m n o p))) ∧
      ∀ q, (q < outOff ∨ outOff + (i + j * m + k * m * n) ≤ q) → t.data q = output.data q)
    o n m
    (fun k j i out =>
      if 0 ≤ (i : Int) + dy ∧ (i : Int) + dy < m ∧ 0 ≤ (j : Int) + dx ∧ (j : Int) + dx < n ∧
          0 ≤ (k : Int) + dz ∧ (k : Int) + dz < o then
        copyAt out input ((outOff : Int) + ((i : Int) + j * m + k * m * n))
          ((inOff : Int) + ((i : Int) + dy + ((j : Int) + dx) * m + ((k : Int) + dz) * m * n))
      else
        copyAt out input ((outOff : Int) + ((i : Int) + j * m + k * m * n))
          ((inOff : Int) + ((i : Int) + j * m + k * m * n))) output
    ⟨rfl, fun p hp => absurd hp (by omega), fun _ _ => rfl⟩
    (by
      rintro k j i t hk hj hi ⟨a1, a2, a3⟩
      have hlt := box_index_lt m n o i j k hi hj hk
      have hsrc := imshift.source_lt dx dy dz m n o _ hlt
      have hidx := imshift.source_index dx dy dz m n o i j k hi hj
      have ep : ((outOff : Int) + ((i : Int) + j * m + k * m * n))
          = ((outOff + (i + j * m + k * m * n) : Nat) : Int) := by push_cast; ring
      have hwrite : ∀ v, (∀ p, p < i + 1 + j * m + k * m * n →
            Function.update t.data (outOff + (i + j * m + k * m * n)) (some v) (outOff + p)
              = some (if p = i + j * m + k * m * n then v
                  else I (imshift.source dx dy dz m n o p))) := by
        intro v p hp
        by_cases hpe : p = i + j * m + k * m * n
        · rw [hpe, if_pos rfl, Function.update_same]
        · rw [if_neg hpe, Function.update_noteq (by omega)]
          exact a2 p (by omega)
      have hframe : ∀ v q, (q < outOff ∨ outOff + (i + 1 + j * m + k * m * n) ≤ q) →
          Function.update t.data (outOff + (i + j * m + k * m * n)) (some v) q
            = output.data q := by
        intro v q hq
        rw [Function.update_noteq (by omega)]
        exact a3 q (by omega)
      by_cases hc : 0 ≤ (i : Int) + dy ∧ (i : Int) + dy < m ∧ 0 ≤ (j : Int) + dx ∧
          (j : Int) + dx < n ∧ 0 ≤ (k : Int) + dz ∧ (k : Int) + dz < o
      · rw [if_pos hc] at hidx
        have ea : ((inOff : Int) + ((i : Int) + dy + ((j : Int) + dx) * m
              + ((k : Int) + dz) * m * n))
            = ((inOff + imshift.source dx dy dz m n o (i + j * m + k * m * n) : Nat) : Int) := by
          rw [hidx]
          push_cast
          rw [Int.toNat_of_nonneg (by
            obtain ⟨c1, c2, c3, c4, c5, c6⟩ := hc
            rw [box_index_toNat m n _ _ _ c1 c3 c5]
            exact Int.natCast_nonneg _)]
        refine ⟨⟨t.size, Function.update t.data (outOff + (i + j * m + k * m * n))
          (some (I (imshift.source dx dy dz m n o (i + j * m + k * m * n))))⟩, ?_, a1, ?_, ?_⟩
        · simp only [if_pos hc]
          rw [ep, ea]
          exact copyAt_value t input _ _ _ (by omega) (hin _ hsrc) (by omega)
        · intro p hp
          show Function.update t.data _ _ _ = _
          rw [hwrite _ p hp]
          by_cases hpe : p = i + j * m + k * m * n
          · rw [if_pos hpe, hpe]
          · rw [if_neg hpe]
        · intro q hq
          exact hframe _ q hq
      · rw [if_neg hc] at hidx
        have ea : ((inOff : Int) + ((i : Int) + j * m + k * m * n))
            = ((inOff + (i + j * m + k * m * n) : Nat) : Int) := by push_cast; ring
        refine ⟨⟨t.size, Function.update t.data (outOff + (i + j * m + k * m * n))
          (some (I (i + j * m + k * m * n)))⟩, ?_, a1, ?_, ?_⟩
        · simp only [if_neg hc]
          rw [ep, ea]
          exact copyAt_value t input _ _ _ (by omega) (hin _ hlt) (by omega)
        · intro p hp
          show Function.update t.data _ _ _ = _
          rw [hwrite _ p hp]
          by_cases hpe : p = i + j * m + k * m * n
          · rw [if_pos hpe, hpe, hidx]
          · rw [if_neg hpe]
        · intro q hq
          exact hframe _ q hq)
    (by
      rintro k j t _ _ ⟨a1, a2, a3⟩
      have e : m + j * m + k * m * n = 0 + (j + 1) * m + k * m * n := by ring
      rw [← e]
      exact ⟨a1, a2, a3⟩)
    (by
      rintro k t _ ⟨a1, a2, a3⟩
      have e : 0 + n * m + k * m * n = 0 + 0 * m + (k + 1) * m * n := by ring
      rw [← e]
      exact ⟨a1, a2, a3⟩)
  have e : 0 + 0 * m + o * m * n = m * n * o := by ring
  rw [e] at h2 h3
  exact ⟨out, hout', h1, h2, h3⟩

/-- A loop writing the constant `c` into the cells below `N` returns and keeps
the size of the array. -/
theorem fill_size (c : ℚ) (t0 : Buf ℚ) (N : Nat) (hN : N ≤ t0.size) :
    ∃ t, forLoop (fun i (t : Buf ℚ) => t.set i c) 0 N t0 = Except.ok t ∧ t.size = t0.size := by
  have := forLoop_inv (fun _ (t : Buf ℚ) => t.size = t0.size)
    (fun i (t : Buf ℚ) => t.set i c) N 0 t0 rfl (by
      intro i t _ hi a1
      exact ⟨_, Buf.set_nat t i c (by omega), a1⟩)
  simpa using this

/-- The initialisation loop of the local arrays of `descriptor` returns and
leaves 0 in the cells of `noise1`. -/
theorem descriptor.clear_value (s0 : DescState) (sz : Nat) (h1 : sz ≤ s0.w1.size)
    (h2 : sz ≤ s0.sum1.size) (h3 : sz ≤ s0.noise1.size) :
    ∃ s, forLoop descriptor.clear 0 sz s0 = Except.ok s ∧ s.mind = s0.mind ∧ s.d1 = s0.d1 ∧
      s.w1.size = s0.w1.size ∧ s.sum1.size = s0.sum1.size ∧ s.noise1.size = s0.noise1.size ∧
      ∀ p, p < sz → s.noise1.data p = some 0 := by
  have := forLoop_inv (fun i (s : DescState) => s.mind = s0.mind ∧ s.d1 = s0.d1 ∧
      s.w1.size = s0.w1.size ∧ s.sum1.size = s0.sum1.size ∧ s.noise1.size = s0.noise1.size ∧
      ∀ p, p < i → s.noise1.data p = some 0)
    descriptor.clear sz 0 s0
    ⟨rfl, rfl, rfl, rfl, rfl, fun p h => absurd h (by omega)⟩ (by
      rintro i t _ hi ⟨a1, a2, a3, a4, a5, a6⟩
      refine ⟨{ t with
          w1 := ⟨t.w1.size, Function.update t.w1.data i (some 0)⟩,
          sum1 := ⟨t.sum1.size, Function.update t.sum1.data i (some 0)⟩,
          noise1 := ⟨t.noise1.size, Function.update t.noise1.data i (some 0)⟩ }, ?_,
        a1, a2, a3, a4, a5, ?_⟩
      · unfold descriptor.clear
        simp only [Buf.set_nat t.w1 i 0 (by omega), Buf.set_nat t.sum1 i 0 (by omega),
          Buf.set_nat t.noise1 i 0 (by omega), ok_bind]
        rfl
      · intro p hp
        by_cases hpi : p = i
        · rw [hpi]; simp only [Function.update_same]
        · simp only [Function.update_noteq hpi]
          exact a6 p (by omega))
  obtain ⟨s, hs, b1, b2, b3, b4, b5, b6⟩ := this
  exact ⟨s, hs, b1, b2, b3, b4, b5, fun p hp => b6 p (by omega)⟩

/-- The squared-difference loop of `descriptor` returns on initialised arrays
and replaces `w1[p]` by `(w1[p]-im1[p])^2`. -/
theorem descriptor.square_value (im1 t0 : Buf ℚ) (I W : Nat → ℚ) (sz : Nat)
    (hims : sz ≤ im1.size) (him : ∀ p, p < sz → im1.data p = some (I p))
    (hts : sz ≤ t0.size) (ht : ∀ p, p < sz → t0.data p = some (W p)) :
    ∃ t, forLoop (descriptor.square im1) 0 sz t0 = Except.ok t ∧ t.size = t0.size ∧
      ∀ p, p < sz → t.data p = some ((W p - I p) ^ 2) := by
  have := forLoop_inv (fun i (t : Buf ℚ) => t.size = t0.size ∧
      (∀ p, p < i → t.data p = some ((W p - I p) ^ 2)) ∧ ∀ p, i ≤ p → t.data p = t0.data p)
    (descriptor.square im1) sz 0 t0 ⟨rfl, fun p h => absurd h (by omega), fun _ _ => rfl⟩ (by
      rintro i t _ hi ⟨a1, a2, a3⟩
      have hi' : i < sz := by omega
      have gx : t.get (i : Int) = Except.ok (W i) :=
        Buf.get_nat _ _ _ (by omega) (by rw [a3 i (le_refl _)]; exact ht i hi')
      have gy : im1.get (i : Int) = Except.ok (I i) := Buf.get_nat _ _ _ (by omega) (him i hi')
      refine ⟨⟨t.size, Function.update t.data i (some ((W i - I i) ^ 2))⟩, ?_, a1, ?_, ?_⟩
      · unfold descriptor.square
        simp only [gx, gy, ok_bind]
        exact Buf.set_nat t i _ (by omega)
      · intro p hp
        by_cases hpi : p = i
        · rw [hpi]; simp only [Function.update_same]
        · simp only [Function.update_noteq hpi]
          exact a2 p (by omega)
      · intro p hp
        simp only [Function.update_noteq (show p ≠ i by omega)]
        exact a3 p (by omega))
  obtain ⟨t, ht', b1, b2, _⟩ := this
  exact ⟨t, ht', b1, fun p hp => b2 p (by omega)⟩

/-- One direction of `descriptor` returns and writes the box sums of the
squared differences of that direction into its row of `d1`. -/
theorem descriptor.direction_value (im1 : Buf ℚ) (I : Nat → ℚ) (m n o qs l : Nat)
    (s : DescState) (hm : 2 * qs + 1 ≤ m) (hn : 2 * qs + 1 ≤ n) (ho : 2 * qs + 1 ≤ o)
    (hl : l < 6) (hims : m * n * o ≤ im1.size)
    (him : ∀ p, p < m * n * o → im1.data p = some (I p))
    (hw : m * n * o ≤ s.w1.size) (h1 : m * n * o ≤ s.temp1.size)
    (h2 : m * n * o ≤ s.temp2.size) (hd : m * n * o * 6 ≤ s.d1.size) :
    ∃ s', descriptor.direction im1 m n o (qs : Int) l s = Except.ok s' ∧ s'.mind = s.mind ∧
      s'.sum1 = s.sum1 ∧ s'.noise1 = s.noise1 ∧ m * n * o ≤ s'.w1.size ∧
      m * n * o ≤ s'.temp1.size ∧ m * n * o ≤ s'.temp2.size ∧ s'.d1.size = s.d1.size ∧
      (∀ p, p < m * n * o →
        s'.d1.data (p + l * (m * n * o)) = some (descriptor.patch I m n o qs l p)) ∧
      ∀ q, (∀ p, p < m * n * o → q ≠ p + l * (m * n * o)) → s'.d1.data q = s.d1.data q := by
  obtain ⟨w, ew, sw, vw, _⟩ := imshift_value im1 s.w1 0 0
    (descriptor.entry [(qs : Int), qs, -qs, 0, qs, 0] l)
    (descriptor.entry [(qs : Int), -qs, 0, -qs, 0, qs] l)
    (descriptor.entry [0, 0, (qs : Int), qs, qs, qs] l) m n o I
    (by omega) (fun q hq => by rw [Nat.zero_add]; exact him q hq) (by omega)
  obtain ⟨w2, ew2, sw2, vw2⟩ := descriptor.square_value im1 w I
    (fun p => I (imshift.source (descriptor.entry [(qs : Int), qs, -qs, 0, qs, 0] l)
      (descriptor.entry [(qs : Int), -qs, 0, -qs, 0, qs] l)
      (descriptor.entry [0, 0, (qs : Int), qs, qs, qs] l) m n o p)) (m * n * o) hims him
    (by omega) (fun p hp => by have := vw p hp; rwa [Nat.zero_add] at this)
  obtain ⟨b, eb, b1, b2, b3, b4, _⟩ := boxfilter_spec w2 s.temp1 s.temp2 qs m n o
    (descriptor.diffSq I m n o (qs : Int) l) hm hn ho (by omega) h1 h2 vw2
  have hbv : ∀ p, p < m * n * o → b.input.data p = some (descriptor.patch I m n o qs l p) := by
    intro p hp
    obtain ⟨i, j, k, hi, hj, hk, e⟩ := box_index_exists m n o p hp
    obtain ⟨d1, d2, d3⟩ := box_index_decode m n i j k hi hj
    unfold descriptor.patch
    rw [e, d1, d2, d3]
    exact b4 i j k hi hj hk
  have hcopy := forLoop_inv (fun i (t : Buf ℚ) => t.size = s.d1.size ∧
      (∀ p, p < i → t.data (p + l * (m * n * o)) = some (descriptor.patch I m n o qs l p)) ∧
      ∀ q, (∀ p, p < i → q ≠ p + l * (m * n * o)) → t.data q = s.d1.data q)
    (fun i t => copyAt t b.input ((i : Int) + l * ((m * n * o : Nat) : Int)) i) (m * n * o) 0 s.d1
    ⟨rfl, fun p h => absurd h (by omega), fun _ _ => rfl⟩ (by
      rintro i t _ hi ⟨a1, a2, a3⟩
      have hi' : i < m * n * o := by omega
      have hlt := chan_index_lt (m * n * o) i l 6 hi' hl
      refine ⟨⟨t.size, Function.update t.data (i + l * (m * n * o))
        (some (descriptor.patch I m n o qs l i))⟩, ?_, a1, ?_, ?_⟩
      · show copyAt t b.input ((i : Int) + (l : Int) * ((m * n * o : Nat) : Int)) (i : Int) = _
        rw [chan_index_cast]
        exact copyAt_value t b.input _ i _ (by omega) (hbv i hi') (by omega)
      · intro p hp
        by_cases hpi : p = i
        · rw [hpi]; simp only [Function.update_same]
        · simp only [Function.update_noteq (show p + l * (m * n * o) ≠ i + l * (m * n * o) by
            omega)]
          exact a2 p (by omega)
      · intro q hq
        simp only [Function.update_noteq (hq i (by omega))]
        exact a3 q (fun p hp => hq p (by omega)))
  obtain ⟨d, ed, sd, vd, fd⟩ := hcopy
  refine ⟨{ s with w1 := b.input, temp1 := b.temp1, temp2 := b.temp2, d1 := d }, ?_,
    rfl, rfl, rfl, by show _ ≤ b.input.size; omega, by show _ ≤ b.temp1.size; omega,
    by show _ ≤ b.temp2.size; omega, sd, fun p hp => vd p (by omega),
    fun q hq => fd q (fun p hp => hq p (by omega))⟩
  unfold descriptor.direction
  simp only [ew, ew2, eb, ed, ok_bind]
  rfl

/-- Entries of the table `index` of `descriptor` are at most 5. -/
theorem descriptor.index_le (l : Nat) (hl : l < 12) :
    (descriptor.entry [0, 0, 1, 1, 2, 2, 3, 3, 4, 4, 5, 5] l).toNat ≤ 5 := by
  interval_cases l <;> decide

/-- The first part of `descriptor` returns when the volume holds the box of
half-width `qs` along every axis, the image is initialised and `mind` has room
for the twelve channels: `mind` then holds the patch distances of the twelve
channels and `noise1` is 0. -/
theorem descriptor.distances_value (mind im1 : Buf ℚ) (I : Nat → ℚ) (m n o qs : Nat)
    (hm : 2 * qs + 1 ≤ m) (hn : 2 * qs + 1 ≤ n) (ho : 2 * qs + 1 ≤ o)
    (hmind : m * n * o * 12 ≤ mind.size) (hims : m * n * o ≤ im1.size)
    (him : ∀ p, p < m * n * o → im1.data p = some (I p)) :
    ∃ s, descriptor.distances mind im1 m n o (qs : Int) = Except.ok s ∧
      s.mind.size = mind.size ∧
      (∀ i l, i < m * n * o → l < 12 →
        s.mind.data (i + l * (m * n * o)) = some (descriptor.distance I m n o qs l i)) ∧
      m * n * o ≤ s.sum1.size ∧ m * n * o ≤ s.noise1.size ∧
      ∀ i, i < m * n * o → s.noise1.data i = some 0 := by
  obtain ⟨t1, e1, s1⟩ := fill_size 1 mind (m * n * o * 12) hmind
  obtain ⟨t2, e2, m2, d2, w2, u2, n2, z2⟩ := descriptor.clear_value
    ⟨t1, Buf.new (m * n * o), Buf.new (m * n * o), Buf.new (m * n * o),
      Buf.new (m * n * o * 6), Buf.new 0, Buf.new 0⟩ (m * n * o) (le_refl _) (le_refl _)
    (le_refl _)
  obtain ⟨t3, e3, s3⟩ := fill_size 0 t2.d1 (m * n * o * 6) (by rw [d2]; exact le_refl _)
  have hd3 : t3.size = m * n * o * 6 := by rw [s3, d2]; rfl
  have hdir := forLoop_inv (fun l (s : DescState) => s.mind = t2.mind ∧ s.sum1 = t2.sum1 ∧
      s.noise1 = t2.noise1 ∧ m * n * o ≤ s.w1.size ∧ m * n * o ≤ s.temp1.size ∧
      m * n * o ≤ s.temp2.size ∧ s.d1.size = m * n * o * 6 ∧
      ∀ l' p, l' < l → p < m * n * o →
        s.d1.data (p + l' * (m * n * o)) = some (descriptor.patch I m n o qs l' p))
    (descriptor.direction im1 m n o (qs : Int)) 6 0
    ({ t2 with d1 := t3, temp1 := Buf.new (m * n * o), temp2 := Buf.new (m * n * o) })
    ⟨rfl, rfl, rfl, by show _ ≤ t2.w1.size; rw [w2]; exact le_refl _, le_refl _, le_refl _, hd3,
      fun l' p h => absurd h (by omega)⟩ (by
      rintro l s _ hl ⟨a1, a2, a3, a4, a5, a6, a7, a8⟩
      obtain ⟨s', e', b1, b2, b3, b4, b5, b6, b7, b8, b9⟩ := descriptor.direction_value im1 I
        m n o qs l s hm hn ho (by omega) hims him a4 a5 a6 (by omega)
      refine ⟨s', e', by rw [b1, a1], by rw [b2, a2], by rw [b3, a3], b4, b5, b6,
        by rw [b7, a7], ?_⟩
      intro l' p hl' hp
      rcases Nat.lt_succ_iff_lt_or_eq.1 hl' with h | h
      · rw [b9 _ (by
          intro p' hp' he
          obtain ⟨_, e2⟩ := chan_index_inj (m * n * o) p p' l' l hp hp' he
          omega)]
        exact a8 l' p h hp
      · rw [h]; exact b8 p hp)
  obtain ⟨t4, e4, m4, u4, n4, _, _, _, d4, v4⟩ := hdir
  have hch := forLoop_inv (fun l (t : Buf ℚ) => t.size = mind.size ∧
      ∀ l' p, l' < l → p < m * n * o →
        t.data (p + l' * (m * n * o)) = some (descriptor.distance I m n o qs l' p))
    (descriptor.channel t4.d1 m n o (qs : Int)) 12 0 t4.mind
    ⟨by rw [m4, m2]; exact s1, fun l' p h => absurd h (by omega)⟩ (by
      rintro l t _ hl ⟨a1, a2⟩
      have hl' : l < 12 := by omega
      have hidx := descriptor.index_le l hl'
      have h5 : (descriptor.entry [0, 0, 1, 1, 2, 2, 3, 3, 4, 4, 5, 5] l).toNat * (m * n * o)
          + m * n * o ≤ m * n * o * 6 := by
        have := Nat.mul_le_mul_right (m * n * o) hidx
        omega
      have h11 : l * (m * n * o) + m * n * o ≤ m * n * o * 12 := by
        have := Nat.mul_le_mul_right (m * n * o) (show l ≤ 11 by omega)
        omega
      obtain ⟨t', e', s', v', f'⟩ := imshift_value t4.d1 t
        ((descriptor.entry [0, 0, 1, 1, 2, 2, 3, 3, 4, 4, 5, 5] l).toNat * (m * n * o))
        (l * (m * n * o))
        (descriptor.entry [-(qs : Int), 0, -qs, 0, 0, qs, 0, 0, 0, -qs, 0, 0] l)
        (descriptor.entry [0, -(qs : Int), 0, qs, 0, 0, 0, qs, 0, 0, 0, -qs] l)
        (descriptor.entry [0, 0, 0, 0, -(qs : Int), 0, -qs, 0, -qs, 0, -qs, 0] l) m n o
        (descriptor.patch I m n o qs
          (descriptor.entry [0, 0, 1, 1, 2, 2, 3, 3, 4, 4, 5, 5] l).toNat)
        (by omega)
        (fun q hq => by
          rw [Nat.add_comm]
          exact v4 _ q (by omega) hq)
        (by omega)
      refine ⟨t', e', by rw [s']; exact a1, ?_⟩
      intro l' p hl2 hp
      rcases Nat.lt_succ_iff_lt_or_eq.1 hl2 with h | h
      · rw [f' _ (Or.inl (by
          have := chan_index_lt (m * n * o) p l' l hp h
          omega))]
        exact a2 l' p h hp
      · rw [h, Nat.add_comm]
        exact v' p hp)
  obtain ⟨t5, e5, s5, v5⟩ := hch
  refine ⟨{ t4 with mind := t5 }, ?_, s5, fun i l hi hl => v5 l i (by omega) hi, ?_, ?_, ?_⟩
  · rw [descriptor.distances_eq]
    simp only [e1, e2, e3, e4, e5, ok_bind]
    rfl
  · show m * n * o ≤ t4.sum1.size
    rw [u4, u2]; exact le_refl _
  · show m * n * o ≤ t4.noise1.size
    rw [n4, n2]; exact le_refl _
  · intro i hi
    show t4.noise1.data i = some 0
    rw [n4]; exact z2 i hi

/-- The subtraction loop of `descriptor` returns; it replaces every channel
value by its excess over the per-voxel minimum, adds the twelve excesses of a
voxel to its cell of `noise1`, and keeps `sum1`. -/
theorem descriptor.subtract_value (s0 : NormState) (D μ N0 : Nat → ℚ) (sz : Nat)
    (hms : 12 * sz ≤ s0.mind.size) (hD : ∀ p, p < 12 * sz → s0.mind.data p = some (D p))
    (hss : sz ≤ s0.sum1.size) (hμ : ∀ i, i < sz → s0.sum1.data i = some (μ i))
    (hns : sz ≤ s0.noise1.size) (hn : ∀ i, i < sz → s0.noise1.data i = some (N0 i)) :
    ∃ s, forLoop (fun i s => forLoop (descriptor.subtract sz i) 0 12 s) 0 sz s0 = Except.ok s ∧
      s.mind.size = s0.mind.size ∧
      (∀ i l, i < sz → l < 12 → s.mind.data (i + l * sz) = some (D (i + l * sz) - μ i)) ∧
      s.sum1 = s0.sum1 ∧ s.noise1.size = s0.noise1.size ∧
      (∀ i, i < sz → s.noise1.data i
        = some (N0 i + ∑ l in Finset.range 12, (D (i + l * sz) - μ i))) ∧
      s.mean1 = s0.mean1 := by
  obtain ⟨s, hs, h1, h2, h3, h4, h5, h6, h7, h8, h9⟩ := doubleLoop_inv
    (fun i l (s : NormState) => s.mind.size = s0.mind.size ∧ s.sum1 = s0.sum1 ∧
      s.mean1 = s0.mean1 ∧ s.noise1.size = s0.noise1.size ∧
      (∀ i', i' < i → s.noise1.data i'
        = some (N0 i' + ∑ l' in Finset.range 12, (D (i' + l' * sz) - μ i'))) ∧
      (i < sz → s.noise1.data i
        = some (N0 i + ∑ l' in Finset.range l, (D (i + l' * sz) - μ i))) ∧
      (∀ i', i < i' → i' < sz → s.noise1.data i' = some (N0 i')) ∧
      (∀ i' l', i' < sz → l' < 12 → (i' < i ∨ (i' = i ∧ l' < l)) →
        s.mind.data (i' + l' * sz) = some (D (i' + l' * sz) - μ i')) ∧
      (∀ i' l', i' < sz → l' < 12 → ¬ (i' < i ∨ (i' = i ∧ l' < l)) →
        s.mind.data (i' + l' * sz) = some (D (i' + l' * sz))))
    sz 12 (fun i l s => descriptor.subtract sz i l s) s0
    ⟨rfl, rfl, rfl, rfl, fun i' h => absurd h (by omega),
      fun h => by rw [Finset.sum_range_zero, add_zero]; exact hn 0 h,
      fun i' _ h => hn i' h, fun i' l' _ _ h => absurd h (by omega),
      fun i' l' hi' hl' _ => hD _ (chan_index_lt sz i' l' 12 hi' hl')⟩
    (by
      rintro i l t hi hl ⟨a1, a2, a3, a4, a5, a6, a7, a8, a9⟩
      have hlt := chan_index_lt sz i l 12 hi hl
      have hv := a6 hi
      have hx : t.mind.get ((i : Int) + (l : Int) * (sz : Int))
          = Except.ok (D (i + l * sz)) := by
        rw [chan_index_cast]
        exact Buf.get_nat _ _ _ (by omega) (a9 i l hi hl (by omega))
      have hy : t.sum1.get (i : Int) = Except.ok (μ i) :=
        Buf.get_nat _ _ _ (by rw [a2]; omega) (by rw [a2]; exact hμ i hi)
      have hset : t.mind.set ((i : Int) + (l : Int) * (sz : Int)) (D (i + l * sz) - μ i)
          = Except.ok ⟨t.mind.size,
              Function.update t.mind.data (i + l * sz) (some (D (i + l * sz) - μ i))⟩ := by
        rw [chan_index_cast]
        exact Buf.set_nat _ _ _ (by omega)
      have ha : t.noise1.get (i : Int)
          = Except.ok (N0 i + ∑ l' in Finset.range l, (D (i + l' * sz) - μ i)) :=
        Buf.get_nat _ _ _ (by omega) hv
      have hb : (⟨t.mind.size,
            Function.update t.mind.data (i + l * sz) (some (D (i + l * sz) - μ i))⟩ : Buf ℚ).get
          ((i : Int) + (l : Int) * (sz : Int)) = Except.ok (D (i + l * sz) - μ i) := by
        rw [chan_index_cast]
        exact Buf.get_nat _ _ _ (by show i + l * sz < t.mind.size; omega)
          (by simp only [Function.update_same])
      have hset2 : t.noise1.set (i : Int)
            (N0 i + ∑ l' in Finset.range l, (D (i + l' * sz) - μ i) + (D (i + l * sz) - μ i))
          = Except.ok ⟨t.noise1.size, Function.update t.noise1.data i
              (some (N0 i + ∑ l' in Finset.range l, (D (i + l' * sz) - μ i)
                + (D (i + l * sz) - μ i)))⟩ :=
        Buf.set_nat _ _ _ (by omega)
      refine ⟨{ t with
          mind := ⟨t.mind.size,
            Function.update t.mind.data (i + l * sz) (some (D (i + l * sz) - μ i))⟩,
          noise1 := ⟨t.noise1.size, Function.update t.noise1.data i
              (some (N0 i + ∑ l' in Finset.range l, (D (i + l' * sz) - μ i)
                + (D (i + l * sz) - μ i)))⟩ }, ?_,
        a1, a2, a3, a4, ?_, ?_, ?_, ?_, ?_⟩
      · unfold descriptor.subtract
        simp only [hx, hy, hset, ha, hb, hset2, ok_bind]
        rfl
      · intro i' hi'
        show Function.update t.noise1.data i _ i' = _
        rw [Function.update_noteq (by omega)]
        exact a5 i' hi'
      · intro _
        show Function.update t.noise1.data i _ i = _
        rw [Function.update_same, Finset.sum_range_succ, add_assoc]
      · intro i' hi' hi2
        show Function.update t.noise1.data i _ i' = _
        rw [Function.update_noteq (by omega)]
        exact a7 i' hi' hi2
      · intro i' l' hi' hl' hc
        by_cases he : i' = i ∧ l' = l
        · obtain ⟨e1, e2⟩ := he
          subst e1; subst e2
          simp only [Function.update_same]
        · have hne : i' + l' * sz ≠ i + l * sz := by
            intro h
            exact he (chan_index_inj sz i' i l' l hi' hi h)
          simp only [Function.update_noteq hne]
          exact a8 i' l' hi' hl' (by omega)
      · intro i' l' hi' hl' hc
        have hne : i' + l' * sz ≠ i + l * sz := by
          intro h
          obtain ⟨e1, e2⟩ := chan_index_inj sz i' i l' l hi' hi h
          omega
        simp only [Function.update_noteq hne]
        exact a9 i' l' hi' hl' (by omega))
    (by
      rintro i t hi ⟨a1, a2, a3, a4, a5, a6, a7, a8, a9⟩
      refine ⟨a1, a2, a3, a4, ?_, ?_, fun i' h1 h2 => a7 i' (by omega) h2,
        fun i' l' hi' hl' hc => a8 i' l' hi' hl' (by omega),
        fun i' l' hi' hl' hc => a9 i' l' hi' hl' (by omega)⟩
      · intro i' hi'
        rcases Nat.lt_succ_iff_lt_or_eq.1 hi' with h | h
        · exact a5 i' h
        · rw [h]; exact a6 hi
      · intro h
        rw [Finset.sum_range_zero, add_zero]
        exact a7 (i + 1) (by omega) h)
  exact ⟨s, hs, h1, fun i l hi hl => h8 i l hi hl (by omega), h2, h4,
    fun i hi => h5 i hi, h3⟩

/-- The averaging loop of `descriptor` returns: every cell of `noise1` is
divided by 12 and the quotients are added to `mean1`. -/
theorem descriptor.average_value (s0 : NormState) (A : Nat → ℚ) (sz : Nat)
    (hns : sz ≤ s0.noise1.size) (hn : ∀ i, i < sz → s0.noise1.data i = some (A i)) :
    ∃ s, forLoop descriptor.average 0 sz s0 = Except.ok s ∧ s.mind = s0.mind ∧
      s.sum1 = s0.sum1 ∧ s.noise1.size = s0.noise1.size ∧
      (∀ i, i < sz → s.noise1.data i = some (A i / 12)) ∧
      s.mean1 = s0.mean1 + ∑ i in Finset.range sz, A i / 12 := by
  have := forLoop_inv (fun i (s : NormState) => s.mind = s0.mind ∧ s.sum1 = s0.sum1 ∧
      s.noise1.size = s0.noise1.size ∧
      (∀ p, p < i → s.noise1.data p = some (A p / 12)) ∧
      (∀ p, i ≤ p → p < sz → s.noise1.data p = some (A p)) ∧
      s.mean1 = s0.mean1 + ∑ p in Finset.range i, A p / 12)
    descriptor.average sz 0 s0
    ⟨rfl, rfl, rfl, fun p h => absurd h (by omega), fun p _ h => hn p h,
      by rw [Finset.sum_range_zero, add_zero]⟩ (by
      rintro i t _ hi ⟨a1, a2, a3, a4, a5, a6⟩
      have hi' : i < sz := by omega
      have ha : t.noise1.get (i : Int) = Except.ok (A i) :=
        Buf.get_nat _ _ _ (by omega) (a5 i (le_refl _) hi')
      have hset : t.noise1.set (i : Int) (A i / 12)
          = Except.ok ⟨t.noise1.size, Function.update t.noise1.data i (some (A i / 12))⟩ :=
        Buf.set_nat _ _ _ (by omega)
      have hb : (⟨t.noise1.size, Function.update t.noise1.data i (some (A i / 12))⟩ : Buf ℚ).get
          (i : Int) = Except.ok (A i / 12) :=
        Buf.get_nat _ _ _ (by show i < t.noise1.size; omega)
          (by simp only [Function.update_same])
      refine ⟨{ t with
          noise1 := ⟨t.noise1.size, Function.update t.noise1.data i (some (A i / 12))⟩,
          mean1 := t.mean1 + A i / 12 }, ?_, a1, a2, a3, ?_, ?_, ?_⟩
      · unfold descriptor.average
        simp only [ha, hset, hb, ok_bind]
        rfl
      · intro p hp
        show Function.update t.noise1.data i _ p = _
        by_cases hpi : p = i
        · rw [hpi, Function.update_same]
        · rw [Function.update_noteq hpi]
          exact a4 p (by omega)
      · intro p hp hp2
        show Function.update t.noise1.data i _ p = _
        rw [Function.update_noteq (by omega)]
        exact a5 p (by omega) hp2
      · show t.mean1 + A i / 12 = _
        rw [a6, Finset.sum_range_succ, add_assoc])
  obtain ⟨s, hs, b1, b2, b3, b4, _, b6⟩ := this
  exact ⟨s, hs, b1, b2, b3, fun i hi => b4 i (by omega), by simpa using b6⟩

/-- The clamping loop of `descriptor` returns and clamps every cell of
`noise1` to `[0.001*mean1, 1000*mean1]`. -/
theorem descriptor.clamp_value (t0 : Buf ℚ) (A : Nat → ℚ) (mean1 : ℚ) (sz : Nat)
    (hns : sz ≤ t0.size) (hn : ∀ i, i < sz → t0.data i = some (A i)) :
    ∃ t, forLoop (descriptor.clamp mean1) 0 sz t0 = Except.ok t ∧ t.size = t0.size ∧
      ∀ i, i < sz → t.data i = some (min (max (A i) (1 / 1000 * mean1)) (1000 * mean1)) := by
  have := forLoop_inv (fun i (t : Buf ℚ) => t.size = t0.size ∧
      (∀ i', i' < i → t.data i' = some (min (max (A i') (1 / 1000 * mean1)) (1000 * mean1))) ∧
      ∀ i', i ≤ i' → t.data i' = t0.data i')
    (descriptor.clamp mean1) sz 0 t0 ⟨rfl, fun i' h => absurd h (by omega), fun _ _ => rfl⟩ (by
      rintro i t _ hi ⟨a1, a2, a3⟩
      have hi' : i < sz := by omega
      have ha : t.get (i : Int) = Except.ok (A i) :=
        Buf.get_nat _ _ _ (by omega) (by rw [a3 i (le_refl _)]; exact hn i hi')
      refine ⟨⟨t.size, Function.update t.data i
          (some (min (max (A i) (1 / 1000 * mean1)) (1000 * mean1)))⟩, ?_, a1, ?_, ?_⟩
      · unfold descriptor.clamp
        simp only [ha, ok_bind]
        exact Buf.set_nat _ _ _ (by omega)
      · intro i' hi2
        show Function.update t.data i _ i' = _
        rcases Nat.lt_succ_iff_lt_or_eq.1 hi2 with h | h
        · rw [Function.update_noteq (by omega)]
          exact a2 i' h
        · rw [h, Function.update_same]
      · intro i' hi2
        show Function.update t.data i _ i' = _
        rw [Function.update_noteq (by omega)]
        exact a3 i' (by omega))
  obtain ⟨t, ht, h1, h2, _⟩ := this
  exact ⟨t, ht, h1, fun i hi => h2 i (by omega)⟩

/-- The part of `descriptor` up to the clamping returns on initialised arrays
of a non-empty volume with `noise1` cleared: `mind` then holds the excess of
every channel value over the per-voxel minimum, `mean1` is the mean of the
normalisers and every normaliser is clamped with it. -/
theorem descriptor.normaliser_value (mind sum1 noise1 : Buf ℚ) (D : Nat → ℚ) (sz : Nat)
    (hpos : 0 < sz) (hms : 12 * sz ≤ mind.size)
    (hD : ∀ p, p < 12 * sz → mind.data p = some (D p)) (hss : sz ≤ sum1.size)
    (hns : sz ≤ noise1.size) (hn : ∀ i, i < sz → noise1.data i = some 0) :
    ∃ p, descriptor.normaliser mind sum1 noise1 sz = Except.ok p ∧ 12 * sz ≤ p.mind.size ∧
      (∀ i l, i < sz → l < 12 →
        p.mind.data (i + l * sz) = some (D (i + l * sz) - descriptor.leastOf D sz i 12)) ∧
      sz ≤ p.noise1.size ∧ p.mean1 = descriptor.mean D sz ∧
      ∀ i, i < sz → p.noise1.data i = some (descriptor.clamped D sz (descriptor.mean D sz) i) := by
  obtain ⟨t1, e1, s1, v1⟩ := descriptor.minimum_spec mind sum1 D sz hms hD hss
  obtain ⟨t2, e2, s2, v2, u2, ns2, n2, m2⟩ := descriptor.subtract_value ⟨mind, t1, noise1, 0⟩ D
    (fun i => descriptor.leastOf D sz i 12) (fun _ => 0) sz hms hD
    (by show sz ≤ t1.size; omega) v1 hns hn
  obtain ⟨t3, e3, m3, u3, ns3, n3, me3⟩ := descriptor.average_value t2
    (fun i => 0 + ∑ l in Finset.range 12, (D (i + l * sz) - descriptor.leastOf D sz i 12)) sz
    (by rw [ns2]; exact hns) n2
  have hnoise : ∀ i, (0 + ∑ l in Finset.range 12,
      (D (i + l * sz) - descriptor.leastOf D sz i 12)) / 12 = descriptor.noise D sz i := by
    intro i
    rw [zero_add]
    rfl
  have hmean : t3.mean1 / (sz : ℚ) = descriptor.mean D sz := by
    rw [me3, m2]
    show (0 + _) / (sz : ℚ) = _
    rw [zero_add]
    unfold descriptor.mean
    congr 1
    exact Finset.sum_congr rfl (fun i _ => hnoise i)
  obtain ⟨t4, e4, s4, v4⟩ := descriptor.clamp_value t3.noise1
    (fun i => (0 + ∑ l in Finset.range 12,
      (D (i + l * sz) - descriptor.leastOf D sz i 12)) / 12) (t3.mean1 / (sz : ℚ)) sz
    (by rw [ns3, ns2]; exact hns) n3
  refine ⟨⟨t3.mind, t3.sum1, t4, t3.mean1 / (sz : ℚ)⟩, ?_, ?_, ?_, ?_, hmean, ?_⟩
  · unfold descriptor.normaliser
    simp only [e1, e2, e3, e4, ok_bind, if_neg (show ¬ sz = 0 by omega)]
    rfl
  · show 12 * sz ≤ t3.mind.size
    rw [m3, s2]; exact hms
  · intro i l hi hl
    show t3.mind.data (i + l * sz) = _
    rw [m3]; exact v2 i l hi hl
  · show sz ≤ t4.size
    rw [s4, ns3, ns2]; exact hns
  · intro i hi
    show t4.data i = _
    rw [v4 i hi, hnoise i, hmean]
    rfl

/-- The last loop of `descriptor` fails with a division by zero when the
first normaliser is zero. -/
theorem descriptor.exponent_fails (exp : ℚ → ℚ) (t0 noise1 : Buf ℚ) (sz : Nat) (x : ℚ)
    (hpos : 0 < sz) (hts : 0 < t0.size) (hx : t0.data 0 = some x) (hns : 0 < noise1.size)
    (hc : noise1.data 0 = some 0) :
    forLoop (fun l t => forLoop (descriptor.exponent exp noise1 sz l) 0 sz t) 0 12 t0
      = Except.error Err.divZero := by
  obtain ⟨k, rfl⟩ : ∃ k, sz = k + 1 := ⟨sz - 1, by omega⟩
  have hget : t0.get ((0 : Nat) : Int) = Except.ok x := Buf.get_nat _ _ _ hts hx
  have hnz : noise1.get ((0 : Nat) : Int) = Except.ok 0 := Buf.get_nat _ _ _ hns hc
  have h1 : descriptor.exponent exp noise1 (k + 1) 0 0 t0 = Except.error Err.divZero := by
    unfold descriptor.exponent
    have e : (((0 : Nat) : Int) + ((0 : Nat) : Int) * ((k + 1 : Nat) : Int)) = ((0 : Nat) : Int) := by
      simp
    rw [e, hget]
    simp only [ok_bind, hnz, if_pos rfl]
    rfl
  simp only [forLoop, h1, error_bind]

/-- The function `descriptor.normalise` in terms of the channel distances `D`:
the run reaches `mean1`; when no clamped normaliser is zero it returns the
channel values, and when the first one is zero it fails with a division by
zero. -/
theorem descriptor.normalise_value (exp : ℚ → ℚ) (mind sum1 noise1 : Buf ℚ) (D : Nat → ℚ)
    (sz : Nat) (hpos : 0 < sz) (hms : 12 * sz ≤ mind.size)
    (hD : ∀ p, p < 12 * sz → mind.data p = some (D p)) (hss : sz ≤ sum1.size)
    (hns : sz ≤ noise1.size) (hn : ∀ i, i < sz → noise1.data i = some 0) :
    ∃ p, descriptor.normaliser mind sum1 noise1 sz = Except.ok p ∧
      p.mean1 = descriptor.mean D sz ∧
      ((∀ i, i < sz → descriptor.clamped D sz (descriptor.mean D sz) i ≠ 0) →
        ∃ r, descriptor.normalise exp mind sum1 noise1 sz = Except.ok r ∧
          r.mean1 = descriptor.mean D sz ∧ 12 * sz ≤ r.mind.size ∧
          ∀ i l, i < sz → l < 12 → r.mind.data (i + l * sz)
            = some (descriptor.value exp D sz (descriptor.mean D sz) i l)) ∧
      (descriptor.clamped D sz (descriptor.mean D sz) 0 = 0 →
        descriptor.normalise exp mind sum1 noise1 sz = Except.error Err.divZero) := by
  obtain ⟨p, ep, sp, vp, np, mp, cp⟩ := descriptor.normaliser_value mind sum1 noise1 D sz hpos
    hms hD hss hns hn
  refine ⟨p, ep, mp, ?_, ?_⟩
  · intro hc0
    have hX : ∀ q, q < 12 * sz → p.mind.data q
        = some (D q - descriptor.leastOf D sz (q % sz) 12) := by
      intro q hq
      have h1 : q % sz < sz := Nat.mod_lt _ hpos
      have h2 : q / sz < 12 := Nat.div_lt_of_lt_mul (by rw [Nat.mul_comm]; exact hq)
      have h3 : q % sz + q / sz * sz = q := by
        rw [Nat.mul_comm]; exact Nat.mod_add_div q sz
      have := vp _ _ h1 h2
      rwa [h3] at this
    obtain ⟨t, et, st, vt⟩ := descriptor.exponent_spec exp p.mind p.noise1
      (fun q => D q - descriptor.leastOf D sz (q % sz) 12)
      (fun i => descriptor.clamped D sz (descriptor.mean D sz) i) sz sp hX np cp hc0
    refine ⟨⟨t, p.sum1, p.noise1, p.mean1⟩, ?_, mp, by show _ ≤ t.size; omega, ?_⟩
    · rw [descriptor.normalise_eq]
      simp only [ep, et, ok_bind]
      rfl
    · intro i l hi hl
      show t.data (i + l * sz) = _
      rw [vt i l hi hl]
      have hmod : (i + l * sz) % sz = i := by
        rw [Nat.add_mul_mod_self_right, Nat.mod_eq_of_lt hi]
      simp only [hmod]
      rfl
  · intro hz
    rw [descriptor.normalise_eq]
    simp only [ep, ok_bind]
    have h00 := vp 0 0 hpos (by omega)
    simp only [Nat.zero_mul, Nat.add_zero] at h00
    rw [descriptor.exponent_fails exp p.mind p.noise1 sz _ hpos (by omega) h00 (by omega)
      (by rw [cp 0 hpos, hz])]
    rfl

/-- The value 1 is quantised to the top level 5: `(int)(1*6-0.5) = 5`. -/
theorem quantisedMIND.level_one : quantisedMIND.level 1 = 5 := by
  decide!


theorem descriptor.leastOf_nonneg (D : Nat → ℚ) (sz i : Nat)
    (hD : ∀ l, l < 12 → 0 ≤ D (i + l * sz)) : 0 ≤ descriptor.leastOf D sz i 12 := by
  rcases (descriptor.leastOf_spec D sz i 12).2.2 with h | ⟨l, hl, h⟩
  · rw [h]; norm_num
  · rw [h]; exact hD l hl

/-- When all twelve distances of a voxel exceed `1e20` the running minimum
keeps its initial value. -/
theorem descriptor.leastOf_sentinel (D : Nat → ℚ) (sz i : Nat)
    (hD : ∀ l, l < 12 → 100000000000000000000 < D (i + l * sz)) :
    descriptor.leastOf D sz i 12 = 100000000000000000000 := by
  obtain ⟨h1, _, h3⟩ := descriptor.leastOf_spec D sz i 12
  rcases h3 with h | ⟨l, hl, h⟩
  · exact h
  · have := hD l hl
    rw [← h] at this
    exact absurd h1 (not_le.2 this)

theorem descriptor.noise_nonneg (D : Nat → ℚ) (sz i : Nat) : 0 ≤ descriptor.noise D sz i := by
  unfold descriptor.noise
  apply div_nonneg _ (by norm_num)
  apply Finset.sum_nonneg
  intro l hl
  have := (descriptor.leastOf_spec D sz i 12).2.1 l (Finset.mem_range.1 hl)
  linarith

theorem descriptor.noise_pos (D : Nat → ℚ) (sz i l : Nat) (hl : l < 12)
    (h : descriptor.leastOf D sz i 12 < D (i + l * sz)) : 0 < descriptor.noise D sz i := by
  unfold descriptor.noise
  apply div_pos _ (by norm_num)
  apply Finset.sum_pos'
  · intro l' hl'
    have := (descriptor.leastOf_spec D sz i 12).2.1 l' (Finset.mem_range.1 hl')
    linarith
  · exact ⟨l, Finset.mem_range.2 hl, by linarith⟩

theorem descriptor.noise_le (D : Nat → ℚ) (sz i : Nat) (U : ℚ)
    (hD : ∀ l, l < 12 → D (i + l * sz) - descriptor.leastOf D sz i 12 ≤ U) :
    descriptor.noise D sz i ≤ U := by
  unfold descriptor.noise
  rw [div_le_iff (by norm_num)]
  have := Finset.sum_le_card_nsmul (Finset.range 12)
    (fun l => D (i + l * sz) - descriptor.leastOf D sz i 12) U
    (fun l hl => hD l (Finset.mem_range.1 hl))
  simp only [Finset.card_range, nsmul_eq_mul, Nat.cast_ofNat] at this
  linarith

theorem descriptor.mean_nonneg (D : Nat → ℚ) (sz : Nat) : 0 ≤ descriptor.mean D sz := by
  unfold descriptor.mean
  exact div_nonneg (Finset.sum_nonneg fun i _ => descriptor.noise_nonneg D sz i)
    (Nat.cast_nonneg _)

/-- The mean normaliser is positive as soon as one channel of one voxel
exceeds the running minimum of that voxel. -/
theorem descriptor.mean_pos (D : Nat → ℚ) (sz i l : Nat) (hi : i < sz) (hl : l < 12)
    (h : descriptor.leastOf D sz i 12 < D (i + l * sz)) : 0 < descriptor.mean D sz := by
  unfold descriptor.mean
  apply div_pos _ (by exact_mod_cast (show 0 < sz by omega))
  apply Finset.sum_pos'
  · intro i' _
    exact descriptor.noise_nonneg D sz i'
  · exact ⟨i, Finset.mem_range.2 hi, descriptor.noise_pos D sz i l hl h⟩

theorem descriptor.mean_le (D : Nat → ℚ) (sz : Nat) (U : ℚ) (hsz : 0 < sz)
    (hD : ∀ i, i < sz → descriptor.noise D sz i ≤ U) : descriptor.mean D sz ≤ U := by
  unfold descriptor.mean
  have hs : (0 : ℚ) < (sz : ℚ) := by exact_mod_cast hsz
  rw [div_le_iff hs]
  have := Finset.sum_le_card_nsmul (Finset.range sz) (fun i => descriptor.noise D sz i) U
    (fun i hi => hD i (Finset.mem_range.1 hi))
  simp only [Finset.card_range, nsmul_eq_mul] at this
  linarith

theorem descriptor.clamped_pos (D : Nat → ℚ) (sz : Nat) (mean1 : ℚ) (i : Nat)
    (h : 0 < mean1) : 0 < descriptor.clamped D sz mean1 i := by
  unfold descriptor.clamped
  exact lt_min (lt_of_lt_of_le (by positivity) (le_max_right _ _)) (by positivity)

/-- With a positive `mean1` every channel value lies in `(0,1]`, and at a voxel
with a distance of at most `1e20` a channel of least distance has the value 1. -/
theorem descriptor.value_range (exp : ℚ → ℚ) (hexp0 : exp 0 = 1)
    (hexp : ∀ x, x ≤ 0 → 0 < exp x ∧ exp x ≤ 1) (D : Nat → ℚ) (sz : Nat) (mean1 : ℚ)
    (i : Nat) (hmean : 0 < mean1) :
    (∀ l, l < 12 → 0 < descriptor.value exp D sz mean1 i l ∧
      descriptor.value exp D sz mean1 i l ≤ 1) ∧
    ((∃ l, l < 12 ∧ D (i + l * sz) ≤ 100000000000000000000) →
      ∃ l, l < 12 ∧ (∀ l', l' < 12 → D (i + l * sz) ≤ D (i + l' * sz)) ∧
        descriptor.value exp D sz mean1 i l = 1) := by
  obtain ⟨m1, m2, m3⟩ := descriptor.leastOf_spec D sz i 12
  have hc := descriptor.clamped_pos D sz mean1 i hmean
  constructor
  · intro l hl
    unfold descriptor.value
    exact hexp _ (div_nonpos_of_nonpos_of_nonneg (by have := m2 l hl; linarith) (le_of_lt hc))
  · rintro ⟨l0, hl0, hbig⟩
    have hone : ∀ l, l < 12 → descriptor.leastOf D sz i 12 = D (i + l * sz) →
        descriptor.value exp D sz mean1 i l = 1 := by
      intro l hl hE
      unfold descriptor.value
      rw [hE]
      simp only [sub_self, neg_zero, zero_div, hexp0]
    rcases m3 with h | ⟨l', hl', h⟩
    · have hE : descriptor.leastOf D sz i 12 = D (i + l0 * sz) :=
        le_antisymm (m2 l0 hl0) (by rw [h]; exact hbig)
      exact ⟨l0, hl0, fun l' hl' => by rw [← hE]; exact m2 l' hl', hone l0 hl0 hE⟩
    · exact ⟨l', hl', fun l'' hl'' => by rw [← h]; exact m2 l'' hl'', hone l' hl' h⟩

/-- A channel value below `11/12` is quantised below the top level 5. -/
theorem quantisedMIND.level_lt (v : ℚ) (h : v < 11 / 12) : quantisedMIND.level v < 5 := by
  unfold quantisedMIND.level
  apply lt_of_le_of_lt (min_le_left _ _)
  apply max_lt _ (by norm_num)
  unfold truncToInt
  split
  · rw [Int.floor_lt]
    push_cast
    linarith
  · rename_i hneg
    have : ⌈v * 6 - 1 / 2⌉ ≤ 0 := by
      rw [Int.ceil_le]
      push_cast
      linarith [not_le.1 hneg]
    omega

/-- At a voxel whose twelve distances all lie in `[L, H]` above `1e20`, with a
positive `mean1 <= U` and `H - 1e20` and `U/1000` below `11*(L - 1e20)`, every
channel value is positive and below `11/12`, for an exponential bounded by
`1/(1-x)` below 0. -/
theorem descriptor.value_sentinel (exp : ℚ → ℚ)
    (hexp : ∀ x, x < 0 → 0 < exp x ∧ exp x ≤ 1 / (1 - x)) (D : Nat → ℚ) (sz i : Nat)
    (mean1 L H U : ℚ) (hmean : 0 < mean1) (hmU : mean1 ≤ U)
    (hL : 100000000000000000000 < L)
    (hD : ∀ l, l < 12 → L ≤ D (i + l * sz) ∧ D (i + l * sz) ≤ H)
    (h1 : H - 100000000000000000000 < 11 * (L - 100000000000000000000))
    (h2 : 1 / 1000 * U < 11 * (L - 100000000000000000000)) :
    ∀ l, l < 12 → 0 < descriptor.value exp D sz mean1 i l ∧
      descriptor.value exp D sz mean1 i l < 11 / 12 := by
  have hleast := descriptor.leastOf_sentinel D sz i (fun l hl => lt_of_lt_of_le hL (hD l hl).1)
  have hc := descriptor.clamped_pos D sz mean1 i hmean
  have hnoise : descriptor.noise D sz i ≤ H - 100000000000000000000 :=
    descriptor.noise_le D sz i _ (fun l hl => by rw [hleast]; linarith [(hD l hl).2])
  have hcle : descriptor.clamped D sz mean1 i < 11 * (L - 100000000000000000000) := by
    unfold descriptor.clamped
    apply lt_of_le_of_lt (min_le_left _ _)
    apply max_lt
    · linarith
    · have : 1 / 1000 * mean1 ≤ 1 / 1000 * U := by linarith
      linarith
  intro l hl
  have hx : L - 100000000000000000000 ≤ D (i + l * sz) - descriptor.leastOf D sz i 12 := by
    rw [hleast]; linarith [(hD l hl).1]
  have hxpos : 0 < D (i + l * sz) - descriptor.leastOf D sz i 12 := by linarith
  have harg : -(D (i + l * sz) - descriptor.leastOf D sz i 12)
      / descriptor.clamped D sz mean1 i < 0 :=
    div_neg_of_neg_of_pos (by linarith) hc
  obtain ⟨e1, e2⟩ := hexp _ harg
  unfold descriptor.value
  refine ⟨e1, lt_of_le_of_lt e2 ?_⟩
  have hden : (12 : ℚ) / 11 < 1 - -(D (i + l * sz) - descriptor.leastOf D sz i 12)
      / descriptor.clamped D sz mean1 i := by
    rw [neg_div, sub_neg_eq_add]
    have : (1 : ℚ) / 11 < (D (i + l * sz) - descriptor.leastOf D sz i 12)
        / descriptor.clamped D sz mean1 i := by
      rw [lt_div_iff hc]
      linarith
    linarith
  rw [div_lt_iff (by linarith)]
  linarith

theorem windowSum_bounds (hw len : Nat) (f : Nat → ℚ) (t : Nat) (B : ℚ)
    (hf : ∀ u, 0 ≤ f u ∧ f u ≤ B) :
    0 ≤ windowSum hw len f t ∧ windowSum hw len f t ≤ (2 * (hw : ℚ) + 1) * B := by
  have hB : 0 ≤ B := le_trans (hf 0).1 (hf 0).2
  unfold windowSum
  constructor
  · exact Finset.sum_nonneg fun u _ => (hf u).1
  · have h := Finset.sum_le_card_nsmul (Finset.Ico (t - hw) (min len (t + hw + 1))) f B
      (fun u _ => (hf u).2)
    have hcard : ((Finset.Ico (t - hw) (min len (t + hw + 1))).card : ℚ) ≤ 2 * (hw : ℚ) + 1 := by
      rw [Nat.card_Ico]
      have : min len (t + hw + 1) - (t - hw) ≤ 2 * hw + 1 := by omega
      exact_mod_cast this
    rw [nsmul_eq_mul] at h
    exact le_trans h (mul_le_mul_of_nonneg_right hcard hB)

/-- A box sum of values in `[0, B]` lies in `[0, (2*hw+1)^3 * B]`. -/
theorem boxSum_bounds (hw m n o : Nat) (I : Nat → ℚ) (i j k : Nat) (B : ℚ)
    (hI : ∀ p, 0 ≤ I p ∧ I p ≤ B) :
    0 ≤ boxSum hw m n o I i j k ∧ boxSum hw m n o I i j k ≤ (2 * (hw : ℚ) + 1) ^ 3 * B := by
  unfold boxSum
  have h1 : ∀ j' k', 0 ≤ windowSum hw m (fun i' => I (i' + j' * m + k' * m * n)) i ∧
      windowSum hw m (fun i' => I (i' + j' * m + k' * m * n)) i ≤ (2 * (hw : ℚ) + 1) * B :=
    fun j' k' => windowSum_bounds hw m _ i B (fun u => hI _)
  have h2 : ∀ k', 0 ≤ windowSum hw n (fun j' =>
        windowSum hw m (fun i' => I (i' + j' * m + k' * m * n)) i) j ∧
      windowSum hw n (fun j' =>
        windowSum hw m (fun i' => I (i' + j' * m + k' * m * n)) i) j
        ≤ (2 * (hw : ℚ) + 1) * ((2 * (hw : ℚ) + 1) * B) :=
    fun k' => windowSum_bounds hw n _ j _ (fun u => h1 u k')
  have h3 := windowSum_bounds hw o (fun k' => windowSum hw n (fun j' =>
        windowSum hw m (fun i' => I (i' + j' * m + k' * m * n)) i) j) k _ h2
  refine ⟨h3.1, le_trans h3.2 (le_of_eq ?_)⟩
  ring

/-- A patch distance of an image with values in `[0, A]` lies in
`[0, (2*qs+1)^3 * A^2]`. -/
theorem descriptor.distance_bounds (I : Nat → ℚ) (m n o qs l p : Nat) (A : ℚ)
    (hI : ∀ q, 0 ≤ I q ∧ I q ≤ A) :
    0 ≤ descriptor.distance I m n o qs l p ∧
      descriptor.distance I m n o qs l p ≤ (2 * (qs : ℚ) + 1) ^ 3 * A ^ 2 := by
  have hsq : ∀ a b, (I a - I b) ^ 2 ≤ A ^ 2 := fun a b =>
    sq_le_sq' (by linarith [(hI a).1, (hI b).2]) (by linarith [(hI a).2, (hI b).1])
  unfold descriptor.distance descriptor.patch
  apply boxSum_bounds
  intro q
  unfold descriptor.diffSq
  exact ⟨by positivity, hsq _ _⟩

/-- On a constant image every patch distance is 0. -/
theorem descriptor.distance_const (c : ℚ) (m n o qs l p : Nat) :
    descriptor.distance (fun _ => c) m n o qs l p = 0 := by
  unfold descriptor.distance descriptor.patch boxSum windowSum descriptor.diffSq
  simp

/-- For channel distances that are all 0 the first clamped normaliser is 0. -/
theorem descriptor.clamped_zero (sz : Nat) :
    descriptor.clamped (fun _ => 0) sz (descriptor.mean (fun _ => 0) sz) 0 = 0 := by
  have hl : ∀ i, descriptor.leastOf (fun _ => (0 : ℚ)) sz i 12 = 0 := by
    intro i
    rcases (descriptor.leastOf_spec (fun _ => (0 : ℚ)) sz i 12).2.2 with h | ⟨l, _, h⟩
    · have := (descriptor.leastOf_spec (fun _ => (0 : ℚ)) sz i 12).2.1 0 (by norm_num)
      rw [h] at this
      norm_num at this
    · exact h
  have hn : ∀ i, descriptor.noise (fun _ => (0 : ℚ)) sz i = 0 := by
    intro i
    unfold descriptor.noise
    simp [hl]
  have hm : descriptor.mean (fun _ => (0 : ℚ)) sz = 0 := by
    unfold descriptor.mean
    simp [hn]
  unfold descriptor.clamped
  rw [hm, hn]
  simp

theorem descriptor.channels_index (I : Nat → ℚ) (m n o qs i l : Nat) (hi : i < m * n * o) :
    descriptor.channels I m n o qs (i + l * (m * n * o)) = descriptor.distance I m n o qs l i := by
  unfold descriptor.channels
  have h1 : (i + l * (m * n * o)) % (m * n * o) = i := by
    rw [Nat.add_mul_mod_self_right, Nat.mod_eq_of_lt hi]
  have h2 : (i + l * (m * n * o)) / (m * n * o) = l := by
    rw [Nat.add_mul_div_right _ _ (by omega), Nat.div_eq_of_lt hi, Nat.zero_add]
  rw [h1, h2]

theorem descriptor.mean_le_of_bounds (D : Nat → ℚ) (sz : Nat) (U : ℚ) (hsz : 0 < sz)
    (hD : ∀ q, 0 ≤ D q ∧ D q ≤ U) : descriptor.mean D sz ≤ U := by
  apply descriptor.mean_le D sz U hsz
  intro i _
  apply descriptor.noise_le
  intro l hl
  have := descriptor.leastOf_nonneg D sz i (fun l' _ => (hD _).1)
  linarith [(hD (i + l * sz)).2]

/-- The function `descriptor` in terms of the image `I`: on a volume that
holds the box of half-width `qs`, the first part returns the patch distances,
the run reaches `mean1`; when no clamped normaliser is zero it returns the
channel values, and when the first one is zero it fails with a division by
zero. -/
theorem descriptor_value (exp : ℚ → ℚ) (mind im1 : Buf ℚ) (I : Nat → ℚ) (m n o qs : Nat)
    (hm : 2 * qs + 1 ≤ m) (hn : 2 * qs + 1 ≤ n) (ho : 2 * qs + 1 ≤ o)
    (hmind : m * n * o * 12 ≤ mind.size) (hims : m * n * o ≤ im1.size)
    (him : ∀ p, p < m * n * o → im1.data p = some (I p)) :
    ∃ s p, descriptor.distances mind im1 m n o (qs : Int) = Except.ok s ∧
      (∀ i l, i < m * n * o → l < 12 →
        s.mind.data (i + l * (m * n * o)) = some (descriptor.distance I m n o qs l i)) ∧
      descriptor.normaliser s.mind s.sum1 s.noise1 (m * n * o) = Except.ok p ∧
      p.mean1 = descriptor.mean (descriptor.channels I m n o qs) (m * n * o) ∧
      ((∀ i, i < m * n * o → descriptor.clamped (descriptor.channels I m n o qs) (m * n * o)
          (descriptor.mean (descriptor.channels I m n o qs) (m * n * o)) i ≠ 0) →
        ∃ r, descriptor.normalise exp s.mind s.sum1 s.noise1 (m * n * o) = Except.ok r ∧
          r.mean1 = descriptor.mean (descriptor.channels I m n o qs) (m * n * o) ∧
          descriptor exp mind im1 m n o (qs : Int) = Except.ok r.mind ∧
          ∀ i l, i < m * n * o → l < 12 → r.mind.data (i + l * (m * n * o))
            = some (descriptor.value exp (descriptor.channels I m n o qs) (m * n * o)
                (descriptor.mean (descriptor.channels I m n o qs) (m * n * o)) i l)) ∧
      (descriptor.clamped (descriptor.channels I m n o qs) (m * n * o)
          (descriptor.mean (descriptor.channels I m n o qs) (m * n * o)) 0 = 0 →
        descriptor exp mind im1 m n o (qs : Int) = Except.error Err.divZero) := by
  have hpos : 0 < m * n * o :=
    Nat.mul_pos (Nat.mul_pos (by omega) (by omega)) (by omega)
  obtain ⟨s, es, ss, vs, us, ns, zs⟩ := descriptor.distances_value mind im1 I m n o qs hm hn ho
    hmind hims him
  have hD : ∀ q, q < 12 * (m * n * o) →
      s.mind.data q = some (descriptor.channels I m n o qs q) := by
    intro q hq
    have h1 : q % (m * n * o) < m * n * o := Nat.mod_lt _ hpos
    have h2 : q / (m * n * o) < 12 := Nat.div_lt_of_lt_mul (by omega)
    have h3 : q % (m * n * o) + q / (m * n * o) * (m * n * o) = q :=
      Nat.mod_add_div' q (m * n * o)
    have := vs _ _ h1 h2
    rw [h3] at this
    exact this
  obtain ⟨p, ep, mp, hret, hfail⟩ := descriptor.normalise_value exp s.mind s.sum1 s.noise1
    (descriptor.channels I m n o qs) (m * n * o) hpos (by omega) hD us ns zs
  refine ⟨s, p, es, vs, ep, mp, ?_, ?_⟩
  · intro hc
    obtain ⟨r, er, mr, _, vr⟩ := hret hc
    refine ⟨r, er, mr, ?_, vr⟩
    unfold descriptor
    simp only [es, er, ok_bind]
    rfl
  · intro hz
    unfold descriptor
    simp only [es, hfail hz, ok_bind, error_bind]

/-- The function `descriptor` on a volume that holds the box of half-width `qs`:
the run reaches the mean normaliser `mean1`, and when it is positive the run
returns, every channel lies in `(0,1]`, and a voxel with a channel distance of
at most `1e20` has a channel equal to 1 where the distance is least. -/
theorem descriptor_spec (exp : ℚ → ℚ) (hexp0 : exp 0 = 1)
    (hexp : ∀ x, x ≤ 0 → 0 < exp x ∧ exp x ≤ 1) (mind im1 : Buf ℚ) (m n o qs : Nat)
    (hm : 2 * qs + 1 ≤ m) (hn : 2 * qs + 1 ≤ n) (ho : 2 * qs + 1 ≤ o)
    (hmind : m * n * o * 12 ≤ mind.size) (hims : m * n * o ≤ im1.size)
    (him : ∀ p, p < m * n * o → ∃ v, im1.data p = some v) :
    ∃ s p, descriptor.distances mind im1 m n o (qs : Int) = Except.ok s ∧
      descriptor.normaliser s.mind s.sum1 s.noise1 (m * n * o) = Except.ok p ∧
      (0 < p.mean1 → ∃ out, descriptor exp mind im1 m n o (qs : Int) = Except.ok out ∧
        ∀ i, i < m * n * o →
          (∀ l, l < 12 → ∃ v, out.data (i + l * (m * n * o)) = some v ∧ 0 < v ∧ v ≤ 1 ∧
            0 ≤ quantisedMIND.level v ∧ quantisedMIND.level v ≤ 5) ∧
          ((∃ l d, l < 12 ∧ s.mind.data (i + l * (m * n * o)) = some d ∧
              d ≤ 100000000000000000000) →
            ∃ l d, l < 12 ∧ s.mind.data (i + l * (m * n * o)) = some d ∧
              (∀ l' d', l' < 12 → s.mind.data (i + l' * (m * n * o)) = some d' → d ≤ d') ∧
              out.data (i + l * (m * n * o)) = some 1 ∧ quantisedMIND.level 1 = 5)) := by
  obtain ⟨s, p, es, vs, ep, mp, hret, _⟩ := descriptor_value exp mind im1
    (fun q => (im1.data q).getD 0) m n o qs hm hn ho hmind hims (by
      intro q hq
      obtain ⟨v, hv⟩ := him q hq
      simp only [hv, Option.getD_some])
  refine ⟨s, p, es, ep, ?_⟩
  intro hmean
  rw [mp] at hmean
  obtain ⟨r, _, _, er, vr⟩ := hret (fun i _ => ne_of_gt (descriptor.clamped_pos _ _ _ i hmean))
  refine ⟨r.mind, er, ?_⟩
  intro i hi
  obtain ⟨h1, h2⟩ := descriptor.value_range exp hexp0 hexp
    (descriptor.channels (fun q => (im1.data q).getD 0) m n o qs) (m * n * o) _ i hmean
  have hcell : ∀ l, l < 12 → s.mind.data (i + l * (m * n * o))
      = some (descriptor.channels (fun q => (im1.data q).getD 0) m n o qs
          (i + l * (m * n * o))) := by
    intro l hl
    rw [descriptor.channels_index _ m n o qs i l hi]
    exact vs i l hi hl
  constructor
  · intro l hl
    exact ⟨_, vr i l hi hl, (h1 l hl).1, (h1 l hl).2, quantisedMIND.level_range _⟩
  · rintro ⟨l, d, hl, hd, hbig⟩
    have hd' := hcell l hl
    rw [hd] at hd'
    obtain ⟨l1, hl1, hmin, hone⟩ := h2 ⟨l, hl, by
      rw [← Option.some.inj hd']; exact hbig⟩
    refine ⟨l1, _, hl1, hcell l1 hl1, ?_, by rw [vr i l1 hi hl1, hone],
      quantisedMIND.level_one⟩
    intro l' d' hl' hd2
    have h := hcell l' hl'
    rw [hd2] at h
    rw [Option.some.inj h]
    exact hmin l' hl'

/-- Two patch distances of the voxel 0 of the 3x3x3 volume with intensities
`i*i mod 7`, `qs = 1`: channel 2 is closer than channel 0. -/
theorem descriptor.sample_distances :
    descriptor.distance (fun i => ((i * i % 7 : Nat) : ℚ)) 3 3 3 1 2 0
      < descriptor.distance (fun i => ((i * i % 7 : Nat) : ℚ)) 3 3 3 1 0 0 := by
  decide!

/-- The twelve patch distances of the voxel 0 of the 3x3x3 volume that is 0
except for the centre voxel of intensity `1e11`, `qs = 1`: all lie between
`1e22` and `2e22`. -/
theorem descriptor.bright_distances : ∀ l, l < 12 →
    10000000000000000000000
        ≤ descriptor.distance (fun i => if i = 13 then 100000000000 else 0) 3 3 3 1 l 0 ∧
      descriptor.distance (fun i => if i = 13 then 100000000000 else 0) 3 3 3 1 l 0
        ≤ 20000000000000000000000 := by
  decide!

/-! ## `descriptor` on a constant volume -/

/-- Claim C15, failing input: on the constant 3x3x3 volume (every voxel 5,
`qs = 1`) the twelve patch distances of every voxel computed by the first part
of `descriptor` are all 0, so the normalisers and their mean `mean1` are 0, the
clamping to `[0.001*mean1, 1000*mean1]` leaves them at 0, and the division
`-mind/noise1` of the last loop is a division by zero. -/
theorem descriptor_constant_volume_fails :
    (descriptor.distances (Buf.new (27 * 12)) (Buf.ofFn 27 fun _ => 5) 3 3 3 1).toOption.map
      (fun s => (List.range (27 * 12)).all (fun p => decide (s.mind.data p = some 0)))
      = some true ∧
    failure? (descriptor (fun x => x) (Buf.new (27 * 12)) (Buf.ofFn 27 fun _ => 5) 3 3 3 1)
      = some Err.divZero := by
  obtain ⟨s, p, es, vs, _, _, _, hfail⟩ := descriptor_value (fun x => x) (Buf.new (27 * 12))
    (Buf.ofFn 27 fun _ => 5) (fun _ => 5) 3 3 3 1 (by decide) (by decide) (by decide)
    (le_refl _) (le_refl _) (fun p hp => by
      have hp' : p < 27 := hp
      simp only [Buf.ofFn, if_pos hp'])
  have hch : descriptor.channels (fun _ => (5 : ℚ)) 3 3 3 1 = fun _ => 0 := by
    funext q
    exact descriptor.distance_const 5 3 3 3 1 _ _
  rw [hch] at hfail
  simp only [Nat.cast_one] at es hfail
  have hall : ((List.range (27 * 12)).all fun q => decide (s.mind.data q = some 0)) = true := by
    rw [List.all_eq_true]
    intro q hq
    have hq' : q < 27 * 12 := List.mem_range.1 hq
    have h := vs (q % 27) (q / 27) (Nat.mod_lt _ (by norm_num)) (by omega)
    rw [show q % 27 + q / 27 * (3 * 3 * 3) = q by omega,
      descriptor.distance_const] at h
    exact decide_eq_true h
  constructor
  · rw [es]
    exact congrArg some hall
  · rw [hfail (descriptor.clamped_zero (3 * 3 * 3))]
    rfl

/-! ## The channel values of `descriptor` -/

/-- Claim C32, amended: on a volume that holds the box of half-width `qs` along
every axis, with an initialised image and room for the twelve channels, and for
an exponential with `exp 0 = 1` and `0 < exp x <= 1` for `x <= 0`, `descriptor`
reaches the mean normaliser `mean1`; when `mean1` is positive it returns, and at
every voxel the twelve channels lie in `(0,1]`, so that their quantised levels
lie in `{0..5}`. At a voxel where some channel distance is at most `1e20`, the
initial value of the running minimum, a channel of least distance equals
exactly 1 and is quantised to the top level 5. -/
theorem descriptor_channel_range (exp : ℚ → ℚ) (hexp0 : exp 0 = 1)
    (hexp : ∀ x, x ≤ 0 → 0 < exp x ∧ exp x ≤ 1) (mind im1 : Buf ℚ) (m n o qs : Nat)
    (hm : 2 * qs + 1 ≤ m) (hn : 2 * qs + 1 ≤ n) (ho : 2 * qs + 1 ≤ o)
    (hmind : m * n * o * 12 ≤ mind.size) (hims : m * n * o ≤ im1.size)
    (him : ∀ p, p < m * n * o → ∃ v, im1.data p = some v) :
    ∃ s p, descriptor.distances mind im1 m n o (qs : Int) = Except.ok s ∧
      descriptor.normaliser s.mind s.sum1 s.noise1 (m * n * o) = Except.ok p ∧
      (0 < p.mean1 → ∃ out, descriptor exp mind im1 m n o (qs : Int) = Except.ok out ∧
        ∀ i, i < m * n * o →
          (∀ l, l < 12 → ∃ v, out.data (i + l * (m * n * o)) = some v ∧ 0 < v ∧ v ≤ 1 ∧
            0 ≤ quantisedMIND.level v ∧ quantisedMIND.level v ≤ 5) ∧
          ((∃ l d, l < 12 ∧ s.mind.data (i + l * (m * n * o)) = some d ∧
              d ≤ 100000000000000000000) →
            ∃ l d, l < 12 ∧ s.mind.data (i + l * (m * n * o)) = some d ∧
              (∀ l' d', l' < 12 → s.mind.data (i + l' * (m * n * o)) = some d' → d ≤ d') ∧
              out.data (i + l * (m * n * o)) = some 1 ∧ quantisedMIND.level 1 = 5)) :=
  descriptor_spec exp hexp0 hexp mind im1 m n o qs hm hn ho hmind hims him

/-- Instance of claim C32 (amended): the 3x3x3 volume with intensities
`i*i mod 7` and `qs = 1`, the exponential being replaced by the function that
is 1 from 0 on and `1/(1-x)` below 0; the mean normaliser of this volume is
positive. -/
theorem descriptor_channel_range_witness :
    (∃ s p, descriptor.distances (Buf.new (27 * 12))
        (Buf.ofFn 27 fun i => ((i * i % 7 : Nat) : ℚ)) 3 3 3 ((1 : Nat) : Int) = Except.ok s ∧
      descriptor.normaliser s.mind s.sum1 s.noise1 (3 * 3 * 3) = Except.ok p ∧
      (0 < p.mean1 → ∃ out, descriptor (fun x => if 0 ≤ x then 1 else 1 / (1 - x))
          (Buf.new (27 * 12)) (Buf.ofFn 27 fun i => ((i * i % 7 : Nat) : ℚ)) 3 3 3
          ((1 : Nat) : Int) = Except.ok out ∧
        ∀ i, i < 3 * 3 * 3 →
          (∀ l, l < 12 → ∃ v, out.data (i + l * (3 * 3 * 3)) = some v ∧ 0 < v ∧ v ≤ 1 ∧
            0 ≤ quantisedMIND.level v ∧ quantisedMIND.level v ≤ 5) ∧
          ((∃ l d, l < 12 ∧ s.mind.data (i + l * (3 * 3 * 3)) = some d ∧
              d ≤ 100000000000000000000) →
            ∃ l d, l < 12 ∧ s.mind.data (i + l * (3 * 3 * 3)) = some d ∧
              (∀ l' d', l' < 12 → s.mind.data (i + l' * (3 * 3 * 3)) = some d' → d ≤ d') ∧
              out.data (i + l * (3 * 3 * 3)) = some 1 ∧ quantisedMIND.level 1 = 5))) ∧
    ∃ s p, descriptor.distances (Buf.new (27 * 12))
        (Buf.ofFn 27 fun i => ((i * i % 7 : Nat) : ℚ)) 3 3 3 ((1 : Nat) : Int) = Except.ok s ∧
      descriptor.normaliser s.mind s.sum1 s.noise1 (3 * 3 * 3) = Except.ok p ∧ 0 < p.mean1 :=
  have h := descriptor_channel_range (fun x => if 0 ≤ x then 1 else 1 / (1 - x))
    (by norm_num)
    (fun x hx => by
      by_cases h0 : 0 ≤ x
      · simp only [if_pos h0]
        exact ⟨by norm_num, le_refl _⟩
      · simp only [if_neg h0]
        have h1 : (1 : ℚ) ≤ 1 - x := by linarith
        exact ⟨by positivity, by rw [div_le_one (by linarith)]; exact h1⟩)
    (Buf.new (27 * 12)) (Buf.ofFn 27 fun i => ((i * i % 7 : Nat) : ℚ)) 3 3 3 1
    (by decide) (by decide) (by decide) (le_refl _) (le_refl _)
    (fun p hp => ⟨((p * p % 7 : Nat) : ℚ), by
      have hp' : p < 27 := hp
      simp only [Buf.ofFn, if_pos hp']⟩)
  ⟨h, by
    obtain ⟨s, p, es, _, ep, mp, _, _⟩ := descriptor_value
      (fun x => if 0 ≤ x then 1 else 1 / (1 - x)) (Buf.new (27 * 12))
      (Buf.ofFn 27 fun i => ((i * i % 7 : Nat) : ℚ)) (fun i => ((i * i % 7 : Nat) : ℚ)) 3 3 3 1
      (by decide) (by decide) (by decide) (le_refl _) (le_refl _)
      (fun p hp => by
        have hp' : p < 27 := hp
        simp only [Buf.ofFn, if_pos hp'])
    refine ⟨s, p, es, ep, ?_⟩
    rw [mp]
    apply descriptor.mean_pos _ (3 * 3 * 3) 0 0 (by decide) (by decide)
    apply lt_of_le_of_lt ((descriptor.leastOf_spec _ (3 * 3 * 3) 0 12).2.1 2 (by decide))
    rw [descriptor.channels_index _ 3 3 3 1 0 2 (by decide),
      descriptor.channels_index _ 3 3 3 1 0 0 (by decide)]
    exact descriptor.sample_distances⟩

/-- Counterexample to claim C32 as stated: the 3x3x3 volume that is 0 except
for the centre voxel of intensity `1e11`, with `qs = 1`. The twelve channel
distances of the voxel 0 all exceed `1e20`, so the running minimum of that
voxel keeps its initial value `1e20`, which no channel attains: `mean1` is
positive, `descriptor` returns, and at the voxel 0 all twelve channels are
below 1 and none is quantised to the top level 5. (The exponential is replaced
by the function that is 1 from 0 on and `1/(1-x)` below 0, an upper bound of
it.) -/
theorem descriptor_bright_voxel :
    ∃ s r, descriptor.distances (Buf.new (27 * 12))
        (Buf.ofFn 27 fun i => if i = 13 then 100000000000 else 0) 3 3 3 1 = Except.ok s ∧
      descriptor.normalise (fun x => if 0 ≤ x then 1 else 1 / (1 - x)) s.mind s.sum1 s.noise1
        (3 * 3 * 3) = Except.ok r ∧
      descriptor (fun x => if 0 ≤ x then 1 else 1 / (1 - x)) (Buf.new (27 * 12))
        (Buf.ofFn 27 fun i => if i = 13 then 100000000000 else 0) 3 3 3 1 = Except.ok r.mind ∧
      0 < r.mean1 ∧
      ∀ l, l < 12 → ∃ d v, s.mind.data (0 + l * 27) = some d ∧
        100000000000000000000 < d ∧ r.mind.data (0 + l * 27) = some v ∧ 0 < v ∧ v < 1 ∧
        quantisedMIND.level v < 5 := by
  obtain ⟨s, p, es, vs, _, _, hret, _⟩ := descriptor_value
    (fun x => if 0 ≤ x then 1 else 1 / (1 - x)) (Buf.new (27 * 12))
    (Buf.ofFn 27 fun i => if i = 13 then 100000000000 else 0)
    (fun i => if i = 13 then 100000000000 else 0) 3 3 3 1
    (by decide) (by decide) (by decide) (le_refl _) (le_refl _)
    (fun p hp => by
      have hp' : p < 27 := hp
      simp only [Buf.ofFn, if_pos hp'])
  have hI : ∀ q : Nat, (0 : ℚ) ≤ (if q = 13 then 100000000000 else 0) ∧
      (if q = 13 then 100000000000 else 0 : ℚ) ≤ 100000000000 := by
    intro q
    split <;> norm_num
  have hD0 : ∀ l, l < 12 →
      descriptor.channels (fun i => if i = 13 then 100000000000 else 0) 3 3 3 1
          (0 + l * (3 * 3 * 3))
        = descriptor.distance (fun i => if i = 13 then 100000000000 else 0) 3 3 3 1 l 0 :=
    fun l _ => descriptor.channels_index _ 3 3 3 1 0 l (by decide)
  have hbig : ∀ l, l < 12 → (100000000000000000000 : ℚ)
      < descriptor.channels (fun i => if i = 13 then 100000000000 else 0) 3 3 3 1
          (0 + l * (3 * 3 * 3)) := by
    intro l hl
    rw [hD0 l hl]
    exact lt_of_lt_of_le (by norm_num) (descriptor.bright_distances l hl).1
  have hmean : 0 < descriptor.mean
      (descriptor.channels (fun i => if i = 13 then 100000000000 else 0) 3 3 3 1)
      (3 * 3 * 3) := by
    apply descriptor.mean_pos _ (3 * 3 * 3) 0 0 (by decide) (by decide)
    rw [descriptor.leastOf_sentinel _ (3 * 3 * 3) 0 hbig]
    exact hbig 0 (by decide)
  have hmU : descriptor.mean
      (descriptor.channels (fun i => if i = 13 then 100000000000 else 0) 3 3 3 1)
      (3 * 3 * 3) ≤ (2 * ((1 : Nat) : ℚ) + 1) ^ 3 * 100000000000 ^ 2 :=
    descriptor.mean_le_of_bounds _ _ _ (by decide)
      (fun q => descriptor.distance_bounds _ 3 3 3 1 _ _ _ hI)
  obtain ⟨r, er, mr, ed, vr⟩ := hret (fun i _ => ne_of_gt (descriptor.clamped_pos _ _ _ i hmean))
  have hval := descriptor.value_sentinel (fun x => if 0 ≤ x then 1 else 1 / (1 - x))
    (fun x hx => by
      simp only [if_neg (not_le.2 hx)]
      exact ⟨by apply div_pos <;> linarith, le_refl _⟩)
    (descriptor.channels (fun i => if i = 13 then 100000000000 else 0) 3 3 3 1) (3 * 3 * 3) 0
    _ 10000000000000000000000 20000000000000000000000 _ hmean hmU (by norm_num)
    (fun l hl => by rw [hD0 l hl]; exact descriptor.bright_distances l hl)
    (by norm_num) (by norm_num)
  simp only [Nat.cast_one] at es er ed
  refine ⟨s, r, es, er, ed, by rw [mr]; exact hmean, ?_⟩
  intro l hl
  obtain ⟨v0, v1⟩ := hval l hl
  refine ⟨_, _, vs 0 l (by decide) hl, ?_, vr 0 l (by decide) hl, v0, by linarith,
    quantisedMIND.level_lt _ v1⟩
  rw [← hD0 l hl]
  exact hbig l hl

/-! ## `consistentMapping` -/

theorem Buf.get_cells (b : Buf ℚ) (f : Nat → ℚ) (sz : Nat) (hs : b.size = sz)
    (hc : ∀ l, l < sz → b.data l = some (f l)) (a : Int) (h0 : 0 ≤ a) (h1 : a < (sz : Int)) :
    b.get a = Except.ok (f a.toNat) :=
  Buf.get_int b a _ h0 (by rw [hs]; exact h1) (hc _ (by omega))

/-- One voxel of `interp3` on arrays holding the functions `f`, `fx`, `fy`,
`fz`: the output cell of the voxel receives the trilinear lookup. -/
theorem interp3.voxel_value (input x1 y1 z1 : Buf ℚ) (f fx fy fz : Nat → ℚ)
    (m n o m2 n2 o2 : Nat) (flag : Bool)
    (hin : input.size = m2 * n2 * o2 ∧ ∀ l, l < m2 * n2 * o2 → input.data l = some (f l))
    (hx : x1.size = m * n * o ∧ ∀ l, l < m * n * o → x1.data l = some (fx l))
    (hy : y1.size = m * n * o ∧ ∀ l, l < m * n * o → y1.data l = some (fy l))
    (hz : z1.size = m * n * o ∧ ∀ l, l < m * n * o → z1.data l = some (fz l))
    (hm : 1 ≤ m2) (hn : 1 ≤ n2) (ho : 1 ≤ o2) (k j i : Nat) (hk : k < o) (hj : j < n)
    (hi : i < m) (interp : Buf ℚ) (hsz : interp.size = m * n * o) :
    interp3.voxel input x1 y1 z1 m n m2 n2 o2 flag k j i interp
      = Except.ok ⟨interp.size, Function.update interp.data (i + j * m + k * m * n)
          (some (interp3.value f fx fy fz m n m2 n2 o2 flag k j i))⟩ := by
  have hlt := box_index_lt m n o i j k hi hj hk
  have gx := Buf.get_nat x1 _ _ (by rw [hx.1]; exact hlt) (hx.2 _ hlt)
  have gy := Buf.get_nat y1 _ _ (by rw [hy.1]; exact hlt) (hy.2 _ hlt)
  have gz := Buf.get_nat z1 _ _ (by rw [hz.1]; exact hlt) (hz.2 _ hlt)
  have gc : ∀ y x z : Int, input.get (interp3.corner m2 n2 o2 y x z)
      = Except.ok (f (interp3.corner m2 n2 o2 y x z).toNat) := by
    intro y x z
    obtain ⟨h0, h1⟩ := interp3.corner_range m2 n2 o2 hm hn ho y x z
    exact Buf.get_cells input f _ hin.1 hin.2 _ h0 h1
  unfold interp3.voxel
  simp only [box_index_cast, gx, gy, gz, gc, ok_bind, bind_pure_comp, Except.map, pure_eq_ok]
  rw [Buf.set_nat _ _ _ (by omega)]
  rfl

/-- Result of `interp3` on arrays holding the functions `f`, `fx`, `fy`, `fz`:
every output cell holds the trilinear lookup at its voxel. -/
theorem interp3_spec (interp input x1 y1 z1 : Buf ℚ) (f fx fy fz : Nat → ℚ)
    (m n o m2 n2 o2 : Nat) (flag : Bool)
    (hin : input.size = m2 * n2 * o2 ∧ ∀ l, l < m2 * n2 * o2 → input.data l = some (f l))
    (hx : x1.size = m * n * o ∧ ∀ l, l < m * n * o → x1.data l = some (fx l))
    (hy : y1.size = m * n * o ∧ ∀ l, l < m * n * o → y1.data l = some (fy l))
    (hz : z1.size = m * n * o ∧ ∀ l, l < m * n * o → z1.data l = some (fz l))
    (hm : 1 ≤ m2) (hn : 1 ≤ n2) (ho : 1 ≤ o2) (hsz : interp.size = m * n * o) :
    ∃ out, interp3 interp input x1 y1 z1 m n o m2 n2 o2 flag = Except.ok out ∧
      out.size = m * n * o ∧ ∀ l, l < m * n * o → out.data l = some
        (interp3.value f fx fy fz m n m2 n2 o2 flag (l / (m * n)) (l / m % n) (l % m)) := by
  obtain ⟨out, eo, hos, ho⟩ := tripleLoop_inv
    (fun k j i (t : Buf ℚ) => t.size = m * n * o ∧ ∀ l, l < i + j * m + k * m * n → l < m * n * o →
      t.data l = some
        (interp3.value f fx fy fz m n m2 n2 o2 flag (l / (m * n)) (l / m % n) (l % m)))
    o n m (interp3.voxel input x1 y1 z1 m n m2 n2 o2 flag) interp
    ⟨hsz, fun l hl => by simp at hl⟩
    (by
      rintro k j i t hk hj hi ⟨hts, hc⟩
      obtain ⟨d1, d2, d3⟩ := box_index_decode m n i j k hi hj
      refine ⟨_, interp3.voxel_value input x1 y1 z1 f fx fy fz m n o m2 n2 o2 flag hin hx hy hz
        hm hn ho k j i hk hj hi t hts, hts, ?_⟩
      intro l hl hl2
      by_cases h : l = i + j * m + k * m * n
      · subst h
        simp only [Function.update_same, d1, d2, d3]
      · simp only [Function.update_noteq h]
        exact hc l (by omega) hl2)
    (by
      rintro k j t _ _ ⟨hts, hc⟩
      refine ⟨hts, fun l hl hl2 => hc l ?_ hl2⟩
      have : m + j * m + k * m * n = 0 + (j + 1) * m + k * m * n := by ring
      omega)
    (by
      rintro k t _ ⟨hts, hc⟩
      refine ⟨hts, fun l hl hl2 => hc l ?_ hl2⟩
      have : 0 + n * m + k * m * n = 0 + 0 * m + (k + 1) * m * n := by ring
      omega)
  refine ⟨out, eo, hos, fun l hl => ho l ?_ hl⟩
  have : 0 + 0 * m + o * m * n = m * n * o := by ring
  omega
theorem scaledCopyAt_step (dst src : Buf ℚ) (sz i : Nat) (new old : Nat → Option ℚ) (x c : ℚ)
    (h : Buf.Upto dst sz i new old) (hi : i < sz) (hs : src.size = sz) (hx : src.data i = some x)
    (hv : new i = some (x * c)) :
    ∃ b', scaledCopyAt dst src i c = Except.ok b' ∧ Buf.Upto b' sz (i + 1) new old := by
  refine ⟨_, ?_, Buf.Upto.step dst sz i new old _ h hv⟩
  unfold scaledCopyAt
  rw [Buf.get_nat src i x (by rw [hs]; exact hi) hx]
  exact Buf.set_nat dst i _ (by rw [h.1]; exact hi)

theorem averageAt_step (dst src : Buf ℚ) (sz i : Nat) (new old : Nat → Option ℚ) (x y : ℚ)
    (h : Buf.Upto dst sz i new old) (hi : i < sz) (hs : src.size = sz) (hx : src.data i = some x)
    (hy : old i = some y) (hv : new i = some (1 / 2 * x - 1 / 2 * y)) :
    ∃ b', averageAt dst src i = Except.ok b' ∧ Buf.Upto b' sz (i + 1) new old := by
  have hd : dst.data i = some y := by rw [h.2 i hi, if_neg (lt_irrefl _), hy]
  refine ⟨_, ?_, Buf.Upto.step dst sz i new old _ h hv⟩
  unfold averageAt
  rw [Buf.get_nat src i x (by rw [hs]; exact hi) hx, ok_bind,
    Buf.get_nat dst i y (by rw [h.1]; exact hi) hd]
  exact Buf.set_nat dst i _ (by rw [h.1]; exact hi)

theorem assignAt_step (dst src : Buf ℚ) (sz i : Nat) (new old : Nat → Option ℚ) (x : ℚ)
    (h : Buf.Upto dst sz i new old) (hi : i < sz) (hs : src.size = sz) (hx : src.data i = some x)
    (hv : new i = some x) :
    ∃ b', assignAt dst src i = Except.ok b' ∧ Buf.Upto b' sz (i + 1) new old := by
  refine ⟨_, ?_, Buf.Upto.step dst sz i new old _ h hv⟩
  unfold assignAt
  rw [Buf.get_nat src i x (by rw [hs]; exact hi) hx]
  exact Buf.set_nat dst i _ (by rw [h.1]; exact hi)

theorem rescaleAt_step (b : Buf ℚ) (sz i : Nat) (new old : Nat → Option ℚ) (x c : ℚ)
    (h : Buf.Upto b sz i new old) (hi : i < sz) (hx : old i = some x)
    (hv : new i = some (x * c)) :
    ∃ b', rescaleAt b i c = Except.ok b' ∧ Buf.Upto b' sz (i + 1) new old := by
  have hd : b.data i = some x := by rw [h.2 i hi, if_neg (lt_irrefl _), hx]
  refine ⟨_, ?_, Buf.Upto.step b sz i new old _ h hv⟩
  unfold rescaleAt
  rw [Buf.get_nat b i x (by rw [h.1]; exact hi) hd]
  exact Buf.set_nat b i _ (by rw [h.1]; exact hi)


/-- The first loop of `consistentMapping` fills the six copies with the scaled fields
and leaves the fields unchanged. -/
theorem consistentMapping.scaledCopy_loop (sz : Nat) (factor1 : ℚ) (s0 : MapState) (fu fv fw fu2
  fv2 fw2 : Nat → ℚ)
    (hus : s0.us.size = sz) (gu : s0.u.size = sz ∧ ∀ l, l < sz → s0.u.data l = some (fu l))
    (hvs : s0.vs.size = sz) (gv : s0.v.size = sz ∧ ∀ l, l < sz → s0.v.data l = some (fv l))
    (hws : s0.ws.size = sz) (gw : s0.w.size = sz ∧ ∀ l, l < sz → s0.w.data l = some (fw l))
    (hus2 : s0.us2.size = sz)
    (gu2 : s0.u2.size = sz ∧ ∀ l, l < sz → s0.u2.data l = some (fu2 l))
    (hvs2 : s0.vs2.size = sz)
    (gv2 : s0.v2.size = sz ∧ ∀ l, l < sz → s0.v2.data l = some (fv2 l))
    (hws2 : s0.ws2.size = sz)
    (gw2 : s0.w2.size = sz ∧ ∀ l, l < sz → s0.w2.data l = some (fw2 l)) :
    ∃ s, forLoop (consistentMapping.scale factor1) 0 sz s0 = Except.ok s ∧
      (s.us.size = sz ∧ ∀ l, l < sz → s.us.data l = some (fu l * factor1)) ∧
      (s.vs.size = sz ∧ ∀ l, l < sz → s.vs.data l = some (fv l * factor1)) ∧
      (s.ws.size = sz ∧ ∀ l, l < sz → s.ws.data l = some (fw l * factor1)) ∧
      (s.us2.size = sz ∧ ∀ l, l < sz → s.us2.data l = some (fu2 l * factor1)) ∧
      (s.vs2.size = sz ∧ ∀ l, l < sz → s.vs2.data l = some (fv2 l * factor1)) ∧
      (s.ws2.size = sz ∧ ∀ l, l < sz → s.ws2.data l = some (fw2 l * factor1)) ∧ s.u = s0.u ∧
      s.v = s0.v ∧ s.w = s0.w ∧ s.u2 = s0.u2 ∧ s.v2 = s0.v2 ∧ s.w2 = s0.w2 := by
  obtain ⟨s, hs, vus, vvs, vws, vus2, vvs2, vws2, qu, qv, qw, qu2, qv2, qw2⟩ := forLoop_inv
    (fun i (s : MapState) =>
      Buf.Upto s.us sz i (fun l => some (fu l * factor1)) s0.us.data ∧
      Buf.Upto s.vs sz i (fun l => some (fv l * factor1)) s0.vs.data ∧
      Buf.Upto s.ws sz i (fun l => some (fw l * factor1)) s0.ws.data ∧
      Buf.Upto s.us2 sz i (fun l => some (fu2 l * factor1)) s0.us2.data ∧
      Buf.Upto s.vs2 sz i (fun l => some (fv2 l * factor1)) s0.vs2.data ∧
      Buf.Upto s.ws2 sz i (fun l => some (fw2 l * factor1)) s0.ws2.data ∧ s.u = s0.u ∧
      s.v = s0.v ∧ s.w = s0.w ∧ s.u2 = s0.u2 ∧ s.v2 = s0.v2 ∧ s.w2 = s0.w2)
    (consistentMapping.scale factor1) sz 0 s0
    ⟨Buf.Upto.init _ _ _ _ hus (fun _ _ => rfl), Buf.Upto.init _ _ _ _ hvs (fun _ _ => rfl),
      Buf.Upto.init _ _ _ _ hws (fun _ _ => rfl), Buf.Upto.init _ _ _ _ hus2 (fun _ _ => rfl),
        Buf.Upto.init _ _ _ _ hvs2 (fun _ _ => rfl), Buf.Upto.init _ _ _ _ hws2 (fun _ _ => rfl),
          rfl, rfl, rfl, rfl, rfl, rfl⟩
    (by
      intro i s _ hi h
      have hi' : i < sz := by simpa using hi
      obtain ⟨vus, vvs, vws, vus2, vvs2, vws2, qu, qv, qw, qu2, qv2, qw2⟩ := h
      obtain ⟨bus, eus, xus⟩ := scaledCopyAt_step s.us s.u sz i _ _ (fu i) factor1
        vus hi' (by rw [qu]; exact gu.1) (by rw [qu]; exact gu.2 i hi') rfl
      obtain ⟨bvs, evs, xvs⟩ := scaledCopyAt_step s.vs s.v sz i _ _ (fv i) factor1
        vvs hi' (by rw [qv]; exact gv.1) (by rw [qv]; exact gv.2 i hi') rfl
      obtain ⟨bws, ews, xws⟩ := scaledCopyAt_step s.ws s.w sz i _ _ (fw i) factor1
        vws hi' (by rw [qw]; exact gw.1) (by rw [qw]; exact gw.2 i hi') rfl
      obtain ⟨bus2, eus2, xus2⟩ := scaledCopyAt_step s.us2 s.u2 sz i _ _ (fu2 i) factor1
        vus2 hi' (by rw [qu2]; exact gu2.1) (by rw [qu2]; exact gu2.2 i hi') rfl
      obtain ⟨bvs2, evs2, xvs2⟩ := scaledCopyAt_step s.vs2 s.v2 sz i _ _ (fv2 i) factor1
        vvs2 hi' (by rw [qv2]; exact gv2.1) (by rw [qv2]; exact gv2.2 i hi') rfl
      obtain ⟨bws2, ews2, xws2⟩ := scaledCopyAt_step s.ws2 s.w2 sz i _ _ (fw2 i) factor1
        vws2 hi' (by rw [qw2]; exact gw2.1) (by rw [qw2]; exact gw2.2 i hi') rfl
      refine ⟨{ s with us := bus, vs := bvs, ws := bws, us2 := bus2, vs2 := bvs2, ws2 := bws2 },
        ?_, xus, xvs, xws, xus2, xvs2, xws2,
        qu, qv, qw, qu2, qv2, qw2⟩
      unfold consistentMapping.scale
      simp only [eus, evs, ews, eus2, evs2, ews2, ok_bind, pure_eq_ok])
  rw [Nat.zero_add] at vus vvs vws vus2 vvs2 vws2
  exact ⟨s, hs, Buf.Upto.final _ _ _ _ vus, Buf.Upto.final _ _ _ _ vvs, Buf.Upto.final _ _ _ _ vws,
    Buf.Upto.final _ _ _ _ vus2, Buf.Upto.final _ _ _ _ vvs2, Buf.Upto.final _ _ _ _ vws2,
    qu, qv, qw, qu2, qv2, qw2⟩


/-- The forward averaging loop of a round: each forward cell becomes half the copy
minus half the value it held. -/
theorem consistentMapping.forward_loop (sz : Nat) (s0 : MapState) (fus fvs fws au av aw : Nat → ℚ)
    (hu : s0.u.size = sz ∧ ∀ l, l < sz → s0.u.data l = some (au l))
    (gus : s0.us.size = sz ∧ ∀ l, l < sz → s0.us.data l = some (fus l))
    (hv : s0.v.size = sz ∧ ∀ l, l < sz → s0.v.data l = some (av l))
    (gvs : s0.vs.size = sz ∧ ∀ l, l < sz → s0.vs.data l = some (fvs l))
    (hw : s0.w.size = sz ∧ ∀ l, l < sz → s0.w.data l = some (aw l))
    (gws : s0.ws.size = sz ∧ ∀ l, l < sz → s0.ws.data l = some (fws l)) :
    ∃ s, forLoop (consistentMapping.forward) 0 sz s0 = Except.ok s ∧
      (s.u.size = sz ∧ ∀ l, l < sz → s.u.data l = some (1 / 2 * fus l - 1 / 2 * au l)) ∧
      (s.v.size = sz ∧ ∀ l, l < sz → s.v.data l = some (1 / 2 * fvs l - 1 / 2 * av l)) ∧
      (s.w.size = sz ∧ ∀ l, l < sz → s.w.data l = some (1 / 2 * fws l - 1 / 2 * aw l)) ∧
      s.u2 = s0.u2 ∧ s.v2 = s0.v2 ∧ s.w2 = s0.w2 ∧ s.us = s0.us ∧ s.vs = s0.vs ∧ s.ws = s0.ws ∧
      s.us2 = s0.us2 ∧ s.vs2 = s0.vs2 ∧ s.ws2 = s0.ws2 := by
  obtain ⟨s, hs, vu, vv, vw, qu2, qv2, qw2, qus, qvs, qws, qus2, qvs2, qws2⟩ := forLoop_inv
    (fun i (s : MapState) =>
      Buf.Upto s.u sz i (fun l => some (1 / 2 * fus l - 1 / 2 * au l)) s0.u.data ∧
      Buf.Upto s.v sz i (fun l => some (1 / 2 * fvs l - 1 / 2 * av l)) s0.v.data ∧
      Buf.Upto s.w sz i (fun l => some (1 / 2 * fws l - 1 / 2 * aw l)) s0.w.data ∧
      s.u2 = s0.u2 ∧ s.v2 = s0.v2 ∧ s.w2 = s0.w2 ∧ s.us = s0.us ∧ s.vs = s0.vs ∧ s.ws = s0.ws ∧
      s.us2 = s0.us2 ∧ s.vs2 = s0.vs2 ∧ s.ws2 = s0.ws2)
    (consistentMapping.forward) sz 0 s0
    ⟨Buf.Upto.init _ _ _ _ hu.1 (fun _ _ => rfl), Buf.Upto.init _ _ _ _ hv.1 (fun _ _ => rfl),
      Buf.Upto.init _ _ _ _ hw.1 (fun _ _ => rfl), rfl, rfl, rfl, rfl, rfl, rfl, rfl, rfl, rfl⟩
    (by
      intro i s _ hi h
      have hi' : i < sz := by simpa using hi
      obtain ⟨vu, vv, vw, qu2, qv2, qw2, qus, qvs, qws, qus2, qvs2, qws2⟩ := h
      obtain ⟨bu, eu, xu⟩ := averageAt_step s.u s.us sz i _ _ (fus i) (au i)
        vu hi' (by rw [qus]; exact gus.1) (by rw [qus]; exact gus.2 i hi')
        (hu.2 i hi') rfl
      obtain ⟨bv, ev, xv⟩ := averageAt_step s.v s.vs sz i _ _ (fvs i) (av i)
        vv hi' (by rw [qvs]; exact gvs.1) (by rw [qvs]; exact gvs.2 i hi')
        (hv.2 i hi') rfl
      obtain ⟨bw, ew, xw⟩ := averageAt_step s.w s.ws sz i _ _ (fws i) (aw i)
        vw hi' (by rw [qws]; exact gws.1) (by rw [qws]; exact gws.2 i hi')
        (hw.2 i hi') rfl
      refine ⟨{ s with u := bu, v := bv, w := bw }, ?_, xu, xv, xw,
        qu2, qv2, qw2, qus, qvs, qws, qus2, qvs2, qws2⟩
      unfold consistentMapping.forward
      simp only [eu, ev, ew, ok_bind, pure_eq_ok])
  rw [Nat.zero_add] at vu vv vw
  exact ⟨s, hs, Buf.Upto.final _ _ _ _ vu, Buf.Upto.final _ _ _ _ vv, Buf.Upto.final _ _ _ _ vw,
    qu2, qv2, qw2, qus, qvs, qws, qus2, qvs2, qws2⟩


/-- The backward averaging loop of a round: each backward cell becomes half the copy
minus half the value it held. -/
theorem consistentMapping.backward_loop (sz : Nat) (s0 : MapState) (fus2 fvs2 fws2 au2 av2 aw2 :
  Nat → ℚ)
    (hu2 : s0.u2.size = sz ∧ ∀ l, l < sz → s0.u2.data l = some (au2 l))
    (gus2 : s0.us2.size = sz ∧ ∀ l, l < sz → s0.us2.data l = some (fus2 l))
    (hv2 : s0.v2.size = sz ∧ ∀ l, l < sz → s0.v2.data l = some (av2 l))
    (gvs2 : s0.vs2.size = sz ∧ ∀ l, l < sz → s0.vs2.data l = some (fvs2 l))
    (hw2 : s0.w2.size = sz ∧ ∀ l, l < sz → s0.w2.data l = some (aw2 l))
    (gws2 : s0.ws2.size = sz ∧ ∀ l, l < sz → s0.ws2.data l = some (fws2 l)) :
    ∃ s, forLoop (consistentMapping.backward) 0 sz s0 = Except.ok s ∧
      (s.u2.size = sz ∧ ∀ l, l < sz → s.u2.data l = some (1 / 2 * fus2 l - 1 / 2 * au2 l)) ∧
      (s.v2.size = sz ∧ ∀ l, l < sz → s.v2.data l = some (1 / 2 * fvs2 l - 1 / 2 * av2 l)) ∧
      (s.w2.size = sz ∧ ∀ l, l < sz → s.w2.data l = some (1 / 2 * fws2 l - 1 / 2 * aw2 l)) ∧
      s.u = s0.u ∧ s.v = s0.v ∧ s.w = s0.w ∧ s.us = s0.us ∧ s.vs = s0.vs ∧ s.ws = s0.ws ∧
      s.us2 = s0.us2 ∧ s.vs2 = s0.vs2 ∧ s.ws2 = s0.ws2 := by
  obtain ⟨s, hs, vu2, vv2, vw2, qu, qv, qw, qus, qvs, qws, qus2, qvs2, qws2⟩ := forLoop_inv
    (fun i (s : MapState) =>
      Buf.Upto s.u2 sz i (fun l => some (1 / 2 * fus2 l - 1 / 2 * au2 l)) s0.u2.data ∧
      Buf.Upto s.v2 sz i (fun l => some (1 / 2 * fvs2 l - 1 / 2 * av2 l)) s0.v2.data ∧
      Buf.Upto s.w2 sz i (fun l => some (1 / 2 * fws2 l - 1 / 2 * aw2 l)) s0.w2.data ∧
      s.u = s0.u ∧ s.v = s0.v ∧ s.w = s0.w ∧ s.us = s0.us ∧ s.vs = s0.vs ∧ s.ws = s0.ws ∧
      s.us2 = s0.us2 ∧ s.vs2 = s0.vs2 ∧ s.ws2 = s0.ws2)
    (consistentMapping.backward) sz 0 s0
    ⟨Buf.Upto.init _ _ _ _ hu2.1 (fun _ _ => rfl), Buf.Upto.init _ _ _ _ hv2.1 (fun _ _ => rfl),
      Buf.Upto.init _ _ _ _ hw2.1 (fun _ _ => rfl), rfl, rfl, rfl, rfl, rfl, rfl, rfl, rfl, rfl⟩
    (by
      intro i s _ hi h
      have hi' : i < sz := by simpa using hi
      obtain ⟨vu2, vv2, vw2, qu, qv, qw, qus, qvs, qws, qus2, qvs2, qws2⟩ := h
      obtain ⟨bu2, eu2, xu2⟩ := averageAt_step s.u2 s.us2 sz i _ _ (fus2 i) (au2 i)
        vu2 hi' (by rw [qus2]; exact gus2.1) (by rw [qus2]; exact gus2.2 i hi')
        (hu2.2 i hi') rfl
      obtain ⟨bv2, ev2, xv2⟩ := averageAt_step s.v2 s.vs2 sz i _ _ (fvs2 i) (av2 i)
        vv2 hi' (by rw [qvs2]; exact gvs2.1) (by rw [qvs2]; exact gvs2.2 i hi')
        (hv2.2 i hi') rfl
      obtain ⟨bw2, ew2, xw2⟩ := averageAt_step s.w2 s.ws2 sz i _ _ (fws2 i) (aw2 i)
        vw2 hi' (by rw [qws2]; exact gws2.1) (by rw [qws2]; exact gws2.2 i hi')
        (hw2.2 i hi') rfl
      refine ⟨{ s with u2 := bu2, v2 := bv2, w2 := bw2 }, ?_, xu2, xv2, xw2,
        qu, qv, qw, qus, qvs, qws, qus2, qvs2, qws2⟩
      unfold consistentMapping.backward
      simp only [eu2, ev2, ew2, ok_bind, pure_eq_ok])
  rw [Nat.zero_add] at vu2 vv2 vw2
  exact ⟨s, hs, Buf.Upto.final _ _ _ _ vu2, Buf.Upto.final _ _ _ _ vv2, Buf.Upto.final _ _ _ _ vw2,
    qu, qv, qw, qus, qvs, qws, qus2, qvs2, qws2⟩


/-- The loop that ends a round copies the six fields into the six copies. -/
theorem consistentMapping.copy_loop (sz : Nat) (s0 : MapState) (fu fv fw fu2 fv2 fw2 : Nat → ℚ)
    (hus : s0.us.size = sz) (gu : s0.u.size = sz ∧ ∀ l, l < sz → s0.u.data l = some (fu l))
    (hvs : s0.vs.size = sz) (gv : s0.v.size = sz ∧ ∀ l, l < sz → s0.v.data l = some (fv l))
    (hws : s0.ws.size = sz) (gw : s0.w.size = sz ∧ ∀ l, l < sz → s0.w.data l = some (fw l))
    (hus2 : s0.us2.size = sz)
    (gu2 : s0.u2.size = sz ∧ ∀ l, l < sz → s0.u2.data l = some (fu2 l))
    (hvs2 : s0.vs2.size = sz)
    (gv2 : s0.v2.size = sz ∧ ∀ l, l < sz → s0.v2.data l = some (fv2 l))
    (hws2 : s0.ws2.size = sz)
    (gw2 : s0.w2.size = sz ∧ ∀ l, l < sz → s0.w2.data l = some (fw2 l)) :
    ∃ s, forLoop (consistentMapping.copy) 0 sz s0 = Except.ok s ∧
      (s.us.size = sz ∧ ∀ l, l < sz → s.us.data l = some (fu l)) ∧
      (s.vs.size = sz ∧ ∀ l, l < sz → s.vs.data l = some (fv l)) ∧
      (s.ws.size = sz ∧ ∀ l, l < sz → s.ws.data l = some (fw l)) ∧
      (s.us2.size = sz ∧ ∀ l, l < sz → s.us2.data l = some (fu2 l)) ∧
      (s.vs2.size = sz ∧ ∀ l, l < sz → s.vs2.data l = some (fv2 l)) ∧
      (s.ws2.size = sz ∧ ∀ l, l < sz → s.ws2.data l = some (fw2 l)) ∧ s.u = s0.u ∧ s.v = s0.v ∧
      s.w = s0.w ∧ s.u2 = s0.u2 ∧ s.v2 = s0.v2 ∧ s.w2 = s0.w2 := by
  obtain ⟨s, hs, vus, vvs, vws, vus2, vvs2, vws2, qu, qv, qw, qu2, qv2, qw2⟩ := forLoop_inv
    (fun i (s : MapState) =>
      Buf.Upto s.us sz i (fun l => some (fu l)) s0.us.data ∧
      Buf.Upto s.vs sz i (fun l => some (fv l)) s0.vs.data ∧
      Buf.Upto s.ws sz i (fun l => some (fw l)) s0.ws.data ∧
      Buf.Upto s.us2 sz i (fun l => some (fu2 l)) s0.us2.data ∧
      Buf.Upto s.vs2 sz i (fun l => some (fv2 l)) s0.vs2.data ∧
      Buf.Upto s.ws2 sz i (fun l => some (fw2 l)) s0.ws2.data ∧ s.u = s0.u ∧ s.v = s0.v ∧
      s.w = s0.w ∧ s.u2 = s0.u2 ∧ s.v2 = s0.v2 ∧ s.w2 = s0.w2)
    (consistentMapping.copy) sz 0 s0
    ⟨Buf.Upto.init _ _ _ _ hus (fun _ _ => rfl), Buf.Upto.init _ _ _ _ hvs (fun _ _ => rfl),
      Buf.Upto.init _ _ _ _ hws (fun _ _ => rfl), Buf.Upto.init _ _ _ _ hus2 (fun _ _ => rfl),
        Buf.Upto.init _ _ _ _ hvs2 (fun _ _ => rfl), Buf.Upto.init _ _ _ _ hws2 (fun _ _ => rfl),
          rfl, rfl, rfl, rfl, rfl, rfl⟩
    (by
      intro i s _ hi h
      have hi' : i < sz := by simpa using hi
      obtain ⟨vus, vvs, vws, vus2, vvs2, vws2, qu, qv, qw, qu2, qv2, qw2⟩ := h
      obtain ⟨bus, eus, xus⟩ := assignAt_step s.us s.u sz i _ _ (fu i)
        vus hi' (by rw [qu]; exact gu.1) (by rw [qu]; exact gu.2 i hi') rfl
      obtain ⟨bvs, evs, xvs⟩ := assignAt_step s.vs s.v sz i _ _ (fv i)
        vvs hi' (by rw [qv]; exact gv.1) (by rw [qv]; exact gv.2 i hi') rfl
      obtain ⟨bws, ews, xws⟩ := assignAt_step s.ws s.w sz i _ _ (fw i)
        vws hi' (by rw [qw]; exact gw.1) (by rw [qw]; exact gw.2 i hi') rfl
      obtain ⟨bus2, eus2, xus2⟩ := assignAt_step s.us2 s.u2 sz i _ _ (fu2 i)
        vus2 hi' (by rw [qu2]; exact gu2.1) (by rw [qu2]; exact gu2.2 i hi') rfl
      obtain ⟨bvs2, evs2, xvs2⟩ := assignAt_step s.vs2 s.v2 sz i _ _ (fv2 i)
        vvs2 hi' (by rw [qv2]; exact gv2.1) (by rw [qv2]; exact gv2.2 i hi') rfl
      obtain ⟨bws2, ews2, xws2⟩ := assignAt_step s.ws2 s.w2 sz i _ _ (fw2 i)
        vws2 hi' (by rw [qw2]; exact gw2.1) (by rw [qw2]; exact gw2.2 i hi') rfl
      refine ⟨{ s with us := bus, vs := bvs, ws := bws, us2 := bus2, vs2 := bvs2, ws2 := bws2 },
        ?_, xus, xvs, xws, xus2, xvs2, xws2,
        qu, qv, qw, qu2, qv2, qw2⟩
      unfold consistentMapping.copy
      simp only [eus, evs, ews, eus2, evs2, ews2, ok_bind, pure_eq_ok])
  rw [Nat.zero_add] at vus vvs vws vus2 vvs2 vws2
  exact ⟨s, hs, Buf.Upto.final _ _ _ _ vus, Buf.Upto.final _ _ _ _ vvs, Buf.Upto.final _ _ _ _ vws,
    Buf.Upto.final _ _ _ _ vus2, Buf.Upto.final _ _ _ _ vvs2, Buf.Upto.final _ _ _ _ vws2,
    qu, qv, qw, qu2, qv2, qw2⟩


/-- The last loop of `consistentMapping` multiplies the six fields by `factor`. -/
theorem consistentMapping.rescale_loop (sz : Nat) (factor : ℚ) (s0 : MapState) (fu fv fw fu2 fv2
  fw2 : Nat → ℚ)
    (hu : s0.u.size = sz ∧ ∀ l, l < sz → s0.u.data l = some (fu l))
    (hv : s0.v.size = sz ∧ ∀ l, l < sz → s0.v.data l = some (fv l))
    (hw : s0.w.size = sz ∧ ∀ l, l < sz → s0.w.data l = some (fw l))
    (hu2 : s0.u2.size = sz ∧ ∀ l, l < sz → s0.u2.data l = some (fu2 l))
    (hv2 : s0.v2.size = sz ∧ ∀ l, l < sz → s0.v2.data l = some (fv2 l))
    (hw2 : s0.w2.size = sz ∧ ∀ l, l < sz → s0.w2.data l = some (fw2 l)) :
    ∃ s, forLoop (consistentMapping.rescale factor) 0 sz s0 = Except.ok s ∧
      (s.u.size = sz ∧ ∀ l, l < sz → s.u.data l = some (fu l * factor)) ∧
      (s.v.size = sz ∧ ∀ l, l < sz → s.v.data l = some (fv l * factor)) ∧
      (s.w.size = sz ∧ ∀ l, l < sz → s.w.data l = some (fw l * factor)) ∧
      (s.u2.size = sz ∧ ∀ l, l < sz → s.u2.data l = some (fu2 l * factor)) ∧
      (s.v2.size = sz ∧ ∀ l, l < sz → s.v2.data l = some (fv2 l * factor)) ∧
      (s.w2.size = sz ∧ ∀ l, l < sz → s.w2.data l = some (fw2 l * factor)) ∧ s.us = s0.us ∧
      s.vs = s0.vs ∧ s.ws = s0.ws ∧ s.us2 = s0.us2 ∧ s.vs2 = s0.vs2 ∧ s.ws2 = s0.ws2 := by
  obtain ⟨s, hs, vu, vv, vw, vu2, vv2, vw2, qus, qvs, qws, qus2, qvs2, qws2⟩ := forLoop_inv
    (fun i (s : MapState) =>
      Buf.Upto s.u sz i (fun l => some (fu l * factor)) s0.u.data ∧
      Buf.Upto s.v sz i (fun l => some (fv l * factor)) s0.v.data ∧
      Buf.Upto s.w sz i (fun l => some (fw l * factor)) s0.w.data ∧
      Buf.Upto s.u2 sz i (fun l => some (fu2 l * factor)) s0.u2.data ∧
      Buf.Upto s.v2 sz i (fun l => some (fv2 l * factor)) s0.v2.data ∧
      Buf.Upto s.w2 sz i (fun l => some (fw2 l * factor)) s0.w2.data ∧ s.us = s0.us ∧
      s.vs = s0.vs ∧ s.ws = s0.ws ∧ s.us2 = s0.us2 ∧ s.vs2 = s0.vs2 ∧ s.ws2 = s0.ws2)
    (consistentMapping.rescale factor) sz 0 s0
    ⟨Buf.Upto.init _ _ _ _ hu.1 (fun _ _ => rfl), Buf.Upto.init _ _ _ _ hv.1 (fun _ _ => rfl),
      Buf.Upto.init _ _ _ _ hw.1 (fun _ _ => rfl), Buf.Upto.init _ _ _ _ hu2.1 (fun _ _ => rfl),
        Buf.Upto.init _ _ _ _ hv2.1 (fun _ _ => rfl), Buf.Upto.init _ _ _ _ hw2.1 (fun _ _ => rfl),
          rfl, rfl, rfl, rfl, rfl, rfl⟩
    (by
      intro i s _ hi h
      have hi' : i < sz := by simpa using hi
      obtain ⟨vu, vv, vw, vu2, vv2, vw2, qus, qvs, qws, qus2, qvs2, qws2⟩ := h
      obtain ⟨bu, eu, xu⟩ := rescaleAt_step s.u sz i _ _ (fu i) factor
        vu hi' (hu.2 i hi') rfl
      obtain ⟨bv, ev, xv⟩ := rescaleAt_step s.v sz i _ _ (fv i) factor
        vv hi' (hv.2 i hi') rfl
      obtain ⟨bw, ew, xw⟩ := rescaleAt_step s.w sz i _ _ (fw i) factor
        vw hi' (hw.2 i hi') rfl
      obtain ⟨bu2, eu2, xu2⟩ := rescaleAt_step s.u2 sz i _ _ (fu2 i) factor
        vu2 hi' (hu2.2 i hi') rfl
      obtain ⟨bv2, ev2, xv2⟩ := rescaleAt_step s.v2 sz i _ _ (fv2 i) factor
        vv2 hi' (hv2.2 i hi') rfl
      obtain ⟨bw2, ew2, xw2⟩ := rescaleAt_step s.w2 sz i _ _ (fw2 i) factor
        vw2 hi' (hw2.2 i hi') rfl
      refine ⟨{ s with u := bu, v := bv, w := bw, u2 := bu2, v2 := bv2, w2 := bw2 }, ?_, xu, xv,
        xw, xu2, xv2, xw2,
        qus, qvs, qws, qus2, qvs2, qws2⟩
      unfold consistentMapping.rescale
      simp only [eu, ev, ew, eu2, ev2, ew2, ok_bind, pure_eq_ok])
  rw [Nat.zero_add] at vu vv vw vu2 vv2 vw2
  exact ⟨s, hs, Buf.Upto.final _ _ _ _ vu, Buf.Upto.final _ _ _ _ vv, Buf.Upto.final _ _ _ _ vw,
    Buf.Upto.final _ _ _ _ vu2, Buf.Upto.final _ _ _ _ vv2, Buf.Upto.final _ _ _ _ vw2,
    qus, qvs, qws, qus2, qvs2, qws2⟩
/-- One round of `consistentMapping`, started with the six copies holding the
pair of fields `F`: afterwards the fields and the copies hold
`symmetricStep m n o F`. The backward lookup reads the copies `us, vs, ws`,
which still hold the forward field of the start of the round. -/
theorem consistentMapping.round_spec (m n o : Nat) (hm : 1 ≤ m) (hn : 1 ≤ n) (ho : 1 ≤ o)
    (s : MapState) (F : FieldPair)
    (hu : s.u.size = m * n * o) (hv : s.v.size = m * n * o) (hw : s.w.size = m * n * o)
    (hu2 : s.u2.size = m * n * o) (hv2 : s.v2.size = m * n * o) (hw2 : s.w2.size = m * n * o)
    (hc : Holds (m * n * o) s.us s.vs s.ws s.us2 s.vs2 s.ws2 F) :
    ∃ s', consistentMapping.round m n o s = Except.ok s' ∧
      Holds (m * n * o) s'.u s'.v s'.w s'.u2 s'.v2 s'.w2 (symmetricStep m n o F) ∧
      Holds (m * n * o) s'.us s'.vs s'.ws s'.us2 s'.vs2 s'.ws2 (symmetricStep m n o F) := by
  obtain ⟨cus, cvs, cws, cus2, cvs2, cws2⟩ := hc
  obtain ⟨a1, e1, p1⟩ := interp3_spec s.u s.us2 s.us s.vs s.ws F.u2 F.u F.v F.w m n o m n o true
    cus2 cus cvs cws hm hn ho hu
  obtain ⟨a2, e2, p2⟩ := interp3_spec s.v s.vs2 s.us s.vs s.ws F.v2 F.u F.v F.w m n o m n o true
    cvs2 cus cvs cws hm hn ho hv
  obtain ⟨a3, e3, p3⟩ := interp3_spec s.w s.ws2 s.us s.vs s.ws F.w2 F.u F.v F.w m n o m n o true
    cws2 cus cvs cws hm hn ho hw
  obtain ⟨s1, f1, r1, r2, r3, qu2, qv2, qw2, qus, qvs, qws, qus2, qvs2, qws2⟩ :=
    consistentMapping.forward_loop (m * n * o) { s with u := a1, v := a2, w := a3 }
      F.u F.v F.w (lookupAt F.u2 F.u F.v F.w m n o) (lookupAt F.v2 F.u F.v F.w m n o)
      (lookupAt F.w2 F.u F.v F.w m n o) p1 cus p2 cvs p3 cws
  have qus' : s1.us = s.us := qus
  have qvs' : s1.vs = s.vs := qvs
  have qws' : s1.ws = s.ws := qws
  have qus2' : s1.us2 = s.us2 := qus2
  have qvs2' : s1.vs2 = s.vs2 := qvs2
  have qws2' : s1.ws2 = s.ws2 := qws2
  have qu2' : s1.u2 = s.u2 := qu2
  have qv2' : s1.v2 = s.v2 := qv2
  have qw2' : s1.w2 = s.w2 := qw2
  rw [← qus'] at cus
  rw [← qvs'] at cvs
  rw [← qws'] at cws
  rw [← qus2'] at cus2
  rw [← qvs2'] at cvs2
  rw [← qws2'] at cws2
  rw [← qu2'] at hu2
  rw [← qv2'] at hv2
  rw [← qw2'] at hw2
  obtain ⟨b1, g1, t1⟩ := interp3_spec s1.u2 s1.us s1.us2 s1.vs2 s1.ws2 F.u F.u2 F.v2 F.w2
    m n o m n o true cus cus2 cvs2 cws2 hm hn ho hu2
  obtain ⟨b2, g2, t2⟩ := interp3_spec s1.v2 s1.vs s1.us2 s1.vs2 s1.ws2 F.v F.u2 F.v2 F.w2
    m n o m n o true cvs cus2 cvs2 cws2 hm hn ho hv2
  obtain ⟨b3, g3, t3⟩ := interp3_spec s1.w2 s1.ws s1.us2 s1.vs2 s1.ws2 F.w F.u2 F.v2 F.w2
    m n o m n o true cws cus2 cvs2 cws2 hm hn ho hw2
  obtain ⟨s2, f2, r4, r5, r6, yu, yv, yw, yus, yvs, yws, yus2, yvs2, yws2⟩ :=
    consistentMapping.backward_loop (m * n * o) { s1 with u2 := b1, v2 := b2, w2 := b3 }
      F.u2 F.v2 F.w2 (lookupAt F.u F.u2 F.v2 F.w2 m n o) (lookupAt F.v F.u2 F.v2 F.w2 m n o)
      (lookupAt F.w F.u2 F.v2 F.w2 m n o) t1 cus2 t2 cvs2 t3 cws2
  have yu' : s2.u = s1.u := yu
  have yv' : s2.v = s1.v := yv
  have yw' : s2.w = s1.w := yw
  have yus' : s2.us = s1.us := yus
  have yvs' : s2.vs = s1.vs := yvs
  have yws' : s2.ws = s1.ws := yws
  have yus2' : s2.us2 = s1.us2 := yus2
  have yvs2' : s2.vs2 = s1.vs2 := yvs2
  have yws2' : s2.ws2 = s1.ws2 := yws2
  rw [← yu'] at r1
  rw [← yv'] at r2
  rw [← yw'] at r3
  have z1 : s2.us.size = m * n * o := by rw [yus']; exact cus.1
  have z2 : s2.vs.size = m * n * o := by rw [yvs']; exact cvs.1
  have z3 : s2.ws.size = m * n * o := by rw [yws']; exact cws.1
  have z4 : s2.us2.size = m * n * o := by rw [yus2']; exact cus2.1
  have z5 : s2.vs2.size = m * n * o := by rw [yvs2']; exact cvs2.1
  have z6 : s2.ws2.size = m * n * o := by rw [yws2']; exact cws2.1
  obtain ⟨s3, f3, k1, k2, k3, k4, k5, k6, xu, xv, xw, xu2, xv2, xw2⟩ :=
    consistentMapping.copy_loop (m * n * o) s2 _ _ _ _ _ _ z1 r1 z2 r2 z3 r3 z4 r4 z5 r5 z6 r6
  rw [← xu] at r1
  rw [← xv] at r2
  rw [← xw] at r3
  rw [← xu2] at r4
  rw [← xv2] at r5
  rw [← xw2] at r6
  refine ⟨s3, ?_, ⟨r1, r2, r3, r4, r5, r6⟩, ⟨k1, k2, k3, k4, k5, k6⟩⟩
  unfold consistentMapping.round
  simp only [e1, e2, e3, ok_bind, f1, g1, g2, g3, f2, f3]
/-- The ten rounds of `consistentMapping`, started with the copies holding `F`:
afterwards the fields hold the ten-fold simultaneous update of `F`. -/
theorem consistentMapping.rounds_spec (m n o : Nat) (hm : 1 ≤ m) (hn : 1 ≤ n) (ho : 1 ≤ o)
    (s : MapState) (F : FieldPair)
    (hu : s.u.size = m * n * o) (hv : s.v.size = m * n * o) (hw : s.w.size = m * n * o)
    (hu2 : s.u2.size = m * n * o) (hv2 : s.v2.size = m * n * o) (hw2 : s.w2.size = m * n * o)
    (hc : Holds (m * n * o) s.us s.vs s.ws s.us2 s.vs2 s.ws2 F) :
    ∃ s', forLoop (fun _ s => consistentMapping.round m n o s) 0 10 s = Except.ok s' ∧
      Holds (m * n * o) s'.u s'.v s'.w s'.u2 s'.v2 s'.w2 ((symmetricStep m n o)^[10] F) := by
  obtain ⟨s', hs', hI⟩ := forLoop_inv
    (fun t (s : MapState) =>
      (s.u.size = m * n * o ∧ s.v.size = m * n * o ∧ s.w.size = m * n * o ∧
        s.u2.size = m * n * o ∧ s.v2.size = m * n * o ∧ s.w2.size = m * n * o) ∧
      Holds (m * n * o) s.us s.vs s.ws s.us2 s.vs2 s.ws2 ((symmetricStep m n o)^[t] F) ∧
      (0 < t → Holds (m * n * o) s.u s.v s.w s.u2 s.v2 s.w2 ((symmetricStep m n o)^[t] F)))
    (fun _ s => consistentMapping.round m n o s) 10 0 s
    ⟨⟨hu, hv, hw, hu2, hv2, hw2⟩, hc, fun h => absurd h (lt_irrefl _)⟩
    (by
      intro t st _ _ h
      obtain ⟨⟨a1, a2, a3, a4, a5, a6⟩, hcop, _⟩ := h
      obtain ⟨st', e, hf, hcp⟩ := consistentMapping.round_spec m n o hm hn ho st _
        a1 a2 a3 a4 a5 a6 hcop
      rw [← Function.iterate_succ_apply' (symmetricStep m n o) t F] at hf hcp
      exact ⟨st', e, ⟨hf.1.1, hf.2.1.1, hf.2.2.1.1, hf.2.2.2.1.1, hf.2.2.2.2.1.1,
        hf.2.2.2.2.2.1⟩, hcp, fun _ => hf⟩)
  exact ⟨s', hs', hI.2.2 (by decide)⟩

/-- Result of `consistentMapping` on arrays holding the pair of fields `F`: the
run succeeds and the arrays hold the ten-fold simultaneous update of the pair
scaled by `1/factor`, multiplied by `factor`. -/
theorem consistentMapping_spec (u v w u2 v2 w2 : Buf ℚ) (m n o : Nat) (factor : Int)
    (F : FieldPair) (hm : 1 ≤ m) (hn : 1 ≤ n) (ho : 1 ≤ o) (hf : factor ≠ 0)
    (hin : Holds (m * n * o) u v w u2 v2 w2 F) :
    ∃ r, consistentMapping u v w u2 v2 w2 m n o factor = Except.ok r ∧
      Holds (m * n * o) r.u r.v r.w r.u2 r.v2 r.w2
        (((symmetricStep m n o)^[10] (F.scale (1 / (factor : ℚ)))).scale (factor : ℚ)) := by
  obtain ⟨c1, c2, c3, c4, c5, c6⟩ := hin
  obtain ⟨s1, e1, k1, k2, k3, k4, k5, k6, xu, xv, xw, xu2, xv2, xw2⟩ :=
    consistentMapping.scaledCopy_loop (m * n * o) (1 / (factor : ℚ))
      ⟨u, v, w, u2, v2, w2, Buf.new (m * n * o), Buf.new (m * n * o), Buf.new (m * n * o),
        Buf.new (m * n * o), Buf.new (m * n * o), Buf.new (m * n * o)⟩ F.u F.v F.w F.u2 F.v2 F.w2
      rfl c1 rfl c2 rfl c3 rfl c4 rfl c5 rfl c6
  have xu' : s1.u = u := xu
  have xv' : s1.v = v := xv
  have xw' : s1.w = w := xw
  have xu2' : s1.u2 = u2 := xu2
  have xv2' : s1.v2 = v2 := xv2
  have xw2' : s1.w2 = w2 := xw2
  obtain ⟨s2, e2, g1, g2, g3, g4, g5, g6⟩ := consistentMapping.rounds_spec m n o hm hn ho s1
    (F.scale (1 / (factor : ℚ))) (by rw [xu']; exact c1.1) (by rw [xv']; exact c2.1)
    (by rw [xw']; exact c3.1) (by rw [xu2']; exact c4.1) (by rw [xv2']; exact c5.1)
    (by rw [xw2']; exact c6.1) ⟨k1, k2, k3, k4, k5, k6⟩
  obtain ⟨s3, e3, r1, r2, r3, r4, r5, r6, _⟩ := consistentMapping.rescale_loop (m * n * o)
    (factor : ℚ) s2 _ _ _ _ _ _ g1 g2 g3 g4 g5 g6
  refine ⟨s3, ?_, ⟨r1, r2, r3, r4, r5, r6⟩⟩
  unfold consistentMapping
  simp only [if_neg hf, e1, ok_bind, e2]
  exact e3

theorem holds_ofFn (sz : Nat) (F : FieldPair) :
    Holds sz (Buf.ofFn sz F.u) (Buf.ofFn sz F.v) (Buf.ofFn sz F.w) (Buf.ofFn sz F.u2)
      (Buf.ofFn sz F.v2) (Buf.ofFn sz F.w2) F := by
  refine ⟨⟨rfl, ?_⟩, ⟨rfl, ?_⟩, ⟨rfl, ?_⟩, ⟨rfl, ?_⟩, ⟨rfl, ?_⟩, ⟨rfl, ?_⟩⟩ <;>
    intro l hl <;> simp [Buf.ofFn, hl]

/-- Claim C14: on a grid with at least one voxel per axis and a nonzero
`factor`, `consistentMapping` succeeds and returns the ten-fold simultaneous
update `symmetricStep` of the scaled pair of fields, scaled back; and every
round, started with the copies holding a pair `G`, leaves both the fields and
the copies holding `symmetricStep m n o G`: the new forward field is
`0.5*G.u - 0.5*lookup(G.u2 at the voxel displaced by (G.u,G.v,G.w))` and the
new backward field is `0.5*G.u2 - 0.5*lookup(G.u at the voxel displaced by
(G.u2,G.v2,G.w2))`, with `G.u` the forward field of the start of the round. -/
theorem consistentMapping_simultaneous_update (m n o : Nat) (factor : Int) (F : FieldPair)
    (hm : 1 ≤ m) (hn : 1 ≤ n) (ho : 1 ≤ o) (hf : factor ≠ 0) :
    (∃ r, consistentMapping (Buf.ofFn (m * n * o) F.u) (Buf.ofFn (m * n * o) F.v)
        (Buf.ofFn (m * n * o) F.w) (Buf.ofFn (m * n * o) F.u2) (Buf.ofFn (m * n * o) F.v2)
        (Buf.ofFn (m * n * o) F.w2) m n o factor = Except.ok r ∧
      Holds (m * n * o) r.u r.v r.w r.u2 r.v2 r.w2
        (((symmetricStep m n o)^[10] (F.scale (1 / (factor : ℚ)))).scale (factor : ℚ))) ∧
    ∀ (s : MapState) (G : FieldPair),
      s.u.size = m * n * o → s.v.size = m * n * o → s.w.size = m * n * o →
      s.u2.size = m * n * o → s.v2.size = m * n * o → s.w2.size = m * n * o →
      Holds (m * n * o) s.us s.vs s.ws s.us2 s.vs2 s.ws2 G →
      ∃ s', consistentMapping.round m n o s = Except.ok s' ∧
        Holds (m * n * o) s'.u s'.v s'.w s'.u2 s'.v2 s'.w2 (symmetricStep m n o G) ∧
        Holds (m * n * o) s'.us s'.vs s'.ws s'.us2 s'.vs2 s'.ws2 (symmetricStep m n o G) :=
  ⟨consistentMapping_spec _ _ _ _ _ _ m n o factor F hm hn ho hf (holds_ofFn _ F),
    fun s G h1 h2 h3 h4 h5 h6 hc =>
      consistentMapping.round_spec m n o hm hn ho s G h1 h2 h3 h4 h5 h6 hc⟩

/-- Instance of claim C14 on the 2x1x1 grid with `factor = 2`. -/
theorem consistentMapping_simultaneous_update_witness :
    (1 ≤ 2 ∧ 1 ≤ 1 ∧ 1 ≤ 1 ∧ (2 : Int) ≠ 0) ∧
    (∃ r, consistentMapping (Buf.ofFn (2 * 1 * 1) sampleFields.u)
        (Buf.ofFn (2 * 1 * 1) sampleFields.v) (Buf.ofFn (2 * 1 * 1) sampleFields.w)
        (Buf.ofFn (2 * 1 * 1) sampleFields.u2) (Buf.ofFn (2 * 1 * 1) sampleFields.v2)
        (Buf.ofFn (2 * 1 * 1) sampleFields.w2) 2 1 1 2 = Except.ok r ∧
      Holds (2 * 1 * 1) r.u r.v r.w r.u2 r.v2 r.w2
        (((symmetricStep 2 1 1)^[10] (sampleFields.scale (1 / ((2 : Int) : ℚ)))).scale
          ((2 : Int) : ℚ))) ∧
    ∀ (s : MapState) (G : FieldPair),
      s.u.size = 2 * 1 * 1 → s.v.size = 2 * 1 * 1 → s.w.size = 2 * 1 * 1 →
      s.u2.size = 2 * 1 * 1 → s.v2.size = 2 * 1 * 1 → s.w2.size = 2 * 1 * 1 →
      Holds (2 * 1 * 1) s.us s.vs s.ws s.us2 s.vs2 s.ws2 G →
      ∃ s', consistentMapping.round 2 1 1 s = Except.ok s' ∧
        Holds (2 * 1 * 1) s'.u s'.v s'.w s'.u2 s'.v2 s'.w2 (symmetricStep 2 1 1 G) ∧
        Holds (2 * 1 * 1) s'.us s'.vs s'.ws s'.us2 s'.vs2 s'.ws2 (symmetricStep 2 1 1 G) :=
  ⟨⟨by decide, by decide, by decide, by decide⟩,
    consistentMapping_simultaneous_update 2 1 1 2 sampleFields (by decide) (by decide)
      (by decide) (by decide)⟩

/-! ## `consistentMapping`: exchange of the directions and constant translations -/

/-- The simultaneous update commutes with the exchange of the two directions. -/
theorem symmetricStep_swap (m n o : Nat) (F : FieldPair) :
    symmetricStep m n o F.swap = (symmetricStep m n o F).swap := rfl

/-- Scaling commutes with the exchange of the two directions. -/
theorem FieldPair.scale_swap (F : FieldPair) (c : ℚ) : (F.swap).scale c = (F.scale c).swap := rfl

/-- Any number of simultaneous updates commutes with the exchange. -/
theorem symmetricStep_iterate_swap (m n o : Nat) (t : Nat) (F : FieldPair) :
    (symmetricStep m n o)^[t] F.swap = ((symmetricStep m n o)^[t] F).swap := by
  induction t generalizing F with
  | zero => rfl
  | succ t ih =>
    rw [Function.iterate_succ_apply, Function.iterate_succ_apply, symmetricStep_swap, ih]

/-- Arrays holding a pair hold, in exchanged order, the exchanged pair. -/
theorem holds_swap (sz : Nat) (a1 a2 a3 a4 a5 a6 : Buf ℚ) (F : FieldPair)
    (h : Holds sz a1 a2 a3 a4 a5 a6 F) : Holds sz a4 a5 a6 a1 a2 a3 F.swap :=
  ⟨h.2.2.2.1, h.2.2.2.2.1, h.2.2.2.2.2, h.1, h.2.1, h.2.2.1⟩

/-- The trilinear lookup of a constant field is that constant: the eight
weights add up to 1. -/
theorem lookupAt_const (a : ℚ) (fx fy fz : Nat → ℚ) (m n o l : Nat) :
    lookupAt (fun _ => a) fx fy fz m n o l = a := by
  unfold lookupAt interp3.value
  simp only
  ring

/-- A pair of opposite constant translations is a fixed point of the
simultaneous update. -/
theorem symmetricStep_translation (m n o : Nat) (a b c : ℚ) :
    symmetricStep m n o (translationPair a b c) = translationPair a b c := by
  unfold symmetricStep translationPair
  simp only [lookupAt_const]
  congr <;> funext l <;> ring

/-- Scaling a pair of opposite constant translations. -/
theorem translationPair_scale (a b c k : ℚ) :
    (translationPair a b c).scale k = translationPair (a * k) (b * k) (c * k) := by
  unfold FieldPair.scale translationPair
  simp only [neg_mul]

/-- Running `consistentMapping` with the two directions exchanged returns the
exchanged result. -/
theorem consistentMapping_exchange_spec (u v w u2 v2 w2 : Buf ℚ) (m n o : Nat) (factor : Int)
    (F : FieldPair) (hm : 1 ≤ m) (hn : 1 ≤ n) (ho : 1 ≤ o) (hf : factor ≠ 0)
    (hin : Holds (m * n * o) u v w u2 v2 w2 F) :
    ∃ r r', consistentMapping u v w u2 v2 w2 m n o factor = Except.ok r ∧
      consistentMapping u2 v2 w2 u v w m n o factor = Except.ok r' ∧
      (r'.u.size = r.u2.size ∧ r'.v.size = r.v2.size ∧ r'.w.size = r.w2.size ∧
        r'.u2.size = r.u.size ∧ r'.v2.size = r.v.size ∧ r'.w2.size = r.w.size) ∧
      ∀ l, l < m * n * o →
        (∃ x, r'.u.data l = some x ∧ r.u2.data l = some x) ∧
        (∃ x, r'.v.data l = some x ∧ r.v2.data l = some x) ∧
        (∃ x, r'.w.data l = some x ∧ r.w2.data l = some x) ∧
        (∃ x, r'.u2.data l = some x ∧ r.u.data l = some x) ∧
        (∃ x, r'.v2.data l = some x ∧ r.v.data l = some x) ∧
        (∃ x, r'.w2.data l = some x ∧ r.w.data l = some x) := by
  obtain ⟨r, er, h1, h2, h3, h4, h5, h6⟩ :=
    consistentMapping_spec u v w u2 v2 w2 m n o factor F hm hn ho hf hin
  obtain ⟨r', er', g1, g2, g3, g4, g5, g6⟩ :=
    consistentMapping_spec u2 v2 w2 u v w m n o factor F.swap hm hn ho hf
      (holds_swap _ _ _ _ _ _ _ F hin)
  rw [FieldPair.scale_swap, symmetricStep_iterate_swap, FieldPair.scale_swap] at g1 g2 g3 g4 g5 g6
  refine ⟨r, r', er, er', ⟨by rw [g1.1, h4.1], by rw [g2.1, h5.1], by rw [g3.1, h6.1],
    by rw [g4.1, h1.1], by rw [g5.1, h2.1], by rw [g6.1, h3.1]⟩, ?_⟩
  intro l hl
  exact ⟨⟨_, g1.2 l hl, h4.2 l hl⟩, ⟨_, g2.2 l hl, h5.2 l hl⟩, ⟨_, g3.2 l hl, h6.2 l hl⟩,
    ⟨_, g4.2 l hl, h1.2 l hl⟩, ⟨_, g5.2 l hl, h2.2 l hl⟩, ⟨_, g6.2 l hl, h3.2 l hl⟩⟩

/-- A pair of opposite constant translations is returned unchanged by
`consistentMapping`. -/
theorem consistentMapping_translation_spec (u v w u2 v2 w2 : Buf ℚ) (m n o : Nat) (factor : Int)
    (a b c : ℚ) (hm : 1 ≤ m) (hn : 1 ≤ n) (ho : 1 ≤ o) (hf : factor ≠ 0)
    (hin : Holds (m * n * o) u v w u2 v2 w2 (translationPair a b c)) :
    ∃ r, consistentMapping u v w u2 v2 w2 m n o factor = Except.ok r ∧
      Holds (m * n * o) r.u r.v r.w r.u2 r.v2 r.w2 (translationPair a b c) := by
  obtain ⟨r, er, h⟩ :=
    consistentMapping_spec u v w u2 v2 w2 m n o factor _ hm hn ho hf hin
  refine ⟨r, er, ?_⟩
  have hq : (factor : ℚ) ≠ 0 := by exact_mod_cast hf
  rw [translationPair_scale, Function.iterate_fixed (symmetricStep_translation m n o _ _ _),
    translationPair_scale] at h
  have e : ∀ x : ℚ, x * (1 / (factor : ℚ)) * (factor : ℚ) = x := by
    intro x; field_simp
  rw [e, e, e] at h
  exact h

/-- Claim C33: on a grid with at least one voxel per axis and a nonzero
`factor`, for arrays holding any pair of fields, `consistentMapping` returns
both when called on (forward, backward) and when called with the two
directions exchanged, and the two results are each other with the outputs
exchanged: the forward result of the exchanged call is, cell by cell, the
backward result of the original call, and conversely. -/
theorem consistentMapping_exchange (u v w u2 v2 w2 : Buf ℚ) (m n o : Nat) (factor : Int)
    (F : FieldPair) (hm : 1 ≤ m) (hn : 1 ≤ n) (ho : 1 ≤ o) (hf : factor ≠ 0)
    (hin : Holds (m * n * o) u v w u2 v2 w2 F) :
    ∃ r r', consistentMapping u v w u2 v2 w2 m n o factor = Except.ok r ∧
      consistentMapping u2 v2 w2 u v w m n o factor = Except.ok r' ∧
      (r'.u.size = r.u2.size ∧ r'.v.size = r.v2.size ∧ r'.w.size = r.w2.size ∧
        r'.u2.size = r.u.size ∧ r'.v2.size = r.v.size ∧ r'.w2.size = r.w.size) ∧
      ∀ l, l < m * n * o →
        (∃ x, r'.u.data l = some x ∧ r.u2.data l = some x) ∧
        (∃ x, r'.v.data l = some x ∧ r.v2.data l = some x) ∧
        (∃ x, r'.w.data l = some x ∧ r.w2.data l = some x) ∧
        (∃ x, r'.u2.data l = some x ∧ r.u.data l = some x) ∧
        (∃ x, r'.v2.data l = some x ∧ r.v.data l = some x) ∧
        (∃ x, r'.w2.data l = some x ∧ r.w.data l = some x) :=
  consistentMapping_exchange_spec u v w u2 v2 w2 m n o factor F hm hn ho hf hin

/-- Instance of claim C33 on the 2x1x1 grid with `factor = 2`. -/
theorem consistentMapping_exchange_witness :
    ∃ r r', consistentMapping (Buf.ofFn (2 * 1 * 1) sampleFields.u)
        (Buf.ofFn (2 * 1 * 1) sampleFields.v) (Buf.ofFn (2 * 1 * 1) sampleFields.w)
        (Buf.ofFn (2 * 1 * 1) sampleFields.u2) (Buf.ofFn (2 * 1 * 1) sampleFields.v2)
        (Buf.ofFn (2 * 1 * 1) sampleFields.w2) 2 1 1 2 = Except.ok r ∧
      consistentMapping (Buf.ofFn (2 * 1 * 1) sampleFields.u2)
        (Buf.ofFn (2 * 1 * 1) sampleFields.v2) (Buf.ofFn (2 * 1 * 1) sampleFields.w2)
        (Buf.ofFn (2 * 1 * 1) sampleFields.u) (Buf.ofFn (2 * 1 * 1) sampleFields.v)
        (Buf.ofFn (2 * 1 * 1) sampleFields.w) 2 1 1 2 = Except.ok r' ∧
      (r'.u.size = r.u2.size ∧ r'.v.size = r.v2.size ∧ r'.w.size = r.w2.size ∧
        r'.u2.size = r.u.size ∧ r'.v2.size = r.v.size ∧ r'.w2.size = r.w.size) ∧
      ∀ l, l < 2 * 1 * 1 →
        (∃ x, r'.u.data l = some x ∧ r.u2.data l = some x) ∧
        (∃ x, r'.v.data l = some x ∧ r.v2.data l = some x) ∧
        (∃ x, r'.w.data l = some x ∧ r.w2.data l = some x) ∧
        (∃ x, r'.u2.data l = some x ∧ r.u.data l = some x) ∧
        (∃ x, r'.v2.data l = some x ∧ r.v.data l = some x) ∧
        (∃ x, r'.w2.data l = some x ∧ r.w.data l = some x) :=
  consistentMapping_exchange _ _ _ _ _ _ 2 1 1 2 sampleFields (by decide) (by decide)
    (by decide) (by decide) (holds_ofFn _ sampleFields)

/-- Claim C34: on a grid with at least one voxel per axis and a nonzero
`factor` (in particular every `factor >= 1`), arrays holding an exact inverse
pair of constant translations (forward identically `(a,b,c)`, backward
identically `(-a,-b,-c)`) are a fixed point of `consistentMapping`: the run
returns and every cell of the six fields holds the value it held before; in
particular the all-zero pair stays all-zero. -/
theorem consistentMapping_translation_fixed (u v w u2 v2 w2 : Buf ℚ) (m n o : Nat)
    (factor : Int) (a b c : ℚ) (hm : 1 ≤ m) (hn : 1 ≤ n) (ho : 1 ≤ o) (hf : factor ≠ 0)
    (hu : u.size = m * n * o ∧ ∀ l, l < m * n * o → u.data l = some a)
    (hv : v.size = m * n * o ∧ ∀ l, l < m * n * o → v.data l = some b)
    (hw : w.size = m * n * o ∧ ∀ l, l < m * n * o → w.data l = some c)
    (hu2 : u2.size = m * n * o ∧ ∀ l, l < m * n * o → u2.data l = some (-a))
    (hv2 : v2.size = m * n * o ∧ ∀ l, l < m * n * o → v2.data l = some (-b))
    (hw2 : w2.size = m * n * o ∧ ∀ l, l < m * n * o → w2.data l = some (-c)) :
    (∃ r, consistentMapping u v w u2 v2 w2 m n o factor = Except.ok r ∧
      (r.u.size = m * n * o ∧ r.v.size = m * n * o ∧ r.w.size = m * n * o ∧
        r.u2.size = m * n * o ∧ r.v2.size = m * n * o ∧ r.w2.size = m * n * o) ∧
      ∀ l, l < m * n * o →
        r.u.data l = some a ∧ r.v.data l = some b ∧ r.w.data l = some c ∧
        r.u2.data l = some (-a) ∧ r.v2.data l = some (-b) ∧ r.w2.data l = some (-c)) ∧
    ∃ r, consistentMapping (Buf.ofFn (m * n * o) fun _ => 0) (Buf.ofFn (m * n * o) fun _ => 0)
        (Buf.ofFn (m * n * o) fun _ => 0) (Buf.ofFn (m * n * o) fun _ => 0)
        (Buf.ofFn (m * n * o) fun _ => 0) (Buf.ofFn (m * n * o) fun _ => 0) m n o factor
        = Except.ok r ∧
      ∀ l, l < m * n * o →
        r.u.data l = some 0 ∧ r.v.data l = some 0 ∧ r.w.data l = some 0 ∧
        r.u2.data l = some 0 ∧ r.v2.data l = some 0 ∧ r.w2.data l = some 0 := by
  constructor
  · obtain ⟨r, er, h1, h2, h3, h4, h5, h6⟩ := consistentMapping_translation_spec u v w u2 v2 w2
      m n o factor a b c hm hn ho hf ⟨hu, hv, hw, hu2, hv2, hw2⟩
    exact ⟨r, er, ⟨h1.1, h2.1, h3.1, h4.1, h5.1, h6.1⟩,
      fun l hl => ⟨h1.2 l hl, h2.2 l hl, h3.2 l hl, h4.2 l hl, h5.2 l hl, h6.2 l hl⟩⟩
  · have hz : ∀ l, l < m * n * o →
        (Buf.ofFn (m * n * o) fun _ => (0 : ℚ)).data l = some 0 := by
      intro l hl
      simp [Buf.ofFn, hl]
    have hz' : ∀ l, l < m * n * o →
        (Buf.ofFn (m * n * o) fun _ => (0 : ℚ)).data l = some (-0) := by
      intro l hl
      simp [Buf.ofFn, hl]
    obtain ⟨r, er, h1, h2, h3, h4, h5, h6⟩ := consistentMapping_translation_spec
      (Buf.ofFn (m * n * o) fun _ => 0) (Buf.ofFn (m * n * o) fun _ => 0)
      (Buf.ofFn (m * n * o) fun _ => 0) (Buf.ofFn (m * n * o) fun _ => 0)
      (Buf.ofFn (m * n * o) fun _ => 0) (Buf.ofFn (m * n * o) fun _ => 0) m n o factor 0 0 0
      hm hn ho hf ⟨⟨rfl, hz⟩, ⟨rfl, hz⟩, ⟨rfl, hz⟩, ⟨rfl, hz'⟩, ⟨rfl, hz'⟩, ⟨rfl, hz'⟩⟩
    refine ⟨r, er, fun l hl => ⟨h1.2 l hl, h2.2 l hl, h3.2 l hl, ?_, ?_, ?_⟩⟩
    · have := h4.2 l hl
      simpa [translationPair] using this
    · have := h5.2 l hl
      simpa [translationPair] using this
    · have := h6.2 l hl
      simpa [translationPair] using this

/-- Instance of claim C34: the translation `(3/2, 2, 1/3)` and its inverse on
the 2x3x2 grid with `factor = 4`. -/
theorem consistentMapping_translation_fixed_witness :
    (∃ r, consistentMapping (Buf.ofFn (2 * 3 * 2) fun _ => 3 / 2)
        (Buf.ofFn (2 * 3 * 2) fun _ => 2) (Buf.ofFn (2 * 3 * 2) fun _ => 1 / 3)
        (Buf.ofFn (2 * 3 * 2) fun _ => -(3 / 2)) (Buf.ofFn (2 * 3 * 2) fun _ => -2)
        (Buf.ofFn (2 * 3 * 2) fun _ => -(1 / 3)) 2 3 2 4 = Except.ok r ∧
      (r.u.size = 2 * 3 * 2 ∧ r.v.size = 2 * 3 * 2 ∧ r.w.size = 2 * 3 * 2 ∧
        r.u2.size = 2 * 3 * 2 ∧ r.v2.size = 2 * 3 * 2 ∧ r.w2.size = 2 * 3 * 2) ∧
      ∀ l, l < 2 * 3 * 2 →
        r.u.data l = some (3 / 2) ∧ r.v.data l = some 2 ∧ r.w.data l = some (1 / 3) ∧
        r.u2.data l = some (-(3 / 2)) ∧ r.v2.data l = some (-2) ∧
        r.w2.data l = some (-(1 / 3))) ∧
    ∃ r, consistentMapping (Buf.ofFn (2 * 3 * 2) fun _ => 0) (Buf.ofFn (2 * 3 * 2) fun _ => 0)
        (Buf.ofFn (2 * 3 * 2) fun _ => 0) (Buf.ofFn (2 * 3 * 2) fun _ => 0)
        (Buf.ofFn (2 * 3 * 2) fun _ => 0) (Buf.ofFn (2 * 3 * 2) fun _ => 0) 2 3 2 4
        = Except.ok r ∧
      ∀ l, l < 2 * 3 * 2 →
        r.u.data l = some 0 ∧ r.v.data l = some 0 ∧ r.w.data l = some 0 ∧
        r.u2.data l = some 0 ∧ r.v2.data l = some 0 ∧ r.w2.data l = some 0 :=
  consistentMapping_translation_fixed _ _ _ _ _ _ 2 3 2 4 (3 / 2) 2 (1 / 3) (by decide)
    (by decide) (by decide) (by decide)
    ⟨rfl, fun l hl => by simp [Buf.ofFn, hl]⟩ ⟨rfl, fun l hl => by simp [Buf.ofFn, hl]⟩
    ⟨rfl, fun l hl => by simp [Buf.ofFn, hl]⟩ ⟨rfl, fun l hl => by simp [Buf.ofFn, hl]⟩
    ⟨rfl, fun l hl => by simp [Buf.ofFn, hl]⟩ ⟨rfl, fun l hl => by simp [Buf.ofFn, hl]⟩

end Deeds
